import Mathlib

/-!
# Linux 1.2 block buffer cache (fs/buffer.c) and request layer (drivers/block/ll_rw_blk.c)

A shallow embedding of the buffer cache and of the block request layer, and
theorems about them.

## Representation

* A buffer head is named by its number: head `k` (`k ≥ 1`) is the `k`-th head ever
  carved by `get_more_buffer_heads`; `0` is the null pointer.  The heads live in
  the arena `State.b`.
* The intrusive rings threaded through `b_next_free`/`b_prev_free` (one ring per
  `free_list[isize]`, one per `lru_list[nlist]`) are represented by the list of
  their members in `b_next_free` order, starting at the head the anchor points to.
  `b_next_free` and `b_prev_free` of a head are read off the ring the head is
  linked on (`ring_of`); a head on no ring has both pointers null.
* A hash chain (`b_next`/`b_prev`) is the list of its members from the bucket head.
* `unused_list` (singly linked through `b_next_free`) is a list, first element first.
* A device queue (`current_request`, linked through `next`) is the list of request
  slots from the head; slot `NR_REQUEST` stands for the on-stack `plug` of
  `ll_rw_block`.
* `b_this_page` and `b_reqnext` are kept as pointer fields.
* C `int` counters are `Int`; the widths of the fields of `struct buffer_head`
  are not in the sources (fs.h is absent), so `b_count` and the time stamps are
  unbounded naturals; unsigned `long` subtraction is taken modulo `2^32`.

## Execution model

The kernel is non-preemptive; an operation runs to completion except where it
sleeps.  A sleep on a locked buffer ends when the driver completes the transfer
of that buffer (`end_buffer_io`); sleeping for a free request slot and loops
that run out of fuel end a run with `Res.hang`; `panic` ends it with
`Res.panic`.  The page allocator and the drivers are external: the allocator is a
pool of free page frames, a driver's `request_fn` is recorded in
`request_fn_calls`.
-/

namespace Linux12

/-! ## Constants -/

/-- Page size of the i386 port. -/
def PAGE_SIZE : Nat := 4096

/-- Mask selecting the page frame part of an address: `~(PAGE_SIZE-1)` on 32 bits. -/
def PAGE_MASK : Nat := 0xfffff000

/-- Number of supported buffer sizes (`#define NR_SIZES 4`). -/
def NR_SIZES : Nat := 4

/-- Default block size, `BLOCK_SIZE`. -/
def BLOCK_SIZE : Nat := 1024

/-- The device number that marks a head as being on a free list. -/
def B_FREE : Nat := 0xffff

/-- Number of tunable parameters, `N_PARAM`. -/
def N_PARAM : Nat := 9

/-- Size of the request pool, `NR_REQUEST`. -/
def NR_REQUEST : Nat := 64

/-- Number of block majors, `MAX_BLKDEV`. -/
def MAX_BLKDEV : Nat := 23

/-- Largest `unsigned int`. -/
def UINT_MAX : Nat := 4294967295

/-- Page frame number of an address, `MAP_NR`. -/
def MAP_NR (addr : Nat) : Nat := addr >>> 12

/-- Major number of a device. -/
def MAJOR (dev : Nat) : Nat := dev >>> 8

/-- Minor number of a device. -/
def MINOR (dev : Nat) : Nat := dev &&& 0xff

/-- The table `buffersize_index[9]`; an index past the table reads as invalid. -/
def buffersize_index (k : Nat) : Int :=
  match k with
  | 1 => 0
  | 2 => 1
  | 4 => 2
  | 8 => 3
  | _ => -1

/-- The table `bufferindex_size[NR_SIZES]`. -/
def bufferindex_size (i : Int) : Nat :=
  if i = 0 then 512 else if i = 1 then 1024 else if i = 2 then 2048 else if i = 3 then 4096 else 0

/-- The macro `BUFSIZE_INDEX(X)`. -/
def BUFSIZE_INDEX (x : Nat) : Int := buffersize_index (x >>> 9)

/-- The disposition lists (`BUF_CLEAN` .. `BUF_SHARED` of fs.h). -/
inductive BufList where
  | BUF_CLEAN
  | BUF_UNSHARED
  | BUF_LOCKED
  | BUF_LOCKED1
  | BUF_DIRTY
  | BUF_SHARED
  deriving DecidableEq, Repr

open BufList

/-- Modelled from the spec: fs.h is absent; the lists in index order `0 .. NR_LIST-1`
(CLEAN, UNSHARED, LOCKED, LOCKED1, DIRTY, SHARED). -/
def ALL_LISTS : List BufList :=
  [BUF_CLEAN, BUF_UNSHARED, BUF_LOCKED, BUF_LOCKED1, BUF_DIRTY, BUF_SHARED]

/-- Commands of the request layer. -/
inductive Rw where
  | READ
  | WRITE
  | READA
  | WRITEA
  deriving DecidableEq, Repr

/-- Numeric value of a command (`READ 0`, `WRITE 1`, `READA 2`, `WRITEA 3`). -/
def Rw.val : Rw → Nat
  | .READ => 0
  | .WRITE => 1
  | .READA => 2
  | .WRITEA => 3

/-- Messages written with `printk`. -/
inductive Kmsg where
  | wrong_blocksize (dev : Nat)
  | brelse_free_free
  | bdflush_not_running
  | grow_buffers_size (size : Nat)
  | weird_buffer (nlist : BufList) (dev block : Nat)
  | dirty_not_on_dirty_list (ncount : Int)
  | dirty_list_empty (i : Nat)
  | nonexistent_device (dev block : Nat)
  | only_blocks_implemented (correct size : Nat)
  | read_only_device (dev : Nat)
  | bad_command
  | bread_error (dev : Nat)
  | stray_dirty (nlist : BufList) (dev block : Nat)
  | free_free_memory
  deriving DecidableEq, Repr

/-- Reasons for `panic`. -/
inductive Panic where
  | lru_block_list_corrupted
  | lru_list_corrupted
  | free_block_list_corrupted
  | free_list_corrupted
  | free_list_empty
  | wrong_block_for_lru_list
  | buffer_lru_pointers_corrupted
  | here_is_the_problem
  | here_is_another_problem
  | busy_buffer_in_candidate_list
  | shared_buffer_in_candidate_list
  | badness_in_candidate_list
  | wrong_list
  | refile_free_buffer
  | get_request_impossible
  | no_free_list_at_boot
  | invalid_blocksize
  deriving DecidableEq, Repr

/-! ## Data -/

/-- The buffer descriptor, `struct buffer_head`, without its ring and chain links
(see the representation notes). -/
structure buffer_head where
  b_data : Nat := 0
  b_size : Nat := 0
  b_blocknr : Nat := 0
  b_dev : Nat := 0
  b_count : Nat := 0
  b_uptodate : Bool := false
  b_dirt : Bool := false
  b_lock : Bool := false
  b_req : Bool := false
  b_list : BufList := BUF_CLEAN
  b_flushtime : Nat := 0
  b_lru_time : Nat := 0
  b_wait : Bool := false
  b_this_page : Nat := 0
  b_reqnext : Nat := 0
  deriving DecidableEq, Repr

/-- One slot of the request pool, `struct request`, without `next`. -/
structure request where
  dev : Int := -1
  cmd : Nat := 0
  errors : Nat := 0
  sector : Nat := 0
  nr_sectors : Nat := 0
  current_nr_sectors : Nat := 0
  buffer : Nat := 0
  sem : Bool := false
  bh : Nat := 0
  bhtail : Nat := 0
  deriving DecidableEq, Repr

/-- The globals of buffer.c and ll_rw_blk.c together with the external
collaborators (page allocator, clock, drivers). -/
structure State where
  b : Nat → buffer_head := fun _ => {}
  nr_hash : Nat := 0
  hash_table : Nat → List Nat := fun _ => []
  buffer_pages : Nat → Nat := fun _ => 0
  lru_list : BufList → List Nat := fun _ => []
  free_list : Int → List Nat := fun _ => []
  unused_list : List Nat := []
  nr_buffers : Int := 0
  nr_buffers_type : BufList → Int := fun _ => 0
  nr_buffers_size : Int → Int := fun _ => 0
  nr_buffers_st : Int → BufList → Int := fun _ _ => 0
  buffer_usage : Int → Int := fun _ => 0
  buffers_lav : Int → Int := fun _ => 0
  nr_free : Int → Int := fun _ => 0
  buffermem : Int := 0
  nr_buffer_heads : Nat := 0
  bdf_prm : Nat → Int := fun _ => 0
  bdflush_running : Int := 0
  jiffies : Nat := 0
  mem_map : Nat → Nat := fun _ => 0
  page_pool : List Nat := []
  min_free_pages : Nat := 0
  sizeof_buffer_head : Nat := 64
  high_memory : Nat := 0
  all_requests : Nat → request := fun _ => {}
  prev_found : Nat := 0
  prev_limit : Option Nat := none
  request_fn : Nat → Bool := fun _ => false
  current_request : Nat → List Nat := fun _ => []
  request_fn_calls : List Nat := []
  ro_bits : Nat → Nat → Nat := fun _ _ => 0
  blk_size : Nat → Option (Nat → Int) := fun _ => none
  blksize_size : Nat → Option (Nat → Nat) := fun _ => none
  read_ahead : Nat → Nat := fun _ => 0
  config_blk_dev_hd : Bool := false
  pgpgin : Nat := 0
  pgpgout : Nat := 0
  dk_drive : Nat → Nat := fun _ => 0
  disk_ok : Nat → Nat → Bool := fun _ _ => true
  klog : List Kmsg := []

/-- Outcome of running kernel code: it returns, the kernel panics, or the caller
never comes back (it sleeps for an event outside the model, or a loop ran out of
fuel). -/
inductive Res (α : Type) where
  | ok (a : α) (s : State)
  | panic (p : Panic)
  | hang

/-- Kernel code: a state transformer with panics. -/
def K (α : Type) : Type := State → Res α

/-- Sequencing of kernel code. -/
def K.bind {α β : Type} (m : K α) (f : α → K β) : K β := fun s =>
  match m s with
  | .ok a s' => f a s'
  | .panic p => .panic p
  | .hang => .hang

/-- Returning a value. -/
def K.pure {α : Type} (a : α) : K α := fun s => .ok a s

instance : Monad K where
  pure := K.pure
  bind := K.bind

/-- The call `panic(...)`. -/
def kpanic {α : Type} (p : Panic) : K α := fun _ => .panic p

/-- The caller never returns. -/
def khang {α : Type} : K α := fun _ => .hang

/-- Read the whole state. -/
def getS : K State := fun s => .ok s s

/-- Apply a state update. -/
def modS (f : State → State) : K Unit := fun s => .ok () (f s)

/-- The call `printk(...)`. -/
def printk (m : Kmsg) : K Unit := modS fun s => { s with klog := s.klog ++ [m] }

/-- Update of one entry of a table. -/
def upd {ι α : Type} [DecidableEq ι] (f : ι → α) (i : ι) (v : α) : ι → α :=
  fun j => if j = i then v else f j

/-- Update of one buffer head. -/
def setB (bh : Nat) (f : buffer_head → buffer_head) : K Unit :=
  modS fun s => { s with b := upd s.b bh (f (s.b bh)) }

/-- Update of one request slot. -/
def setR (req : Nat) (f : request → request) : K Unit :=
  modS fun s => { s with all_requests := upd s.all_requests req (f (s.all_requests req)) }

/-! ## Rings -/

/-- Successor of `x` on the ring `l`, null when `x` is not on it. -/
def ring_next (l : List Nat) (x : Nat) : Nat :=
  match l.dropWhile (fun y => y != x) with
  | [] => 0
  | [_] => l.headD 0
  | _ :: y :: _ => y

/-- Predecessor of `x` on the ring `l`, null when `x` is not on it. -/
def ring_prev (l : List Nat) (x : Nat) : Nat :=
  if l.contains x then
    match l.takeWhile (fun y => y != x) with
    | [] => l.getLastD 0
    | t => t.getLastD 0
  else 0

/-- Unlinking `x` from the ring `l`. -/
def ring_remove (l : List Nat) (x : Nat) : List Nat := l.filter (fun y => y != x)

/-- The ring `l` read from `x`: the anchor is moved to `x` (no change when `x` is not
on the ring). -/
def ring_set_head (l : List Nat) (x : Nat) : List Nat :=
  l.dropWhile (fun y => y != x) ++ l.takeWhile (fun y => y != x)

/-- Linking `x` right behind `p` on the ring `l`. -/
def ring_insert_after (l : List Nat) (p x : Nat) : List Nat :=
  l.takeWhile (fun y => y != p) ++
    (match l.dropWhile (fun y => y != p) with
     | [] => [x]
     | q :: t => q :: x :: t)

/-- The ring a head is linked on, found through its `b_dev` and `b_list`. -/
def ring_of (s : State) (bh : Nat) : List Nat :=
  if (s.b bh).b_dev = B_FREE then s.free_list (BUFSIZE_INDEX (s.b bh).b_size)
  else s.lru_list (s.b bh).b_list

/-- The pointer `bh->b_next_free`. -/
def b_next_free (s : State) (bh : Nat) : Nat := ring_next (ring_of s bh) bh

/-- The pointer `bh->b_prev_free`. -/
def b_prev_free (s : State) (bh : Nat) : Nat := ring_prev (ring_of s bh) bh

/-- The hash function `_hashfn(dev,block)`. -/
def _hashfn (s : State) (dev block : Nat) : Nat := (dev ^^^ block) % s.nr_hash

/-- C integer division (truncation toward zero). -/
def cdiv (a b : Int) : Int := Int.tdiv a b

/-- Difference of two `unsigned long` values. -/
def usub (a b : Nat) : Nat := (a + 4294967296 - b % 4294967296) % 4294967296

/-! ## Tunable parameters (`bdf_prm`) -/

/-- Initial parameter block `bdf_prm = 25, 500, 64, 256, 15, 3000, 500, 1884, 2`. -/
def bdf_prm_init (i : Nat) : Int :=
  match i with
  | 0 => 25
  | 1 => 500
  | 2 => 64
  | 3 => 256
  | 4 => 15
  | 5 => 3000
  | 6 => 500
  | 7 => 1884
  | 8 => 2
  | _ => 0

/-- Field `b_un.nfract`. -/
def State.nfract (s : State) : Int := s.bdf_prm 0

/-- Field `b_un.ndirty`. -/
def State.ndirty (s : State) : Int := s.bdf_prm 1

/-- Field `b_un.nrefill`. -/
def State.nrefill (s : State) : Int := s.bdf_prm 2

/-- Field `b_un.age_buffer`. -/
def State.age_buffer (s : State) : Int := s.bdf_prm 5

/-- Field `b_un.age_super`. -/
def State.age_super (s : State) : Int := s.bdf_prm 6

/-- Field `b_un.lav_const`. -/
def State.lav_const (s : State) : Int := s.bdf_prm 7

/-- The kernel variable `nr_free_pages`, kept by the page allocator. -/
def State.nr_free_pages (s : State) : Nat := s.page_pool.length

/-! ## External collaborators -/

/-- Allocation priorities of the page allocator. -/
inductive Gfp where
  | GFP_BUFFER
  | GFP_ATOMIC
  | GFP_KERNEL
  | GFP_NOBUFFER
  deriving DecidableEq, Repr

/-- Modelled from the spec: the page-frame source `alloc_page() → page | failure`
(mm/swap.c is absent).  A page is handed out with use count 1 while the pool
lasts; `0` is failure. -/
def __get_free_page (_pri : Gfp) : K Nat := fun s =>
  match s.page_pool with
  | [] => .ok 0 s
  | p :: rest => .ok p { s with page_pool := rest, mem_map := upd s.mem_map (MAP_NR p) 1 }

/-- Modelled from the spec: `free_page(page)` of the page-frame source: one user
less, and the frame goes back to the pool when nobody uses it. -/
def free_page (addr : Nat) : K Unit := fun s =>
  if s.mem_map (MAP_NR addr) = 0 then printk .free_free_memory s
  else if s.mem_map (MAP_NR addr) = 1 then
    .ok () { s with mem_map := upd s.mem_map (MAP_NR addr) 0, page_pool := s.page_pool ++ [addr] }
  else .ok () { s with mem_map := upd s.mem_map (MAP_NR addr) (s.mem_map (MAP_NR addr) - 1) }

/-- Modelled from the spec: the driver's completion entry points (§6): the content
is marked valid, `locked` is cleared and the waiters are woken; on an I/O error
`uptodate` is left as it is.  `disk_ok dev block` tells whether the transfer of a
block succeeds. -/
def end_buffer_io (bh : Nat) : K Unit := fun s =>
  setB bh (fun h =>
    { h with b_uptodate := if s.disk_ok h.b_dev h.b_blocknr then true else h.b_uptodate,
             b_lock := false }) s

/-! ## fs/buffer.c: waiting -/

/-- The function `__wait_on_buffer`: `schedule()` returns when the driver has
completed the transfer of the buffer. -/
def __wait_on_buffer (bh : Nat) : K Unit := do
  setB bh fun h => { h with b_count := h.b_count + 1 }
  let s ← getS
  if (s.b bh).b_lock then end_buffer_io bh else pure ()
  setB bh fun h => { h with b_count := h.b_count - 1 }

/-- Modelled from the spec: `wait_on_buffer` of locks.h (absent): wait for the lock
of the buffer to clear. -/
def wait_on_buffer (bh : Nat) : K Unit := do
  let s ← getS
  if (s.b bh).b_lock then __wait_on_buffer bh else pure ()

/-- Modelled from the spec: `lock_buffer` of locks.h (absent): wait for the lock to
clear, then take it. -/
def lock_buffer (bh : Nat) : K Unit := do
  let s ← getS
  if (s.b bh).b_lock then __wait_on_buffer bh else pure ()
  setB bh fun h => { h with b_lock := true }

/-- Modelled from the spec: `unlock_buffer` of locks.h (absent): clear the lock and
wake the waiters. -/
def unlock_buffer (bh : Nat) : K Unit :=
  setB bh fun h => { h with b_lock := false }

/-! ## fs/buffer.c: queues -/

/-- The function `remove_from_hash_queue`: `bh` is unlinked from its neighbours, and
the bucket `hash(b_dev,b_blocknr)` is moved on when it pointed to `bh`. -/
def remove_from_hash_queue (bh : Nat) : K Unit := modS fun s =>
  let k := _hashfn s (s.b bh).b_dev (s.b bh).b_blocknr
  { s with hash_table := fun j =>
      if j = k then ring_remove (s.hash_table j) bh
      else match s.hash_table j with
        | [] => []
        | h :: t => if h = bh then [bh] else h :: ring_remove t bh }

/-- The function `remove_from_lru_list`. -/
def remove_from_lru_list (bh : Nat) : K Unit := do
  let s ← getS
  if b_prev_free s bh = 0 ∨ b_next_free s bh = 0 then kpanic .lru_block_list_corrupted
  else if (s.b bh).b_dev = B_FREE then kpanic .lru_list_corrupted
  else modS fun s =>
    { s with lru_list := upd s.lru_list (s.b bh).b_list (ring_remove (s.lru_list (s.b bh).b_list) bh) }

/-- The function `remove_from_free_list`. -/
def remove_from_free_list (bh : Nat) : K Unit := do
  let s ← getS
  let isize := BUFSIZE_INDEX (s.b bh).b_size
  if b_prev_free s bh = 0 ∨ b_next_free s bh = 0 then kpanic .free_block_list_corrupted
  else if (s.b bh).b_dev ≠ B_FREE then kpanic .free_list_corrupted
  else if s.free_list isize = [] then kpanic .free_list_empty
  else modS fun s =>
    { s with nr_free := upd s.nr_free isize (s.nr_free isize - 1),
             free_list := upd s.free_list isize (ring_remove (s.free_list isize) bh) }

/-- The function `remove_from_queues`. -/
def remove_from_queues (bh : Nat) : K Unit := do
  let s ← getS
  if (s.b bh).b_dev = B_FREE then remove_from_free_list bh
  else do
    let l := (s.b bh).b_list
    let isize := BUFSIZE_INDEX (s.b bh).b_size
    modS fun s =>
      { s with nr_buffers_type := upd s.nr_buffers_type l (s.nr_buffers_type l - 1),
               nr_buffers_st := upd s.nr_buffers_st isize (upd (s.nr_buffers_st isize) l (s.nr_buffers_st isize l - 1)) }
    remove_from_hash_queue bh
    remove_from_lru_list bh

/-- The function `put_last_lru`. -/
def put_last_lru (bh : Nat) : K Unit := do
  let s ← getS
  let l := (s.b bh).b_list
  if bh = 0 then pure ()
  else if bh = (s.lru_list l).headD 0 then
    modS fun s =>
      { s with lru_list := upd s.lru_list l (ring_set_head (s.lru_list l) (b_next_free s bh)) }
  else if (s.b bh).b_dev = B_FREE then kpanic .wrong_block_for_lru_list
  else do
    remove_from_lru_list bh
    modS fun s => { s with lru_list := upd s.lru_list l (s.lru_list l ++ [bh]) }

/-- The function `put_last_free`. -/
def put_last_free (bh : Nat) : K Unit := do
  let s ← getS
  let isize := BUFSIZE_INDEX (s.b bh).b_size
  if bh = 0 then pure ()
  else do
    setB bh fun h => { h with b_dev := B_FREE }
    modS fun s =>
      { s with nr_free := upd s.nr_free isize (s.nr_free isize + 1),
               free_list := upd s.free_list isize (s.free_list isize ++ [bh]) }

/-- The function `insert_into_queues`. -/
def insert_into_queues (bh : Nat) : K Unit := do
  let s ← getS
  let l := (s.b bh).b_list
  let isize := BUFSIZE_INDEX (s.b bh).b_size
  if (s.b bh).b_dev = B_FREE then put_last_free bh
  else if b_next_free s bh ≠ 0 then kpanic .buffer_lru_pointers_corrupted
  else do
    modS fun s =>
      { s with lru_list := upd s.lru_list l (s.lru_list l ++ [bh]),
               nr_buffers_type := upd s.nr_buffers_type l (s.nr_buffers_type l + 1),
               nr_buffers_st := upd s.nr_buffers_st isize (upd (s.nr_buffers_st isize) l (s.nr_buffers_st isize l + 1)) }
    if (s.b bh).b_dev = 0 then pure ()
    else modS fun s =>
      let k := _hashfn s (s.b bh).b_dev (s.b bh).b_blocknr
      { s with hash_table := upd s.hash_table k (bh :: s.hash_table k) }

/-- The loop of `find_buffer` over one hash chain. -/
def find_buffer_loop (dev block size : Nat) : List Nat → K Nat
  | [] => pure 0
  | tmp :: rest => do
    let s ← getS
    if (s.b tmp).b_dev = dev ∧ (s.b tmp).b_blocknr = block then
      if (s.b tmp).b_size = size then pure tmp
      else do
        printk (.wrong_blocksize dev)
        pure 0
    else find_buffer_loop dev block size rest

/-- The function `find_buffer`. -/
def find_buffer (dev block size : Nat) : K Nat := do
  let s ← getS
  find_buffer_loop dev block size (s.hash_table (_hashfn s dev block))

/-- The function `get_hash_table`; one unit of fuel per turn of its `for (;;)`. -/
def get_hash_table : Nat → Nat → Nat → Nat → K Nat
  | 0, _, _, _ => khang
  | fuel + 1, dev, block, size => do
    let bh ← find_buffer dev block size
    if bh = 0 then pure 0
    else do
      setB bh fun h => { h with b_count := h.b_count + 1 }
      wait_on_buffer bh
      let s ← getS
      if (s.b bh).b_dev = dev ∧ (s.b bh).b_blocknr = block ∧ (s.b bh).b_size = size then pure bh
      else do
        setB bh fun h => { h with b_count := h.b_count - 1 }
        get_hash_table fuel dev block size

/-- The function `set_writetime`.  The sum of `jiffies` and the age is stored in the
`int newtime` and compared with the `unsigned long b_flushtime`: both as 32-bit values. -/
def set_writetime (buf : Nat) (flag : Int) : K Unit := do
  let s ← getS
  if (s.b buf).b_dirt then
    let newtime : Int :=
      ((s.jiffies : Int) + (if flag ≠ 0 then s.age_super else s.age_buffer)) % 4294967296
    if (s.b buf).b_flushtime = 0 ∨ ((s.b buf).b_flushtime : Int) % 4294967296 > newtime then
      setB buf fun h => { h with b_flushtime := newtime.toNat }
    else pure ()
  else setB buf fun h => { h with b_flushtime := 0 }

/-! ## fs/buffer.c: buffer heads and pages -/

/-- The function `put_unused_buffer_head`: the head is cleared but for its wait queue
and pushed on `unused_list`. -/
def put_unused_buffer_head (bh : Nat) : K Unit := modS fun s =>
  { s with b := upd s.b bh { b_wait := (s.b bh).b_wait },
           unused_list := bh :: s.unused_list }

/-- The function `get_more_buffer_heads`: a cleared page is cut into
`PAGE_SIZE/sizeof(struct buffer_head)` heads, pushed on `unused_list` in address
order. -/
def get_more_buffer_heads : K Unit := do
  let s ← getS
  if s.unused_list ≠ [] then pure ()
  else do
    let bh ← __get_free_page .GFP_BUFFER
    if bh = 0 then pure ()
    else modS fun s =>
      let i := PAGE_SIZE / s.sizeof_buffer_head
      { s with nr_buffer_heads := s.nr_buffer_heads + i,
               b := fun k => if s.nr_buffer_heads < k ∧ k ≤ s.nr_buffer_heads + i then {} else s.b k,
               unused_list := ((List.range i).map fun j => s.nr_buffer_heads + i - j) ++ s.unused_list }

/-- The function `get_unused_buffer_head`. -/
def get_unused_buffer_head : K Nat := do
  get_more_buffer_heads
  let s ← getS
  match s.unused_list with
  | [] => pure 0
  | bh :: rest => do
    modS fun s =>
      { s with unused_list := rest,
               b := upd s.b bh { (s.b bh) with b_data := 0, b_size := 0, b_req := false } }
    pure bh

/-- The `no_grow` exit of `create_buffers`: the heads got so far are given back. -/
def create_buffers_no_grow : Nat → Nat → K Unit
  | 0, _ => khang
  | fuel + 1, bh =>
    if bh = 0 then pure ()
    else do
      let s ← getS
      put_unused_buffer_head bh
      create_buffers_no_grow fuel (s.b bh).b_this_page

/-- The loop of `create_buffers`; `offset` is an `unsigned long`. -/
def create_buffers_loop (page size : Nat) : Nat → Nat → Nat → K Nat
  | 0, _, _ => khang
  | fuel + 1, offset, head =>
    if usub offset size < PAGE_SIZE then do
      let bh ← get_unused_buffer_head
      if bh = 0 then do
        create_buffers_no_grow (fuel + 1) head
        pure 0
      else do
        setB bh fun h =>
          { h with b_this_page := head, b_data := page + usub offset size, b_size := size,
                   b_dev := B_FREE }
        create_buffers_loop page size fuel (usub offset size) bh
    else pure head

/-- The function `create_buffers`. -/
def create_buffers (fuel page size : Nat) : K Nat :=
  create_buffers_loop page size fuel PAGE_SIZE 0

/-- The linking loop of `grow_buffers`; returns the last head of the page. -/
def grow_buffers_loop (isize : Int) : Nat → Nat → Nat → K Nat
  | 0, _, _ => khang
  | fuel + 1, tmp, insert_point => do
    modS fun s =>
      { s with nr_free := upd s.nr_free isize (s.nr_free isize + 1),
               free_list := upd s.free_list isize (if insert_point ≠ 0 then ring_insert_after (s.free_list isize) insert_point tmp else [tmp]),
               nr_buffers := s.nr_buffers + 1 }
    let s ← getS
    if (s.b tmp).b_this_page ≠ 0 then grow_buffers_loop isize fuel (s.b tmp).b_this_page tmp
    else pure tmp

/-- The function `grow_buffers`. -/
def grow_buffers (fuel : Nat) (pri : Gfp) (size : Nat) : K Int := do
  if size &&& 511 ≠ 0 ∨ size > PAGE_SIZE then do
    printk (.grow_buffers_size size)
    pure 0
  else do
    let isize := BUFSIZE_INDEX size
    let page ← __get_free_page pri
    if page = 0 then pure 0
    else do
      let bh ← create_buffers fuel page size
      if bh = 0 then do
        free_page page
        pure 0
      else do
        let s ← getS
        let tmp ← grow_buffers_loop isize fuel bh ((s.free_list isize).headD 0)
        modS fun s =>
          { s with free_list := upd s.free_list isize (ring_set_head (s.free_list isize) bh),
                   buffer_pages := upd s.buffer_pages (MAP_NR page) bh,
                   b := upd s.b tmp { (s.b tmp) with b_this_page := bh },
                   buffermem := s.buffermem + PAGE_SIZE }
        pure 1

/-- The test of `try_to_free` on one sibling. -/
def try_to_free_busy (h : buffer_head) : Bool :=
  h.b_count != 0 || h.b_dirt || h.b_lock || h.b_wait

/-- First loop of `try_to_free`: is some buffer of the page in use?  Returns `true`
when the walk came back to `bh` with every buffer idle. -/
def try_to_free_idle (s : State) (bh : Nat) : Nat → Nat → Option Bool
  | 0, _ => none
  | fuel + 1, tmp =>
    if tmp = 0 then some false
    else if try_to_free_busy (s.b tmp) then some false
    else if (s.b tmp).b_this_page = bh then some true
    else try_to_free_idle s bh fuel (s.b tmp).b_this_page

/-- Second loop of `try_to_free`: every buffer of the page is unlinked and its head
given back; the second component follows `*bhp`. -/
def try_to_free_loop (isize : Int) (bh : Nat) : Nat → Nat → Nat → K Nat
  | 0, _, _ => khang
  | fuel + 1, tmp, bhp => do
    let s ← getS
    let p := tmp
    let tmp := (s.b p).b_this_page
    modS fun s =>
      { s with nr_buffers := s.nr_buffers - 1,
               nr_buffers_size := upd s.nr_buffers_size isize (s.nr_buffers_size isize - 1) }
    let bhp := if p = bhp then (if p = b_prev_free s p then 0 else b_prev_free s p) else bhp
    remove_from_queues p
    put_unused_buffer_head p
    if tmp ≠ bh then try_to_free_loop isize bh fuel tmp bhp
    else pure bhp

/-- The function `try_to_free`; the result is the return value and `*bhp`. -/
def try_to_free (fuel : Nat) (bh : Nat) : K (Int × Nat) := do
  let s ← getS
  let isize := BUFSIZE_INDEX (s.b bh).b_size
  let page := (s.b bh).b_data &&& PAGE_MASK
  match try_to_free_idle s bh fuel bh with
  | none => khang
  | some false => pure (0, bh)
  | some true => do
    let bhp ← try_to_free_loop isize bh fuel bh bh
    modS fun s =>
      { s with buffermem := s.buffermem - PAGE_SIZE,
               buffer_pages := upd s.buffer_pages (MAP_NR page) 0 }
    free_page page
    let s ← getS
    pure (if s.mem_map (MAP_NR page) = 0 then 1 else 0, bhp)

/-! ## drivers/block/ll_rw_blk.c -/

/-- Major numbers used by the request layer (major.h is absent; the table
`blk_dev` of ll_rw_blk.c names 2 fd, 3 ide0 or hd, 8 sd, 9 st, 22 ide1). -/
def FLOPPY_MAJOR : Nat := 2

/-- Major of the first IDE interface, the same as `HD_MAJOR`. -/
def IDE0_MAJOR : Nat := 3

/-- Major of the old hard disk driver. -/
def HD_MAJOR : Nat := 3

/-- Major of SCSI disks. -/
def SCSI_DISK_MAJOR : Nat := 8

/-- Major of SCSI tapes. -/
def SCSI_TAPE_MAJOR : Nat := 9

/-- Major of SCSI CD-ROMs. -/
def SCSI_CDROM_MAJOR : Nat := 11

/-- Major of XT disks. -/
def XT_DISK_MAJOR : Nat := 13

/-- Major of generic SCSI devices. -/
def SCSI_GENERIC_MAJOR : Nat := 21

/-- Major of the second IDE interface. -/
def IDE1_MAJOR : Nat := 22

/-- The macro `scsi_major(M)` of blk.h. -/
def scsi_major (m : Nat) : Bool :=
  m == SCSI_DISK_MAJOR || m == SCSI_TAPE_MAJOR || m == SCSI_CDROM_MAJOR || m == SCSI_GENERIC_MAJOR

/-- The slot that stands for the on-stack request `plug` of `ll_rw_block`. -/
def PLUG : Nat := NR_REQUEST

/-- Modelled from the spec: the macro `IN_ORDER(s1,s2)` of blk.h (absent): read
before write, then ascending device number, then ascending starting sector. -/
def IN_ORDER (s1 s2 : request) : Bool :=
  decide (s1.cmd < s2.cmd) ||
    (s1.cmd == s2.cmd &&
      (decide (s1.dev < s2.dev) || (s1.dev == s2.dev && decide (s1.sector < s2.sector))))

/-- The call `(dev->request_fn)()`: the driver is told to look at its queue. -/
def call_request_fn (major : Nat) : K Unit :=
  modS fun s => { s with request_fn_calls := s.request_fn_calls ++ [major] }

/-- Modelled from the spec: `mark_buffer_clean` of fs.h (absent): the dirty flag is
cleared and a buffer of the DIRTY list is re-filed (comment at ll_rw_blk.c:366). -/
def mark_buffer_clean (refile_buffer : Nat → K Unit) (bh : Nat) : K Unit := do
  let s ← getS
  if (s.b bh).b_dirt then do
    setB bh fun h => { h with b_dirt := false }
    if (s.b bh).b_list = BUF_DIRTY then refile_buffer bh else pure ()
  else pure ()

/-- The search loop of `get_request`, from slot `req` downwards and around. -/
def get_request_loop (n prev_found : Nat) : Nat → Nat → K (Option Nat)
  | 0, _ => khang
  | fuel + 1, req => do
    let s ← getS
    let req := (if req > 0 then req else n) - 1
    if (s.all_requests req).dev < 0 then pure (some req)
    else if req = prev_found then pure none
    else get_request_loop n prev_found fuel req

/-- The function `get_request`; `none` is the null pointer. -/
def get_request (fuel n : Nat) (dev : Int) : K (Option Nat) := do
  if n = 0 then kpanic .get_request_impossible
  else do
    let s ← getS
    if s.prev_limit ≠ some n then
      modS fun s => { s with prev_limit := some n, prev_found := 0 }
    else pure ()
    let s ← getS
    let r ← get_request_loop n s.prev_found fuel s.prev_found
    match r with
    | none => pure none
    | some req => do
      modS fun s => { s with prev_found := req }
      setR req fun r => { r with dev := dev }
      pure (some req)

/-- The function `is_read_only`. -/
def is_read_only (s : State) (dev : Nat) : Nat :=
  if MAJOR dev ≥ MAX_BLKDEV then 0
  else s.ro_bits (MAJOR dev) (MINOR dev >>> 5) &&& (1 <<< (MINOR dev &&& 31))

/-- The elevator walk of `add_request`: `tmp` is the request looked at, the list
is what follows it. -/
def add_request_insert (s : State) (req : Nat) : Nat → List Nat → List Nat
  | _, [] => [req]
  | tmp, nxt :: more =>
    if (IN_ORDER (s.all_requests tmp) (s.all_requests req) ||
          !IN_ORDER (s.all_requests tmp) (s.all_requests nxt)) &&
        IN_ORDER (s.all_requests req) (s.all_requests nxt) then
      req :: nxt :: more
    else nxt :: add_request_insert s req nxt more

/-- The disk statistics kept by `add_request`. -/
def add_request_kstat (rdev : Nat) : K Unit := modS fun s =>
  if MAJOR rdev = SCSI_DISK_MAJOR then
    let disk_index := (MINOR rdev &&& 0x0070) >>> 4
    if disk_index < 4 then { s with dk_drive := upd s.dk_drive disk_index (s.dk_drive disk_index + 1) }
    else s
  else if MAJOR rdev = HD_MAJOR ∨ MAJOR rdev = XT_DISK_MAJOR then
    let disk_index := (MINOR rdev &&& 0x0040) >>> 6
    { s with dk_drive := upd s.dk_drive disk_index (s.dk_drive disk_index + 1) }
  else if MAJOR rdev = IDE1_MAJOR then
    let disk_index := ((MINOR rdev &&& 0x0040) >>> 6) + 2
    { s with dk_drive := upd s.dk_drive disk_index (s.dk_drive disk_index + 1) }
  else s

/-- The function `add_request`; the device is named by its major. -/
def add_request (refile_buffer : Nat → K Unit) (major req : Nat) : K Unit := do
  let s ← getS
  add_request_kstat (s.all_requests req).dev.toNat
  if (s.all_requests req).bh ≠ 0 then mark_buffer_clean refile_buffer (s.all_requests req).bh
  else pure ()
  let s ← getS
  match s.current_request major with
  | [] => do
    modS fun s => { s with current_request := upd s.current_request major [req] }
    call_request_fn major
  | tmp :: rest => do
    modS fun s =>
      { s with current_request := upd s.current_request major (tmp :: add_request_insert s req tmp rest) }
    if scsi_major (MAJOR (s.all_requests req).dev.toNat) then call_request_fn major else pure ()

/-- How `make_request` can merge a buffer into a pending request. -/
inductive Merge where
  | back (req : Nat)
  | front (req : Nat)
  deriving DecidableEq, Repr

/-- The merge walk of `make_request` over the pending requests. -/
def make_request_merge (s : State) (bh rw sector count : Nat) : List Nat → Option Merge
  | [] => none
  | req :: rest =>
    if (s.all_requests req).dev = ((s.b bh).b_dev : Int) ∧ (s.all_requests req).sem = false ∧
        (s.all_requests req).cmd = rw ∧
        ((s.all_requests req).sector + (s.all_requests req).nr_sectors) % 4294967296 = sector ∧
        (s.all_requests req).nr_sectors < 244 then
      some (.back req)
    else if (s.all_requests req).dev = ((s.b bh).b_dev : Int) ∧ (s.all_requests req).sem = false ∧
        (s.all_requests req).cmd = rw ∧
        usub (s.all_requests req).sector count = sector ∧
        (s.all_requests req).nr_sectors < 244 then
      some (.front req)
    else make_request_merge s bh rw sector count rest

/-- The part of `make_request` from the label `repeat` on: merge into a pending
request, or take a request slot and queue it.  Sleeping for a free slot is outside
the model. -/
def make_request_queue (refile_buffer : Nat → K Unit) (fuel major : Nat) (rw : Rw)
    (rw_ahead : Bool) (bh sector count : Nat) : K Unit := do
  let s ← getS
  let max_req := if rw = .READ then NR_REQUEST else (NR_REQUEST * 2) / 3
  let mergeable := (major = IDE0_MAJOR ∨ major = IDE1_MAJOR ∨ major = FLOPPY_MAJOR ∨
      major = SCSI_DISK_MAJOR ∨ major = SCSI_CDROM_MAJOR) ∧ s.current_request major ≠ []
  let skip_head := (s.config_blk_dev_hd ∧ major = HD_MAJOR) ∨ major = FLOPPY_MAJOR
  let reqs := if skip_head then (s.current_request major).tail else s.current_request major
  match (if mergeable then make_request_merge s bh rw.val sector count reqs else none) with
  | some (.back req) => do
    setB (s.all_requests req).bhtail fun h => { h with b_reqnext := bh }
    setR req fun r => { r with bhtail := bh, nr_sectors := r.nr_sectors + count }
    mark_buffer_clean refile_buffer bh
  | some (.front req) => do
    setB bh fun h => { h with b_reqnext := (s.all_requests req).bh }
    setR req fun r =>
      { r with nr_sectors := r.nr_sectors + count, buffer := (s.b bh).b_data,
               current_nr_sectors := count, sector := sector }
    mark_buffer_clean refile_buffer bh
    setR req fun r => { r with bh := bh }
  | none => do
    let r ← get_request fuel max_req (s.b bh).b_dev
    match r with
    | none => if rw_ahead then unlock_buffer bh else khang
    | some req => do
      setR req fun r =>
        { r with cmd := rw.val, errors := 0, sector := sector, nr_sectors := count,
                 current_nr_sectors := count, buffer := (s.b bh).b_data, sem := false,
                 bh := bh, bhtail := bh }
      add_request refile_buffer major req

/-- The function `make_request`.  The command is one of the four commands, so the
test for a bad command never fires. -/
def make_request (refile_buffer : Nat → K Unit) (fuel major : Nat) (rw : Rw) (bh : Nat) :
    K Unit := do
  let s ← getS
  let rw_ahead : Bool := rw = .READA ∨ rw = .WRITEA
  if rw_ahead ∧ (s.b bh).b_lock then pure ()
  else do
    let rw : Rw := if rw = .READA then .READ else if rw = .WRITEA then .WRITE else rw
    let count := (s.b bh).b_size >>> 9
    let sector := ((s.b bh).b_blocknr * count) % 4294967296
    let too_far : Bool :=
      match s.blk_size major with
      | none => false
      | some sz =>
        sz (MINOR (s.b bh).b_dev) % 4294967296 < ((((sector + count) % 4294967296) >>> 1 : Nat) : Int)
    if too_far then
      setB bh fun h => { h with b_dirt := false, b_uptodate := false, b_req := false }
    else if (s.b bh).b_lock then pure ()
    else do
      lock_buffer bh
      let s1 ← getS
      if (rw = .WRITE ∧ (s1.b bh).b_dirt = false) ∨ (rw = .READ ∧ (s1.b bh).b_uptodate) then
        unlock_buffer bh
      else make_request_queue refile_buffer fuel major rw rw_ahead bh sector count

/-- The `sorry` exit of `ll_rw_block`. -/
def ll_rw_block_sorry : List Nat → K Unit
  | [] => pure ()
  | bh :: rest => do
    if bh ≠ 0 then setB bh fun h => { h with b_dirt := false, b_uptodate := false } else pure ()
    ll_rw_block_sorry rest

/-- The submission loop of `ll_rw_block`. -/
def ll_rw_block_loop (refile_buffer : Nat → K Unit) (fuel major : Nat) (rw : Rw) :
    List Nat → K Unit
  | [] => pure ()
  | bh :: rest => do
    if bh ≠ 0 then do
      setB bh fun h => { h with b_req := true }
      make_request refile_buffer fuel major rw bh
      if rw = .READ ∨ rw = .READA then modS fun s => { s with pgpgin := s.pgpgin + 1 }
      else modS fun s => { s with pgpgout := s.pgpgout + 1 }
    else pure ()
    ll_rw_block_loop refile_buffer fuel major rw rest

/-- The function `ll_rw_block`; the array `bh[]` of `nr` pointers is a list. -/
def ll_rw_block (refile_buffer : Nat → K Unit) (fuel : Nat) (rw : Rw) (bhs : List Nat) :
    K Unit := do
  match bhs.dropWhile (fun x => x == 0) with
  | [] => pure ()
  | bh0 :: rest => do
    let s ← getS
    let bh := bh0 :: rest
    let major := MAJOR (s.b bh0).b_dev
    if ¬ (major < MAX_BLKDEV ∧ s.request_fn major) then do
      printk (.nonexistent_device (s.b bh0).b_dev (s.b bh0).b_blocknr)
      ll_rw_block_sorry bh
    else do
      let correct_size : Nat :=
        match s.blksize_size major with
        | none => BLOCK_SIZE
        | some sz => if sz (MINOR (s.b bh0).b_dev) ≠ 0 then sz (MINOR (s.b bh0).b_dev) else BLOCK_SIZE
      match bh.find? (fun x => x != 0 && (s.b x).b_size != correct_size) with
      | some x => do
        printk (.only_blocks_implemented correct_size (s.b x).b_size)
        ll_rw_block_sorry bh
      | none =>
        if (rw = .WRITE ∨ rw = .WRITEA) ∧ is_read_only s (s.b bh0).b_dev ≠ 0 then do
          printk (.read_only_device (s.b bh0).b_dev)
          ll_rw_block_sorry bh
        else do
          let plugged : Bool := s.current_request major = [] ∧ bh.length > 1
          if plugged then
            modS fun s => { s with current_request := upd s.current_request major [PLUG] }
            setR PLUG fun r => { r with dev := -1 }
          else pure ()
          ll_rw_block_loop refile_buffer fuel major rw bh
          if plugged then do
            modS fun s =>
              let plug_next := ((s.current_request major).dropWhile (fun x => x != PLUG)).tail
              { s with current_request := upd s.current_request major plug_next }
            call_request_fn major
          else pure ()

/-! ## fs/buffer.c: writing back and re-filing -/

/-- The local variables of `sync_buffers`. -/
structure SyncLocals where
  retry : Bool := false
  pass : Nat := 0
  err : Int := 0
  ncount : Int := 0

/-- How the scan of one list in `sync_buffers` ends: the list is done, or the scan
starts over at `repeat1`, or at `repeat2`. -/
inductive Scan where
  | next
  | repeat1
  | repeat2
  deriving DecidableEq, Repr

/-- The inner `for` loop of `sync_buffers` over one list. -/
def sync_buffers_scan (refile_buffer : Nat → K Unit) (fuel dev : Nat) (wait : Int)
    (nlist : BufList) : Nat → Nat → SyncLocals → K (Scan × SyncLocals)
  | 0, _, loc => pure (.next, loc)
  | i + 1, bh, loc => do
    let s ← getS
    if (s.b bh).b_list ≠ nlist then pure (.repeat1, loc)
    else
      let next := b_next_free s bh
      if s.lru_list nlist = [] then pure (.next, loc)
      else if dev ≠ 0 ∧ (s.b bh).b_dev ≠ dev then
        sync_buffers_scan refile_buffer fuel dev wait nlist i next loc
      else if (s.b bh).b_lock then
        if wait = 0 ∨ loc.pass = 0 then
          sync_buffers_scan refile_buffer fuel dev wait nlist i next { loc with retry := true }
        else do
          wait_on_buffer bh
          pure (.repeat2, loc)
      else if wait ≠ 0 ∧ (s.b bh).b_req ∧ (s.b bh).b_lock = false ∧ (s.b bh).b_dirt = false ∧
          (s.b bh).b_uptodate = false then do
        printk (.weird_buffer nlist (s.b bh).b_dev (s.b bh).b_blocknr)
        sync_buffers_scan refile_buffer fuel dev wait nlist i next { loc with err := 1 }
      else if (s.b bh).b_dirt = false ∨ loc.pass ≥ 2 then
        sync_buffers_scan refile_buffer fuel dev wait nlist i next loc
      else if (s.b bh).b_lock then
        sync_buffers_scan refile_buffer fuel dev wait nlist i next loc
      else do
        setB bh fun h => { h with b_count := h.b_count + 1, b_flushtime := 0 }
        ll_rw_block refile_buffer fuel .WRITE [bh]
        let s1 ← getS
        if nlist ≠ BUF_DIRTY then printk (.stray_dirty nlist (s1.b bh).b_dev (s1.b bh).b_blocknr)
        else pure ()
        setB bh fun h => { h with b_count := h.b_count - 1 }
        sync_buffers_scan refile_buffer fuel dev wait nlist i next
          { loc with ncount := if nlist ≠ BUF_DIRTY then loc.ncount + 1 else loc.ncount,
                     retry := true }

/-- One list of `sync_buffers`, from the label `repeat1`. -/
def sync_buffers_list (refile_buffer : Nat → K Unit) (fuel0 dev : Nat) (wait : Int)
    (nlist : BufList) : Nat → SyncLocals → K (Scan × SyncLocals)
  | 0, _ => khang
  | fuel + 1, loc => do
    let s ← getS
    match s.lru_list nlist with
    | [] => pure (.next, loc)
    | bh :: _ => do
      let r ← sync_buffers_scan refile_buffer fuel0 dev wait nlist
        (s.nr_buffers_type nlist * 2).toNat bh loc
      match r with
      | (.repeat1, loc) => sync_buffers_list refile_buffer fuel0 dev wait nlist fuel loc
      | r => pure r

/-- The `for` loop of `sync_buffers` over the lists. -/
def sync_buffers_lists (refile_buffer : Nat → K Unit) (fuel dev : Nat) (wait : Int) :
    List BufList → SyncLocals → K (Scan × SyncLocals)
  | [], loc => pure (.next, loc)
  | nlist :: rest, loc => do
    let r ← sync_buffers_list refile_buffer fuel dev wait nlist fuel loc
    match r with
    | (.repeat2, loc) => pure (.repeat2, loc)
    | (_, loc) => sync_buffers_lists refile_buffer fuel dev wait rest loc

/-- The function `sync_buffers` from the label `repeat2`. -/
def sync_buffers_pass (refile_buffer : Nat → K Unit) (fuel0 dev : Nat) (wait : Int) :
    Nat → SyncLocals → K Int
  | 0, _ => khang
  | fuel + 1, loc => do
    let r ← sync_buffers_lists refile_buffer fuel0 dev wait ALL_LISTS { loc with ncount := 0 }
    match r with
    | (.repeat2, loc) => sync_buffers_pass refile_buffer fuel0 dev wait fuel loc
    | (_, loc) => do
      if loc.ncount ≠ 0 then printk (.dirty_not_on_dirty_list loc.ncount) else pure ()
      if wait ≠ 0 ∧ loc.retry ∧ loc.pass + 1 ≤ 2 then
        sync_buffers_pass refile_buffer fuel0 dev wait fuel
          { loc with pass := loc.pass + 1, retry := false }
      else pure loc.err

/-- The function `sync_buffers`. -/
def sync_buffers (refile_buffer : Nat → K Unit) (fuel dev : Nat) (wait : Int) : K Int :=
  sync_buffers_pass refile_buffer fuel dev wait fuel {}

/-- The function `wakeup_bdflush`.  Without the daemon the buffers are written at
once; sleeping until the daemon has finished is outside the model. -/
def wakeup_bdflush (refile_buffer : Nat → K Unit) (fuel : Nat) (wait : Int) : K Unit := do
  let s ← getS
  if s.bdflush_running = 0 then do
    printk .bdflush_not_running
    let _ ← sync_buffers refile_buffer fuel 0 0
    pure ()
  else if wait ≠ 0 then khang
  else pure ()

/-- The list `refile_buffer` chooses for a buffer. -/
def refile_dispose (s : State) (buf : Nat) : BufList :=
  if (s.b buf).b_dirt then BUF_DIRTY
  else if s.mem_map (MAP_NR (s.b buf).b_data) > 1 then BUF_SHARED
  else if (s.b buf).b_lock then BUF_LOCKED
  else if (s.b buf).b_list = BUF_SHARED then BUF_UNSHARED
  else BUF_CLEAN

/-- The body of `refile_buffer`; the calls that come back to `refile_buffer`
(through `wakeup_bdflush`, `sync_buffers`, `ll_rw_block`, `add_request` and
`mark_buffer_clean`) go to the first argument. -/
def refile_buffer_body (refile_buffer : Nat → K Unit) (fuel buf : Nat) : K Unit := do
  let s ← getS
  if (s.b buf).b_dev = B_FREE then kpanic .refile_free_buffer
  else do
    let dispose := refile_dispose s buf
    if dispose = BUF_CLEAN then setB buf fun h => { h with b_lru_time := s.jiffies } else pure ()
    if dispose ≠ (s.b buf).b_list then do
      if dispose = BUF_DIRTY ∨ dispose = BUF_UNSHARED then
        setB buf fun h => { h with b_lru_time := s.jiffies }
      else pure ()
      let s1 ← getS
      let dispose : BufList :=
        if dispose = BUF_LOCKED ∧
            (usub (s1.b buf).b_flushtime (s1.b buf).b_lru_time : Int) ≤ s1.age_super then BUF_LOCKED1
        else dispose
      remove_from_queues buf
      setB buf fun h => { h with b_list := dispose }
      insert_into_queues buf
      let s2 ← getS
      if dispose = BUF_DIRTY ∧ s2.nr_buffers_type BUF_DIRTY >
          cdiv ((s2.nr_buffers - s2.nr_buffers_type BUF_SHARED) * s2.nfract) 100 then
        wakeup_bdflush refile_buffer fuel 0
      else pure ()
    else pure ()

/-- The function `refile_buffer`; one unit of fuel per nested call. -/
def refile_buffer : Nat → Nat → K Unit
  | 0, _ => khang
  | fuel + 1, buf => refile_buffer_body (refile_buffer fuel) fuel buf

/-- Modelled from the spec: `mark_buffer_dirty` of fs.h (absent): "sets the dirty
flag and re-files" (§4.2), stamping the flush deadline. -/
def mark_buffer_dirty (fuel bh : Nat) (flag : Int) : K Unit := do
  let s ← getS
  if (s.b bh).b_dirt = false then do
    setB bh fun h => { h with b_dirt := true }
    set_writetime bh flag
    if (s.b bh).b_list ≠ BUF_DIRTY then refile_buffer fuel bh else pure ()
  else pure ()

/-- The function `brelse`. -/
def brelse (fuel buf : Nat) : K Unit := do
  if buf = 0 then pure ()
  else do
    wait_on_buffer buf
    set_writetime buf 0
    refile_buffer fuel buf
    let s ← getS
    if (s.b buf).b_count ≠ 0 then
      setB buf fun h => { h with b_count := h.b_count - 1 }
    else printk .brelse_free_free

/-! ## fs/buffer.c: shrinking -/

/-- The walk of `shrink_specific_buffers` over one free list; `first` is `!i`.
Returns whether a page was freed (`return 1`). -/
def shrink_free_scan (isize : Int) : Nat → Bool → Nat → K Bool
  | 0, _, _ => khang
  | fuel + 1, first, bh => do
    let s ← getS
    if ¬ (first ∨ bh ≠ (s.free_list isize).headD 0) then pure false
    else if (s.b bh).b_count ≠ 0 ∨ (s.b bh).b_this_page = 0 then
      shrink_free_scan isize fuel false (b_next_free s bh)
    else do
      let r ← try_to_free fuel bh
      if r.1 ≠ 0 then pure true
      else if r.2 = 0 then pure false
      else do
        let s1 ← getS
        shrink_free_scan isize fuel false (b_next_free s1 r.2)

/-- The first loop of `shrink_specific_buffers`, over the free lists. -/
def shrink_free_lists (fuel : Nat) (isize1 : Int) : List Int → K Bool
  | [] => pure false
  | isize :: rest => do
    let s ← getS
    if isize1 ≠ -1 ∧ isize1 ≠ isize then shrink_free_lists fuel isize1 rest
    else
      match s.free_list isize with
      | [] => shrink_free_lists fuel isize1 rest
      | bh :: _ => do
        let r ← shrink_free_scan isize fuel true bh
        if r then pure true else shrink_free_lists fuel isize1 rest

/-- How the scan of one LRU list in `shrink_specific_buffers` ends. -/
inductive Shrink where
  | next
  | repeat1
  | freed
  deriving DecidableEq, Repr

/-- The inner `for` loop of `shrink_specific_buffers` over one LRU list. -/
def shrink_lru_scan (fuel priority size : Nat) (nlist : BufList) : Nat → Nat → K Shrink
  | 0, _ => pure .next
  | i + 1, bh => do
    let s ← getS
    if (s.b bh).b_list ≠ nlist then pure .repeat1
    else if (s.b bh).b_count ≠ 0 ∨ (s.b bh).b_this_page = 0 then
      shrink_lru_scan fuel priority size nlist i (b_next_free s bh)
    else if size ≠ 0 ∧ (s.b bh).b_size ≠ size then
      shrink_lru_scan fuel priority size nlist i (b_next_free s bh)
    else if (s.b bh).b_lock ∧ priority ≠ 0 then
      shrink_lru_scan fuel priority size nlist i (b_next_free s bh)
    else do
      if (s.b bh).b_lock then wait_on_buffer bh else pure ()
      let s1 ← getS
      if (s1.b bh).b_dirt then do
        setB bh fun h => { h with b_count := h.b_count + 1, b_flushtime := 0 }
        ll_rw_block (refile_buffer fuel) fuel .WRITEA [bh]
        setB bh fun h => { h with b_count := h.b_count - 1 }
        let s2 ← getS
        shrink_lru_scan fuel priority size nlist i (b_next_free s2 bh)
      else do
        let r ← try_to_free fuel bh
        if r.1 ≠ 0 then pure .freed
        else if r.2 = 0 then pure .next
        else do
          let s2 ← getS
          shrink_lru_scan fuel priority size nlist i (b_next_free s2 r.2)

/-- One LRU list of `shrink_specific_buffers`, from the label `repeat1`. -/
def shrink_lru_list (fuel0 priority size : Nat) (nlist : BufList) : Nat → K Bool
  | 0 => khang
  | fuel + 1 => do
    let s ← getS
    if priority > 3 ∧ nlist = BUF_SHARED then pure false
    else
      match s.lru_list nlist with
      | [] => pure false
      | bh :: _ => do
        let r ← shrink_lru_scan fuel0 priority size nlist
          ((2 * s.nr_buffers_type nlist).toNat >>> priority) bh
        match r with
        | .freed => pure true
        | .next => pure false
        | .repeat1 => shrink_lru_list fuel0 priority size nlist fuel

/-- The second loop of `shrink_specific_buffers`, over the LRU lists. -/
def shrink_lru_lists (fuel priority size : Nat) : List BufList → K Bool
  | [] => pure false
  | nlist :: rest => do
    let r ← shrink_lru_list fuel priority size nlist fuel
    if r then pure true else shrink_lru_lists fuel priority size rest

/-- The function `shrink_specific_buffers`. -/
def shrink_specific_buffers (fuel priority size : Nat) : K Int := do
  let isize1 : Int := if size ≠ 0 then BUFSIZE_INDEX size else -1
  let r ← shrink_free_lists fuel isize1 [0, 1, 2, 3]
  if r then pure 1
  else do
    let r ← shrink_lru_lists fuel priority size ALL_LISTS
    if r then pure 1 else pure 0

/-- The second loop of `maybe_shrink_lav_buffers`. -/
def maybe_shrink_lav_loop (fuel : Nat) (isize total_lav total_n_buffers : Int) :
    List Int → K Int
  | [] => pure 0
  | nlist :: rest => do
    let s ← getS
    if nlist = isize then maybe_shrink_lav_loop fuel isize total_lav total_n_buffers rest
    else if s.nr_buffers_size nlist ≠ 0 ∧
        s.lav_const * s.buffers_lav nlist * total_n_buffers <
          total_lav * (s.nr_buffers_size nlist - s.nr_buffers_st nlist BUF_SHARED) then do
      let r ← shrink_specific_buffers fuel 6 (bufferindex_size nlist)
      if r ≠ 0 then pure 1
      else maybe_shrink_lav_loop fuel isize total_lav total_n_buffers rest
    else maybe_shrink_lav_loop fuel isize total_lav total_n_buffers rest

/-- The function `maybe_shrink_lav_buffers`. -/
def maybe_shrink_lav_buffers (fuel size : Nat) : K Int := do
  let s ← getS
  let sizes : List Int := [0, 1, 2, 3]
  let total_lav : Int := (sizes.map s.buffers_lav).sum
  let n_sizes : Nat := (sizes.filter fun i => s.nr_buffers_size i ≠ 0).length
  let total_n_buffers : Int :=
    (sizes.map fun i => s.nr_buffers_size i - s.nr_buffers_st i BUF_SHARED).sum
  let isize : Int := if size ≠ 0 then BUFSIZE_INDEX size else -1
  if n_sizes > 1 then maybe_shrink_lav_loop fuel isize total_lav total_n_buffers sizes
  else pure 0

/-! ## fs/buffer.c: refilling the free list -/

/-- The macro `BADNESS(bh)`. -/
def BADNESS (h : buffer_head) : Nat := (if h.b_dirt then 2 else 0) + (if h.b_lock then 1 else 0)

/-- The candidate search of `refill_freelist` on list `i`, from `bh`, with
`buffers[i]` buffers left to look at.  Returns `buffers[i]` and `bh` at the end of the
loop. -/
def refill_scan (fuel size : Nat) (i : BufList) : Nat → Nat → K (Nat × Nat)
  | 0, bh => pure (0, bh)
  | n + 1, bh => do
    let s ← getS
    let tmp := b_next_free s bh
    if bh = 0 then pure (n + 1, bh)
    else if s.mem_map (MAP_NR (s.b bh).b_data) ≠ 1 ∨ (s.b bh).b_dirt then do
      refile_buffer fuel bh
      refill_scan fuel size i n tmp
    else if (s.b bh).b_count ≠ 0 ∨ (s.b bh).b_size ≠ size then refill_scan fuel size i n tmp
    else if (s.b bh).b_lock ∧ (i = BUF_LOCKED ∨ i = BUF_LOCKED1) then pure (0, bh)
    else if BADNESS (s.b bh) ≠ 0 then refill_scan fuel size i n tmp
    else pure (n + 1, bh)

/-- The local variables of `refill_freelist`. -/
structure RefillLocals where
  candidate : BufList → Nat := fun _ => 0
  buffers : BufList → Int := fun _ => 0
  needed : Int := 0

/-- The candidate search followed by the assignment of `candidate[i]` and its check. -/
def refill_candidate (fuel size : Nat) (i : BufList) (n bh : Nat) (loc : RefillLocals) :
    K RefillLocals := do
  let r ← refill_scan fuel size i n bh
  let s ← getS
  let cand : Nat := if r.1 = 0 then 0 else r.2
  if cand ≠ 0 ∧ (s.b cand).b_count ≠ 0 then kpanic .here_is_the_problem
  else pure { loc with candidate := upd loc.candidate i cand, buffers := upd loc.buffers i r.1 }

/-- The loop at `repeat0` of `refill_freelist` that sets the candidate pointers. -/
def refill_init (fuel size : Nat) : List BufList → RefillLocals → K RefillLocals
  | [], loc => pure loc
  | i :: rest, loc => do
    let s ← getS
    if i = BUF_DIRTY ∨ i = BUF_SHARED ∨ s.nr_buffers_type i = 0 then
      refill_init fuel size rest
        { loc with candidate := upd loc.candidate i 0, buffers := upd loc.buffers i 0 }
    else if s.nr_buffers_type i < 0 then
      if (s.lru_list i).headD 0 ≠ 0 ∧ (s.b ((s.lru_list i).headD 0)).b_count ≠ 0 then
        kpanic .here_is_the_problem
      else
        refill_init fuel size rest
          { loc with candidate := upd loc.candidate i ((s.lru_list i).headD 0),
                     buffers := upd loc.buffers i (s.nr_buffers_type i) }
    else do
      let loc ← refill_candidate fuel size i (s.nr_buffers_type i).toNat
        ((s.lru_list i).headD 0) loc
      refill_init fuel size rest loc

/-- The election of `refill_freelist`: the candidate with the smallest `b_lru_time`
below `best_time`, the first list winning a tie. -/
def refill_election (s : State) (candidate : BufList → Nat) :
    List BufList → Nat → Option BufList → Option BufList
  | [], _, winner => winner
  | i :: rest, best_time, winner =>
    if candidate i = 0 then refill_election s candidate rest best_time winner
    else if (s.b (candidate i)).b_lru_time < best_time then
      refill_election s candidate rest (s.b (candidate i)).b_lru_time (some i)
    else refill_election s candidate rest best_time winner

/-- The part of `refill_freelist` from the label `repeat` up to and without the
attempts to grow: winners are moved to the free list while there are any. -/
def refill_reclaim (fuel0 size : Nat) : Nat → RefillLocals → K RefillLocals
  | 0, _ => khang
  | fuel + 1, loc => do
    if loc.needed ≤ 0 then pure loc
    else do
      let s ← getS
      match refill_election s loc.candidate ALL_LISTS UINT_MAX none with
      | none => pure loc
      | some i => do
        let bh := loc.candidate i
        let cand : Nat := if b_next_free s bh = bh then 0 else b_next_free s bh
        if (s.b bh).b_count ≠ 0 ∨ (s.b bh).b_size ≠ size then kpanic .busy_buffer_in_candidate_list
        else if s.mem_map (MAP_NR (s.b bh).b_data) ≠ 1 then kpanic .shared_buffer_in_candidate_list
        else if BADNESS (s.b bh) ≠ 0 then kpanic .badness_in_candidate_list
        else if (s.b bh).b_dev = B_FREE then kpanic .wrong_list
        else do
          remove_from_queues bh
          setB bh fun h => { h with b_dev := B_FREE }
          put_last_free bh
          let needed := loc.needed - (s.b bh).b_size
          let buffers_i := loc.buffers i - 1
          if buffers_i < 0 then kpanic .here_is_the_problem
          else do
            let cand : Nat := if buffers_i = 0 then 0 else cand
            let loc : RefillLocals :=
              { candidate := upd loc.candidate i cand, buffers := upd loc.buffers i buffers_i,
                needed := needed }
            if cand ≠ 0 ∧ buffers_i > 0 then do
              let loc ← refill_candidate fuel0 size i buffers_i.toNat cand loc
              refill_reclaim fuel0 size fuel loc
            else refill_reclaim fuel0 size fuel loc

/-- The part of `refill_freelist` from the label `repeat0`. -/
def refill_repeat0 (fuel0 size : Nat) : Nat → Int → K Unit
  | 0, _ => khang
  | fuel + 1, needed => do
    let loc ← refill_init fuel0 size ALL_LISTS { needed := needed }
    let loc ← refill_reclaim fuel0 size fuel0 loc
    if loc.needed ≤ 0 then pure ()
    else do
      let s ← getS
      let r ← (if s.nr_free_pages > 5 then grow_buffers fuel0 .GFP_BUFFER size else pure 0)
      if r ≠ 0 then refill_repeat0 fuel0 size fuel (loc.needed - PAGE_SIZE)
      else do
        let r ← grow_buffers fuel0 .GFP_ATOMIC size
        if r = 0 then wakeup_bdflush (refile_buffer fuel0) fuel0 1 else pure ()
        refill_repeat0 fuel0 size fuel (loc.needed - PAGE_SIZE)

/-- The first loop of `refill_freelist`: grow while pages are plentiful. -/
def refill_grow (fuel0 size : Nat) : Nat → Int → K Int
  | 0, _ => khang
  | fuel + 1, needed => do
    let s ← getS
    if s.nr_free_pages > s.min_free_pages * 2 ∧ needed > 0 then do
      let r ← grow_buffers fuel0 .GFP_BUFFER size
      if r ≠ 0 then refill_grow fuel0 size fuel (needed - PAGE_SIZE) else pure needed
    else pure needed

/-- The second loop of `refill_freelist`: take pages from an over-represented size.
The second component tells whether the function returns from inside the loop. -/
def refill_lav (fuel0 size : Nat) : Nat → Int → K (Int × Bool)
  | 0, _ => khang
  | fuel + 1, needed => do
    let r ← maybe_shrink_lav_buffers fuel0 size
    if r ≠ 0 then do
      let g ← grow_buffers fuel0 .GFP_BUFFER size
      if g = 0 then pure (needed, false)
      else if needed - PAGE_SIZE ≤ 0 then pure (needed - PAGE_SIZE, true)
      else refill_lav fuel0 size fuel (needed - PAGE_SIZE)
    else pure (needed, false)

/-- The function `refill_freelist`. -/
def refill_freelist (fuel size : Nat) : K Unit := do
  let s ← getS
  let isize := BUFSIZE_INDEX size
  if s.nr_free isize > 100 then pure ()
  else do
    let needed ← refill_grow fuel size fuel (s.nrefill * size)
    if needed ≤ 0 then pure ()
    else do
      let r ← refill_lav fuel size fuel needed
      if r.2 then pure () else refill_repeat0 fuel size fuel r.1

/-! ## fs/buffer.c: the access interface -/

/-- The loop `while(!free_list[isize]) refill_freelist(size);` of `getblk`. -/
def getblk_refill (fuel0 size : Nat) : Nat → K Unit
  | 0 => khang
  | fuel + 1 => do
    let s ← getS
    if s.free_list (BUFSIZE_INDEX size) = [] then do
      refill_freelist fuel0 size
      getblk_refill fuel0 size fuel
    else pure ()

/-- The function `getblk` from the label `repeat`. -/
def getblk_repeat (fuel0 dev block size : Nat) : Nat → K Nat
  | 0 => khang
  | fuel + 1 => do
    let isize := BUFSIZE_INDEX size
    let bh ← get_hash_table fuel0 dev block size
    if bh ≠ 0 then do
      let s ← getS
      if (s.b bh).b_uptodate ∧ (s.b bh).b_dirt = false then put_last_lru bh else pure ()
      if (s.b bh).b_dirt = false then setB bh fun h => { h with b_flushtime := 0 } else pure ()
      pure bh
    else do
      getblk_refill fuel0 size fuel0
      let f ← find_buffer dev block size
      if f ≠ 0 then getblk_repeat fuel0 dev block size fuel
      else do
        let s ← getS
        let bh := (s.free_list isize).headD 0
        remove_from_free_list bh
        setB bh fun h =>
          { h with b_count := 1, b_dirt := false, b_lock := false, b_uptodate := false,
                   b_flushtime := 0, b_req := false, b_dev := dev, b_blocknr := block }
        insert_into_queues bh
        pure bh

/-- The function `getblk`. -/
def getblk (fuel dev block size : Nat) : K Nat := do
  let isize := BUFSIZE_INDEX size
  modS fun s => { s with buffer_usage := upd s.buffer_usage isize (s.buffer_usage isize + 1) }
  getblk_repeat fuel dev block size fuel

/-- The function `bread`; `none` is the null pointer. -/
def bread (fuel dev block size : Nat) : K (Option Nat) := do
  let bh ← getblk fuel dev block size
  if bh = 0 then do
    printk (.bread_error dev)
    pure none
  else do
    let s ← getS
    if (s.b bh).b_uptodate then pure (some bh)
    else do
      ll_rw_block (refile_buffer fuel) fuel .READ [bh]
      wait_on_buffer bh
      let s1 ← getS
      if (s1.b bh).b_uptodate then pure (some bh)
      else do
        brelse fuel bh
        pure none

/-! ## fs/buffer.c: clusters -/

/-- First loop of `try_to_reassign`: is some buffer of the page in use? -/
def try_to_reassign_idle (s : State) (bh : Nat) : Nat → Nat → Option Bool
  | 0, _ => none
  | fuel + 1, tmp =>
    if tmp = 0 then some false
    else if (s.b tmp).b_count ≠ 0 ∨ (s.b tmp).b_dirt ∨ (s.b tmp).b_lock then some false
    else if (s.b tmp).b_this_page = bh then some true
    else try_to_reassign_idle s bh fuel (s.b tmp).b_this_page

/-- The walk of `try_to_reassign` to the buffer at the head of the page. -/
def try_to_reassign_head (s : State) : Nat → Nat → Option Nat
  | 0, _ => none
  | fuel + 1, tmp =>
    if (s.b tmp).b_data &&& (PAGE_SIZE - 1) ≠ 0 then try_to_reassign_head s fuel (s.b tmp).b_this_page
    else some tmp

/-- Last loop of `try_to_reassign`: the buffers of the page are bound to the blocks
from `starting_block` on. -/
def try_to_reassign_loop (dev bh : Nat) : Nat → Nat → Nat → K Unit
  | 0, _, _ => khang
  | fuel + 1, tmp, starting_block => do
    let s ← getS
    let p := tmp
    let tmp := (s.b p).b_this_page
    remove_from_queues p
    setB p fun h =>
      { h with b_dev := dev, b_uptodate := false, b_req := false, b_blocknr := starting_block }
    insert_into_queues p
    if tmp ≠ bh then try_to_reassign_loop dev bh fuel tmp (starting_block + 1)
    else pure ()

/-- The function `try_to_reassign`; the result is the return value and `*bhp`. -/
def try_to_reassign (fuel bh dev starting_block : Nat) : K (Int × Nat) := do
  let s ← getS
  let page := (s.b bh).b_data &&& PAGE_MASK
  if s.mem_map (MAP_NR page) ≠ 1 then pure (0, bh)
  else
    match try_to_reassign_idle s bh fuel bh with
    | none => khang
    | some false => pure (0, bh)
    | some true =>
      match try_to_reassign_head s fuel bh with
      | none => khang
      | some head => do
        try_to_reassign_loop dev head fuel head starting_block
        pure (1, bh)

/-! ## fs/buffer.c: invalidation, the periodic flush and the tuning interface -/

/-- The inner `for` loop of `invalidate_buffers` over one list: `i` iterations are left
and `bh` is the buffer looked at. -/
def invalidate_buffers_scan (dev : Nat) : Nat → Nat → K Unit
  | 0, _ => pure ()
  | i + 1, bh => do
    let s ← getS
    if (s.b bh).b_dev ≠ dev then invalidate_buffers_scan dev i (b_next_free s bh)
    else do
      wait_on_buffer bh
      let s1 ← getS
      if (s1.b bh).b_dev ≠ dev then invalidate_buffers_scan dev i (b_next_free s1 bh)
      else if (s1.b bh).b_count ≠ 0 then invalidate_buffers_scan dev i (b_next_free s1 bh)
      else do
        setB bh fun h =>
          { h with b_flushtime := 0, b_uptodate := false, b_dirt := false, b_req := false }
        let s2 ← getS
        invalidate_buffers_scan dev i (b_next_free s2 bh)

/-- The outer `for` loop of `invalidate_buffers` over the lists.  The inner loop starts
with `i = nr_buffers_type[nlist]*2` and runs while `--i > 0`. -/
def invalidate_buffers_lists (dev : Nat) : List BufList → K Unit
  | [] => pure ()
  | nlist :: rest => do
    let s ← getS
    invalidate_buffers_scan dev (s.nr_buffers_type nlist * 2 - 1).toNat
      ((s.lru_list nlist).headD 0)
    invalidate_buffers_lists dev rest

/-- The function `invalidate_buffers`. -/
def invalidate_buffers (dev : Nat) : K Unit := invalidate_buffers_lists dev ALL_LISTS

/-- The local variables `ndirty` and `nwritten` of `sync_old_buffers`; `written` lists
the buffers that `nwritten` counts, in the order in which they are handed to
`ll_rw_block`. -/
structure OldLocals where
  ndirty : Int := 0
  nwritten : Int := 0
  written : List Nat := []

/-- The inner `for` loop of `sync_old_buffers` over one list: `i` iterations are left and
`bh` is the buffer looked at.  The result `true` is the jump to the label `repeat`. -/
def sync_old_buffers_scan (fuel : Nat) (nlist : BufList) :
    Nat → Nat → OldLocals → K (Bool × OldLocals)
  | 0, _, loc => pure (false, loc)
  | i + 1, bh, loc => do
    let s ← getS
    if (s.b bh).b_list ≠ nlist then pure (true, loc)
    else
      let next := b_next_free s bh
      if s.lru_list nlist = [] then do
        printk (.dirty_list_empty i)
        pure (false, loc)
      else if nlist = BUF_DIRTY ∧ (s.b bh).b_dirt = false ∧ (s.b bh).b_lock = false then do
        refile_buffer fuel bh
        sync_old_buffers_scan fuel nlist i next loc
      else if (s.b bh).b_lock ∨ (s.b bh).b_dirt = false then
        sync_old_buffers_scan fuel nlist i next loc
      else if (s.b bh).b_flushtime > s.jiffies then
        sync_old_buffers_scan fuel nlist i next { loc with ndirty := loc.ndirty + 1 }
      else do
        setB bh fun h => { h with b_count := h.b_count + 1, b_flushtime := 0 }
        ll_rw_block (refile_buffer fuel) fuel .WRITE [bh]
        setB bh fun h => { h with b_count := h.b_count - 1 }
        sync_old_buffers_scan fuel nlist i next
          { ndirty := loc.ndirty + 1, nwritten := loc.nwritten + 1,
            written := loc.written ++ [bh] }

/-- One list of `sync_old_buffers`, from the label `repeat`. -/
def sync_old_buffers_list (fuel0 : Nat) (nlist : BufList) : Nat → OldLocals → K OldLocals
  | 0, _ => khang
  | fuel + 1, loc => do
    let s ← getS
    match s.lru_list nlist with
    | [] => pure loc
    | bh :: _ => do
      let r ← sync_old_buffers_scan fuel0 nlist (s.nr_buffers_type nlist).toNat bh loc
      if r.1 then sync_old_buffers_list fuel0 nlist fuel r.2 else pure r.2

/-- Modelled from the spec: the macro `CALC_LOAD(load,exp,n)` of sched.h (absent): "an
exponentially decayed moving average", in fixed point with 11 fraction bits. -/
def CALC_LOAD (load exp n : Int) : Int := (load * exp + n * (2048 - exp)) / 2048

/-- The function `sync_old_buffers`, compiled without `DEBUG`: one pass over the DIRTY
list, then the load averages.  The calls `sync_supers(0)` and `sync_inodes(0)` go to
code outside buffer.c and are left out. -/
def sync_old_buffers (fuel : Nat) : K Int := do
  let _ ← sync_old_buffers_list fuel BUF_DIRTY fuel {}
  modS fun s =>
    { s with
      buffers_lav := fun i =>
        if 0 ≤ i ∧ i < NR_SIZES then CALC_LOAD (s.buffers_lav i) s.lav_const (s.buffer_usage i)
        else s.buffers_lav i,
      buffer_usage := fun i => if 0 ≤ i ∧ i < NR_SIZES then 0 else s.buffer_usage i }
  pure 0

/-- Error number `EPERM` (errno.h is absent). -/
def EPERM : Int := 1

/-- Error number `EBUSY`. -/
def EBUSY : Int := 16

/-- Error number `EINVAL`. -/
def EINVAL : Int := 22

/-- The table `bdflush_min`. -/
def bdflush_min (i : Nat) : Int :=
  match i with
  | 0 => 0
  | 1 => 10
  | 2 => 5
  | 3 => 25
  | 4 => 0
  | 5 => 100
  | 6 => 100
  | 7 => 1
  | 8 => 1
  | _ => 0

/-- The table `bdflush_max`. -/
def bdflush_max (i : Nat) : Int :=
  match i with
  | 0 => 100
  | 1 => 5000
  | 2 => 2000
  | 3 => 2000
  | 4 => 100
  | 5 => 60000
  | 6 => 60000
  | 7 => 2047
  | 8 => 5
  | _ => 0

/-- The inner `for` loop of the daemon in `sys_bdflush` over the DIRTY list; the result
`true` is the jump to the label `repeat`, with it the local `ndirty`. -/
def bdflush_scan (fuel : Nat) (nlist : BufList) : Nat → Nat → Int → K (Bool × Int)
  | 0, _, ndirty => pure (false, ndirty)
  | i + 1, bh, ndirty => do
    let s ← getS
    if ¬ (ndirty < s.ndirty) then pure (false, ndirty)
    else if (s.b bh).b_list ≠ nlist then pure (true, ndirty)
    else
      let next := b_next_free s bh
      if s.lru_list nlist = [] then do
        printk (.dirty_list_empty i)
        pure (false, ndirty)
      else if nlist = BUF_DIRTY ∧ (s.b bh).b_dirt = false ∧ (s.b bh).b_lock = false then do
        refile_buffer fuel bh
        bdflush_scan fuel nlist i next ndirty
      else if (s.b bh).b_lock ∨ (s.b bh).b_dirt = false then
        bdflush_scan fuel nlist i next ndirty
      else do
        setB bh fun h => { h with b_count := h.b_count + 1, b_flushtime := 0 }
        ll_rw_block (refile_buffer fuel) fuel .WRITE [bh]
        setB bh fun h => { h with b_count := h.b_count - 1 }
        bdflush_scan fuel nlist i next (ndirty + 1)

/-- The DIRTY list in one cycle of the daemon, from the label `repeat`. -/
def bdflush_list (fuel0 : Nat) (nlist : BufList) : Nat → Int → K Int
  | 0, _ => khang
  | fuel + 1, ndirty => do
    let s ← getS
    match s.lru_list nlist with
    | [] => pure ndirty
    | bh :: _ => do
      let r ← bdflush_scan fuel0 nlist (s.nr_buffers_type nlist).toNat bh ndirty
      if r.1 then bdflush_list fuel0 nlist fuel r.2 else pure r.2

/-- The endless loop of the daemon in `sys_bdflush`, compiled without `DEBUG`.  When few
buffers are dirty the daemon returns if `sigkill` is pending and sleeps otherwise; its
being woken is outside the model. -/
def bdflush_daemon (fuel0 : Nat) (sigkill : Bool) : Nat → K Int
  | 0 => khang
  | fuel + 1 => do
    let _ ← bdflush_list fuel0 BUF_DIRTY fuel0 0
    let s ← getS
    if s.nr_buffers_type BUF_DIRTY <
        cdiv ((s.nr_buffers - s.nr_buffers_type BUF_SHARED) * s.nfract) 100 then
      if sigkill then do
        modS fun s => { s with bdflush_running := s.bdflush_running - 1 }
        pure 0
      else khang
    else bdflush_daemon fuel0 sigkill fuel

/-- The function `sys_bdflush`.  The caller is the super-user when `suser` holds,
`verify_area` is the result of the check of the user address `data`, and `sigkill` tells
whether the daemon finds a pending SIGKILL.  For `func >= 2` the shift `(func-2) >> 1` is
a division by two. -/
def sys_bdflush (fuel : Nat) (suser : Bool) (verify_area : Int) (sigkill : Bool)
    (func data : Int) : K Int := do
  if ¬ suser then pure (-EPERM)
  else if func = 1 then sync_old_buffers fuel
  else if func ≥ 2 then
    let i := (func - 2) / 2
    if i < 0 ∨ i ≥ N_PARAM then pure (-EINVAL)
    else if func % 2 = 0 then
      if verify_area ≠ 0 then pure verify_area else pure 0
    else if data < bdflush_min i.toNat ∨ data > bdflush_max i.toNat then pure (-EINVAL)
    else do
      modS fun s => { s with bdf_prm := upd s.bdf_prm i.toNat data }
      pure 0
  else do
    let s ← getS
    if s.bdflush_running ≠ 0 then pure (-EBUSY)
    else do
      modS fun s => { s with bdflush_running := s.bdflush_running + 1 }
      bdflush_daemon fuel sigkill fuel

/-! ## fs/buffer.c: initialisation -/

/-- The function `buffer_init`. -/
def buffer_init (fuel : Nat) : K Unit := do
  modS fun s =>
    { s with nr_hash := if s.high_memory ≥ 4 * 1024 * 1024 then
                          (if s.high_memory ≥ 16 * 1024 * 1024 then 16381 else 4093)
                        else 997,
             hash_table := fun _ => [],
             buffer_pages := fun i => if i < MAP_NR s.high_memory then 0 else s.buffer_pages i,
             lru_list := upd s.lru_list BUF_CLEAN [] }
  let _ ← grow_buffers fuel .GFP_KERNEL BLOCK_SIZE
  let s ← getS
  if s.free_list (BUFSIZE_INDEX BLOCK_SIZE) = [] then kpanic .no_free_list_at_boot
  else pure ()

/-- The kernel before `buffer_init`: the static initialisers of buffer.c and
ll_rw_blk.c (every request slot free after `blk_dev_init`), with `pages` the free
page frames, and a driver registered for the majors in `drivers`. -/
def boot (pages : List Nat) (drivers : List Nat) : State :=
  { page_pool := pages,
    bdf_prm := bdf_prm_init,
    high_memory := 8 * 1024 * 1024,
    request_fn := fun m => drivers.contains m }

/-! ## Predicates used in the statements -/

/-- The head is linked on the disposition list its `b_list` names. -/
def Linked (s : State) (x : Nat) : Prop := x ∈ s.lru_list (s.b x).b_list

/-- The head is bound: hashed in the bucket of its device and block. -/
def Hashed (s : State) (x : Nat) : Prop :=
  x ∈ s.hash_table (_hashfn s (s.b x).b_dev (s.b x).b_blocknr)

/-- The head is on some free list. -/
def OnFreeList (s : State) (x : Nat) : Prop := ∃ i, x ∈ s.free_list i

/-- The supported buffer sizes. -/
def Supported (size : Nat) : Prop := size = 512 ∨ size = 1024 ∨ size = 2048 ∨ size = 4096

/-- The aggregate free count: `nr_free` summed over the size classes. -/
def free_total (s : State) : Int := s.nr_free 0 + s.nr_free 1 + s.nr_free 2 + s.nr_free 3

/-- Some descriptor is bound to `(dev, block)`. -/
def BoundTo (s : State) (dev block : Nat) : Prop :=
  ∃ x, x ∈ s.hash_table (_hashfn s dev block) ∧ (s.b x).b_dev = dev ∧ (s.b x).b_blocknr = block

/-- The `k`-th sibling of `bh` on its `b_this_page` ring. -/
def sibling (s : State) (bh : Nat) : Nat → Nat
  | 0 => bh
  | k + 1 => (s.b (sibling s bh k)).b_this_page

/-- Structural invariant of the cache: what the lists say about their members.
* a head on a free list carries the free marker, no reference and the size of its
  list;
* a head on a disposition list is not free and names that list in `b_list`;
* a head is hashed exactly when it is on a disposition list and has a device, and
  then in the bucket of its device and block;
* a head on `unused_list` has no reference and is on no other list;
* the heads on the lists have been carved, and no head beyond has a reference. -/
structure Inv (s : State) : Prop where
  free_dev : ∀ i x, x ∈ s.free_list i → (s.b x).b_dev = B_FREE
  free_count : ∀ i x, x ∈ s.free_list i → (s.b x).b_count = 0
  free_size : ∀ i x, x ∈ s.free_list i → BUFSIZE_INDEX (s.b x).b_size = i
  free_align : ∀ i x, x ∈ s.free_list i → (s.b x).b_size % 512 = 0
  lru_dev : ∀ l x, x ∈ s.lru_list l → (s.b x).b_dev ≠ B_FREE
  lru_list : ∀ l x, x ∈ s.lru_list l → (s.b x).b_list = l
  lru_align : ∀ l x, x ∈ s.lru_list l → (s.b x).b_size % 512 = 0
  hash_key : ∀ k x, x ∈ s.hash_table k → k = _hashfn s (s.b x).b_dev (s.b x).b_blocknr
  hash_lru : ∀ k x, x ∈ s.hash_table k → Linked s x ∧ (s.b x).b_dev ≠ 0
  lru_hash : ∀ l x, x ∈ s.lru_list l → (s.b x).b_dev ≠ 0 → Hashed s x
  unused_count : ∀ x, x ∈ s.unused_list → (s.b x).b_count = 0
  unused_free : ∀ x, x ∈ s.unused_list → ∀ i, x ∉ s.free_list i
  unused_lru : ∀ x, x ∈ s.unused_list → ∀ l, x ∉ s.lru_list l
  unused_nodup : s.unused_list.Nodup
  carved_free : ∀ i x, x ∈ s.free_list i → 1 ≤ x ∧ x ≤ s.nr_buffer_heads
  carved_lru : ∀ l x, x ∈ s.lru_list l → 1 ≤ x ∧ x ≤ s.nr_buffer_heads
  carved_unused : ∀ x, x ∈ s.unused_list → 1 ≤ x ∧ x ≤ s.nr_buffer_heads
  fresh_count : ∀ x, s.nr_buffer_heads < x → (s.b x).b_count = 0

/-- What re-filing and the request layer leave alone: the free lists, the unused
heads, the identity, size, reference count and data area of every head, and which
heads are on a disposition list. -/
structure Stable (s s' : State) : Prop where
  free_list : s'.free_list = s.free_list
  nr_free : s'.nr_free = s.nr_free
  unused_list : s'.unused_list = s.unused_list
  nr_buffer_heads : s'.nr_buffer_heads = s.nr_buffer_heads
  nr_hash : s'.nr_hash = s.nr_hash
  b_dev : ∀ x, (s'.b x).b_dev = (s.b x).b_dev
  b_blocknr : ∀ x, (s'.b x).b_blocknr = (s.b x).b_blocknr
  b_size : ∀ x, (s'.b x).b_size = (s.b x).b_size
  b_count : ∀ x, (s'.b x).b_count = (s.b x).b_count
  b_data : ∀ x, (s'.b x).b_data = (s.b x).b_data
  b_this_page : ∀ x, (s'.b x).b_this_page = (s.b x).b_this_page
  linked : ∀ x, Linked s' x ↔ Linked s x

/-- A referenced head keeps its identity and its references. -/
def KeepRef (s s' : State) : Prop :=
  ∀ x, 0 < (s.b x).b_count →
    (s'.b x).b_dev = (s.b x).b_dev ∧ (s'.b x).b_blocknr = (s.b x).b_blocknr ∧
      (s.b x).b_count ≤ (s'.b x).b_count

/-- No head but `h` gets bound: a head on a disposition list was there before, with
the same device, block and size. -/
def NoNewBound (h : Nat) (s s' : State) : Prop :=
  ∀ x, Linked s' x → x = h ∨
    (Linked s x ∧ (s'.b x).b_dev = (s.b x).b_dev ∧ (s'.b x).b_blocknr = (s.b x).b_blocknr ∧
      (s'.b x).b_size = (s.b x).b_size)

/-- The empty cache: nothing carved yet, every list empty. -/
structure EmptyCache (s : State) : Prop where
  free_list : ∀ i, s.free_list i = []
  lru_list : ∀ l, s.lru_list l = []
  hash_table : ∀ k, s.hash_table k = []
  unused_list : s.unused_list = []
  nr_buffer_heads : s.nr_buffer_heads = 0
  b_count : ∀ x, (s.b x).b_count = 0

/-- The cache as the static initialisers of buffer.c leave it: empty, with every counter
of buffers zero and the parameters of the flush daemon at their initial values. -/
structure Initial (s : State) extends EmptyCache s : Prop where
  nr_free : ∀ i, s.nr_free i = 0
  nr_buffers_type : ∀ l, s.nr_buffers_type l = 0
  nr_buffers_st : ∀ i l, s.nr_buffers_st i l = 0
  bdf_prm : s.bdf_prm = bdf_prm_init

/-- The cache states reached from the initial cache by the operations of the access
interface and of the growth and shrink engine, by marking buffers dirty, by
submitting them, by the completion of transfers, by invalidation, by the calls of
`sys_bdflush` and by the passing of time.  A device number is never the free marker. -/
inductive Reachable : State → Prop where
  | empty (s : State) : Initial s → Reachable s
  | buffer_init (s s' : State) (fuel : Nat) :
      Initial s → buffer_init fuel s = .ok () s' → Reachable s'
  | getblk (s s' : State) (fuel dev block size h : Nat) :
      Reachable s → dev ≠ B_FREE → getblk fuel dev block size s = .ok h s' → Reachable s'
  | brelse (s s' : State) (fuel buf : Nat) :
      Reachable s → brelse fuel buf s = .ok () s' → Reachable s'
  | bread (s s' : State) (fuel dev block size : Nat) (r : Option Nat) :
      Reachable s → dev ≠ B_FREE → bread fuel dev block size s = .ok r s' → Reachable s'
  | refill_freelist (s s' : State) (fuel size : Nat) :
      Reachable s → refill_freelist fuel size s = .ok () s' → Reachable s'
  | grow_buffers (s s' : State) (fuel : Nat) (pri : Gfp) (size : Nat) (r : Int) :
      Reachable s → grow_buffers fuel pri size s = .ok r s' → Reachable s'
  | shrink_specific_buffers (s s' : State) (fuel priority size : Nat) (r : Int) :
      Reachable s → shrink_specific_buffers fuel priority size s = .ok r s' → Reachable s'
  | try_to_free (s s' : State) (fuel bh : Nat) (r : Int × Nat) :
      Reachable s → try_to_free fuel bh s = .ok r s' → Reachable s'
  | try_to_reassign (s s' : State) (fuel bh dev block : Nat) (r : Int × Nat) :
      Reachable s → dev ≠ B_FREE → try_to_reassign fuel bh dev block s = .ok r s' →
      Reachable s'
  | mark_buffer_dirty (s s' : State) (fuel bh : Nat) (flag : Int) :
      Reachable s → mark_buffer_dirty fuel bh flag s = .ok () s' → Reachable s'
  | ll_rw_block (s s' : State) (fuel : Nat) (rw : Rw) (bhs : List Nat) :
      Reachable s → ll_rw_block (refile_buffer fuel) fuel rw bhs s = .ok () s' → Reachable s'
  | end_buffer_io (s s' : State) (bh : Nat) :
      Reachable s → end_buffer_io bh s = .ok () s' → Reachable s'
  | invalidate_buffers (s s' : State) (dev : Nat) :
      Reachable s → invalidate_buffers dev s = .ok () s' → Reachable s'
  | sys_bdflush (s s' : State) (fuel : Nat) (suser : Bool) (verify_area : Int)
      (sigkill : Bool) (func data r : Int) :
      Reachable s → sys_bdflush fuel suser verify_area sigkill func data s = .ok r s' →
      Reachable s'
  | tick (s : State) (n : Nat) : Reachable s → Reachable { s with jiffies := s.jiffies + n }

/-- The two states agree on every list and on the identity, size, reference count,
list and data area of every head: what changes only flags, time stamps, counters
and the request layer. -/
structure SameCore (s s' : State) : Prop where
  free_list : s'.free_list = s.free_list
  lru_list : s'.lru_list = s.lru_list
  hash_table : s'.hash_table = s.hash_table
  unused_list : s'.unused_list = s.unused_list
  nr_buffer_heads : s'.nr_buffer_heads = s.nr_buffer_heads
  nr_hash : s'.nr_hash = s.nr_hash
  nr_free : s'.nr_free = s.nr_free
  b_dev : ∀ x, (s'.b x).b_dev = (s.b x).b_dev
  b_blocknr : ∀ x, (s'.b x).b_blocknr = (s.b x).b_blocknr
  b_size : ∀ x, (s'.b x).b_size = (s.b x).b_size
  b_count : ∀ x, (s'.b x).b_count = (s.b x).b_count
  b_list : ∀ x, (s'.b x).b_list = (s.b x).b_list
  b_data : ∀ x, (s'.b x).b_data = (s.b x).b_data
  b_this_page : ∀ x, (s'.b x).b_this_page = (s.b x).b_this_page

/-- Run from a state that satisfies the invariant, the code keeps the invariant and
establishes `Q` when it returns, and it does not panic when `pre` holds. -/
def Post {α : Type} (m : K α) (pre : Prop) (s : State) (Q : α → State → Prop) : Prop :=
  Inv s → match m s with
    | .ok a s' => Inv s' ∧ Q a s'
    | .panic _ => ¬ pre
    | .hang => True

/-- Run from a state that satisfies the invariant, the code keeps the invariant and
what `Stable` lists when it returns, and it does not panic when `pre` holds. -/
def GoodAt {α : Type} (m : K α) (pre : Prop) (s : State) : Prop :=
  Post m pre s fun _ s' => Stable s s'

/-- The re-filing function called back by the request layer keeps the invariant and
panics only on a head that is not linked. -/
def RbOk (rb : Nat → K Unit) : Prop := ∀ buf s, GoodAt (rb buf) (Linked s buf) s

/-- The update of a head changes only its flags, time stamps and request link. -/
def FlagOnly (f : buffer_head → buffer_head) : Prop :=
  ∀ v, (f v).b_dev = v.b_dev ∧ (f v).b_blocknr = v.b_blocknr ∧ (f v).b_size = v.b_size ∧
    (f v).b_count = v.b_count ∧ (f v).b_list = v.b_list ∧ (f v).b_data = v.b_data ∧
    (f v).b_this_page = v.b_this_page

/-- The code changes only flags, time stamps, counters and the request layer, and
never panics. -/
def Quiet {α : Type} (m : K α) : Prop :=
  ∀ s, match m s with
    | .ok _ s' => SameCore s s'
    | .panic _ => False
    | .hang => True

/-- The head is on no ring and not on `unused_list`, and it has been carved. -/
structure Detached (s : State) (bh : Nat) : Prop where
  free : ∀ i, bh ∉ s.free_list i
  lru : ∀ l, bh ∉ s.lru_list l
  unused : bh ∉ s.unused_list
  pos : 1 ≤ bh
  carved : bh ≤ s.nr_buffer_heads

/-- What taking `bh` off its disposition list and its hash chain changes: `bh` leaves
the lists, and nothing else about heads and lists changes. -/
structure UnlinkFrame (s s' : State) (bh : Nat) : Prop where
  b : s'.b = s.b
  free_list : s'.free_list = s.free_list
  nr_free : s'.nr_free = s.nr_free
  unused_list : s'.unused_list = s.unused_list
  nr_buffer_heads : s'.nr_buffer_heads = s.nr_buffer_heads
  nr_hash : s'.nr_hash = s.nr_hash
  lru : ∀ l x, x ∈ s'.lru_list l ↔ x ∈ s.lru_list l ∧ x ≠ bh
  hash : ∀ k x, x ∈ s'.hash_table k ↔ x ∈ s.hash_table k ∧ x ≠ bh

/-- What putting `bh` on its disposition list and its hash chain changes. -/
structure LinkFrame (s s' : State) (bh : Nat) : Prop where
  b : s'.b = s.b
  free_list : s'.free_list = s.free_list
  nr_free : s'.nr_free = s.nr_free
  unused_list : s'.unused_list = s.unused_list
  nr_buffer_heads : s'.nr_buffer_heads = s.nr_buffer_heads
  nr_hash : s'.nr_hash = s.nr_hash
  lru : ∀ l x, x ∈ s'.lru_list l ↔ x ∈ s.lru_list l ∨ (x = bh ∧ l = (s.b bh).b_list)
  hash : ∀ k x, x ∈ s'.hash_table k ↔
    x ∈ s.hash_table k ∨
      (x = bh ∧ (s.b bh).b_dev ≠ 0 ∧ k = _hashfn s (s.b bh).b_dev (s.b bh).b_blocknr)

/-- The clauses of `Inv` for one head. -/
structure HeadOk (s : State) (x : Nat) : Prop where
  free_dev : ∀ i, x ∈ s.free_list i → (s.b x).b_dev = B_FREE
  free_count : ∀ i, x ∈ s.free_list i → (s.b x).b_count = 0
  free_size : ∀ i, x ∈ s.free_list i → BUFSIZE_INDEX (s.b x).b_size = i
  free_align : ∀ i, x ∈ s.free_list i → (s.b x).b_size % 512 = 0
  lru_dev : ∀ l, x ∈ s.lru_list l → (s.b x).b_dev ≠ B_FREE
  lru_list : ∀ l, x ∈ s.lru_list l → (s.b x).b_list = l
  lru_align : ∀ l, x ∈ s.lru_list l → (s.b x).b_size % 512 = 0
  hash_key : ∀ k, x ∈ s.hash_table k → k = _hashfn s (s.b x).b_dev (s.b x).b_blocknr
  hash_lru : ∀ k, x ∈ s.hash_table k → Linked s x ∧ (s.b x).b_dev ≠ 0
  lru_hash : ∀ l, x ∈ s.lru_list l → (s.b x).b_dev ≠ 0 → Hashed s x
  unused_count : x ∈ s.unused_list → (s.b x).b_count = 0
  unused_free : x ∈ s.unused_list → ∀ i, x ∉ s.free_list i
  unused_lru : x ∈ s.unused_list → ∀ l, x ∉ s.lru_list l
  carved_free : ∀ i, x ∈ s.free_list i → 1 ≤ x ∧ x ≤ s.nr_buffer_heads
  carved_lru : ∀ l, x ∈ s.lru_list l → 1 ≤ x ∧ x ≤ s.nr_buffer_heads
  carved_unused : x ∈ s.unused_list → 1 ≤ x ∧ x ≤ s.nr_buffer_heads
  fresh_count : s.nr_buffer_heads < x → (s.b x).b_count = 0

/-- The head `x` has the same identity, size, reference count and list index in both
states and is on the same lists. -/
structure Same1 (s s' : State) (x : Nat) : Prop where
  b_dev : (s'.b x).b_dev = (s.b x).b_dev
  b_blocknr : (s'.b x).b_blocknr = (s.b x).b_blocknr
  b_size : (s'.b x).b_size = (s.b x).b_size
  b_count : (s'.b x).b_count = (s.b x).b_count
  b_list : (s'.b x).b_list = (s.b x).b_list
  free : ∀ i, x ∈ s'.free_list i ↔ x ∈ s.free_list i
  lru : ∀ l, x ∈ s'.lru_list l ↔ x ∈ s.lru_list l
  hash : ∀ k, x ∈ s'.hash_table k ↔ x ∈ s.hash_table k
  unused : x ∈ s'.unused_list ↔ x ∈ s.unused_list

/-- The heads outside `S` are as before, and no head is uncarved. -/
structure Frame (s s' : State) (S : Nat → Prop) : Prop where
  same : ∀ x, ¬ S x → Same1 s s' x
  nr_hash : s'.nr_hash = s.nr_hash
  nr_buffer_heads : s.nr_buffer_heads ≤ s'.nr_buffer_heads

/-- The head `bh` is overwritten with `h`; nothing else changes on heads and lists. -/
structure SetHead (s s' : State) (bh : Nat) (h : buffer_head) : Prop where
  b : s'.b = upd s.b bh h
  free_list : s'.free_list = s.free_list
  lru_list : s'.lru_list = s.lru_list
  hash_table : s'.hash_table = s.hash_table
  unused_list : s'.unused_list = s.unused_list
  nr_buffer_heads : s'.nr_buffer_heads = s.nr_buffer_heads
  nr_hash : s'.nr_hash = s.nr_hash
  nr_free : s'.nr_free = s.nr_free

/-- The two heads agree on identity, size, list index, data area and page ring. -/
def CoreEq (h v : buffer_head) : Prop :=
  h.b_dev = v.b_dev ∧ h.b_blocknr = v.b_blocknr ∧ h.b_size = v.b_size ∧ h.b_list = v.b_list ∧
    h.b_data = v.b_data ∧ h.b_this_page = v.b_this_page

/-- What `brelse(buf)` leaves alone: as `Stable`, but for the reference count of `buf`,
which is one less unless it was zero. -/
structure StableDec (s s' : State) (buf : Nat) : Prop where
  free_list : s'.free_list = s.free_list
  nr_free : s'.nr_free = s.nr_free
  unused_list : s'.unused_list = s.unused_list
  nr_buffer_heads : s'.nr_buffer_heads = s.nr_buffer_heads
  nr_hash : s'.nr_hash = s.nr_hash
  b_dev : ∀ x, (s'.b x).b_dev = (s.b x).b_dev
  b_blocknr : ∀ x, (s'.b x).b_blocknr = (s.b x).b_blocknr
  b_size : ∀ x, (s'.b x).b_size = (s.b x).b_size
  b_count : ∀ x, (s'.b x).b_count = if x = buf then (s.b x).b_count - 1 else (s.b x).b_count
  b_data : ∀ x, (s'.b x).b_data = (s.b x).b_data
  b_this_page : ∀ x, (s'.b x).b_this_page = (s.b x).b_this_page
  linked : ∀ x, Linked s' x ↔ Linked s x

/-- The head is carved and on no list: not on a free list, a disposition list, a hash
chain or `unused_list`. -/
structure Loose (s : State) (x : Nat) : Prop where
  free : ∀ i, x ∉ s.free_list i
  lru : ∀ l, x ∉ s.lru_list l
  hash : ∀ k, x ∉ s.hash_table k
  unused : x ∉ s.unused_list
  pos : 1 ≤ x
  carved : x ≤ s.nr_buffer_heads

/-- The heads linked through `b_this_page` from `head` down to the null pointer: loose,
marked free, unreferenced, of one size and all different. -/
def Chain (s : State) (size : Nat) : Nat → List Nat → Prop
  | head, [] => head = 0
  | head, x :: L =>
    head = x ∧ Loose s x ∧ (s.b x).b_dev = B_FREE ∧ (s.b x).b_count = 0 ∧
      (s.b x).b_size = size ∧ x ∉ L ∧ Chain s size (s.b x).b_this_page L

/-- The loose heads stay loose and keep identity, size, page ring and reference
count. -/
def LooseKept (s s' : State) : Prop :=
  ∀ x, Loose s x → Loose s' x ∧ CoreEq (s'.b x) (s.b x) ∧ (s'.b x).b_count = (s.b x).b_count

/-- Every head keeps its reference count, and a referenced head keeps its identity. -/
def KeepCnt (s s' : State) : Prop :=
  ∀ x, (s'.b x).b_count = (s.b x).b_count ∧
    (0 < (s.b x).b_count →
      (s'.b x).b_dev = (s.b x).b_dev ∧ (s'.b x).b_blocknr = (s.b x).b_blocknr)

/-- As `KeepCnt`, but for one more reference on the head `r` when `r` is not the null
pointer. -/
def Took (s s' : State) (r : Nat) : Prop :=
  ∀ x, (s'.b x).b_count = (s.b x).b_count + (if r ≠ 0 ∧ x = r then 1 else 0) ∧
    (0 < (s.b x).b_count →
      (s'.b x).b_dev = (s.b x).b_dev ∧ (s'.b x).b_blocknr = (s.b x).b_blocknr)

/-- The code returns, with a result and a state that satisfy `Q`. -/
def Runs {α : Type} (m : K α) (s : State) (Q : α → State → Prop) : Prop :=
  ∃ a s', m s = .ok a s' ∧ Q a s'

/-- The request layer, the log and the daemon state are as before. -/
structure SameRest (s s' : State) : Prop where
  all_requests : s'.all_requests = s.all_requests
  current_request : s'.current_request = s.current_request
  request_fn_calls : s'.request_fn_calls = s.request_fn_calls
  klog : s'.klog = s.klog
  bdflush_running : s'.bdflush_running = s.bdflush_running

/-- Heads apart, the request layer, the log and the daemon state are as before; no head
has changed its dirty flag or lost `b_uptodate`. -/
structure FlagRel (s s' : State) : Prop where
  rest : SameRest s s'
  dirt : ∀ x, (s'.b x).b_dirt = (s.b x).b_dirt
  upto : ∀ x, (s.b x).b_uptodate = true → (s'.b x).b_uptodate = true

/-- Code that, when it returns, has kept what `FlagRel` lists. -/
def Keeps {α : Type} (m : K α) : Prop := ∀ s a s', m s = .ok a s' → FlagRel s s'

/-- A page of two buffers, heads 1 and 2 on one `b_this_page` ring, head 1
referenced. -/
def two_buffer_page : State :=
  { b := fun k =>
      if k = 1 then { b_this_page := 2, b_count := 1, b_size := 2048, b_data := 0x100000 }
      else if k = 2 then { b_this_page := 1, b_size := 2048, b_data := 0x100800 }
      else {} }

/-- The state a run ends in (the initial state of the structure when it does not
return). -/
def Res.state {α : Type} : Res α → State
  | .ok _ s => s
  | _ => {}

/-- The value a run returns. -/
def Res.val {α : Type} [Inhabited α] : Res α → α
  | .ok a _ => a
  | _ => default

/-- Whether a run returns. -/
def Res.isOk {α : Type} : Res α → Bool
  | .ok _ _ => true
  | _ => false

instance (s : State) (x : Nat) : Decidable (Hashed s x) := by
  unfold Hashed
  infer_instance

instance (s : State) (x : Nat) : Decidable (Linked s x) := by
  unfold Linked
  infer_instance

instance (s : State) (dev block : Nat) : Decidable (BoundTo s dev block) := by
  unfold BoundTo
  infer_instance

/-- A machine with three free page frames and no block driver, before
`buffer_init`. -/
def boot3 : State := boot [0x100000, 0x101000, 0x102000] []

/-- The cache of `boot3` after `buffer_init`: one page of 1024-byte buffers on the
free list. -/
def boot3_init : State := (buffer_init 10 boot3).state

/-- The cache after `getblk(1, 10, 1024)`. -/
def boot3_1024 : State := (getblk 10 1 10 1024 boot3_init).state

/-- The cache after `getblk(1, 10, 1024)` and `getblk(1, 10, 512)`. -/
def boot3_512 : State := (getblk 10 1 10 512 boot3_1024).state

/-- The reason of the panic a run ends in, when it does. -/
def Res.panicked {α : Type} : Res α → Option Panic
  | .panic p => some p
  | _ => none

/-- The cache of `boot3` after `getblk(1, 10, 1024)` and `brelse` of the descriptor it
returned, head 61. -/
def boot3_released : State := (brelse 10 61 boot3_1024).state

/-- A machine with two free page frames and a driver for the hard disk (major 3); the
flush daemon has not been started. -/
def disk2 : State := boot [0x100000, 0x101000] [3]

/-- The cache of `disk2` after `buffer_init`: four 1024-byte buffers, heads 61 to 64. -/
def disk2_init : State := (buffer_init 10 disk2).state

/-- Block 1 of the disk `0x301` is held by head 61 and has been marked dirty. -/
def disk2_dirty : State :=
  (mark_buffer_dirty 10 61 0 (getblk 10 0x301 1 1024 disk2_init).state).state

/-- Block 2 of the disk is held by head 62. -/
def disk2_two : State := (getblk 10 0x301 2 1024 disk2_dirty).state

/-- The state in which `mark_buffer_dirty` calls `refile_buffer` for head 62: the dirty
flag is set and the flush deadline stamped. -/
def disk2_marked : State :=
  ((setB 62 (fun h => { h with b_dirt := true }) >>= fun _ => set_writetime 62 0) disk2_two).state

/-- As `boot3`, with the flush daemon running. -/
def daemon3 : State := { boot3 with bdflush_running := 1 }

/-- The cache of `daemon3` after `buffer_init`, `getblk(1, 10, 1024)`, which returns
head 61, and `mark_buffer_dirty` on it. -/
def daemon3_dirty : State :=
  (mark_buffer_dirty 10 61 0 (getblk 10 1 10 1024 (buffer_init 10 daemon3).state).state).state

/-- What `getblk` changes when it binds the free head `bh` to `(dev, block)`: the head is
rewritten, it leaves its free list, and it enters the disposition list its `b_list` names
and the hash chain of `(dev, block)`. -/
structure Fetched (s s' : State) (bh dev block : Nat) : Prop where
  b : s'.b = upd s.b bh
    { (s.b bh) with b_count := 1, b_dirt := false, b_lock := false, b_uptodate := false,
                    b_flushtime := 0, b_req := false, b_dev := dev, b_blocknr := block }
  nr_hash : s'.nr_hash = s.nr_hash
  hash : ∀ k x, x ∈ s'.hash_table k ↔
    x ∈ s.hash_table k ∨ (x = bh ∧ dev ≠ 0 ∧ k = _hashfn s dev block)
  lru : ∀ l x, x ∈ s'.lru_list l ↔ x ∈ s.lru_list l ∨ (x = bh ∧ l = (s.b bh).b_list)
  nr_free : ∀ i, s'.nr_free i =
    if i = BUFSIZE_INDEX (s.b bh).b_size then s.nr_free i - 1 else s.nr_free i
  free : ∀ i x, x ∈ s'.free_list i ↔ x ∈ s.free_list i ∧ x ≠ bh
  rest : SameRest s s'

/-- From `disk2_dirty`: head 61 is released, block 2 is taken by head 62 and marked dirty,
which starts the synchronous flush of both buffers, and the write of head 61 completes:
head 61 is unlocked, unreferenced and still on the LOCKED1 list. -/
def disk2_written : State :=
  (end_buffer_io 61 (mark_buffer_dirty 10 62 0
    (getblk 10 0x301 2 1024 (brelse 10 61 disk2_dirty).state).state).state).state

/-- From `disk2_written`: `refill_freelist` reclaims head 61 onto the free list, and
blocks 3 and 4 take the heads 63 and 64 that were ahead of it. -/
def disk2_reclaimed : State :=
  (getblk 10 0x301 4 1024 (getblk 10 0x301 3 1024
    (refill_freelist 20 1024 disk2_written).state).state).state

/-- The cache after `getblk(1, 10, 1024)`, `brelse` of its descriptor, head 61, and
`getblk(1, 10, 512)`. -/
def boot3_mixed : State := (getblk 10 1 10 512 boot3_released).state

/-- The cache of `disk2` after `buffer_init` and `bread(0x301, 1, 1024)`, which returns
head 61, read and up to date. -/
def disk2_read : State := (bread 10 0x301 1 1024 disk2_init).state

/-- Code that, when it returns, has taken the state to one related to it by `R`. -/
def KeepsR (R : State → State → Prop) {α : Type} (m : K α) : Prop :=
  ∀ s a s', m s = .ok a s' → R s s'

/-- A reflexive and transitive relation on states. -/
structure Pre (R : State → State → Prop) : Prop where
  refl : ∀ s, R s s
  trans : ∀ s s' s'', R s s' → R s' s'' → R s s''

/-- The request layer, the log and the daemon state are as before, and every head is as
before but for `b_list`, `b_lru_time` and `b_dirt`: what re-filing buffers and marking
them clean changes. -/
structure Refiled (s s' : State) : Prop where
  rest : SameRest s s'
  heads : ∀ x, ∃ l t d, s'.b x = { (s.b x) with b_list := l, b_lru_time := t, b_dirt := d }

/-- Run from `s`, the code, when it returns, has taken the state to one related to `s` by
`R`. -/
def KeepsAt (R : State → State → Prop) {α : Type} (m : K α) (s : State) : Prop :=
  ∀ a s', m s = .ok a s' → R s s'

/-- The queue of a device after `add_request` has added `req`: the head stays, and `req`
goes where the elevator walk puts it. -/
def queue_add (s : State) (major req : Nat) : List Nat :=
  match s.current_request major with
  | [] => [req]
  | tmp :: rest => tmp :: add_request_insert s req tmp rest

/-- The ordering relation of the elevator between two queued requests. -/
def InOrder (s : State) (a b : Nat) : Prop :=
  IN_ORDER (s.all_requests a) (s.all_requests b) = true

instance (s : State) (a b : Nat) : Decidable (InOrder s a b) :=
  inferInstanceAs (Decidable (IN_ORDER (s.all_requests a) (s.all_requests b) = true))

/-- Three request slots for the disk `0x301`, none carrying a buffer: slot 0 reads
sector 500, slot 1 writes sector 200, slot 2 reads sector 100.  Every queue is empty. -/
def three_requests : State :=
  { all_requests := fun k =>
      if k = 0 then { dev := 0x301, cmd := 0, sector := 500 }
      else if k = 1 then { dev := 0x301, cmd := 1, sector := 200 }
      else if k = 2 then { dev := 0x301, cmd := 0, sector := 100 }
      else {} }

/-- As `three_requests`, with the slots 0 and 1 queued for major 3. -/
def two_queued : State :=
  { three_requests with current_request := fun m => if m = 3 then [0, 1] else [] }

/-- What a refused submission leaves alone: the request slots, the queues, the slot
search, the record of driver calls, and the lock of every buffer. -/
structure Refused (s s' : State) : Prop where
  all_requests : s'.all_requests = s.all_requests
  current_request : s'.current_request = s.current_request
  request_fn_calls : s'.request_fn_calls = s.request_fn_calls
  prev_found : s'.prev_found = s.prev_found
  b_lock : ∀ x, (s'.b x).b_lock = (s.b x).b_lock

/-- A disk `0x301` with a driver and its read-only bit set; head 1 is a dirty buffer of
the disk. -/
def ro_disk : State :=
  { request_fn := fun m => m == 3,
    ro_bits := fun major w => if major = 3 ∧ w = 0 then 2 else 0,
    b := fun k => if k = 1 then { b_dev := 0x301, b_size := 1024, b_dirt := true } else {} }

/-- The test of `make_request` for merging a buffer behind a pending request: same device,
no semaphore, same command, the request ends at the first sector of the buffer, and it is
shorter than 244 sectors. -/
def merges_back (s : State) (bh rw sector req : Nat) : Prop :=
  (s.all_requests req).dev = ((s.b bh).b_dev : Int) ∧ (s.all_requests req).sem = false ∧
    (s.all_requests req).cmd = rw ∧
    ((s.all_requests req).sector + (s.all_requests req).nr_sectors) % 4294967296 = sector ∧
    (s.all_requests req).nr_sectors < 244

/-- The test of `make_request` for merging a buffer in front of a pending request. -/
def merges_front (s : State) (bh rw sector count req : Nat) : Prop :=
  (s.all_requests req).dev = ((s.b bh).b_dev : Int) ∧ (s.all_requests req).sem = false ∧
    (s.all_requests req).cmd = rw ∧ usub (s.all_requests req).sector count = sector ∧
    (s.all_requests req).nr_sectors < 244

/-- The requests `make_request` walks over when it looks for a merge: the queue, without
its head for the floppy and, when configured, the old hard disk driver. -/
def merge_walk (s : State) (major : Nat) : List Nat :=
  if (s.config_blk_dev_hd ∧ major = HD_MAJOR) ∨ major = FLOPPY_MAJOR then
    (s.current_request major).tail
  else s.current_request major

instance (s : State) (bh rw sector req : Nat) : Decidable (merges_back s bh rw sector req) :=
  inferInstanceAs (Decidable ((s.all_requests req).dev = ((s.b bh).b_dev : Int) ∧
    (s.all_requests req).sem = false ∧ (s.all_requests req).cmd = rw ∧
    ((s.all_requests req).sector + (s.all_requests req).nr_sectors) % 4294967296 = sector ∧
    (s.all_requests req).nr_sectors < 244))

/-- Two pending reads of the disk `0x301` on the queue of major 3: slot 0, the head, reads
the sectors 22 and 23 into head 5, slot 1 reads the sectors 18 and 19 into head 6.  Head 1
is an unlocked buffer of 1024 bytes for block 10 of the disk, the sectors 20 and 21, not
up to date. -/
def merge_pair : State :=
  { request_fn := fun m => m == 3,
    current_request := fun m => if m = 3 then [0, 1] else [],
    all_requests := fun k =>
      if k = 0 then { dev := 0x301, cmd := 0, sector := 22, nr_sectors := 2, bh := 5, bhtail := 5 }
      else if k = 1 then
        { dev := 0x301, cmd := 0, sector := 18, nr_sectors := 2, bh := 6, bhtail := 6 }
      else {},
    b := fun k =>
      if k = 1 then { b_dev := 0x301, b_size := 1024, b_blocknr := 10 }
      else if k = 5 then { b_dev := 0x301, b_size := 1024, b_blocknr := 11, b_lock := true }
      else if k = 6 then { b_dev := 0x301, b_size := 1024, b_blocknr := 9, b_lock := true }
      else {} }

/-- As `disk2_two`, where head 62 holds block 2 of the disk `0x301`, the sectors 4 and 5;
the queue of major 3 holds slot 0, a read of the sectors 2 and 3 of the disk whose buffer
chain is head 61, and no device size is registered. -/
def merge_ready : State :=
  { disk2_two with
    current_request := fun m => if m = 3 then [0] else [],
    all_requests := fun k =>
      if k = 0 then { dev := 0x301, cmd := 0, sector := 2, nr_sectors := 2, bh := 61, bhtail := 61 }
      else {},
    blk_size := fun _ => none }

/-- The queue of `major` is plugged: the on-stack request `plug` of `ll_rw_block` is at
its head and nowhere behind it. -/
def Plugged (s : State) (major : Nat) : Prop :=
  ∃ rest, s.current_request major = PLUG :: rest ∧ PLUG ∉ rest

/-- The slot search of `get_request` starts within its limit: `prev_found` points into the
part of the table that `prev_limit` bounds. -/
def SearchOk (s : State) : Prop := ∀ n, s.prev_limit = some n → s.prev_found < n

/-- At least `k` request slots below the limit for writes are free. -/
def FreeSlots (s : State) (k : Nat) : Prop :=
  ∃ l : List Nat, l.Nodup ∧ k ≤ l.length ∧
    ∀ q ∈ l, q < NR_REQUEST * 2 / 3 ∧ (s.all_requests q).dev < 0

/-- What the submission loop of a plugged `ll_rw_block` keeps: the slot search is within
its limit, the plug heads the queue, the driver calls recorded are `calls`, and `k`
request slots are free. -/
structure Batch (s : State) (major : Nat) (calls : List Nat) (k : Nat) : Prop where
  search : SearchOk s
  plugged : Plugged s major
  calls : s.request_fn_calls = calls
  slots : FreeSlots s k

/-- The queues, the record of driver calls, the slot search and the device of every
request slot are as before. -/
structure SameQueue (s s' : State) : Prop where
  current_request : s'.current_request = s.current_request
  request_fn_calls : s'.request_fn_calls = s.request_fn_calls
  prev_limit : s'.prev_limit = s.prev_limit
  prev_found : s'.prev_found = s.prev_found
  dev : ∀ r, (s'.all_requests r).dev = (s.all_requests r).dev

/-- The state in which the submission loop of a plugged `ll_rw_block` starts: the on-stack
request `plug`, marked inactive, is the queue of `major`. -/
def plug_queue (s : State) (major : Nat) : State :=
  (setR PLUG (fun r => { r with dev := -1 })
    { s with current_request := upd s.current_request major [PLUG] }).state

/-- A SCSI disk `0x801` with a driver, an empty queue and every request slot free; the
heads 1 and 2 are unlocked buffers of the disk for the blocks 1 and 5, not up to date. -/
def scsi_pair : State :=
  { request_fn := fun m => m == 8,
    b := fun k =>
      if k = 1 then { b_dev := 0x801, b_size := 1024, b_blocknr := 1 }
      else if k = 2 then { b_dev := 0x801, b_size := 1024, b_blocknr := 5 }
      else {} }

/-- The lists and the counters agree: the free lists, the disposition lists and
`unused_list` hold carved heads, each head on one list at most and once; `nr_free`,
`nr_buffers_type` and `nr_buffers_st` are the lengths of the free lists, the lengths of
the disposition lists and the numbers of buffers of each size on them; and every
parameter of the flush daemon is within its range. -/
structure Tally (s : State) : Prop where
  free_nodup : ∀ i, (s.free_list i).Nodup
  lru_nodup : ∀ l, (s.lru_list l).Nodup
  unused_nodup : s.unused_list.Nodup
  free_free : ∀ i j x, x ∈ s.free_list i → x ∈ s.free_list j → i = j
  lru_lru : ∀ l m x, x ∈ s.lru_list l → x ∈ s.lru_list m → l = m
  free_lru : ∀ i l x, x ∈ s.free_list i → x ∉ s.lru_list l
  unused_free : ∀ i x, x ∈ s.unused_list → x ∉ s.free_list i
  unused_lru : ∀ l x, x ∈ s.unused_list → x ∉ s.lru_list l
  carved_free : ∀ i x, x ∈ s.free_list i → 1 ≤ x ∧ x ≤ s.nr_buffer_heads
  carved_lru : ∀ l x, x ∈ s.lru_list l → 1 ≤ x ∧ x ≤ s.nr_buffer_heads
  carved_unused : ∀ x, x ∈ s.unused_list → 1 ≤ x ∧ x ≤ s.nr_buffer_heads
  nr_free : ∀ i, s.nr_free i = (s.free_list i).length
  nr_buffers_type : ∀ l, s.nr_buffers_type l = (s.lru_list l).length
  nr_buffers_st : ∀ i l, s.nr_buffers_st i l =
    (s.lru_list l).countP fun x => decide (BUFSIZE_INDEX (s.b x).b_size = i)
  bdf_prm : ∀ i, i < N_PARAM → bdflush_min i ≤ s.bdf_prm i ∧ s.bdf_prm i ≤ bdflush_max i

/-- The code keeps `Tally` when it returns. -/
def Tallies (s s' : State) : Prop := Tally s → Tally s'

/-- Nothing that `Tally` looks at has changed: the lists, the counters, the parameters
of the flush daemon and the size of every head. -/
structure Still (s s' : State) : Prop where
  free_list : s'.free_list = s.free_list
  lru_list : s'.lru_list = s.lru_list
  unused_list : s'.unused_list = s.unused_list
  nr_buffer_heads : s'.nr_buffer_heads = s.nr_buffer_heads
  nr_free : s'.nr_free = s.nr_free
  nr_buffers_type : s'.nr_buffers_type = s.nr_buffers_type
  nr_buffers_st : s'.nr_buffers_st = s.nr_buffers_st
  bdf_prm : s'.bdf_prm = s.bdf_prm
  b_size : ∀ x, (s'.b x).b_size = (s.b x).b_size

/-- The buffers of size class `i` that the counters know: `nr_free[i]` plus
`nr_buffers_st[i][l]` summed over the disposition lists. -/
def stock (s : State) (i : Int) : Int :=
  s.nr_free i + (ALL_LISTS.map fun l => s.nr_buffers_st i l).sum

/-- The lists and their counters stay in step, and no size class gains or loses a
buffer. -/
def Moves (s s' : State) : Prop := Tally s → Tally s' ∧ ∀ i, stock s' i = stock s i

/-- The heads linked through `b_this_page` from `head` down to the null pointer: on no
list, and all different. -/
def Spare (s : State) : Nat → List Nat → Prop
  | head, [] => head = 0
  | head, x :: L => head = x ∧ Detached s x ∧ x ∉ L ∧ Spare s (s.b x).b_this_page L

/-- What one turn of the loop of `invalidate_buffers(dev)` leaves of the head it looks
at: a head of another device is left alone; a locked head has been waited for, that is,
its transfer has completed; and without a reference the flags and the flush deadline are
cleared. -/
def invalidate_head (dev : Nat) (disk_ok : Nat → Nat → Bool) (h : buffer_head) :
    buffer_head :=
  if h.b_dev ≠ dev then h
  else if h.b_lock then
    if h.b_count ≠ 0 then
      { h with b_uptodate := if disk_ok h.b_dev h.b_blocknr then true else h.b_uptodate,
               b_lock := false }
    else
      { h with b_lock := false, b_flushtime := 0, b_uptodate := false, b_dirt := false,
               b_req := false }
  else if h.b_count ≠ 0 then h
  else { h with b_flushtime := 0, b_uptodate := false, b_dirt := false, b_req := false }

/-- The state after one turn of the loop of `invalidate_buffers(dev)` on `bh`. -/
def invalidate_turn (dev bh : Nat) (s : State) : State :=
  { s with b := upd s.b bh (invalidate_head dev s.disk_ok (s.b bh)) }

/-- The state after the loop has looked at the heads `vs` one after the other. -/
def invalidate_sweep (dev : Nat) : List Nat → State → State
  | [], s => s
  | bh :: vs, s => invalidate_sweep dev vs (invalidate_turn dev bh s)

/-- The disposition list `nlist` is `l`, and the heads of `l` name it in `b_list` and do
not carry the free marker: `l` is the ring the heads of `l` are linked on. -/
def RingOf (s : State) (nlist : BufList) (l : List Nat) : Prop :=
  s.lru_list nlist = l ∧ ∀ y ∈ l, (s.b y).b_dev ≠ B_FREE ∧ (s.b y).b_list = nlist

/-- The heads the loops of `invalidate_buffers` look at, in turn: on a list of `n` heads
the inner loop makes `2n-1` turns, once around the ring and on to the head before the
last. -/
def invalidate_visits (s : State) : List BufList → List Nat
  | [] => []
  | nlist :: rest =>
    (s.lru_list nlist ++ (s.lru_list nlist).take ((s.lru_list nlist).length - 1)) ++
      invalidate_visits s rest

/-- Block 1 of the disk `0x301` is held by head 61 and its read has been submitted: the
head is referenced and locked until the transfer completes. -/
def disk2_reading : State :=
  (ll_rw_block (refile_buffer 10) 10 .READ [61] (getblk 10 0x301 1 1024 disk2_init).state).state

/-- What the visit of the head `x` in a pass over the DIRTY list leaves alone: the clock,
every other head but for its request link, and the DIRTY list but for `x`, which may
have left it. -/
structure Touched (x : Nat) (s s' : State) : Prop where
  jiffies : s'.jiffies = s.jiffies
  heads : ∀ y, y ≠ x → ∃ r, s'.b y = { (s.b y) with b_reqnext := r }
  dirty : s'.lru_list BUF_DIRTY = s.lru_list BUF_DIRTY ∨
    s'.lru_list BUF_DIRTY = ring_remove (s.lru_list BUF_DIRTY) x

/-- The test of `sync_old_buffers` for the buffers it writes: dirty, not locked, and the
flush deadline not later than the current time. -/
def due (s : State) (x : Nat) : Bool :=
  (s.b x).b_dirt && !(s.b x).b_lock && decide ((s.b x).b_flushtime ≤ s.jiffies)

/-- As `disk2`, with the flush daemon running. -/
def daemon2 : State := { disk2 with bdflush_running := 1 }

/-- Block 1 of the disk `0x301`, held by head 61, was marked dirty at time 0. -/
def daemon2_first : State :=
  (mark_buffer_dirty 10 61 0
    (getblk 10 0x301 1 1024 (buffer_init 10 daemon2).state).state).state

/-- Block 2, held by head 62, was marked dirty at time 2000. -/
def daemon2_second : State :=
  (mark_buffer_dirty 10 62 0
    (getblk 10 0x301 2 1024
      { daemon2_first with jiffies := daemon2_first.jiffies + 2000 }).state).state

/-- The cache at time 3000: the flush deadline of head 61 (3000) has passed, that of
head 62 (5000) has not. -/
def daemon2_aged : State := { daemon2_second with jiffies := daemon2_second.jiffies + 1000 }
instance : Inhabited OldLocals := ⟨{}⟩

/-- The key of a request that `IN_ORDER` compares: command, device and first sector. -/
def request_key (r : request) : Nat × Int × Nat := (r.cmd, r.dev, r.sector)

/-- The number of adjacent pairs of a queue that are out of order under `IN_ORDER`. -/
def out_of_order (s : State) : List Nat → Nat
  | [] => 0
  | [_] => 0
  | a :: b :: rest =>
    (if IN_ORDER (s.all_requests a) (s.all_requests b) then 0 else 1) +
      out_of_order s (b :: rest)

/-- A machine with three free page frames and a driver for the hard disk (major 3); the
disk `0x301` has 10 blocks of 1024 bytes, that is the sectors 0 to 19, and is used with
a block size of 512 bytes. -/
def small_disk : State :=
  { boot [0x100000, 0x101000, 0x102000] [3] with
    blk_size := fun m => if m = 3 then some (fun _ => 10) else none,
    blksize_size := fun m => if m = 3 then some (fun _ => 512) else none }

/-- The cache of `small_disk` after `buffer_init` and `getblk(0x301, 20, 512)`, which
returns head 53: the buffer of sector 20, the first sector past the end of the disk. -/
def small_disk_last : State := (getblk 10 0x301 20 512 (buffer_init 10 small_disk).state).state

/-- Then `getblk(0x301, 21, 512)` returns head 54, the buffer of sector 21. -/
def small_disk_beyond : State := (getblk 10 0x301 21 512 small_disk_last).state

/-- The cache of `boot3` after `buffer_init` and the call `sys_bdflush(3, 0)` of the
super-user, which sets the parameter `nfract` to 0. -/
def boot3_nfract0 : State := (sys_bdflush 10 true 0 false 3 0 boot3_init).state

/-- The number of descriptors of size class `i` that exist: those on the free list of the
class and those of the class on the disposition lists. -/
def descriptors (s : State) (i : Int) : Nat :=
  (s.free_list i).length +
    (ALL_LISTS.map fun l =>
      (s.lru_list l).countP fun x => decide (BUFSIZE_INDEX (s.b x).b_size = i)).sum

/-- The counters `nr_buffers_size` are as before. -/
def SameSizes (s s' : State) : Prop := s'.nr_buffers_size = s.nr_buffers_size

/-- What a write request leaves of the request pool: the slot search stays within its
limit, and no slot of the last third of the pool changes its device. -/
def LastThird (s s' : State) : Prop :=
  SearchOk s → SearchOk s' ∧
    ∀ r, NR_REQUEST * 2 / 3 ≤ r → r < NR_REQUEST → (s'.all_requests r).dev = (s.all_requests r).dev

/-- The constant `NBUF` of `breada`. -/
def NBUF : Nat := 16

/-- The local variables `bhlist`, `j`, `index` and `blocks` of `breada`; `stored` lists the
indexes of the elements of `bhlist` that have been assigned, in order, and `submitted` the
arrays handed to `ll_rw_block`. -/
structure BreadaLocals where
  bhlist : Nat → Nat := fun _ => 0
  j : Nat := 0
  index : Int := 0
  blocks : Nat := 0
  stored : List Nat := []
  submitted : List (List Nat) := []

instance : Inhabited BreadaLocals := ⟨{}⟩

/-- The value of `blocks` in `breada` when the loop starts, in unsigned 32-bit arithmetic;
`read_ahead` is `read_ahead[MAJOR(dev)]`.  A negative shift count is taken as 0. -/
def breada_blocks (read_ahead : Nat) (index : Int) (bufsize pos filesize : Nat) : Nat :=
  let blocks := usub (filesize &&& usub bufsize 1) (pos &&& usub bufsize 1) >>> (9 + index).toNat
  let blocks := if blocks > read_ahead >>> index.toNat then read_ahead >>> index.toNat else blocks
  if blocks > NBUF then NBUF else blocks

/-- The loop `for(i=1; i<blocks; i++)` of `breada`, with `n` turns left. -/
def breada_loop (fuel dev block bufsize : Nat) : Nat → Nat → BreadaLocals → K BreadaLocals
  | 0, _, loc => pure loc
  | n + 1, i, loc => do
    let bh ← getblk fuel dev (block + i) bufsize
    let s ← getS
    if (s.b bh).b_uptodate then do
      brelse fuel bh
      pure loc
    else
      breada_loop fuel dev block bufsize n (i + 1)
        { loc with bhlist := upd loc.bhlist loc.j bh, j := loc.j + 1, stored := loc.stored ++ [loc.j] }

/-- The loop `for(i=1; i<j; i++) brelse(bhlist[i])` of `breada`, with `n` turns left. -/
def breada_release (fuel : Nat) (bhlist : Nat → Nat) : Nat → Nat → K Unit
  | 0, _ => pure ()
  | n + 1, i => do
    brelse fuel (bhlist i)
    breada_release fuel bhlist n (i + 1)

/-- The function `breada`; `none` is the null pointer.  With the result come the local
variables as the function leaves them. -/
def breada (fuel dev : Nat) (block : Int) (bufsize pos filesize : Nat) :
    K (Option Nat × BreadaLocals) := do
  if pos ≥ filesize then pure (none, {})
  else if block < 0 then pure (none, {})
  else do
    let bh ← getblk fuel dev block.toNat bufsize
    if bh = 0 then pure (none, {})
    else do
      let s ← getS
      let index := BUFSIZE_INDEX (s.b bh).b_size
      if (s.b bh).b_uptodate then pure (some bh, { index := index })
      else do
        let blocks := breada_blocks (s.read_ahead (MAJOR dev)) index bufsize pos filesize
        let loc ← breada_loop fuel dev block.toNat bufsize (blocks - 1) 1
          { bhlist := upd (fun _ => 0) 0 bh, j := 1, index := index, blocks := blocks, stored := [0] }
        let bhs := (List.range loc.j).map loc.bhlist
        ll_rw_block (refile_buffer fuel) fuel .READ bhs
        breada_release fuel loc.bhlist (loc.j - 1) 1
        let bh := loc.bhlist 0
        wait_on_buffer bh
        let s1 ← getS
        if (s1.b bh).b_uptodate then pure (some bh, { loc with submitted := [bhs] })
        else do
          brelse fuel bh
          pure (none, { loc with submitted := [bhs] })

/-- As `disk2`, with a read-ahead of 8 sectors for every major. -/
def ahead2 : State := { disk2 with read_ahead := fun _ => 8 }

/-- The cache of `ahead2` after `buffer_init`. -/
def ahead2_init : State := (buffer_init 10 ahead2).state

instance : Inhabited RefillLocals := ⟨{}⟩

/-- The cache of `boot3` after `buffer_init` and `getblk` of the blocks 1 to 6 of the disk
`0x301`: the heads 61 to 64 hold the blocks 1 to 4, and the heads 57 and 58, of the page
the cache has grown by, hold the blocks 5 and 6. -/
def lru6_held : State :=
  (getblk 30 0x301 6 1024 (getblk 30 0x301 5 1024 (getblk 30 0x301 4 1024
    (getblk 30 0x301 3 1024 (getblk 30 0x301 2 1024 (getblk 30 0x301 1 1024
      (buffer_init 10 boot3).state).state).state).state).state).state).state

/-- Head 58 is released at time 10. -/
def lru6_first : State := (brelse 30 58 { lru6_held with jiffies := lru6_held.jiffies + 10 }).state

/-- The heads 61 to 64 and 57 are released at time 100. -/
def lru6_released : State :=
  (brelse 30 57 (brelse 30 64 (brelse 30 63 (brelse 30 62 (brelse 30 61
    { lru6_first with jiffies := lru6_first.jiffies + 90 }).state).state).state).state).state

/-- The super-user sets the parameter `nrefill` to 5 with `sys_bdflush(7, 5)`: the CLEAN
list holds the heads 61, 62, 63, 64, 57, 58 in this order, all clean, unlocked,
unreferenced, of 1024 bytes and on unshared pages, head 58 with `b_lru_time` 10 and the
others with 100. -/
def lru6_ready : State := (sys_bdflush 30 true 0 false 7 5 lru6_released).state

/-- The first sector of the buffer `x`, as `make_request` computes it in an
`unsigned int`: `b_blocknr * (b_size >> 9)`. -/
def bh_sector (s : State) (x : Nat) : Nat :=
  ((s.b x).b_blocknr * ((s.b x).b_size >>> 9)) % 4294967296

/-- The buffers of the list follow each other through `b_reqnext`, and each begins, in
32-bit arithmetic, at the sector at which the one before ends. -/
def Chained (s : State) : List Nat → Prop
  | [] => True
  | [_] => True
  | x :: y :: rest =>
    (s.b x).b_reqnext = y ∧
      (bh_sector s x + (s.b x).b_size >>> 9) % 4294967296 = bh_sector s y ∧
      Chained s (y :: rest)

/-- The buffers of the list cover ascending sector ranges without a gap: each begins at
the sector at which the one before ends. -/
def Ascending (s : State) : List Nat → Prop
  | [] => True
  | [_] => True
  | x :: y :: rest =>
    bh_sector s x + (s.b x).b_size >>> 9 = bh_sector s y ∧ Ascending s (y :: rest)

/-- The list `L` is the buffer chain of the request `r`, from `bh` to `bhtail`: linked
through `b_reqnext`, contiguous in 32-bit arithmetic, beginning at the sector of the
request, with `nr_sectors` the sum of the sector counts. -/
structure ChainOk (s : State) (r : Nat) (L : List Nat) : Prop where
  first : L.head? = some (s.all_requests r).bh
  last : L.getLast? = some (s.all_requests r).bhtail
  nodup : L.Nodup
  chained : Chained s L
  start : bh_sector s (s.all_requests r).bh = (s.all_requests r).sector
  total : (s.all_requests r).nr_sectors = (L.map fun x => (s.b x).b_size >>> 9).sum

/-- The disk `0x301` of `disk2` (no size table): the read of block 2147483647, held by
head 61, has been submitted and is request 63, for the sectors 4294967294 and
4294967295; block 0 is held by head 62. -/
def wrap_pending : State :=
  (getblk 10 0x301 0 1024
    (ll_rw_block (refile_buffer 10) 10 .READ [61]
      (getblk 10 0x301 2147483647 1024 disk2_init).state).state).state

/-- The free lists, the disposition lists, the page table of the cache and every counter
of buffers are as before. -/
structure Ungrown (s s' : State) : Prop where
  free_list : s'.free_list = s.free_list
  lru_list : s'.lru_list = s.lru_list
  nr_free : s'.nr_free = s.nr_free
  nr_buffers : s'.nr_buffers = s.nr_buffers
  nr_buffers_type : s'.nr_buffers_type = s.nr_buffers_type
  nr_buffers_st : s'.nr_buffers_st = s.nr_buffers_st
  nr_buffers_size : s'.nr_buffers_size = s.nr_buffers_size
  buffermem : s'.buffermem = s.buffermem
  buffer_pages : s'.buffer_pages = s.buffer_pages

/-- The heads linked through `b_this_page` from `head` down to the null pointer cut the
page from the offset `off` to its end into buffers of `size` bytes: each is marked free,
has the size `size`, and its data area begins where the one before ends. -/
def Cut (s : State) (page size : Nat) : Nat → Nat → List Nat → Prop
  | off, head, [] => head = 0 ∧ off = PAGE_SIZE
  | off, head, x :: L =>
    head = x ∧ (s.b x).b_data = page + off ∧ (s.b x).b_size = size ∧
      (s.b x).b_dev = B_FREE ∧ Cut s page size (off + size) (s.b x).b_this_page L
/-- What a successful `grow_buffers(pri, size)` has done with the page `page`, the first
of the pool: the list `L` of `PAGE_SIZE/size` different heads, none of which was on a free
list, has been added to the free list of the size, and to no other; the `k`-th head is
marked free, has the size `size` and the data area `page + k*size`, and points through
`b_this_page` to the next one, the last to the first; the data areas lie apart and cover
the page; `nr_free` of the size and `nr_buffers` have grown by `PAGE_SIZE/size`, `nr_free`
of no other size has changed, and `buffermem` has grown by `PAGE_SIZE`. -/
structure Grown (s s' : State) (size page : Nat) (L : List Nat) : Prop where
  first : s.page_pool.head? = some page
  count : L.length = PAGE_SIZE / size
  nodup : L.Nodup
  fresh : ∀ x ∈ L, ∀ i, x ∉ s.free_list i
  free_list : (s'.free_list (BUFSIZE_INDEX size)).Perm (L ++ s.free_list (BUFSIZE_INDEX size))
  free_other : ∀ i, i ≠ BUFSIZE_INDEX size → s'.free_list i = s.free_list i
  heads : ∀ k x : Nat, L[k]? = some x →
    (s'.b x).b_dev = B_FREE ∧ (s'.b x).b_size = size ∧ (s'.b x).b_data = page + k * size ∧
      L[(k + 1) % L.length]? = some (s'.b x).b_this_page
  apart : ∀ j k x y : Nat, j < k → L[j]? = some x → L[k]? = some y →
    (s'.b x).b_data + size ≤ (s'.b y).b_data
  cover : ∀ a : Nat, page ≤ a → a < page + PAGE_SIZE →
    ∃ k x : Nat, L[k]? = some x ∧ (s'.b x).b_data ≤ a ∧ a < (s'.b x).b_data + size
  nr_free : s'.nr_free (BUFSIZE_INDEX size) =
    s.nr_free (BUFSIZE_INDEX size) + ((PAGE_SIZE / size : Nat) : Int)
  nr_free_other : ∀ i, i ≠ BUFSIZE_INDEX size → s'.nr_free i = s.nr_free i
  nr_buffers : s'.nr_buffers = s.nr_buffers + ((PAGE_SIZE / size : Nat) : Int)
  buffermem : s'.buffermem = s.buffermem + (PAGE_SIZE : Int)

/-- No head has become dirty, a dirty head that was filed under DIRTY still is, and a
dirty head among the carved ones was carved before. -/
structure Filed (s s' : State) : Prop where
  heads : ∀ x, (s'.b x).b_dirt = true →
    (s.b x).b_dirt = true ∧ ((s.b x).b_list = BUF_DIRTY → (s'.b x).b_list = BUF_DIRTY)
  carved : ∀ x, x ≤ s'.nr_buffer_heads → (s'.b x).b_dirt = true → x ≤ s.nr_buffer_heads

/-- Every carved head that is dirty is filed under DIRTY. -/
def AllFiled (s : State) : Prop :=
  ∀ x, 1 ≤ x → x ≤ s.nr_buffer_heads → (s.b x).b_dirt = true → (s.b x).b_list = BUF_DIRTY

/-- Modelled from the spec: the visit of one descriptor by the periodic pass, "for each
dirty, unlocked buffer whose flush deadline has passed, issue a write" (§4.5); a clean,
unlocked buffer met on the DIRTY list is re-filed, and any other buffer is left alone. -/
def sync_old_visit (fuel x : Nat) : K Unit := do
  let s ← getS
  if (s.b x).b_dirt = false ∧ (s.b x).b_lock = false then refile_buffer fuel x
  else if due s x then do
    setB x fun h => { h with b_count := h.b_count + 1, b_flushtime := 0 }
    ll_rw_block (refile_buffer fuel) fuel .WRITE [x]
    setB x fun h => { h with b_count := h.b_count - 1 }
  else pure ()

/-- Modelled from the spec: "scan the DIRTY list once" (§4.5): the descriptors of the
list are visited one after the other, in list order. -/
def sync_old_visits (fuel : Nat) : List Nat → K Unit
  | [] => pure ()
  | x :: rest => do
    sync_old_visit fuel x
    sync_old_visits fuel rest

/-- The test that `refill_freelist` makes of a head before it takes it as a candidate: the
buffer is unreferenced and of the size asked for, alone on its page, clean and unlocked. -/
def Usable (size : Nat) (s : State) (y : Nat) : Prop :=
  (s.b y).b_count = 0 ∧ (s.b y).b_size = size ∧ s.mem_map (MAP_NR (s.b y).b_data) = 1 ∧
    (s.b y).b_dirt = false ∧ (s.b y).b_lock = false

instance (size : Nat) (s : State) (y : Nat) : Decidable (Usable size s y) :=
  inferInstanceAs (Decidable (_ ∧ _))

/-- The disposition lists but for `x`, the use counts of the pages, and for every head the
data area, the reference count, the size and the dirty and lock bits are as before. -/
structure Around (x : Nat) (s s' : State) : Prop where
  lists : ∀ l, ring_remove (s'.lru_list l) x = ring_remove (s.lru_list l) x
  mem_map : s'.mem_map = s.mem_map
  fields : ∀ y, (s'.b y).b_data = (s.b y).b_data ∧ (s'.b y).b_count = (s.b y).b_count ∧
    (s'.b y).b_size = (s.b y).b_size ∧ (s'.b y).b_dirt = (s.b y).b_dirt ∧
    (s'.b y).b_lock = (s.b y).b_lock

/-- The invariants of the reachable states of the cache: the structural invariant, the
tallies of the lists, and every dirty head filed under DIRTY. -/
structure Sound (s : State) : Prop where
  inv : Inv s
  tally : Tally s
  filed : AllFiled s

/-- The head `bh` is on the list `i`, it and the heads behind it are `n` or more, and no head
before it on the list is usable for the size. -/
def Placed (size : Nat) (s : State) (i : BufList) (bh : Nat) (n : Int) : Prop :=
  ∃ pre post, s.lru_list i = pre ++ bh :: post ∧ n ≤ post.length + 1 ∧
    ∀ y ∈ pre, ¬ Usable size s y

/-- What `refill_freelist` keeps about `candidate[i]` and `buffers[i]`: a candidate is a
head of the list it is the candidate of, which is neither DIRTY nor SHARED; it is usable
and the first usable head of its list, in the order of the list; and `buffers[i]` counts no
more than the candidate and the heads behind it. -/
def Candidate (size : Nat) (loc : RefillLocals) (s : State) (i : BufList) : Prop :=
  loc.candidate i ≠ 0 →
    i ≠ BUF_DIRTY ∧ i ≠ BUF_SHARED ∧ Placed size s i (loc.candidate i) (loc.buffers i) ∧
      Usable size s (loc.candidate i)

/-- The candidates of all the lists, at the label `repeat` of `refill_freelist`. -/
def Candidates (size : Nat) (loc : RefillLocals) (s : State) : Prop :=
  ∀ i, Candidate size loc s i

/-- The lists other than `i` keep their heads in place, behind each there are as many
heads as before, or more, and the heads that are usable are the same. -/
structure Steady (i : BufList) (s s' : State) : Prop where
  placed : ∀ size l, l ≠ i → ∀ c n, Placed size s l c n → Placed size s' l c n
  usable : ∀ size y, Usable size s' y ↔ Usable size s y

/-- The loop at `repeat0` of `refill_freelist(1024)` in `lru6_first`, where the CLEAN list
holds the heads 61, 62, 63, 64, 57, 58 in this order and head 58 alone is released. -/
def lru6_first_init : Res RefillLocals :=
  refill_init 30 1024 ALL_LISTS { needed := 1024 } lru6_first

/-- The slot search of `get_request` is within its limit and `k` request slots for writes
are free. -/
def Slots (s : State) (k : Nat) : Prop := SearchOk s ∧ FreeSlots s k

/-! ## Running kernel code -/

@[simp] theorem bind_run {α β : Type} (m : K α) (f : α → K β) (s : State) :
    (m >>= f) s = match m s with
      | .ok a s' => f a s'
      | .panic p => .panic p
      | .hang => .hang := rfl

@[simp] theorem pure_run {α : Type} (a : α) (s : State) : (pure a : K α) s = .ok a s := rfl

@[simp] theorem getS_run (s : State) : getS s = .ok s s := rfl

@[simp] theorem modS_run (f : State → State) (s : State) : modS f s = .ok () (f s) := rfl

@[simp] theorem kpanic_run {α : Type} (p : Panic) (s : State) : (kpanic p : K α) s = .panic p := rfl

@[simp] theorem khang_run {α : Type} (s : State) : (khang : K α) s = .hang := rfl

@[simp] theorem setB_run (bh : Nat) (f : buffer_head → buffer_head) (s : State) :
    setB bh f s = .ok () { s with b := upd s.b bh (f (s.b bh)) } := rfl

@[simp] theorem setR_run (req : Nat) (f : request → request) (s : State) :
    setR req f s = .ok () { s with all_requests := upd s.all_requests req (f (s.all_requests req)) } :=
  rfl

@[simp] theorem printk_run (m : Kmsg) (s : State) :
    printk m s = .ok () { s with klog := s.klog ++ [m] } := rfl

@[simp] theorem upd_same {ι α : Type} [DecidableEq ι] (f : ι → α) (i : ι) (v : α) :
    upd f i v i = v := by simp [upd]

theorem upd_other {ι α : Type} [DecidableEq ι] (f : ι → α) (i j : ι) (v : α) (h : j ≠ i) :
    upd f i v j = f j := by simp [upd, h]

theorem upd_apply {ι α : Type} [DecidableEq ι] (f : ι → α) (i j : ι) (v : α) :
    upd f i v j = if j = i then v else f j := rfl

/-! ## Rings -/

theorem mem_ring_remove (l : List Nat) (x y : Nat) : y ∈ ring_remove l x ↔ y ∈ l ∧ y ≠ x := by
  simp [ring_remove]

theorem mem_ring_set_head (l : List Nat) (x y : Nat) : y ∈ ring_set_head l x ↔ y ∈ l := by
  unfold ring_set_head
  rw [List.mem_append, or_comm, ← List.mem_append, List.takeWhile_append_dropWhile]

theorem mem_ring_insert_after (l : List Nat) (p x y : Nat) :
    y ∈ ring_insert_after l p x ↔ y ∈ l ∨ y = x := by
  unfold ring_insert_after
  have h := List.takeWhile_append_dropWhile (fun y => y != p) l
  generalize l.takeWhile (fun y => y != p) = a at *
  generalize l.dropWhile (fun y => y != p) = d at *
  subst h
  cases d with
  | nil => simp
  | cons q t => simp; tauto

theorem ring_next_not_mem (l : List Nat) (x : Nat) (h : x ∉ l) : ring_next l x = 0 := by
  unfold ring_next
  have : l.dropWhile (fun y => y != x) = [] := by
    rw [List.dropWhile_eq_nil_iff]
    intro y hy
    have : y ≠ x := fun e => h (e ▸ hy)
    simpa using this
  rw [this]

theorem ring_prev_not_mem (l : List Nat) (x : Nat) (h : x ∉ l) : ring_prev l x = 0 := by
  unfold ring_prev
  simp [h]

theorem ring_next_mem (l : List Nat) (x : Nat) (h : x ∈ l) : ring_next l x ∈ l := by
  unfold ring_next
  have hd := List.takeWhile_append_dropWhile (fun y => y != x) l
  split
  · rename_i heq
    rw [List.dropWhile_eq_nil_iff] at heq
    have := heq x h
    simp at this
  · cases l with
    | nil => simp at h
    | cons a t => simp
  · rename_i a y t heq
    rw [← hd, heq]
    simp

theorem ring_prev_mem (l : List Nat) (x : Nat) (h : x ∈ l) : ring_prev l x ∈ l := by
  unfold ring_prev
  have hd := List.takeWhile_append_dropWhile (fun y => y != x) l
  have hne : l ≠ [] := List.ne_nil_of_mem h
  rw [if_pos (by simpa using h)]
  split
  · rw [List.getLastD_eq_getLast?]
    cases hl : l.getLast? with
    | none => simp [List.getLast?_eq_none_iff] at hl; exact absurd hl hne
    | some v => simpa using List.mem_of_getLast?_eq_some hl
  · rename_i hne2
    rw [List.getLastD_eq_getLast?]
    cases hl : (l.takeWhile (fun y => y != x)).getLast? with
    | none =>
      rw [List.getLast?_eq_none_iff] at hl
      exact absurd hl hne2
    | some v =>
      have hv : v ∈ l.takeWhile (fun y => y != x) := List.mem_of_getLast?_eq_some hl
      have : v ∈ l := by
        rw [← hd]
        exact List.mem_append_left _ hv
      simpa using this

@[simp] theorem ite_run {α : Type} (c : Prop) [Decidable c] (m m' : K α) (s : State) :
    (if c then m else m') s = if c then m s else m' s := by
  split_ifs <;> rfl

/-! ## `SameCore`, `Stable` -/

theorem SameCore.refl_sc (s : State) : SameCore s s :=
  ⟨rfl, rfl, rfl, rfl, rfl, rfl, rfl, fun _ => rfl, fun _ => rfl, fun _ => rfl, fun _ => rfl,
    fun _ => rfl, fun _ => rfl, fun _ => rfl⟩

theorem SameCore.trans_sc {s s' s'' : State} (h : SameCore s s') (h' : SameCore s' s'') :
    SameCore s s'' :=
  ⟨h'.free_list.trans h.free_list, h'.lru_list.trans h.lru_list,
    h'.hash_table.trans h.hash_table, h'.unused_list.trans h.unused_list,
    h'.nr_buffer_heads.trans h.nr_buffer_heads, h'.nr_hash.trans h.nr_hash,
    h'.nr_free.trans h.nr_free,
    fun x => (h'.b_dev x).trans (h.b_dev x), fun x => (h'.b_blocknr x).trans (h.b_blocknr x),
    fun x => (h'.b_size x).trans (h.b_size x), fun x => (h'.b_count x).trans (h.b_count x),
    fun x => (h'.b_list x).trans (h.b_list x), fun x => (h'.b_data x).trans (h.b_data x),
    fun x => (h'.b_this_page x).trans (h.b_this_page x)⟩

theorem SameCore.linked {s s' : State} (h : SameCore s s') (x : Nat) :
    Linked s' x ↔ Linked s x := by
  unfold Linked
  rw [h.lru_list, h.b_list]

theorem SameCore.hashed {s s' : State} (h : SameCore s s') (x : Nat) :
    Hashed s' x ↔ Hashed s x := by
  unfold Hashed _hashfn
  rw [h.hash_table, h.b_dev, h.b_blocknr, h.nr_hash]

theorem SameCore.inv_sc {s s' : State} (h : SameCore s s') (hI : Inv s) : Inv s' := by
  have hl := h.linked
  have hh := h.hashed
  obtain ⟨e1, e2, e3, e4, e5, e6, e7, e8, e9, e10, e11, e12, e13, e14⟩ := h
  constructor
  · simpa only [e1, e8] using hI.free_dev
  · simpa only [e1, e11] using hI.free_count
  · simpa only [e1, e10] using hI.free_size
  · simpa only [e1, e10] using hI.free_align
  · simpa only [e2, e8] using hI.lru_dev
  · simpa only [e2, e12] using hI.lru_list
  · simpa only [e2, e10] using hI.lru_align
  · simpa only [e3, e8, e9, _hashfn, e6] using hI.hash_key
  · simpa only [e3, e8, hl] using hI.hash_lru
  · simpa only [e2, e8, hh] using hI.lru_hash
  · simpa only [e4, e11] using hI.unused_count
  · simpa only [e4, e1] using hI.unused_free
  · simpa only [e4, e2] using hI.unused_lru
  · simpa only [e4] using hI.unused_nodup
  · simpa only [e1, e5] using hI.carved_free
  · simpa only [e2, e5] using hI.carved_lru
  · simpa only [e4, e5] using hI.carved_unused
  · simpa only [e5, e11] using hI.fresh_count

theorem SameCore.stable {s s' : State} (h : SameCore s s') : Stable s s' :=
  ⟨h.free_list, h.nr_free, h.unused_list, h.nr_buffer_heads, h.nr_hash, h.b_dev, h.b_blocknr,
    h.b_size, h.b_count, h.b_data, h.b_this_page, h.linked⟩

theorem Stable.refl_st (s : State) : Stable s s := (SameCore.refl_sc s).stable

theorem Stable.trans_st {s s' s'' : State} (h : Stable s s') (h' : Stable s' s'') : Stable s s'' :=
  ⟨h'.free_list.trans h.free_list, h'.nr_free.trans h.nr_free,
    h'.unused_list.trans h.unused_list, h'.nr_buffer_heads.trans h.nr_buffer_heads,
    h'.nr_hash.trans h.nr_hash,
    fun x => (h'.b_dev x).trans (h.b_dev x), fun x => (h'.b_blocknr x).trans (h.b_blocknr x),
    fun x => (h'.b_size x).trans (h.b_size x), fun x => (h'.b_count x).trans (h.b_count x),
    fun x => (h'.b_data x).trans (h.b_data x),
    fun x => (h'.b_this_page x).trans (h.b_this_page x),
    fun x => (h'.linked x).trans (h.linked x)⟩

/-- A change of flags, time stamps and request links of one head keeps the core. -/
theorem sameCore_setB (s : State) (bh : Nat) (v : buffer_head)
    (h1 : v.b_dev = (s.b bh).b_dev) (h2 : v.b_blocknr = (s.b bh).b_blocknr)
    (h3 : v.b_size = (s.b bh).b_size) (h4 : v.b_count = (s.b bh).b_count)
    (h5 : v.b_list = (s.b bh).b_list) (h6 : v.b_data = (s.b bh).b_data)
    (h7 : v.b_this_page = (s.b bh).b_this_page) :
    SameCore s { s with b := upd s.b bh v } := by
  refine ⟨rfl, rfl, rfl, rfl, rfl, rfl, rfl, ?_, ?_, ?_, ?_, ?_, ?_, ?_⟩ <;> intro x <;>
    simp only [upd_apply] <;> split_ifs with hx <;> first | rfl | (subst hx; assumption)

/-! ## Quiet code -/

theorem Quiet.pure_q {α : Type} (a : α) : Quiet (pure a : K α) := fun s => SameCore.refl_sc s

theorem Quiet.bind_q {α β : Type} {m : K α} {f : α → K β} (hm : Quiet m) (hf : ∀ a, Quiet (f a)) :
    Quiet (m >>= f) := by
  intro s
  have h1 := hm s
  simp only [bind_run]
  cases hms : m s with
  | ok a s' =>
    rw [hms] at h1
    have h2 := hf a s'
    simp only
    cases hfs : f a s' with
    | ok b s'' =>
      rw [hfs] at h2
      exact h1.trans_sc h2
    | panic p => rw [hfs] at h2; exact h2
    | hang => trivial
  | panic p => rw [hms] at h1; exact h1
  | hang => trivial

theorem Quiet.getS_bind_q {β : Type} {f : State → K β} (hf : ∀ s, Quiet (f s)) :
    Quiet (getS >>= f) := by
  intro s
  simp only [bind_run, getS_run]
  exact hf s s

theorem Quiet.ite_q {α : Type} {c : Prop} [Decidable c] {m m' : K α} (h : Quiet m)
    (h' : Quiet m') : Quiet (if c then m else m') := by
  split_ifs <;> assumption

theorem quiet_setB (bh : Nat) (f : buffer_head → buffer_head)
    (h1 : ∀ v, (f v).b_dev = v.b_dev) (h2 : ∀ v, (f v).b_blocknr = v.b_blocknr)
    (h3 : ∀ v, (f v).b_size = v.b_size) (h4 : ∀ v, (f v).b_count = v.b_count)
    (h5 : ∀ v, (f v).b_list = v.b_list) (h6 : ∀ v, (f v).b_data = v.b_data)
    (h7 : ∀ v, (f v).b_this_page = v.b_this_page) : Quiet (setB bh f) := by
  intro s
  exact sameCore_setB s bh _ (h1 _) (h2 _) (h3 _) (h4 _) (h5 _) (h6 _) (h7 _)

theorem quiet_setB_flag (bh : Nat) (f : buffer_head → buffer_head) (h : FlagOnly f) :
    Quiet (setB bh f) :=
  quiet_setB bh f (fun v => (h v).1) (fun v => (h v).2.1) (fun v => (h v).2.2.1)
    (fun v => (h v).2.2.2.1) (fun v => (h v).2.2.2.2.1) (fun v => (h v).2.2.2.2.2.1)
    (fun v => (h v).2.2.2.2.2.2)

theorem sameCore_other (s s' : State) (h1 : s'.free_list = s.free_list)
    (h2 : s'.lru_list = s.lru_list) (h3 : s'.hash_table = s.hash_table)
    (h4 : s'.unused_list = s.unused_list) (h5 : s'.nr_buffer_heads = s.nr_buffer_heads)
    (h6 : s'.nr_hash = s.nr_hash) (h7 : s'.nr_free = s.nr_free) (h8 : s'.b = s.b) :
    SameCore s s' :=
  ⟨h1, h2, h3, h4, h5, h6, h7, fun _ => by rw [h8], fun _ => by rw [h8], fun _ => by rw [h8],
    fun _ => by rw [h8], fun _ => by rw [h8], fun _ => by rw [h8], fun _ => by rw [h8]⟩

theorem quiet_printk (m : Kmsg) : Quiet (printk m) := fun s =>
  sameCore_other s _ rfl rfl rfl rfl rfl rfl rfl rfl

theorem quiet_setR (req : Nat) (f : request → request) : Quiet (setR req f) := fun s =>
  sameCore_other s _ rfl rfl rfl rfl rfl rfl rfl rfl

theorem quiet_call_request_fn (major : Nat) : Quiet (call_request_fn major) := fun s =>
  sameCore_other s _ rfl rfl rfl rfl rfl rfl rfl rfl

theorem quiet_end_buffer_io (bh : Nat) : Quiet (end_buffer_io bh) := fun s =>
  sameCore_setB s bh _ rfl rfl rfl rfl rfl rfl rfl

theorem quiet_unlock_buffer (bh : Nat) : Quiet (unlock_buffer bh) :=
  quiet_setB_flag bh _ fun _ => ⟨rfl, rfl, rfl, rfl, rfl, rfl, rfl⟩

theorem quiet_wait_on_buffer_loop (bh : Nat) : Quiet (__wait_on_buffer bh) := fun s => by
  simp only [__wait_on_buffer, end_buffer_io, bind_run, getS_run, setB_run, upd_same, ite_run,
    pure_run]
  split_ifs <;>
  · refine ⟨rfl, rfl, rfl, rfl, rfl, rfl, rfl, ?_, ?_, ?_, ?_, ?_, ?_, ?_⟩ <;> intro x <;>
      simp only [upd_apply] <;> split_ifs with hx <;> first | rfl | (subst hx; simp)

theorem quiet_wait_on_buffer (bh : Nat) : Quiet (wait_on_buffer bh) := fun s => by
  have h := quiet_wait_on_buffer_loop bh s
  simp only [wait_on_buffer, bind_run, getS_run, ite_run]
  split_ifs
  · exact h
  · exact SameCore.refl_sc s

theorem quiet_lock_buffer (bh : Nat) : Quiet (lock_buffer bh) := fun s => by
  have h := quiet_wait_on_buffer_loop bh s
  simp only [lock_buffer, bind_run, getS_run, ite_run, pure_run, setB_run]
  split_ifs
  · cases hw : __wait_on_buffer bh s with
    | ok a s' =>
      rw [hw] at h
      exact h.trans_sc (sameCore_setB s' bh _ rfl rfl rfl rfl rfl rfl rfl)
    | panic p => rw [hw] at h; exact h
    | hang => trivial
  · exact sameCore_setB s bh _ rfl rfl rfl rfl rfl rfl rfl

theorem quiet_set_writetime (buf : Nat) (flag : Int) : Quiet (set_writetime buf flag) := fun s => by
  simp only [set_writetime, bind_run, getS_run, ite_run, pure_run, setB_run]
  split_ifs <;> first
    | exact SameCore.refl_sc s
    | exact sameCore_setB s buf _ rfl rfl rfl rfl rfl rfl rfl

/-! ## The page ring walk of `try_to_free` -/

theorem sibling_add (s : State) (bh : Nat) (n m : Nat) :
    sibling s bh (n + m) = sibling s (sibling s bh n) m := by
  induction m with
  | zero => rfl
  | succ m ih =>
    show (s.b (sibling s bh (n + m))).b_this_page = (s.b (sibling s (sibling s bh n) m)).b_this_page
    rw [ih]

theorem sibling_period (s : State) (bh n : Nat) (hn : sibling s bh n = bh) (k : Nat) :
    sibling s bh (n * k) = bh := by
  induction k with
  | zero => rfl
  | succ k ih => rw [Nat.mul_succ, sibling_add, ih, hn]

theorem sibling_mod (s : State) (bh n : Nat) (hn : sibling s bh n = bh) (k : Nat) :
    sibling s bh k = sibling s bh (k % n) := by
  conv_lhs => rw [← Nat.div_add_mod k n]
  rw [sibling_add, sibling_period s bh n hn]

/-- When the first loop of `try_to_free` finds the page idle, the ring closes and
every buffer walked over is idle. -/
theorem try_to_free_idle_true (s : State) (bh : Nat) :
    ∀ fuel j, try_to_free_idle s bh fuel (sibling s bh j) = some true →
      ∃ n, j < n ∧ n ≤ j + fuel ∧ sibling s bh n = bh ∧
        ∀ i, j ≤ i → i < n → try_to_free_busy (s.b (sibling s bh i)) = false := by
  intro fuel
  induction fuel with
  | zero => intro j h; simp [try_to_free_idle] at h
  | succ fuel ih =>
    intro j h
    unfold try_to_free_idle at h
    by_cases h0 : sibling s bh j = 0
    · simp [h0] at h
    · by_cases hb : try_to_free_busy (s.b (sibling s bh j)) = true
      · simp [h0, hb] at h
      · have hb' : try_to_free_busy (s.b (sibling s bh j)) = false := by simpa using hb
        by_cases hc : (s.b (sibling s bh j)).b_this_page = bh
        · refine ⟨j + 1, by omega, by omega, hc, ?_⟩
          intro i hi1 hi2
          have : i = j := by omega
          subst this
          exact hb'
        · simp only [h0, hb, hc, if_false] at h
          obtain ⟨n, h1, h2, h3, h4⟩ := ih (j + 1) h
          refine ⟨n, by omega, by omega, h3, ?_⟩
          intro i hi1 hi2
          rcases Nat.eq_or_lt_of_le hi1 with e | e
          · subst e; exact hb'
          · exact h4 i e hi2

/-- A busy buffer on the ring is found by the first loop of `try_to_free` once the
fuel reaches it. -/
theorem try_to_free_idle_busy (s : State) (bh k : Nat)
    (hk : try_to_free_busy (s.b (sibling s bh k)) = true) :
    ∀ fuel j, j ≤ k → k < j + fuel → try_to_free_idle s bh fuel (sibling s bh j) ≠ none := by
  intro fuel
  induction fuel with
  | zero => intro j h1 h2; omega
  | succ fuel ih =>
    intro j h1 h2
    unfold try_to_free_idle
    split_ifs with h0 hb hc
    · simp
    · simp
    · simp
    · have hjk : j ≠ k := by
        intro e
        subst e
        exact hb hk
      exact ih (j + 1) (by omega) (by omega)

/-- With a busy buffer on the ring the first loop of `try_to_free` never reports the
page idle. -/
theorem try_to_free_idle_not_true (s : State) (bh k fuel : Nat)
    (hk : try_to_free_busy (s.b (sibling s bh k)) = true) :
    try_to_free_idle s bh fuel bh ≠ some true := by
  intro h
  obtain ⟨n, h1, _, h3, h4⟩ := try_to_free_idle_true s bh fuel 0 h
  have hmod := sibling_mod s bh n h3 k
  have hlt : k % n < n := Nat.mod_lt _ (by omega)
  have := h4 (k % n) (Nat.zero_le _) hlt
  rw [← hmod, hk] at this
  exact absurd this (by simp)

/-- C6: `try_to_free` unlinks buffers and gives the page back only when every buffer
on the `b_this_page` ring of `bh` is idle (no reference, not dirty, not locked, no
waiter): when some sibling is busy, a call that returns has returned 0 and has left
the whole state as it was, and the call does return once the fuel reaches that
sibling. -/
theorem try_to_free_all_or_nothing (s : State) (bh k fuel : Nat)
    (hk : try_to_free_busy (s.b (sibling s bh k)) = true) :
    (∀ r s', try_to_free fuel bh s = .ok r s' → r = (0, bh) ∧ s' = s) ∧
      (k < fuel → try_to_free fuel bh s = .ok (0, bh) s) := by
  have hnt := try_to_free_idle_not_true s bh k fuel hk
  have hrun : ∀ v, try_to_free_idle s bh fuel bh = v → v ≠ some true →
      try_to_free fuel bh s = (match v with
        | none => .hang
        | some _ => .ok (0, bh) s) := by
    intro v hv hne
    simp only [try_to_free, bind_run, getS_run, hv]
    match v, hne with
    | none, _ => rfl
    | some false, _ => rfl
    | some true, hne => exact absurd rfl hne
  constructor
  · intro r s' h
    rw [hrun _ rfl hnt] at h
    cases hv : try_to_free_idle s bh fuel bh with
    | none => simp [hv] at h
    | some v =>
      simp only [hv, Res.ok.injEq] at h
      exact ⟨h.1.symm, h.2.symm⟩
  · intro hlt
    have hnn := try_to_free_idle_busy s bh k hk fuel 0 (Nat.zero_le _) (by omega)
    rw [hrun _ rfl hnt]
    cases hv : try_to_free_idle s bh fuel bh with
    | none => exact absurd hv hnn
    | some v => rfl

/-- Witness for C6: on a page whose first buffer is referenced, `try_to_free` called on
the second buffer returns 0 and changes nothing. -/
theorem try_to_free_all_or_nothing_witness :
    try_to_free_busy (two_buffer_page.b (sibling two_buffer_page 2 1)) = true ∧
      ((∀ r s', try_to_free 5 2 two_buffer_page = .ok r s' → r = (0, 2) ∧ s' = two_buffer_page) ∧
        (1 < 5 → try_to_free 5 2 two_buffer_page = .ok (0, 2) two_buffer_page)) :=
  ⟨by decide, try_to_free_all_or_nothing two_buffer_page 2 1 5 (by decide)⟩

theorem ring_next_ne_zero (l : List Nat) (x : Nat) (h : x ∈ l) (hl : ∀ y ∈ l, 1 ≤ y) :
    ring_next l x ≠ 0 := by
  have := hl _ (ring_next_mem l x h)
  omega

theorem ring_prev_ne_zero (l : List Nat) (x : Nat) (h : x ∈ l) (hl : ∀ y ∈ l, 1 ≤ y) :
    ring_prev l x ≠ 0 := by
  have := hl _ (ring_prev_mem l x h)
  omega

theorem ring_of_lru (s : State) (x : Nat) (h : (s.b x).b_dev ≠ B_FREE) :
    ring_of s x = s.lru_list (s.b x).b_list := by
  simp [ring_of, h]

theorem ring_of_free (s : State) (x : Nat) (h : (s.b x).b_dev = B_FREE) :
    ring_of s x = s.free_list (BUFSIZE_INDEX (s.b x).b_size) := by
  simp [ring_of, h]

/-- A head that is not free has its ring pointers set exactly when it is linked. -/
theorem linked_iff_pointers (s : State) (hI : Inv s) (x : Nat) (h : (s.b x).b_dev ≠ B_FREE) :
    (b_prev_free s x = 0 ∨ b_next_free s x = 0) ↔ ¬ Linked s x := by
  unfold b_prev_free b_next_free Linked
  rw [ring_of_lru s x h]
  constructor
  · intro h1 h2
    rcases h1 with h1 | h1
    · exact ring_prev_ne_zero _ _ h2 (fun y hy => (hI.carved_lru _ y hy).1) h1
    · exact ring_next_ne_zero _ _ h2 (fun y hy => (hI.carved_lru _ y hy).1) h1
  · intro h1
    exact Or.inl (ring_prev_not_mem _ _ h1)

theorem next_free_zero_iff (s : State) (hI : Inv s) (x : Nat) (h : (s.b x).b_dev ≠ B_FREE) :
    b_next_free s x = 0 ↔ ¬ Linked s x := by
  unfold b_next_free Linked
  rw [ring_of_lru s x h]
  constructor
  · intro h1 h2
    exact ring_next_ne_zero _ _ h2 (fun y hy => (hI.carved_lru _ y hy).1) h1
  · intro h1
    exact ring_next_not_mem _ _ h1

theorem bind_ok {α β : Type} {m : K α} {f : α → K β} {s s' : State} {a : α}
    (h : m s = .ok a s') : (m >>= f) s = f a s' := by
  simp only [bind_run, h]

theorem remove_from_hash_queue_spec (s : State) (bh : Nat)
    (hk : ∀ k, bh ∈ s.hash_table k → k = _hashfn s (s.b bh).b_dev (s.b bh).b_blocknr) :
    ∃ s', remove_from_hash_queue bh s = .ok () s' ∧ s'.b = s.b ∧ s'.lru_list = s.lru_list ∧
      s'.free_list = s.free_list ∧ s'.nr_free = s.nr_free ∧ s'.unused_list = s.unused_list ∧
      s'.nr_buffer_heads = s.nr_buffer_heads ∧ s'.nr_hash = s.nr_hash ∧
      ∀ k x, x ∈ s'.hash_table k ↔ x ∈ s.hash_table k ∧ x ≠ bh := by
  refine ⟨_, rfl, rfl, rfl, rfl, rfl, rfl, rfl, rfl, ?_⟩
  intro k x
  simp only
  split_ifs with h1
  · exact mem_ring_remove _ _ _
  · have hnot : bh ∉ s.hash_table k := fun hm => h1 (hk _ hm)
    cases hk : s.hash_table k with
    | nil => simp
    | cons a t =>
      rw [hk] at hnot
      have ha : a ≠ bh := fun e => hnot (e ▸ List.mem_cons_self _ _)
      simp only [if_neg ha, List.mem_cons, mem_ring_remove]
      constructor
      · rintro (e | ⟨h2, h3⟩)
        · exact ⟨Or.inl e, e ▸ ha⟩
        · exact ⟨Or.inr h2, h3⟩
      · rintro ⟨e | h2, h3⟩
        · exact Or.inl e
        · exact Or.inr ⟨h2, h3⟩

theorem remove_from_lru_list_spec (s : State) (bh : Nat) (hd : (s.b bh).b_dev ≠ B_FREE)
    (hz : ∀ y ∈ s.lru_list (s.b bh).b_list, 1 ≤ y) :
    match remove_from_lru_list bh s with
    | .ok _ s' => bh ∈ s.lru_list (s.b bh).b_list ∧ s'.b = s.b ∧
        s'.hash_table = s.hash_table ∧ s'.free_list = s.free_list ∧ s'.nr_free = s.nr_free ∧
        s'.unused_list = s.unused_list ∧ s'.nr_buffer_heads = s.nr_buffer_heads ∧
        s'.nr_hash = s.nr_hash ∧
        s'.lru_list = upd s.lru_list (s.b bh).b_list (ring_remove (s.lru_list (s.b bh).b_list) bh)
    | .panic _ => bh ∉ s.lru_list (s.b bh).b_list
    | .hang => False := by
  simp only [remove_from_lru_list, bind_run, getS_run, ite_run, modS_run, kpanic_run, if_neg hd,
    b_prev_free, b_next_free, ring_of_lru s bh hd]
  by_cases hl : bh ∈ s.lru_list (s.b bh).b_list
  · rw [if_neg]
    · exact ⟨hl, rfl, rfl, rfl, rfl, rfl, rfl, rfl, rfl⟩
    · rintro (h | h)
      · exact ring_prev_ne_zero _ _ hl hz h
      · exact ring_next_ne_zero _ _ hl hz h
  · rw [if_pos (Or.inl (ring_prev_not_mem _ _ hl))]
    exact hl

/-- Taking a linked head off its disposition list and hash chain. -/
theorem remove_from_queues_lru (s : State) (hI : Inv s) (bh : Nat)
    (hd : (s.b bh).b_dev ≠ B_FREE) :
    match remove_from_queues bh s with
    | .ok _ s' => Linked s bh ∧ UnlinkFrame s s' bh
    | .panic _ => ¬ Linked s bh
    | .hang => False := by
  simp only [remove_from_queues, bind_run, getS_run, ite_run, modS_run, if_neg hd]
  obtain ⟨s2, e2, hb2, hl2, hf2, hnf2, hu2, hn2, hh2, hm2⟩ :=
    remove_from_hash_queue_spec { s with
      nr_buffers_type := upd s.nr_buffers_type (s.b bh).b_list (s.nr_buffers_type (s.b bh).b_list - 1),
      nr_buffers_st := upd s.nr_buffers_st (BUFSIZE_INDEX (s.b bh).b_size)
        (upd (s.nr_buffers_st (BUFSIZE_INDEX (s.b bh).b_size)) (s.b bh).b_list
          (s.nr_buffers_st (BUFSIZE_INDEX (s.b bh).b_size) (s.b bh).b_list - 1)) } bh
      (fun k hk => hI.hash_key k bh hk)
  simp only [e2]
  have hd2 : (s2.b bh).b_dev ≠ B_FREE := by rw [hb2]; exact hd
  have h3 := remove_from_lru_list_spec s2 bh hd2 (by
    rw [hb2, hl2]
    exact fun y hy => (hI.carved_lru _ y hy).1)
  cases e3 : remove_from_lru_list bh s2 with
  | ok a s3 =>
    rw [e3] at h3
    obtain ⟨g1, g2, g3, g4, g5, g6, g7, g8, g9⟩ := h3
    rw [hb2, hl2] at g1 g9
    refine ⟨g1, g2.trans hb2, g4.trans hf2, g5.trans hnf2, g6.trans hu2, g7.trans hn2,
      g8.trans hh2, ?_, ?_⟩
    · intro l x
      rw [g9]
      simp only [upd_apply]
      split_ifs with h1
      · subst h1
        exact mem_ring_remove _ _ _
      · constructor
        · intro hx
          refine ⟨hx, ?_⟩
          intro e
          subst e
          exact h1 (hI.lru_list _ _ hx).symm
        · exact fun h => h.1
    · intro k x
      rw [g3]
      exact hm2 k x
  | panic p =>
    rw [e3] at h3
    rw [hb2, hl2] at h3
    exact h3
  | hang =>
    rw [e3] at h3
    exact h3

/-! ## The invariant, head by head -/

theorem Inv.head {s : State} (h : Inv s) (x : Nat) : HeadOk s x :=
  ⟨fun i => h.free_dev i x, fun i => h.free_count i x, fun i => h.free_size i x,
    fun i => h.free_align i x, fun l => h.lru_dev l x, fun l => h.lru_list l x,
    fun l => h.lru_align l x, fun k => h.hash_key k x, fun k => h.hash_lru k x,
    fun l => h.lru_hash l x, h.unused_count x, h.unused_free x, h.unused_lru x,
    fun i => h.carved_free i x, fun l => h.carved_lru l x, h.carved_unused x, h.fresh_count x⟩

theorem Inv.of_heads {s : State} (h : ∀ x, HeadOk s x) (hn : s.unused_list.Nodup) : Inv s :=
  ⟨fun i x => (h x).free_dev i, fun i x => (h x).free_count i, fun i x => (h x).free_size i,
    fun i x => (h x).free_align i, fun l x => (h x).lru_dev l, fun l x => (h x).lru_list l,
    fun l x => (h x).lru_align l, fun k x => (h x).hash_key k, fun k x => (h x).hash_lru k,
    fun l x => (h x).lru_hash l, fun x => (h x).unused_count, fun x => (h x).unused_free,
    fun x => (h x).unused_lru, hn, fun i x => (h x).carved_free i, fun l x => (h x).carved_lru l,
    fun x => (h x).carved_unused, fun x => (h x).fresh_count⟩

theorem Same1.refl_s1 (s : State) (x : Nat) : Same1 s s x :=
  ⟨rfl, rfl, rfl, rfl, rfl, fun _ => Iff.rfl, fun _ => Iff.rfl, fun _ => Iff.rfl, Iff.rfl⟩

theorem Same1.trans_s1 {s s' s'' : State} {x : Nat} (h : Same1 s s' x) (h' : Same1 s' s'' x) :
    Same1 s s'' x :=
  ⟨h'.b_dev.trans h.b_dev, h'.b_blocknr.trans h.b_blocknr, h'.b_size.trans h.b_size,
    h'.b_count.trans h.b_count, h'.b_list.trans h.b_list, fun i => (h'.free i).trans (h.free i),
    fun l => (h'.lru l).trans (h.lru l), fun k => (h'.hash k).trans (h.hash k),
    h'.unused.trans h.unused⟩

theorem SameCore.same1_sc {s s' : State} (h : SameCore s s') (x : Nat) : Same1 s s' x :=
  ⟨h.b_dev x, h.b_blocknr x, h.b_size x, h.b_count x, h.b_list x,
    fun i => by rw [h.free_list], fun l => by rw [h.lru_list], fun k => by rw [h.hash_table],
    by rw [h.unused_list]⟩

theorem HeadOk.congr {s s' : State} {x : Nat} (h : HeadOk s x) (e : Same1 s s' x)
    (hn : s'.nr_hash = s.nr_hash) (hc : s.nr_buffer_heads ≤ s'.nr_buffer_heads) :
    HeadOk s' x := by
  have hk : ∀ d b, _hashfn s' d b = _hashfn s d b := fun d b => by simp [_hashfn, hn]
  constructor
  · intro i hi; rw [e.b_dev]; exact h.free_dev i ((e.free i).mp hi)
  · intro i hi; rw [e.b_count]; exact h.free_count i ((e.free i).mp hi)
  · intro i hi; rw [e.b_size]; exact h.free_size i ((e.free i).mp hi)
  · intro i hi; rw [e.b_size]; exact h.free_align i ((e.free i).mp hi)
  · intro l hl; rw [e.b_dev]; exact h.lru_dev l ((e.lru l).mp hl)
  · intro l hl; rw [e.b_list]; exact h.lru_list l ((e.lru l).mp hl)
  · intro l hl; rw [e.b_size]; exact h.lru_align l ((e.lru l).mp hl)
  · intro k hx; rw [hk, e.b_dev, e.b_blocknr]; exact h.hash_key k ((e.hash k).mp hx)
  · intro k hx
    have := h.hash_lru k ((e.hash k).mp hx)
    refine ⟨?_, by rw [e.b_dev]; exact this.2⟩
    unfold Linked
    rw [e.b_list]
    exact (e.lru _).mpr this.1
  · intro l hl hd
    rw [e.b_dev] at hd
    have := h.lru_hash l ((e.lru l).mp hl) hd
    unfold Hashed
    rw [hk, e.b_dev, e.b_blocknr]
    exact (e.hash _).mpr this
  · intro hu; rw [e.b_count]; exact h.unused_count (e.unused.mp hu)
  · intro hu i hi; exact h.unused_free (e.unused.mp hu) i ((e.free i).mp hi)
  · intro hu l hl; exact h.unused_lru (e.unused.mp hu) l ((e.lru l).mp hl)
  · intro i hi; have := h.carved_free i ((e.free i).mp hi); omega
  · intro l hl; have := h.carved_lru l ((e.lru l).mp hl); omega
  · intro hu; have := h.carved_unused (e.unused.mp hu); omega
  · intro hx; rw [e.b_count]; exact h.fresh_count (by omega)

/-- The invariant carries over a change that is confined to the heads in `S`, when
these satisfy its clauses afterwards. -/
theorem Frame.inv_fr {s s' : State} {S : Nat → Prop} (f : Frame s s' S) (hI : Inv s)
    (hS : ∀ x, S x → HeadOk s' x) (hn : s'.unused_list.Nodup) : Inv s' := by
  refine Inv.of_heads (fun x => ?_) hn
  by_cases hx : S x
  · exact hS x hx
  · exact (hI.head x).congr (f.same x hx) f.nr_hash f.nr_buffer_heads

theorem Frame.keepRef_fr {s s' : State} {S : Nat → Prop} (f : Frame s s' S)
    (hS : ∀ x, S x → (s.b x).b_count = 0) : KeepRef s s' := by
  intro x hx
  have hx' : ¬ S x := fun h => by have := hS x h; omega
  have := f.same x hx'
  exact ⟨this.b_dev, this.b_blocknr, by rw [this.b_count]⟩

theorem Frame.refl_fr (s : State) (S : Nat → Prop) : Frame s s S :=
  ⟨fun x _ => Same1.refl_s1 s x, rfl, le_refl _⟩

theorem Frame.trans_fr {s s' s'' : State} {S : Nat → Prop} (f : Frame s s' S) (f' : Frame s' s'' S) :
    Frame s s'' S :=
  ⟨fun x hx => (f.same x hx).trans_s1 (f'.same x hx), f'.nr_hash.trans f.nr_hash,
    le_trans f.nr_buffer_heads f'.nr_buffer_heads⟩

theorem Frame.mono_fr {s s' : State} {S T : Nat → Prop} (f : Frame s s' S) (h : ∀ x, S x → T x) :
    Frame s s' T :=
  ⟨fun x hx => f.same x (fun hs => hx (h x hs)), f.nr_hash, f.nr_buffer_heads⟩

theorem SameCore.frame {s s' : State} (h : SameCore s s') (S : Nat → Prop) : Frame s s' S :=
  ⟨fun x _ => h.same1_sc x, h.nr_hash, le_of_eq h.nr_buffer_heads.symm⟩

theorem KeepRef.refl_kr (s : State) : KeepRef s s := fun _ _ => ⟨rfl, rfl, le_refl _⟩

theorem KeepRef.trans_kr {s s' s'' : State} (h : KeepRef s s') (h' : KeepRef s' s'') :
    KeepRef s s'' := by
  intro x hx
  obtain ⟨a, b, c⟩ := h x hx
  obtain ⟨a', b', c'⟩ := h' x (by omega)
  exact ⟨a'.trans a, b'.trans b, le_trans c c'⟩

theorem SameCore.keepRef_sc {s s' : State} (h : SameCore s s') : KeepRef s s' :=
  fun x _ => ⟨h.b_dev x, h.b_blocknr x, le_of_eq (h.b_count x).symm⟩

theorem Stable.keepRef_st {s s' : State} (h : Stable s s') : KeepRef s s' :=
  fun x _ => ⟨h.b_dev x, h.b_blocknr x, le_of_eq (h.b_count x).symm⟩

theorem UnlinkFrame.same1_uf {s s' : State} {bh : Nat} (f : UnlinkFrame s s' bh) (x : Nat)
    (hx : x ≠ bh) : Same1 s s' x := by
  refine ⟨by rw [f.b], by rw [f.b], by rw [f.b], by rw [f.b], by rw [f.b],
    fun i => by rw [f.free_list], fun l => ?_, fun k => ?_, by rw [f.unused_list]⟩
  · rw [f.lru]; exact ⟨fun h => h.1, fun h => ⟨h, hx⟩⟩
  · rw [f.hash]; exact ⟨fun h => h.1, fun h => ⟨h, hx⟩⟩

theorem LinkFrame.same1_lf {s s' : State} {bh : Nat} (f : LinkFrame s s' bh) (x : Nat)
    (hx : x ≠ bh) : Same1 s s' x := by
  refine ⟨by rw [f.b], by rw [f.b], by rw [f.b], by rw [f.b], by rw [f.b],
    fun i => by rw [f.free_list], fun l => ?_, fun k => ?_, by rw [f.unused_list]⟩
  · rw [f.lru]; exact ⟨fun h => h.resolve_right (fun h' => hx h'.1), Or.inl⟩
  · rw [f.hash]; exact ⟨fun h => h.resolve_right (fun h' => hx h'.1), Or.inl⟩

theorem insert_into_queues_lru (s : State) (bh : Nat) (hd : (s.b bh).b_dev ≠ B_FREE)
    (hn : bh ∉ s.lru_list (s.b bh).b_list) :
    ∃ s', insert_into_queues bh s = .ok () s' ∧ LinkFrame s s' bh := by
  have h0 : b_next_free s bh = 0 := by
    unfold b_next_free
    rw [ring_of_lru s bh hd]
    exact ring_next_not_mem _ _ hn
  simp only [insert_into_queues, bind_run, getS_run, ite_run, modS_run, pure_run, kpanic_run,
    if_neg hd, h0, ne_eq, not_true_eq_false, if_false]
  by_cases h1 : (s.b bh).b_dev = 0
  · simp only [if_pos h1]
    refine ⟨_, rfl, rfl, rfl, rfl, rfl, rfl, rfl, ?_, ?_⟩
    · intro l x
      simp only [upd_apply]
      split_ifs with h2
      · subst h2
        simp only [List.mem_append, List.mem_singleton, and_true]
      · simp only [h2, and_false, or_false]
    · intro k x
      simp only [h1, ne_eq, not_true_eq_false, false_and, and_false, or_false]
  · simp only [if_neg h1]
    refine ⟨_, rfl, rfl, rfl, rfl, rfl, rfl, rfl, ?_, ?_⟩
    · intro l x
      simp only [upd_apply]
      split_ifs with h2
      · subst h2
        simp only [List.mem_append, List.mem_singleton, and_true]
      · simp only [h2, and_false, or_false]
    · intro k x
      simp only [upd_apply, _hashfn]
      split_ifs with h2
      · subst h2
        simp only [List.mem_cons, ne_eq, h1, not_false_eq_true, and_self, and_true]
        tauto
      · simp only [h2, and_false, or_false]

theorem remove_from_free_list_spec (s : State) (bh : Nat) (hd : (s.b bh).b_dev = B_FREE)
    (hz : ∀ y ∈ s.free_list (BUFSIZE_INDEX (s.b bh).b_size), 1 ≤ y) :
    match remove_from_free_list bh s with
    | .ok _ s' => bh ∈ s.free_list (BUFSIZE_INDEX (s.b bh).b_size) ∧ s'.b = s.b ∧
        s'.hash_table = s.hash_table ∧ s'.lru_list = s.lru_list ∧
        s'.unused_list = s.unused_list ∧ s'.nr_buffer_heads = s.nr_buffer_heads ∧
        s'.nr_hash = s.nr_hash ∧
        s'.nr_free = upd s.nr_free (BUFSIZE_INDEX (s.b bh).b_size)
          (s.nr_free (BUFSIZE_INDEX (s.b bh).b_size) - 1) ∧
        s'.free_list = upd s.free_list (BUFSIZE_INDEX (s.b bh).b_size)
          (ring_remove (s.free_list (BUFSIZE_INDEX (s.b bh).b_size)) bh) ∧
        s'.all_requests = s.all_requests ∧ s'.request_fn_calls = s.request_fn_calls ∧
        s'.klog = s.klog
    | .panic _ => bh ∉ s.free_list (BUFSIZE_INDEX (s.b bh).b_size)
    | .hang => False := by
  simp only [remove_from_free_list, bind_run, getS_run, ite_run, modS_run, kpanic_run,
    b_prev_free, b_next_free, ring_of_free s bh hd, hd, ne_eq, not_true_eq_false, if_false]
  by_cases hl : bh ∈ s.free_list (BUFSIZE_INDEX (s.b bh).b_size)
  · rw [if_neg, if_neg]
    · exact ⟨hl, rfl, rfl, rfl, rfl, rfl, rfl, rfl, rfl, rfl, rfl, rfl⟩
    · intro h
      rw [h] at hl
      exact List.not_mem_nil _ hl
    · rintro (h | h)
      · exact ring_prev_ne_zero _ _ hl hz h
      · exact ring_next_ne_zero _ _ hl hz h
  · rw [if_pos (Or.inl (ring_prev_not_mem _ _ hl))]
    exact hl

theorem put_last_free_spec (s : State) (bh : Nat) (h0 : bh ≠ 0) :
    ∃ s', put_last_free bh s = .ok () s' ∧
      s'.b = upd s.b bh { (s.b bh) with b_dev := B_FREE } ∧
      s'.hash_table = s.hash_table ∧ s'.lru_list = s.lru_list ∧
      s'.unused_list = s.unused_list ∧ s'.nr_buffer_heads = s.nr_buffer_heads ∧
      s'.nr_hash = s.nr_hash ∧
      s'.nr_free = upd s.nr_free (BUFSIZE_INDEX (s.b bh).b_size)
        (s.nr_free (BUFSIZE_INDEX (s.b bh).b_size) + 1) ∧
      s'.free_list = upd s.free_list (BUFSIZE_INDEX (s.b bh).b_size)
        (s.free_list (BUFSIZE_INDEX (s.b bh).b_size) ++ [bh]) := by
  simp only [put_last_free, bind_run, getS_run, ite_run, modS_run, pure_run, setB_run, if_neg h0]
  exact ⟨_, rfl, rfl, rfl, rfl, rfl, rfl, rfl, rfl, rfl⟩

theorem setHead_setB (s : State) (bh : Nat) (f : buffer_head → buffer_head) :
    SetHead s { s with b := upd s.b bh (f (s.b bh)) } bh (f (s.b bh)) :=
  ⟨rfl, rfl, rfl, rfl, rfl, rfl, rfl, rfl⟩

theorem SetHead.other {s s' : State} {bh : Nat} {h : buffer_head} (f : SetHead s s' bh h)
    (x : Nat) (hx : x ≠ bh) : s'.b x = s.b x := by
  rw [f.b, upd_other _ _ _ _ hx]

theorem SetHead.self {s s' : State} {bh : Nat} {h : buffer_head} (f : SetHead s s' bh h) :
    s'.b bh = h := by
  rw [f.b, upd_same]

theorem SetHead.same1_sh {s s' : State} {bh : Nat} {h : buffer_head} (f : SetHead s s' bh h)
    (x : Nat) (hx : x ≠ bh) : Same1 s s' x := by
  have := f.other x hx
  exact ⟨by rw [this], by rw [this], by rw [this], by rw [this], by rw [this],
    fun i => by rw [f.free_list], fun l => by rw [f.lru_list], fun k => by rw [f.hash_table],
    by rw [f.unused_list]⟩

/-- The clauses of the invariant for a head on a disposition list. -/
theorem HeadOk.of_linked (s : State) (x : Nat) (hf : ∀ i, x ∉ s.free_list i)
    (hu : x ∉ s.unused_list) (hl : ∀ l, x ∈ s.lru_list l ↔ l = (s.b x).b_list)
    (hh : ∀ k, x ∈ s.hash_table k ↔
      ((s.b x).b_dev ≠ 0 ∧ k = _hashfn s (s.b x).b_dev (s.b x).b_blocknr))
    (hd : (s.b x).b_dev ≠ B_FREE) (ha : (s.b x).b_size % 512 = 0)
    (hc : 1 ≤ x ∧ x ≤ s.nr_buffer_heads) : HeadOk s x := by
  constructor
  · intro i hi; exact absurd hi (hf i)
  · intro i hi; exact absurd hi (hf i)
  · intro i hi; exact absurd hi (hf i)
  · intro i hi; exact absurd hi (hf i)
  · intro l _; exact hd
  · intro l h; exact ((hl l).mp h).symm
  · intro l _; exact ha
  · intro k h; exact ((hh k).mp h).2
  · intro k h; exact ⟨(hl _).mpr rfl, ((hh k).mp h).1⟩
  · intro l _ h0; exact (hh _).mpr ⟨h0, rfl⟩
  · intro h; exact absurd h hu
  · intro h; exact absurd h hu
  · intro h; exact absurd h hu
  · intro i hi; exact absurd hi (hf i)
  · intro l _; exact hc
  · intro h; exact absurd h hu
  · intro h; omega

/-- A linked head is on no free list and not on `unused_list`. -/
theorem Inv.linked_detached {s : State} (hI : Inv s) {x : Nat} (h : Linked s x) :
    (∀ i, x ∉ s.free_list i) ∧ x ∉ s.unused_list :=
  ⟨fun i hi => hI.lru_dev _ x h (hI.free_dev i x hi), fun hu => hI.unused_lru x hu _ h⟩

theorem Inv.lru_iff {s : State} (hI : Inv s) {x : Nat} (h : Linked s x) (l : BufList) :
    x ∈ s.lru_list l ↔ l = (s.b x).b_list :=
  ⟨fun hl => (hI.lru_list l x hl).symm, fun e => e ▸ h⟩

theorem Inv.hash_iff {s : State} (hI : Inv s) {x : Nat} (h : Linked s x) (k : Nat) :
    x ∈ s.hash_table k ↔
      ((s.b x).b_dev ≠ 0 ∧ k = _hashfn s (s.b x).b_dev (s.b x).b_blocknr) :=
  ⟨fun hk => ⟨(hI.hash_lru k x hk).2, hI.hash_key k x hk⟩,
    fun e => e.2 ▸ hI.lru_hash _ x h e.1⟩

/-- Moving a linked head to the list `h.b_list`: it is taken off its lists, its flags
and list index are rewritten, and it is put back. -/
theorem relink_inv {s s1 s2 s3 : State} {bh : Nat} {h : buffer_head} (hI : Inv s)
    (hl : Linked s bh) (f1 : UnlinkFrame s s1 bh) (f2 : SetHead s1 s2 bh h)
    (f3 : LinkFrame s2 s3 bh) (hdev : h.b_dev = (s.b bh).b_dev)
    (hblk : h.b_blocknr = (s.b bh).b_blocknr) (hsz : h.b_size = (s.b bh).b_size)
    (hcnt : h.b_count = (s.b bh).b_count) (hdata : h.b_data = (s.b bh).b_data)
    (hpage : h.b_this_page = (s.b bh).b_this_page) :
    Inv s3 ∧ Stable s s3 ∧ Linked s3 bh ∧ s3.b = upd s.b bh h := by
  have hb3 : s3.b = upd s.b bh h := by rw [f3.b, f2.b, f1.b]
  have hself : s3.b bh = h := by rw [hb3, upd_same]
  have h2self : s2.b bh = h := f2.self
  have hother : ∀ x, x ≠ bh → s3.b x = s.b x := fun x hx => by rw [hb3, upd_other _ _ _ _ hx]
  have hnh : s3.nr_hash = s.nr_hash := by rw [f3.nr_hash, f2.nr_hash, f1.nr_hash]
  have hnb : s3.nr_buffer_heads = s.nr_buffer_heads := by
    rw [f3.nr_buffer_heads, f2.nr_buffer_heads, f1.nr_buffer_heads]
  have hfl : s3.free_list = s.free_list := by rw [f3.free_list, f2.free_list, f1.free_list]
  have hul : s3.unused_list = s.unused_list := by
    rw [f3.unused_list, f2.unused_list, f1.unused_list]
  have hlru3 : ∀ l, bh ∈ s3.lru_list l ↔ l = h.b_list := by
    intro l
    rw [f3.lru, f2.lru_list, f1.lru, h2self]
    constructor
    · rintro (⟨_, h⟩ | ⟨_, h⟩)
      · exact absurd rfl h
      · exact h
    · exact fun e => Or.inr ⟨rfl, e⟩
  have hL3 : Linked s3 bh := by
    unfold Linked
    rw [hself]
    exact (hlru3 _).mpr rfl
  have hfr : Frame s s3 (fun x => x = bh) :=
    ⟨fun x hx => ((f1.same1_uf x hx).trans_s1 (f2.same1_sh x hx)).trans_s1 (f3.same1_lf x hx), hnh,
      le_of_eq hnb.symm⟩
  have hdet := hI.linked_detached hl
  have hI3 : Inv s3 := by
    refine hfr.inv_fr hI ?_ (by rw [hul]; exact hI.unused_nodup)
    rintro x rfl
    refine HeadOk.of_linked s3 x (by rw [hfl]; exact hdet.1) (by rw [hul]; exact hdet.2)
      (by rw [hself]; exact hlru3) ?_ (by rw [hself, hdev]; exact hI.lru_dev _ _ hl)
      (by rw [hself, hsz]; exact hI.lru_align _ _ hl)
      (by rw [hnb]; exact hI.carved_lru _ _ hl)
    intro k
    rw [f3.hash, f2.hash_table, f1.hash, h2self, hself]
    have e : _hashfn s3 = _hashfn s2 := by
      funext d b
      simp [_hashfn, f3.nr_hash]
    rw [e]
    constructor
    · rintro (⟨_, h⟩ | ⟨_, h⟩)
      · exact absurd rfl h
      · exact h
    · exact fun e => Or.inr ⟨rfl, e⟩
  refine ⟨hI3, ?_, hL3, hb3⟩
  have hfield : ∀ x, (s3.b x).b_dev = (s.b x).b_dev ∧ (s3.b x).b_blocknr = (s.b x).b_blocknr ∧
      (s3.b x).b_size = (s.b x).b_size ∧ (s3.b x).b_count = (s.b x).b_count ∧
      (s3.b x).b_data = (s.b x).b_data ∧ (s3.b x).b_this_page = (s.b x).b_this_page := by
    intro x
    by_cases hx : x = bh
    · subst hx
      rw [hself]
      exact ⟨hdev, hblk, hsz, hcnt, hdata, hpage⟩
    · rw [hother x hx]
      exact ⟨rfl, rfl, rfl, rfl, rfl, rfl⟩
  refine ⟨hfl, by rw [f3.nr_free, f2.nr_free, f1.nr_free], hul, hnb, hnh,
    fun x => (hfield x).1, fun x => (hfield x).2.1, fun x => (hfield x).2.2.1,
    fun x => (hfield x).2.2.2.1, fun x => (hfield x).2.2.2.2.1,
    fun x => (hfield x).2.2.2.2.2, ?_⟩
  intro x
  by_cases hx : x = bh
  · subst hx
    exact ⟨fun _ => hl, fun _ => hL3⟩
  · have := hfr.same x hx
    unfold Linked
    rw [this.b_list, this.lru]

/-! ## Rules for `Post` -/

theorem Post.bind_p {α β : Type} {m : K α} {f : α → K β} {pre : Prop} {s : State}
    {R : α → State → Prop} {Q : β → State → Prop} (h1 : Post m pre s R)
    (h2 : ∀ a s', m s = .ok a s' → Inv s' → R a s' → Post (f a) pre s' Q) :
    Post (m >>= f) pre s Q := by
  intro hI
  have := h1 hI
  rw [bind_run]
  cases e : m s with
  | ok a s' =>
    rw [e] at this
    exact h2 a s' e this.1 this.2 this.1
  | panic p =>
    rw [e] at this
    exact this
  | hang => trivial

theorem Post.pure_p {α : Type} {a : α} {pre : Prop} {s : State} {Q : α → State → Prop}
    (h : Q a s) : Post (pure a : K α) pre s Q := fun hI => ⟨hI, h⟩

theorem Post.getS_bind_p {β : Type} {f : State → K β} {pre : Prop} {s : State}
    {Q : β → State → Prop} (h : Post (f s) pre s Q) : Post (getS >>= f) pre s Q := by
  intro hI
  rw [bind_run, getS_run]
  exact h hI

theorem Post.ite_p {α : Type} {c : Prop} [Decidable c] {m m' : K α} {pre : Prop} {s : State}
    {Q : α → State → Prop} (h : c → Post m pre s Q) (h' : ¬ c → Post m' pre s Q) :
    Post (if c then m else m') pre s Q := by
  split_ifs with hc
  · exact h hc
  · exact h' hc

theorem Post.khang_p {α : Type} {pre : Prop} {s : State} {Q : α → State → Prop} :
    Post (khang : K α) pre s Q := fun _ => trivial

theorem Post.kpanic {α : Type} {p : Panic} {pre : Prop} {s : State} {Q : α → State → Prop}
    (h : ¬ pre) : Post (kpanic p : K α) pre s Q := fun _ => h

theorem Post.mono_p {α : Type} {m : K α} {pre : Prop} {s : State} {Q Q' : α → State → Prop}
    (h : Post m pre s Q) (hq : ∀ a s', Inv s' → Q a s' → Q' a s') : Post m pre s Q' := by
  intro hI
  have := h hI
  cases e : m s with
  | ok a s' =>
    rw [e] at this
    exact ⟨this.1, hq a s' this.1 this.2⟩
  | panic p =>
    rw [e] at this
    exact this
  | hang => trivial

theorem Post.weaken_p {α : Type} {m : K α} {pre pre' : Prop} {s : State} {Q : α → State → Prop}
    (h : Post m pre' s Q) (hp : pre → pre') : Post m pre s Q := by
  intro hI
  have := h hI
  cases e : m s with
  | ok a s' =>
    rw [e] at this
    exact this
  | panic p =>
    rw [e] at this
    exact fun hpre => this (hp hpre)
  | hang => trivial

theorem Post.of_quiet_p {α : Type} {m : K α} (h : Quiet m) {pre : Prop} {s : State}
    {Q : α → State → Prop} (hq : ∀ a s', SameCore s s' → Q a s') : Post m pre s Q := by
  intro hI
  have := h s
  cases e : m s with
  | ok a s' =>
    rw [e] at this
    exact ⟨this.inv_sc hI, hq a s' this⟩
  | panic p =>
    rw [e] at this
    exact this.elim
  | hang => trivial

theorem GoodAt.of_quiet_g {α : Type} {m : K α} {pre : Prop} {s : State} (h : Quiet m) :
    GoodAt m pre s := Post.of_quiet_p h fun _ _ hc => hc.stable

theorem GoodAt.weaken_g {α : Type} {m : K α} {pre pre' : Prop} {s : State}
    (h : GoodAt m pre' s) (hp : pre → pre') : GoodAt m pre s := Post.weaken_p h hp

theorem GoodAt.bind_g {α β : Type} {m : K α} {f : α → K β} {pre : Prop} {s : State}
    (h1 : GoodAt m pre s)
    (h2 : ∀ a s', m s = .ok a s' → Inv s' → Stable s s' → GoodAt (f a) pre s') :
    GoodAt (m >>= f) pre s :=
  Post.bind_p h1 fun a s' e hI hs =>
    Post.mono_p (h2 a s' e hI hs) fun _ _ _ hs' => hs.trans_st hs'

theorem GoodAt.pure_g {α : Type} {a : α} {pre : Prop} {s : State} :
    GoodAt (pure a : K α) pre s := Post.pure_p (Stable.refl_st s)

theorem GoodAt.getS_bind_g {β : Type} {f : State → K β} {pre : Prop} {s : State}
    (h : GoodAt (f s) pre s) : GoodAt (getS >>= f) pre s := Post.getS_bind_p h

theorem GoodAt.ite_g {α : Type} {c : Prop} [Decidable c] {m m' : K α} {pre : Prop} {s : State}
    (h : c → GoodAt m pre s) (h' : ¬ c → GoodAt m' pre s) :
    GoodAt (if c then m else m') pre s := Post.ite_p h h'

theorem GoodAt.khang_g {α : Type} {pre : Prop} {s : State} : GoodAt (khang : K α) pre s :=
  Post.khang_p

/-- A step that is `Quiet` in front of code that is good. -/
theorem GoodAt.quiet_bind_g {α β : Type} {m : K α} {f : α → K β} {pre : Prop} {s : State}
    (h1 : Quiet m)
    (h2 : ∀ a s', m s = .ok a s' → Inv s' → SameCore s s' → GoodAt (f a) pre s') :
    GoodAt (m >>= f) pre s :=
  Post.bind_p (R := fun _ s' => SameCore s s') (Post.of_quiet_p h1 fun _ _ hc => hc)
    fun a s' e hI hs => Post.mono_p (h2 a s' e hI hs) fun _ _ _ hs' => hs.stable.trans_st hs'

theorem Quiet.khang_q {α : Type} : Quiet (khang : K α) := fun _ => trivial

theorem quiet_modS (f : State → State) (h : ∀ s, SameCore s (f s)) : Quiet (modS f) :=
  fun s => h s

theorem ite_bind_jp {α β : Type} {c : Prop} [Decidable c] (x y : K α) (k : α → K β) :
    (if c then x >>= k else y >>= k) = (if c then x else y) >>= k := by
  split_ifs <;> rfl

/-! ## The request layer -/

theorem mark_buffer_clean_good (rb : Nat → K Unit) (hrb : RbOk rb) (bh : Nat) (s : State) :
    GoodAt (mark_buffer_clean rb bh) (Linked s bh) s := by
  unfold mark_buffer_clean
  refine GoodAt.getS_bind_g ?_
  refine GoodAt.ite_g (fun hd => ?_) (fun _ => GoodAt.pure_g)
  refine GoodAt.quiet_bind_g (quiet_setB_flag _ _ fun _ => ⟨rfl, rfl, rfl, rfl, rfl, rfl, rfl⟩) ?_
  intro a s1 e hI1 hst
  refine GoodAt.ite_g (fun _ => ?_) (fun _ => GoodAt.pure_g)
  exact (hrb bh s1).weaken_g (hst.linked bh).mpr

theorem quiet_get_request_loop (n prev_found : Nat) (fuel req : Nat) :
    Quiet (get_request_loop n prev_found fuel req) := by
  induction fuel generalizing req with
  | zero => exact Quiet.khang_q
  | succ fuel ih =>
    unfold get_request_loop
    refine Quiet.getS_bind_q fun s => ?_
    refine Quiet.ite_q (Quiet.pure_q _) (Quiet.ite_q (Quiet.pure_q _) (ih _))

theorem quiet_get_request (fuel n : Nat) (dev : Int) (hn : n ≠ 0) :
    Quiet (get_request fuel n dev) := by
  unfold get_request
  rw [if_neg hn]
  refine Quiet.getS_bind_q fun s => ?_
  dsimp only
  rw [ite_bind_jp]
  refine Quiet.bind_q (Quiet.ite_q (quiet_modS _ fun s => ?_) (Quiet.pure_q _)) fun _ => ?_
  · exact sameCore_other _ _ rfl rfl rfl rfl rfl rfl rfl rfl
  refine Quiet.getS_bind_q fun s => ?_
  refine Quiet.bind_q (quiet_get_request_loop _ _ _ _) fun r => ?_
  cases r with
  | none => exact Quiet.pure_q _
  | some req =>
    refine Quiet.bind_q (quiet_modS _ fun s => ?_) fun _ => ?_
    · exact sameCore_other _ _ rfl rfl rfl rfl rfl rfl rfl rfl
    exact Quiet.bind_q (quiet_setR _ _) fun _ => Quiet.pure_q _

theorem quiet_add_request_kstat (rdev : Nat) : Quiet (add_request_kstat rdev) := by
  unfold add_request_kstat
  refine quiet_modS _ fun s => ?_
  dsimp only
  split_ifs <;> exact sameCore_other _ _ rfl rfl rfl rfl rfl rfl rfl rfl

theorem quiet_modS_other (f : State → State)
    (h : ∀ s, (f s).free_list = s.free_list ∧ (f s).lru_list = s.lru_list ∧
      (f s).hash_table = s.hash_table ∧ (f s).unused_list = s.unused_list ∧
      (f s).nr_buffer_heads = s.nr_buffer_heads ∧ (f s).nr_hash = s.nr_hash ∧
      (f s).nr_free = s.nr_free ∧ (f s).b = s.b) : Quiet (modS f) := fun s =>
  sameCore_other _ _ (h s).1 (h s).2.1 (h s).2.2.1 (h s).2.2.2.1 (h s).2.2.2.2.1
    (h s).2.2.2.2.2.1 (h s).2.2.2.2.2.2.1 (h s).2.2.2.2.2.2.2

theorem ite_bind_jp2 {α β γ : Type} {c : Prop} [Decidable c] (x1 : K γ) (x2 : K α) (y : K α)
    (k : α → K β) :
    (if c then x1 >>= fun _ => x2 >>= k else y >>= k) =
      (if c then (x1 >>= fun _ => x2) else y) >>= k := by
  split_ifs
  · funext s
    simp only [bind_run]
    cases x1 s <;> rfl
  · rfl

theorem add_request_good (rb : Nat → K Unit) (hrb : RbOk rb) (major req : Nat) (s : State) :
    GoodAt (add_request rb major req)
      ((s.all_requests req).bh ≠ 0 → Linked s (s.all_requests req).bh) s := by
  unfold add_request
  refine GoodAt.getS_bind_g ?_
  refine GoodAt.quiet_bind_g (quiet_add_request_kstat _) ?_
  intro _ s1 _ hI1 hs1
  dsimp only
  rw [ite_bind_jp]
  refine GoodAt.bind_g (GoodAt.ite_g (fun h0 => ?_) (fun _ => GoodAt.pure_g)) ?_
  · exact (mark_buffer_clean_good rb hrb _ s1).weaken_g fun h => (hs1.linked _).mpr (h h0)
  intro _ s2 _ hI2 hs2
  refine GoodAt.getS_bind_g ?_
  split
  · exact GoodAt.of_quiet_g (Quiet.bind_q (quiet_modS_other _ fun _ => ⟨rfl, rfl, rfl, rfl, rfl, rfl, rfl, rfl⟩) fun _ => quiet_call_request_fn _)
  · exact GoodAt.of_quiet_g (Quiet.bind_q (quiet_modS_other _ fun _ => ⟨rfl, rfl, rfl, rfl, rfl, rfl, rfl, rfl⟩) fun _ =>
        Quiet.ite_q (quiet_call_request_fn _) (Quiet.pure_q _))

theorem make_request_queue_good (rb : Nat → K Unit) (hrb : RbOk rb) (fuel major : Nat)
    (rw : Rw) (rw_ahead : Bool) (bh sector count : Nat) (s : State) :
    GoodAt (make_request_queue rb fuel major rw rw_ahead bh sector count) (Linked s bh) s := by
  unfold make_request_queue
  refine GoodAt.getS_bind_g ?_
  dsimp only
  split
  · refine GoodAt.quiet_bind_g
      (quiet_setB_flag _ _ fun _ => ⟨rfl, rfl, rfl, rfl, rfl, rfl, rfl⟩) ?_
    intro _ s1 _ hI1 hs1
    refine GoodAt.quiet_bind_g (quiet_setR _ _) ?_
    intro _ s2 _ hI2 hs2
    exact (mark_buffer_clean_good rb hrb bh s2).weaken_g fun h =>
      (hs2.linked _).mpr ((hs1.linked _).mpr h)
  · refine GoodAt.quiet_bind_g
      (quiet_setB_flag _ _ fun _ => ⟨rfl, rfl, rfl, rfl, rfl, rfl, rfl⟩) ?_
    intro _ s1 _ hI1 hs1
    refine GoodAt.quiet_bind_g (quiet_setR _ _) ?_
    intro _ s2 _ hI2 hs2
    refine GoodAt.bind_g ((mark_buffer_clean_good rb hrb bh s2).weaken_g fun h =>
      (hs2.linked _).mpr ((hs1.linked _).mpr h)) ?_
    intro _ s3 _ hI3 hs3
    exact GoodAt.of_quiet_g (quiet_setR _ _)
  · have hmax : (if rw = Rw.READ then NR_REQUEST else NR_REQUEST * 2 / 3) ≠ 0 := by
      split_ifs <;> decide
    refine GoodAt.quiet_bind_g (quiet_get_request _ _ _ hmax) ?_
    intro r s1 _ hI1 hs1
    cases r with
    | none =>
      exact GoodAt.ite_g (fun _ => GoodAt.of_quiet_g (quiet_unlock_buffer _))
        (fun _ => GoodAt.khang_g)
    | some req =>
      refine GoodAt.quiet_bind_g (quiet_setR _ _) ?_
      intro _ s2 e hI2 hs2
      refine (add_request_good rb hrb major req s2).weaken_g fun h _ => ?_
      simp only [setR_run, Res.ok.injEq, true_and] at e
      subst e
      simp only [upd_same]
      exact (hs2.linked _).mpr ((hs1.linked _).mpr h)

theorem make_request_good (rb : Nat → K Unit) (hrb : RbOk rb) (fuel major : Nat) (rw : Rw)
    (bh : Nat) (s : State) :
    GoodAt (make_request rb fuel major rw bh) (Linked s bh) s := by
  unfold make_request
  refine GoodAt.getS_bind_g ?_
  dsimp only
  refine GoodAt.ite_g (fun _ => GoodAt.pure_g) fun _ => ?_
  refine GoodAt.ite_g (fun _ => GoodAt.of_quiet_g
    (quiet_setB_flag _ _ fun _ => ⟨rfl, rfl, rfl, rfl, rfl, rfl, rfl⟩)) fun _ => ?_
  refine GoodAt.ite_g (fun _ => GoodAt.pure_g) fun _ => ?_
  refine GoodAt.quiet_bind_g (quiet_lock_buffer _) ?_
  intro _ s1 _ hI1 hs1
  refine GoodAt.getS_bind_g ?_
  refine GoodAt.ite_g (fun _ => GoodAt.of_quiet_g (quiet_unlock_buffer _)) fun _ => ?_
  exact (make_request_queue_good rb hrb _ _ _ _ _ _ _ s1).weaken_g (hs1.linked _).mpr

theorem quiet_sorry_exit (bhs : List Nat) : Quiet <| ll_rw_block_sorry bhs := by
  induction bhs with
  | nil => exact Quiet.pure_q _
  | cons bh rest ih =>
    unfold ll_rw_block_sorry
    dsimp only
    rw [ite_bind_jp]
    exact Quiet.bind_q (Quiet.ite_q
      (quiet_setB_flag _ _ fun _ => ⟨rfl, rfl, rfl, rfl, rfl, rfl, rfl⟩) (Quiet.pure_q _))
      fun _ => ih

theorem ll_rw_block_loop_good (rb : Nat → K Unit) (hrb : RbOk rb) (fuel major : Nat) (rw : Rw)
    (bhs : List Nat) (s : State) :
    GoodAt (ll_rw_block_loop rb fuel major rw bhs) (∀ x ∈ bhs, x ≠ 0 → Linked s x) s := by
  induction bhs generalizing s with
  | nil => exact GoodAt.pure_g
  | cons bh rest ih =>
    unfold ll_rw_block_loop
    dsimp only
    have hrest : ∀ s', Stable s s' → GoodAt (ll_rw_block_loop rb fuel major rw rest)
        (∀ x ∈ bh :: rest, x ≠ 0 → Linked s x) s' := fun s' hs =>
      (ih s').weaken_g fun h x hx h0 => (hs.linked x).mpr (h x (List.mem_cons_of_mem _ hx) h0)
    refine GoodAt.ite_g (fun h0 => ?_) (fun _ => ?_)
    · refine GoodAt.quiet_bind_g
        (quiet_setB_flag _ _ fun _ => ⟨rfl, rfl, rfl, rfl, rfl, rfl, rfl⟩) ?_
      intro _ s1 _ hI1 hs1
      refine GoodAt.bind_g ((make_request_good rb hrb _ _ _ bh s1).weaken_g fun h =>
        (hs1.linked _).mpr (h bh (List.mem_cons_self _ _) h0)) ?_
      intro _ s2 _ hI2 hs2
      rw [ite_bind_jp]
      refine GoodAt.quiet_bind_g (Quiet.ite_q
        (quiet_modS_other _ fun _ => ⟨rfl, rfl, rfl, rfl, rfl, rfl, rfl, rfl⟩)
        (quiet_modS_other _ fun _ => ⟨rfl, rfl, rfl, rfl, rfl, rfl, rfl, rfl⟩)) ?_
      intro _ s3 _ hI3 hs3
      exact hrest s3 ((hs1.stable.trans_st hs2).trans_st hs3.stable)
    · refine GoodAt.bind_g (GoodAt.pure_g) ?_
      intro _ s1 _ hI1 hs1
      exact hrest s1 hs1

theorem ll_rw_block_good (rb : Nat → K Unit) (hrb : RbOk rb) (fuel : Nat) (rw : Rw)
    (bhs : List Nat) (s : State) :
    GoodAt (ll_rw_block rb fuel rw bhs) (∀ x ∈ bhs, x ≠ 0 → Linked s x) s := by
  unfold ll_rw_block
  split
  · exact GoodAt.pure_g
  · rename_i bh0 rest hdw
    have hsub : ∀ x ∈ bh0 :: rest, x ∈ bhs := fun x hx => by
      rw [← hdw] at hx
      exact (List.dropWhile_sublist _).subset hx
    refine GoodAt.getS_bind_g ?_
    dsimp only
    have hsorry : ∀ m, GoodAt (printk m >>= fun _ => ll_rw_block_sorry (bh0 :: rest))
        (∀ x ∈ bhs, x ≠ 0 → Linked s x) s := fun m =>
      GoodAt.of_quiet_g (Quiet.bind_q (quiet_printk _) fun _ => quiet_sorry_exit _)
    refine GoodAt.ite_g (fun _ => hsorry _) fun _ => ?_
    split
    · exact hsorry _
    · refine GoodAt.ite_g (fun _ => hsorry _) fun _ => ?_
      rw [ite_bind_jp2]
      refine GoodAt.quiet_bind_g (Quiet.ite_q (Quiet.bind_q
        (quiet_modS_other _ fun _ => ⟨rfl, rfl, rfl, rfl, rfl, rfl, rfl, rfl⟩)
        fun _ => quiet_setR _ _) (Quiet.pure_q _)) ?_
      intro _ s1 _ hI1 hs1
      refine GoodAt.bind_g ((ll_rw_block_loop_good rb hrb _ _ _ _ s1).weaken_g fun h x hx h0 =>
        (hs1.linked _).mpr (h x (hsub x hx) h0)) ?_
      intro _ s2 _ hI2 hs2
      exact GoodAt.of_quiet_g (Quiet.ite_q (Quiet.bind_q
        (quiet_modS_other _ fun _ => ⟨rfl, rfl, rfl, rfl, rfl, rfl, rfl, rfl⟩)
        fun _ => quiet_call_request_fn _) (Quiet.pure_q _))

theorem Post.inv_p {α : Type} {m : K α} {pre : Prop} {s : State} {Q : α → State → Prop}
    (h : Inv s → Post m pre s Q) : Post m pre s Q := fun hI => h hI hI

theorem Post.setB_bind {β : Type} {bh : Nat} {f : buffer_head → buffer_head} {k : Unit → K β}
    {pre : Prop} {s : State} {Q : β → State → Prop}
    (hI' : Inv s → Inv { s with b := upd s.b bh (f (s.b bh)) })
    (h : Post (k ()) pre { s with b := upd s.b bh (f (s.b bh)) } Q) :
    Post (setB bh f >>= k) pre s Q := by
  intro hI
  rw [bind_run, setB_run]
  exact h (hI' hI)

theorem Post.modS_bind {β : Type} {f : State → State} {k : Unit → K β}
    {pre : Prop} {s : State} {Q : β → State → Prop}
    (hI' : Inv s → Inv (f s)) (h : Post (k ()) pre (f s) Q) :
    Post (modS f >>= k) pre s Q := by
  intro hI
  rw [bind_run, modS_run]
  exact h (hI' hI)

/-- The clauses of the invariant for a head that is on no list. -/
theorem HeadOk.of_nowhere (s : State) (x : Nat) (hf : ∀ i, x ∉ s.free_list i)
    (hl : ∀ l, x ∉ s.lru_list l) (hh : ∀ k, x ∉ s.hash_table k) (hu : x ∉ s.unused_list)
    (hc : s.nr_buffer_heads < x → (s.b x).b_count = 0) : HeadOk s x := by
  constructor
  · intro i hi; exact absurd hi (hf i)
  · intro i hi; exact absurd hi (hf i)
  · intro i hi; exact absurd hi (hf i)
  · intro i hi; exact absurd hi (hf i)
  · intro l h; exact absurd h (hl l)
  · intro l h; exact absurd h (hl l)
  · intro l h; exact absurd h (hl l)
  · intro k h; exact absurd h (hh k)
  · intro k h; exact absurd h (hh k)
  · intro l h; exact absurd h (hl l)
  · intro h; exact absurd h hu
  · intro h; exact absurd h hu
  · intro h; exact absurd h hu
  · intro i hi; exact absurd hi (hf i)
  · intro l h; exact absurd h (hl l)
  · intro h; exact absurd h hu
  · exact hc

/-- Head 0, the null pointer, is on no list. -/
theorem Inv.zero_nowhere {s : State} (hI : Inv s) :
    (∀ i, 0 ∉ s.free_list i) ∧ (∀ l, 0 ∉ s.lru_list l) ∧ (∀ k, 0 ∉ s.hash_table k) ∧
      0 ∉ s.unused_list := by
  refine ⟨fun i h => ?_, fun l h => ?_, fun k h => ?_, fun h => ?_⟩
  · have := hI.carved_free i 0 h; omega
  · have := hI.carved_lru l 0 h; omega
  · have := hI.carved_lru _ 0 (hI.hash_lru k 0 h).1; omega
  · have := hI.carved_unused 0 h; omega

/-- Rewriting the reference count and the flags of a linked head, or of head 0, keeps
the invariant. -/
theorem pin_inv {s s1 : State} {bh : Nat} {h : buffer_head} (hI : Inv s)
    (hp : bh = 0 ∨ Linked s bh) (f : SetHead s s1 bh h) (he : CoreEq h (s.b bh)) :
    Inv s1 ∧ ∀ x, Linked s1 x ↔ Linked s x := by
  have hself : s1.b bh = h := f.self
  have hfr : Frame s s1 (fun x => x = bh) :=
    ⟨fun x hx => f.same1_sh x hx, f.nr_hash, le_of_eq f.nr_buffer_heads.symm⟩
  have hk : _hashfn s1 = _hashfn s := by
    funext d b
    simp [_hashfn, f.nr_hash]
  have hlk : ∀ x, Linked s1 x ↔ Linked s x := by
    intro x
    unfold Linked
    rw [f.lru_list]
    by_cases hx : x = bh
    · subst hx
      rw [hself, he.2.2.2.1]
    · rw [f.other x hx]
  refine ⟨?_, hlk⟩
  refine hfr.inv_fr hI ?_ (by rw [f.unused_list]; exact hI.unused_nodup)
  rintro x rfl
  rcases hp with rfl | hp
  · have hz := hI.zero_nowhere
    exact HeadOk.of_nowhere s1 0 (by rw [f.free_list]; exact hz.1)
      (by rw [f.lru_list]; exact hz.2.1) (by rw [f.hash_table]; exact hz.2.2.1)
      (by rw [f.unused_list]; exact hz.2.2.2) (fun h => absurd h (Nat.not_lt_zero _))
  · have hdet := hI.linked_detached hp
    refine HeadOk.of_linked s1 x (by rw [f.free_list]; exact hdet.1)
      (by rw [f.unused_list]; exact hdet.2) ?_ ?_ (by rw [hself, he.1]; exact hI.lru_dev _ _ hp)
      (by rw [hself, he.2.2.1]; exact hI.lru_align _ _ hp)
      (by rw [f.nr_buffer_heads]; exact hI.carved_lru _ _ hp)
    · intro l
      rw [f.lru_list, hself, he.2.2.2.1]
      exact hI.lru_iff hp l
    · intro k
      rw [f.hash_table, hself, hk, he.1, he.2.1]
      exact hI.hash_iff hp k

/-- A reference taken on `bh` and dropped again around code that is `Stable`. -/
theorem pin_unpin_stable {s s1 s3 s4 : State} {bh : Nat} {h1 h4 : buffer_head}
    (f1 : SetHead s s1 bh h1) (e1 : CoreEq h1 (s.b bh)) (c1 : h1.b_count = (s.b bh).b_count + 1)
    (hs : Stable s1 s3) (f4 : SetHead s3 s4 bh h4) (e4 : CoreEq h4 (s3.b bh))
    (c4 : h4.b_count = (s3.b bh).b_count - 1) : Stable s s4 := by
  have h3 : ∀ x, (s3.b x).b_dev = (s1.b x).b_dev ∧ (s3.b x).b_blocknr = (s1.b x).b_blocknr ∧
      (s3.b x).b_size = (s1.b x).b_size ∧ (s3.b x).b_count = (s1.b x).b_count ∧
      (s3.b x).b_data = (s1.b x).b_data ∧ (s3.b x).b_this_page = (s1.b x).b_this_page :=
    fun x => ⟨hs.b_dev x, hs.b_blocknr x, hs.b_size x, hs.b_count x, hs.b_data x,
      hs.b_this_page x⟩
  have hfield : ∀ x, (s4.b x).b_dev = (s.b x).b_dev ∧ (s4.b x).b_blocknr = (s.b x).b_blocknr ∧
      (s4.b x).b_size = (s.b x).b_size ∧ (s4.b x).b_count = (s.b x).b_count ∧
      (s4.b x).b_data = (s.b x).b_data ∧ (s4.b x).b_this_page = (s.b x).b_this_page := by
    intro x
    by_cases hx : x = bh
    · subst hx
      have a := h3 x
      rw [f1.self] at a
      rw [f4.self]
      refine ⟨by rw [e4.1, a.1, e1.1], by rw [e4.2.1, a.2.1, e1.2.1],
        by rw [e4.2.2.1, a.2.2.1, e1.2.2.1], ?_, by rw [e4.2.2.2.2.1, a.2.2.2.2.1, e1.2.2.2.2.1],
        by rw [e4.2.2.2.2.2, a.2.2.2.2.2, e1.2.2.2.2.2]⟩
      rw [c4, a.2.2.2.1, c1]
      omega
    · rw [f4.other x hx]
      have a := h3 x
      rw [f1.other x hx] at a
      exact a
  refine ⟨by rw [f4.free_list, hs.free_list, f1.free_list],
    by rw [f4.nr_free, hs.nr_free, f1.nr_free],
    by rw [f4.unused_list, hs.unused_list, f1.unused_list],
    by rw [f4.nr_buffer_heads, hs.nr_buffer_heads, f1.nr_buffer_heads],
    by rw [f4.nr_hash, hs.nr_hash, f1.nr_hash],
    fun x => (hfield x).1, fun x => (hfield x).2.1, fun x => (hfield x).2.2.1,
    fun x => (hfield x).2.2.2.1, fun x => (hfield x).2.2.2.2.1,
    fun x => (hfield x).2.2.2.2.2, ?_⟩
  intro x
  have l1 : Linked s1 x ↔ Linked s x := by
    unfold Linked
    rw [f1.lru_list]
    by_cases hx : x = bh
    · subst hx
      rw [f1.self, e1.2.2.2.1]
    · rw [f1.other x hx]
  have l4 : Linked s4 x ↔ Linked s3 x := by
    unfold Linked
    rw [f4.lru_list]
    by_cases hx : x = bh
    · subst hx
      rw [f4.self, e4.2.2.2.1]
    · rw [f4.other x hx]
  exact l4.trans ((hs.linked x).trans l1)

/-- The ring successor of a linked head, or of head 0, is linked or 0. -/
theorem next_ok {s : State} (hI : Inv s) {bh : Nat} (hp : bh = 0 ∨ Linked s bh) :
    b_next_free s bh = 0 ∨ Linked s (b_next_free s bh) := by
  rcases hp with rfl | hp
  · left
    unfold b_next_free
    apply ring_next_not_mem
    unfold ring_of
    split_ifs
    · exact hI.zero_nowhere.1 _
    · exact hI.zero_nowhere.2.1 _
  · right
    have hd := hI.lru_dev _ _ hp
    unfold b_next_free
    rw [ring_of_lru s bh hd]
    have := ring_next_mem _ _ hp
    unfold Linked
    rw [hI.lru_list _ _ this]
    exact this

theorem sync_buffers_scan_good (rb : Nat → K Unit) (hrb : RbOk rb) (fuel dev : Nat) (wait : Int)
    (nlist : BufList) (i bh : Nat) (loc : SyncLocals) (s : State)
    (hp : bh = 0 ∨ Linked s bh) :
    GoodAt (sync_buffers_scan rb fuel dev wait nlist i bh loc) True s := by
  induction i generalizing bh loc s with
  | zero => exact GoodAt.pure_g
  | succ i ih =>
    refine Post.inv_p fun hI => ?_
    have hnext := next_ok hI hp
    unfold sync_buffers_scan
    refine GoodAt.getS_bind_g ?_
    refine GoodAt.ite_g (fun _ => GoodAt.pure_g) fun _ => ?_
    dsimp only
    refine GoodAt.ite_g (fun _ => GoodAt.pure_g) fun _ => ?_
    refine GoodAt.ite_g (fun _ => ih _ _ s hnext) fun _ => ?_
    refine GoodAt.ite_g (fun _ => ?_) fun _ => ?_
    · refine GoodAt.ite_g (fun _ => ih _ _ s hnext) fun _ => ?_
      exact GoodAt.of_quiet_g (Quiet.bind_q (quiet_wait_on_buffer _) fun _ => Quiet.pure_q _)
    refine GoodAt.ite_g (fun _ => ?_) fun _ => ?_
    · refine GoodAt.quiet_bind_g (quiet_printk _) ?_
      intro _ s1 _ hI1 hs1
      exact ih _ _ s1 (hnext.imp_right (hs1.linked _).mpr)
    refine GoodAt.ite_g (fun _ => ih _ _ s hnext) fun _ => ?_
    refine GoodAt.ite_g (fun _ => ih _ _ s hnext) fun _ => ?_
    have f1 := setHead_setB s bh fun h => { h with b_count := h.b_count + 1, b_flushtime := 0 }
    have p1 := pin_inv hI hp f1 ⟨rfl, rfl, rfl, rfl, rfl, rfl⟩
    refine Post.setB_bind (fun _ => p1.1) ?_
    refine Post.bind_p ((ll_rw_block_good rb hrb fuel .WRITE [bh] _).weaken_g fun _ x hx _ => ?_) ?_
    · rw [List.mem_singleton] at hx
      subst hx
      rcases hp with rfl | hp
      · contradiction
      · exact (p1.2 _).mpr hp
    intro _ s2 _ hI2 hs2
    refine Post.getS_bind_p ?_
    dsimp only
    rw [ite_bind_jp]
    refine Post.bind_p (R := fun _ s3 => SameCore s2 s3)
      (Post.of_quiet_p (Quiet.ite_q (quiet_printk _) (Quiet.pure_q _)) fun _ _ h => h) ?_
    intro _ s3 _ hI3 hs3
    have hs13 : Stable _ s3 := hs2.trans_st hs3.stable
    have hp3 : bh = 0 ∨ Linked s3 bh := hp.imp_right fun h => (hs13.linked _).mpr ((p1.2 _).mpr h)
    have f4 := setHead_setB s3 bh fun h => { h with b_count := h.b_count - 1 }
    have p4 := pin_inv hI3 hp3 f4 ⟨rfl, rfl, rfl, rfl, rfl, rfl⟩
    have hs4 : Stable s _ := pin_unpin_stable f1 ⟨rfl, rfl, rfl, rfl, rfl, rfl⟩ rfl hs13 f4
      ⟨rfl, rfl, rfl, rfl, rfl, rfl⟩ rfl
    refine Post.setB_bind (fun _ => p4.1) ?_
    exact Post.mono_p (ih _ _ _ (hnext.imp_right (hs4.linked _).mpr)) fun _ _ _ h => hs4.trans_st h

theorem sync_buffers_list_good (rb : Nat → K Unit) (hrb : RbOk rb) (fuel0 dev : Nat) (wait : Int)
    (nlist : BufList) (fuel : Nat) (loc : SyncLocals) (s : State) :
    GoodAt (sync_buffers_list rb fuel0 dev wait nlist fuel loc) True s := by
  induction fuel generalizing loc s with
  | zero => exact GoodAt.khang_g
  | succ fuel ih =>
    refine Post.inv_p fun hI => ?_
    unfold sync_buffers_list
    refine GoodAt.getS_bind_g ?_
    split
    · exact GoodAt.pure_g
    · rename_i bh rest hl
      have hp : Linked s bh := by
        have hm : bh ∈ s.lru_list nlist := by rw [hl]; exact List.mem_cons_self _ _
        unfold Linked
        rw [hI.lru_list _ _ hm]
        exact hm
      refine GoodAt.bind_g (sync_buffers_scan_good rb hrb _ _ _ _ _ _ _ s (Or.inr hp)) ?_
      intro r s1 _ hI1 hs1
      split
      · exact ih _ s1
      · exact GoodAt.pure_g

theorem sync_buffers_lists_good (rb : Nat → K Unit) (hrb : RbOk rb) (fuel dev : Nat) (wait : Int)
    (lists : List BufList) (loc : SyncLocals) (s : State) :
    GoodAt (sync_buffers_lists rb fuel dev wait lists loc) True s := by
  induction lists generalizing loc s with
  | nil => exact GoodAt.pure_g
  | cons nlist rest ih =>
    unfold sync_buffers_lists
    refine GoodAt.bind_g (sync_buffers_list_good rb hrb _ _ _ _ _ _ s) ?_
    intro r s1 _ hI1 hs1
    split
    · exact GoodAt.pure_g
    · exact ih _ s1

theorem sync_buffers_pass_good (rb : Nat → K Unit) (hrb : RbOk rb) (fuel0 dev : Nat) (wait : Int)
    (fuel : Nat) (loc : SyncLocals) (s : State) :
    GoodAt (sync_buffers_pass rb fuel0 dev wait fuel loc) True s := by
  induction fuel generalizing loc s with
  | zero => exact GoodAt.khang_g
  | succ fuel ih =>
    unfold sync_buffers_pass
    refine GoodAt.bind_g (sync_buffers_lists_good rb hrb _ _ _ _ _ s) ?_
    intro r s1 _ hI1 hs1
    split
    · exact ih _ s1
    · dsimp only
      rw [ite_bind_jp]
      refine GoodAt.quiet_bind_g (Quiet.ite_q (quiet_printk _) (Quiet.pure_q _)) ?_
      intro _ s2 _ hI2 hs2
      exact GoodAt.ite_g (fun _ => ih _ s2) fun _ => GoodAt.pure_g

theorem sync_buffers_good (rb : Nat → K Unit) (hrb : RbOk rb) (fuel dev : Nat) (wait : Int)
    (s : State) : GoodAt (sync_buffers rb fuel dev wait) True s :=
  sync_buffers_pass_good rb hrb _ _ _ _ _ s

theorem wakeup_bdflush_good (rb : Nat → K Unit) (hrb : RbOk rb) (fuel : Nat) (wait : Int)
    (s : State) : GoodAt (wakeup_bdflush rb fuel wait) True s := by
  unfold wakeup_bdflush
  refine GoodAt.getS_bind_g ?_
  refine GoodAt.ite_g (fun _ => ?_) fun _ => GoodAt.ite_g (fun _ => GoodAt.khang_g) fun _ => GoodAt.pure_g
  refine GoodAt.quiet_bind_g (quiet_printk _) ?_
  intro _ s1 _ hI1 hs1
  refine GoodAt.bind_g (sync_buffers_good rb hrb _ _ _ s1) ?_
  intro _ s2 _ hI2 hs2
  exact GoodAt.pure_g

/-- The three steps by which a linked head changes lists. -/
theorem relink_bind {β : Type} {buf : Nat} {f : buffer_head → buffer_head} {k : Unit → K β}
    {pre : Prop} {s : State} {Q : β → State → Prop} (hd : (s.b buf).b_dev ≠ B_FREE)
    (hpre : pre → Linked s buf)
    (hf : (f (s.b buf)).b_dev = (s.b buf).b_dev ∧ (f (s.b buf)).b_blocknr = (s.b buf).b_blocknr ∧
      (f (s.b buf)).b_size = (s.b buf).b_size ∧ (f (s.b buf)).b_count = (s.b buf).b_count ∧
      (f (s.b buf)).b_data = (s.b buf).b_data ∧
      (f (s.b buf)).b_this_page = (s.b buf).b_this_page)
    (h : ∀ s', Stable s s' → Linked s' buf → s'.b = upd s.b buf (f (s.b buf)) →
      Post (k ()) pre s' Q) :
    Post (remove_from_queues buf >>= fun _ => setB buf f >>= fun _ =>
      insert_into_queues buf >>= k) pre s Q := by
  intro hI
  have h1 := remove_from_queues_lru s hI buf hd
  rw [bind_run]
  cases e1 : remove_from_queues buf s with
  | ok a s1 =>
    rw [e1] at h1
    obtain ⟨hl, f1⟩ := h1
    simp only [bind_run, setB_run]
    have f2 := setHead_setB s1 buf f
    have hb1 : s1.b buf = s.b buf := by rw [f1.b]
    rw [hb1] at f2 ⊢
    have hd2 : (({ s1 with b := upd s1.b buf (f (s.b buf)) } : State).b buf).b_dev ≠ B_FREE := by
      simp only [upd_same]
      rw [hf.1]
      exact hd
    have hn2 : buf ∉ ({ s1 with b := upd s1.b buf (f (s.b buf)) } : State).lru_list
        (({ s1 with b := upd s1.b buf (f (s.b buf)) } : State).b buf).b_list := by
      simp only [f1.lru]
      exact fun h => h.2 rfl
    obtain ⟨s3, e3, f3⟩ := insert_into_queues_lru _ buf hd2 hn2
    rw [e3]
    have r := relink_inv hI hl f1 f2 f3 hf.1 hf.2.1 hf.2.2.1 hf.2.2.2.1 hf.2.2.2.2.1
      hf.2.2.2.2.2
    exact h s3 r.2.1 r.2.2.1 r.2.2.2 r.1
  | panic p =>
    rw [e1] at h1
    exact fun hp => h1 (hpre hp)
  | hang =>
    rw [e1] at h1
    exact h1.elim

theorem refile_buffer_body_good (rb : Nat → K Unit) (hrb : RbOk rb) (fuel buf : Nat)
    (s : State) : GoodAt (refile_buffer_body rb fuel buf) (Linked s buf) s := by
  refine Post.inv_p fun hI => ?_
  unfold refile_buffer_body
  refine GoodAt.getS_bind_g ?_
  refine GoodAt.ite_g (fun hd => Post.kpanic fun hl => hI.lru_dev _ _ hl hd) fun hd => ?_
  dsimp only
  rw [ite_bind_jp]
  refine GoodAt.quiet_bind_g (Quiet.ite_q
    (quiet_setB_flag _ _ fun _ => ⟨rfl, rfl, rfl, rfl, rfl, rfl, rfl⟩) (Quiet.pure_q _)) ?_
  intro _ s1 _ hI1 hs1
  refine GoodAt.ite_g (fun _ => ?_) fun _ => GoodAt.pure_g
  rw [ite_bind_jp]
  refine GoodAt.quiet_bind_g (Quiet.ite_q
    (quiet_setB_flag _ _ fun _ => ⟨rfl, rfl, rfl, rfl, rfl, rfl, rfl⟩) (Quiet.pure_q _)) ?_
  intro _ s2 _ hI2 hs2
  refine GoodAt.getS_bind_g ?_
  have hd2 : (s2.b buf).b_dev ≠ B_FREE := by rw [hs2.b_dev, hs1.b_dev]; exact hd
  refine relink_bind hd2 (fun h => (hs2.linked _).mpr ((hs1.linked _).mpr h))
    ⟨rfl, rfl, rfl, rfl, rfl, rfl⟩ ?_
  intro s3 hs3 hl3 hb3
  refine Post.inv_p fun hI3 => ?_
  refine Post.getS_bind_p ?_
  refine Post.ite_p (fun _ => ?_) fun _ => Post.pure_p hs3
  exact Post.mono_p ((wakeup_bdflush_good rb hrb fuel 0 s3).weaken_g fun _ => trivial)
    fun _ _ _ h => hs3.trans_st h

theorem refile_buffer_good (fuel : Nat) : RbOk (refile_buffer fuel) := by
  induction fuel with
  | zero => exact fun _ _ => GoodAt.khang_g
  | succ fuel ih => exact fun buf s => refile_buffer_body_good _ ih fuel buf s

theorem mark_buffer_dirty_good (fuel bh : Nat) (flag : Int) (s : State) :
    GoodAt (mark_buffer_dirty fuel bh flag) (Linked s bh) s := by
  unfold mark_buffer_dirty
  refine GoodAt.getS_bind_g ?_
  refine GoodAt.ite_g (fun _ => ?_) fun _ => GoodAt.pure_g
  refine GoodAt.quiet_bind_g (quiet_setB_flag _ _ fun _ => ⟨rfl, rfl, rfl, rfl, rfl, rfl, rfl⟩) ?_
  intro _ s1 _ hI1 hs1
  refine GoodAt.quiet_bind_g (quiet_set_writetime _ _) ?_
  intro _ s2 _ hI2 hs2
  refine GoodAt.ite_g (fun _ => ?_) fun _ => GoodAt.pure_g
  exact (refile_buffer_good fuel bh s2).weaken_g fun h => (hs2.linked _).mpr ((hs1.linked _).mpr h)

theorem Stable.dec {s s1 : State} (hs : Stable s s1) (buf : Nat) :
    StableDec s { s1 with b := upd s1.b buf { (s1.b buf) with b_count := (s1.b buf).b_count - 1 } }
      buf := by
  have hfield : ∀ x, ((upd s1.b buf { (s1.b buf) with b_count := (s1.b buf).b_count - 1 }) x).b_dev
        = (s.b x).b_dev ∧
      ((upd s1.b buf { (s1.b buf) with b_count := (s1.b buf).b_count - 1 }) x).b_blocknr
        = (s.b x).b_blocknr ∧
      ((upd s1.b buf { (s1.b buf) with b_count := (s1.b buf).b_count - 1 }) x).b_size
        = (s.b x).b_size ∧
      ((upd s1.b buf { (s1.b buf) with b_count := (s1.b buf).b_count - 1 }) x).b_count
        = (if x = buf then (s.b x).b_count - 1 else (s.b x).b_count) ∧
      ((upd s1.b buf { (s1.b buf) with b_count := (s1.b buf).b_count - 1 }) x).b_data
        = (s.b x).b_data ∧
      ((upd s1.b buf { (s1.b buf) with b_count := (s1.b buf).b_count - 1 }) x).b_this_page
        = (s.b x).b_this_page ∧
      ((upd s1.b buf { (s1.b buf) with b_count := (s1.b buf).b_count - 1 }) x).b_list
        = (s1.b x).b_list := by
    intro x
    by_cases hx : x = buf
    · subst hx
      simp only [upd_same, if_true]
      exact ⟨hs.b_dev x, hs.b_blocknr x, hs.b_size x, by rw [hs.b_count], hs.b_data x,
        hs.b_this_page x, trivial⟩
    · simp only [upd_other _ _ _ _ hx, if_neg hx]
      exact ⟨hs.b_dev x, hs.b_blocknr x, hs.b_size x, hs.b_count x, hs.b_data x,
        hs.b_this_page x, trivial⟩
  refine ⟨hs.free_list, hs.nr_free, hs.unused_list, hs.nr_buffer_heads, hs.nr_hash,
    fun x => (hfield x).1, fun x => (hfield x).2.1, fun x => (hfield x).2.2.1,
    fun x => (hfield x).2.2.2.1, fun x => (hfield x).2.2.2.2.1,
    fun x => (hfield x).2.2.2.2.2.1, ?_⟩
  intro x
  rw [← hs.linked x]
  unfold Linked
  simp only
  rw [(hfield x).2.2.2.2.2.2]

/-- Dropping a reference keeps the invariant. -/
theorem dec_inv {s : State} (hI : Inv s) (buf : Nat) :
    Inv { s with b := upd s.b buf { (s.b buf) with b_count := (s.b buf).b_count - 1 } } := by
  have f := setHead_setB s buf fun h => { h with b_count := h.b_count - 1 }
  have hfr : Frame s _ (fun x => x = buf) :=
    ⟨fun x hx => f.same1_sh x hx, f.nr_hash, le_of_eq f.nr_buffer_heads.symm⟩
  refine hfr.inv_fr hI ?_ hI.unused_nodup
  rintro x rfl
  have h := hI.head x
  have hk : ∀ d b, _hashfn { s with b := upd s.b x { (s.b x) with b_count := (s.b x).b_count - 1 } }
      d b = _hashfn s d b := fun d b => rfl
  constructor
  · intro i hi; simp only [upd_same]; exact h.free_dev i hi
  · intro i hi; simp only [upd_same]; rw [h.free_count i hi]
  · intro i hi; simp only [upd_same]; exact h.free_size i hi
  · intro i hi; simp only [upd_same]; exact h.free_align i hi
  · intro l hl; simp only [upd_same]; exact h.lru_dev l hl
  · intro l hl; simp only [upd_same]; exact h.lru_list l hl
  · intro l hl; simp only [upd_same]; exact h.lru_align l hl
  · intro k hx; simp only [upd_same]; exact h.hash_key k hx
  · intro k hx
    have := h.hash_lru k hx
    refine ⟨?_, by simp only [upd_same]; exact this.2⟩
    unfold Linked
    simp only [upd_same]
    exact this.1
  · intro l hl hd
    simp only [upd_same] at hd
    have := h.lru_hash l hl hd
    unfold Hashed
    simp only [upd_same]
    exact this
  · intro hu; simp only [upd_same]; rw [h.unused_count hu]
  · exact h.unused_free
  · exact h.unused_lru
  · exact h.carved_free
  · exact h.carved_lru
  · exact h.carved_unused
  · intro hx; simp only [upd_same]; rw [h.fresh_count hx]

theorem brelse_post (fuel buf : Nat) (s : State) :
    Post (brelse fuel buf) (Linked s buf) s fun _ s' =>
      (buf = 0 ∧ s' = s) ∨ (buf ≠ 0 ∧ StableDec s s' buf ∧
        ((s.b buf).b_count = 0 → s'.klog.getLast? = some .brelse_free_free)) := by
  unfold brelse
  refine Post.ite_p (fun h0 => Post.pure_p (Or.inl ⟨h0, rfl⟩)) fun h0 => ?_
  refine Post.bind_p (R := fun _ s1 => SameCore s s1)
    (Post.of_quiet_p (quiet_wait_on_buffer _) fun _ _ h => h) ?_
  intro _ s1 _ hI1 hs1
  refine Post.bind_p (R := fun _ s2 => SameCore s1 s2)
    (Post.of_quiet_p (quiet_set_writetime _ _) fun _ _ h => h) ?_
  intro _ s2 _ hI2 hs2
  refine Post.bind_p ((refile_buffer_good fuel buf s2).weaken_g fun h =>
    (hs2.linked _).mpr ((hs1.linked _).mpr h)) ?_
  intro _ s3 _ hI3 hs3
  have hs : Stable s s3 := (hs1.stable.trans_st hs2.stable).trans_st hs3
  refine Post.getS_bind_p ?_
  refine Post.ite_p (fun hc => ?_) fun hc => ?_
  · intro _
    rw [setB_run]
    refine ⟨dec_inv hI3 buf, Or.inr ⟨h0, hs.dec buf, fun h => ?_⟩⟩
    rw [hs.b_count] at hc
    exact absurd h hc
  · intro _
    rw [printk_run]
    have hc' : (s3.b buf).b_count = 0 := by
      by_contra h
      exact hc h
    have hq := quiet_printk Kmsg.brelse_free_free s3
    simp only [printk_run] at hq
    refine ⟨hq.inv_sc hI3,
      Or.inr ⟨h0, ?_, fun _ => by simp⟩⟩
    have := hs.dec buf
    refine ⟨this.free_list, this.nr_free, this.unused_list, this.nr_buffer_heads, this.nr_hash,
      hs.b_dev, hs.b_blocknr, hs.b_size, fun x => ?_, hs.b_data, hs.b_this_page, hs.linked⟩
    show (s3.b x).b_count = _
    split_ifs with hx
    · subst hx
      rw [hc', ← hs.b_count, hc']
    · exact hs.b_count x

theorem Loose.headOk {s : State} {x : Nat} (h : Loose s x) : HeadOk s x :=
  HeadOk.of_nowhere s x h.free h.lru h.hash h.unused fun hx => by
    have := h.carved
    omega

/-- Any rewriting of a loose head keeps the invariant, and the head stays loose. -/
theorem Loose.setHead_lo {s s' : State} {x : Nat} {h : buffer_head} (hl : Loose s x) (hI : Inv s)
    (f : SetHead s s' x h) : Inv s' ∧ Loose s' x := by
  have hl' : Loose s' x :=
    ⟨by rw [f.free_list]; exact hl.free, by rw [f.lru_list]; exact hl.lru,
      by rw [f.hash_table]; exact hl.hash, by rw [f.unused_list]; exact hl.unused, hl.pos,
      by rw [f.nr_buffer_heads]; exact hl.carved⟩
  refine ⟨?_, hl'⟩
  have hfr : Frame s s' (fun y => y = x) :=
    ⟨fun y hy => f.same1_sh y hy, f.nr_hash, le_of_eq f.nr_buffer_heads.symm⟩
  refine hfr.inv_fr hI ?_ (by rw [f.unused_list]; exact hI.unused_nodup)
  rintro y rfl
  exact hl'.headOk

theorem Frame.of_setHead {s s' : State} {x : Nat} {h : buffer_head} (f : SetHead s s' x h) :
    Frame s s' (fun y => y = x) :=
  ⟨fun y hy => f.same1_sh y hy, f.nr_hash, le_of_eq f.nr_buffer_heads.symm⟩

/-- Taking a head off the free list of its size. -/
theorem remove_from_free_list_post (s : State) (bh : Nat) :
    Post (remove_from_free_list bh) False s fun _ s' =>
      s'.b = s.b ∧ Loose s' bh ∧ Frame s s' (fun y => y = bh) ∧
        s'.unused_list = s.unused_list ∧ s'.nr_buffer_heads = s.nr_buffer_heads ∧
        (s.b bh).b_dev = B_FREE ∧ OnFreeList s bh := by
  intro hI
  by_cases hd : (s.b bh).b_dev = B_FREE
  · have h1 := remove_from_free_list_spec s bh hd fun y hy => (hI.carved_free _ y hy).1
    cases e : remove_from_free_list bh s with
    | ok a s' =>
      rw [e] at h1
      obtain ⟨hm, hb, hh, hl, hu, hn, hnh, hnf, hf, _⟩ := h1
      have hfree : ∀ i x, x ∈ s'.free_list i ↔ x ∈ s.free_list i ∧ x ≠ bh := by
        intro i x
        rw [hf]
        simp only [upd_apply]
        split_ifs with h1
        · subst h1
          exact mem_ring_remove _ _ _
        · constructor
          · intro hx
            refine ⟨hx, ?_⟩
            rintro rfl
            exact h1 (hI.free_size _ _ hx).symm
          · exact fun h => h.1
      have hcar := hI.carved_free _ _ hm
      have hfr : Frame s s' (fun y => y = bh) := by
        refine ⟨fun x hx => ⟨by rw [hb], by rw [hb], by rw [hb], by rw [hb], by rw [hb],
          fun i => ?_, fun l => by rw [hl], fun k => by rw [hh], by rw [hu]⟩, hnh,
          le_of_eq hn.symm⟩
        rw [hfree]
        exact ⟨fun h => h.1, fun h => ⟨h, hx⟩⟩
      have hloose : Loose s' bh := by
        refine ⟨fun i h => ((hfree i bh).mp h).2 rfl, fun l h => ?_, fun k h => ?_, ?_,
          hcar.1, by rw [hn]; exact hcar.2⟩
        · rw [hl] at h
          exact hI.lru_dev _ _ h hd
        · rw [hh] at h
          exact hI.lru_dev _ _ (hI.hash_lru _ _ h).1 hd
        · rw [hu]
          exact fun h => hI.unused_free _ h _ hm
      refine ⟨?_, hb, hloose, hfr, hu, hn, hd, ⟨_, hm⟩⟩
      refine hfr.inv_fr hI ?_ (by rw [hu]; exact hI.unused_nodup)
      rintro y rfl
      exact hloose.headOk
    | panic p => exact fun h => h
    | hang => trivial
  · simp only [remove_from_free_list, bind_run, getS_run, ite_run, kpanic_run]
    split_ifs
    · exact fun h => h
    · exact fun h => h

/-- Taking a head off the lists it is on. -/
theorem remove_from_queues_post (s : State) (bh : Nat) :
    Post (remove_from_queues bh) False s fun _ s' =>
      s'.b = s.b ∧ Loose s' bh ∧ Frame s s' (fun y => y = bh) ∧
        s'.unused_list = s.unused_list ∧ s'.nr_buffer_heads = s.nr_buffer_heads ∧
        (Linked s bh ∨ OnFreeList s bh) := by
  by_cases hd : (s.b bh).b_dev = B_FREE
  · unfold remove_from_queues
    refine Post.getS_bind_p ?_
    rw [if_pos hd]
    exact Post.mono_p (remove_from_free_list_post s bh) fun _ s' _ h =>
      ⟨h.1, h.2.1, h.2.2.1, h.2.2.2.1, h.2.2.2.2.1, Or.inr h.2.2.2.2.2.2⟩
  · intro hI
    have h1 := remove_from_queues_lru s hI bh hd
    cases e : remove_from_queues bh s with
    | ok a s' =>
      rw [e] at h1
      obtain ⟨hl, f⟩ := h1
      have hfr : Frame s s' (fun y => y = bh) :=
        ⟨fun x hx => f.same1_uf x hx, f.nr_hash, le_of_eq f.nr_buffer_heads.symm⟩
      have hdet := hI.linked_detached hl
      have hcar := hI.carved_lru _ _ hl
      have hloose : Loose s' bh :=
        ⟨by rw [f.free_list]; exact hdet.1, fun l h => ((f.lru l bh).mp h).2 rfl,
          fun k h => ((f.hash k bh).mp h).2 rfl, by rw [f.unused_list]; exact hdet.2, hcar.1,
          by rw [f.nr_buffer_heads]; exact hcar.2⟩
      refine ⟨?_, f.b, hloose, hfr, f.unused_list, f.nr_buffer_heads, Or.inl hl⟩
      refine hfr.inv_fr hI ?_ (by rw [f.unused_list]; exact hI.unused_nodup)
      rintro y rfl
      exact hloose.headOk
    | panic p => exact fun h => h
    | hang => trivial

/-- Putting a loose head on the disposition list its `b_list` names, and on the hash
chain of its block. -/
theorem insert_into_queues_post (s : State) (bh : Nat) (hl : Loose s bh)
    (hd : (s.b bh).b_dev ≠ B_FREE) (ha : (s.b bh).b_size % 512 = 0) :
    Post (insert_into_queues bh) False s fun _ s' =>
      s'.b = s.b ∧ Frame s s' (fun y => y = bh) ∧ Linked s' bh ∧ LinkFrame s s' bh := by
  intro hI
  obtain ⟨s', e, f⟩ := insert_into_queues_lru s bh hd (hl.lru _)
  rw [e]
  have hfr : Frame s s' (fun y => y = bh) :=
    ⟨fun x hx => f.same1_lf x hx, f.nr_hash, le_of_eq f.nr_buffer_heads.symm⟩
  have hlk : Linked s' bh := by
    unfold Linked
    rw [f.lru, f.b]
    exact Or.inr ⟨rfl, rfl⟩
  refine ⟨?_, f.b, hfr, hlk, f⟩
  refine hfr.inv_fr hI ?_ (by rw [f.unused_list]; exact hI.unused_nodup)
  rintro y rfl
  have hk : _hashfn s' = _hashfn s := by
    funext d b
    simp [_hashfn, f.nr_hash]
  refine HeadOk.of_linked s' y (by rw [f.free_list]; exact hl.free)
    (by rw [f.unused_list]; exact hl.unused) ?_ ?_ (by rw [f.b]; exact hd)
    (by rw [f.b]; exact ha) ⟨hl.pos, by rw [f.nr_buffer_heads]; exact hl.carved⟩
  · intro l
    rw [f.lru, f.b]
    constructor
    · rintro (h | ⟨_, h⟩)
      · exact absurd h (hl.lru l)
      · exact h
    · exact fun h => Or.inr ⟨rfl, h⟩
  · intro k
    rw [f.hash, f.b, hk]
    constructor
    · rintro (h | ⟨_, h⟩)
      · exact absurd h (hl.hash k)
      · exact h
    · exact fun h => Or.inr ⟨rfl, h⟩

theorem quiet_get_free_page (pri : Gfp) : Quiet (__get_free_page pri) := by
  intro s
  unfold __get_free_page
  cases s.page_pool with
  | nil => exact SameCore.refl_sc s
  | cons p rest => exact sameCore_other s _ rfl rfl rfl rfl rfl rfl rfl rfl

theorem quiet_free_page (addr : Nat) : Quiet (free_page addr) := by
  intro s
  unfold free_page
  split_ifs
  · exact quiet_printk _ s
  · exact sameCore_other s _ rfl rfl rfl rfl rfl rfl rfl rfl
  · exact sameCore_other s _ rfl rfl rfl rfl rfl rfl rfl rfl

/-- The clauses of the invariant for a head on a free list. -/
theorem HeadOk.of_free (s : State) (x : Nat)
    (hf : ∀ i, x ∈ s.free_list i → i = BUFSIZE_INDEX (s.b x).b_size)
    (hl : ∀ l, x ∉ s.lru_list l) (hh : ∀ k, x ∉ s.hash_table k) (hu : x ∉ s.unused_list)
    (hd : (s.b x).b_dev = B_FREE) (hc : (s.b x).b_count = 0) (ha : (s.b x).b_size % 512 = 0)
    (hcar : 1 ≤ x ∧ x ≤ s.nr_buffer_heads) : HeadOk s x := by
  constructor
  · intro i _; exact hd
  · intro i _; exact hc
  · intro i hi; exact (hf i hi).symm
  · intro i _; exact ha
  · intro l h; exact absurd h (hl l)
  · intro l h; exact absurd h (hl l)
  · intro l h; exact absurd h (hl l)
  · intro k h; exact absurd h (hh k)
  · intro k h; exact absurd h (hh k)
  · intro l h; exact absurd h (hl l)
  · intro _; exact hc
  · intro h; exact absurd h hu
  · intro h; exact absurd h hu
  · intro i _; exact hcar
  · intro l h; exact absurd h (hl l)
  · intro _; exact hcar
  · intro _; exact hc

/-- The clauses of the invariant for a head on `unused_list`. -/
theorem HeadOk.of_unused (s : State) (x : Nat) (hf : ∀ i, x ∉ s.free_list i)
    (hl : ∀ l, x ∉ s.lru_list l) (hh : ∀ k, x ∉ s.hash_table k)
    (hc : (s.b x).b_count = 0) (hcar : 1 ≤ x ∧ x ≤ s.nr_buffer_heads) : HeadOk s x := by
  constructor
  · intro i hi; exact absurd hi (hf i)
  · intro i _; exact hc
  · intro i hi; exact absurd hi (hf i)
  · intro i hi; exact absurd hi (hf i)
  · intro l h; exact absurd h (hl l)
  · intro l h; exact absurd h (hl l)
  · intro l h; exact absurd h (hl l)
  · intro k h; exact absurd h (hh k)
  · intro k h; exact absurd h (hh k)
  · intro l h; exact absurd h (hl l)
  · intro _; exact hc
  · intro _; exact hf
  · intro _; exact hl
  · intro i hi; exact absurd hi (hf i)
  · intro l h; exact absurd h (hl l)
  · intro _; exact hcar
  · intro _; exact hc

/-- Putting a loose head that nobody references on the free list of its size. -/
theorem put_last_free_post (s : State) (bh : Nat) (hl : Loose s bh)
    (hc : (s.b bh).b_count = 0) (ha : (s.b bh).b_size % 512 = 0) :
    Post (put_last_free bh) False s fun _ s' =>
      s'.b = upd s.b bh { (s.b bh) with b_dev := B_FREE } ∧ Frame s s' (fun y => y = bh) ∧
        s'.unused_list = s.unused_list ∧ s'.nr_buffer_heads = s.nr_buffer_heads := by
  intro hI
  have h0 : bh ≠ 0 := by
    have := hl.pos
    omega
  obtain ⟨s', e, hb, hh, hlr, hu, hn, hnh, hnf, hf⟩ := put_last_free_spec s bh h0
  rw [e]
  have hself : s'.b bh = { (s.b bh) with b_dev := B_FREE } := by rw [hb, upd_same]
  have hfree : ∀ i x, x ∈ s'.free_list i ↔
      x ∈ s.free_list i ∨ (x = bh ∧ i = BUFSIZE_INDEX (s.b bh).b_size) := by
    intro i x
    rw [hf]
    simp only [upd_apply]
    split_ifs with h1
    · subst h1
      simp only [List.mem_append, List.mem_singleton, and_true]
    · simp only [h1, and_false, or_false]
  have hfr : Frame s s' (fun y => y = bh) := by
    refine ⟨fun x hx => ?_, hnh, le_of_eq hn.symm⟩
    have hbx : s'.b x = s.b x := by rw [hb, upd_other _ _ _ _ hx]
    refine ⟨by rw [hbx], by rw [hbx], by rw [hbx], by rw [hbx], by rw [hbx], fun i => ?_,
      fun l => by rw [hlr], fun k => by rw [hh], by rw [hu]⟩
    rw [hfree]
    exact ⟨fun h => h.resolve_right fun h' => hx h'.1, Or.inl⟩
  refine ⟨?_, hb, hfr, hu, hn⟩
  refine hfr.inv_fr hI ?_ (by rw [hu]; exact hI.unused_nodup)
  rintro y rfl
  refine HeadOk.of_free s' y ?_ (by rw [hlr]; exact hl.lru) (by rw [hh]; exact hl.hash)
    (by rw [hu]; exact hl.unused) (by rw [hself]) (by rw [hself]; exact hc)
    (by rw [hself]; exact ha) ⟨hl.pos, by rw [hn]; exact hl.carved⟩
  intro i hi
  rw [hself]
  rcases (hfree i y).mp hi with h | ⟨_, h⟩
  · exact absurd h (hl.free i)
  · exact h

/-- Giving a loose head back to `unused_list`. -/
theorem put_unused_buffer_head_post (s : State) (bh : Nat) (hl : Loose s bh) :
    Post (put_unused_buffer_head bh) False s fun _ s' =>
      s'.b = upd s.b bh { b_wait := (s.b bh).b_wait } ∧ Frame s s' (fun y => y = bh) ∧
        s'.unused_list = bh :: s.unused_list ∧ s'.nr_buffer_heads = s.nr_buffer_heads ∧
        s'.free_list = s.free_list ∧ s'.lru_list = s.lru_list ∧
        s'.hash_table = s.hash_table := by
  intro hI
  unfold put_unused_buffer_head
  rw [modS_run]
  have hfr : Frame s (modS (fun s => { s with b := upd s.b bh { b_wait := (s.b bh).b_wait }, unused_list := bh :: s.unused_list }) s).state
      (fun y => y = bh) := by
    refine ⟨fun x hx => ?_, rfl, le_refl _⟩
    simp only [modS_run, Res.state]
    have hbx : upd s.b bh { b_wait := (s.b bh).b_wait } x = s.b x := upd_other _ _ _ _ hx
    refine ⟨by simp only [hbx], by simp only [hbx], by simp only [hbx], by simp only [hbx],
      by simp only [hbx], fun i => Iff.rfl, fun l => Iff.rfl, fun k => Iff.rfl, ?_⟩
    simp only [List.mem_cons]
    exact ⟨fun h => h.resolve_left hx, Or.inr⟩
  refine ⟨?_, rfl, hfr, rfl, rfl, rfl, rfl, rfl⟩
  refine hfr.inv_fr hI ?_ (List.nodup_cons.mpr ⟨hl.unused, hI.unused_nodup⟩)
  rintro y rfl
  refine HeadOk.of_unused _ y hl.free hl.lru hl.hash ?_ ⟨hl.pos, hl.carved⟩
  show (upd s.b y { b_wait := (s.b y).b_wait } y).b_count = 0
  rw [upd_same]

theorem Post.modS_p {f : State → State} {pre : Prop} {s : State} {Q : Unit → State → Prop}
    (h : Inv s → Inv (f s) ∧ Q () (f s)) : Post (modS f) pre s Q := by
  intro hI
  rw [modS_run]
  exact h hI

theorem mem_new_heads (n i x : Nat) :
    x ∈ (List.range i).map (fun j => n + i - j) ↔ n < x ∧ x ≤ n + i := by
  simp only [List.mem_map, List.mem_range]
  constructor
  · rintro ⟨j, hj, rfl⟩
    omega
  · intro h
    exact ⟨n + i - x, by omega, by omega⟩

theorem nodup_new_heads (n i : Nat) : ((List.range i).map (fun j => n + i - j)).Nodup := by
  refine (List.nodup_range i).map_on ?_
  intro a ha b hb h
  rw [List.mem_range] at ha hb
  omega

theorem CoreEq.refl_ce (v : buffer_head) : CoreEq v v := ⟨rfl, rfl, rfl, rfl, rfl, rfl⟩

theorem CoreEq.trans_ce {a b c : buffer_head} (h : CoreEq a b) (h' : CoreEq b c) : CoreEq a c :=
  ⟨h.1.trans h'.1, h.2.1.trans h'.2.1, h.2.2.1.trans h'.2.2.1, h.2.2.2.1.trans h'.2.2.2.1,
    h.2.2.2.2.1.trans h'.2.2.2.2.1, h.2.2.2.2.2.trans h'.2.2.2.2.2⟩

theorem LooseKept.refl_lk (s : State) : LooseKept s s := fun _ h => ⟨h, CoreEq.refl_ce _, rfl⟩

theorem LooseKept.trans_lk {s s' s'' : State} (h : LooseKept s s') (h' : LooseKept s' s'') :
    LooseKept s s'' := fun x hx =>
  have a := h x hx
  have b := h' x a.1
  ⟨b.1, b.2.1.trans_ce a.2.1, b.2.2.trans a.2.2⟩

theorem SameCore.looseKept {s s' : State} (h : SameCore s s') : LooseKept s s' := fun x hx =>
  ⟨⟨by rw [h.free_list]; exact hx.free, by rw [h.lru_list]; exact hx.lru,
    by rw [h.hash_table]; exact hx.hash, by rw [h.unused_list]; exact hx.unused, hx.pos,
    by rw [h.nr_buffer_heads]; exact hx.carved⟩,
   ⟨h.b_dev x, h.b_blocknr x, h.b_size x, h.b_list x, h.b_data x, h.b_this_page x⟩, h.b_count x⟩

theorem Chain.congr_ch {s s' : State} {size : Nat} (hk : LooseKept s s') {head : Nat}
    {L : List Nat} (h : Chain s size head L) : Chain s' size head L := by
  induction L generalizing head with
  | nil => exact h
  | cons x L ih =>
    obtain ⟨h1, h2, h3, h4, h5, h6, h7⟩ := h
    have a := hk x h2
    refine ⟨h1, a.1, by rw [a.2.1.1]; exact h3, by rw [a.2.2]; exact h4,
      by rw [a.2.1.2.2.1]; exact h5, h6, ?_⟩
    rw [a.2.1.2.2.2.2.2]
    exact ih h7

theorem KeepCnt.refl_kc (s : State) : KeepCnt s s := fun _ => ⟨rfl, fun _ => ⟨rfl, rfl⟩⟩

theorem KeepCnt.trans_kc {s s' s'' : State} (h : KeepCnt s s') (h' : KeepCnt s' s'') :
    KeepCnt s s'' := by
  intro x
  obtain ⟨a, b⟩ := h x
  obtain ⟨a', b'⟩ := h' x
  refine ⟨a'.trans a, fun hx => ?_⟩
  have := b' (by omega)
  exact ⟨this.1.trans (b hx).1, this.2.trans (b hx).2⟩

theorem KeepCnt.keepRef {s s' : State} (h : KeepCnt s s') : KeepRef s s' := fun x hx =>
  ⟨((h x).2 hx).1, ((h x).2 hx).2, le_of_eq (h x).1.symm⟩

theorem SameCore.keepCnt_sc {s s' : State} (h : SameCore s s') : KeepCnt s s' :=
  fun x => ⟨h.b_count x, fun _ => ⟨h.b_dev x, h.b_blocknr x⟩⟩

theorem Stable.keepCnt_st {s s' : State} (h : Stable s s') : KeepCnt s s' :=
  fun x => ⟨h.b_count x, fun _ => ⟨h.b_dev x, h.b_blocknr x⟩⟩

theorem Frame.keepCnt_fr {s s' : State} {S : Nat → Prop} (f : Frame s s' S)
    (hS : ∀ x, S x → (s.b x).b_count = 0 ∧ (s'.b x).b_count = 0) : KeepCnt s s' := by
  intro x
  by_cases hx : S x
  · have := hS x hx
    refine ⟨by rw [this.1, this.2], fun h => ?_⟩
    omega
  · have := f.same x hx
    exact ⟨this.b_count, fun _ => ⟨this.b_dev, this.b_blocknr⟩⟩

/-- Only the head `bh`, which nobody references, is rewritten, and it stays
unreferenced. -/
theorem KeepCnt.of_one {s s' : State} (bh : Nat) (h : ∀ x, x ≠ bh → s'.b x = s.b x)
    (hc : (s.b bh).b_count = 0) (hc' : (s'.b bh).b_count = 0) : KeepCnt s s' := by
  intro x
  by_cases hx : x = bh
  · subst hx
    refine ⟨by rw [hc, hc'], fun h => ?_⟩
    omega
  · rw [h x hx]
    exact ⟨rfl, fun _ => ⟨rfl, rfl⟩⟩

theorem KeepCnt.of_b {s s' : State} (h : s'.b = s.b) : KeepCnt s s' := fun x => by
  rw [h]
  exact ⟨rfl, fun _ => ⟨rfl, rfl⟩⟩

theorem Took.keepRef_tk {s s' : State} {r : Nat} (h : Took s s' r) : KeepRef s s' := fun x hx =>
  ⟨((h x).2 hx).1, ((h x).2 hx).2, by rw [(h x).1]; exact Nat.le_add_right _ _⟩

theorem KeepCnt.took {s s' : State} (h : KeepCnt s s') : Took s s' 0 := fun x =>
  ⟨by rw [(h x).1]; simp, (h x).2⟩

theorem KeepCnt.trans_took {s s' s'' : State} {r : Nat} (h : KeepCnt s s') (h' : Took s' s'' r) :
    Took s s'' r := by
  intro x
  obtain ⟨a, b⟩ := h x
  obtain ⟨a', b'⟩ := h' x
  refine ⟨by rw [a', a], fun hx => ?_⟩
  have := b' (by omega)
  exact ⟨this.1.trans (b hx).1, this.2.trans (b hx).2⟩

theorem Took.trans_keep {s s' s'' : State} {r : Nat} (h : Took s s' r) (h' : KeepCnt s' s'') :
    Took s s'' r := by
  intro x
  obtain ⟨a, b⟩ := h x
  obtain ⟨a', b'⟩ := h' x
  refine ⟨by rw [a', a], fun hx => ?_⟩
  have := b' (by omega)
  exact ⟨this.1.trans (b hx).1, this.2.trans (b hx).2⟩

/-- Carving a fresh page into heads. -/
theorem carve_heads_inv (s : State) (hI : Inv s) (hu0 : s.unused_list = []) (i : Nat)
    (s' : State) (hfree : s'.free_list = s.free_list) (hlru : s'.lru_list = s.lru_list)
    (hhash : s'.hash_table = s.hash_table) (hnh : s'.nr_hash = s.nr_hash)
    (hn : s'.nr_buffer_heads = s.nr_buffer_heads + i)
    (hb : s'.b = fun k =>
      if s.nr_buffer_heads < k ∧ k ≤ s.nr_buffer_heads + i then {} else s.b k)
    (hu : s'.unused_list =
      ((List.range i).map fun j => s.nr_buffer_heads + i - j) ++ s.unused_list) :
    Inv s' ∧ LooseKept s s' ∧ KeepCnt s s' := by
  have hmem : ∀ x, x ∈ s'.unused_list ↔ s.nr_buffer_heads < x ∧ x ≤ s.nr_buffer_heads + i := by
    intro x
    rw [hu, hu0, List.append_nil]
    exact mem_new_heads _ _ _
  have hold : ∀ x, x ≤ s.nr_buffer_heads → s'.b x = s.b x := by
    intro x hx
    rw [hb]
    simp only
    rw [if_neg]
    omega
  have hfr : Frame s s' (fun x => s.nr_buffer_heads < x) := by
    refine ⟨fun x hx => ?_, hnh, by omega⟩
    have hx' : x ≤ s.nr_buffer_heads := by omega
    have hbx := hold x hx'
    refine ⟨by rw [hbx], by rw [hbx], by rw [hbx], by rw [hbx], by rw [hbx],
      fun i => by rw [hfree], fun l => by rw [hlru], fun k => by rw [hhash], ?_⟩
    rw [hmem, hu0]
    constructor
    · intro h
      omega
    · intro h
      exact absurd h (List.not_mem_nil _)
  have hnofree : ∀ x, s.nr_buffer_heads < x → ∀ i, x ∉ s'.free_list i := by
    intro x hx i h
    rw [hfree] at h
    have := hI.carved_free i x h
    omega
  have hnolru : ∀ x, s.nr_buffer_heads < x → ∀ l, x ∉ s'.lru_list l := by
    intro x hx l h
    rw [hlru] at h
    have := hI.carved_lru l x h
    omega
  have hnohash : ∀ x, s.nr_buffer_heads < x → ∀ k, x ∉ s'.hash_table k := by
    intro x hx k h
    rw [hhash] at h
    have := hI.carved_lru _ x (hI.hash_lru k x h).1
    omega
  refine ⟨?_, ?_, ?_⟩
  · refine hfr.inv_fr hI ?_ ?_
    · intro x hx
      by_cases hx2 : x ≤ s.nr_buffer_heads + i
      · refine HeadOk.of_unused s' x (hnofree x hx) (hnolru x hx) (hnohash x hx) ?_
          ⟨by omega, by omega⟩
        rw [hb]
        simp only
        rw [if_pos ⟨hx, hx2⟩]
      · refine HeadOk.of_nowhere s' x (hnofree x hx) (hnolru x hx) (hnohash x hx) ?_ ?_
        · rw [hmem]
          omega
        · intro _
          rw [hb]
          simp only
          rw [if_neg (by omega)]
          exact hI.fresh_count x hx
    · rw [hu, hu0, List.append_nil]
      exact nodup_new_heads _ _
  · intro x hx
    have hbx := hold x hx.carved
    refine ⟨⟨by rw [hfree]; exact hx.free, by rw [hlru]; exact hx.lru,
      by rw [hhash]; exact hx.hash, ?_, hx.pos, by have := hx.carved; omega⟩, ?_, by rw [hbx]⟩
    · rw [hmem]
      have := hx.carved
      omega
    · rw [hbx]
      exact CoreEq.refl_ce _
  · refine hfr.keepCnt_fr fun x hx => ⟨hI.fresh_count x hx, ?_⟩
    rw [hb]
    simp only
    split_ifs
    · rfl
    · exact hI.fresh_count x hx

theorem get_more_buffer_heads_post (s : State) :
    Post get_more_buffer_heads False s fun _ s' => LooseKept s s' ∧ KeepCnt s s' := by
  unfold get_more_buffer_heads
  refine Post.getS_bind_p ?_
  refine Post.ite_p (fun _ => Post.pure_p ⟨LooseKept.refl_lk s, KeepCnt.refl_kc s⟩) fun hu => ?_
  have hu0 : s.unused_list = [] := by
    by_contra h
    exact hu h
  refine Post.bind_p (R := fun _ s0 => SameCore s s0)
    (Post.of_quiet_p (quiet_get_free_page _) fun _ _ h => h) ?_
  intro bh s0 _ hI0 hs0
  refine Post.ite_p (fun _ => Post.pure_p ⟨hs0.looseKept, hs0.keepCnt_sc⟩) fun _ => ?_
  refine Post.modS_p fun _ => ?_
  have hu1 : s0.unused_list = [] := by rw [hs0.unused_list]; exact hu0
  dsimp only
  refine ⟨And.left (carve_heads_inv s0 hI0 hu1 _ _ rfl rfl rfl rfl rfl rfl rfl),
    hs0.looseKept.trans_lk
      (And.left (And.right (carve_heads_inv s0 hI0 hu1 _ _ rfl rfl rfl rfl rfl rfl rfl))),
    hs0.keepCnt_sc.trans_kc
      (And.right (And.right (carve_heads_inv s0 hI0 hu1 _ _ rfl rfl rfl rfl rfl rfl rfl)))⟩

theorem get_unused_buffer_head_post (s : State) :
    Post get_unused_buffer_head False s fun bh s' =>
      LooseKept s s' ∧ KeepCnt s s' ∧
        (bh ≠ 0 → Loose s' bh ∧ (s'.b bh).b_count = 0 ∧ ¬ Loose s bh) := by
  unfold get_unused_buffer_head
  refine Post.bind_p (get_more_buffer_heads_post s) ?_
  intro _ s1 _ hI1 h1
  refine Post.getS_bind_p ?_
  split
  · exact Post.pure_p ⟨h1.1, h1.2, fun h => absurd rfl h⟩
  · rename_i bh rest hl
    have hm : bh ∈ s1.unused_list := by rw [hl]; exact List.mem_cons_self _ _
    have hnd : bh ∉ rest := by
      have := hI1.unused_nodup
      rw [hl] at this
      exact (List.nodup_cons.mp this).1
    have hcar := hI1.carved_unused bh hm
    intro _
    simp only [bind_run, modS_run, pure_run]
    have hfr : Frame s1 (modS (fun s => { s with unused_list := rest, b := upd s.b bh { (s1.b bh) with b_data := 0, b_size := 0, b_req := false } }) s1).state
        (fun y => y = bh) := by
      refine ⟨fun x hx => ?_, rfl, le_refl _⟩
      simp only [modS_run, Res.state]
      have hbx : upd s1.b bh { (s1.b bh) with b_data := 0, b_size := 0, b_req := false } x
          = s1.b x := upd_other _ _ _ _ hx
      refine ⟨by simp only [hbx], by simp only [hbx], by simp only [hbx], by simp only [hbx],
        by simp only [hbx], fun i => Iff.rfl, fun l => Iff.rfl, fun k => Iff.rfl, ?_⟩
      rw [hl]
      simp only [List.mem_cons]
      exact ⟨Or.inr, fun h => h.resolve_left hx⟩
    have hloose : Loose (modS (fun s => { s with unused_list := rest, b := upd s.b bh { (s1.b bh) with b_data := 0, b_size := 0, b_req := false } }) s1).state bh :=
      ⟨hI1.unused_free bh hm, hI1.unused_lru bh hm,
        fun k h => hI1.unused_lru bh hm _ (hI1.hash_lru k bh h).1, hnd, hcar.1, hcar.2⟩
    have hnl : ¬ Loose s1 bh := fun h => h.unused hm
    refine ⟨?_, ?_, ?_, ?_⟩
    · refine hfr.inv_fr hI1 ?_ ?_
      · rintro y rfl
        exact hloose.headOk
      · have := hI1.unused_nodup
        rw [hl] at this
        exact (List.nodup_cons.mp this).2
    · refine h1.1.trans_lk fun x hx => ?_
      have hxb : x ≠ bh := fun e => hnl (e ▸ hx)
      have hbx : upd s1.b bh { (s1.b bh) with b_data := 0, b_size := 0, b_req := false } x
          = s1.b x := upd_other _ _ _ _ hxb
      refine ⟨⟨hx.free, hx.lru, hx.hash, ?_, hx.pos, hx.carved⟩, ?_, ?_⟩
      · intro h
        apply hx.unused
        rw [hl]
        exact List.mem_cons_of_mem _ h
      · show CoreEq (upd s1.b bh _ x) _
        rw [hbx]
        exact CoreEq.refl_ce _
      · show (upd s1.b bh _ x).b_count = _
        rw [hbx]
    · refine h1.2.trans_kc (hfr.keepCnt_fr ?_)
      rintro y rfl
      refine ⟨hI1.unused_count y hm, ?_⟩
      show (upd s1.b y _ y).b_count = 0
      rw [upd_same]
      exact hI1.unused_count y hm
    · intro _
      refine ⟨hloose, ?_, fun h => hnl (h1.1 bh h).1⟩
      show (upd s1.b bh _ bh).b_count = 0
      rw [upd_same]
      exact hI1.unused_count bh hm

/-- A head is rewritten: what follows runs from a state that differs in that head
only. -/
theorem Post.setB_head {β : Type} {bh : Nat} {f : buffer_head → buffer_head} {k : Unit → K β}
    {pre : Prop} {s : State} {Q : β → State → Prop}
    (h : ∀ s', SetHead s s' bh (f (s.b bh)) → Inv s → Inv s' ∧ Post (k ()) pre s' Q) :
    Post (setB bh f >>= k) pre s Q := by
  intro hI
  rw [bind_run, setB_run]
  have := h _ (setHead_setB s bh f) hI
  exact this.2 this.1

theorem Chain.loose {s : State} {size head : Nat} {L : List Nat} (h : Chain s size head L) :
    ∀ y ∈ L, Loose s y := by
  induction L generalizing head with
  | nil => exact fun y hy => absurd hy (List.not_mem_nil _)
  | cons x L ih =>
    obtain ⟨_, h2, _, _, _, _, h7⟩ := h
    intro y hy
    rcases List.mem_cons.mp hy with rfl | hy
    · exact h2
    · exact ih h7 y hy

theorem Chain.congr_on {s s' : State} {size head : Nat} {L : List Nat}
    (hk : ∀ y ∈ L, Loose s y →
      Loose s' y ∧ CoreEq (s'.b y) (s.b y) ∧ (s'.b y).b_count = (s.b y).b_count)
    (h : Chain s size head L) : Chain s' size head L := by
  induction L generalizing head with
  | nil => exact h
  | cons x L ih =>
    obtain ⟨h1, h2, h3, h4, h5, h6, h7⟩ := h
    have a := hk x (List.mem_cons_self _ _) h2
    refine ⟨h1, a.1, by rw [a.2.1.1]; exact h3, by rw [a.2.2]; exact h4,
      by rw [a.2.1.2.2.1]; exact h5, h6, ?_⟩
    rw [a.2.1.2.2.2.2.2]
    exact ih (fun y hy => hk y (List.mem_cons_of_mem _ hy)) h7

theorem create_buffers_no_grow_post (size : Nat) (fuel : Nat) (s : State) (bh : Nat)
    (L : List Nat) (hc : Chain s size bh L) :
    Post (create_buffers_no_grow fuel bh) False s fun _ s' => KeepCnt s s' := by
  induction fuel generalizing s bh L with
  | zero => exact Post.khang_p
  | succ fuel ih =>
    unfold create_buffers_no_grow
    cases L with
    | nil =>
      have h0 : bh = 0 := hc
      rw [if_pos h0]
      exact Post.pure_p (KeepCnt.refl_kc s)
    | cons x L =>
      obtain ⟨h1, h2, h3, h4, h5, h6, h7⟩ := hc
      subst h1
      have h0 : bh ≠ 0 := by
        have := h2.pos
        omega
      rw [if_neg h0]
      refine Post.getS_bind_p ?_
      refine Post.bind_p (put_unused_buffer_head_post s bh h2) ?_
      intro _ s1 _ hI1 hq
      obtain ⟨hb, hfr, hu, hn, hfl, hlr, hh⟩ := hq
      have hc1 : Chain s1 size (s.b bh).b_this_page L := by
        refine Chain.congr_on (fun y hy hl => ?_) h7
        have hyb : y ≠ bh := fun e => h6 (e ▸ hy)
        have hby : s1.b y = s.b y := by rw [hb, upd_other _ _ _ _ hyb]
        refine ⟨⟨by rw [hfl]; exact hl.free, by rw [hlr]; exact hl.lru,
          by rw [hh]; exact hl.hash, ?_, hl.pos, by rw [hn]; exact hl.carved⟩, ?_, by rw [hby]⟩
        · rw [hu]
          simp only [List.mem_cons, not_or]
          exact ⟨hyb, hl.unused⟩
        · rw [hby]
          exact CoreEq.refl_ce _
      have hk1 : KeepCnt s s1 := hfr.keepCnt_fr (by rintro y rfl; exact ⟨h4, by rw [hb, upd_same]⟩)
      exact Post.mono_p (ih s1 _ L hc1) fun _ _ _ h => hk1.trans_kc h

theorem create_buffers_loop_post (page size : Nat) (fuel : Nat) (s : State) (offset head : Nat)
    (L : List Nat) (hc : Chain s size head L) :
    Post (create_buffers_loop page size fuel offset head) False s fun r s' =>
      KeepCnt s s' ∧ ∃ L', Chain s' size r L' := by
  induction fuel generalizing s offset head L with
  | zero => exact Post.khang_p
  | succ fuel ih =>
    unfold create_buffers_loop
    refine Post.ite_p (fun _ => ?_) fun _ => Post.pure_p ⟨KeepCnt.refl_kc s, L, hc⟩
    refine Post.bind_p (get_unused_buffer_head_post s) ?_
    intro bh s1 _ hI1 hq
    obtain ⟨hlk, hkr, hbh⟩ := hq
    have hc1 : Chain s1 size head L := Chain.congr_on (fun y _ hl => hlk y hl) hc
    refine Post.ite_p (fun _ => ?_) fun h0 => ?_
    · refine Post.bind_p (create_buffers_no_grow_post size _ s1 head L hc1) ?_
      intro _ s2 _ hI2 hk2
      exact Post.pure_p ⟨hkr.trans_kc hk2, [], rfl⟩
    · obtain ⟨hl1, hcnt, hnl⟩ := hbh h0
      refine Post.setB_head fun s2 f _ => ?_
      have r := hl1.setHead_lo hI1 f
      refine ⟨r.1, ?_⟩
      have hnotin : bh ∉ L := fun hm => hnl (hc.loose bh hm)
      have hc2 : Chain s2 size bh (bh :: L) := by
        refine ⟨rfl, r.2, by rw [f.self], by rw [f.self]; exact hcnt, by rw [f.self], hnotin, ?_⟩
        rw [f.self]
        refine Chain.congr_on (fun y hy hl => ?_) hc1
        have hyb : y ≠ bh := fun e => hnotin (e ▸ hy)
        have hby := f.other y hyb
        refine ⟨⟨by rw [f.free_list]; exact hl.free, by rw [f.lru_list]; exact hl.lru,
          by rw [f.hash_table]; exact hl.hash, by rw [f.unused_list]; exact hl.unused, hl.pos,
          by rw [f.nr_buffer_heads]; exact hl.carved⟩, ?_, by rw [hby]⟩
        rw [hby]
        exact CoreEq.refl_ce _
      have hk2 : KeepCnt s1 s2 := (Frame.of_setHead f).keepCnt_fr (by rintro y rfl; exact ⟨hcnt, by rw [f.self]; exact hcnt⟩)
      exact Post.mono_p (ih s2 _ bh (bh :: L) hc2) fun _ _ _ h =>
        ⟨(hkr.trans_kc hk2).trans_kc h.1, h.2⟩

theorem create_buffers_post (fuel page size : Nat) (s : State) :
    Post (create_buffers fuel page size) False s fun r s' =>
      KeepCnt s s' ∧ ∃ L', Chain s' size r L' :=
  create_buffers_loop_post page size fuel s PAGE_SIZE 0 [] rfl

theorem Post.modS_head {β : Type} {f : State → State} {k : Unit → K β}
    {pre : Prop} {s : State} {Q : β → State → Prop}
    (h : ∀ s', s' = f s → Inv s → Inv s' ∧ Post (k ()) pre s' Q) :
    Post (modS f >>= k) pre s Q := by
  intro hI
  rw [bind_run, modS_run]
  have := h _ rfl hI
  exact this.2 this.1

theorem and_511 (size : Nat) (h : size &&& 511 = 0) : size % 512 = 0 := by
  have := Nat.and_pow_two_sub_one_eq_mod size 9
  norm_num at this
  omega

/-- One step of the linking loop of `grow_buffers`: the first head of the chain goes
on the free list. -/
theorem grow_link_inv (s s' : State) (hI : Inv s) {size x : Nat} {L : List Nat}
    (hc : Chain s size x (x :: L)) {isize : Int} (hisz : isize = BUFSIZE_INDEX size)
    (ha : size % 512 = 0) {ip : Nat} (hip : ip = 0 → s.free_list isize = [])
    (hb : s'.b = s.b) (hlru : s'.lru_list = s.lru_list) (hhash : s'.hash_table = s.hash_table)
    (hun : s'.unused_list = s.unused_list) (hnh : s'.nr_hash = s.nr_hash)
    (hn : s'.nr_buffer_heads = s.nr_buffer_heads)
    (hfl : s'.free_list = upd s.free_list isize
      (if ip ≠ 0 then ring_insert_after (s.free_list isize) ip x else [x])) :
    Inv s' ∧ Chain s' size (s.b x).b_this_page L := by
  obtain ⟨_, h2, h3, h4, h5, h6, h7⟩ := hc
  have hfree : ∀ i y, y ∈ s'.free_list i ↔ y ∈ s.free_list i ∨ (y = x ∧ i = isize) := by
    intro i y
    rw [hfl]
    simp only [upd_apply]
    split_ifs with h1 h0
    · subst h1
      rw [mem_ring_insert_after]
      simp only [and_true]
    · subst h1
      have : ip = 0 := by
        by_contra h
        exact h0 h
      rw [hip this]
      simp only [List.mem_singleton, List.not_mem_nil, false_or, and_true]
    · simp only [h1, and_false, or_false]
  have hfr : Frame s s' (fun y => y = x) := by
    refine ⟨fun y hy => ⟨by rw [hb], by rw [hb], by rw [hb], by rw [hb], by rw [hb],
      fun i => ?_, fun l => by rw [hlru], fun k => by rw [hhash], by rw [hun]⟩, hnh,
      le_of_eq hn.symm⟩
    rw [hfree]
    exact ⟨fun h => h.resolve_right fun h' => hy h'.1, Or.inl⟩
  refine ⟨?_, ?_⟩
  · refine hfr.inv_fr hI ?_ (by rw [hun]; exact hI.unused_nodup)
    rintro y rfl
    refine HeadOk.of_free s' y ?_ (by rw [hlru]; exact h2.lru) (by rw [hhash]; exact h2.hash)
      (by rw [hun]; exact h2.unused) (by rw [hb]; exact h3) (by rw [hb]; exact h4)
      (by rw [hb, h5]; exact ha) ⟨h2.pos, by rw [hn]; exact h2.carved⟩
    intro i hi
    rw [hb, h5, ← hisz]
    rcases (hfree i y).mp hi with h | ⟨_, h⟩
    · exact absurd h (h2.free i)
    · exact h
  · refine Chain.congr_on (fun y hy hl => ?_) h7
    have hyx : y ≠ x := fun e => h6 (e ▸ hy)
    refine ⟨⟨fun i h => ?_, by rw [hlru]; exact hl.lru, by rw [hhash]; exact hl.hash,
      by rw [hun]; exact hl.unused, hl.pos, by rw [hn]; exact hl.carved⟩, ?_, by rw [hb]⟩
    · rcases (hfree i y).mp h with h | ⟨h, _⟩
      · exact hl.free i h
      · exact hyx h
    · rw [hb]
      exact CoreEq.refl_ce _

theorem grow_buffers_loop_post (size : Nat) (isize : Int) (hisz : isize = BUFSIZE_INDEX size)
    (ha : size % 512 = 0) (fuel : Nat) (s : State) (tmp ip : Nat) (L : List Nat)
    (hc : Chain s size tmp (tmp :: L)) (hip : ip = 0 → s.free_list isize = []) :
    Post (grow_buffers_loop isize fuel tmp ip) False s fun _ s' =>
      s'.b = s.b ∧ s'.unused_list = s.unused_list ∧ s'.nr_hash = s.nr_hash ∧
        s'.nr_buffer_heads = s.nr_buffer_heads := by
  induction fuel generalizing s tmp ip L with
  | zero => exact Post.khang_p
  | succ fuel ih =>
    unfold grow_buffers_loop
    refine Post.modS_head fun s1 e hI => ?_
    have r := grow_link_inv s s1 hI hc hisz ha hip (by rw [e]) (by rw [e]) (by rw [e])
      (by rw [e]) (by rw [e]) (by rw [e]) (by rw [e])
    refine ⟨r.1, ?_⟩
    have hb1 : s1.b = s.b := by rw [e]
    have hu1 : s1.unused_list = s.unused_list := by rw [e]
    have hnh1 : s1.nr_hash = s.nr_hash := by rw [e]
    have hn1 : s1.nr_buffer_heads = s.nr_buffer_heads := by rw [e]
    refine Post.getS_bind_p ?_
    refine Post.ite_p (fun hnz => ?_) fun _ => Post.pure_p ⟨hb1, hu1, hnh1, hn1⟩
    rw [hb1] at hnz ⊢
    cases L with
    | nil => exact absurd r.2 hnz
    | cons x L =>
      have hx : (s.b tmp).b_this_page = x := r.2.1
      rw [hx] at r ⊢
      have htmp : tmp ≠ 0 := by
        have := hc.2.1.pos
        omega
      exact Post.mono_p (ih s1 x tmp L r.2 fun h => absurd h htmp) fun _ _ _ h =>
        ⟨h.1.trans hb1, h.2.1.trans hu1, h.2.2.1.trans hnh1, h.2.2.2.trans hn1⟩

/-- The last step of `grow_buffers`: the page ring is closed and the free list starts
at the new page. -/
theorem grow_close_inv (s s' : State) (hI : Inv s) (isize : Int) (bh tmp : Nat)
    (hb : s'.b = upd s.b tmp { (s.b tmp) with b_this_page := bh })
    (hlru : s'.lru_list = s.lru_list) (hhash : s'.hash_table = s.hash_table)
    (hun : s'.unused_list = s.unused_list) (hnh : s'.nr_hash = s.nr_hash)
    (hn : s'.nr_buffer_heads = s.nr_buffer_heads)
    (hfl : s'.free_list = upd s.free_list isize (ring_set_head (s.free_list isize) bh)) :
    Inv s' ∧ KeepCnt s s' := by
  have hfield : ∀ y, (s'.b y).b_dev = (s.b y).b_dev ∧ (s'.b y).b_blocknr = (s.b y).b_blocknr ∧
      (s'.b y).b_size = (s.b y).b_size ∧ (s'.b y).b_count = (s.b y).b_count ∧
      (s'.b y).b_list = (s.b y).b_list := by
    intro y
    rw [hb]
    by_cases hy : y = tmp
    · subst hy
      rw [upd_same]
      exact ⟨rfl, rfl, rfl, rfl, rfl⟩
    · rw [upd_other _ _ _ _ hy]
      exact ⟨rfl, rfl, rfl, rfl, rfl⟩
  have hfr : Frame s s' (fun _ => False) := by
    refine ⟨fun y _ => ⟨(hfield y).1, (hfield y).2.1, (hfield y).2.2.1, (hfield y).2.2.2.1,
      (hfield y).2.2.2.2, fun i => ?_, fun l => by rw [hlru], fun k => by rw [hhash],
      by rw [hun]⟩, hnh, le_of_eq hn.symm⟩
    rw [hfl]
    simp only [upd_apply]
    split_ifs with h1
    · subst h1
      exact mem_ring_set_head _ _ _
    · exact Iff.rfl
  exact ⟨hfr.inv_fr hI (fun _ h => h.elim) (by rw [hun]; exact hI.unused_nodup),
    hfr.keepCnt_fr fun _ h => h.elim⟩

theorem grow_buffers_post (fuel : Nat) (pri : Gfp) (size : Nat) (s : State) :
    Post (grow_buffers fuel pri size) False s fun _ s' => KeepCnt s s' := by
  unfold grow_buffers
  refine Post.ite_p (fun _ => ?_) fun hsz => ?_
  · exact Post.of_quiet_p (Quiet.bind_q (quiet_printk _) fun _ => Quiet.pure_q _)
      fun _ _ h => h.keepCnt_sc
  have ha : size % 512 = 0 := by
    apply and_511
    by_contra h
    exact hsz (Or.inl h)
  dsimp only
  refine Post.bind_p (R := fun _ s0 => SameCore s s0)
    (Post.of_quiet_p (quiet_get_free_page _) fun _ _ h => h) ?_
  intro page s0 _ hI0 hs0
  refine Post.ite_p (fun _ => Post.pure_p hs0.keepCnt_sc) fun _ => ?_
  refine Post.bind_p (create_buffers_post fuel page size s0) ?_
  intro bh s1 _ hI1 hq
  obtain ⟨hk1, L, hc⟩ := hq
  have hk01 : KeepCnt s s1 := hs0.keepCnt_sc.trans_kc hk1
  refine Post.ite_p (fun _ => ?_) fun h0 => ?_
  · exact Post.of_quiet_p (Quiet.bind_q (quiet_free_page _) fun _ => Quiet.pure_q _)
      fun _ _ h => hk01.trans_kc h.keepCnt_sc
  refine Post.getS_bind_p ?_
  cases L with
  | nil => exact absurd hc h0
  | cons x L =>
    have hx : bh = x := hc.1
    subst hx
    have hip : (s1.free_list (BUFSIZE_INDEX size)).headD 0 = 0 →
        s1.free_list (BUFSIZE_INDEX size) = [] := by
      intro h
      cases hl : s1.free_list (BUFSIZE_INDEX size) with
      | nil => rfl
      | cons a t =>
        rw [hl] at h
        have := hI1.carved_free _ a (by rw [hl]; exact List.mem_cons_self _ _)
        simp only [List.headD_cons] at h
        omega
    refine Post.bind_p (grow_buffers_loop_post size _ rfl ha fuel s1 bh _ L hc hip) ?_
    intro tmp s2 _ hI2 hq2
    have hk12 : KeepCnt s1 s2 := KeepCnt.of_b hq2.1
    refine Post.modS_head fun s3 e _ => ?_
    have r := grow_close_inv s2 s3 hI2 (BUFSIZE_INDEX size) bh tmp (by rw [e]) (by rw [e])
      (by rw [e]) (by rw [e]) (by rw [e]) (by rw [e]) (by rw [e])
    exact ⟨r.1, Post.pure_p ((hk01.trans_kc hk12).trans_kc r.2)⟩

/-- After the first loop of `try_to_free` has found the page idle, nobody references
a buffer of the ring. -/
theorem idle_ring (s : State) (bh fuel : Nat) (h : try_to_free_idle s bh fuel bh = some true) :
    ∀ k, (s.b (sibling s bh k)).b_count = 0 := by
  obtain ⟨n, h1, _, h3, h4⟩ := try_to_free_idle_true s bh fuel 0 h
  intro k
  rw [sibling_mod s bh n h3 k]
  have := h4 (k % n) (Nat.zero_le _) (Nat.mod_lt _ h1)
  unfold try_to_free_busy at this
  simp only [Bool.or_eq_false_iff, bne_eq_false_iff_eq] at this
  exact this.1.1.1

theorem Same1.linked_s1 {s s' : State} {x : Nat} (h : Same1 s s' x) :
    Linked s' x ↔ Linked s x := by
  unfold Linked
  rw [h.b_list, h.lru]

/-- The ring predecessor of a linked head is linked. -/
theorem prev_ok {s : State} (hI : Inv s) {bh : Nat} (hp : Linked s bh) :
    Linked s (b_prev_free s bh) := by
  have hd := hI.lru_dev _ _ hp
  unfold b_prev_free
  rw [ring_of_lru s bh hd]
  have := ring_prev_mem _ _ hp
  unfold Linked
  rw [hI.lru_list _ _ this]
  exact this

theorem try_to_free_loop_post (s0 : State) (isize : Int) (bh : Nat)
    (hidle : ∀ k, (s0.b (sibling s0 bh k)).b_count = 0) (fuel : Nat) (s : State)
    (tmp bhp : Nat) (hJ : ∀ x, s.b x = s0.b x ∨ x ∈ s.unused_list)
    (htmp : ∃ k, tmp = sibling s0 bh k) (P : Prop) (hbhp : P → bhp = 0 ∨ Linked s bhp) :
    Post (try_to_free_loop isize bh fuel tmp bhp) False s fun r s' =>
      KeepCnt s s' ∧ (P → r = 0 ∨ Linked s' r) := by
  induction fuel generalizing s tmp bhp with
  | zero => exact Post.khang_p
  | succ fuel ih =>
    unfold try_to_free_loop
    refine Post.getS_bind_p ?_
    dsimp only
    refine Post.modS_head fun s1 e hI => ?_
    have hb1 : s1.b = s.b := by rw [e]
    have hu1 : s1.unused_list = s.unused_list := by rw [e]
    have hc1 : SameCore s s1 := sameCore_other s s1 (by rw [e]) (by rw [e]) (by rw [e])
      (by rw [e]) (by rw [e]) (by rw [e]) (by rw [e]) hb1
    have hI1 : Inv s1 := hc1.inv_sc hI
    refine ⟨hI1, ?_⟩
    refine Post.bind_p (remove_from_queues_post s1 tmp) ?_
    intro _ s2 _ hI2 hq
    obtain ⟨hb2, hl2, hfr2, hu2, hn2, hwas⟩ := hq
    have hnu : tmp ∉ s.unused_list := by
      rw [← hu1]
      rcases hwas with h | ⟨i, h⟩
      · exact (hI1.linked_detached h).2
      · exact fun hu => hI1.unused_free _ hu i h
    have hsame : s.b tmp = s0.b tmp := (hJ tmp).resolve_right hnu
    obtain ⟨k, hk⟩ := htmp
    have hcnt : (s.b tmp).b_count = 0 := by rw [hsame, hk]; exact hidle k
    have hnext : (s.b tmp).b_this_page = sibling s0 bh (k + 1) := by
      rw [hsame, hk]
      rfl
    refine Post.bind_p (put_unused_buffer_head_post s2 tmp hl2) ?_
    intro _ s3 _ hI3 hq3
    obtain ⟨hb3, hfr3, hu3, hn3, _, _, _⟩ := hq3
    have hk3 : KeepCnt s s3 :=
      KeepCnt.of_one tmp (fun x hx => by rw [hb3, upd_other _ _ _ _ hx, hb2, hb1]) hcnt
        (by rw [hb3, upd_same])
    have hlk : ∀ x, x ≠ tmp → Linked s x → Linked s3 x := fun x hx h =>
      (hfr3.same x hx).linked_s1.mpr ((hfr2.same x hx).linked_s1.mpr ((hc1.linked x).mpr h))
    have hbhp3 : P → (if tmp = bhp then (if tmp = b_prev_free s tmp then 0 else
        b_prev_free s tmp) else bhp) = 0 ∨ Linked s3 (if tmp = bhp then
          (if tmp = b_prev_free s tmp then 0 else b_prev_free s tmp) else bhp) := by
      intro hP
      have hbhp := hbhp hP
      by_cases h1 : tmp = bhp
      · rw [if_pos h1]
        by_cases h2 : tmp = b_prev_free s tmp
        · rw [if_pos h2]
          exact Or.inl rfl
        · rw [if_neg h2]
          rcases hbhp with h0 | hl
          · exfalso
            have hz := hI1.zero_nowhere
            rw [← h1] at h0
            rcases hwas with h | ⟨i, h⟩
            · rw [h0] at h
              exact hz.2.1 _ h
            · rw [h0] at h
              exact hz.1 _ h
          · right
            rw [← h1] at hl
            exact hlk _ (fun e => h2 e.symm) (prev_ok hI hl)
      · rw [if_neg h1]
        exact hbhp.imp_right fun hl => hlk _ (fun e => h1 e.symm) hl
    refine Post.ite_p (fun _ => ?_) fun _ => Post.pure_p ⟨hk3, hbhp3⟩
    refine Post.mono_p (ih s3 _ _ ?_ ⟨k + 1, hnext⟩ hbhp3) fun _ _ _ h =>
      ⟨hk3.trans_kc h.1, h.2⟩
    intro x
    by_cases hx : x = tmp
    · right
      rw [hu3, hx]
      exact List.mem_cons_self _ _
    · rcases hJ x with h | h
      · left
        rw [hb3, upd_other _ _ _ _ hx, hb2, hb1]
        exact h
      · right
        rw [hu3, hu2, hu1]
        exact List.mem_cons_of_mem _ h

theorem try_to_free_post (fuel bh : Nat) (s : State) :
    Post (try_to_free fuel bh) False s fun r s' =>
      KeepCnt s s' ∧ ((bh = 0 ∨ Linked s bh) → (r.2 = 0 ∨ Linked s' r.2)) := by
  unfold try_to_free
  refine Post.getS_bind_p ?_
  dsimp only
  split
  · exact Post.khang_p
  · exact Post.pure_p ⟨KeepCnt.refl_kc s, fun h => h⟩
  · rename_i hid
    refine Post.bind_p (try_to_free_loop_post s _ bh (idle_ring s bh fuel hid) fuel s bh bh
      (fun _ => Or.inl rfl) ⟨0, rfl⟩ (bh = 0 ∨ Linked s bh) fun h => h) ?_
    intro bhp s1 _ hI1 hk1
    refine Post.modS_head fun s2 e _ => ?_
    have hc : SameCore s1 s2 := sameCore_other s1 s2 (by rw [e]) (by rw [e]) (by rw [e])
      (by rw [e]) (by rw [e]) (by rw [e]) (by rw [e]) (by rw [e])
    refine ⟨hc.inv_sc hI1, ?_⟩
    refine Post.bind_p (R := fun _ s3 => SameCore s2 s3)
      (Post.of_quiet_p (quiet_free_page _) fun _ _ h => h) ?_
    intro _ s3 _ hI3 hs3
    refine Post.getS_bind_p ?_
    exact Post.pure_p ⟨(hk1.1.trans_kc hc.keepCnt_sc).trans_kc hs3.keepCnt_sc, fun hP =>
      (hk1.2 hP).imp_right fun h => (hs3.linked _).mpr ((hc.linked _).mpr h)⟩

theorem shrink_free_scan_post (isize : Int) (fuel : Nat) ( first : Bool) (bh : Nat) (s : State) :
    Post (shrink_free_scan isize fuel first bh) False s fun _ s' => KeepCnt s s' := by
  induction fuel generalizing first bh s with
  | zero => exact Post.khang_p
  | succ fuel ih =>
    unfold shrink_free_scan
    refine Post.getS_bind_p ?_
    refine Post.ite_p (fun _ => Post.pure_p (KeepCnt.refl_kc s)) fun _ => ?_
    refine Post.ite_p (fun _ => ih _ _ s) fun _ => ?_
    refine Post.bind_p (try_to_free_post fuel bh s) ?_
    intro r s1 _ hI1 hk1
    refine Post.ite_p (fun _ => Post.pure_p hk1.1) fun _ => ?_
    refine Post.ite_p (fun _ => Post.pure_p hk1.1) fun _ => ?_
    refine Post.getS_bind_p ?_
    exact Post.mono_p (ih _ _ s1) fun _ _ _ h => hk1.1.trans_kc h

theorem shrink_free_lists_post (fuel : Nat) (isize1 : Int) (l : List Int) (s : State) :
    Post (shrink_free_lists fuel isize1 l) False s fun _ s' => KeepCnt s s' := by
  induction l generalizing s with
  | nil => exact Post.pure_p (KeepCnt.refl_kc s)
  | cons isize rest ih =>
    unfold shrink_free_lists
    refine Post.getS_bind_p ?_
    refine Post.ite_p (fun _ => ih s) fun _ => ?_
    split
    · exact ih s
    · refine Post.bind_p (shrink_free_scan_post _ _ _ _ s) ?_
      intro r s1 _ hI1 hk1
      refine Post.ite_p (fun _ => Post.pure_p hk1) fun _ => ?_
      exact Post.mono_p (ih s1) fun _ _ _ h => hk1.trans_kc h

theorem shrink_lru_scan_post (fuel priority size : Nat) (nlist : BufList) (i bh : Nat)
    (s : State) (hp : bh = 0 ∨ Linked s bh) :
    Post (shrink_lru_scan fuel priority size nlist i bh) False s fun _ s' => KeepCnt s s' := by
  induction i generalizing bh s with
  | zero => exact Post.pure_p (KeepCnt.refl_kc s)
  | succ i ih =>
    refine Post.inv_p fun hI => ?_
    have hnext := next_ok hI hp
    unfold shrink_lru_scan
    refine Post.getS_bind_p ?_
    refine Post.ite_p (fun _ => Post.pure_p (KeepCnt.refl_kc s)) fun _ => ?_
    refine Post.ite_p (fun _ => ih _ s hnext) fun _ => ?_
    refine Post.ite_p (fun _ => ih _ s hnext) fun _ => ?_
    refine Post.ite_p (fun _ => ih _ s hnext) fun _ => ?_
    dsimp only
    rw [ite_bind_jp]
    refine Post.bind_p (R := fun _ s1 => SameCore s s1)
      (Post.of_quiet_p (Quiet.ite_q (quiet_wait_on_buffer _) (Quiet.pure_q _)) fun _ _ h => h) ?_
    intro _ s1 _ hI1 hs1
    have hp1 : bh = 0 ∨ Linked s1 bh := hp.imp_right (hs1.linked _).mpr
    refine Post.getS_bind_p ?_
    refine Post.ite_p (fun _ => ?_) fun _ => ?_
    · refine Post.setB_head fun s2 f2 _ => ?_
      have p2 := pin_inv hI1 hp1 f2 ⟨rfl, rfl, rfl, rfl, rfl, rfl⟩
      refine ⟨p2.1, ?_⟩
      refine Post.bind_p ((ll_rw_block_good (refile_buffer fuel) (refile_buffer_good fuel) fuel
        .WRITEA [bh] s2).weaken_p False.elim) ?_
      intro _ s3 _ hI3 hs3
      have hp3 : bh = 0 ∨ Linked s3 bh :=
        hp1.imp_right fun h => (hs3.linked _).mpr ((p2.2 _).mpr h)
      refine Post.setB_head fun s4 f4 _ => ?_
      have p4 := pin_inv hI3 hp3 f4 ⟨rfl, rfl, rfl, rfl, rfl, rfl⟩
      refine ⟨p4.1, ?_⟩
      have hs4 : Stable s1 s4 := pin_unpin_stable f2 ⟨rfl, rfl, rfl, rfl, rfl, rfl⟩ rfl hs3 f4
        ⟨rfl, rfl, rfl, rfl, rfl, rfl⟩ rfl
      have hk4 : KeepCnt s s4 := hs1.keepCnt_sc.trans_kc hs4.keepCnt_st
      refine Post.getS_bind_p ?_
      exact Post.mono_p (ih _ s4 (next_ok p4.1 (hp1.imp_right (hs4.linked _).mpr)))
        fun _ _ _ h => hk4.trans_kc h
    · refine Post.bind_p (try_to_free_post fuel bh s1) ?_
      intro r s2 _ hI2 hk2
      have hk : KeepCnt s s2 := hs1.keepCnt_sc.trans_kc hk2.1
      refine Post.ite_p (fun _ => Post.pure_p hk) fun _ => ?_
      refine Post.ite_p (fun _ => Post.pure_p hk) fun _ => ?_
      refine Post.getS_bind_p ?_
      exact Post.mono_p (ih _ s2 (next_ok hI2 (hk2.2 hp1))) fun _ _ _ h => hk.trans_kc h

theorem shrink_lru_list_post (fuel0 priority size : Nat) (nlist : BufList) (fuel : Nat)
    (s : State) :
    Post (shrink_lru_list fuel0 priority size nlist fuel) False s fun _ s' => KeepCnt s s' := by
  induction fuel generalizing s with
  | zero => exact Post.khang_p
  | succ fuel ih =>
    refine Post.inv_p fun hI => ?_
    unfold shrink_lru_list
    refine Post.getS_bind_p ?_
    refine Post.ite_p (fun _ => Post.pure_p (KeepCnt.refl_kc s)) fun _ => ?_
    split
    · exact Post.pure_p (KeepCnt.refl_kc s)
    · rename_i bh rest hl
      have hp : Linked s bh := by
        have hm : bh ∈ s.lru_list nlist := by rw [hl]; exact List.mem_cons_self _ _
        unfold Linked
        rw [hI.lru_list _ _ hm]
        exact hm
      refine Post.bind_p (shrink_lru_scan_post _ _ _ _ _ bh s (Or.inr hp)) ?_
      intro r s1 _ hI1 hk1
      split
      · exact Post.pure_p hk1
      · exact Post.pure_p hk1
      · exact Post.mono_p (ih s1) fun _ _ _ h => hk1.trans_kc h

theorem shrink_lru_lists_post (fuel priority size : Nat) (l : List BufList) (s : State) :
    Post (shrink_lru_lists fuel priority size l) False s fun _ s' => KeepCnt s s' := by
  induction l generalizing s with
  | nil => exact Post.pure_p (KeepCnt.refl_kc s)
  | cons nlist rest ih =>
    unfold shrink_lru_lists
    refine Post.bind_p (shrink_lru_list_post _ _ _ _ _ s) ?_
    intro r s1 _ hI1 hk1
    refine Post.ite_p (fun _ => Post.pure_p hk1) fun _ => ?_
    exact Post.mono_p (ih s1) fun _ _ _ h => hk1.trans_kc h

theorem shrink_specific_buffers_post (fuel priority size : Nat) (s : State) :
    Post (shrink_specific_buffers fuel priority size) False s fun _ s' => KeepCnt s s' := by
  unfold shrink_specific_buffers
  dsimp only
  refine Post.bind_p (shrink_free_lists_post _ _ _ s) ?_
  intro r s1 _ hI1 hk1
  refine Post.ite_p (fun _ => Post.pure_p hk1) fun _ => ?_
  refine Post.bind_p (shrink_lru_lists_post _ _ _ _ s1) ?_
  intro r2 s2 _ hI2 hk2
  exact Post.ite_p (fun _ => Post.pure_p (hk1.trans_kc hk2))
    fun _ => Post.pure_p (hk1.trans_kc hk2)

theorem maybe_shrink_lav_loop_post (fuel : Nat) (isize total_lav total_n_buffers : Int)
    (l : List Int) (s : State) :
    Post (maybe_shrink_lav_loop fuel isize total_lav total_n_buffers l) False s
      fun _ s' => KeepCnt s s' := by
  induction l generalizing s with
  | nil => exact Post.pure_p (KeepCnt.refl_kc s)
  | cons nlist rest ih =>
    unfold maybe_shrink_lav_loop
    refine Post.getS_bind_p ?_
    refine Post.ite_p (fun _ => ih s) fun _ => ?_
    refine Post.ite_p (fun _ => ?_) fun _ => ih s
    refine Post.bind_p (shrink_specific_buffers_post _ _ _ s) ?_
    intro r s1 _ hI1 hk1
    refine Post.ite_p (fun _ => Post.pure_p hk1) fun _ => ?_
    exact Post.mono_p (ih s1) fun _ _ _ h => hk1.trans_kc h

theorem maybe_shrink_lav_buffers_post (fuel size : Nat) (s : State) :
    Post (maybe_shrink_lav_buffers fuel size) False s fun _ s' => KeepCnt s s' := by
  unfold maybe_shrink_lav_buffers
  refine Post.getS_bind_p ?_
  dsimp only
  exact Post.ite_p (fun _ => maybe_shrink_lav_loop_post _ _ _ _ _ s)
    fun _ => Post.pure_p (KeepCnt.refl_kc s)

theorem refile_buffer_post (fuel bh : Nat) (s : State) :
    Post (refile_buffer fuel bh) False s fun _ s' => KeepCnt s s' :=
  Post.mono_p ((refile_buffer_good fuel bh s).weaken_p False.elim) fun _ _ _ h => h.keepCnt_st

theorem refill_scan_post (fuel size : Nat) (i : BufList) (n bh : Nat) (s : State) :
    Post (refill_scan fuel size i n bh) False s fun _ s' => KeepCnt s s' := by
  induction n generalizing bh s with
  | zero => exact Post.pure_p (KeepCnt.refl_kc s)
  | succ n ih =>
    unfold refill_scan
    refine Post.getS_bind_p ?_
    dsimp only
    refine Post.ite_p (fun _ => Post.pure_p (KeepCnt.refl_kc s)) fun _ => ?_
    refine Post.ite_p (fun _ => ?_) fun _ => ?_
    · refine Post.bind_p (refile_buffer_post fuel bh s) ?_
      intro _ s1 _ hI1 hk1
      exact Post.mono_p (ih _ s1) fun _ _ _ h => hk1.trans_kc h
    refine Post.ite_p (fun _ => ih _ s) fun _ => ?_
    refine Post.ite_p (fun _ => Post.pure_p (KeepCnt.refl_kc s)) fun _ => ?_
    exact Post.ite_p (fun _ => ih _ s) fun _ => Post.pure_p (KeepCnt.refl_kc s)

theorem refill_candidate_post (fuel size : Nat) (i : BufList) (n bh : Nat) (loc : RefillLocals)
    (s : State) :
    Post (refill_candidate fuel size i n bh loc) False s fun _ s' => KeepCnt s s' := by
  unfold refill_candidate
  refine Post.bind_p (refill_scan_post fuel size i n bh s) ?_
  intro r s1 _ hI1 hk1
  refine Post.getS_bind_p ?_
  dsimp only
  exact Post.ite_p (fun _ => Post.kpanic fun h => h) fun _ => Post.pure_p hk1

theorem refill_init_post (fuel size : Nat) (l : List BufList) (loc : RefillLocals) (s : State) :
    Post (refill_init fuel size l loc) False s fun _ s' => KeepCnt s s' := by
  induction l generalizing loc s with
  | nil => exact Post.pure_p (KeepCnt.refl_kc s)
  | cons i rest ih =>
    unfold refill_init
    refine Post.getS_bind_p ?_
    refine Post.ite_p (fun _ => ih _ s) fun _ => ?_
    refine Post.ite_p (fun _ => ?_) fun _ => ?_
    · exact Post.ite_p (fun _ => Post.kpanic fun h => h) fun _ => ih _ s
    refine Post.bind_p (refill_candidate_post _ _ _ _ _ _ s) ?_
    intro loc1 s1 _ hI1 hk1
    exact Post.mono_p (ih _ s1) fun _ _ _ h => hk1.trans_kc h

/-- A head that nobody references is taken off its lists and put on the free list of
its size. -/
theorem reclaim_post {β : Type} (bh : Nat) (k : Unit → K β) (s : State)
    (hc : (s.b bh).b_count = 0) (Q : β → State → Prop)
    (h : ∀ s', Inv s' → KeepCnt s s' → Post (k ()) False s' Q) :
    Post (remove_from_queues bh >>= fun _ =>
      setB bh (fun h => { h with b_dev := B_FREE }) >>= fun _ => put_last_free bh >>= k)
      False s Q := by
  refine Post.inv_p fun hI => ?_
  refine Post.bind_p (remove_from_queues_post s bh) ?_
  intro _ s1 _ hI1 hq
  obtain ⟨hb1, hl1, hfr1, hu1, hn1, hwas⟩ := hq
  have ha : (s.b bh).b_size % 512 = 0 := by
    rcases hwas with h | ⟨i, h⟩
    · exact hI.lru_align _ _ h
    · exact hI.free_align _ _ h
  refine Post.setB_head fun s2 f2 _ => ?_
  have r2 := hl1.setHead_lo hI1 f2
  refine ⟨r2.1, ?_⟩
  have hself : s2.b bh = { (s.b bh) with b_dev := B_FREE } := by rw [f2.self, hb1]
  refine Post.bind_p (put_last_free_post s2 bh r2.2 (by rw [hself]; exact hc)
    (by rw [hself]; exact ha)) ?_
  intro _ s3 _ hI3 hq3
  refine h s3 hI3 (KeepCnt.of_one bh (fun x hx => by
    rw [hq3.1, upd_other _ _ _ _ hx, f2.other x hx, hb1]) hc ?_)
  rw [hq3.1, upd_same, hself]
  exact hc

theorem refill_reclaim_post (fuel0 size : Nat) (fuel : Nat) (loc : RefillLocals) (s : State) :
    Post (refill_reclaim fuel0 size fuel loc) False s fun _ s' => KeepCnt s s' := by
  induction fuel generalizing loc s with
  | zero => exact Post.khang_p
  | succ fuel ih =>
    unfold refill_reclaim
    refine Post.ite_p (fun _ => Post.pure_p (KeepCnt.refl_kc s)) fun _ => ?_
    refine Post.getS_bind_p ?_
    split
    · exact Post.pure_p (KeepCnt.refl_kc s)
    · rename_i i hel
      dsimp only
      refine Post.ite_p (fun _ => Post.kpanic fun h => h) fun hcs => ?_
      refine Post.ite_p (fun _ => Post.kpanic fun h => h) fun _ => ?_
      refine Post.ite_p (fun _ => Post.kpanic fun h => h) fun _ => ?_
      refine Post.ite_p (fun _ => Post.kpanic fun h => h) fun _ => ?_
      have hc : (s.b (loc.candidate i)).b_count = 0 := by
        by_contra h
        exact hcs (Or.inl h)
      refine reclaim_post _ _ s hc _ fun s3 hI3 hk3 => ?_
      refine Post.ite_p (fun _ => Post.kpanic fun h => h) fun _ => ?_
      refine Post.ite_p (fun _ => ?_) fun _ => ?_
      · refine Post.bind_p (refill_candidate_post _ _ _ _ _ _ s3) ?_
        intro loc1 s4 _ hI4 hk4
        exact Post.mono_p (ih _ s4) fun _ _ _ h => (hk3.trans_kc hk4).trans_kc h
      · exact Post.mono_p (ih _ s3) fun _ _ _ h => hk3.trans_kc h

theorem wakeup_bdflush_post (fuel : Nat) (wait : Int) (s : State) :
    Post (wakeup_bdflush (refile_buffer fuel) fuel wait) False s fun _ s' => KeepCnt s s' :=
  Post.mono_p ((wakeup_bdflush_good _ (refile_buffer_good fuel) fuel wait s).weaken_p False.elim)
    fun _ _ _ h => h.keepCnt_st

theorem refill_repeat0_post (fuel0 size : Nat) (fuel : Nat) (needed : Int) (s : State) :
    Post (refill_repeat0 fuel0 size fuel needed) False s fun _ s' => KeepCnt s s' := by
  induction fuel generalizing needed s with
  | zero => exact Post.khang_p
  | succ fuel ih =>
    unfold refill_repeat0
    refine Post.bind_p (refill_init_post _ _ _ _ s) ?_
    intro loc1 s1 _ hI1 hk1
    refine Post.bind_p (refill_reclaim_post _ _ _ _ s1) ?_
    intro loc2 s2 _ hI2 hk2
    have hk : KeepCnt s s2 := hk1.trans_kc hk2
    refine Post.ite_p (fun _ => Post.pure_p hk) fun _ => ?_
    refine Post.getS_bind_p ?_
    refine Post.bind_p (R := fun _ s3 => KeepCnt s2 s3)
      (Post.ite_p (fun _ => grow_buffers_post _ _ _ s2)
        fun _ => Post.pure_p (KeepCnt.refl_kc s2)) ?_
    intro r s3 _ hI3 hk3
    refine Post.ite_p (fun _ => ?_) fun _ => ?_
    · exact Post.mono_p (ih _ s3) fun _ _ _ h => (hk.trans_kc hk3).trans_kc h
    refine Post.bind_p (grow_buffers_post _ _ _ s3) ?_
    intro r4 s4 _ hI4 hk4
    rw [ite_bind_jp]
    refine Post.bind_p (R := fun _ s5 => KeepCnt s4 s5)
      (Post.ite_p (fun _ => wakeup_bdflush_post _ _ s4)
        fun _ => Post.pure_p (KeepCnt.refl_kc s4)) ?_
    intro _ s5 _ hI5 hk5
    exact Post.mono_p (ih _ s5) fun _ _ _ h =>
      (((hk.trans_kc hk3).trans_kc hk4).trans_kc hk5).trans_kc h

theorem refill_grow_post (fuel0 size : Nat) (fuel : Nat) (needed : Int) (s : State) :
    Post (refill_grow fuel0 size fuel needed) False s fun _ s' => KeepCnt s s' := by
  induction fuel generalizing needed s with
  | zero => exact Post.khang_p
  | succ fuel ih =>
    unfold refill_grow
    refine Post.getS_bind_p ?_
    refine Post.ite_p (fun _ => ?_) fun _ => Post.pure_p (KeepCnt.refl_kc s)
    refine Post.bind_p (grow_buffers_post _ _ _ s) ?_
    intro r s1 _ hI1 hk1
    refine Post.ite_p (fun _ => ?_) fun _ => Post.pure_p hk1
    exact Post.mono_p (ih _ s1) fun _ _ _ h => hk1.trans_kc h

theorem refill_lav_post (fuel0 size : Nat) (fuel : Nat) (needed : Int) (s : State) :
    Post (refill_lav fuel0 size fuel needed) False s fun _ s' => KeepCnt s s' := by
  induction fuel generalizing needed s with
  | zero => exact Post.khang_p
  | succ fuel ih =>
    unfold refill_lav
    refine Post.bind_p (maybe_shrink_lav_buffers_post _ _ s) ?_
    intro r s1 _ hI1 hk1
    refine Post.ite_p (fun _ => ?_) fun _ => Post.pure_p hk1
    refine Post.bind_p (grow_buffers_post _ _ _ s1) ?_
    intro g s2 _ hI2 hk2
    have hk : KeepCnt s s2 := hk1.trans_kc hk2
    refine Post.ite_p (fun _ => Post.pure_p hk) fun _ => ?_
    refine Post.ite_p (fun _ => Post.pure_p hk) fun _ => ?_
    exact Post.mono_p (ih _ s2) fun _ _ _ h => hk.trans_kc h

theorem refill_freelist_post (fuel size : Nat) (s : State) :
    Post (refill_freelist fuel size) False s fun _ s' => KeepCnt s s' := by
  unfold refill_freelist
  refine Post.getS_bind_p ?_
  dsimp only
  refine Post.ite_p (fun _ => Post.pure_p (KeepCnt.refl_kc s)) fun _ => ?_
  refine Post.bind_p (refill_grow_post _ _ _ _ s) ?_
  intro needed s1 _ hI1 hk1
  refine Post.ite_p (fun _ => Post.pure_p hk1) fun _ => ?_
  refine Post.bind_p (refill_lav_post _ _ _ _ s1) ?_
  intro r s2 _ hI2 hk2
  have hk : KeepCnt s s2 := hk1.trans_kc hk2
  refine Post.ite_p (fun _ => Post.pure_p hk) fun _ => ?_
  exact Post.mono_p (refill_repeat0_post _ _ _ _ s2) fun _ _ _ h => hk.trans_kc h

/-- A step that is `Quiet` in front of other code. -/
theorem Post.quiet_bind_p {α β : Type} {m : K α} {f : α → K β} {pre : Prop} {s : State}
    {Q : β → State → Prop} (h1 : Quiet m)
    (h2 : ∀ a s', m s = .ok a s' → Inv s' → SameCore s s' → Post (f a) pre s' Q) :
    Post (m >>= f) pre s Q :=
  Post.bind_p (R := fun _ s' => SameCore s s') (Post.of_quiet_p h1 fun _ _ hc => hc) h2

/-- What the walk of `find_buffer` returns: the first head of the chain with the
device and block, when it has the size; the state changes by the log only. -/
theorem find_buffer_loop_run (dev block size : Nat) (l : List Nat) (s : State) :
    ∃ r s', find_buffer_loop dev block size l s = .ok r s' ∧ SameCore s s' ∧ s'.b = s.b ∧
      (r ≠ 0 → s' = s ∧ r ∈ l ∧ (s.b r).b_dev = dev ∧ (s.b r).b_blocknr = block ∧
        (s.b r).b_size = size) := by
  induction l with
  | nil => exact ⟨0, s, rfl, SameCore.refl_sc s, rfl, fun h => absurd rfl h⟩
  | cons tmp rest ih =>
    unfold find_buffer_loop
    simp only [bind_run, getS_run, ite_run, pure_run, printk_run]
    by_cases h1 : (s.b tmp).b_dev = dev ∧ (s.b tmp).b_blocknr = block
    · rw [if_pos h1]
      by_cases h2 : (s.b tmp).b_size = size
      · rw [if_pos h2]
        exact ⟨tmp, s, rfl, SameCore.refl_sc s, rfl, fun _ =>
          ⟨rfl, List.mem_cons_self _ _, h1.1, h1.2, h2⟩⟩
      · rw [if_neg h2]
        exact ⟨0, _, rfl, quiet_printk _ s, rfl, fun h => absurd rfl h⟩
    · rw [if_neg h1]
      obtain ⟨r, s', e, hc, hb, hr⟩ := ih
      exact ⟨r, s', e, hc, hb, fun h =>
        ⟨(hr h).1, List.mem_cons_of_mem _ (hr h).2.1, (hr h).2.2⟩⟩

theorem find_buffer_run (dev block size : Nat) (s : State) :
    ∃ r s', find_buffer dev block size s = .ok r s' ∧ SameCore s s' ∧ s'.b = s.b ∧
      (r ≠ 0 → s' = s ∧ r ∈ s.hash_table (_hashfn s dev block) ∧ (s.b r).b_dev = dev ∧
        (s.b r).b_blocknr = block ∧ (s.b r).b_size = size) := by
  unfold find_buffer
  simp only [bind_run, getS_run]
  exact find_buffer_loop_run dev block size _ s

theorem find_buffer_post (dev block size : Nat) (s : State) :
    Post (find_buffer dev block size) False s fun r s' =>
      SameCore s s' ∧ (r ≠ 0 → Linked s r ∧ (s.b r).b_dev = dev ∧ (s.b r).b_blocknr = block ∧
        (s.b r).b_size = size) := by
  intro hI
  obtain ⟨r, s', e, hc, _, hr⟩ := find_buffer_run dev block size s
  rw [e]
  exact ⟨hc.inv_sc hI, hc, fun h => ⟨(hI.hash_lru _ _ (hr h).2.1).1, (hr h).2.2⟩⟩

theorem Took.keepCnt_zero {s s' : State} (h : Took s s' 0) : KeepCnt s s' := fun x =>
  ⟨by have := (h x).1; simpa using this, (h x).2⟩

/-- One more reference on the head `bh`. -/
theorem took_pin {s s' : State} {bh : Nat} {h : buffer_head} (f : SetHead s s' bh h)
    (he : CoreEq h (s.b bh)) (hc : h.b_count = (s.b bh).b_count + 1) (h0 : bh ≠ 0) :
    Took s s' bh := by
  intro x
  by_cases hx : x = bh
  · subst hx
    rw [f.self, if_pos ⟨h0, rfl⟩]
    exact ⟨hc, fun _ => ⟨he.1, he.2.1⟩⟩
  · rw [f.other x hx, if_neg fun h => hx h.2]
    exact ⟨rfl, fun _ => ⟨rfl, rfl⟩⟩

theorem get_hash_table_post (fuel dev block size : Nat) (s : State) :
    Post (get_hash_table fuel dev block size) False s fun r s' => Took s s' r := by
  induction fuel generalizing s with
  | zero => exact Post.khang_p
  | succ fuel ih =>
    unfold get_hash_table
    refine Post.bind_p (find_buffer_post dev block size s) ?_
    intro bh s1 _ hI1 hq
    obtain ⟨hs1, hr⟩ := hq
    refine Post.ite_p (fun _ => Post.pure_p hs1.keepCnt_sc.took) fun h0 => ?_
    have hl1 : Linked s1 bh := (hs1.linked _).mpr (hr h0).1
    refine Post.setB_head fun s2 f2 _ => ?_
    have p2 := pin_inv hI1 (Or.inr hl1) f2 ⟨rfl, rfl, rfl, rfl, rfl, rfl⟩
    refine ⟨p2.1, ?_⟩
    refine Post.quiet_bind_p (quiet_wait_on_buffer _) ?_
    intro _ s3 _ hI3 hs3
    have hk2 : Took s1 s2 bh := took_pin f2 ⟨rfl, rfl, rfl, rfl, rfl, rfl⟩ rfl h0
    refine Post.getS_bind_p ?_
    refine Post.ite_p (fun _ => Post.pure_p
      ((hs1.keepCnt_sc.trans_took hk2).trans_keep hs3.keepCnt_sc)) fun _ => ?_
    refine Post.setB_head fun s4 f4 _ => ?_
    have hl3 : Linked s3 bh := (hs3.linked _).mpr ((p2.2 _).mpr hl1)
    have p4 := pin_inv hI3 (Or.inr hl3) f4 ⟨rfl, rfl, rfl, rfl, rfl, rfl⟩
    refine ⟨p4.1, ?_⟩
    have hs4 : Stable s1 s4 := pin_unpin_stable f2 ⟨rfl, rfl, rfl, rfl, rfl, rfl⟩ rfl
      hs3.stable f4 ⟨rfl, rfl, rfl, rfl, rfl, rfl⟩ rfl
    exact Post.mono_p (ih s4) fun _ _ _ h =>
      (hs1.keepCnt_sc.trans_kc hs4.keepCnt_st).trans_took h

/-- A change of the order of the disposition lists keeps the invariant. -/
theorem lru_order_inv (s s' : State) (hI : Inv s) (hb : s'.b = s.b)
    (hfree : s'.free_list = s.free_list) (hhash : s'.hash_table = s.hash_table)
    (hun : s'.unused_list = s.unused_list) (hnh : s'.nr_hash = s.nr_hash)
    (hn : s'.nr_buffer_heads = s.nr_buffer_heads)
    (hl : ∀ l x, x ∈ s'.lru_list l ↔ x ∈ s.lru_list l) : Inv s' ∧ KeepCnt s s' := by
  have hfr : Frame s s' (fun _ => False) :=
    ⟨fun y _ => ⟨by rw [hb], by rw [hb], by rw [hb], by rw [hb], by rw [hb],
      fun i => by rw [hfree], fun l => hl l y, fun k => by rw [hhash], by rw [hun]⟩, hnh,
      le_of_eq hn.symm⟩
  exact ⟨hfr.inv_fr hI (fun _ h => h.elim) (by rw [hun]; exact hI.unused_nodup),
    hfr.keepCnt_fr fun _ h => h.elim⟩

theorem put_last_lru_post (bh : Nat) (s : State) :
    Post (put_last_lru bh) False s fun _ s' => KeepCnt s s' := by
  unfold put_last_lru
  refine Post.getS_bind_p ?_
  dsimp only
  refine Post.ite_p (fun _ => Post.pure_p (KeepCnt.refl_kc s)) fun _ => ?_
  refine Post.ite_p (fun _ => ?_) fun _ => ?_
  · refine Post.modS_p fun hI => ?_
    refine lru_order_inv s _ hI rfl rfl rfl rfl rfl rfl fun l x => ?_
    simp only [upd_apply]
    split_ifs with h1
    · subst h1
      exact mem_ring_set_head _ _ _
    · exact Iff.rfl
  refine Post.ite_p (fun _ => Post.kpanic fun h => h) fun hd => ?_
  intro hI
  have h1 := remove_from_lru_list_spec s bh hd fun y hy => (hI.carved_lru _ y hy).1
  rw [bind_run]
  cases e : remove_from_lru_list bh s with
  | ok a s1 =>
    rw [e] at h1
    obtain ⟨hm, hb, hh, hf, hnf, hu, hn, hnh, hl⟩ := h1
    simp only [modS_run]
    refine lru_order_inv s _ hI hb hf hh hu hnh hn fun l x => ?_
    simp only [hl, upd_apply]
    split_ifs with h1
    · subst h1
      simp only [if_true, List.mem_append, mem_ring_remove, List.mem_singleton]
      constructor
      · rintro (h | h)
        · exact h.1
        · exact h ▸ hm
      · intro h
        by_cases hx : x = bh
        · exact Or.inr hx
        · exact Or.inl ⟨h, hx⟩
    · exact Iff.rfl
  | panic p => exact fun h => h
  | hang => trivial

theorem getblk_refill_post (fuel0 size : Nat) (fuel : Nat) (s : State) :
    Post (getblk_refill fuel0 size fuel) False s fun _ s' => KeepCnt s s' := by
  induction fuel generalizing s with
  | zero => exact Post.khang_p
  | succ fuel ih =>
    unfold getblk_refill
    refine Post.getS_bind_p ?_
    refine Post.ite_p (fun _ => ?_) fun _ => Post.pure_p (KeepCnt.refl_kc s)
    refine Post.bind_p (refill_freelist_post _ _ s) ?_
    intro _ s1 _ hI1 hk1
    exact Post.mono_p (ih s1) fun _ _ _ h => hk1.trans_kc h

theorem getblk_repeat_post (fuel0 dev block size : Nat) (hdev : dev ≠ B_FREE) (fuel : Nat)
    (s : State) :
    Post (getblk_repeat fuel0 dev block size fuel) False s fun r s' =>
      Took s s' r ∧ r ≠ 0 := by
  induction fuel generalizing s with
  | zero => exact Post.khang_p
  | succ fuel ih =>
    unfold getblk_repeat
    dsimp only
    refine Post.bind_p (get_hash_table_post _ _ _ _ s) ?_
    intro bh s1 _ hI1 hk1
    refine Post.ite_p (fun h0 => ?_) fun h0 => ?_
    · refine Post.getS_bind_p ?_
      rw [ite_bind_jp]
      refine Post.bind_p (R := fun _ s2 => KeepCnt s1 s2)
        (Post.ite_p (fun _ => put_last_lru_post bh s1)
          fun _ => Post.pure_p (KeepCnt.refl_kc s1)) ?_
      intro _ s2 _ hI2 hk2
      rw [ite_bind_jp]
      refine Post.quiet_bind_p (Quiet.ite_q
        (quiet_setB_flag _ _ fun _ => ⟨rfl, rfl, rfl, rfl, rfl, rfl, rfl⟩) (Quiet.pure_q _)) ?_
      intro _ s3 _ hI3 hs3
      exact Post.pure_p ⟨(hk1.trans_keep hk2).trans_keep hs3.keepCnt_sc, h0⟩
    · have hb0 : bh = 0 := by
        by_contra h
        exact h0 h
      rw [hb0] at hk1
      have hk1' := hk1.keepCnt_zero
      refine Post.bind_p (getblk_refill_post _ _ _ s1) ?_
      intro _ s2 _ hI2 hk2
      refine Post.bind_p (find_buffer_post dev block size s2) ?_
      intro f s3 _ hI3 hq3
      have hk3 : KeepCnt s s3 := (hk1'.trans_kc hk2).trans_kc hq3.1.keepCnt_sc
      refine Post.ite_p (fun _ => Post.mono_p (ih s3) fun _ _ _ h =>
        ⟨hk3.trans_took h.1, h.2⟩) fun _ => ?_
      refine Post.getS_bind_p ?_
      refine Post.bind_p (remove_from_free_list_post s3 _) ?_
      intro _ s4 _ hI4 hq4
      obtain ⟨hb4, hl4, hfr4, hu4, hn4, hd4, i, hfree⟩ := hq4
      refine Post.setB_head fun s5 f5 _ => ?_
      have r5 := hl4.setHead_lo hI4 f5
      refine ⟨r5.1, ?_⟩
      have hc0 := hI3.free_count _ _ hfree
      have hal := hI3.free_align _ _ hfree
      have hnz : (s3.free_list (BUFSIZE_INDEX size)).headD 0 ≠ 0 := by
        have := (hI3.carved_free _ _ hfree).1
        omega
      refine Post.bind_p (insert_into_queues_post s5 _ r5.2 (by rw [f5.self]; exact hdev)
        (by rw [f5.self, hb4]; exact hal)) ?_
      intro _ s6 _ hI6 hq6
      refine Post.pure_p ⟨hk3.trans_took ?_, hnz⟩
      intro x
      rw [hq6.1]
      by_cases hx : x = (s3.free_list (BUFSIZE_INDEX size)).headD 0
      · rw [hx, f5.self, if_pos ⟨hnz, rfl⟩, hc0]
        exact ⟨rfl, fun h => absurd h (Nat.lt_irrefl 0)⟩
      · rw [f5.other x hx, hb4, if_neg fun h => hx h.2]
        exact ⟨rfl, fun _ => ⟨rfl, rfl⟩⟩

theorem getblk_post (fuel dev block size : Nat) (hdev : dev ≠ B_FREE) (s : State) :
    Post (getblk fuel dev block size) False s fun r s' => Took s s' r ∧ r ≠ 0 := by
  unfold getblk
  dsimp only
  refine Post.modS_head fun s1 e hI => ?_
  have hc : SameCore s s1 := sameCore_other s s1 (by rw [e]) (by rw [e]) (by rw [e])
    (by rw [e]) (by rw [e]) (by rw [e]) (by rw [e]) (by rw [e])
  refine ⟨hc.inv_sc hI, ?_⟩
  exact Post.mono_p (getblk_repeat_post _ _ _ _ hdev _ s1) fun _ _ _ h =>
    ⟨hc.keepCnt_sc.trans_took h.1, h.2⟩

theorem Post.ok {α : Type} {m : K α} {pre : Prop} {s s' : State} {Q : α → State → Prop} {a : α}
    (h : Post m pre s Q) (hI : Inv s) (e : m s = .ok a s') : Inv s' ∧ Q a s' := by
  have := h hI
  rw [e] at this
  exact this

theorem bread_post (fuel dev block size : Nat) (hdev : dev ≠ B_FREE) (s : State) :
    Post (bread fuel dev block size) False s fun _ _ => True := by
  unfold bread
  refine Post.bind_p (getblk_post fuel dev block size hdev s) ?_
  intro bh s1 _ hI1 _
  refine Post.ite_p (fun _ => ?_) fun _ => ?_
  · exact Post.quiet_bind_p (quiet_printk _) fun _ _ _ _ _ => Post.pure_p trivial
  refine Post.getS_bind_p ?_
  refine Post.ite_p (fun _ => Post.pure_p trivial) fun _ => ?_
  refine Post.bind_p ((ll_rw_block_good (refile_buffer fuel) (refile_buffer_good fuel) fuel
    .READ [bh] s1).weaken_p False.elim) ?_
  intro _ s2 _ hI2 _
  refine Post.quiet_bind_p (quiet_wait_on_buffer _) ?_
  intro _ s3 _ hI3 _
  refine Post.getS_bind_p ?_
  refine Post.ite_p (fun _ => Post.pure_p trivial) fun _ => ?_
  refine Post.bind_p ((brelse_post fuel bh s3).weaken_p False.elim) ?_
  intro _ s4 _ hI4 _
  exact Post.pure_p trivial

/-- When the first loop of `try_to_reassign` finds the page idle, the ring closes and
nobody references a buffer walked over. -/
theorem try_to_reassign_idle_true (s : State) (bh : Nat) :
    ∀ fuel j, try_to_reassign_idle s bh fuel (sibling s bh j) = some true →
      ∃ n, j < n ∧ sibling s bh n = bh ∧
        ∀ i, j ≤ i → i < n → (s.b (sibling s bh i)).b_count = 0 := by
  intro fuel
  induction fuel with
  | zero => intro j h; simp [try_to_reassign_idle] at h
  | succ fuel ih =>
    intro j h
    unfold try_to_reassign_idle at h
    by_cases h0 : sibling s bh j = 0
    · simp [h0] at h
    · by_cases hb : (s.b (sibling s bh j)).b_count ≠ 0 ∨ (s.b (sibling s bh j)).b_dirt = true ∨
          (s.b (sibling s bh j)).b_lock = true
      · simp [h0, hb] at h
      · have hcnt : (s.b (sibling s bh j)).b_count = 0 := by
          by_contra hc
          exact hb (Or.inl hc)
        by_cases hc : (s.b (sibling s bh j)).b_this_page = bh
        · refine ⟨j + 1, by omega, hc, ?_⟩
          intro i hi1 hi2
          have : i = j := by omega
          subst this
          exact hcnt
        · simp only [h0, hb, hc, if_false] at h
          obtain ⟨n, h1, h3, h4⟩ := ih (j + 1) h
          refine ⟨n, by omega, h3, ?_⟩
          intro i hi1 hi2
          rcases Nat.eq_or_lt_of_le hi1 with e | e
          · subst e; exact hcnt
          · exact h4 i e hi2

theorem reassign_idle_ring (s : State) (bh fuel : Nat)
    (h : try_to_reassign_idle s bh fuel bh = some true) :
    ∀ k, (s.b (sibling s bh k)).b_count = 0 := by
  obtain ⟨n, h1, h3, h4⟩ := try_to_reassign_idle_true s bh fuel 0 h
  intro k
  rw [sibling_mod s bh n h3 k]
  exact h4 (k % n) (Nat.zero_le _) (Nat.mod_lt _ h1)

theorem try_to_reassign_head_sibling (s : State) (fuel tmp head : Nat)
    (h : try_to_reassign_head s fuel tmp = some head) : ∃ j, head = sibling s tmp j := by
  induction fuel generalizing tmp with
  | zero => simp [try_to_reassign_head] at h
  | succ fuel ih =>
    unfold try_to_reassign_head at h
    split_ifs at h with h1
    · obtain ⟨j, hj⟩ := ih _ h
      refine ⟨1 + j, ?_⟩
      rw [sibling_add]
      exact hj
    · exact ⟨0, (Option.some.inj h).symm⟩

theorem try_to_reassign_loop_post (s0 : State) (dev : Nat) (hdev : dev ≠ B_FREE) (bh : Nat)
    (hidle : ∀ k, (s0.b (sibling s0 bh k)).b_count = 0) (fuel : Nat) (s : State)
    (tmp blk : Nat)
    (hJ : ∀ x, (s.b x).b_count = (s0.b x).b_count ∧ (s.b x).b_this_page = (s0.b x).b_this_page)
    (htmp : ∃ k, tmp = sibling s0 bh k) :
    Post (try_to_reassign_loop dev bh fuel tmp blk) False s fun _ s' => KeepCnt s s' := by
  induction fuel generalizing s tmp blk with
  | zero => exact Post.khang_p
  | succ fuel ih =>
    refine Post.inv_p fun hI => ?_
    unfold try_to_reassign_loop
    refine Post.getS_bind_p ?_
    dsimp only
    refine Post.bind_p (remove_from_queues_post s tmp) ?_
    intro _ s1 _ hI1 hq
    obtain ⟨hb1, hl1, hfr1, hu1, hn1, hwas⟩ := hq
    have ha : (s.b tmp).b_size % 512 = 0 := by
      rcases hwas with h | ⟨i, h⟩
      · exact hI.lru_align _ _ h
      · exact hI.free_align _ _ h
    obtain ⟨k, hk⟩ := htmp
    have hcnt : (s.b tmp).b_count = 0 := by rw [(hJ tmp).1, hk]; exact hidle k
    have hnext : (s.b tmp).b_this_page = sibling s0 bh (k + 1) := by
      rw [(hJ tmp).2, hk]
      rfl
    refine Post.setB_head fun s2 f2 _ => ?_
    have r2 := hl1.setHead_lo hI1 f2
    refine ⟨r2.1, ?_⟩
    refine Post.bind_p (insert_into_queues_post s2 tmp r2.2 (by rw [f2.self]; exact hdev)
      (by rw [f2.self, hb1]; exact ha)) ?_
    intro _ s3 _ hI3 hq3
    have hk3 : KeepCnt s s3 :=
      KeepCnt.of_one tmp (fun x hx => by rw [hq3.1, f2.other x hx, hb1]) hcnt
        (by rw [hq3.1, f2.self, hb1]; exact hcnt)
    refine Post.ite_p (fun _ => ?_) fun _ => Post.pure_p hk3
    refine Post.mono_p (ih s3 _ _ ?_ ⟨k + 1, hnext⟩) fun _ _ _ h => hk3.trans_kc h
    intro x
    rw [hq3.1]
    by_cases hx : x = tmp
    · subst hx
      rw [f2.self, hb1]
      exact hJ x
    · rw [f2.other x hx, hb1]
      exact hJ x

theorem try_to_reassign_post (fuel bh dev blk : Nat) (hdev : dev ≠ B_FREE) (s : State) :
    Post (try_to_reassign fuel bh dev blk) False s fun _ s' => KeepCnt s s' := by
  unfold try_to_reassign
  refine Post.getS_bind_p ?_
  dsimp only
  refine Post.ite_p (fun _ => Post.pure_p (KeepCnt.refl_kc s)) fun _ => ?_
  split
  · exact Post.khang_p
  · exact Post.pure_p (KeepCnt.refl_kc s)
  · rename_i hid
    split
    · exact Post.khang_p
    · rename_i head hh
      obtain ⟨j, hj⟩ := try_to_reassign_head_sibling s fuel bh head hh
      have hidle : ∀ k, (s.b (sibling s head k)).b_count = 0 := by
        intro k
        rw [hj, ← sibling_add]
        exact reassign_idle_ring s bh fuel hid _
      refine Post.bind_p (try_to_reassign_loop_post s dev hdev head hidle fuel s head blk
        (fun _ => ⟨rfl, rfl⟩) ⟨0, rfl⟩) ?_
      intro _ s1 _ hI1 hk1
      exact Post.pure_p hk1

theorem EmptyCache.inv_ec {s : State} (h : EmptyCache s) : Inv s := by
  have hf : ∀ i x, x ∉ s.free_list i := fun i x hx => by
    rw [h.free_list] at hx
    exact List.not_mem_nil _ hx
  have hl : ∀ l x, x ∉ s.lru_list l := fun l x hx => by
    rw [h.lru_list] at hx
    exact List.not_mem_nil _ hx
  have hh : ∀ k x, x ∉ s.hash_table k := fun k x hx => by
    rw [h.hash_table] at hx
    exact List.not_mem_nil _ hx
  have hu : ∀ x, x ∉ s.unused_list := fun x hx => by
    rw [h.unused_list] at hx
    exact List.not_mem_nil _ hx
  refine Inv.of_heads (fun x => ?_) (by rw [h.unused_list]; exact List.nodup_nil)
  exact HeadOk.of_nowhere s x (fun i => hf i x) (fun l => hl l x) (fun k => hh k x) (hu x)
    fun _ => h.b_count x

theorem buffer_init_post (fuel : Nat) (s : State) (he : EmptyCache s) :
    Post (buffer_init fuel) False s fun _ _ => True := by
  unfold buffer_init
  refine Post.modS_head fun s1 e _ => ?_
  have he1 : EmptyCache s1 := by
    refine ⟨fun i => by rw [e]; exact he.free_list i, fun l => ?_, fun k => by rw [e],
      by rw [e]; exact he.unused_list, by rw [e]; exact he.nr_buffer_heads,
      fun x => by rw [e]; exact he.b_count x⟩
    rw [e]
    simp only [upd_apply]
    split_ifs
    · rfl
    · exact he.lru_list l
  refine ⟨he1.inv_ec, ?_⟩
  refine Post.bind_p (grow_buffers_post _ _ _ s1) ?_
  intro _ s2 _ hI2 _
  refine Post.getS_bind_p ?_
  exact Post.ite_p (fun _ => Post.kpanic fun h => h) fun _ => Post.pure_p trivial

theorem Quiet.inv_ok {α : Type} {m : K α} (h : Quiet m) {s s' : State} {a : α} (hI : Inv s)
    (e : m s = .ok a s') : Inv s' := by
  have := h s
  rw [e] at this
  exact this.inv_sc hI

theorem tick_inv (s : State) (n : Nat) (hI : Inv s) : Inv { s with jiffies := s.jiffies + n } := by
  have h : SameCore s { s with jiffies := s.jiffies + n } :=
    sameCore_other s _ rfl rfl rfl rfl rfl rfl rfl rfl
  exact h.inv_sc hI

theorem quiet_invalidate_buffers_scan (dev : Nat) (i bh : Nat) :
    Quiet (invalidate_buffers_scan dev i bh) := by
  induction i generalizing bh with
  | zero => exact Quiet.pure_q _
  | succ i ih =>
    unfold invalidate_buffers_scan
    refine Quiet.getS_bind_q fun s => Quiet.ite_q (ih _) ?_
    refine Quiet.bind_q (quiet_wait_on_buffer bh) fun _ => ?_
    refine Quiet.getS_bind_q fun s1 => Quiet.ite_q (ih _) (Quiet.ite_q (ih _) ?_)
    refine Quiet.bind_q (quiet_setB_flag _ _ fun _ => ⟨rfl, rfl, rfl, rfl, rfl, rfl, rfl⟩)
      fun _ => ?_
    exact Quiet.getS_bind_q fun s2 => ih _

theorem quiet_invalidate_buffers_lists (dev : Nat) (lists : List BufList) :
    Quiet (invalidate_buffers_lists dev lists) := by
  induction lists with
  | nil => exact Quiet.pure_q _
  | cons nlist rest ih =>
    unfold invalidate_buffers_lists
    exact Quiet.getS_bind_q fun s =>
      Quiet.bind_q (quiet_invalidate_buffers_scan dev _ _) fun _ => ih

theorem quiet_invalidate_buffers (dev : Nat) : Quiet (invalidate_buffers dev) :=
  quiet_invalidate_buffers_lists dev ALL_LISTS

/-- A buffer is pinned, written and released: the invariant and what `Stable` lists are
kept. -/
theorem pinned_write_post {β : Type} (fuel bh : Nat) (k : Unit → K β) (s : State)
    {Q : β → State → Prop} (hp : bh = 0 ∨ Linked s bh)
    (h : ∀ s', Inv s' → Stable s s' → Post (k ()) False s' Q) :
    Post (setB bh (fun h => { h with b_count := h.b_count + 1, b_flushtime := 0 }) >>= fun _ =>
      ll_rw_block (refile_buffer fuel) fuel .WRITE [bh] >>= fun _ =>
      setB bh (fun h => { h with b_count := h.b_count - 1 }) >>= k) False s Q := by
  refine Post.inv_p fun hI => ?_
  have f1 := setHead_setB s bh fun h => { h with b_count := h.b_count + 1, b_flushtime := 0 }
  have p1 := pin_inv hI hp f1 ⟨rfl, rfl, rfl, rfl, rfl, rfl⟩
  refine Post.setB_bind (fun _ => p1.1) ?_
  refine Post.bind_p ((ll_rw_block_good _ (refile_buffer_good fuel) fuel .WRITE [bh] _).weaken_g
    False.elim) ?_
  intro _ s2 _ hI2 hs2
  have hp2 : bh = 0 ∨ Linked s2 bh := hp.imp_right fun h => (hs2.linked _).mpr ((p1.2 _).mpr h)
  have f4 := setHead_setB s2 bh fun h => { h with b_count := h.b_count - 1 }
  have p4 := pin_inv hI2 hp2 f4 ⟨rfl, rfl, rfl, rfl, rfl, rfl⟩
  have hs4 : Stable s _ := pin_unpin_stable f1 ⟨rfl, rfl, rfl, rfl, rfl, rfl⟩ rfl hs2 f4
    ⟨rfl, rfl, rfl, rfl, rfl, rfl⟩ rfl
  refine Post.setB_bind (fun _ => p4.1) ?_
  exact h _ p4.1 hs4

theorem sync_old_buffers_scan_good (fuel : Nat) (nlist : BufList) (i bh : Nat)
    (loc : OldLocals) (s : State) (hp : bh = 0 ∨ Linked s bh) :
    GoodAt (sync_old_buffers_scan fuel nlist i bh loc) False s := by
  induction i generalizing bh loc s with
  | zero => exact GoodAt.pure_g
  | succ i ih =>
    refine Post.inv_p fun hI => ?_
    have hnext := next_ok hI hp
    unfold sync_old_buffers_scan
    refine GoodAt.getS_bind_g ?_
    refine GoodAt.ite_g (fun _ => GoodAt.pure_g) fun _ => ?_
    dsimp only
    refine GoodAt.ite_g (fun _ => GoodAt.of_quiet_g
      (Quiet.bind_q (quiet_printk _) fun _ => Quiet.pure_q _)) fun _ => ?_
    refine GoodAt.ite_g (fun _ => ?_) fun _ => ?_
    · refine GoodAt.bind_g ((refile_buffer_good fuel bh s).weaken_g False.elim) ?_
      intro _ s1 _ hI1 hs1
      exact ih _ _ s1 (hnext.imp_right (hs1.linked _).mpr)
    refine GoodAt.ite_g (fun _ => ih _ _ s hnext) fun _ => ?_
    refine GoodAt.ite_g (fun _ => ih _ _ s hnext) fun _ => ?_
    refine pinned_write_post fuel bh _ s hp fun s' hI' hs' => ?_
    exact Post.mono_p (ih _ _ s' (hnext.imp_right (hs'.linked _).mpr)) fun _ _ _ h =>
      hs'.trans_st h

theorem head_linked {s : State} (hI : Inv s) {nlist : BufList} {bh : Nat} {rest : List Nat}
    (hl : s.lru_list nlist = bh :: rest) : Linked s bh := by
  have hm : bh ∈ s.lru_list nlist := by rw [hl]; exact List.mem_cons_self _ _
  unfold Linked
  rw [hI.lru_list _ _ hm]
  exact hm

theorem sync_old_buffers_list_good (fuel0 : Nat) (nlist : BufList) (fuel : Nat)
    (loc : OldLocals) (s : State) :
    GoodAt (sync_old_buffers_list fuel0 nlist fuel loc) False s := by
  induction fuel generalizing loc s with
  | zero => exact GoodAt.khang_g
  | succ fuel ih =>
    refine Post.inv_p fun hI => ?_
    unfold sync_old_buffers_list
    refine GoodAt.getS_bind_g ?_
    split
    · exact GoodAt.pure_g
    · rename_i bh rest hl
      refine GoodAt.bind_g (sync_old_buffers_scan_good _ _ _ _ _ s (Or.inr (head_linked hI hl))) ?_
      intro r s1 _ hI1 hs1
      exact GoodAt.ite_g (fun _ => ih _ s1) fun _ => GoodAt.pure_g

theorem sync_old_buffers_good (fuel : Nat) (s : State) :
    GoodAt (sync_old_buffers fuel) False s := by
  unfold sync_old_buffers
  refine GoodAt.bind_g (sync_old_buffers_list_good _ _ _ _ s) ?_
  intro _ s1 _ hI1 hs1
  exact GoodAt.of_quiet_g (Quiet.bind_q
    (quiet_modS_other _ fun _ => ⟨rfl, rfl, rfl, rfl, rfl, rfl, rfl, rfl⟩) fun _ => Quiet.pure_q _)

theorem bdflush_scan_good (fuel : Nat) (nlist : BufList) (i bh : Nat) (ndirty : Int)
    (s : State) (hp : bh = 0 ∨ Linked s bh) :
    GoodAt (bdflush_scan fuel nlist i bh ndirty) False s := by
  induction i generalizing bh ndirty s with
  | zero => exact GoodAt.pure_g
  | succ i ih =>
    refine Post.inv_p fun hI => ?_
    have hnext := next_ok hI hp
    unfold bdflush_scan
    refine GoodAt.getS_bind_g ?_
    refine GoodAt.ite_g (fun _ => GoodAt.pure_g) fun _ => ?_
    refine GoodAt.ite_g (fun _ => GoodAt.pure_g) fun _ => ?_
    dsimp only
    refine GoodAt.ite_g (fun _ => GoodAt.of_quiet_g
      (Quiet.bind_q (quiet_printk _) fun _ => Quiet.pure_q _)) fun _ => ?_
    refine GoodAt.ite_g (fun _ => ?_) fun _ => ?_
    · refine GoodAt.bind_g ((refile_buffer_good fuel bh s).weaken_g False.elim) ?_
      intro _ s1 _ hI1 hs1
      exact ih _ _ s1 (hnext.imp_right (hs1.linked _).mpr)
    refine GoodAt.ite_g (fun _ => ih _ _ s hnext) fun _ => ?_
    refine pinned_write_post fuel bh _ s hp fun s' hI' hs' => ?_
    exact Post.mono_p (ih _ _ s' (hnext.imp_right (hs'.linked _).mpr)) fun _ _ _ h =>
      hs'.trans_st h

theorem bdflush_list_good (fuel0 : Nat) (nlist : BufList) (fuel : Nat) (ndirty : Int)
    (s : State) : GoodAt (bdflush_list fuel0 nlist fuel ndirty) False s := by
  induction fuel generalizing ndirty s with
  | zero => exact GoodAt.khang_g
  | succ fuel ih =>
    refine Post.inv_p fun hI => ?_
    unfold bdflush_list
    refine GoodAt.getS_bind_g ?_
    split
    · exact GoodAt.pure_g
    · rename_i bh rest hl
      refine GoodAt.bind_g (bdflush_scan_good _ _ _ _ _ s (Or.inr (head_linked hI hl))) ?_
      intro r s1 _ hI1 hs1
      exact GoodAt.ite_g (fun _ => ih _ s1) fun _ => GoodAt.pure_g

theorem bdflush_daemon_good (fuel0 : Nat) (sigkill : Bool) (fuel : Nat) (s : State) :
    GoodAt (bdflush_daemon fuel0 sigkill fuel) False s := by
  induction fuel generalizing s with
  | zero => exact GoodAt.khang_g
  | succ fuel ih =>
    unfold bdflush_daemon
    refine GoodAt.bind_g (bdflush_list_good _ _ _ _ s) ?_
    intro _ s1 _ hI1 hs1
    refine GoodAt.getS_bind_g ?_
    refine GoodAt.ite_g (fun _ => GoodAt.ite_g (fun _ => ?_) fun _ => GoodAt.khang_g)
      fun _ => ih s1
    exact GoodAt.of_quiet_g (Quiet.bind_q
      (quiet_modS_other _ fun _ => ⟨rfl, rfl, rfl, rfl, rfl, rfl, rfl, rfl⟩) fun _ => Quiet.pure_q _)

theorem sys_bdflush_good (fuel : Nat) (suser : Bool) (verify_area : Int) (sigkill : Bool)
    (func data : Int) (s : State) :
    GoodAt (sys_bdflush fuel suser verify_area sigkill func data) False s := by
  unfold sys_bdflush
  refine GoodAt.ite_g (fun _ => GoodAt.pure_g) fun _ => ?_
  refine GoodAt.ite_g (fun _ => sync_old_buffers_good fuel s) fun _ => ?_
  refine GoodAt.ite_g (fun _ => ?_) fun _ => ?_
  · dsimp only
    refine GoodAt.ite_g (fun _ => GoodAt.pure_g) fun _ => ?_
    refine GoodAt.ite_g (fun _ => GoodAt.ite_g (fun _ => GoodAt.pure_g) fun _ => GoodAt.pure_g)
      fun _ => ?_
    refine GoodAt.ite_g (fun _ => GoodAt.pure_g) fun _ => ?_
    exact GoodAt.of_quiet_g (Quiet.bind_q
      (quiet_modS_other _ fun _ => ⟨rfl, rfl, rfl, rfl, rfl, rfl, rfl, rfl⟩) fun _ => Quiet.pure_q _)
  · refine GoodAt.getS_bind_g ?_
    refine GoodAt.ite_g (fun _ => GoodAt.pure_g) fun _ => ?_
    refine GoodAt.quiet_bind_g
      (quiet_modS_other _ fun _ => ⟨rfl, rfl, rfl, rfl, rfl, rfl, rfl, rfl⟩) ?_
    intro _ s1 _ hI1 hs1
    exact bdflush_daemon_good _ _ _ s1

/-- Every reachable state satisfies the structural invariant. -/
theorem reachable_inv {s : State} (h : Reachable s) : Inv s := by
  induction h with
  | empty s he => exact he.toEmptyCache.inv_ec
  | buffer_init s s' fuel he e =>
    exact ((buffer_init_post fuel s he.toEmptyCache).ok he.toEmptyCache.inv_ec e).1
  | getblk s s' fuel dev block size h _ hd e ih => exact ((getblk_post _ _ _ _ hd s).ok ih e).1
  | brelse s s' fuel buf _ e ih => exact ((brelse_post fuel buf s).ok ih e).1
  | bread s s' fuel dev block size r _ hd e ih => exact ((bread_post _ _ _ _ hd s).ok ih e).1
  | refill_freelist s s' fuel size _ e ih => exact ((refill_freelist_post _ _ s).ok ih e).1
  | grow_buffers s s' fuel pri size r _ e ih => exact ((grow_buffers_post _ _ _ s).ok ih e).1
  | shrink_specific_buffers s s' fuel priority size r _ e ih =>
    exact ((shrink_specific_buffers_post _ _ _ s).ok ih e).1
  | try_to_free s s' fuel bh r _ e ih => exact ((try_to_free_post _ _ s).ok ih e).1
  | try_to_reassign s s' fuel bh dev block r _ hd e ih =>
    exact ((try_to_reassign_post _ _ _ _ hd s).ok ih e).1
  | mark_buffer_dirty s s' fuel bh flag _ e ih =>
    exact ((mark_buffer_dirty_good fuel bh flag s).ok ih e).1
  | ll_rw_block s s' fuel rw bhs _ e ih =>
    exact ((ll_rw_block_good _ (refile_buffer_good fuel) fuel rw bhs s).ok ih e).1
  | end_buffer_io s s' bh _ e ih =>
    exact (quiet_end_buffer_io bh).inv_ok ih e
  | invalidate_buffers s s' dev _ e ih =>
    exact (quiet_invalidate_buffers dev).inv_ok ih e
  | sys_bdflush s s' fuel suser verify_area sigkill func data r _ e ih =>
    exact ((sys_bdflush_good fuel suser verify_area sigkill func data s).ok ih e).1
  | tick s n _ ih =>
    exact tick_inv s n ih

theorem Runs.bind_r {α β : Type} {m : K α} {f : α → K β} {s : State}
    {R : α → State → Prop} {Q : β → State → Prop} (h1 : Runs m s R)
    (h2 : ∀ a s', m s = .ok a s' → R a s' → Runs (f a) s' Q) : Runs (m >>= f) s Q := by
  obtain ⟨a, s', e, hr⟩ := h1
  obtain ⟨b, s'', e', hq⟩ := h2 a s' e hr
  exact ⟨b, s'', by rw [bind_run, e]; exact e', hq⟩

theorem Runs.pure_r {α : Type} {a : α} {s : State} {Q : α → State → Prop} (h : Q a s) :
    Runs (pure a : K α) s Q := ⟨a, s, rfl, h⟩

theorem Runs.getS_bind_r {β : Type} {f : State → K β} {s : State} {Q : β → State → Prop}
    (h : Runs (f s) s Q) : Runs (getS >>= f) s Q := by
  obtain ⟨b, s', e, hq⟩ := h
  exact ⟨b, s', by rw [bind_run, getS_run]; exact e, hq⟩

theorem Runs.ite_r {α : Type} {c : Prop} [Decidable c] {m m' : K α} {s : State}
    {Q : α → State → Prop} (h : c → Runs m s Q) (h' : ¬ c → Runs m' s Q) :
    Runs (if c then m else m') s Q := by
  split_ifs with hc
  · exact h hc
  · exact h' hc

theorem Runs.mono_r {α : Type} {m : K α} {s : State} {Q Q' : α → State → Prop}
    (h : Runs m s Q) (hq : ∀ a s', m s = .ok a s' → Q a s' → Q' a s') : Runs m s Q' := by
  obtain ⟨a, s', e, h1⟩ := h
  exact ⟨a, s', e, hq a s' e h1⟩

theorem Runs.modS_head_r {β : Type} {f : State → State} {k : Unit → K β} {s : State}
    {Q : β → State → Prop} (h : ∀ s', s' = f s → Runs (k ()) s' Q) :
    Runs (modS f >>= k) s Q := by
  obtain ⟨b, s', e, hq⟩ := h _ rfl
  exact ⟨b, s', by rw [bind_run, modS_run]; exact e, hq⟩

theorem Runs.setB_head_r {β : Type} {bh : Nat} {f : buffer_head → buffer_head}
    {k : Unit → K β} {s : State} {Q : β → State → Prop}
    (h : ∀ s', s' = (setB bh f s).state → Runs (k ()) s' Q) :
    Runs (setB bh f >>= k) s Q := by
  obtain ⟨b, s', e, hq⟩ := h _ rfl
  exact ⟨b, s', by rw [bind_run, setB_run]; exact e, hq⟩

theorem Runs.setB_r {bh : Nat} {f : buffer_head → buffer_head} {s : State}
    {Q : Unit → State → Prop} (h : Q () (setB bh f s).state) : Runs (setB bh f) s Q :=
  ⟨(), _, rfl, h⟩

theorem Runs.of_eq {α : Type} {m : K α} {s : State} {Q : α → State → Prop} (n : K α)
    (e : m s = n s) (h : Runs n s Q) : Runs m s Q := by
  obtain ⟨a, s', e', hq⟩ := h
  exact ⟨a, s', e.trans e', hq⟩

/-- A run that returns, of code with a postcondition: the postcondition holds. -/
theorem Runs.post {α : Type} {m : K α} {pre : Prop} {s : State} {Q R : α → State → Prop}
    (h : Runs m s R) (hp : Post m pre s Q) (hI : Inv s) :
    Runs m s fun a s' => R a s' ∧ Inv s' ∧ Q a s' := by
  obtain ⟨a, s', e, hr⟩ := h
  have := hp.ok hI e
  exact ⟨a, s', e, hr, this.1, this.2⟩

theorem SameRest.refl_sr (s : State) : SameRest s s := ⟨rfl, rfl, rfl, rfl, rfl⟩

theorem SameRest.trans_sr {s s' s'' : State} (h : SameRest s s') (h' : SameRest s' s'') :
    SameRest s s'' :=
  ⟨h'.all_requests.trans h.all_requests, h'.current_request.trans h.current_request,
    h'.request_fn_calls.trans h.request_fn_calls, h'.klog.trans h.klog,
    h'.bdflush_running.trans h.bdflush_running⟩

theorem FlagRel.refl_fl (s : State) : FlagRel s s :=
  ⟨SameRest.refl_sr s, fun _ => rfl, fun _ h => h⟩

theorem FlagRel.trans_fl {s s' s'' : State} (h : FlagRel s s') (h' : FlagRel s' s'') :
    FlagRel s s'' :=
  ⟨h.rest.trans_sr h'.rest, fun x => (h'.dirt x).trans (h.dirt x),
    fun x hx => h'.upto x (h.upto x hx)⟩

/-- A head is rewritten, keeping `b_dirt` and not losing `b_uptodate`. -/
theorem flagRel_setB (s : State) (bh : Nat) (f : buffer_head → buffer_head)
    (hd : ∀ v, (f v).b_dirt = v.b_dirt) (hu : ∀ v, v.b_uptodate = true → (f v).b_uptodate = true) :
    FlagRel s (setB bh f s).state := by
  refine ⟨⟨rfl, rfl, rfl, rfl, rfl⟩, fun x => ?_, fun x hx => ?_⟩
  · show (upd s.b bh (f (s.b bh)) x).b_dirt = _
    by_cases h : x = bh
    · subst h
      rw [upd_same]
      exact hd _
    · rw [upd_other _ _ _ _ h]
  · show (upd s.b bh (f (s.b bh)) x).b_uptodate = true
    by_cases h : x = bh
    · subst h
      rw [upd_same]
      exact hu _ hx
    · rw [upd_other _ _ _ _ h]
      exact hx

/-- A run of `Quiet` code that returns keeps what `SameCore` lists. -/
theorem Runs.quiet {α : Type} {m : K α} {s : State} {R : α → State → Prop}
    (h : Runs m s R) (hq : Quiet m) : Runs m s fun a s' => R a s' ∧ SameCore s s' := by
  obtain ⟨a, s', e, hr⟩ := h
  have := hq s
  rw [e] at this
  exact ⟨a, s', e, hr, this⟩

theorem end_buffer_io_runs (bh : Nat) (s : State) :
    Runs (end_buffer_io bh) s fun _ s' => FlagRel s s' := by
  refine Runs.of_eq (setB bh _) rfl (Runs.setB_r ?_)
  refine flagRel_setB s bh _ ?_ ?_
  · exact fun _ => rfl
  · intro v hv
    dsimp only
    split_ifs
    · rfl
    · exact hv

theorem wait_on_buffer_flags (bh : Nat) (s : State) :
    Runs (wait_on_buffer bh) s fun _ s' => FlagRel s s' := by
  unfold wait_on_buffer
  refine Runs.getS_bind_r ?_
  refine Runs.ite_r (fun _ => ?_) fun _ => Runs.pure_r (FlagRel.refl_fl s)
  unfold __wait_on_buffer
  refine Runs.setB_head_r fun s1 e1 => ?_
  have h1 : FlagRel s s1 := by
    rw [e1]
    refine flagRel_setB s bh _ ?_ ?_
    · exact fun _ => rfl
    · exact fun _ h => h
  refine Runs.getS_bind_r ?_
  rw [ite_bind_jp]
  refine Runs.bind_r (R := fun _ s2 => FlagRel s1 s2)
    (Runs.ite_r (fun _ => end_buffer_io_runs bh s1) fun _ => Runs.pure_r (FlagRel.refl_fl s1)) ?_
  intro _ s2 _ h2
  refine Runs.setB_r ((h1.trans_fl h2).trans_fl ?_)
  refine flagRel_setB s2 bh _ ?_ ?_
  · exact fun _ => rfl
  · exact fun _ h => h

theorem wait_on_buffer_runs (bh : Nat) (s : State) :
    Runs (wait_on_buffer bh) s fun _ s' => FlagRel s s' ∧ SameCore s s' :=
  (wait_on_buffer_flags bh s).quiet (quiet_wait_on_buffer bh)

theorem set_writetime_runs (buf : Nat) (flag : Int) (s : State) :
    Runs (set_writetime buf flag) s fun _ s' => FlagRel s s' ∧ SameCore s s' := by
  refine Runs.quiet ?_ (quiet_set_writetime buf flag)
  unfold set_writetime
  refine Runs.getS_bind_r ?_
  refine Runs.ite_r (fun _ => ?_) fun _ => ?_
  · dsimp only
    refine Runs.ite_r (fun _ => ?_) fun _ => Runs.pure_r (FlagRel.refl_fl s)
    refine Runs.setB_r (flagRel_setB s buf _ ?_ ?_)
    · exact fun _ => rfl
    · exact fun _ h => h
  · refine Runs.setB_r (flagRel_setB s buf _ ?_ ?_)
    · exact fun _ => rfl
    · exact fun _ h => h

theorem Keeps.bind_k {α β : Type} {m : K α} {f : α → K β} (h : Keeps m) (h' : ∀ a, Keeps (f a)) :
    Keeps (m >>= f) := by
  intro s b s' e
  rw [bind_run] at e
  cases e1 : m s with
  | ok a s1 =>
    rw [e1] at e
    exact (h s a s1 e1).trans_fl (h' a s1 b s' e)
  | panic p => rw [e1] at e; cases e
  | hang => rw [e1] at e; cases e

theorem Keeps.getS_bind_k {β : Type} {f : State → K β} (h : ∀ s, Keeps (f s)) :
    Keeps (getS >>= f) := by
  intro s b s' e
  rw [bind_run, getS_run] at e
  exact h s s b s' e

theorem Keeps.pure_k {α : Type} (a : α) : Keeps (pure a : K α) := by
  intro s b s' e
  cases e
  exact FlagRel.refl_fl s

theorem Keeps.kpanic_k {α : Type} (p : Panic) : Keeps (kpanic p : K α) := by
  intro s b s' e
  cases e

theorem Keeps.khang_k {α : Type} : Keeps (khang : K α) := by
  intro s b s' e
  cases e

theorem Keeps.ite_k {α : Type} {c : Prop} [Decidable c] {m m' : K α} (h : Keeps m)
    (h' : Keeps m') : Keeps (if c then m else m') := by
  split_ifs
  · exact h
  · exact h'

theorem Keeps.modS_k (f : State → State) (h : ∀ s, FlagRel s (f s)) : Keeps (modS f) := by
  intro s b s' e
  cases e
  exact h s

theorem Keeps.setB_k (bh : Nat) (f : buffer_head → buffer_head)
    (h : ∀ v, (f v).b_dirt = v.b_dirt ∧ (v.b_uptodate = true → (f v).b_uptodate = true)) :
    Keeps (setB bh f) := by
  intro s b s' e
  cases e
  exact flagRel_setB s bh f (fun v => (h v).1) fun v => (h v).2

theorem flagRel_of_b {s s' : State} (hb : s'.b = s.b) (hr : SameRest s s') : FlagRel s s' :=
  ⟨hr, fun x => by rw [hb], fun x h => by rw [hb]; exact h⟩

theorem keeps_remove_from_hash_queue (bh : Nat) : Keeps (remove_from_hash_queue bh) :=
  Keeps.modS_k _ fun _ => flagRel_of_b rfl ⟨rfl, rfl, rfl, rfl, rfl⟩

theorem keeps_remove_from_lru_list (bh : Nat) : Keeps (remove_from_lru_list bh) :=
  Keeps.getS_bind_k fun _ => Keeps.ite_k (Keeps.kpanic_k _) <| Keeps.ite_k (Keeps.kpanic_k _) <|
    Keeps.modS_k _ fun _ => flagRel_of_b rfl ⟨rfl, rfl, rfl, rfl, rfl⟩

theorem keeps_remove_from_free_list (bh : Nat) : Keeps (remove_from_free_list bh) :=
  Keeps.getS_bind_k fun _ => Keeps.ite_k (Keeps.kpanic_k _) <| Keeps.ite_k (Keeps.kpanic_k _) <|
    Keeps.ite_k (Keeps.kpanic_k _) <|
    Keeps.modS_k _ fun _ => flagRel_of_b rfl ⟨rfl, rfl, rfl, rfl, rfl⟩

theorem keeps_remove_from_queues (bh : Nat) : Keeps (remove_from_queues bh) :=
  Keeps.getS_bind_k fun _ => Keeps.ite_k (keeps_remove_from_free_list bh) <|
    Keeps.bind_k (Keeps.modS_k _ fun _ => flagRel_of_b rfl ⟨rfl, rfl, rfl, rfl, rfl⟩) fun _ =>
      Keeps.bind_k (keeps_remove_from_hash_queue bh) fun _ => keeps_remove_from_lru_list bh

theorem keeps_put_last_lru (bh : Nat) : Keeps (put_last_lru bh) :=
  Keeps.getS_bind_k fun _ => Keeps.ite_k (Keeps.pure_k _) <|
    Keeps.ite_k (Keeps.modS_k _ fun _ => flagRel_of_b rfl ⟨rfl, rfl, rfl, rfl, rfl⟩) <|
    Keeps.ite_k (Keeps.kpanic_k _) <|
    Keeps.bind_k (keeps_remove_from_lru_list bh) fun _ =>
      Keeps.modS_k _ fun _ => flagRel_of_b rfl ⟨rfl, rfl, rfl, rfl, rfl⟩

theorem keeps_put_last_free (bh : Nat) : Keeps (put_last_free bh) :=
  Keeps.getS_bind_k fun _ => Keeps.ite_k (Keeps.pure_k _) <|
    Keeps.bind_k (Keeps.setB_k _ _ fun _ => ⟨rfl, fun h => h⟩) fun _ =>
      Keeps.modS_k _ fun _ => flagRel_of_b rfl ⟨rfl, rfl, rfl, rfl, rfl⟩

theorem keeps_insert_into_queues (bh : Nat) : Keeps (insert_into_queues bh) :=
  Keeps.getS_bind_k fun _ => Keeps.ite_k (keeps_put_last_free bh) <|
    Keeps.ite_k (Keeps.kpanic_k _) <|
    Keeps.bind_k (Keeps.modS_k _ fun _ => flagRel_of_b rfl ⟨rfl, rfl, rfl, rfl, rfl⟩) fun _ =>
      Keeps.ite_k (Keeps.pure_k _) <|
        Keeps.modS_k _ fun _ => flagRel_of_b rfl ⟨rfl, rfl, rfl, rfl, rfl⟩

theorem keeps_wait_on_buffer (bh : Nat) : Keeps (wait_on_buffer bh) := by
  intro s a s' e
  obtain ⟨a1, s1, e1, h⟩ := wait_on_buffer_flags bh s
  rw [e] at e1
  cases e1
  exact h

theorem keeps_set_writetime (buf : Nat) (flag : Int) : Keeps (set_writetime buf flag) := by
  intro s a s' e
  obtain ⟨a1, s1, e1, h⟩ := set_writetime_runs buf flag s
  rw [e] at e1
  cases e1
  exact h.1

/-- An optional update of flags and time stamps of one head. -/
theorem runs_opt_setB (c : Prop) [Decidable c] (bh : Nat) (f : buffer_head → buffer_head)
    (hf : FlagOnly f)
    (hk : ∀ v, (f v).b_dirt = v.b_dirt ∧ (v.b_uptodate = true → (f v).b_uptodate = true))
    (s : State) :
    Runs (if c then setB bh f else pure ()) s fun _ s' => FlagRel s s' ∧ SameCore s s' := by
  refine Runs.quiet ?_ (Quiet.ite_q (quiet_setB_flag bh f hf) (Quiet.pure_q _))
  refine Runs.ite_r (fun _ => Runs.setB_r ?_) fun _ => Runs.pure_r (FlagRel.refl_fl s)
  exact flagRel_setB s bh f (fun v => (hk v).1) fun v => (hk v).2

/-- The three steps by which a linked head changes lists, run to the end. -/
theorem relink_runs {β : Type} {buf : Nat} {f : buffer_head → buffer_head} {k : Unit → K β}
    {s : State} {Q : β → State → Prop} (hI : Inv s) (hl : Linked s buf)
    (hf : (f (s.b buf)).b_dev = (s.b buf).b_dev ∧ (f (s.b buf)).b_blocknr = (s.b buf).b_blocknr ∧
      (f (s.b buf)).b_size = (s.b buf).b_size ∧ (f (s.b buf)).b_count = (s.b buf).b_count ∧
      (f (s.b buf)).b_data = (s.b buf).b_data ∧
      (f (s.b buf)).b_this_page = (s.b buf).b_this_page)
    (h : ∀ s', Inv s' → Stable s s' → Linked s' buf → s'.b = upd s.b buf (f (s.b buf)) →
      SameRest s s' → Runs (k ()) s' Q) :
    Runs (remove_from_queues buf >>= fun _ => setB buf f >>= fun _ =>
      insert_into_queues buf >>= k) s Q := by
  have hd := hI.lru_dev _ _ hl
  have h1 := remove_from_queues_lru s hI buf hd
  cases e1 : remove_from_queues buf s with
  | ok a s1 =>
    rw [e1] at h1
    obtain ⟨-, f1⟩ := h1
    have k1 := keeps_remove_from_queues buf s a s1 e1
    have f2 := setHead_setB s1 buf f
    have hb1 : s1.b buf = s.b buf := by rw [f1.b]
    rw [hb1] at f2
    have hd2 : (({ s1 with b := upd s1.b buf (f (s.b buf)) } : State).b buf).b_dev ≠ B_FREE := by
      simp only [upd_same]
      rw [hf.1]
      exact hd
    have hn2 : buf ∉ ({ s1 with b := upd s1.b buf (f (s.b buf)) } : State).lru_list
        (({ s1 with b := upd s1.b buf (f (s.b buf)) } : State).b buf).b_list := by
      simp only [f1.lru]
      exact fun h => h.2 rfl
    obtain ⟨s3, e3, f3⟩ := insert_into_queues_lru _ buf hd2 hn2
    have k3 := keeps_insert_into_queues buf _ _ _ e3
    have r := relink_inv hI hl f1 f2 f3 hf.1 hf.2.1 hf.2.2.1 hf.2.2.2.1 hf.2.2.2.2.1
      hf.2.2.2.2.2
    have hr : SameRest s s3 :=
      ⟨k3.rest.all_requests.trans k1.rest.all_requests,
        k3.rest.current_request.trans k1.rest.current_request,
        k3.rest.request_fn_calls.trans k1.rest.request_fn_calls,
        k3.rest.klog.trans k1.rest.klog, k3.rest.bdflush_running.trans k1.rest.bdflush_running⟩
    obtain ⟨b, s4, e4, hq⟩ := h s3 r.1 r.2.1 r.2.2.1 r.2.2.2 hr
    refine ⟨b, s4, ?_, hq⟩
    simp only [bind_run, e1, setB_run, hb1, e3]
    exact e4
  | panic p =>
    rw [e1] at h1
    exact (h1 hl).elim
  | hang =>
    rw [e1] at h1
    exact h1.elim

theorem refile_dispose_dirty {s : State} {buf : Nat} (h : (s.b buf).b_dirt = true) :
    refile_dispose s buf = BUF_DIRTY := by
  unfold refile_dispose
  rw [if_pos h]

theorem refile_dispose_clean {s : State} {buf : Nat} (h : (s.b buf).b_dirt = false) :
    refile_dispose s buf ≠ BUF_DIRTY := by
  unfold refile_dispose
  rw [if_neg (by rw [h]; decide)]
  split_ifs <;> decide

theorem locked1_dirty (P : Prop) [Decidable P] (d : BufList)
    (h : (if d = BUF_LOCKED ∧ P then BUF_LOCKED1 else d) = BUF_DIRTY) : d = BUF_DIRTY := by
  split_ifs at h
  exact h

/-- With the flush daemon running, or on a clean buffer, `refile_buffer` on a linked head
returns; it touches neither the dirty flags nor the request layer, and a dirty buffer
ends on the DIRTY list. -/
theorem refile_runs (fuel buf : Nat) (s : State) (hI : Inv s) (hl : Linked s buf)
    (hd : s.bdflush_running ≠ 0 ∨ (s.b buf).b_dirt = false) :
    Runs (refile_buffer (fuel + 1) buf) s fun _ s' =>
      FlagRel s s' ∧ ((s.b buf).b_dirt = true → (s'.b buf).b_list = BUF_DIRTY) := by
  show Runs (refile_buffer_body (refile_buffer fuel) fuel buf) s _
  have hdev := hI.lru_dev _ _ hl
  unfold refile_buffer_body
  refine Runs.getS_bind_r ?_
  rw [if_neg hdev]
  dsimp only
  rw [ite_bind_jp]
  refine Runs.bind_r (runs_opt_setB _ buf _ ?_ ?_ s) ?_
  · exact fun _ => ⟨rfl, rfl, rfl, rfl, rfl, rfl, rfl⟩
  · exact fun _ => ⟨rfl, fun h => h⟩
  intro _ s1 _ h1
  obtain ⟨hf1, hc1⟩ := h1
  refine Runs.ite_r (fun hne => ?_) fun heq => ?_
  · rw [ite_bind_jp]
    refine Runs.bind_r (runs_opt_setB _ buf _ ?_ ?_ s1) ?_
    · exact fun _ => ⟨rfl, rfl, rfl, rfl, rfl, rfl, rfl⟩
    · exact fun _ => ⟨rfl, fun h => h⟩
    intro _ s2 _ h2
    obtain ⟨hf2, hc2⟩ := h2
    have hf02 := hf1.trans_fl hf2
    have hI2 : Inv s2 := hc2.inv_sc (hc1.inv_sc hI)
    have hl2 : Linked s2 buf := (hc2.linked buf).mpr ((hc1.linked buf).mpr hl)
    refine Runs.getS_bind_r ?_
    refine relink_runs hI2 hl2 ⟨rfl, rfl, rfl, rfl, rfl, rfl⟩ ?_
    intro s3 hI3 hs3 hl3 hb3 hr3
    have hf3 : FlagRel s s3 := by
      refine hf02.trans_fl ⟨hr3, fun x => ?_, fun x hx => ?_⟩
      · rw [hb3]
        by_cases hx : x = buf
        · subst hx
          rw [upd_same]
        · rw [upd_other _ _ _ _ hx]
      · rw [hb3]
        by_cases hx' : x = buf
        · subst hx'
          rw [upd_same]
          exact hx
        · rw [upd_other _ _ _ _ hx']
          exact hx
    have hlist : (s.b buf).b_dirt = true → (s3.b buf).b_list = BUF_DIRTY := by
      intro hdirt
      rw [hb3, upd_same]
      show (if refile_dispose s buf = BUF_LOCKED ∧ _ then BUF_LOCKED1 else refile_dispose s buf) = _
      rw [refile_dispose_dirty hdirt, if_neg (fun h => by cases h.1)]
    refine Runs.getS_bind_r ?_
    refine Runs.ite_r (fun hw => ?_) fun _ => Runs.pure_r ⟨hf3, hlist⟩
    have hrun : s3.bdflush_running ≠ 0 := by
      rw [hf3.rest.bdflush_running]
      rcases hd with hd | hd
      · exact hd
      · exfalso
        exact refile_dispose_clean hd (locked1_dirty _ _ hw.1)
    unfold wakeup_bdflush
    refine Runs.getS_bind_r ?_
    rw [if_neg hrun, if_neg (by decide)]
    exact Runs.pure_r ⟨hf3, hlist⟩
  · refine Runs.pure_r ⟨hf1, fun hdirt => ?_⟩
    rw [hc1.b_list]
    rw [refile_dispose_dirty hdirt] at heq
    exact (not_not.mp heq).symm

/-- With the flush daemon running, or on a clean buffer, `brelse` on a linked head
returns; it touches neither the dirty flags nor the request layer, and a dirty buffer
ends on the DIRTY list. -/
theorem brelse_runs (fuel buf : Nat) (s : State) (hI : Inv s) (hl : Linked s buf)
    (hd : s.bdflush_running ≠ 0 ∨ (s.b buf).b_dirt = false) :
    Runs (brelse (fuel + 1) buf) s fun _ s' =>
      (∀ x, (s'.b x).b_dirt = (s.b x).b_dirt) ∧ s'.all_requests = s.all_requests ∧
        s'.request_fn_calls = s.request_fn_calls ∧
        ((s.b buf).b_dirt = true → (s'.b buf).b_list = BUF_DIRTY) := by
  have h0 : buf ≠ 0 := fun h => hI.zero_nowhere.2.1 _ (h ▸ hl)
  unfold brelse
  rw [if_neg h0]
  refine Runs.bind_r (wait_on_buffer_runs buf s) ?_
  intro _ s1 _ h1
  obtain ⟨hf1, hc1⟩ := h1
  refine Runs.bind_r (set_writetime_runs buf 0 s1) ?_
  intro _ s2 _ h2
  obtain ⟨hf2, hc2⟩ := h2
  have hf02 := hf1.trans_fl hf2
  have hI2 : Inv s2 := hc2.inv_sc (hc1.inv_sc hI)
  have hl2 : Linked s2 buf := (hc2.linked buf).mpr ((hc1.linked buf).mpr hl)
  have hd2 : s2.bdflush_running ≠ 0 ∨ (s2.b buf).b_dirt = false := by
    rw [hf02.rest.bdflush_running, hf02.dirt]
    exact hd
  refine Runs.bind_r (refile_runs fuel buf s2 hI2 hl2 hd2) ?_
  intro _ s3 _ h3
  obtain ⟨hf3, hl3⟩ := h3
  have hf03 := hf02.trans_fl hf3
  rw [hf02.dirt] at hl3
  refine Runs.getS_bind_r ?_
  refine Runs.ite_r (fun _ => Runs.setB_r ?_) fun _ => ?_
  · refine ⟨fun x => ?_, hf03.rest.all_requests, hf03.rest.request_fn_calls, fun hdirt => ?_⟩
    · rw [← hf03.dirt x]
      show (upd s3.b buf _ x).b_dirt = _
      by_cases hx : x = buf
      · subst hx
        rw [upd_same]
      · rw [upd_other _ _ _ _ hx]
    · show (upd s3.b buf _ buf).b_list = _
      rw [upd_same]
      exact hl3 hdirt
  · exact ⟨(), _, rfl, hf03.dirt, hf03.rest.all_requests, hf03.rest.request_fn_calls, hl3⟩

theorem find_buffer_loop_none (dev block size : Nat) (l : List Nat) (s : State)
    (h : ∀ x ∈ l, ¬ ((s.b x).b_dev = dev ∧ (s.b x).b_blocknr = block)) :
    find_buffer_loop dev block size l s = .ok 0 s := by
  induction l with
  | nil => rfl
  | cons tmp rest ih =>
    unfold find_buffer_loop
    simp only [bind_run, getS_run]
    rw [if_neg (h tmp (List.mem_cons_self _ _))]
    exact ih fun x hx => h x (List.mem_cons_of_mem _ hx)

/-- No descriptor is bound to `(dev, block)`: `find_buffer` returns the null pointer and
logs nothing. -/
theorem find_buffer_none (dev block size : Nat) (s : State) (h : ¬ BoundTo s dev block) :
    find_buffer dev block size s = .ok 0 s := by
  unfold find_buffer
  simp only [bind_run, getS_run]
  exact find_buffer_loop_none dev block size _ s fun x hx hk => h ⟨x, hx, hk.1, hk.2⟩

theorem find_buffer_loop_only (dev block size h : Nat) (l : List Nat) (s : State) (hm : h ∈ l)
    (hk : (s.b h).b_dev = dev ∧ (s.b h).b_blocknr = block ∧ (s.b h).b_size = size)
    (hu : ∀ x ∈ l, (s.b x).b_dev = dev → (s.b x).b_blocknr = block → x = h) :
    find_buffer_loop dev block size l s = .ok h s := by
  induction l with
  | nil => cases hm
  | cons tmp rest ih =>
    unfold find_buffer_loop
    simp only [bind_run, getS_run]
    by_cases h1 : (s.b tmp).b_dev = dev ∧ (s.b tmp).b_blocknr = block
    · have e := hu tmp (List.mem_cons_self _ _) h1.1 h1.2
      subst e
      rw [if_pos h1, if_pos hk.2.2]
      rfl
    · rw [if_neg h1]
      have hm' : h ∈ rest := by
        rcases List.mem_cons.mp hm with e | e
        · subst e
          exact absurd ⟨hk.1, hk.2.1⟩ h1
        · exact e
      exact ih hm' fun x hx => hu x (List.mem_cons_of_mem _ hx)

/-- The descriptor `h` is the only one bound to `(dev, block)` and has the size asked for:
`find_buffer` returns it. -/
theorem find_buffer_only (dev block size h : Nat) (s : State)
    (hm : h ∈ s.hash_table (_hashfn s dev block))
    (hk : (s.b h).b_dev = dev ∧ (s.b h).b_blocknr = block ∧ (s.b h).b_size = size)
    (hu : ∀ x ∈ s.hash_table (_hashfn s dev block),
      (s.b x).b_dev = dev → (s.b x).b_blocknr = block → x = h) :
    find_buffer dev block size s = .ok h s := by
  unfold find_buffer
  simp only [bind_run, getS_run]
  exact find_buffer_loop_only dev block size h _ s hm hk hu

/-- On a linked head `put_last_lru` returns; it changes no head. -/
theorem put_last_lru_runs (bh : Nat) (s : State) (hI : Inv s) (hl : Linked s bh) :
    Runs (put_last_lru bh) s fun _ s' =>
      FlagRel s s' ∧ s'.b = s.b ∧ s'.nr_free = s.nr_free ∧ s'.hash_table = s.hash_table := by
  have hd := hI.lru_dev _ _ hl
  have key : ∃ s', put_last_lru bh s = .ok () s' ∧ s'.b = s.b ∧ s'.nr_free = s.nr_free ∧
      s'.hash_table = s.hash_table := by
    unfold put_last_lru
    simp only [bind_run, getS_run, ite_run, pure_run, modS_run, kpanic_run, if_neg hd]
    split_ifs
    · exact ⟨_, rfl, rfl, rfl, rfl⟩
    · exact ⟨_, rfl, rfl, rfl, rfl⟩
    · have h1 := remove_from_lru_list_spec s bh hd fun y hy => (hI.carved_lru _ _ hy).1
      cases e1 : remove_from_lru_list bh s with
      | ok a s1 =>
        rw [e1] at h1
        exact ⟨_, rfl, h1.2.1, h1.2.2.2.2.1, h1.2.2.1⟩
      | panic p =>
        rw [e1] at h1
        exact (h1 hl).elim
      | hang =>
        rw [e1] at h1
        exact h1.elim
  obtain ⟨s', e, hb⟩ := key
  exact ⟨(), s', e, keeps_put_last_lru bh s () s' e, hb⟩

/-- The descriptor `h` is the only one bound to `(dev, block)` and has the size asked for:
`get_hash_table` returns it with one more reference, at the first turn. -/
theorem get_hash_table_hit (fuel dev block size h : Nat) (s : State) (h0 : h ≠ 0)
    (hm : h ∈ s.hash_table (_hashfn s dev block))
    (hk : (s.b h).b_dev = dev ∧ (s.b h).b_blocknr = block ∧ (s.b h).b_size = size)
    (hu : ∀ x ∈ s.hash_table (_hashfn s dev block),
      (s.b x).b_dev = dev → (s.b x).b_blocknr = block → x = h) :
    Runs (get_hash_table (fuel + 1) dev block size) s fun r s' =>
      r = h ∧ FlagRel s s' ∧
        SameCore (setB h (fun v => { v with b_count := v.b_count + 1 }) s).state s' := by
  unfold get_hash_table
  refine Runs.bind_r (R := fun r s' => h = r ∧ s = s')
    ⟨h, s, find_buffer_only dev block size h s hm hk hu, rfl, rfl⟩ ?_
  rintro _ _ _ ⟨rfl, rfl⟩
  rw [if_neg h0]
  refine Runs.setB_head_r fun s1 e1 => ?_
  have hf1 : FlagRel s s1 := by
    rw [e1]
    refine flagRel_setB s _ _ ?_ ?_
    · exact fun _ => rfl
    · exact fun _ h => h
  refine Runs.bind_r (wait_on_buffer_runs _ s1) ?_
  intro _ s2 _ h2
  obtain ⟨hf2, hc2⟩ := h2
  refine Runs.getS_bind_r ?_
  have hk2 : (s2.b h).b_dev = dev ∧ (s2.b h).b_blocknr = block ∧ (s2.b h).b_size = size := by
    rw [hc2.b_dev, hc2.b_blocknr, hc2.b_size, e1]
    show (upd s.b h _ h).b_dev = dev ∧ (upd s.b h _ h).b_blocknr = block ∧
      (upd s.b h _ h).b_size = size
    rw [upd_same]
    exact hk
  rw [if_pos hk2]
  refine Runs.pure_r ⟨rfl, hf1.trans_fl hf2, ?_⟩
  rw [← e1]
  exact hc2

/-- The hit path of `getblk`, from the label `repeat`. -/
theorem getblk_repeat_hit (fuel0 fuel dev block size h : Nat) (s : State) (hI : Inv s)
    (hm : h ∈ s.hash_table (_hashfn s dev block))
    (hk : (s.b h).b_dev = dev ∧ (s.b h).b_blocknr = block ∧ (s.b h).b_size = size)
    (hu : ∀ x ∈ s.hash_table (_hashfn s dev block),
      (s.b x).b_dev = dev → (s.b x).b_blocknr = block → x = h) :
    Runs (getblk_repeat (fuel0 + 1) dev block size (fuel + 1)) s fun r s' =>
      r = h ∧ FlagRel s s' ∧ (∀ x, (s'.b x).b_data = (s.b x).b_data) ∧
        s'.nr_free = s.nr_free ∧ s'.hash_table = s.hash_table := by
  have hl : Linked s h := (hI.hash_lru _ _ hm).1
  have h0 : h ≠ 0 := fun e => hI.zero_nowhere.2.1 _ (e ▸ hl)
  unfold getblk_repeat
  dsimp only
  refine Runs.bind_r ((get_hash_table_hit fuel0 dev block size h s h0 hm hk hu).post
    (get_hash_table_post _ _ _ _ s) hI) ?_
  intro r s2 _ hq
  obtain ⟨⟨e, hf2, hc2⟩, hI2, -⟩ := hq
  obtain rfl := e.symm
  rw [if_pos h0]
  have hl2 : Linked s2 h := by
    refine (hc2.linked h).mpr ?_
    show h ∈ s.lru_list (upd s.b h _ h).b_list
    rw [upd_same]
    exact hl
  have hd2 : ∀ x, (s2.b x).b_data = (s.b x).b_data := by
    intro x
    rw [hc2.b_data]
    show (upd s.b h _ x).b_data = _
    by_cases hx : x = h
    · subst hx
      rw [upd_same]
    · rw [upd_other _ _ _ _ hx]
  have hn2 : s2.nr_free = s.nr_free := hc2.nr_free
  have hh2 : s2.hash_table = s.hash_table := hc2.hash_table
  refine Runs.getS_bind_r ?_
  rw [ite_bind_jp]
  refine Runs.bind_r (R := fun _ s3 => FlagRel s2 s3 ∧ s3.b = s2.b ∧ s3.nr_free = s2.nr_free ∧
      s3.hash_table = s2.hash_table)
    (Runs.ite_r (fun _ => put_last_lru_runs h s2 hI2 hl2)
      fun _ => Runs.pure_r ⟨FlagRel.refl_fl s2, rfl, rfl, rfl⟩) ?_
  intro _ s3 _ h3
  obtain ⟨hf3, hb3, hn3, hh3⟩ := h3
  rw [ite_bind_jp]
  refine Runs.bind_r (runs_opt_setB _ h _ ?_ ?_ s3) ?_
  · exact fun _ => ⟨rfl, rfl, rfl, rfl, rfl, rfl, rfl⟩
  · exact fun _ => ⟨rfl, fun h => h⟩
  intro _ s4 _ h4
  obtain ⟨hf4, hc4⟩ := h4
  refine Runs.pure_r ⟨rfl, (hf2.trans_fl hf3).trans_fl hf4, fun x => ?_, ?_, ?_⟩
  · rw [hc4.b_data, hb3, hd2]
  · rw [hc4.nr_free, hn3, hn2]
  · rw [hc4.hash_table, hh3, hh2]

/-- The hit path of `getblk`: the descriptor `h` is the only one bound to `(dev, block)`
and has the size asked for.  The call returns `h`; it changes no dirty flag, no data area
and no free count, and leaves the request layer alone. -/
theorem getblk_hit_runs (fuel dev block size h : Nat) (s : State) (hI : Inv s)
    (hm : h ∈ s.hash_table (_hashfn s dev block))
    (hk : (s.b h).b_dev = dev ∧ (s.b h).b_blocknr = block ∧ (s.b h).b_size = size)
    (hu : ∀ x ∈ s.hash_table (_hashfn s dev block),
      (s.b x).b_dev = dev → (s.b x).b_blocknr = block → x = h) :
    Runs (getblk (fuel + 1) dev block size) s fun r s' =>
      r = h ∧ FlagRel s s' ∧ (∀ x, (s'.b x).b_data = (s.b x).b_data) ∧
        s'.nr_free = s.nr_free ∧ s'.hash_table = s.hash_table := by
  unfold getblk
  dsimp only
  refine Runs.modS_head_r fun s0 e0 => ?_
  have hc0 : SameCore s s0 := by
    rw [e0]
    exact sameCore_other s _ rfl rfl rfl rfl rfl rfl rfl rfl
  have hf0 : FlagRel s s0 := by
    rw [e0]
    exact flagRel_of_b rfl ⟨rfl, rfl, rfl, rfl, rfl⟩
  have hb0 : s0.b = s.b := by rw [e0]
  have hh0 : s0.hash_table = s.hash_table := hc0.hash_table
  have hn0 : _hashfn s0 dev block = _hashfn s dev block := by
    unfold _hashfn
    rw [hc0.nr_hash]
  refine (getblk_repeat_hit fuel fuel dev block size h s0 (hc0.inv_sc hI) ?_ ?_ ?_).mono_r ?_
  · rw [hh0, hn0]
    exact hm
  · rw [hb0]
    exact hk
  · rw [hh0, hn0, hb0]
    exact hu
  · intro r s' _ hq
    refine ⟨hq.1, hf0.trans_fl hq.2.1, fun x => ?_, ?_, ?_⟩
    · rw [hq.2.2.1, hb0]
    · rw [hq.2.2.2.1, hc0.nr_free]
    · rw [hq.2.2.2.2, hh0]

/-- Nothing is bound to `(dev, block)`: `get_hash_table` returns the null pointer. -/
theorem get_hash_table_miss (fuel dev block size : Nat) (s : State)
    (h : ¬ BoundTo s dev block) : get_hash_table (fuel + 1) dev block size s = .ok 0 s := by
  unfold get_hash_table
  simp only [bind_run, find_buffer_none dev block size s h]
  rfl

/-- The free list is not empty: the loop of `getblk` around `refill_freelist` is left at
once. -/
theorem getblk_refill_skip (fuel0 size fuel : Nat) (s : State)
    (h : s.free_list (BUFSIZE_INDEX size) ≠ []) : getblk_refill fuel0 size (fuel + 1) s = .ok () s := by
  unfold getblk_refill
  simp only [bind_run, getS_run, if_neg h]
  rfl

/-- A block size that is a multiple of 512 and has the index of a supported size is that
size. -/
theorem size_of_index (bsz size : Nat) (hs : Supported size) (ha : bsz % 512 = 0)
    (hi : BUFSIZE_INDEX bsz = BUFSIZE_INDEX size) : bsz = size := by
  have h9 : bsz >>> 9 = bsz / 512 := Nat.shiftRight_eq_div_pow bsz 9
  have key : ∀ k : Nat, buffersize_index k = 0 → k = 1 := by
    intro k hk
    unfold buffersize_index at hk
    split at hk <;> first | rfl | cases hk
  have key1 : ∀ k : Nat, buffersize_index k = 1 → k = 2 := by
    intro k hk
    unfold buffersize_index at hk
    split at hk <;> first | rfl | cases hk
  have key2 : ∀ k : Nat, buffersize_index k = 2 → k = 4 := by
    intro k hk
    unfold buffersize_index at hk
    split at hk <;> first | rfl | cases hk
  have key3 : ∀ k : Nat, buffersize_index k = 3 → k = 8 := by
    intro k hk
    unfold buffersize_index at hk
    split at hk <;> first | rfl | cases hk
  unfold BUFSIZE_INDEX at hi
  rcases hs with rfl | rfl | rfl | rfl
  · have := key _ hi
    omega
  · have := key1 _ hi
    omega
  · have := key2 _ hi
    omega
  · have := key3 _ hi
    omega

/-- A head on a free list is taken off it. -/
theorem remove_from_free_list_runs (s : State) (hI : Inv s) (i : Int) (bh : Nat)
    (hm : bh ∈ s.free_list i) :
    Runs (remove_from_free_list bh) s fun _ s' =>
      s'.b = s.b ∧ s'.hash_table = s.hash_table ∧ s'.lru_list = s.lru_list ∧
        s'.nr_hash = s.nr_hash ∧
        (∀ j, s'.nr_free j = if j = i then s.nr_free j - 1 else s.nr_free j) ∧
        (∀ j x, x ∈ s'.free_list j ↔ x ∈ s.free_list j ∧ x ≠ bh) ∧ SameRest s s' := by
  have hbd := hI.free_dev _ _ hm
  have hbs := hI.free_size _ _ hm
  have h1 := remove_from_free_list_spec s bh hbd (fun y hy => (hI.carved_free _ _ hy).1)
  rw [hbs] at h1
  cases e1 : remove_from_free_list bh s with
  | ok a s1 =>
    rw [e1] at h1
    obtain ⟨-, hb1, hh1, hl1, -, -, hnh1, hnf1, hfl1, -⟩ := h1
    refine ⟨a, s1, e1, hb1, hh1, hl1, hnh1, fun j => ?_, fun j x => ?_,
      (keeps_remove_from_free_list bh s a s1 e1).rest⟩
    · rw [hnf1, upd_apply]
      split_ifs with hj
      · rw [hj]
      · rfl
    · rw [hfl1, upd_apply]
      split_ifs with hj
      · rw [hj]
        exact mem_ring_remove _ _ _
      · refine ⟨fun hx => ⟨hx, fun e => hj ?_⟩, fun hx => hx.1⟩
        rw [← hI.free_size _ _ hx, e, hbs]
  | panic p =>
    rw [e1] at h1
    exact (h1 hm).elim
  | hang =>
    rw [e1] at h1
    exact h1.elim

/-- The miss path of `getblk`, from the label `repeat`, when the free list of the size is
not empty. -/
theorem getblk_repeat_miss (fuel0 fuel dev block size bh : Nat) (rest : List Nat) (s : State)
    (hI : Inv s) (hdf : dev ≠ B_FREE) (hnb : ¬ BoundTo s dev block)
    (hfl : s.free_list (BUFSIZE_INDEX size) = bh :: rest) :
    Runs (getblk_repeat (fuel0 + 1) dev block size (fuel + 1)) s fun r s' =>
      r = bh ∧ Fetched s s' bh dev block := by
  have hbm : bh ∈ s.free_list (BUFSIZE_INDEX size) := by
    rw [hfl]
    exact List.mem_cons_self _ _
  have hbd := hI.free_dev _ _ hbm
  have hbs := hI.free_size _ _ hbm
  unfold getblk_repeat
  dsimp only
  refine Runs.bind_r (R := fun r s' => 0 = r ∧ s = s')
    ⟨0, s, get_hash_table_miss fuel0 dev block size s hnb, rfl, rfl⟩ ?_
  rintro _ _ _ ⟨rfl, rfl⟩
  rw [if_neg (not_not.mpr rfl)]
  refine Runs.bind_r (R := fun _ s' => s = s')
    ⟨(), s, getblk_refill_skip _ size fuel0 s (by rw [hfl]; exact List.cons_ne_nil _ _), rfl⟩ ?_
  rintro _ _ _ rfl
  refine Runs.bind_r (R := fun r s' => 0 = r ∧ s = s')
    ⟨0, s, find_buffer_none dev block size s hnb, rfl, rfl⟩ ?_
  rintro _ _ _ ⟨rfl, rfl⟩
  rw [if_neg (not_not.mpr rfl)]
  refine Runs.getS_bind_r ?_
  simp only [hfl, List.headD_cons]
  refine Runs.bind_r (remove_from_free_list_runs s hI _ bh hbm) ?_
  intro _ s1 _ h1
  obtain ⟨hb1, hh1, hl1, hnh1, hnf1, hfl1, hr1⟩ := h1
  refine Runs.setB_head_r fun s2 e2 => ?_
  have hl2 : s2.lru_list = s.lru_list := by rw [e2]; exact hl1
  have hh2 : s2.hash_table = s.hash_table := by rw [e2]; exact hh1
  have hnh2 : s2.nr_hash = s.nr_hash := by rw [e2]; exact hnh1
  have hself : (s2.b bh).b_dev = dev ∧ (s2.b bh).b_blocknr = block ∧
      (s2.b bh).b_list = (s.b bh).b_list := by
    rw [e2]
    show (upd s1.b bh _ bh).b_dev = dev ∧ (upd s1.b bh _ bh).b_blocknr = block ∧
      (upd s1.b bh _ bh).b_list = (s.b bh).b_list
    rw [upd_same]
    exact ⟨rfl, rfl, by rw [hb1]⟩
  have hd2 : (s2.b bh).b_dev ≠ B_FREE := by
    rw [hself.1]
    exact hdf
  have hn2 : bh ∉ s2.lru_list (s2.b bh).b_list := by
    rw [hl2]
    exact fun hm => hI.lru_dev _ _ hm hbd
  obtain ⟨s3, e3, f3⟩ := insert_into_queues_lru s2 bh hd2 hn2
  have k3 := keeps_insert_into_queues bh s2 () s3 e3
  refine Runs.bind_r (R := fun _ s' => s3 = s') ⟨(), s3, e3, rfl⟩ ?_
  rintro _ _ _ rfl
  refine Runs.pure_r ⟨rfl, ?_, ?_, ?_, ?_, ?_, ?_, ?_⟩
  · rw [f3.b, e2]
    show upd s1.b bh _ = _
    rw [hb1]
  · rw [f3.nr_hash, hnh2]
  · intro k x
    rw [f3.hash, hh2, hself.1, hself.2.1]
    have : _hashfn s2 dev block = _hashfn s dev block := by
      unfold _hashfn
      rw [hnh2]
    rw [this]
  · intro l x
    rw [f3.lru, hl2, hself.2.2]
  · intro i
    rw [f3.nr_free, e2]
    show s1.nr_free i = _
    rw [hnf1, hbs]
  · intro i x
    rw [f3.free_list, e2]
    exact hfl1 i x
  · refine ⟨k3.rest.all_requests.trans ?_, k3.rest.current_request.trans ?_,
      k3.rest.request_fn_calls.trans ?_, k3.rest.klog.trans ?_,
      k3.rest.bdflush_running.trans ?_⟩
    · rw [e2]; exact hr1.all_requests
    · rw [e2]; exact hr1.current_request
    · rw [e2]; exact hr1.request_fn_calls
    · rw [e2]; exact hr1.klog
    · rw [e2]; exact hr1.bdflush_running

/-- The miss path of `getblk` when the free list of the size is not empty: the call
returns the first head of that list, bound to `(dev, block)`. -/
theorem getblk_miss_runs (fuel dev block size bh : Nat) (rest : List Nat) (s : State)
    (hI : Inv s) (hdf : dev ≠ B_FREE) (hnb : ¬ BoundTo s dev block)
    (hfl : s.free_list (BUFSIZE_INDEX size) = bh :: rest) :
    Runs (getblk (fuel + 1) dev block size) s fun r s' =>
      r = bh ∧ Fetched s s' bh dev block := by
  unfold getblk
  dsimp only
  refine Runs.modS_head_r fun s0 e0 => ?_
  have hc0 : SameCore s s0 := by
    rw [e0]
    exact sameCore_other s _ rfl rfl rfl rfl rfl rfl rfl rfl
  subst e0
  refine (getblk_repeat_miss fuel fuel dev block size bh rest _ (hc0.inv_sc hI) hdf hnb
    hfl).mono_r ?_
  intro r s' _ hq
  exact ⟨hq.1, hq.2.b, hq.2.nr_hash, hq.2.hash, hq.2.lru, hq.2.nr_free, hq.2.free,
    ⟨hq.2.rest.all_requests, hq.2.rest.current_request, hq.2.rest.request_fn_calls,
      hq.2.rest.klog, hq.2.rest.bdflush_running⟩⟩

/-- After `getblk` has bound the free head `bh` to `(dev, block)`, `find_buffer` finds
it. -/
theorem find_buffer_fetched {s s' : State} {bh dev block size : Nat} (hI : Inv s)
    (hf : Fetched s s' bh dev block) (hd0 : dev ≠ 0) (hs : Supported size)
    (hnb : ¬ BoundTo s dev block) (hm : bh ∈ s.free_list (BUFSIZE_INDEX size)) :
    find_buffer dev block size s' = .ok bh s' := by
  have hk : _hashfn s' dev block = _hashfn s dev block := by
    unfold _hashfn
    rw [hf.nr_hash]
  have hsz : (s.b bh).b_size = size :=
    size_of_index _ _ hs (hI.free_align _ _ hm) (hI.free_size _ _ hm)
  refine find_buffer_only dev block size bh s' ?_ ?_ ?_
  · rw [hk, hf.hash]
    exact Or.inr ⟨rfl, hd0, rfl⟩
  · rw [hf.b, upd_same]
    exact ⟨rfl, rfl, hsz⟩
  · intro x hx h1 h2
    by_contra hne
    rw [hk, hf.hash] at hx
    rcases hx with hx | hx
    · rw [hf.b, upd_other _ _ _ _ hne] at h1 h2
      exact hnb ⟨x, hx, h1, h2⟩
    · exact hne hx.1

theorem KeepsR.bind_R {R : State → State → Prop} (hR : Pre R) {α β : Type} {m : K α}
    {f : α → K β} (h : KeepsR R m) (h' : ∀ a, KeepsR R (f a)) : KeepsR R (m >>= f) := by
  intro s b s' e
  rw [bind_run] at e
  cases e1 : m s with
  | ok a s1 =>
    rw [e1] at e
    exact hR.trans _ _ _ (h s a s1 e1) (h' a s1 b s' e)
  | panic p => rw [e1] at e; cases e
  | hang => rw [e1] at e; cases e

theorem KeepsR.getS_bind_R {R : State → State → Prop} {β : Type} {f : State → K β}
    (h : ∀ s, KeepsR R (f s)) : KeepsR R (getS >>= f) := by
  intro s b s' e
  rw [bind_run, getS_run] at e
  exact h s s b s' e

theorem KeepsR.pure_R {R : State → State → Prop} (hR : Pre R) {α : Type} (a : α) :
    KeepsR R (pure a : K α) := by
  intro s b s' e
  cases e
  exact hR.refl s

theorem KeepsR.kpanic_R {R : State → State → Prop} {α : Type} (p : Panic) :
    KeepsR R (kpanic p : K α) := by
  intro s b s' e
  cases e

theorem KeepsR.khang_R {R : State → State → Prop} {α : Type} : KeepsR R (khang : K α) := by
  intro s b s' e
  cases e

theorem KeepsR.ite_R {R : State → State → Prop} {α : Type} {c : Prop} [Decidable c]
    {m m' : K α} (h : c → KeepsR R m) (h' : ¬ c → KeepsR R m') :
    KeepsR R (if c then m else m') := by
  split_ifs with hc
  · exact h hc
  · exact h' hc

theorem KeepsR.modS_R {R : State → State → Prop} (f : State → State) (h : ∀ s, R s (f s)) :
    KeepsR R (modS f) := by
  intro s b s' e
  cases e
  exact h s

theorem KeepsR.setB_R {R : State → State → Prop} (bh : Nat) (f : buffer_head → buffer_head)
    (h : ∀ s, R s (setB bh f s).state) : KeepsR R (setB bh f) := by
  intro s b s' e
  cases e
  exact h s

theorem KeepsR.setR_R {R : State → State → Prop} (req : Nat) (f : request → request)
    (h : ∀ s, R s (setR req f s).state) : KeepsR R (setR req f) := by
  intro s b s' e
  cases e
  exact h s

theorem KeepsR.mono_R {R R' : State → State → Prop} {α : Type} {m : K α} (h : KeepsR R m)
    (hm : ∀ s s', R s s' → R' s s') : KeepsR R' m :=
  fun s a s' e => hm s s' (h s a s' e)

theorem Refiled.pre_rf : Pre Refiled := by
  refine ⟨fun s => ⟨SameRest.refl_sr s, fun x => ⟨_, _, _, rfl⟩⟩, ?_⟩
  intro s s' s'' h h'
  refine ⟨h.rest.trans_sr h'.rest, fun x => ?_⟩
  obtain ⟨l, t, d, e⟩ := h.heads x
  obtain ⟨l', t', d', e'⟩ := h'.heads x
  exact ⟨l', t', d', by rw [e', e]⟩

/-- A state update that leaves the heads and what `SameRest` lists alone. -/
theorem refiled_of_b {s s' : State} (hb : s'.b = s.b) (hr : SameRest s s') : Refiled s s' :=
  ⟨hr, fun x => ⟨_, _, _, by rw [hb]⟩⟩

/-- A head gets a new `b_list`, `b_lru_time` or `b_dirt`. -/
theorem refiled_setB (s : State) (bh : Nat) (f : buffer_head → buffer_head)
    (hf : ∀ v, ∃ l t d, f v = { v with b_list := l, b_lru_time := t, b_dirt := d }) :
    Refiled s (setB bh f s).state := by
  refine ⟨⟨rfl, rfl, rfl, rfl, rfl⟩, fun x => ?_⟩
  show ∃ l t d, upd s.b bh (f (s.b bh)) x = _
  by_cases hx : x = bh
  · subst hx
    rw [upd_same]
    exact hf _
  · rw [upd_other _ _ _ _ hx]
    exact ⟨_, _, _, rfl⟩

theorem refiled_remove_from_queues (bh : Nat) : KeepsR Refiled (remove_from_queues bh) := by
  intro s a s' e
  have k := keeps_remove_from_queues bh s a s' e
  refine refiled_of_b ?_ k.rest
  revert e
  refine (?_ : KeepsR (fun s s' => s'.b = s.b) _) s a s'
  have hp : Pre (fun s s' : State => s'.b = s.b) :=
    ⟨fun _ => rfl, fun _ _ _ h h' => h'.trans h⟩
  unfold remove_from_queues
  refine KeepsR.getS_bind_R fun s0 => KeepsR.ite_R (fun _ => ?_) fun _ => ?_
  · unfold remove_from_free_list
    refine KeepsR.getS_bind_R fun _ => KeepsR.ite_R (fun _ => KeepsR.kpanic_R _) fun _ =>
      KeepsR.ite_R (fun _ => KeepsR.kpanic_R _) fun _ =>
      KeepsR.ite_R (fun _ => KeepsR.kpanic_R _) fun _ => KeepsR.modS_R _ fun _ => rfl
  · refine KeepsR.bind_R hp (KeepsR.modS_R _ fun _ => rfl) fun _ => ?_
    refine KeepsR.bind_R hp (KeepsR.modS_R _ fun _ => rfl) fun _ => ?_
    unfold remove_from_lru_list
    refine KeepsR.getS_bind_R fun _ => KeepsR.ite_R (fun _ => KeepsR.kpanic_R _) fun _ =>
      KeepsR.ite_R (fun _ => KeepsR.kpanic_R _) fun _ => KeepsR.modS_R _ fun _ => rfl

theorem refiled_insert_into_queues (bh : Nat) (s : State) (a : Unit) (s' : State)
    (hdev : (s.b bh).b_dev ≠ B_FREE) (e : insert_into_queues bh s = .ok a s') :
    Refiled s s' := by
  have k := keeps_insert_into_queues bh s a s' e
  refine refiled_of_b ?_ k.rest
  unfold insert_into_queues at e
  simp only [bind_run, getS_run, if_neg hdev] at e
  revert e
  refine (?_ : KeepsR (fun s s' => s'.b = s.b) _) s a s'
  have hp : Pre (fun s s' : State => s'.b = s.b) :=
    ⟨fun _ => rfl, fun _ _ _ h h' => h'.trans h⟩
  refine KeepsR.ite_R (fun _ => KeepsR.kpanic_R _) fun _ => ?_
  refine KeepsR.bind_R hp (KeepsR.modS_R _ fun _ => rfl) fun _ => ?_
  exact KeepsR.ite_R (fun _ => KeepsR.pure_R hp _) fun _ => KeepsR.modS_R _ fun _ => rfl

theorem KeepsR.at_R {R : State → State → Prop} {α : Type} {m : K α} (h : KeepsR R m)
    (s : State) : KeepsAt R m s := fun a s' e => h s a s' e

theorem KeepsAt.bind_A {R : State → State → Prop} (hR : Pre R) {α β : Type} {m : K α}
    {f : α → K β} {s : State} (h : KeepsAt R m s)
    (h' : ∀ a s1, m s = .ok a s1 → R s s1 → KeepsAt R (f a) s1) : KeepsAt R (m >>= f) s := by
  intro b s' e
  rw [bind_run] at e
  cases e1 : m s with
  | ok a s1 =>
    rw [e1] at e
    exact hR.trans _ _ _ (h a s1 e1) (h' a s1 e1 (h a s1 e1) b s' e)
  | panic p => rw [e1] at e; cases e
  | hang => rw [e1] at e; cases e

theorem KeepsAt.getS_bind_A {R : State → State → Prop} {β : Type} {f : State → K β}
    {s : State} (h : KeepsAt R (f s) s) : KeepsAt R (getS >>= f) s := by
  intro b s' e
  rw [bind_run, getS_run] at e
  exact h b s' e

theorem KeepsAt.pure_A {R : State → State → Prop} (hR : Pre R) {α : Type} (a : α) (s : State) :
    KeepsAt R (pure a : K α) s := by
  intro b s' e
  cases e
  exact hR.refl s

theorem KeepsAt.kpanic_A {R : State → State → Prop} {α : Type} (p : Panic) (s : State) :
    KeepsAt R (kpanic p : K α) s := by
  intro b s' e
  cases e

theorem KeepsAt.khang_A {R : State → State → Prop} {α : Type} (s : State) :
    KeepsAt R (khang : K α) s := by
  intro b s' e
  cases e

theorem KeepsAt.ite_A {R : State → State → Prop} {α : Type} {c : Prop} [Decidable c]
    {m m' : K α} {s : State} (h : c → KeepsAt R m s) (h' : ¬ c → KeepsAt R m' s) :
    KeepsAt R (if c then m else m') s := by
  split_ifs with hc
  · exact h hc
  · exact h' hc

theorem KeepsAt.mono_A {R R' : State → State → Prop} {α : Type} {m : K α} {s : State}
    (h : KeepsAt R m s) (hm : ∀ s', R s s' → R' s s') : KeepsAt R' m s :=
  fun a s' e => hm s' (h a s' e)

theorem Refiled.fields {s s' : State} (h : Refiled s s') (x : Nat) :
    (s'.b x).b_dev = (s.b x).b_dev ∧ (s'.b x).b_blocknr = (s.b x).b_blocknr ∧
      (s'.b x).b_size = (s.b x).b_size ∧ (s'.b x).b_count = (s.b x).b_count ∧
      (s'.b x).b_lock = (s.b x).b_lock ∧ (s'.b x).b_uptodate = (s.b x).b_uptodate ∧
      (s'.b x).b_reqnext = (s.b x).b_reqnext ∧ (s'.b x).b_data = (s.b x).b_data ∧
      (s'.b x).b_req = (s.b x).b_req ∧ (s'.b x).b_flushtime = (s.b x).b_flushtime := by
  obtain ⟨l, t, d, e⟩ := h.heads x
  rw [e]
  exact ⟨rfl, rfl, rfl, rfl, rfl, rfl, rfl, rfl, rfl, rfl⟩

/-- On a clean buffer `refile_buffer` does not wake the flush daemon: when it returns,
it has changed `b_list` and `b_lru_time` of heads and nothing of the request layer. -/
theorem refile_clean_refiled (fuel buf : Nat) (s : State) (hd : (s.b buf).b_dirt = false) :
    KeepsAt Refiled (refile_buffer fuel buf) s := by
  cases fuel with
  | zero => exact KeepsAt.khang_A s
  | succ fuel =>
    have hne := refile_dispose_clean hd
    have hp := Refiled.pre_rf
    show KeepsAt Refiled (refile_buffer_body (refile_buffer fuel) fuel buf) s
    unfold refile_buffer_body
    refine KeepsAt.getS_bind_A ?_
    refine KeepsAt.ite_A (fun _ => KeepsAt.kpanic_A _ _) fun hdev => ?_
    dsimp only
    rw [ite_bind_jp]
    refine KeepsAt.bind_A hp (KeepsAt.ite_A (fun _ => (KeepsR.setB_R _ _ fun s =>
      refiled_setB s _ _ fun v => ⟨_, _, _, rfl⟩).at_R s) fun _ => KeepsAt.pure_A hp _ _) ?_
    intro _ s1 _ h1
    refine KeepsAt.ite_A (fun _ => ?_) fun _ => KeepsAt.pure_A hp _ _
    rw [ite_bind_jp]
    refine KeepsAt.bind_A hp (KeepsAt.ite_A (fun _ => (KeepsR.setB_R _ _ fun s =>
      refiled_setB s _ _ fun v => ⟨_, _, _, rfl⟩).at_R s1) fun _ => KeepsAt.pure_A hp _ _) ?_
    intro _ s2 _ h2
    refine KeepsAt.getS_bind_A ?_
    refine KeepsAt.bind_A hp ((refiled_remove_from_queues buf).at_R s2) ?_
    intro _ s3 _ h3
    refine KeepsAt.bind_A hp ((KeepsR.setB_R _ _ fun s =>
      refiled_setB s _ _ fun v => ⟨_, _, _, rfl⟩).at_R s3) ?_
    intro _ s4 _ h4
    have hd4 : (s4.b buf).b_dev ≠ B_FREE := by
      rw [(h4.fields buf).1, (h3.fields buf).1, (h2.fields buf).1, (h1.fields buf).1]
      exact hdev
    refine KeepsAt.bind_A hp (fun a s' e => refiled_insert_into_queues buf s4 a s' hd4 e) ?_
    intro _ s5 _ h5
    refine KeepsAt.getS_bind_A ?_
    rw [if_neg fun hw => hne (locked1_dirty _ _ hw.1)]
    exact KeepsAt.pure_A hp _ _

/-- The buffer is marked clean and re-filed: `b_dirt`, `b_list` and `b_lru_time` of heads
change, nothing of the request layer does. -/
theorem mark_buffer_clean_refiled (fuel bh : Nat) :
    KeepsR Refiled (mark_buffer_clean (refile_buffer fuel) bh) := by
  intro s
  have hp := Refiled.pre_rf
  show KeepsAt Refiled _ s
  unfold mark_buffer_clean
  refine KeepsAt.getS_bind_A ?_
  refine KeepsAt.ite_A (fun _ => ?_) fun _ => KeepsAt.pure_A hp _ _
  refine KeepsAt.bind_A hp ((KeepsR.setB_R _ _ fun s =>
    refiled_setB s _ _ fun v => ⟨_, _, _, rfl⟩).at_R s) ?_
  intro _ s1 e1 h1
  refine KeepsAt.ite_A (fun _ => ?_) fun _ => KeepsAt.pure_A hp _ _
  refine refile_clean_refiled fuel bh s1 ?_
  cases e1
  show (upd s.b bh _ bh).b_dirt = false
  rw [upd_same]

theorem bind_inv {α β : Type} {m : K α} {f : α → K β} {s s' : State} {b : β}
    (e : (m >>= f) s = .ok b s') : ∃ a s1, m s = .ok a s1 ∧ f a s1 = .ok b s' := by
  rw [bind_run] at e
  cases e1 : m s with
  | ok a s1 =>
    rw [e1] at e
    exact ⟨a, s1, rfl, e⟩
  | panic p => rw [e1] at e; cases e
  | hang => rw [e1] at e; cases e

theorem add_request_insert_congr (s s' : State) (h : s'.all_requests = s.all_requests)
    (req : Nat) : ∀ (rest : List Nat) (tmp : Nat),
      add_request_insert s' req tmp rest = add_request_insert s req tmp rest := by
  intro rest
  induction rest with
  | nil => intro tmp; rfl
  | cons nxt more ih =>
    intro tmp
    unfold add_request_insert
    rw [h, ih nxt]

theorem refiled_add_request_kstat (rdev : Nat) : KeepsR Refiled (add_request_kstat rdev) := by
  unfold add_request_kstat
  refine KeepsR.modS_R _ fun s => ?_
  dsimp only
  split_ifs <;> exact refiled_of_b rfl ⟨rfl, rfl, rfl, rfl, rfl⟩

/-- What `add_request` does to the queue of the device: the request slots stay as they
are, `req` is put into the queue behind the head, the heads of buffers change only in
`b_dirt`, `b_list` and `b_lru_time`, and the driver is called when the queue was empty or
the device is a SCSI device. -/
theorem add_request_queue (fuel major req : Nat) (s s' : State)
    (e : add_request (refile_buffer fuel) major req s = .ok () s') :
    s'.all_requests = s.all_requests ∧
      s'.current_request = upd s.current_request major (queue_add s major req) ∧
      s'.request_fn_calls = s.request_fn_calls ++
        (if s.current_request major = [] ∨
            scsi_major (MAJOR (s.all_requests req).dev.toNat) = true then [major] else []) ∧
      ∀ x, ∃ l t d, s'.b x = { (s.b x) with b_list := l, b_lru_time := t, b_dirt := d } := by
  unfold add_request at e
  rw [bind_run, getS_run] at e
  obtain ⟨_, s0, e0, e⟩ := bind_inv e
  have h0 := refiled_add_request_kstat _ s _ s0 e0
  dsimp only at e
  rw [ite_bind_jp] at e
  obtain ⟨_, s1, e1, e⟩ := bind_inv e
  have h1 : Refiled s0 s1 := by
    revert e1
    refine (?_ : KeepsR Refiled _) s0 _ s1
    exact KeepsR.ite_R (fun _ => mark_buffer_clean_refiled fuel _)
      fun _ => KeepsR.pure_R Refiled.pre_rf _
  have h01 := Refiled.pre_rf.trans _ _ _ h0 h1
  obtain ⟨sq, _, eq, e⟩ := bind_inv e
  cases eq
  have hq : s1.current_request = s.current_request := h01.rest.current_request
  have hr : s1.all_requests = s.all_requests := h01.rest.all_requests
  have hc : s1.request_fn_calls = s.request_fn_calls := h01.rest.request_fn_calls
  unfold queue_add
  cases hm : s.current_request major with
  | nil =>
    rw [hq, hm] at e
    simp only [bind_run, modS_run, call_request_fn] at e
    cases e
    refine ⟨hr, ?_, ?_, h01.heads⟩
    · show upd s1.current_request major [req] = _
      rw [hq]
    · show s1.request_fn_calls ++ [major] = _
      rw [hc, if_pos (Or.inl rfl)]
  | cons tmp rest =>
    rw [hq, hm] at e
    simp only [bind_run, modS_run] at e
    by_cases hs : scsi_major (MAJOR (s.all_requests req).dev.toNat) = true
    · rw [if_pos (by rw [hr]; exact hs)] at e
      simp only [call_request_fn, modS_run] at e
      cases e
      refine ⟨hr, ?_, ?_, h01.heads⟩
      · show upd s1.current_request major (tmp :: add_request_insert s1 req tmp rest) = _
        rw [hq, add_request_insert_congr s s1 hr]
      · show s1.request_fn_calls ++ [major] = _
        rw [hc, if_pos (Or.inr hs)]
    · rw [if_neg (by rw [hr]; exact hs)] at e
      cases e
      refine ⟨hr, ?_, ?_, h01.heads⟩
      · show upd s1.current_request major (tmp :: add_request_insert s1 req tmp rest) = _
        rw [hq, add_request_insert_congr s s1 hr]
      · show s1.request_fn_calls = _
        rw [hc, if_neg (fun h => h.elim (fun h => by cases h) hs)]
        simp

theorem runs_add_request_kstat (rdev : Nat) (s : State) :
    Runs (add_request_kstat rdev) s fun _ s' => SameCore s s' := by
  have h := quiet_add_request_kstat rdev s
  unfold add_request_kstat at h ⊢
  exact ⟨(), _, rfl, h⟩

/-- The function `mark_buffer_clean` returns on a linked buffer. -/
theorem mark_buffer_clean_runs (fuel bh : Nat) (s : State) (hI : Inv s) (hl : Linked s bh) :
    Runs (mark_buffer_clean (refile_buffer (fuel + 1)) bh) s fun _ _ => True := by
  unfold mark_buffer_clean
  refine Runs.getS_bind_r ?_
  refine Runs.ite_r (fun _ => ?_) fun _ => Runs.pure_r trivial
  refine Runs.setB_head_r fun s1 e1 => ?_
  have hc1 : SameCore s s1 := by
    rw [e1]
    exact sameCore_setB s bh _ rfl rfl rfl rfl rfl rfl rfl
  refine Runs.ite_r (fun _ => ?_) fun _ => Runs.pure_r trivial
  refine (refile_runs fuel bh s1 (hc1.inv_sc hI) ((hc1.linked bh).mpr hl) (Or.inr ?_)).mono_r
    fun _ _ _ _ => trivial
  rw [e1]
  show (upd s.b bh _ bh).b_dirt = false
  rw [upd_same]

/-- The function `add_request` returns when the request carries no buffer or a linked
one. -/
theorem add_request_runs (fuel major req : Nat) (s : State) (hI : Inv s)
    (hb : (s.all_requests req).bh = 0 ∨ Linked s (s.all_requests req).bh) :
    ∃ s', add_request (refile_buffer (fuel + 1)) major req s = .ok () s' := by
  have key : Runs (add_request (refile_buffer (fuel + 1)) major req) s fun _ _ => True := by
    unfold add_request
    refine Runs.getS_bind_r ?_
    refine Runs.bind_r (runs_add_request_kstat _ s) ?_
    intro _ s0 _ hc0
    dsimp only
    rw [ite_bind_jp]
    refine Runs.bind_r (R := fun _ _ => True) (Runs.ite_r (fun h0 => ?_)
      fun _ => Runs.pure_r trivial) ?_
    · refine mark_buffer_clean_runs fuel _ s0 (hc0.inv_sc hI) ((hc0.linked _).mpr ?_)
      exact hb.resolve_left h0
    intro _ s1 _ _
    refine Runs.getS_bind_r ?_
    cases s1.current_request major with
    | nil => exact ⟨(), _, rfl, trivial⟩
    | cons tmp rest =>
      dsimp only
      refine Runs.modS_head_r fun s2 _ => ?_
      exact Runs.ite_r (fun _ => ⟨(), _, rfl, trivial⟩) fun _ => Runs.pure_r trivial
  obtain ⟨_, s', e, _⟩ := key
  exact ⟨s', e⟩

theorem add_request_insert_sublist (s : State) (req : Nat) :
    ∀ (rest : List Nat) (tmp : Nat), rest.Sublist (add_request_insert s req tmp rest) := by
  intro rest
  induction rest with
  | nil => intro tmp; exact List.nil_sublist _
  | cons nxt more ih =>
    intro tmp
    unfold add_request_insert
    split_ifs
    · exact List.sublist_cons_self _ _
    · exact (ih nxt).cons₂ _

theorem add_request_insert_length (s : State) (req : Nat) :
    ∀ (rest : List Nat) (tmp : Nat),
      (add_request_insert s req tmp rest).length = rest.length + 1 := by
  intro rest
  induction rest with
  | nil => intro tmp; rfl
  | cons nxt more ih =>
    intro tmp
    unfold add_request_insert
    split_ifs
    · rfl
    · rw [List.length_cons, ih nxt, List.length_cons]

theorem add_request_insert_count (s : State) (req : Nat) :
    ∀ (rest : List Nat) (tmp : Nat), req ∉ rest →
      (add_request_insert s req tmp rest).count req = 1 := by
  intro rest
  induction rest with
  | nil => intro tmp _; simp [add_request_insert]
  | cons nxt more ih =>
    intro tmp hn
    have h1 : req ≠ nxt := fun h => hn (h ▸ List.mem_cons_self _ _)
    have h2 : req ∉ more := fun h => hn (List.mem_cons_of_mem _ h)
    unfold add_request_insert
    split_ifs
    · rw [List.count_cons_self, List.count_eq_zero_of_not_mem hn]
    · rw [List.count_cons, ih nxt h2]
      simp [Ne.symm h1]

/-- A sorted queue, head included, stays sorted when the new request sorts after the head
and is comparable with every queued request. -/
theorem add_request_insert_sorted (s : State) (req : Nat) :
    ∀ (rest : List Nat) (tmp : Nat), List.Chain' (InOrder s) (tmp :: rest) → InOrder s tmp req →
      (∀ x ∈ rest, InOrder s x req ∨ InOrder s req x) →
      List.Chain' (InOrder s) (tmp :: add_request_insert s req tmp rest) := by
  intro rest
  induction rest with
  | nil =>
    intro tmp _ h _
    exact List.chain'_cons.mpr ⟨h, List.chain'_singleton _⟩
  | cons nxt more ih =>
    intro tmp hc h hd
    have hc' := List.chain'_cons.mp hc
    unfold add_request_insert
    split_ifs with hcond
    · have h3 : InOrder s req nxt := by
        simp only [Bool.and_eq_true] at hcond
        exact hcond.2
      exact List.chain'_cons.mpr ⟨h, List.chain'_cons.mpr ⟨h3, hc'.2⟩⟩
    · have h3 : ¬ InOrder s req nxt := by
        intro h3
        apply hcond
        unfold InOrder at h h3
        simp only [Bool.and_eq_true, Bool.or_eq_true]
        exact ⟨Or.inl h, h3⟩
      have h4 : InOrder s nxt req := (hd nxt (List.mem_cons_self _ _)).resolve_right h3
      exact List.chain'_cons.mpr ⟨hc'.1,
        ih nxt hc'.2 h4 fun x hx => hd x (List.mem_cons_of_mem _ hx)⟩

/-- The requests behind the head stay sorted when the new request is comparable with each
of them and either sorts after the head or the head does not sort before its
successor. -/
theorem add_request_insert_rest_sorted (s : State) (req tmp : Nat) (rest : List Nat)
    (hc : List.Chain' (InOrder s) rest)
    (hd : ∀ x ∈ rest, InOrder s x req ∨ InOrder s req x)
    (hh : InOrder s tmp req ∨ ∀ nxt ∈ rest.head?, ¬ InOrder s tmp nxt) :
    List.Chain' (InOrder s) (add_request_insert s req tmp rest) := by
  cases rest with
  | nil => exact List.chain'_singleton _
  | cons nxt more =>
    have hfirst : (IN_ORDER (s.all_requests tmp) (s.all_requests req) ||
        !IN_ORDER (s.all_requests tmp) (s.all_requests nxt)) = true := by
      rcases hh with hh | hh
      · unfold InOrder at hh
        rw [hh]
        rfl
      · have := hh nxt rfl
        unfold InOrder at this
        simp only [Bool.not_eq_true] at this
        rw [this]
        simp
    unfold add_request_insert
    rw [hfirst, Bool.true_and]
    split_ifs with h3
    · exact List.chain'_cons.mpr ⟨h3, hc⟩
    · have h4 : InOrder s nxt req := (hd nxt (List.mem_cons_self _ _)).resolve_right h3
      exact add_request_insert_sorted s req more nxt hc h4
        fun x hx => hd x (List.mem_cons_of_mem _ hx)

/-! ## Concrete states -/

theorem Res.eq_ok {α : Type} [Inhabited α] (r : Res α) (h : r.isOk = true) :
    r = .ok r.val r.state := by
  cases r with
  | ok a s => rfl
  | panic p => simp [Res.isOk] at h
  | hang => simp [Res.isOk] at h

theorem Res.eq_ok_unit (r : Res Unit) (h : r.isOk = true) : r = .ok () r.state := by
  cases r with
  | ok a s => rfl
  | panic p => simp [Res.isOk] at h
  | hang => simp [Res.isOk] at h

theorem boot3_empty : Initial boot3 :=
  ⟨⟨fun _ => rfl, fun _ => rfl, fun _ => rfl, rfl, rfl, fun _ => rfl⟩, fun _ => rfl, fun _ => rfl, fun _ _ => rfl, rfl⟩

theorem boot3_init_reachable : Reachable boot3_init :=
  Reachable.buffer_init _ _ 10 boot3_empty (Res.eq_ok_unit (buffer_init 10 boot3) (by decide!))

theorem boot3_1024_reachable : Reachable boot3_1024 :=
  Reachable.getblk boot3_init _ 10 1 10 1024 _ boot3_init_reachable (by decide)
    (Res.eq_ok (getblk 10 1 10 1024 boot3_init) (by decide!))

theorem boot3_512_reachable : Reachable boot3_512 :=
  Reachable.getblk boot3_1024 _ 10 1 10 512 _ boot3_1024_reachable (by decide)
    (Res.eq_ok (getblk 10 1 10 512 boot3_1024) (by decide!))

theorem boot3_released_reachable : Reachable boot3_released :=
  Reachable.brelse boot3_1024 _ 10 61 boot3_1024_reachable
    (Res.eq_ok_unit (brelse 10 61 boot3_1024) (by decide!))

theorem disk2_two_reachable : Reachable disk2_two := by
  have h0 : Reachable disk2_init :=
    Reachable.buffer_init disk2 _ 10
      ⟨⟨fun _ => rfl, fun _ => rfl, fun _ => rfl, rfl, rfl, fun _ => rfl⟩, fun _ => rfl, fun _ => rfl, fun _ _ => rfl, rfl⟩
      (Res.eq_ok_unit (buffer_init 10 disk2) (by decide!))
  have h1 := Reachable.getblk disk2_init _ 10 0x301 1 1024 _ h0 (by decide)
    (Res.eq_ok (getblk 10 0x301 1 1024 disk2_init) (by decide!))
  have h2 : Reachable disk2_dirty := Reachable.mark_buffer_dirty _ _ 10 61 0 h1
    (Res.eq_ok_unit (mark_buffer_dirty 10 61 0 (getblk 10 0x301 1 1024 disk2_init).state)
      (by decide!))
  exact Reachable.getblk disk2_dirty _ 10 0x301 2 1024 _ h2 (by decide)
    (Res.eq_ok (getblk 10 0x301 2 1024 disk2_dirty) (by decide!))

theorem disk2_marked_inv : Inv disk2_marked := by
  have hq : Quiet (setB 62 (fun h => { h with b_dirt := true }) >>= fun _ => set_writetime 62 0) :=
    Quiet.bind_q (quiet_setB_flag _ _ fun _ => ⟨rfl, rfl, rfl, rfl, rfl, rfl, rfl⟩)
      fun _ => quiet_set_writetime 62 0
  exact hq.inv_ok (reachable_inv disk2_two_reachable) (Res.eq_ok_unit _ (by decide!))

theorem daemon3_dirty_reachable : Reachable daemon3_dirty := by
  have h0 : Reachable (buffer_init 10 daemon3).state :=
    Reachable.buffer_init daemon3 _ 10
      ⟨⟨fun _ => rfl, fun _ => rfl, fun _ => rfl, rfl, rfl, fun _ => rfl⟩, fun _ => rfl, fun _ => rfl, fun _ _ => rfl, rfl⟩
      (Res.eq_ok_unit (buffer_init 10 daemon3) (by decide!))
  have h1 := Reachable.getblk _ _ 10 1 10 1024 _ h0 (by decide)
    (Res.eq_ok (getblk 10 1 10 1024 (buffer_init 10 daemon3).state) (by decide!))
  exact Reachable.mark_buffer_dirty _ _ 10 61 0 h1
    (Res.eq_ok_unit (mark_buffer_dirty 10 61 0 (getblk 10 1 10 1024 (buffer_init 10 daemon3).state).state)
      (by decide!))

/-- C1 (evaluation at the failing input): from the empty cache, `buffer_init`,
`getblk(1, 10, 1024)` and `getblk(1, 10, 512)` reach a state in which two
different descriptors are hashed under the same device and block. -/
theorem two_descriptors_same_block :
    ∃ s a b, Reachable s ∧ a ≠ b ∧ Hashed s a ∧ Hashed s b ∧
      (s.b a).b_dev = (s.b b).b_dev ∧ (s.b a).b_blocknr = (s.b b).b_blocknr := by
  refine ⟨boot3_512, (getblk 10 1 10 1024 boot3_init).val,
    (getblk 10 1 10 512 boot3_1024).val, boot3_512_reachable, ?_⟩
  decide!

/-- C5 (evaluation at the failing input): with a 1024-byte descriptor bound to
(1, 10), `getblk(1, 10, 512)` logs the wrong block size and then returns a second
descriptor, of 512 bytes, bound to (1, 10) as well. -/
theorem getblk_other_size_returns_descriptor :
    (match getblk 10 1 10 512 boot3_1024 with
      | .ok b s =>
        decide (BoundTo boot3_1024 1 10 ∧ b ≠ 0 ∧ Hashed s b ∧ (s.b b).b_dev = 1 ∧
          (s.b b).b_blocknr = 10 ∧ (s.b b).b_size = 512 ∧ (s.b b).b_count = 1 ∧
          Kmsg.wrong_blocksize 1 ∈ s.klog)
      | _ => false) = true := by
  decide!

/-- C2: in every reachable cache state no descriptor with `b_count > 0` is on a free
list, and a call of `getblk`, `refill_freelist`, `try_to_free` or `try_to_reassign`
(for a device other than the free marker `0xffff`) that returns has left `b_dev` and
`b_blocknr` of every descriptor with `b_count > 0` as they were, and has not lowered
its `b_count` (`KeepRef`). -/
theorem referenced_descriptor_safe (s : State) (hr : Reachable s) :
    (∀ x, 0 < (s.b x).b_count → ¬ OnFreeList s x) ∧
      (∀ fuel dev block size h s', dev ≠ B_FREE →
        getblk fuel dev block size s = .ok h s' → KeepRef s s') ∧
      (∀ fuel size s', refill_freelist fuel size s = .ok () s' → KeepRef s s') ∧
      (∀ fuel bh r s', try_to_free fuel bh s = .ok r s' → KeepRef s s') ∧
      (∀ fuel bh dev block r s', dev ≠ B_FREE →
        try_to_reassign fuel bh dev block s = .ok r s' → KeepRef s s') := by
  have hI := reachable_inv hr
  refine ⟨?_, ?_, ?_, ?_, ?_⟩
  · rintro x hx ⟨i, hi⟩
    have := hI.free_count i x hi
    omega
  · intro fuel dev block size h s' hd e
    exact ((getblk_post fuel dev block size hd s).ok hI e).2.1.keepRef_tk
  · intro fuel size s' e
    exact ((refill_freelist_post fuel size s).ok hI e).2.keepRef
  · intro fuel bh r s' e
    exact ((try_to_free_post fuel bh s).ok hI e).2.1.keepRef
  · intro fuel bh dev block r s' hd e
    exact ((try_to_reassign_post fuel bh dev block hd s).ok hI e).2.keepRef

theorem referenced_descriptor_safe_witness :
    Reachable boot3_1024 ∧ (∃ x, 0 < (boot3_1024.b x).b_count) ∧
      ∀ x, 0 < (boot3_1024.b x).b_count → ¬ OnFreeList boot3_1024 x :=
  ⟨boot3_1024_reachable, ⟨(getblk 10 1 10 1024 boot3_init).val, by decide!⟩,
    (referenced_descriptor_safe boot3_1024 boot3_1024_reachable).1⟩

/-- C8 (counterexample): head 61 of the cache after `buffer_init` has `b_count = 0` and
is on the free list; `brelse` on it does not return: `refile_buffer` stops the system
with the panic "Attempt to refile free buffer". -/
theorem brelse_free_descriptor_panics :
    Reachable boot3_init ∧ (boot3_init.b 61).b_count = 0 ∧ OnFreeList boot3_init 61 ∧
      (brelse 10 61 boot3_init).panicked = some Panic.refile_free_buffer :=
  ⟨boot3_init_reachable, by decide!, ⟨1, by decide!⟩, by decide!⟩

/-- C8 (amended): in a state that satisfies the structural invariant, for a descriptor on
a disposition list whose `b_count` is 0, `brelse` never panics; when it returns it has
logged "VFS: brelse: Trying to free free buffer" last and `b_count` is still 0; and it
does return (with one unit of fuel for the call of `refile_buffer`) when the flush daemon
is running or the buffer is clean. -/
theorem brelse_unreferenced_logged (fuel buf : Nat) (s : State) (hI : Inv s)
    (hl : Linked s buf) (hc : (s.b buf).b_count = 0) :
    (∀ p, brelse fuel buf s ≠ .panic p) ∧
      (∀ s', brelse fuel buf s = .ok () s' →
        s'.klog.getLast? = some Kmsg.brelse_free_free ∧ (s'.b buf).b_count = 0) ∧
      (s.bdflush_running ≠ 0 ∨ (s.b buf).b_dirt = false →
        ∃ s', brelse (fuel + 1) buf s = .ok () s') := by
  have h0 : buf ≠ 0 := fun h => hI.zero_nowhere.2.1 _ (h ▸ hl)
  refine ⟨fun p e => ?_, fun s' e => ?_, fun hd => ?_⟩
  · have h := brelse_post fuel buf s hI
    rw [e] at h
    exact h hl
  · have h := (brelse_post fuel buf s).ok hI e
    rcases h.2 with h | h
    · exact absurd h.1 h0
    · refine ⟨h.2.2 hc, ?_⟩
      rw [h.2.1.b_count, if_pos rfl, hc]
  · obtain ⟨_, s', e, _⟩ := brelse_runs fuel buf s hI hl hd
    exact ⟨s', e⟩

/-- Witness for C8: head 61, released once after `getblk(1, 10, 1024)`, is on the CLEAN
list with `b_count = 0`; one more `brelse` on it returns. -/
theorem brelse_unreferenced_logged_witness :
    Linked boot3_released 61 ∧ (boot3_released.b 61).b_count = 0 ∧
      ∃ s', brelse 11 61 boot3_released = .ok () s' :=
  ⟨by decide!, by decide!,
    (brelse_unreferenced_logged 10 61 boot3_released (reachable_inv boot3_released_reachable)
      (by decide!) (by decide!)).2.2 (Or.inr (by decide!))⟩

/-- C10 (counterexample): with no flush daemon and a second dirty buffer in a cache of
four, the bound descriptor 62 has its dirty flag set, yet `refile_buffer` (and `brelse`)
return with the descriptor on the LOCKED1 list and not on the DIRTY list: the share of
dirty buffers is over `nfract`, so `wakeup_bdflush` writes the dirty buffers out at
once, and the descriptor is no longer dirty when the call returns. -/
theorem dirty_refiled_onto_locked_list :
    Inv disk2_marked ∧ Hashed disk2_marked 62 ∧ (disk2_marked.b 62).b_dirt = true ∧
      (refile_buffer 10 62 disk2_marked).isOk = true ∧
      ((refile_buffer 10 62 disk2_marked).state.b 62).b_list = BUF_LOCKED1 ∧
      62 ∉ (refile_buffer 10 62 disk2_marked).state.lru_list BUF_DIRTY ∧
      (brelse 10 62 disk2_marked).isOk = true ∧
      ((brelse 10 62 disk2_marked).state.b 62).b_list = BUF_LOCKED1 ∧
      62 ∉ (brelse 10 62 disk2_marked).state.lru_list BUF_DIRTY ∧
      ((refile_buffer 10 62 disk2_marked).state.b 62).b_dirt = false ∧
      ((brelse 10 62 disk2_marked).state.b 62).b_dirt = false :=
  ⟨disk2_marked_inv, by decide!, by decide!, by decide!, by decide!, by decide!, by decide!,
    by decide!, by decide!, by decide!, by decide!⟩

theorem disk2_dirty_reachable : Reachable disk2_dirty := by
  have h0 : Reachable disk2_init :=
    Reachable.buffer_init disk2 _ 10
      ⟨⟨fun _ => rfl, fun _ => rfl, fun _ => rfl, rfl, rfl, fun _ => rfl⟩, fun _ => rfl, fun _ => rfl, fun _ _ => rfl, rfl⟩
      (Res.eq_ok_unit (buffer_init 10 disk2) (by decide!))
  have h1 := Reachable.getblk disk2_init _ 10 0x301 1 1024 _ h0 (by decide)
    (Res.eq_ok (getblk 10 0x301 1 1024 disk2_init) (by decide!))
  exact Reachable.mark_buffer_dirty _ _ 10 61 0 h1
    (Res.eq_ok_unit (mark_buffer_dirty 10 61 0 (getblk 10 0x301 1 1024 disk2_init).state)
      (by decide!))

theorem disk2_written_reachable : Reachable disk2_written := by
  have h1 := Reachable.brelse disk2_dirty _ 10 61 disk2_dirty_reachable
    (Res.eq_ok_unit (brelse 10 61 disk2_dirty) (by decide!))
  have h2 := Reachable.getblk _ _ 10 0x301 2 1024 _ h1 (by decide)
    (Res.eq_ok (getblk 10 0x301 2 1024 (brelse 10 61 disk2_dirty).state) (by decide!))
  have h3 := Reachable.mark_buffer_dirty _ _ 10 62 0 h2
    (Res.eq_ok_unit (mark_buffer_dirty 10 62 0
      (getblk 10 0x301 2 1024 (brelse 10 61 disk2_dirty).state).state) (by decide!))
  exact Reachable.end_buffer_io _ _ 61 h3 (Res.eq_ok_unit (end_buffer_io 61 _) (by decide!))

theorem disk2_reclaimed_reachable : Reachable disk2_reclaimed := by
  have h1 := Reachable.refill_freelist disk2_written _ 20 1024 disk2_written_reachable
    (Res.eq_ok_unit (refill_freelist 20 1024 disk2_written) (by decide!))
  have h2 := Reachable.getblk _ _ 10 0x301 3 1024 _ h1 (by decide)
    (Res.eq_ok (getblk 10 0x301 3 1024 (refill_freelist 20 1024 disk2_written).state)
      (by decide!))
  exact Reachable.getblk _ _ 10 0x301 4 1024 _ h2 (by decide)
    (Res.eq_ok (getblk 10 0x301 4 1024 (getblk 10 0x301 3 1024
      (refill_freelist 20 1024 disk2_written).state).state) (by decide!))

/-- Two calls of `getblk` for a block that no descriptor is bound to.  For device 0,
`getblk(0, 10, 1024)` on the cache after `buffer_init` returns head 61, which
`find_buffer(0, 10, 1024)` does not find: `insert_into_queues` does not hash a buffer
without a device.  And with head 61 alone on the free list after it was reclaimed from the
LOCKED1 list, `getblk(0x301, 5, 1024)` returns head 61 as a member of the LOCKED1 list, not
of the CLEAN list: the head keeps the `b_list` it had. -/
theorem getblk_fresh_unfound_or_unclean :
    (¬ BoundTo boot3_init 0 10 ∧ boot3_init.free_list (BUFSIZE_INDEX 1024) = [61, 62, 63, 64] ∧
        (getblk 10 0 10 1024 boot3_init).val = 61 ∧
        (find_buffer 0 10 1024 (getblk 10 0 10 1024 boot3_init).state).val = 0) ∧
      (Reachable disk2_reclaimed ∧ ¬ BoundTo disk2_reclaimed 0x301 5 ∧
        disk2_reclaimed.free_list (BUFSIZE_INDEX 1024) = [61] ∧
        (getblk 10 0x301 5 1024 disk2_reclaimed).val = 61 ∧
        61 ∈ (getblk 10 0x301 5 1024 disk2_reclaimed).state.lru_list BUF_LOCKED1 ∧
        61 ∉ (getblk 10 0x301 5 1024 disk2_reclaimed).state.lru_list BUF_CLEAN) :=
  ⟨⟨by decide!, by decide!, by decide!, by decide!⟩,
    ⟨disk2_reclaimed_reachable, by decide!, by decide!, by decide!, by decide!, by decide!⟩⟩

/-- What `getblk` does on a miss: in a state that satisfies the structural invariant, for
a device other than 0 and the free marker `0xffff`, a supported size, a block to which no descriptor is
bound, and a free list of that size with first head `bh`: `getblk` returns `bh`, taken
off the free lists, with `b_dev`, `b_blocknr` set, the size asked for, `b_count = 1`, the
locked, dirty, uptodate and requested flags and the flush deadline cleared;
`find_buffer` now finds it; and `bh` is a member of the disposition list that its
unchanged `b_list` names, which is the CLEAN list when `b_list` was `BUF_CLEAN`. -/
theorem getblk_binds_free_descriptor (fuel dev block size bh : Nat) (rest : List Nat)
    (s : State) (hI : Inv s) (hd0 : dev ≠ 0) (hdf : dev ≠ B_FREE) (hs : Supported size)
    (hnb : ¬ BoundTo s dev block) (hfl : s.free_list (BUFSIZE_INDEX size) = bh :: rest) :
    ∃ s', getblk (fuel + 1) dev block size s = .ok bh s' ∧ (∀ i, bh ∉ s'.free_list i) ∧
      (s'.b bh).b_dev = dev ∧ (s'.b bh).b_blocknr = block ∧ (s'.b bh).b_size = size ∧
      (s'.b bh).b_count = 1 ∧ (s'.b bh).b_lock = false ∧ (s'.b bh).b_dirt = false ∧
      (s'.b bh).b_uptodate = false ∧ (s'.b bh).b_req = false ∧ (s'.b bh).b_flushtime = 0 ∧
      find_buffer dev block size s' = .ok bh s' ∧
      (s'.b bh).b_list = (s.b bh).b_list ∧ bh ∈ s'.lru_list (s.b bh).b_list ∧
      ((s.b bh).b_list = BUF_CLEAN → bh ∈ s'.lru_list BUF_CLEAN) := by
  have hbm : bh ∈ s.free_list (BUFSIZE_INDEX size) := by
    rw [hfl]
    exact List.mem_cons_self _ _
  obtain ⟨r, s', e, hr, hf⟩ := getblk_miss_runs fuel dev block size bh rest s hI hdf hnb hfl
  subst hr
  have hsz : (s.b r).b_size = size :=
    size_of_index _ _ hs (hI.free_align _ _ hbm) (hI.free_size _ _ hbm)
  have hlru : r ∈ s'.lru_list (s.b r).b_list := (hf.lru _ _).mpr (Or.inr ⟨rfl, rfl⟩)
  refine ⟨s', e, fun i hi => ((hf.free i r).mp hi).2 rfl, ?_, ?_, ?_, ?_, ?_, ?_, ?_, ?_, ?_,
    find_buffer_fetched hI hf hd0 hs hnb hbm, ?_, hlru, fun hc => hc ▸ hlru⟩
  all_goals rw [hf.b, upd_same]
  exact hsz

/-- On the cache after `buffer_init`, where nothing is bound and the free list of
1024-byte buffers starts with head 61, `getblk(1, 10, 1024)` returns head 61 on
the CLEAN list. -/
theorem getblk_binds_free_descriptor_witness :
    ¬ BoundTo boot3_init 1 10 ∧ boot3_init.free_list (BUFSIZE_INDEX 1024) = 61 :: [62, 63, 64] ∧
      ∃ s', getblk 10 1 10 1024 boot3_init = .ok 61 s' ∧ find_buffer 1 10 1024 s' = .ok 61 s' ∧
        61 ∈ s'.lru_list BUF_CLEAN := by
  obtain ⟨s', h⟩ := getblk_binds_free_descriptor 9 1 10 1024 61 [62, 63, 64] boot3_init
    (reachable_inv boot3_init_reachable) (by decide) (by decide) (Or.inr (Or.inl rfl))
    (by decide!) (by decide!)
  exact ⟨by decide!, by decide!, s', h.1, h.2.2.2.2.2.2.2.2.2.2.2.1,
    h.2.2.2.2.2.2.2.2.2.2.2.2.2.2 (by decide!)⟩

theorem free_total_fetched {s s' : State} {bh dev block size : Nat} (hs : Supported size)
    (hf : Fetched s s' bh dev block)
    (hi : BUFSIZE_INDEX (s.b bh).b_size = BUFSIZE_INDEX size) :
    free_total s' = free_total s - 1 := by
  unfold free_total
  rw [hf.nr_free 0, hf.nr_free 1, hf.nr_free 2, hf.nr_free 3, hi]
  rcases hs with rfl | rfl | rfl | rfl
  · have : BUFSIZE_INDEX 512 = 0 := rfl
    rw [this]
    simp
    ring
  · have : BUFSIZE_INDEX 1024 = 1 := rfl
    rw [this]
    simp
    ring
  · have : BUFSIZE_INDEX 2048 = 2 := rfl
    rw [this]
    simp
    ring
  · have : BUFSIZE_INDEX 4096 = 3 := rfl
    rw [this]
    simp
    ring

/-- C7 (counterexample): on the cache after `buffer_init` the free lists hold 4 buffers;
`getblk(1, 10, 1024)` returns head 61, and after `brelse` on it they hold 3: the released
buffer stays bound on the CLEAN list. -/
theorem getblk_brelse_loses_free_buffer :
    free_total boot3_init = 4 ∧ (getblk 10 1 10 1024 boot3_init).isOk = true ∧
      (getblk 10 1 10 1024 boot3_init).val = 61 ∧ (brelse 10 61 boot3_1024).isOk = true ∧
      free_total (brelse 10 61 boot3_1024).state = 3 ∧
      61 ∈ (brelse 10 61 boot3_1024).state.lru_list BUF_CLEAN := by
  decide!

/-- C7 (amended): in a state that satisfies the structural invariant and for a device
other than the free marker, `brelse` on the descriptor that `getblk` returned leaves the
aggregate free count as `getblk` left it.  That is its value before the `getblk` when the
block was bound (a hit; the calls return when the daemon runs or the buffer is clean), and
one less than before when the block was not bound and `getblk` took the descriptor from
the free list of a supported size (a miss; the calls return). -/
theorem getblk_brelse_free_total (fuel dev block size : Nat) (s : State) (hI : Inv s)
    (hdf : dev ≠ B_FREE) :
    (∀ fuel0 fuel1 h s1 s2, getblk fuel0 dev block size s = .ok h s1 →
        brelse fuel1 h s1 = .ok () s2 → free_total s2 = free_total s1) ∧
      (∀ h, h ∈ s.hash_table (_hashfn s dev block) →
        (s.b h).b_dev = dev ∧ (s.b h).b_blocknr = block ∧ (s.b h).b_size = size →
        (∀ x ∈ s.hash_table (_hashfn s dev block),
          (s.b x).b_dev = dev → (s.b x).b_blocknr = block → x = h) →
        s.bdflush_running ≠ 0 ∨ (s.b h).b_dirt = false →
        ∃ s1 s2, getblk (fuel + 1) dev block size s = .ok h s1 ∧
          brelse (fuel + 1) h s1 = .ok () s2 ∧ free_total s2 = free_total s) ∧
      (Supported size → ¬ BoundTo s dev block → ∀ bh rest,
        s.free_list (BUFSIZE_INDEX size) = bh :: rest →
        ∃ s1 s2, getblk (fuel + 1) dev block size s = .ok bh s1 ∧
          brelse (fuel + 1) bh s1 = .ok () s2 ∧ free_total s2 = free_total s - 1) := by
  have hbr : ∀ fuel1 h s1 s2, Inv s1 → h ≠ 0 → brelse fuel1 h s1 = .ok () s2 →
      free_total s2 = free_total s1 := by
    intro fuel1 h s1 s2 hI1 h0 e
    rcases ((brelse_post fuel1 h s1).ok hI1 e).2 with hq | hq
    · exact absurd hq.1 h0
    · unfold free_total
      rw [hq.2.1.nr_free]
  refine ⟨fun fuel0 fuel1 h s1 s2 e1 e2 => ?_, fun h hm hk hu hd => ?_,
    fun hs hnb bh rest hfl => ?_⟩
  · have h1 := (getblk_post fuel0 dev block size hdf s).ok hI e1
    exact hbr fuel1 h s1 s2 h1.1 h1.2.2 e2
  · obtain ⟨r, s1, e1, hq, hI1, -, h0⟩ :=
      (getblk_hit_runs fuel dev block size h s hI hm hk hu).post
        (getblk_post (fuel + 1) dev block size hdf s) hI
    obtain ⟨hr, hf, -, hn, hh⟩ := hq
    subst hr
    have hl1 : Linked s1 r := (hI1.hash_lru (_hashfn s dev block) r (hh ▸ hm)).1
    have hd1 : s1.bdflush_running ≠ 0 ∨ (s1.b r).b_dirt = false := by
      rw [hf.rest.bdflush_running, hf.dirt]
      exact hd
    obtain ⟨_, s2, e2, -⟩ := brelse_runs fuel r s1 hI1 hl1 hd1
    refine ⟨s1, s2, e1, e2, ?_⟩
    rw [hbr _ _ _ _ hI1 h0 e2]
    unfold free_total
    rw [hn]
  · have hbm : bh ∈ s.free_list (BUFSIZE_INDEX size) := by
      rw [hfl]
      exact List.mem_cons_self _ _
    obtain ⟨r, s1, e1, hq, hI1, -, h0⟩ :=
      (getblk_miss_runs fuel dev block size bh rest s hI hdf hnb hfl).post
        (getblk_post (fuel + 1) dev block size hdf s) hI
    obtain ⟨hr, hf⟩ := hq
    subst hr
    have hself : (s1.b r).b_list = (s.b r).b_list ∧ (s1.b r).b_dirt = false := by
      rw [hf.b, upd_same]
      exact ⟨rfl, rfl⟩
    have hl1 : Linked s1 r := by
      unfold Linked
      rw [hself.1]
      exact (hf.lru _ _).mpr (Or.inr ⟨rfl, rfl⟩)
    obtain ⟨_, s2, e2, -⟩ := brelse_runs fuel r s1 hI1 hl1 (Or.inr hself.2)
    refine ⟨s1, s2, e1, e2, ?_⟩
    rw [hbr _ _ _ _ hI1 h0 e2]
    exact free_total_fetched hs hf (hI.free_size _ _ hbm)

/-- Witness for C7: on the cache after `buffer_init`, with 4 free buffers,
`getblk(1, 10, 1024)` takes head 61 from the free list, and after `brelse` 3 are free. -/
theorem getblk_brelse_free_total_witness :
    free_total boot3_init = 4 ∧
      ∃ s1 s2, getblk 10 1 10 1024 boot3_init = .ok 61 s1 ∧ brelse 10 61 s1 = .ok () s2 ∧
        free_total s2 = free_total boot3_init - 1 :=
  ⟨by decide!,
    (getblk_brelse_free_total 9 1 10 1024 boot3_init (reachable_inv boot3_init_reachable)
      (by decide)).2.2 (Or.inr (Or.inl rfl)) (by decide!) 61 [62, 63, 64] (by decide!)⟩

theorem boot3_mixed_reachable : Reachable boot3_mixed :=
  Reachable.getblk boot3_released _ 10 1 10 512 _ boot3_released_reachable (by decide)
    (Res.eq_ok (getblk 10 1 10 512 boot3_released) (by decide!))

theorem disk2_read_reachable : Reachable disk2_read := by
  have h0 : Reachable disk2_init :=
    Reachable.buffer_init disk2 _ 10
      ⟨⟨fun _ => rfl, fun _ => rfl, fun _ => rfl, rfl, rfl, fun _ => rfl⟩, fun _ => rfl, fun _ => rfl, fun _ _ => rfl, rfl⟩
      (Res.eq_ok_unit (buffer_init 10 disk2) (by decide!))
  exact Reachable.bread disk2_init _ 10 0x301 1 1024 _ h0 (by decide)
    (Res.eq_ok (bread 10 0x301 1 1024 disk2_init) (by decide!))

/-- What `bread` returns, and the reference count it leaves. -/
theorem bread_post_full (fuel dev block size : Nat) (hdev : dev ≠ B_FREE) (s : State) :
    Post (bread fuel dev block size) False s fun r s' =>
      ∃ h s1, getblk fuel dev block size s = .ok h s1 ∧ h ≠ 0 ∧
        ∃ s2, ((s1.b h).b_uptodate = true ∧ s2 = s1 ∨
            (s1.b h).b_uptodate = false ∧
              (ll_rw_block (refile_buffer fuel) fuel .READ [h] >>= fun _ => wait_on_buffer h) s1
                = .ok () s2) ∧
          ((s2.b h).b_uptodate = true ∧ r = some h ∧ s' = s2 ∧
              (s'.b h).b_count = (s.b h).b_count + 1 ∨
            (s2.b h).b_uptodate = false ∧ r = none ∧ brelse fuel h s2 = .ok () s' ∧
              (s'.b h).b_count = (s.b h).b_count) := by
  unfold bread
  refine Post.bind_p (getblk_post fuel dev block size hdev s) ?_
  intro bh s1 e1 hI1 hq1
  obtain ⟨ht, h0⟩ := hq1
  have hc1 : (s1.b bh).b_count = (s.b bh).b_count + 1 := by
    rw [(ht bh).1, if_pos ⟨h0, rfl⟩]
  rw [if_neg h0]
  refine Post.getS_bind_p ?_
  refine Post.ite_p (fun hu => Post.pure_p ?_) fun hu => ?_
  · exact ⟨bh, s1, e1, h0, s1, Or.inl ⟨hu, rfl⟩, Or.inl ⟨hu, rfl, rfl, hc1⟩⟩
  have hu1 : (s1.b bh).b_uptodate = false := by
    cases h : (s1.b bh).b_uptodate
    · rfl
    · exact absurd h hu
  refine Post.bind_p ((ll_rw_block_good (refile_buffer fuel) (refile_buffer_good fuel) fuel
    .READ [bh] s1).weaken_p False.elim) ?_
  intro _ s2 e2 hI2 hs2
  refine Post.quiet_bind_p (quiet_wait_on_buffer _) ?_
  intro _ s3 e3 hI3 hs3
  have e23 : (ll_rw_block (refile_buffer fuel) fuel .READ [bh] >>= fun _ => wait_on_buffer bh) s1
      = .ok () s3 := by
    rw [bind_run, e2]
    exact e3
  have hc3 : (s3.b bh).b_count = (s.b bh).b_count + 1 := by
    rw [hs3.b_count, hs2.b_count, hc1]
  refine Post.getS_bind_p ?_
  refine Post.ite_p (fun hu3 => Post.pure_p ?_) fun hu3 => ?_
  · exact ⟨bh, s1, e1, h0, s3, Or.inr ⟨hu1, e23⟩, Or.inl ⟨hu3, rfl, rfl, hc3⟩⟩
  have hu3' : (s3.b bh).b_uptodate = false := by
    cases h : (s3.b bh).b_uptodate
    · rfl
    · exact absurd h hu3
  refine Post.bind_p ((brelse_post fuel bh s3).weaken_p False.elim) ?_
  intro _ s4 e4 hI4 hq4
  refine Post.pure_p ⟨bh, s1, e1, h0, s3, Or.inr ⟨hu1, e23⟩, Or.inr ⟨hu3', rfl, e4, ?_⟩⟩
  rcases hq4 with hq4 | hq4
  · exact absurd hq4.1 h0
  · rw [hq4.2.1.b_count, if_pos rfl, hc3]
    rfl

/-- C3 (evaluation at the failing input): `getblk(1, 10, 1024)` returns head 61, which is
released with `brelse`; after a `getblk(1, 10, 512)` head 61 is still bound to (1, 10)
with size 1024 and has not been reclaimed, yet the next `getblk(1, 10, 1024)` logs the
wrong block size and returns head 62, a fresh descriptor with another data area. -/
theorem released_block_not_found_again :
    Reachable boot3_mixed ∧ (getblk 10 1 10 1024 boot3_init).val = 61 ∧
      (brelse 10 61 boot3_1024).isOk = true ∧ (getblk 10 1 10 512 boot3_released).isOk = true ∧
      Hashed boot3_mixed 61 ∧ (boot3_mixed.b 61).b_dev = 1 ∧ (boot3_mixed.b 61).b_blocknr = 10 ∧
      (boot3_mixed.b 61).b_size = 1024 ∧ (getblk 10 1 10 1024 boot3_mixed).isOk = true ∧
      (getblk 10 1 10 1024 boot3_mixed).val = 62 ∧
      ((getblk 10 1 10 1024 boot3_mixed).state.b 62).b_data ≠ (boot3_mixed.b 61).b_data ∧
      ((getblk 10 1 10 1024 boot3_mixed).state.b 61).b_count = 0 :=
  ⟨boot3_mixed_reachable, by decide!, by decide!, by decide!, by decide!, by decide!,
    by decide!, by decide!, by decide!, by decide!, by decide!, by decide!⟩

/-- C9 (counterexample): for the device number `0xffff`, the free marker, `bread` on the
cache after `buffer_init` neither returns a descriptor nor returns not-found: `getblk`
leaves the head on the free list, the read fails, and `brelse` stops in the panic of
`refile_buffer`. -/
theorem bread_free_marker_panics :
    Reachable boot3_init ∧
      (bread 10 0xffff 10 1024 boot3_init).panicked = some Panic.refile_free_buffer :=
  ⟨boot3_init_reachable, by decide!⟩

/-- C9 (amended): in a state that satisfies the structural invariant and for a device
other than the free marker `0xffff`, when `bread` returns, `getblk` has returned a
descriptor `h`; with `s2` the state once the read has completed (the state after
`getblk` when the buffer was up to date there, so that nothing was submitted, and else
the state after `ll_rw_block(READ)` and `wait_on_buffer`), `bread` returns `h`, holding
the reference `getblk` took, exactly when `h` is up to date in `s2`, and else returns
not-found after a `brelse` that leaves `b_count` of `h` as it was before the call.  And
when the only descriptor bound to the block has the size asked for and is up to date,
`bread` does return it and leaves the request layer as it was. -/
theorem bread_up_to_date_or_released (fuel dev block size : Nat) (s : State) (hI : Inv s)
    (hdf : dev ≠ B_FREE) :
    (∀ r s', bread fuel dev block size s = .ok r s' →
        ∃ h s1, getblk fuel dev block size s = .ok h s1 ∧ h ≠ 0 ∧
          ∃ s2, ((s1.b h).b_uptodate = true ∧ s2 = s1 ∨
              (s1.b h).b_uptodate = false ∧
                (ll_rw_block (refile_buffer fuel) fuel .READ [h] >>= fun _ => wait_on_buffer h) s1
                  = .ok () s2) ∧
            ((s2.b h).b_uptodate = true ∧ r = some h ∧ s' = s2 ∧
                (s'.b h).b_count = (s.b h).b_count + 1 ∨
              (s2.b h).b_uptodate = false ∧ r = none ∧ brelse fuel h s2 = .ok () s' ∧
                (s'.b h).b_count = (s.b h).b_count)) ∧
      (∀ h, h ∈ s.hash_table (_hashfn s dev block) →
        (s.b h).b_dev = dev ∧ (s.b h).b_blocknr = block ∧ (s.b h).b_size = size →
        (∀ x ∈ s.hash_table (_hashfn s dev block),
          (s.b x).b_dev = dev → (s.b x).b_blocknr = block → x = h) →
        (s.b h).b_uptodate = true →
        ∃ s', bread (fuel + 1) dev block size s = .ok (some h) s' ∧
          s'.all_requests = s.all_requests ∧ s'.current_request = s.current_request ∧
          s'.request_fn_calls = s.request_fn_calls) := by
  refine ⟨fun r s' e => ((bread_post_full fuel dev block size hdf s).ok hI e).2,
    fun h hm hk hu hup => ?_⟩
  obtain ⟨r, s1, e1, hr, hf, -⟩ := getblk_hit_runs fuel dev block size h s hI hm hk hu
  subst hr
  have h0 : r ≠ 0 := fun e => hI.zero_nowhere.2.1 _ (e ▸ (hI.hash_lru _ _ hm).1)
  refine ⟨s1, ?_, hf.rest.all_requests, hf.rest.current_request, hf.rest.request_fn_calls⟩
  unfold bread
  simp only [bind_run, e1, getS_run, if_neg h0, if_pos (hf.upto r hup)]
  rfl

/-- Witness for C9: after `bread(0x301, 1, 1024)` has read block 1 into head 61, a second
`bread` returns head 61 and calls no driver. -/
theorem bread_up_to_date_or_released_witness :
    Hashed disk2_read 61 ∧ (disk2_read.b 61).b_uptodate = true ∧
      ∃ s', bread 10 0x301 1 1024 disk2_read = .ok (some 61) s' ∧
        s'.request_fn_calls = disk2_read.request_fn_calls := by
  obtain ⟨s', e, -, -, h⟩ :=
    (bread_up_to_date_or_released 9 0x301 1 1024 disk2_read (reachable_inv disk2_read_reachable)
      (by decide)).2 61 (by decide!) (by decide!) (by decide!) (by decide!)
  exact ⟨by decide!, by decide!, s', e, h⟩

/-- A request without a buffer is added whatever the re-filing function. -/
theorem add_request_nobuf_runs (fuel major req : Nat) (s : State)
    (hb : (s.all_requests req).bh = 0) :
    ∃ s', add_request (refile_buffer fuel) major req s = .ok () s' := by
  have key : Runs (add_request (refile_buffer fuel) major req) s fun _ _ => True := by
    unfold add_request
    refine Runs.getS_bind_r ?_
    refine Runs.bind_r (runs_add_request_kstat _ s) ?_
    intro _ s0 _ hc0
    rw [if_neg (not_not.mpr hb)]
    refine Runs.bind_r (R := fun _ _ => True) (Runs.pure_r trivial) ?_
    intro _ s1 _ _
    refine Runs.getS_bind_r ?_
    cases s1.current_request major with
    | nil => exact ⟨(), _, rfl, trivial⟩
    | cons tmp rest =>
      dsimp only
      refine Runs.modS_head_r fun s2 _ => ?_
      exact Runs.ite_r (fun _ => ⟨(), _, rfl, trivial⟩) fun _ => Runs.pure_r trivial
  obtain ⟨_, s', e, _⟩ := key
  exact ⟨s', e⟩

/-- C12 (counterexample): with an empty queue for major 3, `add_request` of the requests
(sector 500, READ), (200, WRITE), (100, READ), in this order, returns with the queue, front
to back, (500, READ), (200, WRITE), (100, READ): the slots 0, 1, 2, and not 2, 0, 1. -/
theorem three_requests_queue_order :
    ((add_request (refile_buffer 1) 3 0 >>= fun _ => add_request (refile_buffer 1) 3 1 >>=
        fun _ => add_request (refile_buffer 1) 3 2) three_requests).isOk = true ∧
      ((add_request (refile_buffer 1) 3 0 >>= fun _ => add_request (refile_buffer 1) 3 1 >>=
        fun _ => add_request (refile_buffer 1) 3 2) three_requests).state.current_request 3
        = [0, 1, 2] := by
  decide!

/-- C12 (amended): starting from an empty device queue, adding with `add_request` three
requests without buffers for the same device in the order (sector 500, READ),
(sector 200, WRITE), (sector 100, READ) returns and leaves the queue, front to back, in
the order of insertion: (500, READ), (200, WRITE), (100, READ). -/
theorem add_request_three_in_turn (fuel major a b c : Nat) (s : State)
    (hq : s.current_request major = [])
    (ha : (s.all_requests a).cmd = Rw.READ.val ∧ (s.all_requests a).sector = 500 ∧
      (s.all_requests a).bh = 0)
    (hb : (s.all_requests b).cmd = Rw.WRITE.val ∧ (s.all_requests b).sector = 200 ∧
      (s.all_requests b).bh = 0 ∧ (s.all_requests b).dev = (s.all_requests a).dev)
    (hc : (s.all_requests c).cmd = Rw.READ.val ∧ (s.all_requests c).sector = 100 ∧
      (s.all_requests c).bh = 0 ∧ (s.all_requests c).dev = (s.all_requests a).dev) :
    ∃ s', (add_request (refile_buffer fuel) major a >>= fun _ =>
        add_request (refile_buffer fuel) major b >>= fun _ =>
        add_request (refile_buffer fuel) major c) s = .ok () s' ∧
      s'.current_request major = [a, b, c] := by
  obtain ⟨s1, e1⟩ := add_request_nobuf_runs fuel major a s ha.2.2
  obtain ⟨r1, q1, -, -⟩ := add_request_queue fuel major a s s1 e1
  obtain ⟨s2, e2⟩ := add_request_nobuf_runs fuel major b s1 (by rw [r1]; exact hb.2.2.1)
  obtain ⟨r2, q2, -, -⟩ := add_request_queue fuel major b s1 s2 e2
  obtain ⟨s3, e3⟩ := add_request_nobuf_runs fuel major c s2 (by rw [r2, r1]; exact hc.2.2.1)
  obtain ⟨r3, q3, -, -⟩ := add_request_queue fuel major c s2 s3 e3
  refine ⟨s3, by simp only [bind_run, e1, e2, e3], ?_⟩
  have h1 : s1.current_request major = [a] := by
    rw [q1, upd_same]
    unfold queue_add
    rw [hq]
  have h2 : s2.current_request major = [a, b] := by
    rw [q2, upd_same]
    unfold queue_add
    rw [h1]
    rfl
  rw [q3, upd_same]
  unfold queue_add
  rw [h2]
  simp only [add_request_insert, IN_ORDER, r2, r1, ha.1, ha.2.1, hb.1, hb.2.1, hb.2.2.2, hc.1,
    hc.2.1, hc.2.2.2, Rw.val]
  simp

/-- Witness for C12: the three requests of `three_requests`. -/
theorem add_request_three_in_turn_witness :
    ∃ s', (add_request (refile_buffer 1) 3 0 >>= fun _ =>
        add_request (refile_buffer 1) 3 1 >>= fun _ =>
        add_request (refile_buffer 1) 3 2) three_requests = .ok () s' ∧
      s'.current_request 3 = [0, 1, 2] :=
  add_request_three_in_turn 1 3 0 1 2 three_requests rfl ⟨rfl, rfl, rfl⟩ ⟨rfl, rfl, rfl, rfl⟩
    ⟨rfl, rfl, rfl, rfl⟩

/-- C13 (counterexample): the queue of major 3 holds the slots 0 (READ, sector 500) and 1
(WRITE, sector 200), so the requests behind the head, slot 1 alone, are sorted;
`add_request` of slot 2 (READ, sector 100) puts it at the end, and the requests behind
the head, WRITE 200 then READ 100, are not sorted: a read follows a write. -/
theorem elevator_appends_behind_write :
    two_queued.current_request 3 = [0, 1] ∧ List.Chain' (InOrder two_queued) [1] ∧
      (add_request (refile_buffer 1) 3 2 two_queued).isOk = true ∧
      (add_request (refile_buffer 1) 3 2 two_queued).state.current_request 3 = [0, 1, 2] ∧
      ¬ List.Chain' (InOrder (add_request (refile_buffer 1) 3 2 two_queued).state) [1, 2] :=
  ⟨by decide!, List.chain'_singleton _, by decide!, by decide!,
    fun h => absurd (List.chain'_cons.mp h).1 (by decide!)⟩

/-- C13 (amended): for a device queue in which the requests behind the head are sorted by
the ordering relation, and a new request that is comparable with each of them (one sorts
before the other) and that sorts after the head, or when the head does not sort before
the request behind it: `add_request` returns (the request carrying no buffer or a linked
one), the head is as before and the requests behind the head are again sorted. -/
theorem add_request_keeps_sorted (fuel major req tmp : Nat) (rest : List Nat) (s : State)
    (hI : Inv s) (hb : (s.all_requests req).bh = 0 ∨ Linked s (s.all_requests req).bh)
    (hq : s.current_request major = tmp :: rest) (hc : List.Chain' (InOrder s) rest)
    (hd : ∀ x ∈ rest, InOrder s x req ∨ InOrder s req x)
    (hh : InOrder s tmp req ∨ ∀ nxt ∈ rest.head?, ¬ InOrder s tmp nxt) :
    ∃ s' rest', add_request (refile_buffer (fuel + 1)) major req s = .ok () s' ∧
      s'.current_request major = tmp :: rest' ∧ List.Chain' (InOrder s') rest' := by
  obtain ⟨s', e⟩ := add_request_runs fuel major req s hI hb
  obtain ⟨hr, hq', -, -⟩ := add_request_queue (fuel + 1) major req s s' e
  refine ⟨s', add_request_insert s req tmp rest, e, ?_, ?_⟩
  · rw [hq', upd_same]
    unfold queue_add
    rw [hq]
  · have : InOrder s' = InOrder s := by
      funext a b
      unfold InOrder
      rw [hr]
    rw [this]
    exact add_request_insert_rest_sorted s req tmp rest hc hd hh

/-- Witness for C13: with the slots 0 (READ, sector 500) and 2 (READ, sector 100) queued,
the head not sorting before its successor, slot 1 (WRITE, sector 200) is added behind
slot 2. -/
theorem add_request_keeps_sorted_witness :
    ∃ s' rest', add_request (refile_buffer 1) 3 1
        { three_requests with current_request := fun m => if m = 3 then [0, 2] else [] }
        = .ok () s' ∧
      s'.current_request 3 = 0 :: rest' ∧ List.Chain' (InOrder s') rest' :=
  add_request_keeps_sorted 0 3 1 0 [2]
    { three_requests with current_request := fun m => if m = 3 then [0, 2] else [] }
    (EmptyCache.inv_ec ⟨fun _ => rfl, fun _ => rfl, fun _ => rfl, rfl, rfl, fun _ => rfl⟩)
    (Or.inl rfl) rfl (List.chain'_singleton _) (by decide) (Or.inr (by decide))

/-- C14: a request that is not queued is added to a queue.  When `add_request` returns,
an empty queue holds the request alone; in a queue that was not empty the head is the
same request as before, the requests queued before are all still queued, in the same
order, and the new request occurs exactly once; the queues of the other devices are as
before.  And `add_request` does return when the request carries no buffer or a linked
one. -/
theorem add_request_keeps_head (fuel major req : Nat) (s : State)
    (hn : req ∉ s.current_request major) :
    (∀ s', add_request (refile_buffer fuel) major req s = .ok () s' →
        (s.current_request major = [] → s'.current_request major = [req]) ∧
        (∀ tmp rest, s.current_request major = tmp :: rest →
          ∃ rest', s'.current_request major = tmp :: rest' ∧ rest.Sublist rest' ∧
            rest'.length = rest.length + 1 ∧ (tmp :: rest').count req = 1) ∧
        (∀ m, m ≠ major → s'.current_request m = s.current_request m)) ∧
      (Inv s → (s.all_requests req).bh = 0 ∨ Linked s (s.all_requests req).bh →
        ∃ s', add_request (refile_buffer (fuel + 1)) major req s = .ok () s') := by
  refine ⟨fun s' e => ?_, fun hI hb => add_request_runs fuel major req s hI hb⟩
  obtain ⟨-, hq', -, -⟩ := add_request_queue fuel major req s s' e
  refine ⟨fun h0 => ?_, fun tmp rest hq => ?_, fun m hm => ?_⟩
  · rw [hq', upd_same]
    unfold queue_add
    rw [h0]
  · refine ⟨add_request_insert s req tmp rest, ?_, add_request_insert_sublist s req rest tmp,
      add_request_insert_length s req rest tmp, ?_⟩
    · rw [hq', upd_same]
      unfold queue_add
      rw [hq]
    · rw [hq] at hn
      have h1 : tmp ≠ req := fun h => hn (h ▸ List.mem_cons_self _ _)
      rw [List.count_cons, add_request_insert_count s req rest tmp
        fun h => hn (List.mem_cons_of_mem _ h)]
      simp [h1]
  · rw [hq', upd_other _ _ _ _ hm]

/-- Witness for C14: slot 2 is added to the queue of the slots 0 and 1; slot 0 stays
the head. -/
theorem add_request_keeps_head_witness :
    2 ∉ two_queued.current_request 3 ∧
      ∃ s', add_request (refile_buffer 1) 3 2 two_queued = .ok () s' ∧
        ∃ rest', s'.current_request 3 = 0 :: rest' ∧ [1].Sublist rest' := by
  have h := add_request_keeps_head 0 3 2 two_queued (by decide)
  obtain ⟨s', e⟩ := h.2
    (EmptyCache.inv_ec ⟨fun _ => rfl, fun _ => rfl, fun _ => rfl, rfl, rfl, fun _ => rfl⟩)
    (Or.inl rfl)
  have h' := add_request_keeps_head 1 3 2 two_queued (by decide)
  obtain ⟨rest', hq, hs, -, -⟩ := (h'.1 s' e).2.1 0 [1] rfl
  exact ⟨by decide, s', e, rest', hq, hs⟩

theorem Refused.pre_rd : Pre Refused :=
  ⟨fun _ => ⟨rfl, rfl, rfl, rfl, fun _ => rfl⟩, fun _ _ _ h h' =>
    ⟨h'.all_requests.trans h.all_requests, h'.current_request.trans h.current_request,
      h'.request_fn_calls.trans h.request_fn_calls, h'.prev_found.trans h.prev_found,
      fun x => (h'.b_lock x).trans (h.b_lock x)⟩⟩

theorem refused_setB (s : State) (bh : Nat) (f : buffer_head → buffer_head)
    (hf : ∀ v, (f v).b_lock = v.b_lock) : Refused s (setB bh f s).state := by
  refine ⟨rfl, rfl, rfl, rfl, fun x => ?_⟩
  show (upd s.b bh (f (s.b bh)) x).b_lock = _
  by_cases hx : x = bh
  · subst hx
    rw [upd_same]
    exact hf _
  · rw [upd_other _ _ _ _ hx]

/-- The `sorry` exit returns and is a refusal. -/
theorem ll_rw_block_sorry_runs (bhs : List Nat) (s : State) :
    Runs ( ll_rw_block_sorry bhs) s fun _ s' => Refused s s' ∧ s'.klog = s.klog := by
  induction bhs generalizing s with
  | nil => exact Runs.pure_r ⟨Refused.pre_rd.refl s, rfl⟩
  | cons bh rest ih =>
    unfold ll_rw_block_sorry
    dsimp only
    rw [ite_bind_jp]
    refine Runs.bind_r (R := fun _ s1 => Refused s s1 ∧ s1.klog = s.klog) ?_ ?_
    · refine Runs.ite_r (fun _ => Runs.setB_r ⟨refused_setB s bh _ ?_, rfl⟩)
        fun _ => Runs.pure_r ⟨Refused.pre_rd.refl s, rfl⟩
      exact fun _ => rfl
    intro _ s1 _ h1
    refine (ih s1).mono_r fun _ s' _ h => ?_
    exact ⟨Refused.pre_rd.trans _ _ _ h1.1 h.1, h.2.trans h1.2⟩

theorem printk_sorry_runs (m : Kmsg) (bhs : List Nat) (s : State) :
    Runs (printk m >>= fun _ => ll_rw_block_sorry bhs) s fun _ s' =>
      Refused s s' ∧ s'.klog = s.klog ++ [m] := by
  unfold printk
  refine Runs.modS_head_r fun s1 e1 => ?_
  refine (ll_rw_block_sorry_runs bhs s1).mono_r fun _ s' _ h => ?_
  subst e1
  exact ⟨⟨h.1.all_requests, h.1.current_request, h.1.request_fn_calls, h.1.prev_found,
    h.1.b_lock⟩, h.2⟩

/-- C17: a batch is submitted with WRITE or WRITEA and the device of its first buffer has
its read-only bit set.  `ll_rw_block` returns after logging one message; it has added no
request to any queue, has taken no request slot (the slots and the search position are as
before), has not called a driver, and has changed the lock of no buffer: a buffer that
was not locked is not locked. -/
theorem ll_rw_block_read_only_refused (rb : Nat → K Unit) (fuel : Nat) (rw : Rw)
    (bhs : List Nat) (bh0 : Nat) (rest : List Nat) (s : State)
    (hrw : rw = .WRITE ∨ rw = .WRITEA) (hdw : bhs.dropWhile (fun x => x == 0) = bh0 :: rest)
    (hro : is_read_only s (s.b bh0).b_dev ≠ 0) :
    ∃ s', ll_rw_block rb fuel rw bhs s = .ok () s' ∧ s'.all_requests = s.all_requests ∧
      s'.current_request = s.current_request ∧ s'.prev_found = s.prev_found ∧
      s'.request_fn_calls = s.request_fn_calls ∧
      (∀ x, (s'.b x).b_lock = (s.b x).b_lock) ∧ ∃ m, s'.klog = s.klog ++ [m] := by
  have key : Runs (ll_rw_block rb fuel rw bhs) s fun _ s' =>
      Refused s s' ∧ ∃ m, s'.klog = s.klog ++ [m] := by
    unfold ll_rw_block
    rw [hdw]
    dsimp only
    refine Runs.getS_bind_r ?_
    refine Runs.ite_r (fun _ => (printk_sorry_runs _ _ s).mono_r
      fun _ _ _ h => ⟨h.1, _, h.2⟩) fun _ => ?_
    split
    · exact (printk_sorry_runs _ _ s).mono_r fun _ _ _ h => ⟨h.1, _, h.2⟩
    · rw [if_pos ⟨hrw, hro⟩]
      exact (printk_sorry_runs _ _ s).mono_r fun _ _ _ h => ⟨h.1, _, h.2⟩
  obtain ⟨_, s', e, h, hm⟩ := key
  exact ⟨s', e, h.all_requests, h.current_request, h.prev_found, h.request_fn_calls, h.b_lock,
    hm⟩

/-- Witness for C17: the write of head 1 to the read-only disk is refused. -/
theorem ll_rw_block_read_only_refused_witness :
    is_read_only ro_disk (ro_disk.b 1).b_dev ≠ 0 ∧
      ∃ s', ll_rw_block (refile_buffer 1) 1 .WRITE [1] ro_disk = .ok () s' ∧
        s'.current_request = ro_disk.current_request ∧
        s'.request_fn_calls = ro_disk.request_fn_calls ∧ (s'.b 1).b_lock = false := by
  obtain ⟨s', e, -, hq, -, hc, hl, -⟩ := ll_rw_block_read_only_refused (refile_buffer 1) 1
    .WRITE [1] 1 [] ro_disk (Or.inl rfl) rfl (by decide)
  exact ⟨by decide, s', e, hq, hc, by rw [hl]; rfl⟩

theorem make_request_merge_first (s : State) (bh rw sector count req : Nat) (post : List Nat)
    (hb : merges_back s bh rw sector req) :
    ∀ pre : List Nat,
      (∀ x ∈ pre, ¬ merges_back s bh rw sector x ∧ ¬ merges_front s bh rw sector count x) →
      make_request_merge s bh rw sector count (pre ++ req :: post) = some (.back req) := by
  intro pre
  induction pre with
  | nil =>
    intro _
    show make_request_merge s bh rw sector count (req :: post) = _
    unfold make_request_merge
    unfold merges_back at hb
    rw [if_pos hb]
  | cons x pre ih =>
    intro h
    have hx := h x (List.mem_cons_self _ _)
    show make_request_merge s bh rw sector count (x :: (pre ++ req :: post)) = _
    unfold make_request_merge
    unfold merges_back merges_front at hx
    rw [if_neg hx.1, if_neg hx.2]
    exact ih fun y hy => h y (List.mem_cons_of_mem _ hy)

theorem make_request_merge_congr (s s' : State) (bh rw sector count : Nat)
    (hr : s'.all_requests = s.all_requests) (hd : (s'.b bh).b_dev = (s.b bh).b_dev) :
    ∀ l, make_request_merge s' bh rw sector count l = make_request_merge s bh rw sector count l := by
  intro l
  induction l with
  | nil => rfl
  | cons x l ih =>
    unfold make_request_merge
    rw [hr, hd, ih]

theorem lock_buffer_unlocked (bh : Nat) (s : State) (h : (s.b bh).b_lock = false) :
    lock_buffer bh s = .ok () (setB bh (fun v => { v with b_lock := true }) s).state := by
  unfold lock_buffer
  simp only [bind_run, getS_run, h, Bool.false_eq_true, if_false, pure_run]
  rfl

/-- The back merge of `make_request`: the first request of the walk that the buffer can be
merged with is `req`, and the buffer follows it on the disk. -/
theorem make_request_merges_back_run (fuel major : Nat) (rw0 rw : Rw)
    (bh req count sector : Nat)
    (pre post : List Nat) (s : State) (hI : Inv s) (hl : Linked s bh)
    (hrw : rw = if rw0 = .READA then Rw.READ else if rw0 = .WRITEA then .WRITE else rw0)
    (hlock : (s.b bh).b_lock = false)
    (hcount : count = (s.b bh).b_size >>> 9)
    (hsector : sector = ((s.b bh).b_blocknr * count) % 4294967296)
    (hfar : ∀ sz, s.blk_size major = some sz →
      ¬ (sz (MINOR (s.b bh).b_dev) % 4294967296 <
        ((((sector + count) % 4294967296) >>> 1 : Nat) : Int)))
    (hio : ¬ ((rw = .WRITE ∧ (s.b bh).b_dirt = false) ∨
      (rw = .READ ∧ (s.b bh).b_uptodate = true)))
    (hmaj : major = IDE0_MAJOR ∨ major = IDE1_MAJOR ∨ major = FLOPPY_MAJOR ∨
      major = SCSI_DISK_MAJOR ∨ major = SCSI_CDROM_MAJOR)
    (hwalk : merge_walk s major = pre ++ req :: post)
    (hpre : ∀ x ∈ pre, ¬ merges_back s bh rw.val sector x ∧
      ¬ merges_front s bh rw.val sector count x)
    (hback : merges_back s bh rw.val sector req) :
    Runs (make_request (refile_buffer (fuel + 1)) fuel major rw0 bh) s fun _ s' =>
      (s'.b (s.all_requests req).bhtail).b_reqnext = bh ∧
        s'.all_requests = upd s.all_requests req
          { (s.all_requests req) with
            bhtail := bh, nr_sectors := (s.all_requests req).nr_sectors + count } ∧
        s'.current_request = s.current_request ∧
        s'.request_fn_calls = s.request_fn_calls ∧ (s'.b bh).b_lock = true := by
  unfold make_request
  refine Runs.getS_bind_r ?_
  simp only [← hrw, ← hcount, ← hsector]
  rw [if_neg (fun h => Bool.false_ne_true (hlock ▸ h.2))]
  refine Runs.ite_r (fun h => ?_) fun _ => ?_
  · exfalso
    split at h
    · exact Bool.false_ne_true h
    · rename_i sz hb
      exact hfar sz hb (of_decide_eq_true h)
  rw [if_neg (by rw [hlock]; exact Bool.false_ne_true)]
  refine Runs.bind_r (R := fun _ s1 => s1 = (setB bh (fun v => { v with b_lock := true }) s).state)
    ⟨(), _, lock_buffer_unlocked bh s hlock, rfl⟩ ?_
  intro _ s1 _ e1
  have hc1 : SameCore s s1 := by
    rw [e1]
    exact sameCore_setB s bh _ rfl rfl rfl rfl rfl rfl rfl
  have hb1 : s1.b bh = { (s.b bh) with b_lock := true } := by
    rw [e1]
    show upd s.b bh _ bh = _
    rw [upd_same]
  have hr1 : s1.all_requests = s.all_requests := by rw [e1]; rfl
  have hq1 : s1.current_request = s.current_request := by rw [e1]; rfl
  have hcfg : s1.config_blk_dev_hd = s.config_blk_dev_hd := by rw [e1]; rfl
  have hfc1 : s1.request_fn_calls = s.request_fn_calls := by rw [e1]; rfl
  refine Runs.getS_bind_r ?_
  rw [if_neg (by rw [hb1]; exact hio)]
  unfold make_request_queue
  refine Runs.getS_bind_r ?_
  have hne : s.current_request major ≠ [] := by
    intro h0
    unfold merge_walk at hwalk
    rw [h0] at hwalk
    simp at hwalk
  have hmerge : (if (major = IDE0_MAJOR ∨ major = IDE1_MAJOR ∨ major = FLOPPY_MAJOR ∨
        major = SCSI_DISK_MAJOR ∨ major = SCSI_CDROM_MAJOR) ∧ s1.current_request major ≠ [] then
      make_request_merge s1 bh rw.val sector count
        (if (s1.config_blk_dev_hd = true ∧ major = HD_MAJOR) ∨ major = FLOPPY_MAJOR then
          (s1.current_request major).tail else s1.current_request major)
      else none) = some (.back req) := by
    rw [if_pos ⟨hmaj, by rw [hq1]; exact hne⟩, hq1, hcfg]
    rw [make_request_merge_congr s s1 bh rw.val sector count hr1 (by rw [hb1])]
    have := make_request_merge_first s bh rw.val sector count req post hback pre hpre
    unfold merge_walk at hwalk
    rw [hwalk]
    exact this
  dsimp only
  rw [hmerge]
  dsimp only
  refine Runs.setB_head_r fun s2 e2 => ?_
  have hc2 : SameCore s1 s2 := by
    rw [e2]
    exact sameCore_setB s1 _ _ rfl rfl rfl rfl rfl rfl rfl
  refine Runs.bind_r (R := fun _ s3 => s3 = (setR req (fun r =>
    { r with bhtail := bh, nr_sectors := r.nr_sectors + count }) s2).state) ⟨(), _, rfl, rfl⟩ ?_
  intro _ s3 _ e3
  have hc3 : SameCore s2 s3 := by
    have := quiet_setR req (fun r =>
      { r with bhtail := bh, nr_sectors := r.nr_sectors + count }) s2
    rw [e3]
    exact this
  have hI3 : Inv s3 := hc3.inv_sc (hc2.inv_sc (hc1.inv_sc hI))
  have hl3 : Linked s3 bh := (hc3.linked bh).mpr ((hc2.linked bh).mpr ((hc1.linked bh).mpr hl))
  obtain ⟨a, s4, e4, -⟩ := mark_buffer_clean_runs fuel bh s3 hI3 hl3
  have h4 := mark_buffer_clean_refiled (fuel + 1) bh s3 a s4 e4
  refine ⟨a, s4, e4, ?_, ?_, ?_, ?_, ?_⟩
  · rw [(h4.fields _).2.2.2.2.2.2.1, e3]
    show (s2.b _).b_reqnext = bh
    rw [e2, hr1]
    show (upd s1.b _ _ _).b_reqnext = bh
    rw [upd_same]
  · rw [h4.rest.all_requests, e3, e2, e1]
    rfl
  · rw [h4.rest.current_request, e3]
    show s2.current_request = _
    rw [e2]
    exact hq1
  · rw [h4.rest.request_fn_calls, e3]
    show s2.request_fn_calls = _
    rw [e2]
    exact hfc1
  · rw [(h4.fields _).2.2.2.2.1, e3]
    show (s2.b bh).b_lock = true
    rw [e2]
    show (upd s1.b _ _ bh).b_lock = true
    by_cases hx : bh = (s1.all_requests req).bhtail
    · rw [← hx, upd_same]
      show (s1.b bh).b_lock = true
      rw [hb1]
    · rw [upd_other _ _ _ _ hx, hb1]


theorem merge_ready_inv : Inv merge_ready := by
  have h : ∀ (s : State) q r z,
      SameCore s { s with current_request := q, all_requests := r, blk_size := z } :=
    fun s q r z => sameCore_other _ _ rfl rfl rfl rfl rfl rfl rfl rfl
  unfold merge_ready
  exact (h disk2_two _ _ _).inv_sc (reachable_inv disk2_two_reachable)

theorem merge_ready_blk_size : merge_ready.blk_size 3 = none := by
  unfold merge_ready
  rfl

/-- C16 (counterexample): on major 3, which supports merging and whose head is not skipped,
the queue holds slot 0 (READ of the sectors 22 and 23) and behind it slot 1 (READ of the
sectors 18 and 19), both of the disk `0x301`, without semaphore and shorter than 244
sectors.  The buffer 1 holds the sectors 20 and 21, so slot 1 ends where the buffer begins.
`make_request` reaches slot 0 first and puts the buffer in front of it: slot 1 and the
chain of slot 1 are as before, and slot 0 now starts at sector 20. -/
theorem make_request_merges_front_first :
    merge_pair.current_request 3 = [0, 1] ∧ merges_back merge_pair 1 0 20 1 ∧
      (make_request (refile_buffer 1) 1 3 .READ 1 merge_pair).isOk = true ∧
      (make_request (refile_buffer 1) 1 3 .READ 1 merge_pair).state.all_requests 1 =
        merge_pair.all_requests 1 ∧
      ((make_request (refile_buffer 1) 1 3 .READ 1 merge_pair).state.b 6).b_reqnext = 0 ∧
      ((make_request (refile_buffer 1) 1 3 .READ 1 merge_pair).state.all_requests 0).sector = 20 ∧
      ((make_request (refile_buffer 1) 1 3 .READ 1 merge_pair).state.all_requests 0).bh = 1 := by
  refine ⟨by decide!, by decide!, by decide!, by decide!, by decide!, by decide!, by decide!⟩

/-- C16 (amended): on a major that supports merging, for a READ or WRITE, or a READA or
WRITEA, which `make_request` turns into a READ or WRITE (`rw` is the command after that
step), of a linked, unlocked buffer that needs the transfer (not up to date for a READ,
dirty for a WRITE) and does not lie beyond the end of the device, when the pending request
`req` is the first request of the walk over the queue that the buffer can be merged with,
in front or behind, and `req` ends where the buffer begins: `make_request` returns, the
buffer follows the old tail of the chain of `req` and is the new tail, `nr_sectors` of
`req` grows by the sector count of the buffer, every other field of `req` (its first
sector among them) and every other request slot is as before, and so are the queues; the
driver is not called. -/
theorem make_request_merges_back (fuel major : Nat) (rw0 rw : Rw) (bh req : Nat)
    (pre post : List Nat) (s : State) (hI : Inv s) (hl : Linked s bh)
    (hrw : rw = if rw0 = .READA then Rw.READ else if rw0 = .WRITEA then .WRITE else rw0)
    (hlock : (s.b bh).b_lock = false)
    (hfar : ∀ sz, s.blk_size major = some sz →
      ¬ (sz (MINOR (s.b bh).b_dev) % 4294967296 <
        ((((((s.b bh).b_blocknr * ((s.b bh).b_size >>> 9)) % 4294967296 +
          (s.b bh).b_size >>> 9) % 4294967296) >>> 1 : Nat) : Int)))
    (hio : ¬ ((rw = .WRITE ∧ (s.b bh).b_dirt = false) ∨
      (rw = .READ ∧ (s.b bh).b_uptodate = true)))
    (hmaj : major = IDE0_MAJOR ∨ major = IDE1_MAJOR ∨ major = FLOPPY_MAJOR ∨
      major = SCSI_DISK_MAJOR ∨ major = SCSI_CDROM_MAJOR)
    (hwalk : merge_walk s major = pre ++ req :: post)
    (hpre : ∀ x ∈ pre,
      ¬ merges_back s bh rw.val (((s.b bh).b_blocknr * ((s.b bh).b_size >>> 9)) % 4294967296) x ∧
      ¬ merges_front s bh rw.val (((s.b bh).b_blocknr * ((s.b bh).b_size >>> 9)) % 4294967296)
        ((s.b bh).b_size >>> 9) x)
    (hback : merges_back s bh rw.val
      (((s.b bh).b_blocknr * ((s.b bh).b_size >>> 9)) % 4294967296) req) :
    ∃ s', make_request (refile_buffer (fuel + 1)) fuel major rw0 bh s = .ok () s' ∧
      (s'.b (s.all_requests req).bhtail).b_reqnext = bh ∧
      s'.all_requests req = { (s.all_requests req) with
        bhtail := bh, nr_sectors := (s.all_requests req).nr_sectors + (s.b bh).b_size >>> 9 } ∧
      (s'.all_requests req).sector = (s.all_requests req).sector ∧
      (∀ r, r ≠ req → s'.all_requests r = s.all_requests r) ∧
      s'.current_request = s.current_request ∧ s'.request_fn_calls = s.request_fn_calls := by
  obtain ⟨_, s', e, h1, h2, h3, h4, -⟩ :=
    make_request_merges_back_run fuel major rw0 rw bh req _ _ pre post s hI hl hrw hlock rfl
      rfl
      hfar hio hmaj hwalk hpre hback
  refine ⟨s', e, h1, ?_, ?_, ?_, h3, h4⟩
  · rw [h2, upd_same]
  · rw [h2, upd_same]
  · intro r hr
    rw [h2, upd_other _ _ _ _ hr]

/-- C16 (witness): the buffer 62 of `merge_ready`, block 2 of the disk `0x301`, is merged
behind slot 0, which reads the sectors 2 and 3, by a READ and also by a READA. -/
theorem make_request_merges_back_witness :
    (∃ s', make_request (refile_buffer 2) 1 3 .READ 62 merge_ready = .ok () s' ∧
      (s'.b (merge_ready.all_requests 0).bhtail).b_reqnext = 62 ∧
      s'.all_requests 0 = { (merge_ready.all_requests 0) with
        bhtail := 62,
        nr_sectors := (merge_ready.all_requests 0).nr_sectors + (merge_ready.b 62).b_size >>> 9 } ∧
      (s'.all_requests 0).sector = (merge_ready.all_requests 0).sector ∧
      (∀ r, r ≠ 0 → s'.all_requests r = merge_ready.all_requests r) ∧
      s'.current_request = merge_ready.current_request ∧
      s'.request_fn_calls = merge_ready.request_fn_calls) ∧
    (∃ s', make_request (refile_buffer 2) 1 3 .READA 62 merge_ready = .ok () s' ∧
      (s'.b (merge_ready.all_requests 0).bhtail).b_reqnext = 62 ∧
      s'.all_requests 0 = { (merge_ready.all_requests 0) with
        bhtail := 62,
        nr_sectors := (merge_ready.all_requests 0).nr_sectors + (merge_ready.b 62).b_size >>> 9 } ∧
      (s'.all_requests 0).sector = (merge_ready.all_requests 0).sector ∧
      (∀ r, r ≠ 0 → s'.all_requests r = merge_ready.all_requests r) ∧
      s'.current_request = merge_ready.current_request ∧
      s'.request_fn_calls = merge_ready.request_fn_calls) :=
  ⟨make_request_merges_back 1 3 .READ .READ 62 0 [] [] merge_ready merge_ready_inv (by decide!)
      rfl (by decide!) (fun sz h => by rw [merge_ready_blk_size] at h; cases h)
      (by decide!) (Or.inl rfl) (by decide!) (fun x h => absurd h (List.not_mem_nil x))
      (by decide!),
    make_request_merges_back 1 3 .READA .READ 62 0 [] [] merge_ready merge_ready_inv
      (by decide!) rfl (by decide!) (fun sz h => by rw [merge_ready_blk_size] at h; cases h)
      (by decide!) (Or.inl rfl) (by decide!) (fun x h => absurd h (List.not_mem_nil x))
      (by decide!)⟩

theorem get_request_loop_runs (n prev : Nat) (hn : n = 64 ∨ n = 42) (hp : prev < n)
    (s : State) :
    ∀ fuel req, req < n → (req + n - 1 - prev) % n < fuel →
      (∃ q, q < n ∧ (s.all_requests q).dev < 0 ∧
        (req + n - 1 - q) % n ≤ (req + n - 1 - prev) % n) →
      ∃ q, get_request_loop n prev fuel req s = .ok (some q) s ∧ q < n ∧
        (s.all_requests q).dev < 0 := by
  intro fuel
  induction fuel with
  | zero =>
    intro req _ h
    exact absurd h (Nat.not_lt_zero _)
  | succ fuel ih =>
    intro req hr hd ⟨q, hq, hfree, hle⟩
    unfold get_request_loop
    simp only [bind_run, getS_run]
    have hnxt : (if req > 0 then req else n) - 1 < n := by
      split_ifs <;> omega
    by_cases h1 : (s.all_requests ((if req > 0 then req else n) - 1)).dev < 0
    · rw [if_pos h1]
      exact ⟨_, rfl, hnxt, h1⟩
    · rw [if_neg h1]
      by_cases h2 : (if req > 0 then req else n) - 1 = prev
      · exfalso
        have : q = (if req > 0 then req else n) - 1 := by
          rcases hn with rfl | rfl <;> split_ifs at h2 ⊢ <;> omega
        rw [this] at hfree
        exact h1 hfree
      · rw [if_neg h2]
        have hq2 : q ≠ (if req > 0 then req else n) - 1 := fun e => h1 (e ▸ hfree)
        refine ih _ hnxt ?_ ⟨q, hq, hfree, ?_⟩
        · rcases hn with rfl | rfl <;> split_ifs at h2 hq2 ⊢ <;> omega
        · rcases hn with rfl | rfl <;> split_ifs at h2 hq2 ⊢ <;> omega

/-- The function `get_request` finds a free slot when there is one below its limit. -/
theorem get_request_runs (fuel n : Nat) (dev : Int) (s : State) (hn : n = 64 ∨ n = 42)
    (hf : n ≤ fuel) (hs : SearchOk s) (hfree : ∃ q, q < n ∧ (s.all_requests q).dev < 0) :
    Runs (get_request fuel n dev) s fun r s' =>
      ∃ req, r = some req ∧ req < n ∧ (s.all_requests req).dev < 0 ∧
        s'.prev_limit = some n ∧ s'.prev_found = req ∧
        s'.all_requests = upd s.all_requests req { (s.all_requests req) with dev := dev } ∧
        s'.current_request = s.current_request ∧ s'.request_fn_calls = s.request_fn_calls ∧
        s'.b = s.b := by
  have hn0 : n ≠ 0 := by rcases hn with rfl | rfl <;> decide
  unfold get_request
  rw [if_neg hn0]
  refine Runs.getS_bind_r ?_
  dsimp only
  rw [ite_bind_jp]
  refine Runs.bind_r (R := fun _ s1 => s1.prev_limit = some n ∧ s1.prev_found < n ∧
    s1.all_requests = s.all_requests ∧ s1.current_request = s.current_request ∧
    s1.request_fn_calls = s.request_fn_calls ∧ s1.b = s.b) ?_ ?_
  · refine Runs.ite_r (fun h => ⟨(), _, rfl, rfl, ?_, rfl, rfl, rfl, rfl⟩)
      fun h => Runs.pure_r ⟨not_not.mp h, hs n (not_not.mp h), rfl, rfl, rfl, rfl⟩
    exact Nat.pos_of_ne_zero hn0
  intro _ s1 _ ⟨h1, h2, h3, h4, h5, h6⟩
  refine Runs.getS_bind_r ?_
  obtain ⟨q, hq, hqf⟩ := hfree
  obtain ⟨req, e, hr, hrf⟩ := get_request_loop_runs n s1.prev_found hn h2 s1 fuel s1.prev_found
    h2 (by rcases hn with rfl | rfl <;> omega)
    ⟨q, hq, by rw [h3]; exact hqf, by rcases hn with rfl | rfl <;> omega⟩
  refine Runs.bind_r (R := fun r s2 => r = some req ∧ s2 = s1) ⟨_, _, e, rfl, rfl⟩ ?_
  intro r s2 _ ⟨hr1, hs2⟩
  subst hr1
  rw [hs2]
  dsimp only
  refine Runs.modS_head_r fun s3 e3 => ?_
  refine ⟨some req, _, rfl, req, rfl, hr, by rw [← h3]; exact hrf, ?_⟩
  rw [e3]
  refine ⟨h1, rfl, ?_, h4, h5, h6⟩
  show upd s1.all_requests req _ = _
  rw [h3]

theorem SameQueue.pre_sq : Pre SameQueue :=
  ⟨fun _ => ⟨rfl, rfl, rfl, rfl, fun _ => rfl⟩, fun _ _ _ h h' =>
    ⟨h'.current_request.trans h.current_request, h'.request_fn_calls.trans h.request_fn_calls,
      h'.prev_limit.trans h.prev_limit, h'.prev_found.trans h.prev_found,
      fun r => (h'.dev r).trans (h.dev r)⟩⟩

theorem sameQueue_setB (s : State) (bh : Nat) (f : buffer_head → buffer_head) :
    SameQueue s (setB bh f s).state := ⟨rfl, rfl, rfl, rfl, fun _ => rfl⟩

theorem sameQueue_setR (s : State) (req : Nat) (f : request → request)
    (hf : ∀ r, (f r).dev = r.dev) : SameQueue s (setR req f s).state := by
  refine ⟨rfl, rfl, rfl, rfl, fun r => ?_⟩
  show (upd s.all_requests req (f (s.all_requests req)) r).dev = _
  by_cases h : r = req
  · subst h
    rw [upd_same]
    exact hf _
  · rw [upd_other _ _ _ _ h]

theorem FreeSlots.same_fs {s s' : State} {k : Nat} (h : FreeSlots s k)
    (hd : ∀ r, (s'.all_requests r).dev = (s.all_requests r).dev) : FreeSlots s' k := by
  obtain ⟨l, h1, h2, h3⟩ := h
  exact ⟨l, h1, h2, fun q hq => ⟨(h3 q hq).1, by rw [hd]; exact (h3 q hq).2⟩⟩

theorem FreeSlots.less_fs {s : State} {k : Nat} (h : FreeSlots s (k + 1)) : FreeSlots s k := by
  obtain ⟨l, h1, h2, h3⟩ := h
  exact ⟨l, h1, Nat.le_of_succ_le h2, h3⟩

/-- One slot is taken: one free slot less. -/
theorem FreeSlots.take {s s' : State} {k : Nat} (h : FreeSlots s (k + 1)) (req : Nat)
    (hd : ∀ r, r ≠ req → (s'.all_requests r).dev = (s.all_requests r).dev) :
    FreeSlots s' k := by
  obtain ⟨l, h1, h2, h3⟩ := h
  refine ⟨l.erase req, h1.erase req, ?_, fun q hq => ?_⟩
  · have := List.length_erase_le req l
    by_cases hm : req ∈ l
    · rw [List.length_erase_of_mem hm]
      omega
    · rw [List.erase_of_not_mem hm]
      omega
  · have hq' := (List.Nodup.mem_erase_iff h1).mp hq
    exact ⟨(h3 q hq'.2).1, by rw [hd q hq'.1]; exact (h3 q hq'.2).2⟩

theorem Batch.same_bt {s s' : State} {major : Nat} {calls : List Nat} {k : Nat}
    (h : Batch s major calls k) (q : SameQueue s s') : Batch s' major calls k := by
  refine ⟨fun n hn => ?_, ?_, q.request_fn_calls.trans h.calls, h.slots.same_fs q.dev⟩
  · rw [q.prev_found]
    exact h.search n (by rw [← q.prev_limit]; exact hn)
  · obtain ⟨rest, h1, h2⟩ := h.plugged
    exact ⟨rest, by rw [q.current_request]; exact h1, h2⟩

theorem Batch.less_bt {s : State} {major : Nat} {calls : List Nat} {k : Nat}
    (h : Batch s major calls (k + 1)) : Batch s major calls k :=
  ⟨h.search, h.plugged, h.calls, h.slots.less_fs⟩

theorem sameQueue_remove_from_queues (bh : Nat) : KeepsR SameQueue (remove_from_queues bh) := by
  have hp := SameQueue.pre_sq
  unfold remove_from_queues
  refine KeepsR.getS_bind_R fun s0 => KeepsR.ite_R (fun _ => ?_) fun _ => ?_
  · unfold remove_from_free_list
    refine KeepsR.getS_bind_R fun _ => KeepsR.ite_R (fun _ => KeepsR.kpanic_R _) fun _ =>
      KeepsR.ite_R (fun _ => KeepsR.kpanic_R _) fun _ =>
      KeepsR.ite_R (fun _ => KeepsR.kpanic_R _) fun _ =>
      KeepsR.modS_R _ fun _ => ⟨rfl, rfl, rfl, rfl, fun _ => rfl⟩
  · refine KeepsR.bind_R hp (KeepsR.modS_R _ fun _ => ⟨rfl, rfl, rfl, rfl, fun _ => rfl⟩)
      fun _ => ?_
    refine KeepsR.bind_R hp (KeepsR.modS_R _ fun _ => ⟨rfl, rfl, rfl, rfl, fun _ => rfl⟩)
      fun _ => ?_
    unfold remove_from_lru_list
    refine KeepsR.getS_bind_R fun _ => KeepsR.ite_R (fun _ => KeepsR.kpanic_R _) fun _ =>
      KeepsR.ite_R (fun _ => KeepsR.kpanic_R _) fun _ =>
      KeepsR.modS_R _ fun _ => ⟨rfl, rfl, rfl, rfl, fun _ => rfl⟩

theorem sameQueue_insert_into_queues (bh : Nat) : KeepsR SameQueue (insert_into_queues bh) := by
  have hp := SameQueue.pre_sq
  unfold insert_into_queues
  refine KeepsR.getS_bind_R fun s0 => KeepsR.ite_R (fun _ => ?_) fun _ => ?_
  · unfold put_last_free
    refine KeepsR.getS_bind_R fun _ => KeepsR.ite_R (fun _ => KeepsR.pure_R hp _) fun _ => ?_
    exact KeepsR.bind_R hp (KeepsR.setB_R _ _ fun s => sameQueue_setB s _ _) fun _ =>
      KeepsR.modS_R _ fun _ => ⟨rfl, rfl, rfl, rfl, fun _ => rfl⟩
  · refine KeepsR.ite_R (fun _ => KeepsR.kpanic_R _) fun _ => ?_
    refine KeepsR.bind_R hp (KeepsR.modS_R _ fun _ => ⟨rfl, rfl, rfl, rfl, fun _ => rfl⟩)
      fun _ => ?_
    exact KeepsR.ite_R (fun _ => KeepsR.pure_R hp _) fun _ =>
      KeepsR.modS_R _ fun _ => ⟨rfl, rfl, rfl, rfl, fun _ => rfl⟩

/-- On a clean buffer `refile_buffer` leaves the request layer alone. -/
theorem refile_clean_queue (fuel buf : Nat) (s : State) (hd : (s.b buf).b_dirt = false) :
    KeepsAt SameQueue (refile_buffer fuel buf) s := by
  cases fuel with
  | zero => exact KeepsAt.khang_A s
  | succ fuel =>
    have hne := refile_dispose_clean hd
    have hp := SameQueue.pre_sq
    show KeepsAt SameQueue (refile_buffer_body (refile_buffer fuel) fuel buf) s
    unfold refile_buffer_body
    refine KeepsAt.getS_bind_A ?_
    refine KeepsAt.ite_A (fun _ => KeepsAt.kpanic_A _ _) fun hdev => ?_
    dsimp only
    rw [ite_bind_jp]
    refine KeepsAt.bind_A hp (KeepsAt.ite_A (fun _ => (KeepsR.setB_R _ _ fun s =>
      sameQueue_setB s _ _).at_R s) fun _ => KeepsAt.pure_A hp _ _) ?_
    intro _ s1 _ h1
    refine KeepsAt.ite_A (fun _ => ?_) fun _ => KeepsAt.pure_A hp _ _
    rw [ite_bind_jp]
    refine KeepsAt.bind_A hp (KeepsAt.ite_A (fun _ => (KeepsR.setB_R _ _ fun s =>
      sameQueue_setB s _ _).at_R s1) fun _ => KeepsAt.pure_A hp _ _) ?_
    intro _ s2 _ h2
    refine KeepsAt.getS_bind_A ?_
    refine KeepsAt.bind_A hp ((sameQueue_remove_from_queues buf).at_R s2) ?_
    intro _ s3 _ h3
    refine KeepsAt.bind_A hp ((KeepsR.setB_R _ _ fun s => sameQueue_setB s _ _).at_R s3) ?_
    intro _ s4 _ h4
    refine KeepsAt.bind_A hp ((sameQueue_insert_into_queues buf).at_R s4) ?_
    intro _ s5 _ h5
    refine KeepsAt.getS_bind_A ?_
    rw [if_neg fun hw => hne (locked1_dirty _ _ hw.1)]
    exact KeepsAt.pure_A hp _ _

theorem sameQueue_mark_buffer_clean (fuel bh : Nat) :
    KeepsR SameQueue (mark_buffer_clean (refile_buffer fuel) bh) := by
  intro s
  have hp := SameQueue.pre_sq
  show KeepsAt SameQueue _ s
  unfold mark_buffer_clean
  refine KeepsAt.getS_bind_A ?_
  refine KeepsAt.ite_A (fun _ => ?_) fun _ => KeepsAt.pure_A hp _ _
  refine KeepsAt.bind_A hp ((KeepsR.setB_R _ _ fun s => sameQueue_setB s _ _).at_R s) ?_
  intro _ s1 e1 h1
  refine KeepsAt.ite_A (fun _ => ?_) fun _ => KeepsAt.pure_A hp _ _
  refine refile_clean_queue fuel bh s1 ?_
  cases e1
  show (upd s.b bh _ bh).b_dirt = false
  rw [upd_same]

/-- The function `add_request` leaves the slot search alone. -/
theorem add_request_search (fuel major req : Nat) :
    KeepsR (fun s s' => s'.prev_limit = s.prev_limit ∧ s'.prev_found = s.prev_found)
      (add_request (refile_buffer fuel) major req) := by
  have hp : Pre (fun s s' : State => s'.prev_limit = s.prev_limit ∧ s'.prev_found = s.prev_found) :=
    ⟨fun _ => ⟨rfl, rfl⟩, fun _ _ _ h h' => ⟨h'.1.trans h.1, h'.2.trans h.2⟩⟩
  unfold add_request
  refine KeepsR.getS_bind_R fun s0 => ?_
  refine KeepsR.bind_R hp ?_ fun _ => ?_
  · unfold add_request_kstat
    refine KeepsR.modS_R _ fun s => ?_
    dsimp only
    split_ifs <;> exact ⟨rfl, rfl⟩
  dsimp only
  rw [ite_bind_jp]
  refine KeepsR.bind_R hp (KeepsR.ite_R (fun _ => (sameQueue_mark_buffer_clean fuel _).mono_R
    fun _ _ h => ⟨h.prev_limit, h.prev_found⟩) fun _ => KeepsR.pure_R hp _) fun _ => ?_
  refine KeepsR.getS_bind_R fun s1 => ?_
  split
  · exact KeepsR.bind_R hp (KeepsR.modS_R _ fun _ => ⟨rfl, rfl⟩) fun _ =>
      KeepsR.modS_R _ fun _ => ⟨rfl, rfl⟩
  · exact KeepsR.bind_R hp (KeepsR.modS_R _ fun _ => ⟨rfl, rfl⟩) fun _ =>
      KeepsR.ite_R (fun _ => KeepsR.modS_R _ fun _ => ⟨rfl, rfl⟩) fun _ => KeepsR.pure_R hp _

theorem add_request_insert_mem (s : State) (req x : Nat) :
    ∀ (rest : List Nat) (tmp : Nat), x ∈ add_request_insert s req tmp rest →
      x = req ∨ x ∈ rest := by
  intro rest
  induction rest with
  | nil =>
    intro tmp h
    unfold add_request_insert at h
    exact Or.inl (List.mem_singleton.mp h)
  | cons nxt more ih =>
    intro tmp h
    unfold add_request_insert at h
    split_ifs at h
    · rcases List.mem_cons.mp h with h | h
      · exact Or.inl h
      · exact Or.inr h
    · rcases List.mem_cons.mp h with h | h
      · exact Or.inr (h ▸ List.mem_cons_self _ _)
      · exact (ih nxt h).imp id (List.mem_cons_of_mem _)

/-- Under the plug, the queueing part of `make_request` returns for a linked buffer of a
device that is not a SCSI device, as long as a request slot is free: the plug stays at
the head and the driver is not called. -/
theorem make_request_queue_batch (f fuel major : Nat) (rw : Rw) (ra : Bool)
    (bh sector count : Nat) (calls : List Nat) (k : Nat) (s : State) (hI : Inv s)
    (hl : Linked s bh) (hb : Batch s major calls (k + 1)) (hf : NR_REQUEST ≤ fuel)
    (hscsi : scsi_major (MAJOR (s.b bh).b_dev) = false) :
    Runs (make_request_queue (refile_buffer (f + 1)) fuel major rw ra bh sector count) s
      fun _ s' => Batch s' major calls k := by
  unfold make_request_queue
  refine Runs.getS_bind_r ?_
  dsimp only
  split
  · rename_i req _
    refine Runs.setB_head_r fun s1 e1 => ?_
    have hc1 : SameCore s s1 := by
      rw [e1]
      exact sameCore_setB s _ _ rfl rfl rfl rfl rfl rfl rfl
    have hq1 : SameQueue s s1 := by
      rw [e1]
      exact sameQueue_setB s _ _
    refine Runs.bind_r (R := fun _ s2 => s2 = (setR req (fun r =>
      { r with bhtail := bh, nr_sectors := r.nr_sectors + count }) s1).state)
      ⟨(), _, rfl, rfl⟩ ?_
    intro _ s2 _ e2
    have hc2 : SameCore s1 s2 := by
      have := quiet_setR req (fun r =>
        { r with bhtail := bh, nr_sectors := r.nr_sectors + count }) s1
      rw [e2]
      exact this
    have hq2 : SameQueue s1 s2 := by
      rw [e2]
      exact sameQueue_setR s1 _ _ fun _ => rfl
    refine (mark_buffer_clean_runs f bh s2 (hc2.inv_sc (hc1.inv_sc hI))
      ((hc2.linked bh).mpr ((hc1.linked bh).mpr hl))).mono_r fun a s' e _ => ?_
    exact ((hb.less_bt.same_bt hq1).same_bt hq2).same_bt (sameQueue_mark_buffer_clean _ bh s2 a s' e)
  · rename_i req _
    refine Runs.setB_head_r fun s1 e1 => ?_
    have hc1 : SameCore s s1 := by
      rw [e1]
      exact sameCore_setB s _ _ rfl rfl rfl rfl rfl rfl rfl
    have hq1 : SameQueue s s1 := by
      rw [e1]
      exact sameQueue_setB s _ _
    refine Runs.bind_r (R := fun _ s2 => s2 = (setR req (fun r =>
      { r with nr_sectors := r.nr_sectors + count, buffer := (s.b bh).b_data,
               current_nr_sectors := count, sector := sector }) s1).state)
      ⟨(), _, rfl, rfl⟩ ?_
    intro _ s2 _ e2
    have hc2 : SameCore s1 s2 := by
      have := quiet_setR req (fun r =>
        { r with nr_sectors := r.nr_sectors + count, buffer := (s.b bh).b_data,
                 current_nr_sectors := count, sector := sector }) s1
      rw [e2]
      exact this
    have hq2 : SameQueue s1 s2 := by
      rw [e2]
      exact sameQueue_setR s1 _ _ fun _ => rfl
    refine Runs.bind_r (mark_buffer_clean_runs f bh s2 (hc2.inv_sc (hc1.inv_sc hI))
      ((hc2.linked bh).mpr ((hc1.linked bh).mpr hl))) ?_
    intro a s3 e3 _
    have hq3 := sameQueue_mark_buffer_clean _ bh s2 a s3 e3
    have hq4 : SameQueue s3 (setR req (fun r => { r with bh := bh }) s3).state :=
      sameQueue_setR s3 _ _ fun _ => rfl
    exact ⟨(), _, rfl, (((hb.less_bt.same_bt hq1).same_bt hq2).same_bt hq3).same_bt hq4⟩
  · have hmax : (if rw = Rw.READ then NR_REQUEST else NR_REQUEST * 2 / 3) = 64 ∨
        (if rw = Rw.READ then NR_REQUEST else NR_REQUEST * 2 / 3) = 42 := by
      split_ifs
      · exact Or.inl rfl
      · exact Or.inr rfl
    have hmle : (if rw = Rw.READ then NR_REQUEST else NR_REQUEST * 2 / 3) ≤ fuel := by
      refine Nat.le_trans ?_ hf
      split_ifs <;> decide
    have hm42 : NR_REQUEST * 2 / 3 ≤ (if rw = Rw.READ then NR_REQUEST else NR_REQUEST * 2 / 3) := by
      split_ifs <;> decide
    have hm64 : (if rw = Rw.READ then NR_REQUEST else NR_REQUEST * 2 / 3) ≤ NR_REQUEST := by
      split_ifs <;> decide
    have hfree : ∃ q, q < (if rw = Rw.READ then NR_REQUEST else NR_REQUEST * 2 / 3) ∧
        (s.all_requests q).dev < 0 := by
      obtain ⟨l, -, h2, h3⟩ := hb.slots
      cases l with
      | nil => exact absurd h2 (by simp)
      | cons q l =>
        exact ⟨q, Nat.lt_of_lt_of_le (h3 q (List.mem_cons_self _ _)).1 hm42,
          (h3 q (List.mem_cons_self _ _)).2⟩
    have hn0 : (if rw = Rw.READ then NR_REQUEST else NR_REQUEST * 2 / 3) ≠ 0 := by
      split_ifs <;> decide
    refine Runs.bind_r (get_request_runs fuel _ ((s.b bh).b_dev : Int) s hmax hmle hb.search
      hfree) ?_
    intro r s1 e1 ⟨req, hr, hlt, hfr, hpl, hpf, har, hcr, hfc, hb1⟩
    subst hr
    dsimp only
    have hc1 : SameCore s s1 := by
      have := quiet_get_request fuel _ ((s.b bh).b_dev : Int) hn0 s
      rw [e1] at this
      exact this
    refine Runs.bind_r (R := fun _ s2 => s2 = (setR req (fun r =>
      { r with cmd := rw.val, errors := 0, sector := sector, nr_sectors := count,
               current_nr_sectors := count, buffer := (s.b bh).b_data, sem := false,
               bh := bh, bhtail := bh }) s1).state) ⟨(), _, rfl, rfl⟩ ?_
    intro _ s2 _ e2
    have hc2 : SameCore s1 s2 := by
      have := quiet_setR req (fun r =>
        { r with cmd := rw.val, errors := 0, sector := sector, nr_sectors := count,
                 current_nr_sectors := count, buffer := (s.b bh).b_data, sem := false,
                 bh := bh, bhtail := bh }) s1
      rw [e2]
      exact this
    have hI2 : Inv s2 := hc2.inv_sc (hc1.inv_sc hI)
    have hl2 : Linked s2 bh := (hc2.linked bh).mpr ((hc1.linked bh).mpr hl)
    have hr2 : s2.all_requests req = { (s1.all_requests req) with
        cmd := rw.val, errors := 0, sector := sector, nr_sectors := count,
        current_nr_sectors := count, buffer := (s.b bh).b_data, sem := false,
        bh := bh, bhtail := bh } := by
      rw [e2]
      show upd s1.all_requests req _ req = _
      rw [upd_same]
    have hq12 : SameQueue s1 s2 := by
      rw [e2]
      exact sameQueue_setR s1 _ _ fun _ => rfl
    have hd2 := hq12.dev
    have hq2 : s2.current_request = s.current_request := by rw [e2]; exact hcr
    have hf2 : s2.request_fn_calls = s.request_fn_calls := by rw [e2]; exact hfc
    have hp2 : s2.prev_limit = s1.prev_limit ∧ s2.prev_found = s1.prev_found := by
      rw [e2]
      exact ⟨rfl, rfl⟩
    obtain ⟨s', e⟩ := add_request_runs f major req s2 hI2 (Or.inr (by rw [hr2]; exact hl2))
    obtain ⟨hr', hq', hc', -⟩ := add_request_queue (f + 1) major req s2 s' e
    have hs' := add_request_search (f + 1) major req s2 () s' e
    obtain ⟨rest, hrest, hnp⟩ := hb.plugged
    have hreq : req ≠ PLUG := fun h => by
      rw [h] at hlt
      exact absurd (Nat.lt_of_lt_of_le hlt hm64) (Nat.lt_irrefl _)
    refine ⟨(), s', e, ?_, ⟨add_request_insert s2 req PLUG rest, ?_, ?_⟩, ?_, ?_⟩
    · intro n hn
      rw [hs'.1, hp2.1, hpl] at hn
      rw [hs'.2, hp2.2, hpf]
      cases hn
      exact hlt
    · rw [hq', upd_same]
      unfold queue_add
      rw [hq2, hrest]
    · intro h
      rcases add_request_insert_mem s2 req PLUG rest PLUG h with h | h
      · exact hreq h.symm
      · exact hnp h
    · rw [hc', hf2, hb.calls, hq2, hrest, hr2]
      have hdev : (s1.all_requests req).dev = ((s.b bh).b_dev : Int) := by
        rw [har, upd_same]
      simp only [hdev, Int.toNat_ofNat, hscsi]
      simp
    · refine hb.slots.take req fun r hr => ?_
      rw [hr', hd2, har, upd_other _ _ _ _ hr]

/-- Under the plug, `make_request` returns for a linked buffer of a device that is not a
SCSI device, as long as a request slot is free: the plug stays at the head and the driver
is not called. -/
theorem make_request_batch (f fuel major : Nat) (rw : Rw) (bh : Nat) (calls : List Nat)
    (k : Nat) (s : State) (hI : Inv s) (hl : Linked s bh)
    (hb : Batch s major calls (k + 1)) (hf : NR_REQUEST ≤ fuel)
    (hscsi : scsi_major (MAJOR (s.b bh).b_dev) = false) :
    Runs (make_request (refile_buffer (f + 1)) fuel major rw bh) s
      fun _ s' => Batch s' major calls k := by
  unfold make_request
  refine Runs.getS_bind_r ?_
  dsimp only
  refine Runs.ite_r (fun _ => Runs.pure_r hb.less_bt) fun _ => ?_
  refine Runs.ite_r (fun _ => Runs.setB_r (hb.less_bt.same_bt (sameQueue_setB s _ _))) fun _ => ?_
  refine Runs.ite_r (fun _ => Runs.pure_r hb.less_bt) fun hlk => ?_
  have hlock : (s.b bh).b_lock = false := by simpa using hlk
  refine Runs.bind_r (R := fun _ s1 => s1 = (setB bh (fun v => { v with b_lock := true }) s).state)
    ⟨(), _, lock_buffer_unlocked bh s hlock, rfl⟩ ?_
  intro _ s1 _ e1
  have hc1 : SameCore s s1 := by
    rw [e1]
    exact sameCore_setB s bh _ rfl rfl rfl rfl rfl rfl rfl
  have hq1 : SameQueue s s1 := by
    rw [e1]
    exact sameQueue_setB s _ _
  refine Runs.getS_bind_r ?_
  refine Runs.ite_r (fun _ => ?_) fun _ => ?_
  · unfold unlock_buffer
    exact Runs.setB_r ((hb.less_bt.same_bt hq1).same_bt (sameQueue_setB s1 _ _))
  · exact make_request_queue_batch f fuel major _ _ bh _ _ calls k s1 (hc1.inv_sc hI)
      ((hc1.linked bh).mpr hl) (hb.same_bt hq1) hf (by rw [hc1.b_dev]; exact hscsi)

/-- Under the plug, the submission loop of `ll_rw_block` returns as long as there is a free
request slot for each buffer: the plug stays at the head and the driver is not called. -/
theorem ll_rw_block_loop_batch (f fuel major : Nat) (rw : Rw) (calls : List Nat)
    (hf : NR_REQUEST ≤ fuel) :
    ∀ (bhs : List Nat) (s : State), Inv s →
      (∀ x ∈ bhs, x ≠ 0 → Linked s x ∧ scsi_major (MAJOR (s.b x).b_dev) = false) →
      Batch s major calls bhs.length →
      Runs (ll_rw_block_loop (refile_buffer (f + 1)) fuel major rw bhs) s
        fun _ s' => Inv s' ∧ Stable s s' ∧ Batch s' major calls 0 := by
  intro bhs
  induction bhs with
  | nil =>
    intro s hI _ hb
    exact Runs.pure_r ⟨hI, Stable.refl_st s, hb⟩
  | cons bh rest ih =>
    intro s hI hx hb
    unfold ll_rw_block_loop
    dsimp only
    have hrest : ∀ s', Inv s' → Stable s s' → Batch s' major calls rest.length →
        Runs (ll_rw_block_loop (refile_buffer (f + 1)) fuel major rw rest) s'
          fun _ s'' => Inv s'' ∧ Stable s s'' ∧ Batch s'' major calls 0 := by
      intro s' hI' hs' hb'
      refine (ih s' hI' (fun x hm h0 => ?_) hb').mono_r fun _ s'' _ h =>
        ⟨h.1, hs'.trans_st h.2.1, h.2.2⟩
      have := hx x (List.mem_cons_of_mem _ hm) h0
      exact ⟨(hs'.linked x).mpr this.1, by rw [hs'.b_dev]; exact this.2⟩
    refine Runs.ite_r (fun h0 => ?_) fun _ => ?_
    · refine Runs.setB_head_r fun s1 e1 => ?_
      have hc1 : SameCore s s1 := by
        rw [e1]
        exact sameCore_setB s bh _ rfl rfl rfl rfl rfl rfl rfl
      have hq1 : SameQueue s s1 := by
        rw [e1]
        exact sameQueue_setB s _ _
      have hbh := hx bh (List.mem_cons_self _ _) h0
      have hI1 := hc1.inv_sc hI
      have hl1 := (hc1.linked bh).mpr hbh.1
      refine Runs.bind_r ((make_request_batch f fuel major rw bh calls rest.length s1 hI1 hl1
        (hb.same_bt hq1) hf (by rw [hc1.b_dev]; exact hbh.2)).post
        (make_request_good _ (refile_buffer_good _) fuel major rw bh s1) hI1) ?_
      intro _ s2 _ ⟨hb2, hI2, hs2⟩
      rw [ite_bind_jp]
      refine Runs.bind_r (R := fun _ s3 => SameCore s2 s3 ∧ SameQueue s2 s3)
        (Runs.ite_r (fun _ => ⟨(), _, rfl, ?_, ?_⟩) fun _ => ⟨(), _, rfl, ?_, ?_⟩) ?_
      · exact sameCore_other _ _ rfl rfl rfl rfl rfl rfl rfl rfl
      · exact ⟨rfl, rfl, rfl, rfl, fun _ => rfl⟩
      · exact sameCore_other _ _ rfl rfl rfl rfl rfl rfl rfl rfl
      · exact ⟨rfl, rfl, rfl, rfl, fun _ => rfl⟩
      intro _ s3 _ ⟨hc3, hq3⟩
      exact hrest s3 (hc3.inv_sc hI2) ((hc1.stable.trans_st hs2).trans_st hc3.stable)
        (hb2.same_bt hq3)
    · refine Runs.bind_r (R := fun _ s1 => s1 = s) (Runs.pure_r rfl) ?_
      intro _ s1 _ e1
      rw [e1]
      exact hrest s hI (Stable.refl_st s) hb.less_bt

theorem plug_queue_batch (s : State) (major k : Nat) (hs : SearchOk s) (hfree : FreeSlots s k) :
    Batch (plug_queue s major) major s.request_fn_calls k := by
  refine ⟨hs, ⟨[], ?_, List.not_mem_nil _⟩, rfl, ?_⟩
  · show upd s.current_request major [PLUG] major = _
    rw [upd_same]
  · obtain ⟨l, h1, h2, h3⟩ := hfree
    refine ⟨l, h1, h2, fun q hq => ⟨(h3 q hq).1, ?_⟩⟩
    have hne : q ≠ PLUG := fun h => by
      have := (h3 q hq).1
      rw [h] at this
      exact absurd this (by decide)
    show (upd s.all_requests PLUG _ q).dev < 0
    rw [upd_other _ _ _ _ hne]
    exact (h3 q hq).2

/-- C15 (counterexample): a READ of the two buffers 1 and 2 is submitted to the SCSI disk
`0x801`, whose queue is empty.  `ll_rw_block` plugs the queue, and `add_request` calls the
driver for each of the two requests while the plug heads the queue: at the end of the
submission loop the driver has been called twice, and after the plug is removed it is
called a third time. -/
theorem scsi_batch_calls_driver :
    scsi_pair.current_request 8 = [] ∧ scsi_pair.request_fn_calls = [] ∧
      (ll_rw_block_loop (refile_buffer 1) 64 8 .READ [1, 2]
        (plug_queue scsi_pair 8)).state.request_fn_calls = [8, 8] ∧
      (ll_rw_block_loop (refile_buffer 1) 64 8 .READ [1, 2]
        (plug_queue scsi_pair 8)).state.current_request 8 = [PLUG, 63, 62] ∧
      (ll_rw_block (refile_buffer 1) 64 .READ [1, 2] scsi_pair).isOk = true ∧
      (ll_rw_block (refile_buffer 1) 64 .READ [1, 2] scsi_pair).state.request_fn_calls =
        [8, 8, 8] := by
  refine ⟨by decide!, by decide!, by decide!, by decide!, by decide!, by decide!⟩

/-- C15 (amended): a batch whose buffers belong to devices that are not SCSI devices is
submitted to a device with a driver and an empty queue; the array holds more than one
entry behind its leading null pointers, the buffers have the block size of the device and
are on disposition lists, and there is a free request slot for each entry.  Then
`ll_rw_block` returns.  The submission loop, run from the state in which the plug is the
queue, ends in a state `s1` in which the driver calls recorded are those recorded before
the call and the plug heads the queue; `ll_rw_block` ends in a state in which one call of
the driver of the device has been added, and the queue is that of `s1` without the plug,
which it does not hold. -/
theorem ll_rw_block_plug_defers (f fuel : Nat) (rw : Rw) (bhs : List Nat) (bh0 : Nat)
    (rest : List Nat) (s : State) (hI : Inv s) (hf : NR_REQUEST ≤ fuel)
    (hdw : bhs.dropWhile (fun x => x == 0) = bh0 :: rest) (hrest : rest ≠ [])
    (hdrv : MAJOR (s.b bh0).b_dev < MAX_BLKDEV ∧ s.request_fn (MAJOR (s.b bh0).b_dev) = true)
    (hsize : (bh0 :: rest).find? (fun x => x != 0 && (s.b x).b_size !=
      (match s.blksize_size (MAJOR (s.b bh0).b_dev) with
        | none => BLOCK_SIZE
        | some sz =>
          if sz (MINOR (s.b bh0).b_dev) ≠ 0 then sz (MINOR (s.b bh0).b_dev) else BLOCK_SIZE)) =
      none)
    (hro : ¬ ((rw = .WRITE ∨ rw = .WRITEA) ∧ is_read_only s (s.b bh0).b_dev ≠ 0))
    (hq : s.current_request (MAJOR (s.b bh0).b_dev) = [])
    (hx : ∀ x ∈ bh0 :: rest, x ≠ 0 →
      Linked s x ∧ scsi_major (MAJOR (s.b x).b_dev) = false)
    (hs : SearchOk s) (hfree : FreeSlots s (rest.length + 1)) :
    ∃ s1 s', ll_rw_block_loop (refile_buffer (f + 1)) fuel (MAJOR (s.b bh0).b_dev) rw
        (bh0 :: rest) (plug_queue s (MAJOR (s.b bh0).b_dev)) = .ok () s1 ∧
      s1.request_fn_calls = s.request_fn_calls ∧
      ll_rw_block (refile_buffer (f + 1)) fuel rw bhs s = .ok () s' ∧
      s'.request_fn_calls = s.request_fn_calls ++ [MAJOR (s.b bh0).b_dev] ∧
      PLUG ∉ s'.current_request (MAJOR (s.b bh0).b_dev) ∧
      s1.current_request (MAJOR (s.b bh0).b_dev) =
        PLUG :: s'.current_request (MAJOR (s.b bh0).b_dev) := by
  have hc0 : SameCore s (plug_queue s (MAJOR (s.b bh0).b_dev)) :=
    sameCore_other _ _ rfl rfl rfl rfl rfl rfl rfl rfl
  have hloop := ll_rw_block_loop_batch f fuel (MAJOR (s.b bh0).b_dev) rw s.request_fn_calls hf
    (bh0 :: rest) (plug_queue s (MAJOR (s.b bh0).b_dev)) (hc0.inv_sc hI)
    (fun x hm h0 => ⟨(hc0.linked x).mpr (hx x hm h0).1, by rw [hc0.b_dev]; exact (hx x hm h0).2⟩)
    (plug_queue_batch s _ _ hs hfree)
  obtain ⟨_, s1, e1, -, -, hb1⟩ := hloop
  obtain ⟨rest1, hq1, hn1⟩ := hb1.plugged
  have key : Runs (ll_rw_block (refile_buffer (f + 1)) fuel rw bhs) s fun _ s' =>
      s'.request_fn_calls = s1.request_fn_calls ++ [MAJOR (s.b bh0).b_dev] ∧
        s'.current_request (MAJOR (s.b bh0).b_dev) = rest1 := by
    unfold ll_rw_block
    rw [hdw]
    dsimp only
    refine Runs.getS_bind_r ?_
    rw [if_neg (not_not.mpr hdrv)]
    split
    · rename_i x heq
      exact absurd (hsize.symm.trans heq) (by simp)
    · rw [if_neg hro]
      have hpl : decide (s.current_request (MAJOR (s.b bh0).b_dev) = [] ∧
          (bh0 :: rest).length > 1) = true := by
        refine decide_eq_true ⟨hq, ?_⟩
        cases rest with
        | nil => exact absurd rfl hrest
        | cons _ _ => simp
      rw [ite_bind_jp2]
      simp only [hpl, if_true]
      refine Runs.bind_r (R := fun _ s0 => s0 = plug_queue s (MAJOR (s.b bh0).b_dev))
        ⟨(), _, rfl, rfl⟩ ?_
      intro _ s0 _ e0
      rw [e0]
      refine Runs.bind_r (R := fun _ s2 => s2 = s1) ⟨(), _, e1, rfl⟩ ?_
      intro _ s2 _ e2
      rw [e2]
      refine ⟨(), _, rfl, rfl, ?_⟩
      show upd s1.current_request _ _ _ = _
      rw [upd_same, hq1]
      simp
  obtain ⟨_, s', e, h1, h2⟩ := key
  exact ⟨s1, s', e1, hb1.calls, e, by rw [h1, hb1.calls], by rw [h2]; exact hn1,
    by rw [h2]; exact hq1⟩

/-- C15 (witness): a READ of the buffers 61 and 62 of `disk2_two`, the blocks 1 and 2 of
the IDE disk `0x301`, whose queue is empty. -/
theorem ll_rw_block_plug_defers_witness :
    ∃ s1 s', ll_rw_block_loop (refile_buffer 2) 64 (MAJOR (disk2_two.b 61).b_dev) .READ
        [61, 62] (plug_queue disk2_two (MAJOR (disk2_two.b 61).b_dev)) = .ok () s1 ∧
      s1.request_fn_calls = disk2_two.request_fn_calls ∧
      ll_rw_block (refile_buffer 2) 64 .READ [61, 62] disk2_two = .ok () s' ∧
      s'.request_fn_calls = disk2_two.request_fn_calls ++ [MAJOR (disk2_two.b 61).b_dev] ∧
      PLUG ∉ s'.current_request (MAJOR (disk2_two.b 61).b_dev) ∧
      s1.current_request (MAJOR (disk2_two.b 61).b_dev) =
        PLUG :: s'.current_request (MAJOR (disk2_two.b 61).b_dev) :=
  ll_rw_block_plug_defers 1 64 .READ [61, 62] 61 [62] disk2_two
    (reachable_inv disk2_two_reachable) (by decide) rfl (List.cons_ne_nil _ _) (by decide!)
    (by decide!) (by decide!) (by decide!) (by decide!)
    (fun n h => by
      have h0 : disk2_two.prev_limit = none := by decide!
      rw [h0] at h
      cases h)
    ⟨[0, 1], by decide, by decide, by decide!⟩

theorem Tallies.pre_ta : Pre Tallies :=
  ⟨fun _ h => h, fun _ _ _ h h' t => h' (h t)⟩

theorem ring_remove_length (l : List Nat) (x : Nat) (hn : l.Nodup) (hm : x ∈ l) :
    (ring_remove l x).length + 1 = l.length := by
  unfold ring_remove
  induction l with
  | nil => cases hm
  | cons a l ih =>
    rw [List.nodup_cons] at hn
    by_cases ha : a = x
    · subst ha
      have : l.filter (fun y => y != a) = l := by
        rw [List.filter_eq_self]
        intro y hy
        have : y ≠ a := fun e => hn.1 (e ▸ hy)
        simpa using this
      simp [this]
    · have hx : x ∈ l := by
        rcases List.mem_cons.mp hm with h | h
        · exact absurd h.symm ha
        · exact h
      rw [List.filter_cons_of_pos (by simpa using ha), List.length_cons, ih hn.2 hx,
        List.length_cons]

theorem ring_remove_countP (l : List Nat) (x : Nat) (p : Nat → Bool) (hn : l.Nodup)
    (hm : x ∈ l) :
    (ring_remove l x).countP p + (if p x = true then 1 else 0) = l.countP p := by
  unfold ring_remove
  induction l with
  | nil => cases hm
  | cons a l ih =>
    rw [List.nodup_cons] at hn
    by_cases ha : a = x
    · subst ha
      have : l.filter (fun y => y != a) = l := by
        rw [List.filter_eq_self]
        intro y hy
        have : y ≠ a := fun e => hn.1 (e ▸ hy)
        simpa using this
      rw [List.filter_cons_of_neg (by simp), this, List.countP_cons]
    · have hx : x ∈ l := by
        rcases List.mem_cons.mp hm with h | h
        · exact absurd h.symm ha
        · exact h
      rw [List.filter_cons_of_pos (by simpa using ha), List.countP_cons, List.countP_cons,
        ← ih hn.2 hx]
      omega

theorem ring_remove_nodup (l : List Nat) (x : Nat) (hn : l.Nodup) : (ring_remove l x).Nodup :=
  hn.filter _

theorem ring_set_head_perm (l : List Nat) (x : Nat) : (ring_set_head l x).Perm l := by
  unfold ring_set_head
  have h := List.takeWhile_append_dropWhile (fun y => y != x) l
  exact List.perm_append_comm.trans (List.Perm.of_eq h)

theorem ring_insert_after_perm (l : List Nat) (p x : Nat) :
    (ring_insert_after l p x).Perm (x :: l) := by
  unfold ring_insert_after
  have h := List.takeWhile_append_dropWhile (fun y => y != p) l
  generalize l.takeWhile (fun y => y != p) = a at *
  generalize l.dropWhile (fun y => y != p) = d at *
  subst h
  cases d with
  | nil =>
    rw [List.append_nil]
    exact List.perm_append_singleton x a
  | cons q t =>
    have h1 : (a ++ q :: x :: t).Perm (x :: (a ++ q :: t)) := by
      have : (a ++ [q] ++ x :: t).Perm (x :: (a ++ [q] ++ t)) := List.perm_middle
      simpa using this
    exact h1

/-- A head with a ring successor is on its ring. -/
theorem mem_of_ring_next (l : List Nat) (x : Nat) (h : ring_next l x ≠ 0) : x ∈ l := by
  by_contra hx
  exact h (ring_next_not_mem l x hx)

/-- The lists are rearranged and `unused_list` is replaced by heads that are on no other
list: the tally stands. -/
theorem Tally.frame_ta {s s' : State} (h : Tally s)
    (hf : ∀ i, (s'.free_list i).Perm (s.free_list i))
    (hl : ∀ l, (s'.lru_list l).Perm (s.lru_list l))
    (hu1 : s'.unused_list.Nodup)
    (hu2 : ∀ x ∈ s'.unused_list, (∀ i, x ∉ s.free_list i) ∧ (∀ l, x ∉ s.lru_list l) ∧
      1 ≤ x ∧ x ≤ s'.nr_buffer_heads)
    (hn : s.nr_buffer_heads ≤ s'.nr_buffer_heads)
    (hnf : s'.nr_free = s.nr_free) (hnt : s'.nr_buffers_type = s.nr_buffers_type)
    (hns : s'.nr_buffers_st = s.nr_buffers_st)
    (hb : ∀ l x, x ∈ s.lru_list l → (s'.b x).b_size = (s.b x).b_size)
    (hp : ∀ i, i < N_PARAM → bdflush_min i ≤ s'.bdf_prm i ∧ s'.bdf_prm i ≤ bdflush_max i) :
    Tally s' := by
  have mf : ∀ i x, x ∈ s'.free_list i ↔ x ∈ s.free_list i := fun i x => (hf i).mem_iff
  have ml : ∀ l x, x ∈ s'.lru_list l ↔ x ∈ s.lru_list l := fun l x => (hl l).mem_iff
  refine ⟨fun i => (hf i).nodup_iff.mpr (h.free_nodup i),
    fun l => (hl l).nodup_iff.mpr (h.lru_nodup l), hu1, ?_, ?_, ?_, ?_, ?_, ?_, ?_, ?_, ?_, ?_,
    ?_, hp⟩
  · intro i j x hi hj
    exact h.free_free i j x ((mf i x).mp hi) ((mf j x).mp hj)
  · intro l m x hi hj
    exact h.lru_lru l m x ((ml l x).mp hi) ((ml m x).mp hj)
  · intro i l x hi hj
    exact h.free_lru i l x ((mf i x).mp hi) ((ml l x).mp hj)
  · intro i x hx hi
    exact (hu2 x hx).1 i ((mf i x).mp hi)
  · intro l x hx hi
    exact (hu2 x hx).2.1 l ((ml l x).mp hi)
  · intro i x hx
    have := h.carved_free i x ((mf i x).mp hx)
    exact ⟨this.1, Nat.le_trans this.2 hn⟩
  · intro l x hx
    have := h.carved_lru l x ((ml l x).mp hx)
    exact ⟨this.1, Nat.le_trans this.2 hn⟩
  · intro x hx
    exact (hu2 x hx).2.2
  · intro i
    rw [hnf, h.nr_free, (hf i).length_eq]
  · intro l
    rw [hnt, h.nr_buffers_type, (hl l).length_eq]
  · intro i l
    rw [hns, h.nr_buffers_st, (hl l).countP_eq]
    congr 1
    refine List.countP_congr fun x hx => ?_
    rw [hb l x hx]

/-- Nothing that the tally looks at has changed. -/
theorem Tally.same {s s' : State} (h : Tally s) (hf : s'.free_list = s.free_list)
    (hl : s'.lru_list = s.lru_list) (hu : s'.unused_list = s.unused_list)
    (hn : s'.nr_buffer_heads = s.nr_buffer_heads) (hnf : s'.nr_free = s.nr_free)
    (hnt : s'.nr_buffers_type = s.nr_buffers_type) (hns : s'.nr_buffers_st = s.nr_buffers_st)
    (hp : s'.bdf_prm = s.bdf_prm) (hb : ∀ x, (s'.b x).b_size = (s.b x).b_size) : Tally s' := by
  refine h.frame_ta (fun i => by rw [hf]) (fun l => by rw [hl]) (by rw [hu]; exact h.unused_nodup)
    (fun x hx => ?_) (le_of_eq hn.symm) hnf hnt hns (fun _ x _ => hb x)
    (fun i hi => by rw [hp]; exact h.bdf_prm i hi)
  rw [hu] at hx
  exact ⟨fun i => h.unused_free i x hx, fun l => h.unused_lru l x hx,
    by rw [hn]; exact h.carved_unused x hx⟩

/-- A head changes, keeping its size or being on no disposition list. -/
theorem tallies_setB (s : State) (bh : Nat) (f : buffer_head → buffer_head)
    (hf : (f (s.b bh)).b_size = (s.b bh).b_size ∨ ∀ l, bh ∉ s.lru_list l) :
    Tallies s (setB bh f s).state := by
  intro h
  refine h.frame_ta (fun i => List.Perm.refl _) (fun l => List.Perm.refl _) h.unused_nodup
    (fun x hx => ⟨fun i => h.unused_free i x hx, fun l => h.unused_lru l x hx,
      h.carved_unused x hx⟩) (Nat.le_refl _) rfl rfl rfl (fun l x hx => ?_) h.bdf_prm
  show (upd s.b bh (f (s.b bh)) x).b_size = _
  by_cases hxb : x = bh
  · subst hxb
    rw [upd_same]
    rcases hf with hf | hf
    · exact hf
    · exact absurd hx (hf l)
  · rw [upd_other _ _ _ _ hxb]

/-- The head `bh` leaves the disposition list `l`, and the two counters follow. -/
theorem Tally.unlink_lru {s s' : State} (h : Tally s) (bh : Nat) (l : BufList)
    (hm : bh ∈ s.lru_list l) (hf : s'.free_list = s.free_list)
    (hl : s'.lru_list = upd s.lru_list l (ring_remove (s.lru_list l) bh))
    (hu : s'.unused_list = s.unused_list) (hn : s'.nr_buffer_heads = s.nr_buffer_heads)
    (hnf : s'.nr_free = s.nr_free)
    (hnt : s'.nr_buffers_type = upd s.nr_buffers_type l (s.nr_buffers_type l - 1))
    (hns : s'.nr_buffers_st = upd s.nr_buffers_st (BUFSIZE_INDEX (s.b bh).b_size)
      (upd (s.nr_buffers_st (BUFSIZE_INDEX (s.b bh).b_size)) l
        (s.nr_buffers_st (BUFSIZE_INDEX (s.b bh).b_size) l - 1)))
    (hp : s'.bdf_prm = s.bdf_prm) (hb : s'.b = s.b) :
    Tally s' ∧ Detached s' bh ∧ s'.b = s.b := by
  have ml : ∀ m x, x ∈ s'.lru_list m → x ∈ s.lru_list m := by
    intro m x hx
    rw [hl, upd_apply] at hx
    split_ifs at hx with hml
    · subst hml
      exact ((mem_ring_remove _ _ _).mp hx).1
    · exact hx
  have hbh : ∀ m, bh ∉ s'.lru_list m := by
    intro m hx
    have hm' := ml m bh hx
    have e := h.lru_lru _ _ _ hm' hm
    subst e
    rw [hl, upd_same] at hx
    exact ((mem_ring_remove _ _ _).mp hx).2 rfl
  refine ⟨⟨fun i => by rw [hf]; exact h.free_nodup i, fun m => ?_, by rw [hu]; exact h.unused_nodup,
    fun i j x hi hj => ?_, fun m k x hi hj => h.lru_lru m k x (ml m x hi) (ml k x hj),
    fun i m x hi hj => ?_, fun i x hx => ?_, fun m x hx hi => ?_, fun i x hx => ?_,
    fun m x hx => ?_, fun x hx => ?_, fun i => by rw [hnf, hf]; exact h.nr_free i, fun m => ?_,
    fun i m => ?_, fun i hi => by rw [hp]; exact h.bdf_prm i hi⟩, ⟨fun i => ?_, hbh, ?_, ?_, ?_⟩, hb⟩
  · rw [hl, upd_apply]
    split_ifs with hml
    · subst hml
      exact ring_remove_nodup _ _ (h.lru_nodup m)
    · exact h.lru_nodup m
  · rw [hf] at hi hj
    exact h.free_free i j x hi hj
  · rw [hf] at hi
    exact h.free_lru i m x hi (ml m x hj)
  · rw [hu] at hx
    rw [hf]
    exact h.unused_free i x hx
  · rw [hu] at hx
    exact h.unused_lru m x hx (ml m x hi)
  · rw [hf] at hx
    rw [hn]
    exact h.carved_free i x hx
  · rw [hn]
    exact h.carved_lru m x (ml m x hx)
  · rw [hu] at hx
    rw [hn]
    exact h.carved_unused x hx
  · rw [hnt, hl, upd_apply, upd_apply]
    split_ifs with hml
    · subst hml
      have := ring_remove_length _ bh (h.lru_nodup m) hm
      rw [h.nr_buffers_type]
      omega
    · exact h.nr_buffers_type m
  · have hc := ring_remove_countP (s.lru_list l) bh
      (fun x => decide (BUFSIZE_INDEX (s.b x).b_size = i)) (h.lru_nodup l) hm
    rw [hns, hl, hb]
    by_cases hml : m = l
    · subst hml
      by_cases hi : i = BUFSIZE_INDEX (s.b bh).b_size
      · subst hi
        rw [upd_same, upd_same, upd_same, h.nr_buffers_st]
        simp only [decide_True, if_true] at hc
        omega
      · rw [upd_other _ _ _ _ hi, upd_same, h.nr_buffers_st]
        have : decide (BUFSIZE_INDEX (s.b bh).b_size = i) = false :=
          decide_eq_false fun e => hi e.symm
        simp only [this, Bool.false_eq_true, if_false] at hc
        omega
    · by_cases hi : i = BUFSIZE_INDEX (s.b bh).b_size
      · subst hi
        rw [upd_same, upd_other _ _ _ _ hml, upd_other _ _ _ _ hml, h.nr_buffers_st]
      · rw [upd_other _ _ _ _ hi, upd_other _ _ _ _ hml, h.nr_buffers_st]
  · rw [hf]
    exact fun hx => h.free_lru i l bh hx hm
  · rw [hu]
    exact fun hx => h.unused_lru l bh hx hm
  · exact (h.carved_lru l bh hm).1
  · rw [hn]
    exact (h.carved_lru l bh hm).2

/-- The head `bh` leaves the free list `i`, and `nr_free` follows. -/
theorem Tally.unlink_free {s s' : State} (h : Tally s) (bh : Nat) (i : Int)
    (hm : bh ∈ s.free_list i)
    (hf : s'.free_list = upd s.free_list i (ring_remove (s.free_list i) bh))
    (hl : s'.lru_list = s.lru_list) (hu : s'.unused_list = s.unused_list)
    (hn : s'.nr_buffer_heads = s.nr_buffer_heads)
    (hnf : s'.nr_free = upd s.nr_free i (s.nr_free i - 1))
    (hnt : s'.nr_buffers_type = s.nr_buffers_type) (hns : s'.nr_buffers_st = s.nr_buffers_st)
    (hp : s'.bdf_prm = s.bdf_prm) (hb : s'.b = s.b) :
    Tally s' ∧ Detached s' bh ∧ s'.b = s.b := by
  have mf : ∀ j x, x ∈ s'.free_list j → x ∈ s.free_list j := by
    intro j x hx
    rw [hf, upd_apply] at hx
    split_ifs at hx with hji
    · subst hji
      exact ((mem_ring_remove _ _ _).mp hx).1
    · exact hx
  have hbh : ∀ j, bh ∉ s'.free_list j := by
    intro j hx
    have hm' := mf j bh hx
    have e := h.free_free _ _ _ hm' hm
    subst e
    rw [hf, upd_same] at hx
    exact ((mem_ring_remove _ _ _).mp hx).2 rfl
  refine ⟨⟨fun j => ?_, fun m => by rw [hl]; exact h.lru_nodup m,
    by rw [hu]; exact h.unused_nodup,
    fun j k x hi hj => h.free_free j k x (mf j x hi) (mf k x hj), fun m k x hi hj => ?_,
    fun j m x hi hj => ?_, fun j x hx hi => ?_, fun m x hx => ?_, fun j x hx => ?_,
    fun m x hx => ?_, fun x hx => ?_, fun j => ?_,
    fun m => by rw [hnt, hl]; exact h.nr_buffers_type m,
    fun j m => by rw [hns, hl, hb]; exact h.nr_buffers_st j m,
    fun j hj => by rw [hp]; exact h.bdf_prm j hj⟩, ⟨hbh, fun m => ?_, ?_, ?_, ?_⟩, hb⟩
  · rw [hf, upd_apply]
    split_ifs with hji
    · subst hji
      exact ring_remove_nodup _ _ (h.free_nodup j)
    · exact h.free_nodup j
  · rw [hl] at hi hj
    exact h.lru_lru m k x hi hj
  · rw [hl] at hj
    exact h.free_lru j m x (mf j x hi) hj
  · rw [hu] at hx
    exact h.unused_free j x hx (mf j x hi)
  · rw [hu] at hx
    rw [hl]
    exact h.unused_lru m x hx
  · rw [hn]
    exact h.carved_free j x (mf j x hx)
  · rw [hl] at hx
    rw [hn]
    exact h.carved_lru m x hx
  · rw [hu] at hx
    rw [hn]
    exact h.carved_unused x hx
  · rw [hnf, hf]
    by_cases hji : j = i
    · subst hji
      rw [upd_same, upd_same]
      have := ring_remove_length _ bh (h.free_nodup j) hm
      rw [h.nr_free]
      omega
    · rw [upd_other _ _ _ _ hji, upd_other _ _ _ _ hji]
      exact h.nr_free j
  · rw [hl]
    exact h.free_lru i m bh hm
  · rw [hu]
    exact fun hx => h.unused_free i bh hx hm
  · exact (h.carved_free i bh hm).1
  · rw [hn]
    exact (h.carved_free i bh hm).2

/-- The detached head `bh` is put on the disposition list `l`, and the two counters
follow. -/
theorem Tally.link_lru {s s' : State} (h : Tally s) (bh : Nat) (l : BufList)
    (hd : Detached s bh) (hf : s'.free_list = s.free_list)
    (hl : s'.lru_list = upd s.lru_list l (s.lru_list l ++ [bh]))
    (hu : s'.unused_list = s.unused_list) (hn : s'.nr_buffer_heads = s.nr_buffer_heads)
    (hnf : s'.nr_free = s.nr_free)
    (hnt : s'.nr_buffers_type = upd s.nr_buffers_type l (s.nr_buffers_type l + 1))
    (hns : s'.nr_buffers_st = upd s.nr_buffers_st (BUFSIZE_INDEX (s.b bh).b_size)
      (upd (s.nr_buffers_st (BUFSIZE_INDEX (s.b bh).b_size)) l
        (s.nr_buffers_st (BUFSIZE_INDEX (s.b bh).b_size) l + 1)))
    (hp : s'.bdf_prm = s.bdf_prm) (hb : s'.b = s.b) : Tally s' := by
  have ml : ∀ m x, x ∈ s'.lru_list m → x ∈ s.lru_list m ∨ (x = bh ∧ m = l) := by
    intro m x hx
    rw [hl, upd_apply] at hx
    split_ifs at hx with hml
    · subst hml
      rcases List.mem_append.mp hx with hx | hx
      · exact Or.inl hx
      · exact Or.inr ⟨List.mem_singleton.mp hx, rfl⟩
    · exact Or.inl hx
  refine ⟨fun i => by rw [hf]; exact h.free_nodup i, fun m => ?_,
    by rw [hu]; exact h.unused_nodup, fun i j x hi hj => ?_, fun m k x hi hj => ?_,
    fun i m x hi hj => ?_, fun i x hx => ?_, fun m x hx hi => ?_, fun i x hx => ?_,
    fun m x hx => ?_, fun x hx => ?_, fun i => by rw [hnf, hf]; exact h.nr_free i,
    fun m => ?_, fun i m => ?_, fun i hi => by rw [hp]; exact h.bdf_prm i hi⟩
  · rw [hl, upd_apply]
    split_ifs with hml
    · subst hml
      exact List.Nodup.append (h.lru_nodup m) (List.nodup_singleton _)
        (List.disjoint_singleton.mpr (hd.lru m))
    · exact h.lru_nodup m
  · rw [hf] at hi hj
    exact h.free_free i j x hi hj
  · rcases ml m x hi with hi | ⟨rfl, rfl⟩
    · rcases ml k x hj with hj | ⟨rfl, rfl⟩
      · exact h.lru_lru m k x hi hj
      · exact absurd hi (hd.lru m)
    · rcases ml k x hj with hj | ⟨-, rfl⟩
      · exact absurd hj (hd.lru k)
      · rfl
  · rw [hf] at hi
    rcases ml m x hj with hj | ⟨rfl, -⟩
    · exact h.free_lru i m x hi hj
    · exact hd.free i hi
  · rw [hu] at hx
    rw [hf]
    exact h.unused_free i x hx
  · rw [hu] at hx
    rcases ml m x hi with hi | ⟨rfl, -⟩
    · exact h.unused_lru m x hx hi
    · exact hd.unused hx
  · rw [hf] at hx
    rw [hn]
    exact h.carved_free i x hx
  · rw [hn]
    rcases ml m x hx with hx | ⟨rfl, -⟩
    · exact h.carved_lru m x hx
    · exact ⟨hd.pos, hd.carved⟩
  · rw [hu] at hx
    rw [hn]
    exact h.carved_unused x hx
  · rw [hnt, hl]
    by_cases hml : m = l
    · subst hml
      rw [upd_same, upd_same, h.nr_buffers_type, List.length_append, List.length_singleton]
      omega
    · rw [upd_other _ _ _ _ hml, upd_other _ _ _ _ hml]
      exact h.nr_buffers_type m
  · rw [hns, hl, hb]
    by_cases hml : m = l
    · subst hml
      by_cases hi : i = BUFSIZE_INDEX (s.b bh).b_size
      · subst hi
        rw [upd_same, upd_same, upd_same, h.nr_buffers_st, List.countP_append]
        simp
      · rw [upd_other _ _ _ _ hi, upd_same, h.nr_buffers_st, List.countP_append]
        have : decide (BUFSIZE_INDEX (s.b bh).b_size = i) = false :=
          decide_eq_false fun e => hi e.symm
        simp [this]
    · by_cases hi : i = BUFSIZE_INDEX (s.b bh).b_size
      · subst hi
        rw [upd_same, upd_other _ _ _ _ hml, upd_other _ _ _ _ hml, h.nr_buffers_st]
      · rw [upd_other _ _ _ _ hi, upd_other _ _ _ _ hml, h.nr_buffers_st]

/-- The detached head `bh` is put on the free list `i`, and `nr_free` follows. -/
theorem Tally.link_free {s s' : State} (h : Tally s) (bh : Nat) (i : Int) (L : List Nat)
    (hd : Detached s bh) (hL : L.Perm (bh :: s.free_list i))
    (hf : s'.free_list = upd s.free_list i L)
    (hl : s'.lru_list = s.lru_list) (hu : s'.unused_list = s.unused_list)
    (hn : s'.nr_buffer_heads = s.nr_buffer_heads)
    (hnf : s'.nr_free = upd s.nr_free i (s.nr_free i + 1))
    (hnt : s'.nr_buffers_type = s.nr_buffers_type) (hns : s'.nr_buffers_st = s.nr_buffers_st)
    (hp : s'.bdf_prm = s.bdf_prm) (hb : s'.b = s.b) : Tally s' := by
  have mf : ∀ j x, x ∈ s'.free_list j → x ∈ s.free_list j ∨ (x = bh ∧ j = i) := by
    intro j x hx
    rw [hf, upd_apply] at hx
    split_ifs at hx with hji
    · subst hji
      rcases List.mem_cons.mp (hL.mem_iff.mp hx) with hx | hx
      · exact Or.inr ⟨hx, rfl⟩
      · exact Or.inl hx
    · exact Or.inl hx
  refine ⟨fun j => ?_, fun m => by rw [hl]; exact h.lru_nodup m,
    by rw [hu]; exact h.unused_nodup, fun j k x hi hj => ?_, fun m k x hi hj => ?_,
    fun j m x hi hj => ?_, fun j x hx hi => ?_, fun m x hx => ?_, fun j x hx => ?_,
    fun m x hx => ?_, fun x hx => ?_, fun j => ?_,
    fun m => by rw [hnt, hl]; exact h.nr_buffers_type m,
    fun j m => by rw [hns, hl, hb]; exact h.nr_buffers_st j m,
    fun j hj => by rw [hp]; exact h.bdf_prm j hj⟩
  · rw [hf, upd_apply]
    split_ifs with hji
    · subst hji
      exact hL.nodup_iff.mpr (List.nodup_cons.mpr ⟨hd.free j, h.free_nodup j⟩)
    · exact h.free_nodup j
  · rcases mf j x hi with hi | ⟨rfl, rfl⟩
    · rcases mf k x hj with hj | ⟨rfl, rfl⟩
      · exact h.free_free j k x hi hj
      · exact absurd hi (hd.free j)
    · rcases mf k x hj with hj | ⟨-, rfl⟩
      · exact absurd hj (hd.free k)
      · rfl
  · rw [hl] at hi hj
    exact h.lru_lru m k x hi hj
  · rw [hl] at hj
    rcases mf j x hi with hi | ⟨rfl, -⟩
    · exact h.free_lru j m x hi hj
    · exact hd.lru m hj
  · rw [hu] at hx
    rcases mf j x hi with hi | ⟨rfl, -⟩
    · exact h.unused_free j x hx hi
    · exact hd.unused hx
  · rw [hu] at hx
    rw [hl]
    exact h.unused_lru m x hx
  · rw [hn]
    rcases mf j x hx with hx | ⟨rfl, -⟩
    · exact h.carved_free j x hx
    · exact ⟨hd.pos, hd.carved⟩
  · rw [hl] at hx
    rw [hn]
    exact h.carved_lru m x hx
  · rw [hu] at hx
    rw [hn]
    exact h.carved_unused x hx
  · rw [hnf, hf]
    by_cases hji : j = i
    · subst hji
      rw [upd_same, upd_same, h.nr_free, hL.length_eq, List.length_cons]
      omega
    · rw [upd_other _ _ _ _ hji, upd_other _ _ _ _ hji]
      exact h.nr_free j

set_option linter.unusedTactic false
set_option linter.unreachableTactic false

theorem Still.pre_sl : Pre Still :=
  ⟨fun _ => ⟨rfl, rfl, rfl, rfl, rfl, rfl, rfl, rfl, fun _ => rfl⟩, fun _ _ _ h h' =>
    ⟨h'.free_list.trans h.free_list, h'.lru_list.trans h.lru_list,
      h'.unused_list.trans h.unused_list, h'.nr_buffer_heads.trans h.nr_buffer_heads,
      h'.nr_free.trans h.nr_free, h'.nr_buffers_type.trans h.nr_buffers_type,
      h'.nr_buffers_st.trans h.nr_buffers_st, h'.bdf_prm.trans h.bdf_prm,
      fun x => (h'.b_size x).trans (h.b_size x)⟩⟩

theorem Still.tallies {s s' : State} (h : Still s s') : Tallies s s' := fun t =>
  t.same h.free_list h.lru_list h.unused_list h.nr_buffer_heads h.nr_free h.nr_buffers_type
    h.nr_buffers_st h.bdf_prm h.b_size

theorem Still.detached {s s' : State} (h : Still s s') {x : Nat} (d : Detached s x) :
    Detached s' x :=
  ⟨by rw [h.free_list]; exact d.free, by rw [h.lru_list]; exact d.lru,
    by rw [h.unused_list]; exact d.unused, d.pos, by rw [h.nr_buffer_heads]; exact d.carved⟩

theorem still_setB (s : State) (bh : Nat) (f : buffer_head → buffer_head)
    (hf : ∀ v, (f v).b_size = v.b_size) : Still s (setB bh f s).state := by
  refine ⟨rfl, rfl, rfl, rfl, rfl, rfl, rfl, rfl, fun x => ?_⟩
  show (upd s.b bh (f (s.b bh)) x).b_size = _
  by_cases hx : x = bh
  · subst hx
    rw [upd_same]
    exact hf _
  · rw [upd_other _ _ _ _ hx]

theorem still_printk (m : Kmsg) : KeepsR Still (printk m) :=
  KeepsR.modS_R _ fun _ => ⟨rfl, rfl, rfl, rfl, rfl, rfl, rfl, rfl, fun _ => rfl⟩

theorem still_get_free_page (pri : Gfp) : KeepsR Still (__get_free_page pri) := by
  intro s a s' e
  unfold __get_free_page at e
  split at e <;> cases e <;> exact ⟨rfl, rfl, rfl, rfl, rfl, rfl, rfl, rfl, fun _ => rfl⟩

theorem still_free_page (addr : Nat) : KeepsR Still (free_page addr) := by
  intro s a s' e
  unfold free_page at e
  split_ifs at e
  · exact still_printk _ s a s' e
  · cases e
    exact ⟨rfl, rfl, rfl, rfl, rfl, rfl, rfl, rfl, fun _ => rfl⟩
  · cases e
    exact ⟨rfl, rfl, rfl, rfl, rfl, rfl, rfl, rfl, fun _ => rfl⟩

theorem still_setB_R (bh : Nat) (f : buffer_head → buffer_head)
    (hf : ∀ v, (f v).b_size = v.b_size) : KeepsR Still (setB bh f) :=
  KeepsR.setB_R _ _ fun s => still_setB s bh f hf

theorem still_end_buffer_io (bh : Nat) : KeepsR Still (end_buffer_io bh) := by
  intro s a s' e
  unfold end_buffer_io at e
  revert e
  refine still_setB_R bh _ ?_ s a s'
  intro _
  rfl

theorem still_wait_on_buffer_loop (bh : Nat) : KeepsR Still (__wait_on_buffer bh) := by
  unfold __wait_on_buffer
  repeat' first
    | with_reducible exact KeepsR.pure_R Still.pre_sl _
    | with_reducible exact KeepsR.kpanic_R _
    | with_reducible exact KeepsR.khang_R
    | with_reducible exact still_end_buffer_io _
    | with_reducible exact KeepsR.modS_R _ fun _ => ⟨rfl, rfl, rfl, rfl, rfl, rfl, rfl, rfl, fun _ => rfl⟩
    | (with_reducible refine still_setB_R _ _ ?_; intro _; rfl)
    | with_reducible refine KeepsR.getS_bind_R fun _ => ?_
    | with_reducible refine KeepsR.bind_R Still.pre_sl ?_ fun _ => ?_
    | with_reducible refine KeepsR.ite_R (fun _ => ?_) fun _ => ?_

theorem still_wait_on_buffer (bh : Nat) : KeepsR Still (wait_on_buffer bh) := by
  unfold wait_on_buffer
  repeat' first
    | with_reducible exact KeepsR.pure_R Still.pre_sl _
    | with_reducible exact KeepsR.kpanic_R _
    | with_reducible exact KeepsR.khang_R
    | with_reducible exact still_wait_on_buffer_loop _
    | with_reducible exact KeepsR.modS_R _ fun _ => ⟨rfl, rfl, rfl, rfl, rfl, rfl, rfl, rfl, fun _ => rfl⟩
    | (with_reducible refine still_setB_R _ _ ?_; intro _; rfl)
    | with_reducible refine KeepsR.getS_bind_R fun _ => ?_
    | with_reducible refine KeepsR.bind_R Still.pre_sl ?_ fun _ => ?_
    | with_reducible refine KeepsR.ite_R (fun _ => ?_) fun _ => ?_

theorem still_lock_buffer (bh : Nat) : KeepsR Still (lock_buffer bh) := by
  unfold lock_buffer
  repeat' first
    | with_reducible exact KeepsR.pure_R Still.pre_sl _
    | with_reducible exact KeepsR.kpanic_R _
    | with_reducible exact KeepsR.khang_R
    | with_reducible exact still_wait_on_buffer_loop _
    | with_reducible exact KeepsR.modS_R _ fun _ => ⟨rfl, rfl, rfl, rfl, rfl, rfl, rfl, rfl, fun _ => rfl⟩
    | (with_reducible refine still_setB_R _ _ ?_; intro _; rfl)
    | with_reducible refine KeepsR.getS_bind_R fun _ => ?_
    | with_reducible refine KeepsR.bind_R Still.pre_sl ?_ fun _ => ?_
    | with_reducible refine KeepsR.ite_R (fun _ => ?_) fun _ => ?_
    | (dsimp only; rw [ite_bind_jp])

theorem remove_from_free_list_tally (bh : Nat) (s s' : State) (a : Unit)
    (e : remove_from_free_list bh s = .ok a s') (h : Tally s) :
    Tally s' ∧ Detached s' bh ∧ s'.b = s.b := by
  simp only [remove_from_free_list, bind_run, getS_run, ite_run, modS_run, kpanic_run] at e
  split_ifs at e with h1 h2 h3
  have hd : (s.b bh).b_dev = B_FREE := not_not.mp h2
  have hm : bh ∈ s.free_list (BUFSIZE_INDEX (s.b bh).b_size) := by
    have : b_next_free s bh ≠ 0 := fun hz => h1 (Or.inr hz)
    unfold b_next_free at this
    rw [ring_of_free s bh hd] at this
    exact mem_of_ring_next _ _ this
  cases e
  exact h.unlink_free bh _ hm rfl rfl rfl rfl rfl rfl rfl rfl rfl

theorem remove_from_queues_tally (bh : Nat) (s s' : State) (a : Unit)
    (e : remove_from_queues bh s = .ok a s') (h : Tally s) :
    Tally s' ∧ Detached s' bh ∧ s'.b = s.b := by
  by_cases hd : (s.b bh).b_dev = B_FREE
  · simp only [remove_from_queues, bind_run, getS_run, ite_run, if_pos hd] at e
    exact remove_from_free_list_tally bh s s' a e h
  · simp only [remove_from_queues, bind_run, getS_run, ite_run, modS_run, if_neg hd,
      remove_from_hash_queue, remove_from_lru_list, kpanic_run] at e
    split_ifs at e with h1
    have hm : bh ∈ s.lru_list (s.b bh).b_list := by
      have : b_next_free s bh ≠ 0 := fun hz => h1 (Or.inr hz)
      unfold b_next_free at this
      rw [ring_of_lru s bh hd] at this
      exact mem_of_ring_next _ _ this
    cases e
    exact h.unlink_lru bh _ hm rfl rfl rfl rfl rfl rfl rfl rfl rfl

theorem setB_detached {s : State} {bh x : Nat} (f : buffer_head → buffer_head)
    (h : Detached s x) : Detached (setB bh f s).state x :=
  ⟨h.free, h.lru, h.unused, h.pos, h.carved⟩

theorem put_last_free_tally (bh : Nat) (s s' : State) (a : Unit)
    (e : put_last_free bh s = .ok a s') (h : Tally s) (hd : bh = 0 ∨ Detached s bh) :
    Tally s' := by
  simp only [put_last_free, bind_run, getS_run, ite_run, modS_run, pure_run, setB_run] at e
  split_ifs at e with h0
  · cases e
    exact h
  · cases e
    have hd' := hd.resolve_left h0
    have h1 : Tally (setB bh (fun v => { v with b_dev := B_FREE }) s).state :=
      tallies_setB s bh _ (Or.inl rfl) h
    refine h1.link_free bh (BUFSIZE_INDEX (s.b bh).b_size) _ (setB_detached _ hd')
      (List.perm_append_singleton bh _) rfl rfl rfl rfl rfl rfl rfl rfl rfl

theorem insert_into_queues_tally (bh : Nat) (s s' : State) (a : Unit)
    (e : insert_into_queues bh s = .ok a s') (h : Tally s) (hd : Detached s bh) :
    Tally s' := by
  by_cases hdev : (s.b bh).b_dev = B_FREE
  · simp only [insert_into_queues, bind_run, getS_run, ite_run, if_pos hdev] at e
    exact put_last_free_tally bh s s' a e h (Or.inr hd)
  · simp only [insert_into_queues, bind_run, getS_run, ite_run, modS_run, pure_run, kpanic_run,
      if_neg hdev] at e
    split_ifs at e with h1 h2
    · cases e
      exact h.link_lru bh _ hd rfl rfl rfl rfl rfl rfl rfl rfl rfl
    · obtain ⟨hf, hl, hu, hn, hnf, hnt, hns, hp, hb⟩ : s'.free_list = s.free_list ∧
          s'.lru_list = upd s.lru_list (s.b bh).b_list (s.lru_list (s.b bh).b_list ++ [bh]) ∧
          s'.unused_list = s.unused_list ∧ s'.nr_buffer_heads = s.nr_buffer_heads ∧
          s'.nr_free = s.nr_free ∧
          s'.nr_buffers_type = upd s.nr_buffers_type (s.b bh).b_list
            (s.nr_buffers_type (s.b bh).b_list + 1) ∧
          s'.nr_buffers_st = upd s.nr_buffers_st (BUFSIZE_INDEX (s.b bh).b_size)
            (upd (s.nr_buffers_st (BUFSIZE_INDEX (s.b bh).b_size)) (s.b bh).b_list
              (s.nr_buffers_st (BUFSIZE_INDEX (s.b bh).b_size) (s.b bh).b_list + 1)) ∧
          s'.bdf_prm = s.bdf_prm ∧ s'.b = s.b := by
        cases e
        exact ⟨rfl, rfl, rfl, rfl, rfl, rfl, rfl, rfl, rfl⟩
      exact h.link_lru bh _ hd hf hl hu hn hnf hnt hns hp hb

theorem tallies_setB_R (bh : Nat) (f : buffer_head → buffer_head)
    (hf : ∀ v, (f v).b_size = v.b_size) : KeepsR Tallies (setB bh f) :=
  KeepsR.setB_R _ _ fun s => tallies_setB s bh f (Or.inl (hf _))

theorem still_unlock_buffer (bh : Nat) : KeepsR Still (unlock_buffer bh) := by
  unfold unlock_buffer
  repeat' first
    | with_reducible exact KeepsR.pure_R Still.pre_sl _
    | with_reducible exact KeepsR.kpanic_R _
    | with_reducible exact KeepsR.khang_R
    | ((with_reducible refine KeepsR.modS_R _ fun _ => ?_); exact ⟨rfl, rfl, rfl, rfl, rfl, rfl, rfl, rfl, fun _ => rfl⟩)
    | ((with_reducible refine still_setB_R _ _ ?_); intro _; rfl)
    | ((with_reducible refine KeepsR.setR_R _ _ fun _ => ?_); exact ⟨rfl, rfl, rfl, rfl, rfl, rfl, rfl, rfl, fun _ => rfl⟩)
    | with_reducible refine KeepsR.getS_bind_R fun _ => ?_
    | with_reducible refine KeepsR.bind_R Still.pre_sl ?_ fun _ => ?_
    | ((try dsimp only); rw [ite_bind_jp])
    | with_reducible refine KeepsR.ite_R (fun _ => ?_) fun _ => ?_
    | split

theorem still_remove_from_hash_queue (bh : Nat) : KeepsR Still (remove_from_hash_queue bh) := by
  unfold remove_from_hash_queue
  repeat' first
    | with_reducible exact KeepsR.pure_R Still.pre_sl _
    | with_reducible exact KeepsR.kpanic_R _
    | with_reducible exact KeepsR.khang_R
    | ((with_reducible refine KeepsR.modS_R _ fun _ => ?_); exact ⟨rfl, rfl, rfl, rfl, rfl, rfl, rfl, rfl, fun _ => rfl⟩)
    | ((with_reducible refine still_setB_R _ _ ?_); intro _; rfl)
    | ((with_reducible refine KeepsR.setR_R _ _ fun _ => ?_); exact ⟨rfl, rfl, rfl, rfl, rfl, rfl, rfl, rfl, fun _ => rfl⟩)
    | with_reducible refine KeepsR.getS_bind_R fun _ => ?_
    | with_reducible refine KeepsR.bind_R Still.pre_sl ?_ fun _ => ?_
    | ((try dsimp only); rw [ite_bind_jp])
    | with_reducible refine KeepsR.ite_R (fun _ => ?_) fun _ => ?_
    | split

theorem still_find_buffer_loop (dev block size : Nat) (l : List Nat) :
    KeepsR Still (find_buffer_loop dev block size l) := by
  induction l with
  | nil => exact KeepsR.pure_R Still.pre_sl _
  | cons tmp rest ih =>
    unfold find_buffer_loop
    repeat' first
      | with_reducible exact KeepsR.pure_R Still.pre_sl _
      | with_reducible exact KeepsR.kpanic_R _
      | with_reducible exact KeepsR.khang_R
      | with_reducible exact still_printk _
      | with_reducible exact ih
      | ((with_reducible refine KeepsR.modS_R _ fun _ => ?_); exact ⟨rfl, rfl, rfl, rfl, rfl, rfl, rfl, rfl, fun _ => rfl⟩)
      | ((with_reducible refine still_setB_R _ _ ?_); intro _; rfl)
      | ((with_reducible refine KeepsR.setR_R _ _ fun _ => ?_); exact ⟨rfl, rfl, rfl, rfl, rfl, rfl, rfl, rfl, fun _ => rfl⟩)
      | with_reducible refine KeepsR.getS_bind_R fun _ => ?_
      | with_reducible refine KeepsR.bind_R Still.pre_sl ?_ fun _ => ?_
      | ((try dsimp only); rw [ite_bind_jp])
      | with_reducible refine KeepsR.ite_R (fun _ => ?_) fun _ => ?_
      | split

theorem still_find_buffer (dev block size : Nat) : KeepsR Still (find_buffer dev block size) := by
  unfold find_buffer
  repeat' first
    | with_reducible exact KeepsR.pure_R Still.pre_sl _
    | with_reducible exact KeepsR.kpanic_R _
    | with_reducible exact KeepsR.khang_R
    | with_reducible exact still_find_buffer_loop _ _ _ _
    | ((with_reducible refine KeepsR.modS_R _ fun _ => ?_); exact ⟨rfl, rfl, rfl, rfl, rfl, rfl, rfl, rfl, fun _ => rfl⟩)
    | ((with_reducible refine still_setB_R _ _ ?_); intro _; rfl)
    | ((with_reducible refine KeepsR.setR_R _ _ fun _ => ?_); exact ⟨rfl, rfl, rfl, rfl, rfl, rfl, rfl, rfl, fun _ => rfl⟩)
    | with_reducible refine KeepsR.getS_bind_R fun _ => ?_
    | with_reducible refine KeepsR.bind_R Still.pre_sl ?_ fun _ => ?_
    | ((try dsimp only); rw [ite_bind_jp])
    | with_reducible refine KeepsR.ite_R (fun _ => ?_) fun _ => ?_
    | split

theorem still_get_hash_table (fuel dev block size : Nat) :
    KeepsR Still (get_hash_table fuel dev block size) := by
  induction fuel with
  | zero => exact KeepsR.khang_R
  | succ fuel ih =>
    unfold get_hash_table
    repeat' first
      | with_reducible exact KeepsR.pure_R Still.pre_sl _
      | with_reducible exact KeepsR.kpanic_R _
      | with_reducible exact KeepsR.khang_R
      | with_reducible exact still_find_buffer _ _ _
      | with_reducible exact still_wait_on_buffer _
      | with_reducible exact ih
      | ((with_reducible refine KeepsR.modS_R _ fun _ => ?_); exact ⟨rfl, rfl, rfl, rfl, rfl, rfl, rfl, rfl, fun _ => rfl⟩)
      | ((with_reducible refine still_setB_R _ _ ?_); intro _; rfl)
      | ((with_reducible refine KeepsR.setR_R _ _ fun _ => ?_); exact ⟨rfl, rfl, rfl, rfl, rfl, rfl, rfl, rfl, fun _ => rfl⟩)
      | with_reducible refine KeepsR.getS_bind_R fun _ => ?_
      | with_reducible refine KeepsR.bind_R Still.pre_sl ?_ fun _ => ?_
      | ((try dsimp only); rw [ite_bind_jp])
      | with_reducible refine KeepsR.ite_R (fun _ => ?_) fun _ => ?_
      | split

theorem still_set_writetime (buf : Nat) (flag : Int) : KeepsR Still (set_writetime buf flag) := by
  unfold set_writetime
  repeat' first
    | with_reducible exact KeepsR.pure_R Still.pre_sl _
    | with_reducible exact KeepsR.kpanic_R _
    | with_reducible exact KeepsR.khang_R
    | ((with_reducible refine KeepsR.modS_R _ fun _ => ?_); exact ⟨rfl, rfl, rfl, rfl, rfl, rfl, rfl, rfl, fun _ => rfl⟩)
    | ((with_reducible refine still_setB_R _ _ ?_); intro _; rfl)
    | ((with_reducible refine KeepsR.setR_R _ _ fun _ => ?_); exact ⟨rfl, rfl, rfl, rfl, rfl, rfl, rfl, rfl, fun _ => rfl⟩)
    | with_reducible refine KeepsR.getS_bind_R fun _ => ?_
    | with_reducible refine KeepsR.bind_R Still.pre_sl ?_ fun _ => ?_
    | ((try dsimp only); rw [ite_bind_jp])
    | with_reducible refine KeepsR.ite_R (fun _ => ?_) fun _ => ?_
    | split

theorem still_get_request_loop (n prev_found fuel req : Nat) :
    KeepsR Still (get_request_loop n prev_found fuel req) := by
  induction fuel generalizing req with
  | zero => exact KeepsR.khang_R
  | succ fuel ih =>
    unfold get_request_loop
    repeat' first
      | with_reducible exact KeepsR.pure_R Still.pre_sl _
      | with_reducible exact KeepsR.kpanic_R _
      | with_reducible exact KeepsR.khang_R
      | with_reducible exact ih _
      | ((with_reducible refine KeepsR.modS_R _ fun _ => ?_); exact ⟨rfl, rfl, rfl, rfl, rfl, rfl, rfl, rfl, fun _ => rfl⟩)
      | ((with_reducible refine still_setB_R _ _ ?_); intro _; rfl)
      | ((with_reducible refine KeepsR.setR_R _ _ fun _ => ?_); exact ⟨rfl, rfl, rfl, rfl, rfl, rfl, rfl, rfl, fun _ => rfl⟩)
      | with_reducible refine KeepsR.getS_bind_R fun _ => ?_
      | with_reducible refine KeepsR.bind_R Still.pre_sl ?_ fun _ => ?_
      | ((try dsimp only); rw [ite_bind_jp])
      | with_reducible refine KeepsR.ite_R (fun _ => ?_) fun _ => ?_
      | split

theorem still_get_request (fuel n : Nat) (dev : Int) : KeepsR Still (get_request fuel n dev) := by
  unfold get_request
  repeat' first
    | with_reducible exact KeepsR.pure_R Still.pre_sl _
    | with_reducible exact KeepsR.kpanic_R _
    | with_reducible exact KeepsR.khang_R
    | with_reducible exact still_get_request_loop _ _ _ _
    | ((with_reducible refine KeepsR.modS_R _ fun _ => ?_); exact ⟨rfl, rfl, rfl, rfl, rfl, rfl, rfl, rfl, fun _ => rfl⟩)
    | ((with_reducible refine still_setB_R _ _ ?_); intro _; rfl)
    | ((with_reducible refine KeepsR.setR_R _ _ fun _ => ?_); exact ⟨rfl, rfl, rfl, rfl, rfl, rfl, rfl, rfl, fun _ => rfl⟩)
    | with_reducible refine KeepsR.getS_bind_R fun _ => ?_
    | with_reducible refine KeepsR.bind_R Still.pre_sl ?_ fun _ => ?_
    | ((try dsimp only); rw [ite_bind_jp])
    | with_reducible refine KeepsR.ite_R (fun _ => ?_) fun _ => ?_
    | split

theorem still_add_request_kstat (rdev : Nat) : KeepsR Still (add_request_kstat rdev) := by
  unfold add_request_kstat
  refine KeepsR.modS_R _ fun s => ?_
  dsimp only
  split_ifs <;> exact ⟨rfl, rfl, rfl, rfl, rfl, rfl, rfl, rfl, fun _ => rfl⟩

theorem still_call_request_fn (major : Nat) : KeepsR Still (call_request_fn major) := by
  unfold call_request_fn
  repeat' first
    | with_reducible exact KeepsR.pure_R Still.pre_sl _
    | with_reducible exact KeepsR.kpanic_R _
    | with_reducible exact KeepsR.khang_R
    | ((with_reducible refine KeepsR.modS_R _ fun _ => ?_); exact ⟨rfl, rfl, rfl, rfl, rfl, rfl, rfl, rfl, fun _ => rfl⟩)
    | ((with_reducible refine still_setB_R _ _ ?_); intro _; rfl)
    | ((with_reducible refine KeepsR.setR_R _ _ fun _ => ?_); exact ⟨rfl, rfl, rfl, rfl, rfl, rfl, rfl, rfl, fun _ => rfl⟩)
    | with_reducible refine KeepsR.getS_bind_R fun _ => ?_
    | with_reducible refine KeepsR.bind_R Still.pre_sl ?_ fun _ => ?_
    | ((try dsimp only); rw [ite_bind_jp])
    | with_reducible refine KeepsR.ite_R (fun _ => ?_) fun _ => ?_
    | split

theorem still_sorry_exit (bhs : List Nat) : KeepsR Still ( ll_rw_block_sorry bhs) := by
  induction bhs with
  | nil => exact KeepsR.pure_R Still.pre_sl _
  | cons bh rest ih =>
    unfold ll_rw_block_sorry
    repeat' first
      | with_reducible exact KeepsR.pure_R Still.pre_sl _
      | with_reducible exact KeepsR.kpanic_R _
      | with_reducible exact KeepsR.khang_R
      | with_reducible exact ih
      | ((with_reducible refine KeepsR.modS_R _ fun _ => ?_); exact ⟨rfl, rfl, rfl, rfl, rfl, rfl, rfl, rfl, fun _ => rfl⟩)
      | ((with_reducible refine still_setB_R _ _ ?_); intro _; rfl)
      | ((with_reducible refine KeepsR.setR_R _ _ fun _ => ?_); exact ⟨rfl, rfl, rfl, rfl, rfl, rfl, rfl, rfl, fun _ => rfl⟩)
      | with_reducible refine KeepsR.getS_bind_R fun _ => ?_
      | with_reducible refine KeepsR.bind_R Still.pre_sl ?_ fun _ => ?_
      | ((try dsimp only); rw [ite_bind_jp])
      | with_reducible refine KeepsR.ite_R (fun _ => ?_) fun _ => ?_
      | split

theorem still_invalidate_buffers_scan (dev i bh : Nat) :
    KeepsR Still (invalidate_buffers_scan dev i bh) := by
  induction i generalizing bh with
  | zero => exact KeepsR.pure_R Still.pre_sl _
  | succ i ih =>
    unfold invalidate_buffers_scan
    repeat' first
      | with_reducible exact KeepsR.pure_R Still.pre_sl _
      | with_reducible exact KeepsR.kpanic_R _
      | with_reducible exact KeepsR.khang_R
      | with_reducible exact still_wait_on_buffer _
      | with_reducible exact ih _
      | ((with_reducible refine KeepsR.modS_R _ fun _ => ?_); exact ⟨rfl, rfl, rfl, rfl, rfl, rfl, rfl, rfl, fun _ => rfl⟩)
      | ((with_reducible refine still_setB_R _ _ ?_); intro _; rfl)
      | ((with_reducible refine KeepsR.setR_R _ _ fun _ => ?_); exact ⟨rfl, rfl, rfl, rfl, rfl, rfl, rfl, rfl, fun _ => rfl⟩)
      | with_reducible refine KeepsR.getS_bind_R fun _ => ?_
      | with_reducible refine KeepsR.bind_R Still.pre_sl ?_ fun _ => ?_
      | ((try dsimp only); rw [ite_bind_jp])
      | with_reducible refine KeepsR.ite_R (fun _ => ?_) fun _ => ?_
      | split

theorem still_invalidate_buffers_lists (dev : Nat) (ls : List BufList) :
    KeepsR Still (invalidate_buffers_lists dev ls) := by
  induction ls with
  | nil => exact KeepsR.pure_R Still.pre_sl _
  | cons nlist rest ih =>
    unfold invalidate_buffers_lists
    repeat' first
      | with_reducible exact KeepsR.pure_R Still.pre_sl _
      | with_reducible exact KeepsR.kpanic_R _
      | with_reducible exact KeepsR.khang_R
      | with_reducible exact still_invalidate_buffers_scan _ _ _
      | with_reducible exact ih
      | ((with_reducible refine KeepsR.modS_R _ fun _ => ?_); exact ⟨rfl, rfl, rfl, rfl, rfl, rfl, rfl, rfl, fun _ => rfl⟩)
      | ((with_reducible refine still_setB_R _ _ ?_); intro _; rfl)
      | ((with_reducible refine KeepsR.setR_R _ _ fun _ => ?_); exact ⟨rfl, rfl, rfl, rfl, rfl, rfl, rfl, rfl, fun _ => rfl⟩)
      | with_reducible refine KeepsR.getS_bind_R fun _ => ?_
      | with_reducible refine KeepsR.bind_R Still.pre_sl ?_ fun _ => ?_
      | ((try dsimp only); rw [ite_bind_jp])
      | with_reducible refine KeepsR.ite_R (fun _ => ?_) fun _ => ?_
      | split

theorem still_invalidate_buffers (dev : Nat) : KeepsR Still (invalidate_buffers dev) :=
  still_invalidate_buffers_lists dev _

theorem Moves.pre_mv : Pre Moves :=
  ⟨fun _ t => ⟨t, fun _ => rfl⟩, fun _ _ _ h h' t =>
    ⟨(h' (h t).1).1, fun i => ((h' (h t).1).2 i).trans ((h t).2 i)⟩⟩

theorem Moves.tallies_mv {s s' : State} (h : Moves s s') : Tallies s s' := fun t => (h t).1

theorem Still.moves {s s' : State} (h : Still s s') : Moves s s' := fun t =>
  ⟨h.tallies t, fun i => by unfold stock; rw [h.nr_free, h.nr_buffers_st]⟩

theorem sum_upd_lists (g : BufList → Int) (l : BufList) (v : Int) :
    (ALL_LISTS.map (upd g l v)).sum = (ALL_LISTS.map g).sum + (v - g l) := by
  cases l <;> simp [ALL_LISTS, upd] <;> ring

theorem stock_st (nf : Int → Int) (st : Int → BufList → Int) (j : Int) (l : BufList) (v : Int)
    (i : Int) :
    nf i + (ALL_LISTS.map fun m => upd st j (upd (st j) l v) i m).sum =
      nf i + (ALL_LISTS.map fun m => st i m).sum + (if i = j then v - st j l else 0) := by
  by_cases h : i = j
  · subst h
    rw [if_pos rfl, upd_same]
    have := sum_upd_lists (st i) l v
    change nf i + (ALL_LISTS.map (upd (st i) l v)).sum = nf i + (ALL_LISTS.map (st i)).sum + _
    rw [this]
    ring
  · rw [if_neg h, upd_other _ _ _ _ h]
    simp

theorem stock_nf (nf : Int → Int) (st : Int → BufList → Int) (j : Int) (v : Int) (i : Int) :
    upd nf j v i + (ALL_LISTS.map fun m => st i m).sum =
      nf i + (ALL_LISTS.map fun m => st i m).sum + (if i = j then v - nf j else 0) := by
  by_cases h : i = j
  · subst h
    rw [if_pos rfl, upd_same]
    ring
  · rw [if_neg h, upd_other _ _ _ _ h]
    simp

theorem remove_from_free_list_stock (bh : Nat) (s s' : State) (a : Unit)
    (e : remove_from_free_list bh s = .ok a s') (i : Int) :
    stock s' i = stock s i - (if i = BUFSIZE_INDEX (s.b bh).b_size then 1 else 0) := by
  simp only [remove_from_free_list, bind_run, getS_run, ite_run, modS_run, kpanic_run] at e
  split_ifs at e with h1 h2 h3
  cases e
  unfold stock
  dsimp only
  rw [stock_nf]
  split_ifs <;> ring

theorem remove_from_queues_stock (bh : Nat) (s s' : State) (a : Unit)
    (e : remove_from_queues bh s = .ok a s') (i : Int) :
    stock s' i = stock s i - (if i = BUFSIZE_INDEX (s.b bh).b_size then 1 else 0) := by
  by_cases hd : (s.b bh).b_dev = B_FREE
  · simp only [remove_from_queues, bind_run, getS_run, ite_run, if_pos hd] at e
    exact remove_from_free_list_stock bh s s' a e i
  · simp only [remove_from_queues, bind_run, getS_run, ite_run, modS_run, if_neg hd,
      remove_from_hash_queue, remove_from_lru_list, kpanic_run] at e
    split_ifs at e with h1
    cases e
    unfold stock
    dsimp only
    rw [stock_st]
    split_ifs <;> ring

theorem put_last_free_stock (bh : Nat) (s s' : State) (a : Unit)
    (e : put_last_free bh s = .ok a s') (h0 : bh ≠ 0) (i : Int) :
    stock s' i = stock s i + (if i = BUFSIZE_INDEX (s.b bh).b_size then 1 else 0) := by
  simp only [put_last_free, bind_run, getS_run, ite_run, modS_run, pure_run, setB_run,
    if_neg h0] at e
  cases e
  unfold stock
  dsimp only
  rw [stock_nf]
  split_ifs <;> ring

theorem insert_into_queues_stock (bh : Nat) (s s' : State) (a : Unit)
    (e : insert_into_queues bh s = .ok a s') (h0 : bh ≠ 0) (i : Int) :
    stock s' i = stock s i + (if i = BUFSIZE_INDEX (s.b bh).b_size then 1 else 0) := by
  by_cases hdev : (s.b bh).b_dev = B_FREE
  · simp only [insert_into_queues, bind_run, getS_run, ite_run, if_pos hdev] at e
    exact put_last_free_stock bh s s' a e h0 i
  · simp only [insert_into_queues, bind_run, getS_run, ite_run, modS_run, pure_run, kpanic_run,
      if_neg hdev] at e
    split_ifs at e with h1 h2
    · cases e
      unfold stock
      dsimp only
      rw [stock_st]
      split_ifs <;> ring
    · cases e
      unfold stock
      dsimp only
      rw [stock_st]
      split_ifs <;> ring

/-- A head is taken off its list, changed but for its size, and put on a list: the
lists and counters stay in step and the stock of every size class is as before. -/
theorem relink_moves {α : Type} (unlink : K Unit) (link : K α) (bh : Nat)
    (f : buffer_head → buffer_head) (hf : ∀ v, (f v).b_size = v.b_size)
    (hu : ∀ s a s', unlink s = .ok a s' → Tally s → Tally s' ∧ Detached s' bh ∧ s'.b = s.b)
    (hus : ∀ s a s', unlink s = .ok a s' → ∀ i,
      stock s' i = stock s i - (if i = BUFSIZE_INDEX (s.b bh).b_size then 1 else 0))
    (hl : ∀ s a s', link s = .ok a s' → Tally s → Detached s bh → Tally s')
    (hls : ∀ s a s', link s = .ok a s' → bh ≠ 0 → ∀ i,
      stock s' i = stock s i + (if i = BUFSIZE_INDEX (s.b bh).b_size then 1 else 0)) :
    KeepsR Moves (unlink >>= fun _ => setB bh f >>= fun _ => link) := by
  intro s a s' e t
  obtain ⟨a1, s1, e1, e⟩ := bind_inv e
  obtain ⟨a2, s2, e2, e3⟩ := bind_inv e
  obtain ⟨t1, d1, b1⟩ := hu s a1 s1 e1 t
  have st2 : Still s1 s2 := still_setB_R bh f hf s1 a2 s2 e2
  have t2 := st2.tallies t1
  have d2 := st2.detached d1
  have hs : (s2.b bh).b_size = (s.b bh).b_size := by rw [st2.b_size, b1]
  refine ⟨hl s2 a s' e3 t2 d2, fun i => ?_⟩
  have h0 : bh ≠ 0 := fun h => absurd d1.pos (by rw [h]; decide)
  rw [hls s2 a s' e3 h0 i, hs, (st2.moves t1).2 i, hus s a1 s1 e1 i]
  ring

theorem refile_link_moves (bh : Nat) (f : buffer_head → buffer_head)
    (hf : ∀ v, (f v).b_size = v.b_size) :
    KeepsR Moves (remove_from_queues bh >>= fun _ => setB bh f >>= fun _ =>
      insert_into_queues bh) :=
  relink_moves _ _ bh f hf (fun s a s' => remove_from_queues_tally bh s s' a)
    (fun s a s' => remove_from_queues_stock bh s s' a)
    (fun s a s' => insert_into_queues_tally bh s s' a)
    (fun s a s' => insert_into_queues_stock bh s s' a)

theorem getblk_link_moves (bh : Nat) (f : buffer_head → buffer_head)
    (hf : ∀ v, (f v).b_size = v.b_size) :
    KeepsR Moves (remove_from_free_list bh >>= fun _ => setB bh f >>= fun _ =>
      insert_into_queues bh) :=
  relink_moves _ _ bh f hf (fun s a s' => remove_from_free_list_tally bh s s' a)
    (fun s a s' => remove_from_free_list_stock bh s s' a)
    (fun s a s' => insert_into_queues_tally bh s s' a)
    (fun s a s' => insert_into_queues_stock bh s s' a)

theorem reclaim_link_moves (bh : Nat) (f : buffer_head → buffer_head)
    (hf : ∀ v, (f v).b_size = v.b_size) :
    KeepsR Moves (remove_from_queues bh >>= fun _ => setB bh f >>= fun _ =>
      put_last_free bh) :=
  relink_moves _ _ bh f hf (fun s a s' => remove_from_queues_tally bh s s' a)
    (fun s a s' => remove_from_queues_stock bh s s' a)
    (fun s a s' e t d => put_last_free_tally bh s s' a e t (Or.inr d))
    (fun s a s' => put_last_free_stock bh s s' a)

theorem bind_assoc3 {β : Type} (m1 m2 m3 : K Unit) (k : Unit → K β) :
    (m1 >>= fun _ => m2 >>= fun _ => m3 >>= k) =
      ((m1 >>= fun _ => m2 >>= fun _ => m3) >>= k) := by
  funext s
  simp only [bind_run]
  cases m1 s with
  | ok a s1 =>
    dsimp only
    cases m2 s1 with
    | ok a s2 => rfl
    | panic p => rfl
    | hang => rfl
  | panic p => rfl
  | hang => rfl

theorem Tally.unused_ok {s : State} (h : Tally s) :
    ∀ x ∈ s.unused_list, (∀ i, x ∉ s.free_list i) ∧ (∀ l, x ∉ s.lru_list l) ∧
      1 ≤ x ∧ x ≤ s.nr_buffer_heads := fun x hx =>
  ⟨fun i => h.unused_free i x hx, fun l => h.unused_lru l x hx, h.carved_unused x hx⟩

/-- The lists are rearranged, nothing else changes. -/
theorem Tally.perm {s s' : State} (h : Tally s)
    (hf : ∀ i, (s'.free_list i).Perm (s.free_list i))
    (hl : ∀ l, (s'.lru_list l).Perm (s.lru_list l))
    (hu : s'.unused_list = s.unused_list) (hn : s'.nr_buffer_heads = s.nr_buffer_heads)
    (hnf : s'.nr_free = s.nr_free) (hnt : s'.nr_buffers_type = s.nr_buffers_type)
    (hns : s'.nr_buffers_st = s.nr_buffers_st) (hp : s'.bdf_prm = s.bdf_prm)
    (hb : ∀ x, (s'.b x).b_size = (s.b x).b_size) : Tally s' := by
  refine h.frame_ta hf hl (hu ▸ h.unused_nodup) ?_ (le_of_eq hn.symm) hnf hnt hns
    (fun _ x _ => hb x) (hp ▸ h.bdf_prm)
  rw [hu, hn]
  exact h.unused_ok

theorem ring_remove_append_perm (l : List Nat) (x : Nat) (hn : l.Nodup) (hm : x ∈ l) :
    (ring_remove l x ++ [x]).Perm l := by
  have h1 : ring_remove l x = l.erase x := by
    unfold ring_remove
    rw [hn.erase_eq_filter]
  rw [h1]
  exact (List.perm_append_singleton x _).trans (List.perm_cons_erase hm).symm

theorem put_last_lru_still_b (bh : Nat) (s s' : State) (a : Unit)
    (e : put_last_lru bh s = .ok a s') (t : Tally s) :
    Tally s' ∧ s'.nr_free = s.nr_free ∧ s'.nr_buffers_st = s.nr_buffers_st := by
  simp only [put_last_lru, remove_from_lru_list, bind_run, getS_run, ite_run, modS_run, pure_run,
    kpanic_run] at e
  split_ifs at e with h0 h1 h2 h3 h4
  · cases e
    exact ⟨t, rfl, rfl⟩
  · cases e
    refine ⟨t.perm (fun _ => .refl _) (fun l => ?_) rfl rfl rfl rfl rfl rfl fun _ => rfl,
      rfl, rfl⟩
    show (upd s.lru_list _ _ l).Perm _
    by_cases hl : l = (s.b bh).b_list
    · subst hl
      rw [upd_same]
      exact ring_set_head_perm _ _
    · rw [upd_other _ _ _ _ hl]
  · cases e
    have hm : bh ∈ s.lru_list (s.b bh).b_list := by
      have : b_next_free s bh ≠ 0 := fun hz => h3 (Or.inr hz)
      unfold b_next_free at this
      rw [ring_of_lru s bh h2] at this
      exact mem_of_ring_next _ _ this
    refine ⟨t.perm (fun _ => .refl _) (fun l => ?_) rfl rfl rfl rfl rfl rfl fun _ => rfl,
      rfl, rfl⟩
    show (upd (upd s.lru_list _ _) _ _ l).Perm _
    by_cases hl : l = (s.b bh).b_list
    · subst hl
      rw [upd_same]
      dsimp only
      rw [upd_same]
      exact ring_remove_append_perm _ _ (t.lru_nodup _) hm
    · rw [upd_other _ _ _ _ hl, upd_other _ _ _ _ hl]

theorem moves_put_last_lru (bh : Nat) : KeepsR Moves (put_last_lru bh) := by
  intro s a s' e t
  obtain ⟨t', h1, h2⟩ := put_last_lru_still_b bh s s' a e t
  exact ⟨t', fun i => by unfold stock; rw [h1, h2]⟩

theorem moves_setB_R (bh : Nat) (f : buffer_head → buffer_head)
    (hf : ∀ v, (f v).b_size = v.b_size) : KeepsR Moves (setB bh f) :=
  (still_setB_R bh f hf).mono_R fun _ _ => Still.moves

theorem put_unused_buffer_head_tally (bh : Nat) (s s' : State) (a : Unit)
    (e : put_unused_buffer_head bh s = .ok a s') (t : Tally s) (d : Detached s bh) :
    Tally s' ∧ ∀ y, y ≠ bh → Detached s y → Detached s' y ∧ s'.b y = s.b y := by
  unfold put_unused_buffer_head at e
  cases e
  refine ⟨t.frame_ta (fun _ => .refl _) (fun _ => .refl _) ?_ ?_ le_rfl rfl rfl rfl ?_ t.bdf_prm, ?_⟩
  · exact List.nodup_cons.mpr ⟨d.unused, t.unused_nodup⟩
  · intro x hx
    rcases List.mem_cons.mp hx with rfl | hx
    · exact ⟨d.free, d.lru, d.pos, d.carved⟩
    · exact t.unused_ok x hx
  · intro l x hx
    have : x ≠ bh := fun h => d.lru l (h ▸ hx)
    show (upd s.b bh _ x).b_size = _
    rw [upd_other _ _ _ _ this]
  · intro y hy dy
    refine ⟨⟨dy.free, dy.lru, ?_, dy.pos, dy.carved⟩, upd_other _ _ _ _ hy⟩
    intro h
    rcases List.mem_cons.mp h with h | h
    · exact hy h
    · exact dy.unused h

theorem get_free_page_b (pri : Gfp) (s s' : State) (a : Nat)
    (e : __get_free_page pri s = .ok a s') : s'.b = s.b := by
  unfold __get_free_page at e
  split at e <;> cases e <;> rfl

theorem get_more_buffer_heads_tally (s s' : State) (a : Unit)
    (e : get_more_buffer_heads s = .ok a s') (t : Tally s) :
    Tally s' ∧ ∀ y, Detached s y → Detached s' y ∧ s'.b y = s.b y := by
  unfold get_more_buffer_heads at e
  rw [bind_run, getS_run] at e
  dsimp only at e
  split_ifs at e with h1
  · cases e
    exact ⟨t, fun y dy => ⟨dy, rfl⟩⟩
  · obtain ⟨bh, s1, e1, e⟩ := bind_inv e
    have st1 := still_get_free_page _ s bh s1 e1
    have b1 := get_free_page_b _ s s1 bh e1
    have t1 := st1.tallies t
    split_ifs at e with h2
    · cases e
      exact ⟨t1, fun y dy => ⟨st1.detached dy, by rw [b1]⟩⟩
    · cases e
      have hnew : ∀ x, x ∈ (List.range (PAGE_SIZE / s1.sizeof_buffer_head)).map
          (fun j => s1.nr_buffer_heads + PAGE_SIZE / s1.sizeof_buffer_head - j) →
          s1.nr_buffer_heads < x ∧ x ≤ s1.nr_buffer_heads + PAGE_SIZE / s1.sizeof_buffer_head := by
        intro x hx
        obtain ⟨j, hj, rfl⟩ := List.mem_map.mp hx
        have := List.mem_range.mp hj
        omega
      refine ⟨t1.frame_ta (fun _ => .refl _) (fun _ => .refl _) ?_ ?_ (Nat.le_add_right _ _)
        rfl rfl rfl ?_ t1.bdf_prm, ?_⟩
      · refine List.Nodup.append ?_ t1.unused_nodup ?_
        · refine (List.nodup_range _).map_on ?_
          intro x hx y hy hxy
          have := List.mem_range.mp hx
          have := List.mem_range.mp hy
          omega
        · intro x hx hx'
          have := (hnew x hx).1
          have := (t1.carved_unused x hx').2
          omega
      · intro x hx
        rcases List.mem_append.mp hx with hx | hx
        · have hn := hnew x hx
          refine ⟨fun i hi => ?_, fun l hl => ?_, by omega, hn.2⟩
          · have := (t1.carved_free i x hi).2
            omega
          · have := (t1.carved_lru l x hl).2
            omega
        · have := t1.unused_ok x hx
          exact ⟨this.1, this.2.1, this.2.2.1, le_trans this.2.2.2 (Nat.le_add_right _ _)⟩
      · intro l x hx
        have := (t1.carved_lru l x hx).2
        show (if _ then _ else s1.b x).b_size = _
        rw [if_neg (by omega)]
      · intro y dy
        have dy1 := st1.detached dy
        refine ⟨⟨dy1.free, dy1.lru, ?_, dy1.pos, le_trans dy1.carved (Nat.le_add_right _ _)⟩, ?_⟩
        · intro h
          rcases List.mem_append.mp h with h | h
          · have := (hnew y h).1
            have := dy1.carved
            omega
          · exact dy1.unused h
        · have := dy1.carved
          show (if _ then _ else s1.b y) = _
          rw [if_neg (by omega), b1]

theorem get_unused_buffer_head_tally (s s' : State) (bh : Nat)
    (e : get_unused_buffer_head s = .ok bh s') (t : Tally s) :
    Tally s' ∧ (bh ≠ 0 → Detached s' bh) ∧
      ∀ y, Detached s y → Detached s' y ∧ s'.b y = s.b y ∧ y ≠ bh := by
  unfold get_unused_buffer_head at e
  obtain ⟨a1, s1, e1, e⟩ := bind_inv e
  obtain ⟨t1, k1⟩ := get_more_buffer_heads_tally s s1 a1 e1 t
  rw [bind_run, getS_run] at e
  dsimp only at e
  cases hu : s1.unused_list with
  | nil =>
    rw [hu] at e
    cases e
    refine ⟨t1, fun h => absurd rfl h, fun y dy => ⟨(k1 y dy).1, (k1 y dy).2, ?_⟩⟩
    intro h
    have := dy.pos
    omega
  | cons x rest =>
    rw [hu] at e
    simp only [bind_run, modS_run, pure_run] at e
    have hx : x ∈ s1.unused_list := by rw [hu]; exact List.mem_cons_self _ _
    have hnd : (x :: rest).Nodup := hu ▸ t1.unused_nodup
    have hrest : ∀ y ∈ rest, y ∈ s1.unused_list := fun y hy => by
      rw [hu]; exact List.mem_cons_of_mem _ hy
    obtain ⟨hbh, hf, hl, hul, hn, hnf, hnt, hns, hp, hb⟩ : x = bh ∧
        s'.free_list = s1.free_list ∧ s'.lru_list = s1.lru_list ∧ s'.unused_list = rest ∧
        s'.nr_buffer_heads = s1.nr_buffer_heads ∧ s'.nr_free = s1.nr_free ∧
        s'.nr_buffers_type = s1.nr_buffers_type ∧ s'.nr_buffers_st = s1.nr_buffers_st ∧
        s'.bdf_prm = s1.bdf_prm ∧ ∀ y, y ≠ x → s'.b y = s1.b y := by
      cases e
      exact ⟨rfl, rfl, rfl, rfl, rfl, rfl, rfl, rfl, rfl, fun y hy => upd_other _ _ _ _ hy⟩
    subst hbh
    refine ⟨t1.frame_ta (fun i => by rw [hf]) (fun l => by rw [hl]) (hul ▸ (List.nodup_cons.mp hnd).2)
      ?_ (le_of_eq hn.symm) hnf hnt hns ?_ (hp ▸ t1.bdf_prm), fun _ => ?_, fun y dy => ?_⟩
    · intro y hy
      rw [hul] at hy
      rw [hn]
      exact t1.unused_ok y (hrest y hy)
    · intro l y hy
      have : y ≠ x := fun h => t1.unused_lru l x hx (h ▸ hy)
      rw [hb y this]
    · refine ⟨fun i => ?_, fun l => ?_, ?_, (t1.carved_unused x hx).1, ?_⟩
      · rw [hf]
        exact t1.unused_free i x hx
      · rw [hl]
        exact t1.unused_lru l x hx
      · rw [hul]
        exact (List.nodup_cons.mp hnd).1
      · rw [hn]
        exact (t1.carved_unused x hx).2
    · have dy1 := (k1 y dy).1
      have hne : y ≠ x := fun h => dy1.unused (h ▸ hx)
      refine ⟨⟨fun i => ?_, fun l => ?_, ?_, dy1.pos, ?_⟩, ?_, hne⟩
      · rw [hf]
        exact dy1.free i
      · rw [hl]
        exact dy1.lru l
      · rw [hul]
        exact fun h => dy1.unused (hrest y h)
      · rw [hn]
        exact dy1.carved
      · rw [hb y hne, (k1 y dy).2]

theorem Spare.mem {s : State} : ∀ (L : List Nat) (head : Nat), Spare s head L →
    ∀ y ∈ L, Detached s y
  | [], _, _ => fun _ hy => absurd hy (List.not_mem_nil _)
  | x :: L, _, ⟨_, h2, _, h4⟩ => fun y hy => by
    rcases List.mem_cons.mp hy with rfl | hy
    · exact h2
    · exact Spare.mem L _ h4 y hy

theorem Spare.transfer {s s' : State} : ∀ (L : List Nat) (head : Nat),
    (∀ y ∈ L, Detached s y → Detached s' y ∧ s'.b y = s.b y) → Spare s head L →
      Spare s' head L
  | [], _, _, h => h
  | x :: L, _, hT, ⟨h1, h2, h3, h4⟩ =>
    ⟨h1, (hT x (List.mem_cons_self _ _) h2).1, h3, by
      rw [(hT x (List.mem_cons_self _ _) h2).2]
      exact Spare.transfer L _ (fun y hy => hT y (List.mem_cons_of_mem _ hy)) h4⟩

theorem Spare.cons_of_ne {s : State} {head : Nat} {L : List Nat} (h : Spare s head L)
    (h0 : head ≠ 0) : ∃ L', L = head :: L' := by
  cases L with
  | nil => exact absurd h h0
  | cons x L' => exact ⟨L', by rw [h.1]⟩

theorem create_buffers_no_grow_tally : ∀ (fuel head : Nat) (L : List Nat) (s s' : State)
    (a : Unit), create_buffers_no_grow fuel head s = .ok a s' → Tally s → Spare s head L →
      Tally s' := by
  intro fuel
  induction fuel with
  | zero => intro head L s s' a e; cases e
  | succ fuel ih =>
    intro head L s s' a e t sp
    unfold create_buffers_no_grow at e
    split_ifs at e with h0
    · cases e
      exact t
    · obtain ⟨L', rfl⟩ := sp.cons_of_ne h0
      rw [bind_run, getS_run] at e
      dsimp only at e
      obtain ⟨a1, s1, e1, e⟩ := bind_inv e
      obtain ⟨t1, k1⟩ := put_unused_buffer_head_tally head s s1 a1 e1 t sp.2.1
      refine ih _ L' s1 s' a e t1 (Spare.transfer L' _ (fun y hy dy => k1 y ?_ dy) sp.2.2.2)
      intro h
      exact sp.2.2.1 (h ▸ hy)

theorem create_buffers_loop_tally (page size : Nat) : ∀ (fuel offset head : Nat) (L : List Nat)
    (s s' : State) (r : Nat), create_buffers_loop page size fuel offset head s = .ok r s' →
      Tally s → Spare s head L → Tally s' ∧ ∃ L', Spare s' r L' := by
  intro fuel
  induction fuel with
  | zero => intro offset head L s s' r e; cases e
  | succ fuel ih =>
    intro offset head L s s' r e t sp
    unfold create_buffers_loop at e
    split_ifs at e with hc
    · obtain ⟨bh, s1, e1, e⟩ := bind_inv e
      obtain ⟨t1, d1, k1⟩ := get_unused_buffer_head_tally s s1 bh e1 t
      have sp1 : Spare s1 head L :=
        Spare.transfer L _ (fun y _ dy => ⟨(k1 y dy).1, (k1 y dy).2.1⟩) sp
      split_ifs at e with h0
      · obtain ⟨a2, s2, e2, e⟩ := bind_inv e
        cases e
        exact ⟨create_buffers_no_grow_tally _ head L s1 s' a2 e2 t1 sp1, [], rfl⟩
      · obtain ⟨a2, s2, e2, e⟩ := bind_inv e
        have hd1 := d1 h0
        have hs2 := congrArg Res.state e2
        have hs2' : (setB bh (fun h =>
            { h with b_this_page := head, b_data := page + usub offset size, b_size := size,
                     b_dev := B_FREE }) s1).state = s2 := hs2
        have t2 : Tally s2 := hs2' ▸ tallies_setB s1 bh _ (Or.inr hd1.lru) t1
        have hne : ∀ y ∈ L, y ≠ bh := fun y hy => (k1 y (sp.mem L head y hy)).2.2
        refine ih _ bh (bh :: L) s2 s' r e t2 ?_
        rw [← hs2']
        refine ⟨rfl, setB_detached _ hd1, fun h => hne bh h rfl, ?_⟩
        have : ((setB bh (fun h =>
            { h with b_this_page := head, b_data := page + usub offset size, b_size := size,
                     b_dev := B_FREE }) s1).state.b bh).b_this_page = head := by
          show (upd s1.b bh _ bh).b_this_page = head
          rw [upd_same]
        rw [this]
        refine Spare.transfer L _ (fun y hy dy => ⟨setB_detached _ dy, ?_⟩) sp1
        exact upd_other _ _ _ _ (hne y hy)
    · cases e
      exact ⟨t, L, sp⟩

theorem grow_buffers_loop_tally (isize : Int) : ∀ (fuel tmp ip : Nat) (L : List Nat)
    (s s' : State) (r : Nat), grow_buffers_loop isize fuel tmp ip s = .ok r s' →
      Tally s → Spare s tmp (tmp :: L) → (ip = 0 → s.free_list isize = []) → Tally s' := by
  intro fuel
  induction fuel with
  | zero => intro tmp ip L s s' r e; cases e
  | succ fuel ih =>
    intro tmp ip L s s' r e t sp hip
    unfold grow_buffers_loop at e
    obtain ⟨a1, s1, e1, e⟩ := bind_inv e
    have hperm : (if ip ≠ 0 then ring_insert_after (s.free_list isize) ip tmp else [tmp]).Perm
        (tmp :: s.free_list isize) := by
      split_ifs with h
      · exact ring_insert_after_perm _ _ _
      · rw [hip (not_not.mp h)]
    obtain ⟨hf, hl, hu, hn, hnf, hnt, hns, hp, hb⟩ :
        s1.free_list = upd s.free_list isize
          (if ip ≠ 0 then ring_insert_after (s.free_list isize) ip tmp else [tmp]) ∧
        s1.lru_list = s.lru_list ∧ s1.unused_list = s.unused_list ∧
        s1.nr_buffer_heads = s.nr_buffer_heads ∧
        s1.nr_free = upd s.nr_free isize (s.nr_free isize + 1) ∧
        s1.nr_buffers_type = s.nr_buffers_type ∧ s1.nr_buffers_st = s.nr_buffers_st ∧
        s1.bdf_prm = s.bdf_prm ∧ s1.b = s.b := by
      cases e1
      exact ⟨rfl, rfl, rfl, rfl, rfl, rfl, rfl, rfl, rfl⟩
    have t1 : Tally s1 := t.link_free tmp isize _ sp.2.1 hperm hf hl hu hn hnf hnt hns hp hb
    rw [bind_run, getS_run] at e
    dsimp only at e
    split_ifs at e with hn0
    · have sp1 : Spare s1 (s1.b tmp).b_this_page L := by
        rw [hb]
        refine Spare.transfer L _ (fun y hy dy => ⟨⟨fun i hi => ?_, ?_, ?_, dy.pos, ?_⟩, ?_⟩)
          sp.2.2.2
        · have hne : y ≠ tmp := fun h => sp.2.2.1 (h ▸ hy)
          rw [hf] at hi
          by_cases hi' : i = isize
          · subst hi'
            rw [upd_same] at hi
            rcases List.mem_cons.mp (hperm.mem_iff.mp hi) with h | h
            · exact hne h
            · exact dy.free _ h
          · rw [upd_other _ _ _ _ hi'] at hi
            exact dy.free _ hi
        · rw [hl]
          exact dy.lru
        · rw [hu]
          exact dy.unused
        · rw [hn]
          exact dy.carved
        · rw [hb]
      obtain ⟨L', rfl⟩ := sp1.cons_of_ne hn0
      refine ih _ tmp L' s1 s' r e t1 sp1 fun h => ?_
      have := sp.2.1.pos
      omega
    · cases e
      exact t1

theorem tallies_grow_buffers (fuel : Nat) (pri : Gfp) (size : Nat) :
    KeepsR Tallies (grow_buffers fuel pri size) := by
  intro s r s' e t
  unfold grow_buffers at e
  split_ifs at e with h1
  · obtain ⟨a1, s1, e1, e⟩ := bind_inv e
    cases e
    exact (still_printk _ s a1 s' e1).tallies t
  · dsimp only at e
    obtain ⟨page, s1, e1, e⟩ := bind_inv e
    have t1 := (still_get_free_page _ s page s1 e1).tallies t
    split_ifs at e with h2
    · cases e
      exact t1
    · obtain ⟨bh, s2, e2, e⟩ := bind_inv e
      obtain ⟨t2, L, sp2⟩ := create_buffers_loop_tally page size fuel PAGE_SIZE 0 [] s1 s2 bh e2 t1 rfl
      split_ifs at e with h3
      · obtain ⟨a3, s3, e3, e⟩ := bind_inv e
        cases e
        exact (still_free_page _ s2 a3 s' e3).tallies t2
      · rw [bind_run, getS_run] at e
        dsimp only at e
        obtain ⟨tmp, s3, e3, e⟩ := bind_inv e
        obtain ⟨L', rfl⟩ := sp2.cons_of_ne h3
        have t3 := grow_buffers_loop_tally _ fuel bh _ L' s2 s3 tmp e3 t2 sp2 (by
          intro h
          cases hl : s2.free_list (BUFSIZE_INDEX size) with
          | nil => rfl
          | cons x rest =>
            rw [hl] at h
            have := (t2.carved_free (BUFSIZE_INDEX size) x (by rw [hl]; exact List.mem_cons_self _ _)).1
            have hx : x = 0 := h
            omega)
        simp only [bind_run, modS_run, pure_run] at e
        cases e
        refine t3.perm (fun i => ?_) (fun _ => .refl _) rfl rfl rfl rfl rfl rfl fun x => ?_
        · show (upd s3.free_list _ _ i).Perm _
          by_cases hi : i = BUFSIZE_INDEX size
          · subst hi
            rw [upd_same]
            exact ring_set_head_perm _ _
          · rw [upd_other _ _ _ _ hi]
        · show (upd s3.b tmp _ x).b_size = _
          by_cases hx : x = tmp
          · subst hx
            rw [upd_same]
          · rw [upd_other _ _ _ _ hx]

theorem tallies_try_to_free_loop (isize : Int) (bh : Nat) : ∀ fuel tmp bhp,
    KeepsR Tallies (try_to_free_loop isize bh fuel tmp bhp) := by
  intro fuel
  induction fuel with
  | zero => intro tmp bhp s a s' e; cases e
  | succ fuel ih =>
    intro tmp bhp s a s' e t
    unfold try_to_free_loop at e
    rw [bind_run, getS_run] at e
    dsimp only at e
    obtain ⟨a1, s1, e1, e⟩ := bind_inv e
    have t1 : Tally s1 := by
      cases e1
      exact t.same rfl rfl rfl rfl rfl rfl rfl rfl fun _ => rfl
    obtain ⟨a2, s2, e2, e⟩ := bind_inv e
    obtain ⟨t2, d2, _⟩ := remove_from_queues_tally tmp s1 s2 a2 e2 t1
    obtain ⟨a3, s3, e3, e⟩ := bind_inv e
    obtain ⟨t3, _⟩ := put_unused_buffer_head_tally tmp s2 s3 a3 e3 t2 d2
    exact KeepsR.ite_R (fun _ => ih _ _) (fun _ => KeepsR.pure_R Tallies.pre_ta _) s3 a s' e t3

theorem tallies_try_to_free (fuel bh : Nat) : KeepsR Tallies (try_to_free fuel bh) := by
  unfold try_to_free
  repeat' first
    | with_reducible exact KeepsR.pure_R Tallies.pre_ta _
    | with_reducible exact KeepsR.kpanic_R _
    | with_reducible exact KeepsR.khang_R
    | with_reducible exact tallies_try_to_free_loop _ _ _ _ _
    | with_reducible exact KeepsR.mono_R (still_free_page _) fun _ _ => Still.tallies
    | ((with_reducible refine KeepsR.modS_R _ fun _ => Still.tallies ?_); exact ⟨rfl, rfl, rfl, rfl, rfl, rfl, rfl, rfl, fun _ => rfl⟩)
    | ((with_reducible refine tallies_setB_R _ _ ?_); intro _; rfl)
    | ((with_reducible refine KeepsR.setR_R _ _ fun _ => Still.tallies ?_); exact ⟨rfl, rfl, rfl, rfl, rfl, rfl, rfl, rfl, fun _ => rfl⟩)
    | with_reducible refine KeepsR.getS_bind_R fun _ => ?_
    | with_reducible refine KeepsR.bind_R Tallies.pre_ta ?_ fun _ => ?_
    | ((try dsimp only); rw [ite_bind_jp])
    | with_reducible refine KeepsR.ite_R (fun _ => ?_) fun _ => ?_
    | split

theorem moves_mark_buffer_clean (rb : Nat → K Unit) (hrb : ∀ b, KeepsR Moves (rb b)) (bh : Nat) :
    KeepsR Moves (mark_buffer_clean rb bh) := by
  unfold mark_buffer_clean
  repeat' first
    | with_reducible exact KeepsR.pure_R Moves.pre_mv _
    | with_reducible exact KeepsR.kpanic_R _
    | with_reducible exact KeepsR.khang_R
    | with_reducible exact hrb _
    | ((with_reducible refine KeepsR.modS_R _ fun _ => Still.moves ?_); exact ⟨rfl, rfl, rfl, rfl, rfl, rfl, rfl, rfl, fun _ => rfl⟩)
    | ((with_reducible refine moves_setB_R _ _ ?_); intro _; rfl)
    | ((with_reducible refine KeepsR.setR_R _ _ fun _ => Still.moves ?_); exact ⟨rfl, rfl, rfl, rfl, rfl, rfl, rfl, rfl, fun _ => rfl⟩)
    | with_reducible refine KeepsR.getS_bind_R fun _ => ?_
    | with_reducible refine KeepsR.bind_R Moves.pre_mv ?_ fun _ => ?_
    | ((try dsimp only); rw [ite_bind_jp])
    | with_reducible refine KeepsR.ite_R (fun _ => ?_) fun _ => ?_
    | dsimp only
    | split

theorem moves_add_request (rb : Nat → K Unit) (hrb : ∀ b, KeepsR Moves (rb b))
    (major req : Nat) : KeepsR Moves (add_request rb major req) := by
  unfold add_request
  repeat' first
    | with_reducible exact KeepsR.pure_R Moves.pre_mv _
    | with_reducible exact KeepsR.kpanic_R _
    | with_reducible exact KeepsR.khang_R
    | with_reducible exact KeepsR.mono_R (still_add_request_kstat _) fun _ _ => Still.moves
    | with_reducible exact moves_mark_buffer_clean rb hrb _
    | with_reducible exact KeepsR.mono_R (still_call_request_fn _) fun _ _ => Still.moves
    | ((with_reducible refine KeepsR.modS_R _ fun _ => Still.moves ?_); exact ⟨rfl, rfl, rfl, rfl, rfl, rfl, rfl, rfl, fun _ => rfl⟩)
    | ((with_reducible refine moves_setB_R _ _ ?_); intro _; rfl)
    | ((with_reducible refine KeepsR.setR_R _ _ fun _ => Still.moves ?_); exact ⟨rfl, rfl, rfl, rfl, rfl, rfl, rfl, rfl, fun _ => rfl⟩)
    | with_reducible refine KeepsR.getS_bind_R fun _ => ?_
    | with_reducible refine KeepsR.bind_R Moves.pre_mv ?_ fun _ => ?_
    | ((try dsimp only); rw [ite_bind_jp])
    | with_reducible refine KeepsR.ite_R (fun _ => ?_) fun _ => ?_
    | dsimp only
    | split

theorem moves_make_request_queue (rb : Nat → K Unit) (hrb : ∀ b, KeepsR Moves (rb b))
    (fuel major : Nat) (rw : Rw) (ra : Bool) (bh sector count : Nat) :
    KeepsR Moves (make_request_queue rb fuel major rw ra bh sector count) := by
  unfold make_request_queue
  repeat' first
    | with_reducible exact KeepsR.pure_R Moves.pre_mv _
    | with_reducible exact KeepsR.kpanic_R _
    | with_reducible exact KeepsR.khang_R
    | with_reducible exact KeepsR.mono_R (still_get_request _ _ _) fun _ _ => Still.moves
    | with_reducible exact moves_mark_buffer_clean rb hrb _
    | with_reducible exact KeepsR.mono_R (still_unlock_buffer _) fun _ _ => Still.moves
    | with_reducible exact moves_add_request rb hrb _ _
    | ((with_reducible refine KeepsR.modS_R _ fun _ => Still.moves ?_); exact ⟨rfl, rfl, rfl, rfl, rfl, rfl, rfl, rfl, fun _ => rfl⟩)
    | ((with_reducible refine moves_setB_R _ _ ?_); intro _; rfl)
    | ((with_reducible refine KeepsR.setR_R _ _ fun _ => Still.moves ?_); exact ⟨rfl, rfl, rfl, rfl, rfl, rfl, rfl, rfl, fun _ => rfl⟩)
    | with_reducible refine KeepsR.getS_bind_R fun _ => ?_
    | with_reducible refine KeepsR.bind_R Moves.pre_mv ?_ fun _ => ?_
    | ((try dsimp only); rw [ite_bind_jp])
    | with_reducible refine KeepsR.ite_R (fun _ => ?_) fun _ => ?_
    | dsimp only
    | split

theorem moves_make_request (rb : Nat → K Unit) (hrb : ∀ b, KeepsR Moves (rb b))
    (fuel major : Nat) (rw : Rw) (bh : Nat) :
    KeepsR Moves (make_request rb fuel major rw bh) := by
  unfold make_request
  repeat' first
    | with_reducible exact KeepsR.pure_R Moves.pre_mv _
    | with_reducible exact KeepsR.kpanic_R _
    | with_reducible exact KeepsR.khang_R
    | with_reducible exact KeepsR.mono_R (still_lock_buffer _) fun _ _ => Still.moves
    | with_reducible exact KeepsR.mono_R (still_unlock_buffer _) fun _ _ => Still.moves
    | with_reducible exact moves_make_request_queue rb hrb _ _ _ _ _ _ _
    | ((with_reducible refine KeepsR.modS_R _ fun _ => Still.moves ?_); exact ⟨rfl, rfl, rfl, rfl, rfl, rfl, rfl, rfl, fun _ => rfl⟩)
    | ((with_reducible refine moves_setB_R _ _ ?_); intro _; rfl)
    | ((with_reducible refine KeepsR.setR_R _ _ fun _ => Still.moves ?_); exact ⟨rfl, rfl, rfl, rfl, rfl, rfl, rfl, rfl, fun _ => rfl⟩)
    | with_reducible refine KeepsR.getS_bind_R fun _ => ?_
    | with_reducible refine KeepsR.bind_R Moves.pre_mv ?_ fun _ => ?_
    | ((try dsimp only); rw [ite_bind_jp])
    | with_reducible refine KeepsR.ite_R (fun _ => ?_) fun _ => ?_
    | dsimp only
    | split

theorem moves_ll_rw_block_loop (rb : Nat → K Unit) (hrb : ∀ b, KeepsR Moves (rb b))
    (fuel major : Nat) (rw : Rw) (bhs : List Nat) :
    KeepsR Moves (ll_rw_block_loop rb fuel major rw bhs) := by
  induction bhs with
  | nil => exact KeepsR.pure_R Moves.pre_mv _
  | cons bh rest ih =>
    unfold ll_rw_block_loop
    repeat' first
      | with_reducible exact KeepsR.pure_R Moves.pre_mv _
      | with_reducible exact KeepsR.kpanic_R _
      | with_reducible exact KeepsR.khang_R
      | with_reducible exact ih
      | with_reducible exact moves_make_request rb hrb _ _ _ _
      | ((with_reducible refine KeepsR.modS_R _ fun _ => Still.moves ?_); exact ⟨rfl, rfl, rfl, rfl, rfl, rfl, rfl, rfl, fun _ => rfl⟩)
      | ((with_reducible refine moves_setB_R _ _ ?_); intro _; rfl)
      | ((with_reducible refine KeepsR.setR_R _ _ fun _ => Still.moves ?_); exact ⟨rfl, rfl, rfl, rfl, rfl, rfl, rfl, rfl, fun _ => rfl⟩)
      | with_reducible refine KeepsR.getS_bind_R fun _ => ?_
      | with_reducible refine KeepsR.bind_R Moves.pre_mv ?_ fun _ => ?_
      | ((try dsimp only); rw [ite_bind_jp])
      | with_reducible refine KeepsR.ite_R (fun _ => ?_) fun _ => ?_
      | dsimp only
      | split

theorem moves_ll_rw_block (rb : Nat → K Unit) (hrb : ∀ b, KeepsR Moves (rb b))
    (fuel : Nat) (rw : Rw) (bhs : List Nat) :
    KeepsR Moves (ll_rw_block rb fuel rw bhs) := by
  unfold ll_rw_block
  repeat' first
    | with_reducible exact KeepsR.pure_R Moves.pre_mv _
    | with_reducible exact KeepsR.kpanic_R _
    | with_reducible exact KeepsR.khang_R
    | with_reducible exact KeepsR.mono_R (still_printk _) fun _ _ => Still.moves
    | with_reducible exact KeepsR.mono_R (still_sorry_exit _) fun _ _ => Still.moves
    | with_reducible exact moves_ll_rw_block_loop rb hrb _ _ _ _
    | with_reducible exact KeepsR.mono_R (still_call_request_fn _) fun _ _ => Still.moves
    | ((with_reducible refine KeepsR.modS_R _ fun _ => Still.moves ?_); exact ⟨rfl, rfl, rfl, rfl, rfl, rfl, rfl, rfl, fun _ => rfl⟩)
    | ((with_reducible refine moves_setB_R _ _ ?_); intro _; rfl)
    | ((with_reducible refine KeepsR.setR_R _ _ fun _ => Still.moves ?_); exact ⟨rfl, rfl, rfl, rfl, rfl, rfl, rfl, rfl, fun _ => rfl⟩)
    | with_reducible refine KeepsR.getS_bind_R fun _ => ?_
    | with_reducible refine KeepsR.bind_R Moves.pre_mv ?_ fun _ => ?_
    | ((try dsimp only); rw [ite_bind_jp])
    | with_reducible refine KeepsR.ite_R (fun _ => ?_) fun _ => ?_
    | dsimp only
    | split

theorem moves_sync_buffers_scan (rb : Nat → K Unit) (hrb : ∀ b, KeepsR Moves (rb b))
    (fuel dev : Nat) (wait : Int) (nlist : BufList) (i bh : Nat) (loc : SyncLocals) :
    KeepsR Moves (sync_buffers_scan rb fuel dev wait nlist i bh loc) := by
  induction i generalizing bh loc with
  | zero => exact KeepsR.pure_R Moves.pre_mv _
  | succ i ih =>
    unfold sync_buffers_scan
    repeat' first
      | with_reducible exact KeepsR.pure_R Moves.pre_mv _
      | with_reducible exact KeepsR.kpanic_R _
      | with_reducible exact KeepsR.khang_R
      | with_reducible exact ih _ _
      | with_reducible exact KeepsR.mono_R (still_wait_on_buffer _) fun _ _ => Still.moves
      | with_reducible exact KeepsR.mono_R (still_printk _) fun _ _ => Still.moves
      | with_reducible exact moves_ll_rw_block rb hrb _ _ _
      | ((with_reducible refine KeepsR.modS_R _ fun _ => Still.moves ?_); exact ⟨rfl, rfl, rfl, rfl, rfl, rfl, rfl, rfl, fun _ => rfl⟩)
      | ((with_reducible refine moves_setB_R _ _ ?_); intro _; rfl)
      | ((with_reducible refine KeepsR.setR_R _ _ fun _ => Still.moves ?_); exact ⟨rfl, rfl, rfl, rfl, rfl, rfl, rfl, rfl, fun _ => rfl⟩)
      | with_reducible refine KeepsR.getS_bind_R fun _ => ?_
      | with_reducible refine KeepsR.bind_R Moves.pre_mv ?_ fun _ => ?_
      | ((try dsimp only); rw [ite_bind_jp])
      | with_reducible refine KeepsR.ite_R (fun _ => ?_) fun _ => ?_
      | dsimp only
      | split

theorem moves_sync_buffers_list (rb : Nat → K Unit) (hrb : ∀ b, KeepsR Moves (rb b))
    (fuel0 dev : Nat) (wait : Int) (nlist : BufList) (fuel : Nat) (loc : SyncLocals) :
    KeepsR Moves (sync_buffers_list rb fuel0 dev wait nlist fuel loc) := by
  induction fuel generalizing loc with
  | zero => exact KeepsR.khang_R
  | succ fuel ih =>
    unfold sync_buffers_list
    repeat' first
      | with_reducible exact KeepsR.pure_R Moves.pre_mv _
      | with_reducible exact KeepsR.kpanic_R _
      | with_reducible exact KeepsR.khang_R
      | with_reducible exact ih _
      | with_reducible exact moves_sync_buffers_scan rb hrb _ _ _ _ _ _ _
      | ((with_reducible refine KeepsR.modS_R _ fun _ => Still.moves ?_); exact ⟨rfl, rfl, rfl, rfl, rfl, rfl, rfl, rfl, fun _ => rfl⟩)
      | ((with_reducible refine moves_setB_R _ _ ?_); intro _; rfl)
      | ((with_reducible refine KeepsR.setR_R _ _ fun _ => Still.moves ?_); exact ⟨rfl, rfl, rfl, rfl, rfl, rfl, rfl, rfl, fun _ => rfl⟩)
      | with_reducible refine KeepsR.getS_bind_R fun _ => ?_
      | with_reducible refine KeepsR.bind_R Moves.pre_mv ?_ fun _ => ?_
      | ((try dsimp only); rw [ite_bind_jp])
      | with_reducible refine KeepsR.ite_R (fun _ => ?_) fun _ => ?_
      | dsimp only
      | split

theorem moves_sync_buffers_lists (rb : Nat → K Unit) (hrb : ∀ b, KeepsR Moves (rb b))
    (fuel dev : Nat) (wait : Int) (ls : List BufList) (loc : SyncLocals) :
    KeepsR Moves (sync_buffers_lists rb fuel dev wait ls loc) := by
  induction ls generalizing loc with
  | nil => exact KeepsR.pure_R Moves.pre_mv _
  | cons nlist rest ih =>
    unfold sync_buffers_lists
    repeat' first
      | with_reducible exact KeepsR.pure_R Moves.pre_mv _
      | with_reducible exact KeepsR.kpanic_R _
      | with_reducible exact KeepsR.khang_R
      | with_reducible exact ih _
      | with_reducible exact moves_sync_buffers_list rb hrb _ _ _ _ _ _
      | ((with_reducible refine KeepsR.modS_R _ fun _ => Still.moves ?_); exact ⟨rfl, rfl, rfl, rfl, rfl, rfl, rfl, rfl, fun _ => rfl⟩)
      | ((with_reducible refine moves_setB_R _ _ ?_); intro _; rfl)
      | ((with_reducible refine KeepsR.setR_R _ _ fun _ => Still.moves ?_); exact ⟨rfl, rfl, rfl, rfl, rfl, rfl, rfl, rfl, fun _ => rfl⟩)
      | with_reducible refine KeepsR.getS_bind_R fun _ => ?_
      | with_reducible refine KeepsR.bind_R Moves.pre_mv ?_ fun _ => ?_
      | ((try dsimp only); rw [ite_bind_jp])
      | with_reducible refine KeepsR.ite_R (fun _ => ?_) fun _ => ?_
      | dsimp only
      | split

theorem moves_sync_buffers_pass (rb : Nat → K Unit) (hrb : ∀ b, KeepsR Moves (rb b))
    (fuel0 dev : Nat) (wait : Int) (fuel : Nat) (loc : SyncLocals) :
    KeepsR Moves (sync_buffers_pass rb fuel0 dev wait fuel loc) := by
  induction fuel generalizing loc with
  | zero => exact KeepsR.khang_R
  | succ fuel ih =>
    unfold sync_buffers_pass
    repeat' first
      | with_reducible exact KeepsR.pure_R Moves.pre_mv _
      | with_reducible exact KeepsR.kpanic_R _
      | with_reducible exact KeepsR.khang_R
      | with_reducible exact ih _
      | with_reducible exact moves_sync_buffers_lists rb hrb _ _ _ _ _
      | with_reducible exact KeepsR.mono_R (still_printk _) fun _ _ => Still.moves
      | ((with_reducible refine KeepsR.modS_R _ fun _ => Still.moves ?_); exact ⟨rfl, rfl, rfl, rfl, rfl, rfl, rfl, rfl, fun _ => rfl⟩)
      | ((with_reducible refine moves_setB_R _ _ ?_); intro _; rfl)
      | ((with_reducible refine KeepsR.setR_R _ _ fun _ => Still.moves ?_); exact ⟨rfl, rfl, rfl, rfl, rfl, rfl, rfl, rfl, fun _ => rfl⟩)
      | with_reducible refine KeepsR.getS_bind_R fun _ => ?_
      | with_reducible refine KeepsR.bind_R Moves.pre_mv ?_ fun _ => ?_
      | ((try dsimp only); rw [ite_bind_jp])
      | with_reducible refine KeepsR.ite_R (fun _ => ?_) fun _ => ?_
      | dsimp only
      | split

theorem moves_sync_buffers (rb : Nat → K Unit) (hrb : ∀ b, KeepsR Moves (rb b))
    (fuel dev : Nat) (wait : Int) : KeepsR Moves (sync_buffers rb fuel dev wait) :=
  moves_sync_buffers_pass rb hrb _ _ _ _ _

theorem moves_wakeup_bdflush (rb : Nat → K Unit) (hrb : ∀ b, KeepsR Moves (rb b))
    (fuel : Nat) (wait : Int) : KeepsR Moves (wakeup_bdflush rb fuel wait) := by
  unfold wakeup_bdflush
  repeat' first
    | with_reducible exact KeepsR.pure_R Moves.pre_mv _
    | with_reducible exact KeepsR.kpanic_R _
    | with_reducible exact KeepsR.khang_R
    | with_reducible exact KeepsR.mono_R (still_printk _) fun _ _ => Still.moves
    | with_reducible exact moves_sync_buffers rb hrb _ _ _
    | ((with_reducible refine KeepsR.modS_R _ fun _ => Still.moves ?_); exact ⟨rfl, rfl, rfl, rfl, rfl, rfl, rfl, rfl, fun _ => rfl⟩)
    | ((with_reducible refine moves_setB_R _ _ ?_); intro _; rfl)
    | ((with_reducible refine KeepsR.setR_R _ _ fun _ => Still.moves ?_); exact ⟨rfl, rfl, rfl, rfl, rfl, rfl, rfl, rfl, fun _ => rfl⟩)
    | with_reducible refine KeepsR.getS_bind_R fun _ => ?_
    | with_reducible refine KeepsR.bind_R Moves.pre_mv ?_ fun _ => ?_
    | ((try dsimp only); rw [ite_bind_jp])
    | with_reducible refine KeepsR.ite_R (fun _ => ?_) fun _ => ?_
    | dsimp only
    | split

theorem moves_refile_buffer_body (rb : Nat → K Unit) (hrb : ∀ b, KeepsR Moves (rb b))
    (fuel buf : Nat) : KeepsR Moves (refile_buffer_body rb fuel buf) := by
  unfold refile_buffer_body
  repeat' first
    | with_reducible exact KeepsR.pure_R Moves.pre_mv _
    | with_reducible exact KeepsR.kpanic_R _
    | with_reducible exact KeepsR.khang_R
    | (rw [bind_assoc3 (remove_from_queues _) (setB _ _) (insert_into_queues _)])
    | ((with_reducible refine refile_link_moves _ _ ?_); intro _; rfl)
    | with_reducible exact moves_wakeup_bdflush rb hrb _ _
    | ((with_reducible refine KeepsR.modS_R _ fun _ => Still.moves ?_); exact ⟨rfl, rfl, rfl, rfl, rfl, rfl, rfl, rfl, fun _ => rfl⟩)
    | ((with_reducible refine moves_setB_R _ _ ?_); intro _; rfl)
    | ((with_reducible refine KeepsR.setR_R _ _ fun _ => Still.moves ?_); exact ⟨rfl, rfl, rfl, rfl, rfl, rfl, rfl, rfl, fun _ => rfl⟩)
    | with_reducible refine KeepsR.getS_bind_R fun _ => ?_
    | with_reducible refine KeepsR.bind_R Moves.pre_mv ?_ fun _ => ?_
    | ((try dsimp only); rw [ite_bind_jp])
    | with_reducible refine KeepsR.ite_R (fun _ => ?_) fun _ => ?_
    | dsimp only
    | split

theorem moves_refile_buffer : ∀ fuel buf, KeepsR Moves (refile_buffer fuel buf) := by
  intro fuel
  induction fuel with
  | zero => intro buf; exact KeepsR.khang_R
  | succ fuel ih => intro buf; exact moves_refile_buffer_body _ ih fuel buf

theorem moves_mark_buffer_dirty (fuel bh : Nat) (flag : Int) :
    KeepsR Moves (mark_buffer_dirty fuel bh flag) := by
  unfold mark_buffer_dirty
  repeat' first
    | with_reducible exact KeepsR.pure_R Moves.pre_mv _
    | with_reducible exact KeepsR.kpanic_R _
    | with_reducible exact KeepsR.khang_R
    | with_reducible exact KeepsR.mono_R (still_set_writetime _ _) fun _ _ => Still.moves
    | with_reducible exact moves_refile_buffer _ _
    | ((with_reducible refine KeepsR.modS_R _ fun _ => Still.moves ?_); exact ⟨rfl, rfl, rfl, rfl, rfl, rfl, rfl, rfl, fun _ => rfl⟩)
    | ((with_reducible refine moves_setB_R _ _ ?_); intro _; rfl)
    | ((with_reducible refine KeepsR.setR_R _ _ fun _ => Still.moves ?_); exact ⟨rfl, rfl, rfl, rfl, rfl, rfl, rfl, rfl, fun _ => rfl⟩)
    | with_reducible refine KeepsR.getS_bind_R fun _ => ?_
    | with_reducible refine KeepsR.bind_R Moves.pre_mv ?_ fun _ => ?_
    | ((try dsimp only); rw [ite_bind_jp])
    | with_reducible refine KeepsR.ite_R (fun _ => ?_) fun _ => ?_
    | dsimp only
    | split

theorem moves_brelse (fuel buf : Nat) : KeepsR Moves (brelse fuel buf) := by
  unfold brelse
  repeat' first
    | with_reducible exact KeepsR.pure_R Moves.pre_mv _
    | with_reducible exact KeepsR.kpanic_R _
    | with_reducible exact KeepsR.khang_R
    | with_reducible exact KeepsR.mono_R (still_wait_on_buffer _) fun _ _ => Still.moves
    | with_reducible exact KeepsR.mono_R (still_set_writetime _ _) fun _ _ => Still.moves
    | with_reducible exact moves_refile_buffer _ _
    | with_reducible exact KeepsR.mono_R (still_printk _) fun _ _ => Still.moves
    | ((with_reducible refine KeepsR.modS_R _ fun _ => Still.moves ?_); exact ⟨rfl, rfl, rfl, rfl, rfl, rfl, rfl, rfl, fun _ => rfl⟩)
    | ((with_reducible refine moves_setB_R _ _ ?_); intro _; rfl)
    | ((with_reducible refine KeepsR.setR_R _ _ fun _ => Still.moves ?_); exact ⟨rfl, rfl, rfl, rfl, rfl, rfl, rfl, rfl, fun _ => rfl⟩)
    | with_reducible refine KeepsR.getS_bind_R fun _ => ?_
    | with_reducible refine KeepsR.bind_R Moves.pre_mv ?_ fun _ => ?_
    | ((try dsimp only); rw [ite_bind_jp])
    | with_reducible refine KeepsR.ite_R (fun _ => ?_) fun _ => ?_
    | dsimp only
    | split

theorem moves_refill_scan (fuel size : Nat) (i : BufList) (n bh : Nat) :
    KeepsR Moves (refill_scan fuel size i n bh) := by
  induction n generalizing bh with
  | zero => exact KeepsR.pure_R Moves.pre_mv _
  | succ n ih =>
    unfold refill_scan
    repeat' first
      | with_reducible exact KeepsR.pure_R Moves.pre_mv _
      | with_reducible exact KeepsR.kpanic_R _
      | with_reducible exact KeepsR.khang_R
      | with_reducible exact ih _
      | with_reducible exact moves_refile_buffer _ _
      | ((with_reducible refine KeepsR.modS_R _ fun _ => Still.moves ?_); exact ⟨rfl, rfl, rfl, rfl, rfl, rfl, rfl, rfl, fun _ => rfl⟩)
      | ((with_reducible refine moves_setB_R _ _ ?_); intro _; rfl)
      | ((with_reducible refine KeepsR.setR_R _ _ fun _ => Still.moves ?_); exact ⟨rfl, rfl, rfl, rfl, rfl, rfl, rfl, rfl, fun _ => rfl⟩)
      | with_reducible refine KeepsR.getS_bind_R fun _ => ?_
      | with_reducible refine KeepsR.bind_R Moves.pre_mv ?_ fun _ => ?_
      | ((try dsimp only); rw [ite_bind_jp])
      | with_reducible refine KeepsR.ite_R (fun _ => ?_) fun _ => ?_
      | dsimp only
      | split

theorem moves_refill_candidate (fuel size : Nat) (i : BufList) (n bh : Nat)
    (loc : RefillLocals) : KeepsR Moves (refill_candidate fuel size i n bh loc) := by
  unfold refill_candidate
  repeat' first
    | with_reducible exact KeepsR.pure_R Moves.pre_mv _
    | with_reducible exact KeepsR.kpanic_R _
    | with_reducible exact KeepsR.khang_R
    | with_reducible exact moves_refill_scan _ _ _ _ _
    | ((with_reducible refine KeepsR.modS_R _ fun _ => Still.moves ?_); exact ⟨rfl, rfl, rfl, rfl, rfl, rfl, rfl, rfl, fun _ => rfl⟩)
    | ((with_reducible refine moves_setB_R _ _ ?_); intro _; rfl)
    | ((with_reducible refine KeepsR.setR_R _ _ fun _ => Still.moves ?_); exact ⟨rfl, rfl, rfl, rfl, rfl, rfl, rfl, rfl, fun _ => rfl⟩)
    | with_reducible refine KeepsR.getS_bind_R fun _ => ?_
    | with_reducible refine KeepsR.bind_R Moves.pre_mv ?_ fun _ => ?_
    | ((try dsimp only); rw [ite_bind_jp])
    | with_reducible refine KeepsR.ite_R (fun _ => ?_) fun _ => ?_
    | dsimp only
    | split

theorem moves_refill_init (fuel size : Nat) (ls : List BufList) (loc : RefillLocals) :
    KeepsR Moves (refill_init fuel size ls loc) := by
  induction ls generalizing loc with
  | nil => exact KeepsR.pure_R Moves.pre_mv _
  | cons i rest ih =>
    unfold refill_init
    repeat' first
      | with_reducible exact KeepsR.pure_R Moves.pre_mv _
      | with_reducible exact KeepsR.kpanic_R _
      | with_reducible exact KeepsR.khang_R
      | with_reducible exact ih _
      | with_reducible exact moves_refill_candidate _ _ _ _ _ _
      | ((with_reducible refine KeepsR.modS_R _ fun _ => Still.moves ?_); exact ⟨rfl, rfl, rfl, rfl, rfl, rfl, rfl, rfl, fun _ => rfl⟩)
      | ((with_reducible refine moves_setB_R _ _ ?_); intro _; rfl)
      | ((with_reducible refine KeepsR.setR_R _ _ fun _ => Still.moves ?_); exact ⟨rfl, rfl, rfl, rfl, rfl, rfl, rfl, rfl, fun _ => rfl⟩)
      | with_reducible refine KeepsR.getS_bind_R fun _ => ?_
      | with_reducible refine KeepsR.bind_R Moves.pre_mv ?_ fun _ => ?_
      | ((try dsimp only); rw [ite_bind_jp])
      | with_reducible refine KeepsR.ite_R (fun _ => ?_) fun _ => ?_
      | dsimp only
      | split

theorem moves_refill_reclaim (fuel0 size fuel : Nat) (loc : RefillLocals) :
    KeepsR Moves (refill_reclaim fuel0 size fuel loc) := by
  induction fuel generalizing loc with
  | zero => exact KeepsR.khang_R
  | succ fuel ih =>
    unfold refill_reclaim
    repeat' first
      | with_reducible exact KeepsR.pure_R Moves.pre_mv _
      | with_reducible exact KeepsR.kpanic_R _
      | with_reducible exact KeepsR.khang_R
      | (rw [bind_assoc3 (remove_from_queues _) (setB _ _) (put_last_free _)])
      | ((with_reducible refine reclaim_link_moves _ _ ?_); intro _; rfl)
      | with_reducible exact ih _
      | with_reducible exact moves_refill_candidate _ _ _ _ _ _
      | ((with_reducible refine KeepsR.modS_R _ fun _ => Still.moves ?_); exact ⟨rfl, rfl, rfl, rfl, rfl, rfl, rfl, rfl, fun _ => rfl⟩)
      | ((with_reducible refine moves_setB_R _ _ ?_); intro _; rfl)
      | ((with_reducible refine KeepsR.setR_R _ _ fun _ => Still.moves ?_); exact ⟨rfl, rfl, rfl, rfl, rfl, rfl, rfl, rfl, fun _ => rfl⟩)
      | with_reducible refine KeepsR.getS_bind_R fun _ => ?_
      | with_reducible refine KeepsR.bind_R Moves.pre_mv ?_ fun _ => ?_
      | ((try dsimp only); rw [ite_bind_jp])
      | with_reducible refine KeepsR.ite_R (fun _ => ?_) fun _ => ?_
      | dsimp only
      | split

theorem moves_ll_rw_block_refile (f fuel : Nat) (rw : Rw) (bhs : List Nat) :
    KeepsR Moves (ll_rw_block (refile_buffer f) fuel rw bhs) :=
  moves_ll_rw_block _ (moves_refile_buffer f) fuel rw bhs

theorem moves_wakeup_bdflush_refile (f fuel : Nat) (wait : Int) :
    KeepsR Moves (wakeup_bdflush (refile_buffer f) fuel wait) :=
  moves_wakeup_bdflush _ (moves_refile_buffer f) fuel wait

theorem tallies_shrink_free_scan (isize : Int) (fuel : Nat) (first : Bool) (bh : Nat) :
    KeepsR Tallies (shrink_free_scan isize fuel first bh) := by
  induction fuel generalizing first bh with
  | zero => exact KeepsR.khang_R
  | succ fuel ih =>
    unfold shrink_free_scan
    repeat' first
      | with_reducible exact KeepsR.pure_R Tallies.pre_ta _
      | with_reducible exact KeepsR.kpanic_R _
      | with_reducible exact KeepsR.khang_R
      | with_reducible exact ih _ _
      | with_reducible exact tallies_try_to_free _ _
      | ((with_reducible refine KeepsR.modS_R _ fun _ => Still.tallies ?_); exact ⟨rfl, rfl, rfl, rfl, rfl, rfl, rfl, rfl, fun _ => rfl⟩)
      | ((with_reducible refine tallies_setB_R _ _ ?_); intro _; rfl)
      | ((with_reducible refine KeepsR.setR_R _ _ fun _ => Still.tallies ?_); exact ⟨rfl, rfl, rfl, rfl, rfl, rfl, rfl, rfl, fun _ => rfl⟩)
      | with_reducible refine KeepsR.getS_bind_R fun _ => ?_
      | with_reducible refine KeepsR.bind_R Tallies.pre_ta ?_ fun _ => ?_
      | ((try dsimp only); rw [ite_bind_jp])
      | with_reducible refine KeepsR.ite_R (fun _ => ?_) fun _ => ?_
      | dsimp only
      | split

theorem tallies_shrink_free_lists (fuel : Nat) (isize1 : Int) (ls : List Int) :
    KeepsR Tallies (shrink_free_lists fuel isize1 ls) := by
  induction ls with
  | nil => exact KeepsR.pure_R Tallies.pre_ta _
  | cons isize rest ih =>
    unfold shrink_free_lists
    repeat' first
      | with_reducible exact KeepsR.pure_R Tallies.pre_ta _
      | with_reducible exact KeepsR.kpanic_R _
      | with_reducible exact KeepsR.khang_R
      | with_reducible exact ih
      | with_reducible exact tallies_shrink_free_scan _ _ _ _
      | ((with_reducible refine KeepsR.modS_R _ fun _ => Still.tallies ?_); exact ⟨rfl, rfl, rfl, rfl, rfl, rfl, rfl, rfl, fun _ => rfl⟩)
      | ((with_reducible refine tallies_setB_R _ _ ?_); intro _; rfl)
      | ((with_reducible refine KeepsR.setR_R _ _ fun _ => Still.tallies ?_); exact ⟨rfl, rfl, rfl, rfl, rfl, rfl, rfl, rfl, fun _ => rfl⟩)
      | with_reducible refine KeepsR.getS_bind_R fun _ => ?_
      | with_reducible refine KeepsR.bind_R Tallies.pre_ta ?_ fun _ => ?_
      | ((try dsimp only); rw [ite_bind_jp])
      | with_reducible refine KeepsR.ite_R (fun _ => ?_) fun _ => ?_
      | dsimp only
      | split

theorem tallies_shrink_lru_scan (fuel priority size : Nat) (nlist : BufList) (i bh : Nat) :
    KeepsR Tallies (shrink_lru_scan fuel priority size nlist i bh) := by
  induction i generalizing bh with
  | zero => exact KeepsR.pure_R Tallies.pre_ta _
  | succ i ih =>
    unfold shrink_lru_scan
    repeat' first
      | with_reducible exact KeepsR.pure_R Tallies.pre_ta _
      | with_reducible exact KeepsR.kpanic_R _
      | with_reducible exact KeepsR.khang_R
      | with_reducible exact ih _
      | with_reducible exact tallies_try_to_free _ _
      | with_reducible exact KeepsR.mono_R (still_wait_on_buffer _) fun _ _ => Still.tallies
      | with_reducible exact KeepsR.mono_R (moves_ll_rw_block_refile _ _ _ _) fun _ _ => Moves.tallies_mv
      | ((with_reducible refine KeepsR.modS_R _ fun _ => Still.tallies ?_); exact ⟨rfl, rfl, rfl, rfl, rfl, rfl, rfl, rfl, fun _ => rfl⟩)
      | ((with_reducible refine tallies_setB_R _ _ ?_); intro _; rfl)
      | ((with_reducible refine KeepsR.setR_R _ _ fun _ => Still.tallies ?_); exact ⟨rfl, rfl, rfl, rfl, rfl, rfl, rfl, rfl, fun _ => rfl⟩)
      | with_reducible refine KeepsR.getS_bind_R fun _ => ?_
      | with_reducible refine KeepsR.bind_R Tallies.pre_ta ?_ fun _ => ?_
      | ((try dsimp only); rw [ite_bind_jp])
      | with_reducible refine KeepsR.ite_R (fun _ => ?_) fun _ => ?_
      | dsimp only
      | split

theorem tallies_shrink_lru_list (fuel0 priority size : Nat) (nlist : BufList) (fuel : Nat) :
    KeepsR Tallies (shrink_lru_list fuel0 priority size nlist fuel) := by
  induction fuel with
  | zero => exact KeepsR.khang_R
  | succ fuel ih =>
    unfold shrink_lru_list
    repeat' first
      | with_reducible exact KeepsR.pure_R Tallies.pre_ta _
      | with_reducible exact KeepsR.kpanic_R _
      | with_reducible exact KeepsR.khang_R
      | with_reducible exact ih
      | with_reducible exact tallies_shrink_lru_scan _ _ _ _ _ _
      | ((with_reducible refine KeepsR.modS_R _ fun _ => Still.tallies ?_); exact ⟨rfl, rfl, rfl, rfl, rfl, rfl, rfl, rfl, fun _ => rfl⟩)
      | ((with_reducible refine tallies_setB_R _ _ ?_); intro _; rfl)
      | ((with_reducible refine KeepsR.setR_R _ _ fun _ => Still.tallies ?_); exact ⟨rfl, rfl, rfl, rfl, rfl, rfl, rfl, rfl, fun _ => rfl⟩)
      | with_reducible refine KeepsR.getS_bind_R fun _ => ?_
      | with_reducible refine KeepsR.bind_R Tallies.pre_ta ?_ fun _ => ?_
      | ((try dsimp only); rw [ite_bind_jp])
      | with_reducible refine KeepsR.ite_R (fun _ => ?_) fun _ => ?_
      | dsimp only
      | split

theorem tallies_shrink_lru_lists (fuel priority size : Nat) (ls : List BufList) :
    KeepsR Tallies (shrink_lru_lists fuel priority size ls) := by
  induction ls with
  | nil => exact KeepsR.pure_R Tallies.pre_ta _
  | cons nlist rest ih =>
    unfold shrink_lru_lists
    repeat' first
      | with_reducible exact KeepsR.pure_R Tallies.pre_ta _
      | with_reducible exact KeepsR.kpanic_R _
      | with_reducible exact KeepsR.khang_R
      | with_reducible exact ih
      | with_reducible exact tallies_shrink_lru_list _ _ _ _ _
      | ((with_reducible refine KeepsR.modS_R _ fun _ => Still.tallies ?_); exact ⟨rfl, rfl, rfl, rfl, rfl, rfl, rfl, rfl, fun _ => rfl⟩)
      | ((with_reducible refine tallies_setB_R _ _ ?_); intro _; rfl)
      | ((with_reducible refine KeepsR.setR_R _ _ fun _ => Still.tallies ?_); exact ⟨rfl, rfl, rfl, rfl, rfl, rfl, rfl, rfl, fun _ => rfl⟩)
      | with_reducible refine KeepsR.getS_bind_R fun _ => ?_
      | with_reducible refine KeepsR.bind_R Tallies.pre_ta ?_ fun _ => ?_
      | ((try dsimp only); rw [ite_bind_jp])
      | with_reducible refine KeepsR.ite_R (fun _ => ?_) fun _ => ?_
      | dsimp only
      | split

theorem tallies_shrink_specific_buffers (fuel priority size : Nat) :
    KeepsR Tallies (shrink_specific_buffers fuel priority size) := by
  unfold shrink_specific_buffers
  repeat' first
    | with_reducible exact KeepsR.pure_R Tallies.pre_ta _
    | with_reducible exact KeepsR.kpanic_R _
    | with_reducible exact KeepsR.khang_R
    | with_reducible exact tallies_shrink_free_lists _ _ _
    | with_reducible exact tallies_shrink_lru_lists _ _ _ _
    | ((with_reducible refine KeepsR.modS_R _ fun _ => Still.tallies ?_); exact ⟨rfl, rfl, rfl, rfl, rfl, rfl, rfl, rfl, fun _ => rfl⟩)
    | ((with_reducible refine tallies_setB_R _ _ ?_); intro _; rfl)
    | ((with_reducible refine KeepsR.setR_R _ _ fun _ => Still.tallies ?_); exact ⟨rfl, rfl, rfl, rfl, rfl, rfl, rfl, rfl, fun _ => rfl⟩)
    | with_reducible refine KeepsR.getS_bind_R fun _ => ?_
    | with_reducible refine KeepsR.bind_R Tallies.pre_ta ?_ fun _ => ?_
    | ((try dsimp only); rw [ite_bind_jp])
    | with_reducible refine KeepsR.ite_R (fun _ => ?_) fun _ => ?_
    | dsimp only
    | split

theorem tallies_maybe_shrink_lav_loop (fuel : Nat) (isize total_lav total_n_buffers : Int)
    (ls : List Int) :
    KeepsR Tallies (maybe_shrink_lav_loop fuel isize total_lav total_n_buffers ls) := by
  induction ls with
  | nil => exact KeepsR.pure_R Tallies.pre_ta _
  | cons nlist rest ih =>
    unfold maybe_shrink_lav_loop
    repeat' first
      | with_reducible exact KeepsR.pure_R Tallies.pre_ta _
      | with_reducible exact KeepsR.kpanic_R _
      | with_reducible exact KeepsR.khang_R
      | with_reducible exact ih
      | with_reducible exact tallies_shrink_specific_buffers _ _ _
      | ((with_reducible refine KeepsR.modS_R _ fun _ => Still.tallies ?_); exact ⟨rfl, rfl, rfl, rfl, rfl, rfl, rfl, rfl, fun _ => rfl⟩)
      | ((with_reducible refine tallies_setB_R _ _ ?_); intro _; rfl)
      | ((with_reducible refine KeepsR.setR_R _ _ fun _ => Still.tallies ?_); exact ⟨rfl, rfl, rfl, rfl, rfl, rfl, rfl, rfl, fun _ => rfl⟩)
      | with_reducible refine KeepsR.getS_bind_R fun _ => ?_
      | with_reducible refine KeepsR.bind_R Tallies.pre_ta ?_ fun _ => ?_
      | ((try dsimp only); rw [ite_bind_jp])
      | with_reducible refine KeepsR.ite_R (fun _ => ?_) fun _ => ?_
      | dsimp only
      | split

theorem tallies_maybe_shrink_lav_buffers (fuel size : Nat) :
    KeepsR Tallies (maybe_shrink_lav_buffers fuel size) := by
  unfold maybe_shrink_lav_buffers
  repeat' first
    | with_reducible exact KeepsR.pure_R Tallies.pre_ta _
    | with_reducible exact KeepsR.kpanic_R _
    | with_reducible exact KeepsR.khang_R
    | with_reducible exact tallies_maybe_shrink_lav_loop _ _ _ _ _
    | ((with_reducible refine KeepsR.modS_R _ fun _ => Still.tallies ?_); exact ⟨rfl, rfl, rfl, rfl, rfl, rfl, rfl, rfl, fun _ => rfl⟩)
    | ((with_reducible refine tallies_setB_R _ _ ?_); intro _; rfl)
    | ((with_reducible refine KeepsR.setR_R _ _ fun _ => Still.tallies ?_); exact ⟨rfl, rfl, rfl, rfl, rfl, rfl, rfl, rfl, fun _ => rfl⟩)
    | with_reducible refine KeepsR.getS_bind_R fun _ => ?_
    | with_reducible refine KeepsR.bind_R Tallies.pre_ta ?_ fun _ => ?_
    | ((try dsimp only); rw [ite_bind_jp])
    | with_reducible refine KeepsR.ite_R (fun _ => ?_) fun _ => ?_
    | dsimp only
    | split

theorem tallies_refill_repeat0 (fuel0 size fuel : Nat) (needed : Int) :
    KeepsR Tallies (refill_repeat0 fuel0 size fuel needed) := by
  induction fuel generalizing needed with
  | zero => exact KeepsR.khang_R
  | succ fuel ih =>
    unfold refill_repeat0
    repeat' first
      | with_reducible exact KeepsR.pure_R Tallies.pre_ta _
      | with_reducible exact KeepsR.kpanic_R _
      | with_reducible exact KeepsR.khang_R
      | with_reducible exact ih _
      | with_reducible exact KeepsR.mono_R (moves_refill_init _ _ _ _) fun _ _ => Moves.tallies_mv
      | with_reducible exact KeepsR.mono_R (moves_refill_reclaim _ _ _ _) fun _ _ => Moves.tallies_mv
      | with_reducible exact tallies_grow_buffers _ _ _
      | with_reducible exact KeepsR.mono_R (moves_wakeup_bdflush_refile _ _ _) fun _ _ => Moves.tallies_mv
      | ((with_reducible refine KeepsR.modS_R _ fun _ => Still.tallies ?_); exact ⟨rfl, rfl, rfl, rfl, rfl, rfl, rfl, rfl, fun _ => rfl⟩)
      | ((with_reducible refine tallies_setB_R _ _ ?_); intro _; rfl)
      | ((with_reducible refine KeepsR.setR_R _ _ fun _ => Still.tallies ?_); exact ⟨rfl, rfl, rfl, rfl, rfl, rfl, rfl, rfl, fun _ => rfl⟩)
      | with_reducible refine KeepsR.getS_bind_R fun _ => ?_
      | with_reducible refine KeepsR.bind_R Tallies.pre_ta ?_ fun _ => ?_
      | ((try dsimp only); rw [ite_bind_jp])
      | with_reducible refine KeepsR.ite_R (fun _ => ?_) fun _ => ?_
      | dsimp only
      | split

theorem tallies_refill_grow (fuel0 size fuel : Nat) (needed : Int) :
    KeepsR Tallies (refill_grow fuel0 size fuel needed) := by
  induction fuel generalizing needed with
  | zero => exact KeepsR.khang_R
  | succ fuel ih =>
    unfold refill_grow
    repeat' first
      | with_reducible exact KeepsR.pure_R Tallies.pre_ta _
      | with_reducible exact KeepsR.kpanic_R _
      | with_reducible exact KeepsR.khang_R
      | with_reducible exact ih _
      | with_reducible exact tallies_grow_buffers _ _ _
      | ((with_reducible refine KeepsR.modS_R _ fun _ => Still.tallies ?_); exact ⟨rfl, rfl, rfl, rfl, rfl, rfl, rfl, rfl, fun _ => rfl⟩)
      | ((with_reducible refine tallies_setB_R _ _ ?_); intro _; rfl)
      | ((with_reducible refine KeepsR.setR_R _ _ fun _ => Still.tallies ?_); exact ⟨rfl, rfl, rfl, rfl, rfl, rfl, rfl, rfl, fun _ => rfl⟩)
      | with_reducible refine KeepsR.getS_bind_R fun _ => ?_
      | with_reducible refine KeepsR.bind_R Tallies.pre_ta ?_ fun _ => ?_
      | ((try dsimp only); rw [ite_bind_jp])
      | with_reducible refine KeepsR.ite_R (fun _ => ?_) fun _ => ?_
      | dsimp only
      | split

theorem tallies_refill_lav (fuel0 size fuel : Nat) (needed : Int) :
    KeepsR Tallies (refill_lav fuel0 size fuel needed) := by
  induction fuel generalizing needed with
  | zero => exact KeepsR.khang_R
  | succ fuel ih =>
    unfold refill_lav
    repeat' first
      | with_reducible exact KeepsR.pure_R Tallies.pre_ta _
      | with_reducible exact KeepsR.kpanic_R _
      | with_reducible exact KeepsR.khang_R
      | with_reducible exact ih _
      | with_reducible exact tallies_grow_buffers _ _ _
      | with_reducible exact tallies_maybe_shrink_lav_buffers _ _
      | ((with_reducible refine KeepsR.modS_R _ fun _ => Still.tallies ?_); exact ⟨rfl, rfl, rfl, rfl, rfl, rfl, rfl, rfl, fun _ => rfl⟩)
      | ((with_reducible refine tallies_setB_R _ _ ?_); intro _; rfl)
      | ((with_reducible refine KeepsR.setR_R _ _ fun _ => Still.tallies ?_); exact ⟨rfl, rfl, rfl, rfl, rfl, rfl, rfl, rfl, fun _ => rfl⟩)
      | with_reducible refine KeepsR.getS_bind_R fun _ => ?_
      | with_reducible refine KeepsR.bind_R Tallies.pre_ta ?_ fun _ => ?_
      | ((try dsimp only); rw [ite_bind_jp])
      | with_reducible refine KeepsR.ite_R (fun _ => ?_) fun _ => ?_
      | dsimp only
      | split

theorem tallies_refill_freelist (fuel size : Nat) : KeepsR Tallies (refill_freelist fuel size) := by
  unfold refill_freelist
  repeat' first
    | with_reducible exact KeepsR.pure_R Tallies.pre_ta _
    | with_reducible exact KeepsR.kpanic_R _
    | with_reducible exact KeepsR.khang_R
    | with_reducible exact tallies_refill_grow _ _ _ _
    | with_reducible exact tallies_refill_lav _ _ _ _
    | with_reducible exact tallies_refill_repeat0 _ _ _ _
    | ((with_reducible refine KeepsR.modS_R _ fun _ => Still.tallies ?_); exact ⟨rfl, rfl, rfl, rfl, rfl, rfl, rfl, rfl, fun _ => rfl⟩)
    | ((with_reducible refine tallies_setB_R _ _ ?_); intro _; rfl)
    | ((with_reducible refine KeepsR.setR_R _ _ fun _ => Still.tallies ?_); exact ⟨rfl, rfl, rfl, rfl, rfl, rfl, rfl, rfl, fun _ => rfl⟩)
    | with_reducible refine KeepsR.getS_bind_R fun _ => ?_
    | with_reducible refine KeepsR.bind_R Tallies.pre_ta ?_ fun _ => ?_
    | ((try dsimp only); rw [ite_bind_jp])
    | with_reducible refine KeepsR.ite_R (fun _ => ?_) fun _ => ?_
    | dsimp only
    | split

theorem tallies_getblk_refill (fuel0 size fuel : Nat) :
    KeepsR Tallies (getblk_refill fuel0 size fuel) := by
  induction fuel with
  | zero => exact KeepsR.khang_R
  | succ fuel ih =>
    unfold getblk_refill
    repeat' first
      | with_reducible exact KeepsR.pure_R Tallies.pre_ta _
      | with_reducible exact KeepsR.kpanic_R _
      | with_reducible exact KeepsR.khang_R
      | with_reducible exact ih
      | with_reducible exact tallies_refill_freelist _ _
      | ((with_reducible refine KeepsR.modS_R _ fun _ => Still.tallies ?_); exact ⟨rfl, rfl, rfl, rfl, rfl, rfl, rfl, rfl, fun _ => rfl⟩)
      | ((with_reducible refine tallies_setB_R _ _ ?_); intro _; rfl)
      | ((with_reducible refine KeepsR.setR_R _ _ fun _ => Still.tallies ?_); exact ⟨rfl, rfl, rfl, rfl, rfl, rfl, rfl, rfl, fun _ => rfl⟩)
      | with_reducible refine KeepsR.getS_bind_R fun _ => ?_
      | with_reducible refine KeepsR.bind_R Tallies.pre_ta ?_ fun _ => ?_
      | ((try dsimp only); rw [ite_bind_jp])
      | with_reducible refine KeepsR.ite_R (fun _ => ?_) fun _ => ?_
      | dsimp only
      | split

theorem tallies_getblk_repeat (fuel0 dev block size fuel : Nat) :
    KeepsR Tallies (getblk_repeat fuel0 dev block size fuel) := by
  induction fuel with
  | zero => exact KeepsR.khang_R
  | succ fuel ih =>
    unfold getblk_repeat
    repeat' first
      | with_reducible exact KeepsR.pure_R Tallies.pre_ta _
      | with_reducible exact KeepsR.kpanic_R _
      | with_reducible exact KeepsR.khang_R
      | (rw [bind_assoc3 (remove_from_free_list _) (setB _ _) (insert_into_queues _)])
      | ((with_reducible refine KeepsR.mono_R (getblk_link_moves _ _ ?_) fun _ _ => Moves.tallies_mv); intro _; rfl)
      | with_reducible exact ih
      | with_reducible exact KeepsR.mono_R (still_get_hash_table _ _ _ _) fun _ _ => Still.tallies
      | with_reducible exact KeepsR.mono_R (moves_put_last_lru _) fun _ _ => Moves.tallies_mv
      | with_reducible exact tallies_getblk_refill _ _ _
      | with_reducible exact KeepsR.mono_R (still_find_buffer _ _ _) fun _ _ => Still.tallies
      | ((with_reducible refine KeepsR.modS_R _ fun _ => Still.tallies ?_); exact ⟨rfl, rfl, rfl, rfl, rfl, rfl, rfl, rfl, fun _ => rfl⟩)
      | ((with_reducible refine tallies_setB_R _ _ ?_); intro _; rfl)
      | ((with_reducible refine KeepsR.setR_R _ _ fun _ => Still.tallies ?_); exact ⟨rfl, rfl, rfl, rfl, rfl, rfl, rfl, rfl, fun _ => rfl⟩)
      | with_reducible refine KeepsR.getS_bind_R fun _ => ?_
      | with_reducible refine KeepsR.bind_R Tallies.pre_ta ?_ fun _ => ?_
      | ((try dsimp only); rw [ite_bind_jp])
      | with_reducible refine KeepsR.ite_R (fun _ => ?_) fun _ => ?_
      | dsimp only
      | split

theorem tallies_getblk (fuel dev block size : Nat) :
    KeepsR Tallies (getblk fuel dev block size) := by
  unfold getblk
  repeat' first
    | with_reducible exact KeepsR.pure_R Tallies.pre_ta _
    | with_reducible exact KeepsR.kpanic_R _
    | with_reducible exact KeepsR.khang_R
    | with_reducible exact tallies_getblk_repeat _ _ _ _ _
    | ((with_reducible refine KeepsR.modS_R _ fun _ => Still.tallies ?_); exact ⟨rfl, rfl, rfl, rfl, rfl, rfl, rfl, rfl, fun _ => rfl⟩)
    | ((with_reducible refine tallies_setB_R _ _ ?_); intro _; rfl)
    | ((with_reducible refine KeepsR.setR_R _ _ fun _ => Still.tallies ?_); exact ⟨rfl, rfl, rfl, rfl, rfl, rfl, rfl, rfl, fun _ => rfl⟩)
    | with_reducible refine KeepsR.getS_bind_R fun _ => ?_
    | with_reducible refine KeepsR.bind_R Tallies.pre_ta ?_ fun _ => ?_
    | ((try dsimp only); rw [ite_bind_jp])
    | with_reducible refine KeepsR.ite_R (fun _ => ?_) fun _ => ?_
    | dsimp only
    | split

theorem tallies_bread (fuel dev block size : Nat) :
    KeepsR Tallies (bread fuel dev block size) := by
  unfold bread
  repeat' first
    | with_reducible exact KeepsR.pure_R Tallies.pre_ta _
    | with_reducible exact KeepsR.kpanic_R _
    | with_reducible exact KeepsR.khang_R
    | with_reducible exact tallies_getblk _ _ _ _
    | with_reducible exact KeepsR.mono_R (still_printk _) fun _ _ => Still.tallies
    | with_reducible exact KeepsR.mono_R (moves_ll_rw_block_refile _ _ _ _) fun _ _ => Moves.tallies_mv
    | with_reducible exact KeepsR.mono_R (still_wait_on_buffer _) fun _ _ => Still.tallies
    | with_reducible exact KeepsR.mono_R (moves_brelse _ _) fun _ _ => Moves.tallies_mv
    | ((with_reducible refine KeepsR.modS_R _ fun _ => Still.tallies ?_); exact ⟨rfl, rfl, rfl, rfl, rfl, rfl, rfl, rfl, fun _ => rfl⟩)
    | ((with_reducible refine tallies_setB_R _ _ ?_); intro _; rfl)
    | ((with_reducible refine KeepsR.setR_R _ _ fun _ => Still.tallies ?_); exact ⟨rfl, rfl, rfl, rfl, rfl, rfl, rfl, rfl, fun _ => rfl⟩)
    | with_reducible refine KeepsR.getS_bind_R fun _ => ?_
    | with_reducible refine KeepsR.bind_R Tallies.pre_ta ?_ fun _ => ?_
    | ((try dsimp only); rw [ite_bind_jp])
    | with_reducible refine KeepsR.ite_R (fun _ => ?_) fun _ => ?_
    | dsimp only
    | split

theorem moves_try_to_reassign_loop (dev bh fuel tmp block : Nat) :
    KeepsR Moves (try_to_reassign_loop dev bh fuel tmp block) := by
  induction fuel generalizing tmp block with
  | zero => exact KeepsR.khang_R
  | succ fuel ih =>
    unfold try_to_reassign_loop
    repeat' first
      | with_reducible exact KeepsR.pure_R Moves.pre_mv _
      | with_reducible exact KeepsR.kpanic_R _
      | with_reducible exact KeepsR.khang_R
      | (rw [bind_assoc3 (remove_from_queues _) (setB _ _) (insert_into_queues _)])
      | ((with_reducible refine refile_link_moves _ _ ?_); intro _; rfl)
      | with_reducible exact ih _ _
      | ((with_reducible refine KeepsR.modS_R _ fun _ => Still.moves ?_); exact ⟨rfl, rfl, rfl, rfl, rfl, rfl, rfl, rfl, fun _ => rfl⟩)
      | ((with_reducible refine moves_setB_R _ _ ?_); intro _; rfl)
      | ((with_reducible refine KeepsR.setR_R _ _ fun _ => Still.moves ?_); exact ⟨rfl, rfl, rfl, rfl, rfl, rfl, rfl, rfl, fun _ => rfl⟩)
      | with_reducible refine KeepsR.getS_bind_R fun _ => ?_
      | with_reducible refine KeepsR.bind_R Moves.pre_mv ?_ fun _ => ?_
      | ((try dsimp only); rw [ite_bind_jp])
      | with_reducible refine KeepsR.ite_R (fun _ => ?_) fun _ => ?_
      | dsimp only
      | split

theorem moves_try_to_reassign (fuel bh dev block : Nat) :
    KeepsR Moves (try_to_reassign fuel bh dev block) := by
  unfold try_to_reassign
  repeat' first
    | with_reducible exact KeepsR.pure_R Moves.pre_mv _
    | with_reducible exact KeepsR.kpanic_R _
    | with_reducible exact KeepsR.khang_R
    | with_reducible exact moves_try_to_reassign_loop _ _ _ _ _
    | ((with_reducible refine KeepsR.modS_R _ fun _ => Still.moves ?_); exact ⟨rfl, rfl, rfl, rfl, rfl, rfl, rfl, rfl, fun _ => rfl⟩)
    | ((with_reducible refine moves_setB_R _ _ ?_); intro _; rfl)
    | ((with_reducible refine KeepsR.setR_R _ _ fun _ => Still.moves ?_); exact ⟨rfl, rfl, rfl, rfl, rfl, rfl, rfl, rfl, fun _ => rfl⟩)
    | with_reducible refine KeepsR.getS_bind_R fun _ => ?_
    | with_reducible refine KeepsR.bind_R Moves.pre_mv ?_ fun _ => ?_
    | ((try dsimp only); rw [ite_bind_jp])
    | with_reducible refine KeepsR.ite_R (fun _ => ?_) fun _ => ?_
    | dsimp only
    | split

theorem moves_sync_old_buffers_scan (fuel : Nat) (nlist : BufList) (i bh : Nat)
    (loc : OldLocals) : KeepsR Moves (sync_old_buffers_scan fuel nlist i bh loc) := by
  induction i generalizing bh loc with
  | zero => exact KeepsR.pure_R Moves.pre_mv _
  | succ i ih =>
    unfold sync_old_buffers_scan
    repeat' first
      | with_reducible exact KeepsR.pure_R Moves.pre_mv _
      | with_reducible exact KeepsR.kpanic_R _
      | with_reducible exact KeepsR.khang_R
      | with_reducible exact ih _ _
      | with_reducible exact KeepsR.mono_R (still_printk _) fun _ _ => Still.moves
      | with_reducible exact moves_refile_buffer _ _
      | with_reducible exact moves_ll_rw_block_refile _ _ _ _
      | ((with_reducible refine KeepsR.modS_R _ fun _ => Still.moves ?_); exact ⟨rfl, rfl, rfl, rfl, rfl, rfl, rfl, rfl, fun _ => rfl⟩)
      | ((with_reducible refine moves_setB_R _ _ ?_); intro _; rfl)
      | ((with_reducible refine KeepsR.setR_R _ _ fun _ => Still.moves ?_); exact ⟨rfl, rfl, rfl, rfl, rfl, rfl, rfl, rfl, fun _ => rfl⟩)
      | with_reducible refine KeepsR.getS_bind_R fun _ => ?_
      | with_reducible refine KeepsR.bind_R Moves.pre_mv ?_ fun _ => ?_
      | ((try dsimp only); rw [ite_bind_jp])
      | with_reducible refine KeepsR.ite_R (fun _ => ?_) fun _ => ?_
      | dsimp only
      | split

theorem moves_sync_old_buffers_list (fuel0 : Nat) (nlist : BufList) (fuel : Nat)
    (loc : OldLocals) : KeepsR Moves (sync_old_buffers_list fuel0 nlist fuel loc) := by
  induction fuel generalizing loc with
  | zero => exact KeepsR.khang_R
  | succ fuel ih =>
    unfold sync_old_buffers_list
    repeat' first
      | with_reducible exact KeepsR.pure_R Moves.pre_mv _
      | with_reducible exact KeepsR.kpanic_R _
      | with_reducible exact KeepsR.khang_R
      | with_reducible exact ih _
      | with_reducible exact moves_sync_old_buffers_scan _ _ _ _ _
      | ((with_reducible refine KeepsR.modS_R _ fun _ => Still.moves ?_); exact ⟨rfl, rfl, rfl, rfl, rfl, rfl, rfl, rfl, fun _ => rfl⟩)
      | ((with_reducible refine moves_setB_R _ _ ?_); intro _; rfl)
      | ((with_reducible refine KeepsR.setR_R _ _ fun _ => Still.moves ?_); exact ⟨rfl, rfl, rfl, rfl, rfl, rfl, rfl, rfl, fun _ => rfl⟩)
      | with_reducible refine KeepsR.getS_bind_R fun _ => ?_
      | with_reducible refine KeepsR.bind_R Moves.pre_mv ?_ fun _ => ?_
      | ((try dsimp only); rw [ite_bind_jp])
      | with_reducible refine KeepsR.ite_R (fun _ => ?_) fun _ => ?_
      | dsimp only
      | split

theorem moves_sync_old_buffers (fuel : Nat) : KeepsR Moves (sync_old_buffers fuel) := by
  unfold sync_old_buffers
  repeat' first
    | with_reducible exact KeepsR.pure_R Moves.pre_mv _
    | with_reducible exact KeepsR.kpanic_R _
    | with_reducible exact KeepsR.khang_R
    | with_reducible exact moves_sync_old_buffers_list _ _ _ _
    | ((with_reducible refine KeepsR.modS_R _ fun _ => Still.moves ?_); exact ⟨rfl, rfl, rfl, rfl, rfl, rfl, rfl, rfl, fun _ => rfl⟩)
    | ((with_reducible refine moves_setB_R _ _ ?_); intro _; rfl)
    | ((with_reducible refine KeepsR.setR_R _ _ fun _ => Still.moves ?_); exact ⟨rfl, rfl, rfl, rfl, rfl, rfl, rfl, rfl, fun _ => rfl⟩)
    | with_reducible refine KeepsR.getS_bind_R fun _ => ?_
    | with_reducible refine KeepsR.bind_R Moves.pre_mv ?_ fun _ => ?_
    | ((try dsimp only); rw [ite_bind_jp])
    | with_reducible refine KeepsR.ite_R (fun _ => ?_) fun _ => ?_
    | dsimp only
    | split

theorem moves_bdflush_scan (fuel : Nat) (nlist : BufList) (i bh : Nat) (ndirty : Int) :
    KeepsR Moves (bdflush_scan fuel nlist i bh ndirty) := by
  induction i generalizing bh ndirty with
  | zero => exact KeepsR.pure_R Moves.pre_mv _
  | succ i ih =>
    unfold bdflush_scan
    repeat' first
      | with_reducible exact KeepsR.pure_R Moves.pre_mv _
      | with_reducible exact KeepsR.kpanic_R _
      | with_reducible exact KeepsR.khang_R
      | with_reducible exact ih _ _
      | with_reducible exact KeepsR.mono_R (still_printk _) fun _ _ => Still.moves
      | with_reducible exact moves_refile_buffer _ _
      | with_reducible exact moves_ll_rw_block_refile _ _ _ _
      | ((with_reducible refine KeepsR.modS_R _ fun _ => Still.moves ?_); exact ⟨rfl, rfl, rfl, rfl, rfl, rfl, rfl, rfl, fun _ => rfl⟩)
      | ((with_reducible refine moves_setB_R _ _ ?_); intro _; rfl)
      | ((with_reducible refine KeepsR.setR_R _ _ fun _ => Still.moves ?_); exact ⟨rfl, rfl, rfl, rfl, rfl, rfl, rfl, rfl, fun _ => rfl⟩)
      | with_reducible refine KeepsR.getS_bind_R fun _ => ?_
      | with_reducible refine KeepsR.bind_R Moves.pre_mv ?_ fun _ => ?_
      | ((try dsimp only); rw [ite_bind_jp])
      | with_reducible refine KeepsR.ite_R (fun _ => ?_) fun _ => ?_
      | dsimp only
      | split

theorem moves_bdflush_list (fuel0 : Nat) (nlist : BufList) (fuel : Nat) (ndirty : Int) :
    KeepsR Moves (bdflush_list fuel0 nlist fuel ndirty) := by
  induction fuel generalizing ndirty with
  | zero => exact KeepsR.khang_R
  | succ fuel ih =>
    unfold bdflush_list
    repeat' first
      | with_reducible exact KeepsR.pure_R Moves.pre_mv _
      | with_reducible exact KeepsR.kpanic_R _
      | with_reducible exact KeepsR.khang_R
      | with_reducible exact ih _
      | with_reducible exact moves_bdflush_scan _ _ _ _ _
      | ((with_reducible refine KeepsR.modS_R _ fun _ => Still.moves ?_); exact ⟨rfl, rfl, rfl, rfl, rfl, rfl, rfl, rfl, fun _ => rfl⟩)
      | ((with_reducible refine moves_setB_R _ _ ?_); intro _; rfl)
      | ((with_reducible refine KeepsR.setR_R _ _ fun _ => Still.moves ?_); exact ⟨rfl, rfl, rfl, rfl, rfl, rfl, rfl, rfl, fun _ => rfl⟩)
      | with_reducible refine KeepsR.getS_bind_R fun _ => ?_
      | with_reducible refine KeepsR.bind_R Moves.pre_mv ?_ fun _ => ?_
      | ((try dsimp only); rw [ite_bind_jp])
      | with_reducible refine KeepsR.ite_R (fun _ => ?_) fun _ => ?_
      | dsimp only
      | split

theorem moves_bdflush_daemon (fuel0 : Nat) (sigkill : Bool) (fuel : Nat) :
    KeepsR Moves (bdflush_daemon fuel0 sigkill fuel) := by
  induction fuel with
  | zero => exact KeepsR.khang_R
  | succ fuel ih =>
    unfold bdflush_daemon
    repeat' first
      | with_reducible exact KeepsR.pure_R Moves.pre_mv _
      | with_reducible exact KeepsR.kpanic_R _
      | with_reducible exact KeepsR.khang_R
      | with_reducible exact ih
      | with_reducible exact moves_bdflush_list _ _ _ _
      | ((with_reducible refine KeepsR.modS_R _ fun _ => Still.moves ?_); exact ⟨rfl, rfl, rfl, rfl, rfl, rfl, rfl, rfl, fun _ => rfl⟩)
      | ((with_reducible refine moves_setB_R _ _ ?_); intro _; rfl)
      | ((with_reducible refine KeepsR.setR_R _ _ fun _ => Still.moves ?_); exact ⟨rfl, rfl, rfl, rfl, rfl, rfl, rfl, rfl, fun _ => rfl⟩)
      | with_reducible refine KeepsR.getS_bind_R fun _ => ?_
      | with_reducible refine KeepsR.bind_R Moves.pre_mv ?_ fun _ => ?_
      | ((try dsimp only); rw [ite_bind_jp])
      | with_reducible refine KeepsR.ite_R (fun _ => ?_) fun _ => ?_
      | dsimp only
      | split

theorem Tally.set_prm {s s' : State} (h : Tally s) (i : Nat) (v : Int)
    (hv : bdflush_min i ≤ v ∧ v ≤ bdflush_max i)
    (hf : s'.free_list = s.free_list) (hl : s'.lru_list = s.lru_list)
    (hu : s'.unused_list = s.unused_list) (hn : s'.nr_buffer_heads = s.nr_buffer_heads)
    (hnf : s'.nr_free = s.nr_free) (hnt : s'.nr_buffers_type = s.nr_buffers_type)
    (hns : s'.nr_buffers_st = s.nr_buffers_st) (hp : s'.bdf_prm = upd s.bdf_prm i v)
    (hb : s'.b = s.b) : Tally s' := by
  refine h.frame_ta (fun i => by rw [hf]) (fun l => by rw [hl]) (hu ▸ h.unused_nodup) ?_
    (le_of_eq hn.symm) hnf hnt hns (fun _ _ _ => by rw [hb]) ?_
  · rw [hu, hn]
    exact h.unused_ok
  · intro j hj
    rw [hp]
    by_cases hji : j = i
    · subst hji
      rw [upd_same]
      exact hv
    · rw [upd_other _ _ _ _ hji]
      exact h.bdf_prm j hj

theorem moves_sys_bdflush (fuel : Nat) (suser : Bool) (verify_area : Int) (sigkill : Bool)
    (func data : Int) : KeepsR Moves (sys_bdflush fuel suser verify_area sigkill func data) := by
  unfold sys_bdflush
  repeat' first
    | with_reducible exact KeepsR.pure_R Moves.pre_mv _
    | with_reducible exact KeepsR.kpanic_R _
    | with_reducible exact KeepsR.khang_R
    | with_reducible exact moves_sync_old_buffers _
    | with_reducible exact moves_bdflush_daemon _ _ _
    | ((with_reducible refine KeepsR.modS_R _ fun _ => Still.moves ?_); exact ⟨rfl, rfl, rfl, rfl, rfl, rfl, rfl, rfl, fun _ => rfl⟩)
    | ((with_reducible refine moves_setB_R _ _ ?_); intro _; rfl)
    | ((with_reducible refine KeepsR.setR_R _ _ fun _ => Still.moves ?_); exact ⟨rfl, rfl, rfl, rfl, rfl, rfl, rfl, rfl, fun _ => rfl⟩)
    | with_reducible refine KeepsR.getS_bind_R fun _ => ?_
    | with_reducible refine KeepsR.bind_R Moves.pre_mv ?_ fun _ => ?_
    | ((try dsimp only); rw [ite_bind_jp])
    | with_reducible refine KeepsR.ite_R (fun _ => ?_) fun _ => ?_
    | dsimp only
    | split
  rename_i hr
  refine KeepsR.modS_R _ fun s t => ⟨?_, fun i => rfl⟩
  refine t.set_prm ((func - 2) / 2).toNat data ?_ rfl rfl rfl rfl rfl rfl rfl rfl rfl
  constructor
  · exact not_lt.mp fun h => hr (Or.inl h)
  · exact not_lt.mp fun h => hr (Or.inr h)

theorem bdf_prm_init_range (i : Nat) (hi : i < N_PARAM) :
    bdflush_min i ≤ bdf_prm_init i ∧ bdf_prm_init i ≤ bdflush_max i := by
  unfold N_PARAM at hi
  interval_cases i <;> decide

theorem Initial.tally {s : State} (h : Initial s) : Tally s := by
  have hf := h.toEmptyCache.free_list
  have hl := h.toEmptyCache.lru_list
  have hu := h.toEmptyCache.unused_list
  refine ⟨fun i => by rw [hf]; exact List.nodup_nil, fun l => by rw [hl]; exact List.nodup_nil,
    by rw [hu]; exact List.nodup_nil, ?_, ?_, ?_, ?_, ?_, ?_, ?_, ?_, ?_, ?_, ?_, ?_⟩
  · intro i j x hx
    rw [hf] at hx
    cases hx
  · intro l m x hx
    rw [hl] at hx
    cases hx
  · intro i l x hx
    rw [hf] at hx
    cases hx
  · intro i x hx
    rw [hu] at hx
    cases hx
  · intro l x hx
    rw [hu] at hx
    cases hx
  · intro i x hx
    rw [hf] at hx
    cases hx
  · intro l x hx
    rw [hl] at hx
    cases hx
  · intro x hx
    rw [hu] at hx
    cases hx
  · intro i
    rw [h.nr_free, hf]
    rfl
  · intro l
    rw [h.nr_buffers_type, hl]
    rfl
  · intro i l
    rw [h.nr_buffers_st, hl]
    rfl
  · intro i hi
    rw [h.bdf_prm]
    exact bdf_prm_init_range i hi

theorem buffer_init_tally (fuel : Nat) (s s' : State) (a : Unit) (h : Initial s)
    (e : buffer_init fuel s = .ok a s') : Tally s' := by
  unfold buffer_init at e
  obtain ⟨a0, s0, e0, e⟩ := bind_inv e
  have t0 : Tally s0 := by
    have hl : s0.lru_list = s.lru_list := by
      cases e0
      funext l
      show upd s.lru_list BUF_CLEAN [] l = _
      by_cases hc : l = BUF_CLEAN
      · subst hc
        rw [upd_same, h.toEmptyCache.lru_list]
      · rw [upd_other _ _ _ _ hc]
    obtain ⟨hf, hu, hn, hnf, hnt, hns, hp, hb⟩ : s0.free_list = s.free_list ∧
        s0.unused_list = s.unused_list ∧ s0.nr_buffer_heads = s.nr_buffer_heads ∧
        s0.nr_free = s.nr_free ∧ s0.nr_buffers_type = s.nr_buffers_type ∧
        s0.nr_buffers_st = s.nr_buffers_st ∧ s0.bdf_prm = s.bdf_prm ∧ s0.b = s.b := by
      cases e0
      exact ⟨rfl, rfl, rfl, rfl, rfl, rfl, rfl, rfl⟩
    exact h.tally.same hf hl hu hn hnf hnt hns hp fun _ => by rw [hb]
  refine (?_ : KeepsR Tallies _) s0 a s' e t0
  repeat' first
    | with_reducible exact KeepsR.pure_R Tallies.pre_ta _
    | with_reducible exact KeepsR.kpanic_R _
    | with_reducible exact KeepsR.khang_R
    | with_reducible exact tallies_grow_buffers _ _ _
    | ((with_reducible refine KeepsR.modS_R _ fun _ => Still.tallies ?_); exact ⟨rfl, rfl, rfl, rfl, rfl, rfl, rfl, rfl, fun _ => rfl⟩)
    | ((with_reducible refine tallies_setB_R _ _ ?_); intro _; rfl)
    | ((with_reducible refine KeepsR.setR_R _ _ fun _ => Still.tallies ?_); exact ⟨rfl, rfl, rfl, rfl, rfl, rfl, rfl, rfl, fun _ => rfl⟩)
    | with_reducible refine KeepsR.getS_bind_R fun _ => ?_
    | with_reducible refine KeepsR.bind_R Tallies.pre_ta ?_ fun _ => ?_
    | ((try dsimp only); rw [ite_bind_jp])
    | with_reducible refine KeepsR.ite_R (fun _ => ?_) fun _ => ?_
    | dsimp only
    | split

/-- In every reachable state the lists carry each head at most once, the counters of
buffers are the lengths of the lists, and the parameters of the flush daemon are within
their ranges. -/
theorem reachable_tally {s : State} (h : Reachable s) : Tally s := by
  induction h with
  | empty s he => exact he.tally
  | buffer_init s s' fuel he e => exact buffer_init_tally fuel s s' () he e
  | getblk s s' fuel dev block size h _ _ e ih => exact tallies_getblk _ _ _ _ s h s' e ih
  | brelse s s' fuel buf _ e ih => exact (moves_brelse _ _ s () s' e ih).1
  | bread s s' fuel dev block size r _ _ e ih => exact tallies_bread _ _ _ _ s r s' e ih
  | refill_freelist s s' fuel size _ e ih => exact tallies_refill_freelist _ _ s () s' e ih
  | grow_buffers s s' fuel pri size r _ e ih => exact tallies_grow_buffers _ _ _ s r s' e ih
  | shrink_specific_buffers s s' fuel priority size r _ e ih =>
    exact tallies_shrink_specific_buffers _ _ _ s r s' e ih
  | try_to_free s s' fuel bh r _ e ih => exact tallies_try_to_free _ _ s r s' e ih
  | try_to_reassign s s' fuel bh dev block r _ _ e ih =>
    exact (moves_try_to_reassign _ _ _ _ s r s' e ih).1
  | mark_buffer_dirty s s' fuel bh flag _ e ih =>
    exact (moves_mark_buffer_dirty _ _ _ s () s' e ih).1
  | ll_rw_block s s' fuel rw bhs _ e ih =>
    exact (moves_ll_rw_block_refile _ _ _ _ s () s' e ih).1
  | end_buffer_io s s' bh _ e ih => exact (still_end_buffer_io _ s () s' e).tallies ih
  | invalidate_buffers s s' dev _ e ih => exact (still_invalidate_buffers _ s () s' e).tallies ih
  | sys_bdflush s s' fuel suser va sk func data r _ e ih =>
    exact (moves_sys_bdflush _ _ _ _ _ _ s r s' e ih).1
  | tick s n _ ih => exact ih.same rfl rfl rfl rfl rfl rfl rfl rfl fun _ => rfl

theorem sys_bdflush_write_run (fuel : Nat) (va : Int) (sk : Bool) (i : Nat) (v : Int)
    (s : State) (hi : i < N_PARAM) :
    sys_bdflush fuel true va sk (2 * i + 3) v s =
      if v < bdflush_min i ∨ v > bdflush_max i then .ok (-EINVAL) s
      else .ok 0 { s with bdf_prm := upd s.bdf_prm i v } := by
  unfold N_PARAM at hi
  have h1 : ¬ (2 * (i : Int) + 3 = 1) := by omega
  have h2 : 2 * (i : Int) + 3 ≥ 2 := by omega
  have h3 : (2 * (i : Int) + 3 - 2) / 2 = (i : Int) := by omega
  have h4 : ¬ ((2 * (i : Int) + 3) % 2 = 0) := by omega
  have h5 : ¬ ((i : Int) < 0 ∨ (i : Int) ≥ (N_PARAM : Nat)) := by
    unfold N_PARAM
    omega
  unfold sys_bdflush
  simp only [ite_run, not_true_eq_false, if_false, if_neg h1, if_pos h2, h3,
    if_neg h4, if_neg h5, Int.toNat_ofNat, pure_run, bind_run, modS_run]

/-- C18: a privileged write request `sys_bdflush(2*i+3, v)` for a parameter index
`i < N_PARAM` returns `-EINVAL` and leaves the state, with it the whole parameter table,
as it is when `v < bdflush_min[i]` or `v > bdflush_max[i]`; otherwise it returns 0 and
stores `v` in parameter `i`, changing nothing else, so the other parameters keep their
values.  In every reachable state every parameter is within its range. -/
theorem sys_bdflush_range_checked (fuel : Nat) (va : Int) (sk : Bool) (i : Nat) (v : Int)
    (s : State) (hi : i < N_PARAM) :
    (v < bdflush_min i ∨ v > bdflush_max i →
        sys_bdflush fuel true va sk (2 * i + 3) v s = .ok (-EINVAL) s) ∧
      (¬ (v < bdflush_min i ∨ v > bdflush_max i) →
        sys_bdflush fuel true va sk (2 * i + 3) v s =
            .ok 0 { s with bdf_prm := upd s.bdf_prm i v } ∧
          upd s.bdf_prm i v i = v ∧ ∀ j, j ≠ i → upd s.bdf_prm i v j = s.bdf_prm j) ∧
      (Reachable s → ∀ j, j < N_PARAM →
        bdflush_min j ≤ s.bdf_prm j ∧ s.bdf_prm j ≤ bdflush_max j) := by
  refine ⟨fun h => ?_, fun h => ⟨?_, upd_same _ _ _, fun j hj => upd_other _ _ _ _ hj⟩,
    fun h => (reachable_tally h).bdf_prm⟩
  · rw [sys_bdflush_write_run fuel va sk i v s hi, if_pos h]
  · rw [sys_bdflush_write_run fuel va sk i v s hi, if_neg h]

/-- Witness for C18: on the cache after `buffer_init`, the write of 101 to parameter 0
(`nfract`, range 0..100) is refused, the write of 40 is stored, and the parameters are
within their ranges. -/
theorem sys_bdflush_range_checked_witness :
    sys_bdflush 10 true 0 false 3 101 boot3_init = .ok (-EINVAL) boot3_init ∧
      sys_bdflush 10 true 0 false 3 40 boot3_init =
        .ok 0 { boot3_init with bdf_prm := upd boot3_init.bdf_prm 0 40 } ∧
      bdflush_min 0 ≤ boot3_init.bdf_prm 0 ∧ boot3_init.bdf_prm 0 ≤ bdflush_max 0 :=
  ⟨(sys_bdflush_range_checked 10 0 false 0 101 boot3_init (by decide)).1 (by decide),
    ((sys_bdflush_range_checked 10 0 false 0 40 boot3_init (by decide)).2.1 (by decide)).1,
    (sys_bdflush_range_checked 10 0 false 0 40 boot3_init (by decide)).2.2
      boot3_init_reachable 0 (by decide)⟩

theorem moves_getblk_repeat_ready (fuel0 dev block size : Nat) : ∀ (fuel : Nat) (s : State),
    s.free_list (BUFSIZE_INDEX size) ≠ [] →
      KeepsAt Moves (getblk_repeat fuel0 dev block size fuel) s := by
  intro fuel
  induction fuel with
  | zero => intro s _ a s' e; cases e
  | succ fuel ih =>
    intro s hne r s' e
    unfold getblk_repeat at e
    dsimp only at e
    obtain ⟨bh, s1, e1, e⟩ := bind_inv e
    have st1 := still_get_hash_table _ _ _ _ s bh s1 e1
    refine Moves.pre_mv.trans _ _ _ st1.moves ?_
    split_ifs at e with h0
    · refine (?_ : KeepsR Moves _) s1 r s' e
      repeat' first
        | with_reducible exact KeepsR.pure_R Moves.pre_mv _
        | with_reducible exact KeepsR.kpanic_R _
        | with_reducible exact KeepsR.khang_R
        | with_reducible exact moves_put_last_lru _
        | ((with_reducible refine KeepsR.modS_R _ fun _ => Still.moves ?_); exact ⟨rfl, rfl, rfl, rfl, rfl, rfl, rfl, rfl, fun _ => rfl⟩)
        | ((with_reducible refine moves_setB_R _ _ ?_); intro _; rfl)
        | ((with_reducible refine KeepsR.setR_R _ _ fun _ => Still.moves ?_); exact ⟨rfl, rfl, rfl, rfl, rfl, rfl, rfl, rfl, fun _ => rfl⟩)
        | with_reducible refine KeepsR.getS_bind_R fun _ => ?_
        | with_reducible refine KeepsR.bind_R Moves.pre_mv ?_ fun _ => ?_
        | ((try dsimp only); rw [ite_bind_jp])
        | with_reducible refine KeepsR.ite_R (fun _ => ?_) fun _ => ?_
        | dsimp only
        | split
    · obtain ⟨a2, s2, e2, e⟩ := bind_inv e
      have hs2 : s2 = s1 := by
        cases fuel0 with
        | zero => cases e2
        | succ f =>
          unfold getblk_refill at e2
          rw [bind_run, getS_run] at e2
          dsimp only at e2
          rw [if_neg (by rw [st1.free_list]; exact hne)] at e2
          cases e2
          rfl
      rw [hs2] at e
      obtain ⟨f, s3, e3, e⟩ := bind_inv e
      have st3 := still_find_buffer _ _ _ s1 f s3 e3
      refine Moves.pre_mv.trans _ _ _ st3.moves ?_
      split_ifs at e with hf
      · exact ih s3 (by rw [st3.free_list, st1.free_list]; exact hne) r s' e
      · refine (?_ : KeepsR Moves _) s3 r s' e
        repeat' first
          | with_reducible exact KeepsR.pure_R Moves.pre_mv _
          | with_reducible exact KeepsR.kpanic_R _
          | with_reducible exact KeepsR.khang_R
          | (rw [bind_assoc3 (remove_from_free_list _) (setB _ _) (insert_into_queues _)])
          | ((with_reducible refine getblk_link_moves _ _ ?_); intro _; rfl)
          | ((with_reducible refine KeepsR.modS_R _ fun _ => Still.moves ?_); exact ⟨rfl, rfl, rfl, rfl, rfl, rfl, rfl, rfl, fun _ => rfl⟩)
          | ((with_reducible refine moves_setB_R _ _ ?_); intro _; rfl)
          | ((with_reducible refine KeepsR.setR_R _ _ fun _ => Still.moves ?_); exact ⟨rfl, rfl, rfl, rfl, rfl, rfl, rfl, rfl, fun _ => rfl⟩)
          | with_reducible refine KeepsR.getS_bind_R fun _ => ?_
          | with_reducible refine KeepsR.bind_R Moves.pre_mv ?_ fun _ => ?_
          | ((try dsimp only); rw [ite_bind_jp])
          | with_reducible refine KeepsR.ite_R (fun _ => ?_) fun _ => ?_
          | dsimp only
          | split

theorem moves_getblk_ready (fuel dev block size : Nat) (s : State)
    (hne : s.free_list (BUFSIZE_INDEX size) ≠ []) :
    KeepsAt Moves (getblk fuel dev block size) s := by
  intro r s' e
  unfold getblk at e
  obtain ⟨a0, s0, e0, e⟩ := bind_inv e
  have st0 : Still s s0 := by
    cases e0
    exact ⟨rfl, rfl, rfl, rfl, rfl, rfl, rfl, rfl, fun _ => rfl⟩
  exact Moves.pre_mv.trans _ _ _ st0.moves
    (moves_getblk_repeat_ready fuel dev block size fuel s0 (by rw [st0.free_list]; exact hne)
      r s' e)

theorem Tally.stock_eq {s : State} (t : Tally s) (i : Int) :
    stock s i = ((s.free_list i).length : Int) + (ALL_LISTS.map fun l =>
      (((s.lru_list l).countP fun x => decide (BUFSIZE_INDEX (s.b x).b_size = i) : Nat) : Int)).sum := by
  unfold stock
  rw [t.nr_free]
  simp only [t.nr_buffers_st]

/-- C11 (counterexample): `getblk` does not leave the total unchanged when it has to
refill an empty free list.  In the reachable state with one page of 1024-byte buffers the
class of 512-byte buffers counts no buffer; `getblk(1, 10, 512)` carves a page, and the
class counts 8. -/
theorem getblk_grows_stock :
    Reachable boot3_released ∧ (getblk 10 1 10 512 boot3_released).isOk = true ∧
      stock boot3_released 0 = 0 ∧ stock (getblk 10 1 10 512 boot3_released).state 0 = 8 :=
  ⟨boot3_released_reachable, by decide!, by decide!, by decide!⟩

/-- C11 (amended): in every reachable state and for every size class `i`, `nr_free[i]`
plus the sum over the disposition lists `l` of `nr_buffers_st[i][l]` is the number of
descriptors on the free list of the class, all of them of that size, plus the number of
descriptors of that size on the disposition lists, where no list carries a descriptor
twice and no descriptor is on two lists.  `brelse`, `refile_buffer` and the reclaiming loop
of `refill_freelist` leave this total unchanged, and so does `getblk` when the free list
of the requested size is not empty. -/
theorem stock_counts_listed (s : State) (i : Int) (h : Reachable s) :
    stock s i = ((s.free_list i).length : Int) + (ALL_LISTS.map fun l =>
        (((s.lru_list l).countP fun x => decide (BUFSIZE_INDEX (s.b x).b_size = i) : Nat) :
          Int)).sum ∧
      (∀ x ∈ s.free_list i, BUFSIZE_INDEX (s.b x).b_size = i) ∧
      (∀ j, (s.free_list j).Nodup) ∧ (∀ l, (s.lru_list l).Nodup) ∧
      (∀ j k x, x ∈ s.free_list j → x ∈ s.free_list k → j = k) ∧
      (∀ l m x, x ∈ s.lru_list l → x ∈ s.lru_list m → l = m) ∧
      (∀ j l x, x ∈ s.free_list j → x ∉ s.lru_list l) ∧
      (∀ fuel buf s', brelse fuel buf s = .ok () s' → stock s' i = stock s i) ∧
      (∀ fuel buf s', refile_buffer fuel buf s = .ok () s' → stock s' i = stock s i) ∧
      (∀ fuel0 size fuel loc loc' s', refill_reclaim fuel0 size fuel loc s = .ok loc' s' →
        stock s' i = stock s i) ∧
      (∀ fuel dev block size r s', s.free_list (BUFSIZE_INDEX size) ≠ [] →
        getblk fuel dev block size s = .ok r s' → stock s' i = stock s i) := by
  have t := reachable_tally h
  have hI := reachable_inv h
  exact ⟨t.stock_eq i, fun x hx => hI.free_size i x hx, t.free_nodup, t.lru_nodup, t.free_free,
    t.lru_lru, t.free_lru,
    fun fuel buf s' e => (moves_brelse fuel buf s () s' e t).2 i,
    fun fuel buf s' e => (moves_refile_buffer fuel buf s () s' e t).2 i,
    fun fuel0 size fuel loc loc' s' e => (moves_refill_reclaim fuel0 size fuel loc s loc' s' e t).2 i,
    fun fuel dev block size r s' hne e => (moves_getblk_ready fuel dev block size s hne r s' e t).2 i⟩

/-- Witness for C11: after `buffer_init` and `getblk(1, 10, 1024)` the class of 1024-byte
buffers counts the 4 buffers of the first page, 3 of them on the free list, and a second
`getblk` of that size leaves the count at 4. -/
theorem stock_counts_listed_witness :
    stock boot3_1024 1 = 4 ∧ (boot3_1024.free_list 1).length = 3 ∧
      (getblk 10 1 11 1024 boot3_1024).isOk = true ∧
      stock (getblk 10 1 11 1024 boot3_1024).state 1 = stock boot3_1024 1 :=
  ⟨by decide!, by decide!, by decide!,
    (stock_counts_listed boot3_1024 1 boot3_1024_reachable).2.2.2.2.2.2.2.2.2.2 10 1 11 1024 _ _
      (by decide!) (Res.eq_ok (getblk 10 1 11 1024 boot3_1024) (by decide!))⟩

theorem upd_upd {ι α : Type} [DecidableEq ι] (f : ι → α) (i : ι) (a b : α) :
    upd (upd f i a) i b = upd f i b := by
  funext j
  unfold upd
  split_ifs <;> rfl

theorem upd_self {ι α : Type} [DecidableEq ι] (f : ι → α) (i : ι) : upd f i (f i) = f := by
  funext j
  unfold upd
  split_ifs with h
  · rw [h]
  · rfl

theorem b_next_free_congr (s s' : State) (bh : Nat) (hf : s'.free_list = s.free_list)
    (hl : s'.lru_list = s.lru_list) (hd : (s'.b bh).b_dev = (s.b bh).b_dev)
    (hs : (s'.b bh).b_size = (s.b bh).b_size) (hb : (s'.b bh).b_list = (s.b bh).b_list) :
    b_next_free s' bh = b_next_free s bh := by
  unfold b_next_free ring_of
  rw [hf, hl, hd, hs, hb]

theorem invalidate_buffers_scan_succ (dev i bh : Nat) (s : State) :
    invalidate_buffers_scan dev (i + 1) bh s =
      invalidate_buffers_scan dev i (b_next_free s bh) (invalidate_turn dev bh s) := by
  have hn : ∀ g : buffer_head, g.b_dev = (s.b bh).b_dev → g.b_size = (s.b bh).b_size →
      g.b_list = (s.b bh).b_list →
      b_next_free { s with b := upd s.b bh g } bh = b_next_free s bh := by
    intro g h1 h2 h3
    refine b_next_free_congr _ _ _ rfl rfl ?_ ?_ ?_
    · show (upd s.b bh g bh).b_dev = _
      rw [upd_same, h1]
    · show (upd s.b bh g bh).b_size = _
      rw [upd_same, h2]
    · show (upd s.b bh g bh).b_list = _
      rw [upd_same, h3]
  conv_lhs => rw [invalidate_buffers_scan]
  unfold wait_on_buffer __wait_on_buffer end_buffer_io invalidate_turn invalidate_head
  simp only [bind_run, getS_run, ite_run, setB_run, pure_run, upd_same, upd_upd]
  by_cases hd : (s.b bh).b_dev = dev <;> by_cases hl : (s.b bh).b_lock = true <;>
    by_cases hc : (s.b bh).b_count = 0 <;>
    simp [hd, hl, hc, upd_self, upd_upd, hn]

theorem ring_next_split (pre post : List Nat) (x : Nat) (hx : x ∉ pre) :
    ring_next (pre ++ x :: post) x = (post ++ (pre ++ x :: post)).headD 0 := by
  unfold ring_next
  have : (pre ++ x :: post).dropWhile (fun y => y != x) = x :: post := by
    induction pre with
    | nil =>
      show List.dropWhile _ (x :: post) = _
      rw [List.dropWhile_cons_of_neg (by simp)]
    | cons a t ih =>
      have ha : a ≠ x := fun h => hx (h ▸ List.mem_cons_self _ _)
      have ht : x ∉ t := fun h => hx (List.mem_cons_of_mem _ h)
      show List.dropWhile _ (a :: (t ++ x :: post)) = _
      rw [List.dropWhile_cons_of_pos (by simp [ha])]
      exact ih ht
  rw [this]
  cases post with
  | nil => rfl
  | cons y t => rfl

theorem invalidate_head_core (dev : Nat) (ok : Nat → Nat → Bool) (h : buffer_head) :
    (invalidate_head dev ok h).b_dev = h.b_dev ∧ (invalidate_head dev ok h).b_list = h.b_list ∧
      (invalidate_head dev ok h).b_size = h.b_size ∧
      (invalidate_head dev ok h).b_count = h.b_count ∧
      (invalidate_head dev ok h).b_blocknr = h.b_blocknr := by
  unfold invalidate_head
  split_ifs <;> exact ⟨rfl, rfl, rfl, rfl, rfl⟩

theorem invalidate_head_idem (dev : Nat) (ok : Nat → Nat → Bool) (h : buffer_head) :
    invalidate_head dev ok (invalidate_head dev ok h) = invalidate_head dev ok h := by
  by_cases hd : h.b_dev = dev <;> by_cases hl : h.b_lock = true <;>
    by_cases hc : h.b_count = 0 <;> simp [invalidate_head, hd, hl, hc]

theorem invalidate_turn_b (dev bh : Nat) (s : State) (x : Nat) :
    (invalidate_turn dev bh s).b x =
      if x = bh then invalidate_head dev s.disk_ok (s.b bh) else s.b x := rfl

theorem RingOf.turn {s : State} {nlist : BufList} {l : List Nat} (h : RingOf s nlist l)
    (dev bh : Nat) : RingOf (invalidate_turn dev bh s) nlist l := by
  refine ⟨h.1, fun y hy => ?_⟩
  rw [invalidate_turn_b]
  split_ifs with hx
  · subst hx
    rw [(invalidate_head_core dev s.disk_ok (s.b y)).1, (invalidate_head_core dev s.disk_ok (s.b y)).2.1]
    exact h.2 y hy
  · exact h.2 y hy

theorem RingOf.next {s : State} {nlist : BufList} {l : List Nat} (h : RingOf s nlist l)
    {x : Nat} (hx : x ∈ l) : b_next_free s x = ring_next l x := by
  unfold b_next_free ring_of
  rw [if_neg (h.2 x hx).1, (h.2 x hx).2, h.1]

theorem invalidate_sweep_append (dev : Nat) : ∀ (vs ws : List Nat) (s : State),
    invalidate_sweep dev (vs ++ ws) s = invalidate_sweep dev ws (invalidate_sweep dev vs s)
  | [], _, _ => rfl
  | v :: vs, ws, s => invalidate_sweep_append dev vs ws (invalidate_turn dev v s)

theorem invalidate_sweep_rest (dev : Nat) : ∀ (vs : List Nat) (s : State),
    invalidate_sweep dev vs s = { s with b := (invalidate_sweep dev vs s).b }
  | [], _ => rfl
  | v :: vs, s => (invalidate_sweep_rest dev vs (invalidate_turn dev v s)).trans rfl

theorem invalidate_sweep_b (dev : Nat) : ∀ (vs : List Nat) (s : State) (x : Nat),
    (invalidate_sweep dev vs s).b x =
      if x ∈ vs then invalidate_head dev s.disk_ok (s.b x) else s.b x
  | [], _, _ => rfl
  | v :: vs, s, x => by
    show (invalidate_sweep dev vs (invalidate_turn dev v s)).b x = _
    rw [invalidate_sweep_b dev vs (invalidate_turn dev v s) x, invalidate_turn_b]
    have hok : (invalidate_turn dev v s).disk_ok = s.disk_ok := rfl
    rw [hok]
    by_cases hxv : x = v
    · subst hxv
      rw [if_pos rfl, if_pos (List.mem_cons_self _ _), invalidate_head_idem]
      split_ifs <;> rfl
    · rw [if_neg hxv]
      have : x ∈ v :: vs ↔ x ∈ vs := by
        rw [List.mem_cons]
        exact ⟨fun h => h.resolve_left hxv, Or.inr⟩
      simp only [this]

theorem RingOf.sweep {nlist : BufList} {l : List Nat} (dev : Nat) : ∀ (vs : List Nat)
    (s : State), RingOf s nlist l → RingOf (invalidate_sweep dev vs s) nlist l
  | [], _, h => h
  | v :: vs, s, h => RingOf.sweep dev vs (invalidate_turn dev v s) (h.turn dev v)

theorem invalidate_scan_part (dev : Nat) (nlist : BufList) : ∀ (m : Nat) (post pre : List Nat)
    (x : Nat) (s : State), (pre ++ x :: post).Nodup → RingOf s nlist (pre ++ x :: post) →
      m ≤ post.length + 1 →
      invalidate_buffers_scan dev m x s =
        .ok () (invalidate_sweep dev ((x :: post).take m) s) := by
  intro m
  induction m with
  | zero => intros; rfl
  | succ m ih =>
    intro post pre x s hn hr hm
    rw [invalidate_buffers_scan_succ]
    cases m with
    | zero => rfl
    | succ m =>
      cases post with
      | nil => simp at hm
      | cons y post' =>
        have hx : x ∉ pre := fun h => by
          have := (List.nodup_append.mp hn).2.2
          exact this h (List.mem_cons_self _ _)
        have hnext : b_next_free s x = y := by
          rw [hr.next (List.mem_append_right _ (List.mem_cons_self _ _)),
            ring_next_split pre _ x hx]
          rfl
        rw [hnext]
        have he : pre ++ [x] ++ y :: post' = pre ++ x :: y :: post' := by simp
        have := ih post' (pre ++ [x]) y (invalidate_turn dev x s) (by rw [he]; exact hn)
          (by rw [he]; exact hr.turn dev x) (by simp at hm ⊢; omega)
        rw [this]
        rfl

theorem invalidate_scan_round (dev : Nat) (nlist : BufList) : ∀ (post pre : List Nat)
    (x : Nat) (s : State) (k : Nat), (pre ++ x :: post).Nodup →
      RingOf s nlist (pre ++ x :: post) →
      invalidate_buffers_scan dev (post.length + 1 + k) x s =
        invalidate_buffers_scan dev k ((pre ++ x :: post).headD 0)
          (invalidate_sweep dev (x :: post) s) := by
  intro post
  induction post with
  | nil =>
    intro pre x s k hn hr
    have hx : x ∉ pre := fun h => by
      have := (List.nodup_append.mp hn).2.2
      exact this h (List.mem_cons_self _ _)
    have h1 : ([] : List Nat).length + 1 + k = k + 1 := by simp; omega
    rw [h1, invalidate_buffers_scan_succ,
      hr.next (List.mem_append_right _ (List.mem_cons_self _ _)), ring_next_split pre _ x hx]
    rfl
  | cons y post' ih =>
    intro pre x s k hn hr
    have hx : x ∉ pre := fun h => by
      have := (List.nodup_append.mp hn).2.2
      exact this h (List.mem_cons_self _ _)
    have h1 : (y :: post').length + 1 + k = (post'.length + 1 + k) + 1 := by simp; omega
    have hnext : b_next_free s x = y := by
      rw [hr.next (List.mem_append_right _ (List.mem_cons_self _ _)),
        ring_next_split pre _ x hx]
      rfl
    rw [h1, invalidate_buffers_scan_succ, hnext]
    have he : pre ++ [x] ++ y :: post' = pre ++ x :: y :: post' := by simp
    have := ih (pre ++ [x]) y (invalidate_turn dev x s) k (by rw [he]; exact hn)
      (by rw [he]; exact hr.turn dev x)
    rw [this, he]
    rfl

theorem invalidate_scan_list (dev : Nat) (nlist : BufList) (l : List Nat) (s : State)
    (hn : l.Nodup) (hr : RingOf s nlist l) :
    invalidate_buffers_scan dev ((l.length : Int) * 2 - 1).toNat (l.headD 0) s =
      .ok () (invalidate_sweep dev (l ++ l.take (l.length - 1)) s) := by
  cases l with
  | nil => rfl
  | cons x post =>
    have h1 : (((x :: post).length : Int) * 2 - 1).toNat = post.length + 1 + post.length := by
      simp only [List.length_cons]
      omega
    rw [h1, List.headD_cons, invalidate_scan_round dev nlist post [] x s post.length hn hr]
    have := invalidate_scan_part dev nlist post.length post [] x
      (invalidate_sweep dev (x :: post) s) hn (hr.sweep dev _ s) (Nat.le_succ _)
    rw [List.nil_append, List.headD_cons, this, invalidate_sweep_append]
    rfl

theorem invalidate_visits_congr (s s' : State) (h : s'.lru_list = s.lru_list) :
    ∀ ls, invalidate_visits s' ls = invalidate_visits s ls
  | [] => rfl
  | nlist :: rest => by
    unfold invalidate_visits
    rw [h, invalidate_visits_congr s s' h rest]

theorem invalidate_lists_run (dev : Nat) : ∀ (ls : List BufList) (s : State),
    (∀ l, (s.lru_list l).Nodup) → (∀ l, s.nr_buffers_type l = (s.lru_list l).length) →
      (∀ l, RingOf s l (s.lru_list l)) →
      invalidate_buffers_lists dev ls s =
        .ok () (invalidate_sweep dev (invalidate_visits s ls) s) := by
  intro ls
  induction ls with
  | nil => intros; rfl
  | cons nlist rest ih =>
    intro s hn hc hr
    unfold invalidate_buffers_lists
    rw [bind_run, getS_run]
    dsimp only
    rw [bind_run, hc nlist, invalidate_scan_list dev nlist _ s (hn nlist) (hr nlist)]
    dsimp only
    have hs := invalidate_sweep_rest dev
      (s.lru_list nlist ++ (s.lru_list nlist).take ((s.lru_list nlist).length - 1)) s
    have hl : (invalidate_sweep dev
        (s.lru_list nlist ++ (s.lru_list nlist).take ((s.lru_list nlist).length - 1)) s).lru_list =
        s.lru_list := by rw [hs]
    have ht : (invalidate_sweep dev
        (s.lru_list nlist ++ (s.lru_list nlist).take ((s.lru_list nlist).length - 1)) s).nr_buffers_type =
        s.nr_buffers_type := by rw [hs]
    rw [ih _ (fun l => by rw [hl]; exact hn l) (fun l => by rw [ht, hl]; exact hc l)
      (fun l => by rw [hl]; exact (hr l).sweep dev _ s), invalidate_visits_congr _ _ hl,
      ← invalidate_sweep_append]
    rfl

theorem mem_invalidate_visits (s : State) (x : Nat) : ∀ ls : List BufList,
    x ∈ invalidate_visits s ls ↔ ∃ l ∈ ls, x ∈ s.lru_list l
  | [] => by simp [invalidate_visits]
  | nlist :: rest => by
    unfold invalidate_visits
    rw [List.mem_append, List.mem_append, mem_invalidate_visits s x rest]
    constructor
    · rintro ((h | h) | ⟨l, hl, h⟩)
      · exact ⟨nlist, List.mem_cons_self _ _, h⟩
      · exact ⟨nlist, List.mem_cons_self _ _, List.mem_of_mem_take h⟩
      · exact ⟨l, List.mem_cons_of_mem _ hl, h⟩
    · rintro ⟨l, hl, h⟩
      rcases List.mem_cons.mp hl with rfl | hl
      · exact Or.inl (Or.inl h)
      · exact Or.inr ⟨l, hl, h⟩

theorem mem_all_lists (l : BufList) : l ∈ ALL_LISTS := by
  cases l <;> simp [ALL_LISTS]

/-- What `invalidate_buffers(dev)` does, from a state in which the lists carry no head
twice, their counters are their lengths and their heads name them: it returns, every head
on a disposition list has been looked at, and nothing else has changed. -/
theorem invalidate_buffers_run (dev : Nat) (s : State) (t : Tally s) (hI : Inv s) :
    ∃ s', invalidate_buffers dev s = .ok () s' ∧ s' = { s with b := s'.b } ∧
      (∀ l x, x ∈ s.lru_list l → s'.b x = invalidate_head dev s.disk_ok (s.b x)) ∧
      ∀ x, (∀ l, x ∉ s.lru_list l) → s'.b x = s.b x := by
  have hm : ∀ x, x ∈ invalidate_visits s ALL_LISTS ↔ ∃ l, x ∈ s.lru_list l := by
    intro x
    rw [mem_invalidate_visits]
    exact ⟨fun ⟨l, _, h⟩ => ⟨l, h⟩, fun ⟨l, h⟩ => ⟨l, mem_all_lists l, h⟩⟩
  refine ⟨_, invalidate_lists_run dev ALL_LISTS s t.lru_nodup t.nr_buffers_type
    (fun l => ⟨rfl, fun y hy => ⟨hI.lru_dev l y hy, hI.lru_list l y hy⟩⟩),
    invalidate_sweep_rest dev _ s, fun l x hx => ?_, fun x hx => ?_⟩
  · rw [invalidate_sweep_b, if_pos ((hm x).mpr ⟨l, hx⟩)]
  · rw [invalidate_sweep_b, if_neg fun h => by
      obtain ⟨l, hl⟩ := (hm x).mp h
      exact hx l hl]

theorem disk2_reading_reachable : Reachable disk2_reading := by
  have h0 : Reachable disk2_init :=
    Reachable.buffer_init disk2 _ 10
      ⟨⟨fun _ => rfl, fun _ => rfl, fun _ => rfl, rfl, rfl, fun _ => rfl⟩, fun _ => rfl, fun _ => rfl, fun _ _ => rfl, rfl⟩
      (Res.eq_ok_unit (buffer_init 10 disk2) (by decide!))
  have h1 : Reachable (getblk 10 0x301 1 1024 disk2_init).state :=
    Reachable.getblk disk2_init _ 10 0x301 1 1024 _ h0 (by decide)
      (Res.eq_ok (getblk 10 0x301 1 1024 disk2_init) (by decide!))
  exact Reachable.ll_rw_block _ _ 10 .READ [61] h1
    (Res.eq_ok_unit (ll_rw_block (refile_buffer 10) 10 .READ [61]
      (getblk 10 0x301 1 1024 disk2_init).state) (by decide!))

/-- C20 (counterexample): a referenced descriptor of the device does not stay unchanged
when it is locked.  In the reachable state in which head 61 holds block 1 of the disk
`0x301`, referenced once, with its read submitted and not yet completed,
`invalidate_buffers(0x301)` waits for the buffer, and when it returns the lock flag of
head 61 is clear. -/
theorem invalidate_buffers_unlocks_referenced :
    Reachable disk2_reading ∧ 61 ∈ disk2_reading.lru_list BUF_CLEAN ∧
      (disk2_reading.b 61).b_dev = 0x301 ∧ (disk2_reading.b 61).b_count = 1 ∧
      (disk2_reading.b 61).b_lock = true ∧
      (invalidate_buffers 0x301 disk2_reading).isOk = true ∧
      ((invalidate_buffers 0x301 disk2_reading).state.b 61).b_count = 1 ∧
      ((invalidate_buffers 0x301 disk2_reading).state.b 61).b_lock = false :=
  ⟨disk2_reading_reachable, by decide!, by decide!, by decide!, by decide!, by decide!,
    by decide!, by decide!⟩

/-- C20 (amended): in every reachable state `invalidate_buffers(dev)` returns, and
afterwards every descriptor on a disposition list with `b_dev = dev` and `b_count = 0`
has its uptodate, dirty and requested flags, its lock and its flush deadline cleared;
every descriptor of another device is unchanged, and so is every descriptor with
`b_count > 0` that is not locked and every descriptor on no disposition list; a locked
descriptor of the device with `b_count > 0` on a disposition list has been waited for: its
lock is clear and its transfer has completed, and nothing else of it has changed.  No
list and no hash chain changes. -/
theorem invalidate_buffers_clears (dev : Nat) (s : State) (h : Reachable s) :
    ∃ s', invalidate_buffers dev s = .ok () s' ∧
      (∀ l x, x ∈ s.lru_list l → (s.b x).b_dev = dev → (s.b x).b_count = 0 →
        (s'.b x).b_uptodate = false ∧ (s'.b x).b_dirt = false ∧ (s'.b x).b_req = false ∧
          (s'.b x).b_flushtime = 0 ∧ (s'.b x).b_lock = false) ∧
      (∀ x, (s.b x).b_dev ≠ dev → s'.b x = s.b x) ∧
      (∀ x, (s.b x).b_count ≠ 0 → (s.b x).b_lock = false → s'.b x = s.b x) ∧
      (∀ l x, x ∈ s.lru_list l → (s.b x).b_dev = dev → (s.b x).b_count ≠ 0 →
        (s.b x).b_lock = true →
        s'.b x =
          { (s.b x) with
            b_lock := false,
            b_uptodate :=
              if s.disk_ok (s.b x).b_dev (s.b x).b_blocknr then true
              else (s.b x).b_uptodate }) ∧
      (∀ x, (∀ l, x ∉ s.lru_list l) → s'.b x = s.b x) ∧
      s'.lru_list = s.lru_list ∧ s'.free_list = s.free_list ∧
      s'.hash_table = s.hash_table ∧ s'.unused_list = s.unused_list := by
  obtain ⟨s', e, hrest, hon, hoff⟩ :=
    invalidate_buffers_run dev s (reachable_tally h) (reachable_inv h)
  have hcase : ∀ x, s'.b x = invalidate_head dev s.disk_ok (s.b x) ∨ s'.b x = s.b x := by
    intro x
    by_cases hx : ∃ l, x ∈ s.lru_list l
    · obtain ⟨l, hl⟩ := hx
      exact Or.inl (hon l x hl)
    · exact Or.inr (hoff x fun l hl => hx ⟨l, hl⟩)
  refine ⟨s', e, fun l x hx hd hc => ?_, fun x hd => ?_, fun x hc hl => ?_,
    fun l x hx hd hc hl => ?_, hoff, by rw [hrest], by rw [hrest], by rw [hrest],
    by rw [hrest]⟩
  · rw [hon l x hx]
    unfold invalidate_head
    rw [if_neg (not_not.mpr hd)]
    by_cases hl : (s.b x).b_lock = true
    · rw [if_pos hl, if_neg (not_not.mpr hc)]
      exact ⟨rfl, rfl, rfl, rfl, rfl⟩
    · rw [if_neg hl, if_neg (not_not.mpr hc)]
      exact ⟨rfl, rfl, rfl, rfl, Bool.eq_false_iff.mpr hl⟩
  · rcases hcase x with hx | hx
    · rw [hx]
      unfold invalidate_head
      rw [if_pos hd]
    · exact hx
  · rcases hcase x with hx | hx
    · rw [hx]
      unfold invalidate_head
      by_cases hd : (s.b x).b_dev ≠ dev
      · rw [if_pos hd]
      · rw [if_neg hd, if_neg (by rw [hl]; exact Bool.false_ne_true), if_pos hc]
    · exact hx
  · rw [hon l x hx]
    unfold invalidate_head
    rw [if_neg (not_not.mpr hd), if_pos hl, if_pos hc]

/-- Witness for C20: in the reachable state in which head 61 holds block 1 of the disk
`0x301`, written, up to date and unreferenced on the LOCKED1 list,
`invalidate_buffers(0x301)` returns with the flags and the deadline of head 61 cleared. -/
theorem invalidate_buffers_clears_witness :
    (disk2_written.b 61).b_uptodate = true ∧
      ∃ s', invalidate_buffers 0x301 disk2_written = .ok () s' ∧
        (s'.b 61).b_uptodate = false ∧ (s'.b 61).b_dirt = false ∧ (s'.b 61).b_req = false ∧
        (s'.b 61).b_flushtime = 0 := by
  refine ⟨by decide!, ?_⟩
  obtain ⟨s', e, h1, _⟩ := invalidate_buffers_clears 0x301 disk2_written disk2_written_reachable
  have := h1 BUF_LOCKED1 61 (by decide!) (by decide!) (by decide!)
  exact ⟨s', e, this.1, this.2.1, this.2.2.1, this.2.2.2.1⟩

theorem ring_remove_idem (l : List Nat) (x : Nat) :
    ring_remove (ring_remove l x) x = ring_remove l x := by
  unfold ring_remove
  rw [List.filter_filter]
  simp

theorem Touched.pre_tc {x : Nat} : Pre (Touched x) := by
  refine ⟨fun s => ⟨rfl, fun y _ => ⟨_, rfl⟩, Or.inl rfl⟩, fun s s' s'' h h' => ?_⟩
  refine ⟨h'.jiffies.trans h.jiffies, fun y hy => ?_, ?_⟩
  · obtain ⟨r, hr⟩ := h.heads y hy
    obtain ⟨r', hr'⟩ := h'.heads y hy
    exact ⟨r', by rw [hr', hr]⟩
  · rcases h.dirty with h1 | h1 <;> rcases h'.dirty with h2 | h2
    · exact Or.inl (h2.trans h1)
    · exact Or.inr (by rw [h2, h1])
    · exact Or.inr (h2.trans h1)
    · exact Or.inr (by rw [h2, h1, ring_remove_idem])

theorem touched_setB_R (x : Nat) (f : buffer_head → buffer_head) :
    KeepsR (Touched x) (setB x f) :=
  KeepsR.setB_R _ _ fun s => ⟨rfl, fun y hy => ⟨_, by
    show upd s.b x _ y = _
    rw [upd_other _ _ _ _ hy]⟩, Or.inl rfl⟩

theorem touched_setB_next (x y : Nat) (f : buffer_head → buffer_head)
    (hf : ∀ v, ∃ r, f v = { v with b_reqnext := r }) : KeepsR (Touched x) (setB y f) :=
  KeepsR.setB_R _ _ fun s => ⟨rfl, fun z _ => by
    show ∃ r, upd s.b y (f (s.b y)) z = _
    by_cases hz : z = y
    · subst hz
      rw [upd_same]
      exact hf _
    · rw [upd_other _ _ _ _ hz]
      exact ⟨_, rfl⟩, Or.inl rfl⟩

theorem touched_printk (x : Nat) (m : Kmsg) : KeepsR (Touched x) (printk m) :=
  KeepsR.modS_R _ fun _ => ⟨rfl, fun _ _ => ⟨_, rfl⟩, Or.inl rfl⟩

theorem touched_end_buffer_io (x : Nat) : KeepsR (Touched x) (end_buffer_io x) := by
  intro s a s' e
  unfold end_buffer_io at e
  exact touched_setB_R x _ s a s' e

theorem touched_wait_on_buffer_loop (x : Nat) : KeepsR (Touched x) (__wait_on_buffer x) := by
  unfold __wait_on_buffer
  repeat' first
    | with_reducible exact KeepsR.pure_R Touched.pre_tc _
    | with_reducible exact KeepsR.kpanic_R _
    | with_reducible exact KeepsR.khang_R
    | with_reducible exact touched_end_buffer_io _
    | ((with_reducible refine KeepsR.modS_R _ fun _ => ?_); exact ⟨rfl, fun _ _ => ⟨_, rfl⟩, Or.inl rfl⟩)
    | with_reducible exact touched_setB_R _ _
    | ((with_reducible refine touched_setB_next _ _ _ ?_); intro _; exact ⟨_, rfl⟩)
    | ((with_reducible refine KeepsR.setR_R _ _ fun _ => ?_); exact ⟨rfl, fun _ _ => ⟨_, rfl⟩, Or.inl rfl⟩)
    | with_reducible refine KeepsR.getS_bind_R fun _ => ?_
    | with_reducible refine KeepsR.bind_R Touched.pre_tc ?_ fun _ => ?_
    | ((try dsimp only); rw [ite_bind_jp])
    | with_reducible refine KeepsR.ite_R (fun _ => ?_) fun _ => ?_
    | dsimp only
    | split

theorem touched_lock_buffer (x : Nat) : KeepsR (Touched x) (lock_buffer x) := by
  unfold lock_buffer
  repeat' first
    | with_reducible exact KeepsR.pure_R Touched.pre_tc _
    | with_reducible exact KeepsR.kpanic_R _
    | with_reducible exact KeepsR.khang_R
    | with_reducible exact touched_wait_on_buffer_loop _
    | ((with_reducible refine KeepsR.modS_R _ fun _ => ?_); exact ⟨rfl, fun _ _ => ⟨_, rfl⟩, Or.inl rfl⟩)
    | with_reducible exact touched_setB_R _ _
    | ((with_reducible refine touched_setB_next _ _ _ ?_); intro _; exact ⟨_, rfl⟩)
    | ((with_reducible refine KeepsR.setR_R _ _ fun _ => ?_); exact ⟨rfl, fun _ _ => ⟨_, rfl⟩, Or.inl rfl⟩)
    | with_reducible refine KeepsR.getS_bind_R fun _ => ?_
    | with_reducible refine KeepsR.bind_R Touched.pre_tc ?_ fun _ => ?_
    | ((try dsimp only); rw [ite_bind_jp])
    | with_reducible refine KeepsR.ite_R (fun _ => ?_) fun _ => ?_
    | dsimp only
    | split

theorem touched_unlock_buffer (x : Nat) : KeepsR (Touched x) (unlock_buffer x) := by
  unfold unlock_buffer
  repeat' first
    | with_reducible exact KeepsR.pure_R Touched.pre_tc _
    | with_reducible exact KeepsR.kpanic_R _
    | with_reducible exact KeepsR.khang_R
    | ((with_reducible refine KeepsR.modS_R _ fun _ => ?_); exact ⟨rfl, fun _ _ => ⟨_, rfl⟩, Or.inl rfl⟩)
    | with_reducible exact touched_setB_R _ _
    | ((with_reducible refine touched_setB_next _ _ _ ?_); intro _; exact ⟨_, rfl⟩)
    | ((with_reducible refine KeepsR.setR_R _ _ fun _ => ?_); exact ⟨rfl, fun _ _ => ⟨_, rfl⟩, Or.inl rfl⟩)
    | with_reducible refine KeepsR.getS_bind_R fun _ => ?_
    | with_reducible refine KeepsR.bind_R Touched.pre_tc ?_ fun _ => ?_
    | ((try dsimp only); rw [ite_bind_jp])
    | with_reducible refine KeepsR.ite_R (fun _ => ?_) fun _ => ?_
    | dsimp only
    | split

theorem touched_remove_from_queues (x : Nat) : KeepsR (Touched x) (remove_from_queues x) := by
  intro s a s' e
  by_cases hd : (s.b x).b_dev = B_FREE
  · simp only [remove_from_queues, bind_run, getS_run, ite_run, if_pos hd, remove_from_free_list,
      modS_run, kpanic_run] at e
    split_ifs at e
    cases e
    exact ⟨rfl, fun _ _ => ⟨_, rfl⟩, Or.inl rfl⟩
  · simp only [remove_from_queues, bind_run, getS_run, ite_run, modS_run, if_neg hd,
      remove_from_hash_queue, remove_from_lru_list, kpanic_run] at e
    split_ifs at e with h1
    cases e
    refine ⟨rfl, fun _ _ => ⟨_, rfl⟩, ?_⟩
    by_cases hl : (s.b x).b_list = BUF_DIRTY
    · right
      show upd s.lru_list _ _ BUF_DIRTY = _
      rw [hl, upd_same]
    · left
      show upd s.lru_list _ _ BUF_DIRTY = _
      rw [upd_other _ _ _ _ (Ne.symm hl)]

theorem touched_insert_into_queues (x : Nat) (s : State) (hl : (s.b x).b_list ≠ BUF_DIRTY) :
    KeepsAt (Touched x) (insert_into_queues x) s := by
  intro a s' e
  by_cases hd : (s.b x).b_dev = B_FREE
  · simp only [insert_into_queues, bind_run, getS_run, ite_run, if_pos hd, put_last_free,
      modS_run, pure_run, setB_run] at e
    split_ifs at e
    · cases e
      exact Touched.pre_tc.refl s
    · cases e
      refine ⟨rfl, fun y hy => ⟨(s.b y).b_reqnext, ?_⟩, Or.inl rfl⟩
      show upd s.b x _ y = _
      rw [upd_other _ _ _ _ hy]
  · simp only [insert_into_queues, bind_run, getS_run, ite_run, modS_run, pure_run, kpanic_run,
      if_neg hd] at e
    split_ifs at e with h1 h2
    · cases e
      refine ⟨rfl, fun _ _ => ⟨_, rfl⟩, Or.inl ?_⟩
      show upd s.lru_list _ _ BUF_DIRTY = _
      rw [upd_other _ _ _ _ (Ne.symm hl)]
    · cases e
      refine ⟨rfl, fun _ _ => ⟨_, rfl⟩, Or.inl ?_⟩
      show upd s.lru_list _ _ BUF_DIRTY = _
      rw [upd_other _ _ _ _ (Ne.symm hl)]

/-- On a clean buffer `refile_buffer` moves that buffer and no other, and does not wake
the flush daemon. -/
theorem refile_clean_touched (fuel x : Nat) (s : State) (hd : (s.b x).b_dirt = false) :
    KeepsAt (Touched x) (refile_buffer fuel x) s := by
  cases fuel with
  | zero => exact KeepsAt.khang_A s
  | succ fuel =>
    have hne := refile_dispose_clean hd
    have hp : Pre (Touched x) := Touched.pre_tc
    show KeepsAt (Touched x) (refile_buffer_body (refile_buffer fuel) fuel x) s
    unfold refile_buffer_body
    refine KeepsAt.getS_bind_A ?_
    refine KeepsAt.ite_A (fun _ => KeepsAt.kpanic_A _ _) fun hdev => ?_
    dsimp only
    rw [ite_bind_jp]
    refine KeepsAt.bind_A hp (KeepsAt.ite_A (fun _ => (touched_setB_R x _).at_R s)
      fun _ => KeepsAt.pure_A hp _ _) ?_
    intro _ s1 _ h1
    refine KeepsAt.ite_A (fun _ => ?_) fun _ => KeepsAt.pure_A hp _ _
    rw [ite_bind_jp]
    refine KeepsAt.bind_A hp (KeepsAt.ite_A (fun _ => (touched_setB_R x _).at_R s1)
      fun _ => KeepsAt.pure_A hp _ _) ?_
    intro _ s2 _ h2
    refine KeepsAt.getS_bind_A ?_
    refine KeepsAt.bind_A hp ((touched_remove_from_queues x).at_R s2) ?_
    intro _ s3 _ h3
    refine KeepsAt.bind_A hp ((touched_setB_R x _).at_R s3) ?_
    intro _ s4 e4 h4
    refine KeepsAt.bind_A hp (touched_insert_into_queues x s4 ?_) ?_
    · cases e4
      show (upd s3.b x _ x).b_list ≠ BUF_DIRTY
      rw [upd_same]
      exact fun hw => hne (locked1_dirty _ _ hw)
    intro _ s5 _ h5
    refine KeepsAt.getS_bind_A ?_
    rw [if_neg fun hw => hne (locked1_dirty _ _ hw.1)]
    exact KeepsAt.pure_A hp _ _

theorem touched_mark_buffer_clean (fuel x : Nat) :
    KeepsR (Touched x) (mark_buffer_clean (refile_buffer fuel) x) := by
  intro s
  have hp : Pre (Touched x) := Touched.pre_tc
  show KeepsAt (Touched x) _ s
  unfold mark_buffer_clean
  refine KeepsAt.getS_bind_A ?_
  refine KeepsAt.ite_A (fun _ => ?_) fun _ => KeepsAt.pure_A hp _ _
  refine KeepsAt.bind_A hp ((touched_setB_R x _).at_R s) ?_
  intro _ s1 e1 h1
  refine KeepsAt.ite_A (fun _ => ?_) fun _ => KeepsAt.pure_A hp _ _
  refine refile_clean_touched fuel x s1 ?_
  cases e1
  show (upd s.b x _ x).b_dirt = false
  rw [upd_same]

theorem touched_add_request_kstat (x rdev : Nat) : KeepsR (Touched x) (add_request_kstat rdev) := by
  unfold add_request_kstat
  refine KeepsR.modS_R _ fun s => ?_
  dsimp only
  split_ifs <;> exact ⟨rfl, fun _ _ => ⟨_, rfl⟩, Or.inl rfl⟩

theorem touched_call_request_fn (x major : Nat) : KeepsR (Touched x) (call_request_fn major) := by
  unfold call_request_fn
  repeat' first
    | with_reducible exact KeepsR.pure_R Touched.pre_tc _
    | with_reducible exact KeepsR.kpanic_R _
    | with_reducible exact KeepsR.khang_R
    | ((with_reducible refine KeepsR.modS_R _ fun _ => ?_); exact ⟨rfl, fun _ _ => ⟨_, rfl⟩, Or.inl rfl⟩)
    | with_reducible exact touched_setB_R _ _
    | ((with_reducible refine touched_setB_next _ _ _ ?_); intro _; exact ⟨_, rfl⟩)
    | ((with_reducible refine KeepsR.setR_R _ _ fun _ => ?_); exact ⟨rfl, fun _ _ => ⟨_, rfl⟩, Or.inl rfl⟩)
    | with_reducible refine KeepsR.getS_bind_R fun _ => ?_
    | with_reducible refine KeepsR.bind_R Touched.pre_tc ?_ fun _ => ?_
    | ((try dsimp only); rw [ite_bind_jp])
    | with_reducible refine KeepsR.ite_R (fun _ => ?_) fun _ => ?_
    | dsimp only
    | split

theorem touched_add_request (fuel major req x : Nat) (s : State)
    (hb : (s.all_requests req).bh = x) :
    KeepsAt (Touched x) (add_request (refile_buffer fuel) major req) s := by
  intro a s' e
  unfold add_request at e
  rw [bind_run, getS_run] at e
  dsimp only at e
  rw [hb] at e
  refine (?_ : KeepsR (Touched x) _) s a s' e
  repeat' first
    | with_reducible exact KeepsR.pure_R Touched.pre_tc _
    | with_reducible exact KeepsR.kpanic_R _
    | with_reducible exact KeepsR.khang_R
    | with_reducible exact touched_add_request_kstat _ _
    | with_reducible exact touched_mark_buffer_clean _ _
    | with_reducible exact touched_call_request_fn _ _
    | ((with_reducible refine KeepsR.modS_R _ fun _ => ?_); exact ⟨rfl, fun _ _ => ⟨_, rfl⟩, Or.inl rfl⟩)
    | with_reducible exact touched_setB_R _ _
    | ((with_reducible refine touched_setB_next _ _ _ ?_); intro _; exact ⟨_, rfl⟩)
    | ((with_reducible refine KeepsR.setR_R _ _ fun _ => ?_); exact ⟨rfl, fun _ _ => ⟨_, rfl⟩, Or.inl rfl⟩)
    | with_reducible refine KeepsR.getS_bind_R fun _ => ?_
    | with_reducible refine KeepsR.bind_R Touched.pre_tc ?_ fun _ => ?_
    | ((try dsimp only); rw [ite_bind_jp])
    | with_reducible refine KeepsR.ite_R (fun _ => ?_) fun _ => ?_
    | dsimp only
    | split

theorem touched_get_request_loop (x n prev_found fuel req : Nat) :
    KeepsR (Touched x) (get_request_loop n prev_found fuel req) := by
  induction fuel generalizing req with
  | zero => exact KeepsR.khang_R
  | succ fuel ih =>
    unfold get_request_loop
    repeat' first
      | with_reducible exact KeepsR.pure_R Touched.pre_tc _
      | with_reducible exact KeepsR.kpanic_R _
      | with_reducible exact KeepsR.khang_R
      | with_reducible exact ih _
      | ((with_reducible refine KeepsR.modS_R _ fun _ => ?_); exact ⟨rfl, fun _ _ => ⟨_, rfl⟩, Or.inl rfl⟩)
      | with_reducible exact touched_setB_R _ _
      | ((with_reducible refine touched_setB_next _ _ _ ?_); intro _; exact ⟨_, rfl⟩)
      | ((with_reducible refine KeepsR.setR_R _ _ fun _ => ?_); exact ⟨rfl, fun _ _ => ⟨_, rfl⟩, Or.inl rfl⟩)
      | with_reducible refine KeepsR.getS_bind_R fun _ => ?_
      | with_reducible refine KeepsR.bind_R Touched.pre_tc ?_ fun _ => ?_
      | ((try dsimp only); rw [ite_bind_jp])
      | with_reducible refine KeepsR.ite_R (fun _ => ?_) fun _ => ?_
      | dsimp only
      | split

theorem touched_get_request (x fuel n : Nat) (dev : Int) :
    KeepsR (Touched x) (get_request fuel n dev) := by
  unfold get_request
  repeat' first
    | with_reducible exact KeepsR.pure_R Touched.pre_tc _
    | with_reducible exact KeepsR.kpanic_R _
    | with_reducible exact KeepsR.khang_R
    | with_reducible exact touched_get_request_loop _ _ _ _ _
    | ((with_reducible refine KeepsR.modS_R _ fun _ => ?_); exact ⟨rfl, fun _ _ => ⟨_, rfl⟩, Or.inl rfl⟩)
    | with_reducible exact touched_setB_R _ _
    | ((with_reducible refine touched_setB_next _ _ _ ?_); intro _; exact ⟨_, rfl⟩)
    | ((with_reducible refine KeepsR.setR_R _ _ fun _ => ?_); exact ⟨rfl, fun _ _ => ⟨_, rfl⟩, Or.inl rfl⟩)
    | with_reducible refine KeepsR.getS_bind_R fun _ => ?_
    | with_reducible refine KeepsR.bind_R Touched.pre_tc ?_ fun _ => ?_
    | ((try dsimp only); rw [ite_bind_jp])
    | with_reducible refine KeepsR.ite_R (fun _ => ?_) fun _ => ?_
    | dsimp only
    | split

theorem touched_queue_request (f major req x : Nat) (g : request → request)
    (hg : ∀ r, (g r).bh = x) :
    KeepsR (Touched x) (setR req g >>= fun _ => add_request (refile_buffer f) major req) := by
  intro s a s' e
  obtain ⟨a1, s1, e1, e⟩ := bind_inv e
  have h1 : Touched x s s1 := by
    cases e1
    exact ⟨rfl, fun _ _ => ⟨_, rfl⟩, Or.inl rfl⟩
  refine Touched.pre_tc.trans _ _ _ h1 (touched_add_request f major req x s1 ?_ a s' e)
  cases e1
  show (upd s.all_requests req _ req).bh = x
  rw [upd_same]
  exact hg _

theorem touched_make_request_queue (f fuel major : Nat) (rw : Rw) (ra : Bool)
    (x sector count : Nat) :
    KeepsR (Touched x)
      (make_request_queue (refile_buffer f) fuel major rw ra x sector count) := by
  unfold make_request_queue
  repeat' first
    | with_reducible exact KeepsR.pure_R Touched.pre_tc _
    | with_reducible exact KeepsR.kpanic_R _
    | with_reducible exact KeepsR.khang_R
    | ((with_reducible refine touched_queue_request _ _ _ _ _ ?_); intro _; rfl)
    | with_reducible exact touched_get_request _ _ _ _
    | with_reducible exact touched_mark_buffer_clean _ _
    | with_reducible exact touched_unlock_buffer _
    | ((with_reducible refine KeepsR.modS_R _ fun _ => ?_); exact ⟨rfl, fun _ _ => ⟨_, rfl⟩, Or.inl rfl⟩)
    | with_reducible exact touched_setB_R _ _
    | ((with_reducible refine touched_setB_next _ _ _ ?_); intro _; exact ⟨_, rfl⟩)
    | ((with_reducible refine KeepsR.setR_R _ _ fun _ => ?_); exact ⟨rfl, fun _ _ => ⟨_, rfl⟩, Or.inl rfl⟩)
    | with_reducible refine KeepsR.getS_bind_R fun _ => ?_
    | with_reducible refine KeepsR.bind_R Touched.pre_tc ?_ fun _ => ?_
    | ((try dsimp only); rw [ite_bind_jp])
    | with_reducible refine KeepsR.ite_R (fun _ => ?_) fun _ => ?_
    | dsimp only
    | split

theorem touched_make_request (f fuel major : Nat) (rw : Rw) (x : Nat) :
    KeepsR (Touched x) (make_request (refile_buffer f) fuel major rw x) := by
  unfold make_request
  repeat' first
    | with_reducible exact KeepsR.pure_R Touched.pre_tc _
    | with_reducible exact KeepsR.kpanic_R _
    | with_reducible exact KeepsR.khang_R
    | with_reducible exact touched_lock_buffer _
    | with_reducible exact touched_unlock_buffer _
    | with_reducible exact touched_make_request_queue _ _ _ _ _ _ _ _
    | ((with_reducible refine KeepsR.modS_R _ fun _ => ?_); exact ⟨rfl, fun _ _ => ⟨_, rfl⟩, Or.inl rfl⟩)
    | with_reducible exact touched_setB_R _ _
    | ((with_reducible refine touched_setB_next _ _ _ ?_); intro _; exact ⟨_, rfl⟩)
    | ((with_reducible refine KeepsR.setR_R _ _ fun _ => ?_); exact ⟨rfl, fun _ _ => ⟨_, rfl⟩, Or.inl rfl⟩)
    | with_reducible refine KeepsR.getS_bind_R fun _ => ?_
    | with_reducible refine KeepsR.bind_R Touched.pre_tc ?_ fun _ => ?_
    | ((try dsimp only); rw [ite_bind_jp])
    | with_reducible refine KeepsR.ite_R (fun _ => ?_) fun _ => ?_
    | dsimp only
    | split

theorem touched_sorry_exit (x : Nat) : KeepsR (Touched x) ( ll_rw_block_sorry [x]) := by
  unfold ll_rw_block_sorry ll_rw_block_sorry
  repeat' first
    | with_reducible exact KeepsR.pure_R Touched.pre_tc _
    | with_reducible exact KeepsR.kpanic_R _
    | with_reducible exact KeepsR.khang_R
    | ((with_reducible refine KeepsR.modS_R _ fun _ => ?_); exact ⟨rfl, fun _ _ => ⟨_, rfl⟩, Or.inl rfl⟩)
    | with_reducible exact touched_setB_R _ _
    | ((with_reducible refine touched_setB_next _ _ _ ?_); intro _; exact ⟨_, rfl⟩)
    | ((with_reducible refine KeepsR.setR_R _ _ fun _ => ?_); exact ⟨rfl, fun _ _ => ⟨_, rfl⟩, Or.inl rfl⟩)
    | with_reducible refine KeepsR.getS_bind_R fun _ => ?_
    | with_reducible refine KeepsR.bind_R Touched.pre_tc ?_ fun _ => ?_
    | ((try dsimp only); rw [ite_bind_jp])
    | with_reducible refine KeepsR.ite_R (fun _ => ?_) fun _ => ?_
    | dsimp only
    | split

theorem touched_ll_rw_block_loop (f fuel major : Nat) (rw : Rw) (x : Nat) :
    KeepsR (Touched x) (ll_rw_block_loop (refile_buffer f) fuel major rw [x]) := by
  unfold ll_rw_block_loop ll_rw_block_loop
  repeat' first
    | with_reducible exact KeepsR.pure_R Touched.pre_tc _
    | with_reducible exact KeepsR.kpanic_R _
    | with_reducible exact KeepsR.khang_R
    | with_reducible exact touched_make_request _ _ _ _ _
    | ((with_reducible refine KeepsR.modS_R _ fun _ => ?_); exact ⟨rfl, fun _ _ => ⟨_, rfl⟩, Or.inl rfl⟩)
    | with_reducible exact touched_setB_R _ _
    | ((with_reducible refine touched_setB_next _ _ _ ?_); intro _; exact ⟨_, rfl⟩)
    | ((with_reducible refine KeepsR.setR_R _ _ fun _ => ?_); exact ⟨rfl, fun _ _ => ⟨_, rfl⟩, Or.inl rfl⟩)
    | with_reducible refine KeepsR.getS_bind_R fun _ => ?_
    | with_reducible refine KeepsR.bind_R Touched.pre_tc ?_ fun _ => ?_
    | ((try dsimp only); rw [ite_bind_jp])
    | with_reducible refine KeepsR.ite_R (fun _ => ?_) fun _ => ?_
    | dsimp only
    | split

/-- The write of one buffer changes that buffer and no other, but for the request link of
the buffer it is queued behind. -/
theorem touched_ll_rw_block (f fuel : Nat) (rw : Rw) (x : Nat) (h0 : x ≠ 0) :
    KeepsR (Touched x) (ll_rw_block (refile_buffer f) fuel rw [x]) := by
  have hdw : [x].dropWhile (fun y => y == 0) = [x] := by
    rw [List.dropWhile_cons_of_neg (by simp [h0])]
  unfold ll_rw_block
  rw [hdw]
  repeat' first
    | with_reducible exact KeepsR.pure_R Touched.pre_tc _
    | with_reducible exact KeepsR.kpanic_R _
    | with_reducible exact KeepsR.khang_R
    | with_reducible exact touched_printk _ _
    | with_reducible exact touched_sorry_exit _
    | with_reducible exact touched_ll_rw_block_loop _ _ _ _ _
    | with_reducible exact touched_call_request_fn _ _
    | ((with_reducible refine KeepsR.modS_R _ fun _ => ?_); exact ⟨rfl, fun _ _ => ⟨_, rfl⟩, Or.inl rfl⟩)
    | with_reducible exact touched_setB_R _ _
    | ((with_reducible refine touched_setB_next _ _ _ ?_); intro _; exact ⟨_, rfl⟩)
    | ((with_reducible refine KeepsR.setR_R _ _ fun _ => ?_); exact ⟨rfl, fun _ _ => ⟨_, rfl⟩, Or.inl rfl⟩)
    | with_reducible refine KeepsR.getS_bind_R fun _ => ?_
    | with_reducible refine KeepsR.bind_R Touched.pre_tc ?_ fun _ => ?_
    | ((try dsimp only); rw [ite_bind_jp])
    | with_reducible refine KeepsR.ite_R (fun _ => ?_) fun _ => ?_
    | dsimp only
    | split

theorem due_congr {x : Nat} {s s' : State} (h : Touched x s s') {y : Nat} (hy : y ≠ x) :
    due s' y = due s y := by
  obtain ⟨r, hr⟩ := h.heads y hy
  unfold due
  rw [hr, h.jiffies]

theorem ring_remove_split (pre post : List Nat) (x : Nat) (hn : (pre ++ x :: post).Nodup) :
    ring_remove (pre ++ x :: post) x = pre ++ post := by
  have h1 : x ∉ pre := fun h => (List.nodup_append.mp hn).2.2 h (List.mem_cons_self _ _)
  have h2 : x ∉ post := (List.nodup_cons.mp (List.nodup_append.mp hn).2.1).1
  unfold ring_remove
  rw [List.filter_append, List.filter_cons_of_neg (by simp)]
  congr 1
  · exact List.filter_eq_self.mpr fun a ha => by
      have : a ≠ x := fun h => h1 (h ▸ ha)
      simpa using this
  · exact List.filter_eq_self.mpr fun a ha => by
      have : a ≠ x := fun h => h2 (h ▸ ha)
      simpa using this

/-- After the visit of `x` the DIRTY list still has the heads behind `x` in their
places. -/
theorem Touched.behind {x : Nat} {s s' : State} (h : Touched x s s') {pre post : List Nat}
    (hl : s.lru_list BUF_DIRTY = pre ++ x :: post) (hn : (pre ++ x :: post).Nodup) (y : Nat)
    (post' : List Nat) (hp : post = y :: post') :
    ∃ pre', s'.lru_list BUF_DIRTY = pre' ++ y :: post' := by
  subst hp
  rcases h.dirty with h1 | h1
  · exact ⟨pre ++ [x], by rw [h1, hl]; simp⟩
  · exact ⟨pre, by rw [h1, hl, ring_remove_split pre _ x hn]⟩

theorem daemon2_aged_reachable : Reachable daemon2_aged := by
  have h0 : Reachable (buffer_init 10 daemon2).state :=
    Reachable.buffer_init daemon2 _ 10
      ⟨⟨fun _ => rfl, fun _ => rfl, fun _ => rfl, rfl, rfl, fun _ => rfl⟩, fun _ => rfl,
        fun _ => rfl, fun _ _ => rfl, rfl⟩
      (Res.eq_ok_unit (buffer_init 10 daemon2) (by decide!))
  have h1 : Reachable (getblk 10 0x301 1 1024 (buffer_init 10 daemon2).state).state :=
    Reachable.getblk _ _ 10 0x301 1 1024 _ h0 (by decide) (Res.eq_ok _ (by decide!))
  have h2 : Reachable daemon2_first :=
    Reachable.mark_buffer_dirty _ _ 10 61 0 h1 (Res.eq_ok_unit _ (by decide!))
  have h3 := Reachable.tick _ 2000 h2
  have h4 : Reachable (getblk 10 0x301 2 1024
      { daemon2_first with jiffies := daemon2_first.jiffies + 2000 }).state :=
    Reachable.getblk _ _ 10 0x301 2 1024 _ h3 (by decide) (Res.eq_ok _ (by decide!))
  have h5 : Reachable daemon2_second :=
    Reachable.mark_buffer_dirty _ _ 10 62 0 h4 (Res.eq_ok_unit _ (by decide!))
  exact Reachable.tick _ 1000 h5

/-- Of two requests with different keys one sorts before the other. -/
theorem IN_ORDER_total (a b : request) (h : request_key a ≠ request_key b)
    (hn : IN_ORDER a b = false) : IN_ORDER b a = true := by
  unfold IN_ORDER at hn ⊢
  unfold request_key at h
  simp only [Bool.or_eq_false_iff, Bool.and_eq_false_imp, decide_eq_false_iff_not,
    beq_iff_eq, not_lt] at hn
  simp only [Bool.or_eq_true, Bool.and_eq_true, decide_eq_true_eq, beq_iff_eq]
  obtain ⟨h1, h2⟩ := hn
  by_cases hc : b.cmd < a.cmd
  · exact Or.inl hc
  · have hce : a.cmd = b.cmd := by omega
    obtain ⟨h3, h4⟩ := h2 hce
    refine Or.inr ⟨hce.symm, ?_⟩
    by_cases hd : b.dev < a.dev
    · exact Or.inl hd
    · have hde : a.dev = b.dev := by omega
      have h5 := h4 hde
      refine Or.inr ⟨hde.symm, ?_⟩
      by_contra hs
      refine h ?_
      have : a.sector = b.sector := by omega
      rw [hce, hde, this]

theorem out_of_order_cons (s : State) (a b : Nat) (rest : List Nat) :
    out_of_order s (a :: b :: rest) =
      (if IN_ORDER (s.all_requests a) (s.all_requests b) then 0 else 1) +
        out_of_order s (b :: rest) := rfl

/-- Behind a request that sorts before `req`, a sorted queue stays sorted when the elevator
walk adds `req`. -/
theorem add_request_insert_stays (s : State) (req : Nat) : ∀ (rest : List Nat) (tmp : Nat),
    (∀ x ∈ tmp :: rest, request_key (s.all_requests x) ≠ request_key (s.all_requests req)) →
    IN_ORDER (s.all_requests tmp) (s.all_requests req) = true →
    out_of_order s (tmp :: rest) = 0 →
    out_of_order s (tmp :: add_request_insert s req tmp rest) = 0 := by
  intro rest
  induction rest with
  | nil =>
    intro tmp _ h _
    unfold add_request_insert
    rw [out_of_order_cons, if_pos h]
    rfl
  | cons nxt more ih =>
    intro tmp hk h h0
    rw [out_of_order_cons] at h0
    have h01 : IN_ORDER (s.all_requests tmp) (s.all_requests nxt) = true := by
      by_contra hc
      rw [if_neg hc] at h0
      omega
    rw [if_pos h01] at h0
    unfold add_request_insert
    by_cases hr : IN_ORDER (s.all_requests req) (s.all_requests nxt) = true
    · rw [if_pos (by rw [h, hr]; rfl), out_of_order_cons, if_pos h, out_of_order_cons,
        if_pos hr]
      omega
    · rw [if_neg (by rw [h, Bool.eq_false_iff.mpr hr]; simp), out_of_order_cons, if_pos h01]
      have hn : IN_ORDER (s.all_requests nxt) (s.all_requests req) = true :=
        IN_ORDER_total _ _ (fun e => hk nxt (by simp) e.symm) (Bool.eq_false_iff.mpr hr)
      have := ih nxt (fun x hx => hk x (List.mem_cons_of_mem _ hx)) hn (by omega)
      omega

/-- The elevator walk of `add_request` adds no second pair that is out of order. -/
theorem add_request_insert_wrap (s : State) (req : Nat) : ∀ (rest : List Nat) (tmp : Nat),
    (∀ x ∈ tmp :: rest, request_key (s.all_requests x) ≠ request_key (s.all_requests req)) →
    out_of_order s (tmp :: rest) ≤ 1 →
    out_of_order s (tmp :: add_request_insert s req tmp rest) ≤ 1 := by
  intro rest
  induction rest with
  | nil =>
    intro tmp _ _
    unfold add_request_insert
    rw [out_of_order_cons]
    have : out_of_order s [req] = 0 := rfl
    split_ifs <;> omega
  | cons nxt more ih =>
    intro tmp hk h1
    rw [out_of_order_cons] at h1
    unfold add_request_insert
    by_cases hc : ((IN_ORDER (s.all_requests tmp) (s.all_requests req) ||
        !IN_ORDER (s.all_requests tmp) (s.all_requests nxt)) &&
        IN_ORDER (s.all_requests req) (s.all_requests nxt)) = true
    · rw [if_pos hc, out_of_order_cons, out_of_order_cons]
      simp only [Bool.and_eq_true, Bool.or_eq_true, Bool.not_eq_true'] at hc
      rw [if_pos hc.2]
      rcases hc.1 with h | h
      · rw [if_pos h]
        omega
      · rw [if_neg (by rw [h]; exact Bool.false_ne_true)] at h1
        split_ifs <;> omega
    · rw [if_neg hc, out_of_order_cons]
      by_cases h01 : IN_ORDER (s.all_requests tmp) (s.all_requests nxt) = true
      · rw [if_pos h01] at h1 ⊢
        have := ih nxt (fun x hx => hk x (List.mem_cons_of_mem _ hx)) (by omega)
        omega
      · rw [if_neg h01] at h1 ⊢
        have hr : IN_ORDER (s.all_requests req) (s.all_requests nxt) = false := by
          rw [Bool.eq_false_iff.mpr h01] at hc
          simpa using hc
        have hn : IN_ORDER (s.all_requests nxt) (s.all_requests req) = true :=
          IN_ORDER_total _ _ (fun e => hk nxt (by simp) e.symm) hr
        have := add_request_insert_stays s req more nxt
          (fun x hx => hk x (List.mem_cons_of_mem _ hx)) hn (by omega)
        omega

theorem out_of_order_congr (s s' : State) (h : s'.all_requests = s.all_requests) :
    ∀ l, out_of_order s' l = out_of_order s l := by
  intro l
  induction l with
  | nil => rfl
  | cons a rest ih =>
    cases rest with
    | nil => rfl
    | cons b rest =>
      rw [out_of_order_cons, out_of_order_cons, ih, h]

/-- C27: a device queue that holds, from head to tail, at most one adjacent pair out of order
under `IN_ORDER` (a single wrap of the elevator) holds at most one such pair after
`add_request` has added a request whose key (command, device, sector) differs from the
key of every queued request; and `add_request` returns (for a request without buffer or
with a linked one).  The keys of the queued requests need not differ from each other. -/
theorem add_request_keeps_one_wrap (fuel major req : Nat) (s : State) (hI : Inv s)
    (hb : (s.all_requests req).bh = 0 ∨ Linked s (s.all_requests req).bh)
    (hk : ∀ x ∈ s.current_request major,
      request_key (s.all_requests x) ≠ request_key (s.all_requests req))
    (h1 : out_of_order s (s.current_request major) ≤ 1) :
    ∃ s', add_request (refile_buffer (fuel + 1)) major req s = .ok () s' ∧
      s'.current_request major = queue_add s major req ∧
      out_of_order s' (s'.current_request major) ≤ 1 := by
  obtain ⟨s', e⟩ := add_request_runs fuel major req s hI hb
  obtain ⟨hr, hq', -, -⟩ := add_request_queue (fuel + 1) major req s s' e
  have hq : s'.current_request major = queue_add s major req := by
    rw [hq', upd_same]
  refine ⟨s', e, hq, ?_⟩
  rw [hq, out_of_order_congr s s' hr]
  unfold queue_add
  cases hc : s.current_request major with
  | nil => exact Nat.zero_le _
  | cons tmp rest =>
    rw [hc] at hk h1
    exact add_request_insert_wrap s req rest tmp hk h1

/-- Witness for C27: the queue of `three_requests` holds slot 0 (READ, sector 500) and slot 2
(READ, sector 100), one pair out of order; slot 1 (WRITE, sector 200) is added behind
slot 2, and one pair is out of order afterwards. -/
theorem add_request_keeps_one_wrap_witness :
    out_of_order { three_requests with current_request := fun m => if m = 3 then [0, 2] else [] }
        [0, 2] = 1 ∧
    ∃ s', add_request (refile_buffer 1) 3 1
        { three_requests with current_request := fun m => if m = 3 then [0, 2] else [] }
        = .ok () s' ∧
      s'.current_request 3 = queue_add
        { three_requests with current_request := fun m => if m = 3 then [0, 2] else [] } 3 1 ∧
      out_of_order s' (s'.current_request 3) ≤ 1 :=
  ⟨by decide, add_request_keeps_one_wrap 0 3 1
    { three_requests with current_request := fun m => if m = 3 then [0, 2] else [] }
    (EmptyCache.inv_ec ⟨fun _ => rfl, fun _ => rfl, fun _ => rfl, rfl, rfl, fun _ => rfl⟩)
    (Or.inl rfl) (by decide) (by decide)⟩

theorem small_disk_last_reachable : Reachable small_disk_last := by
  have h0 : Reachable (buffer_init 10 small_disk).state :=
    Reachable.buffer_init small_disk _ 10
      ⟨⟨fun _ => rfl, fun _ => rfl, fun _ => rfl, rfl, rfl, fun _ => rfl⟩, fun _ => rfl,
        fun _ => rfl, fun _ _ => rfl, rfl⟩
      (Res.eq_ok_unit (buffer_init 10 small_disk) (by decide!))
  exact Reachable.getblk _ _ 10 0x301 20 512 _ h0 (by decide) (Res.eq_ok _ (by decide!))

theorem small_disk_beyond_reachable : Reachable small_disk_beyond :=
  Reachable.getblk _ _ 10 0x301 21 512 _ small_disk_last_reachable (by decide)
    (Res.eq_ok _ (by decide!))

/-- The test of `make_request` against the size of the device. -/
theorem make_request_too_far (rb : Nat → K Unit) (fuel major : Nat) (rw : Rw) (bh : Nat)
    (s : State) (S : Int)
    (hsz : (s.blk_size major).map (fun sz => sz (MINOR (s.b bh).b_dev)) = some S)
    (hra : (rw = .READA ∨ rw = .WRITEA) → (s.b bh).b_lock = false)
    (hfar : S % 4294967296 <
      ((((((s.b bh).b_blocknr * ((s.b bh).b_size >>> 9)) % 4294967296 +
        ((s.b bh).b_size >>> 9)) % 4294967296) >>> 1 : Nat) : Int)) :
    make_request rb fuel major rw bh s = 
      setB bh (fun h => { h with b_dirt := false, b_uptodate := false, b_req := false }) s := by
  unfold make_request
  rw [bind_run, getS_run]
  dsimp only
  rw [if_neg (fun h => by
    have h1 := hra (of_decide_eq_true h.1)
    rw [h1] at h
    exact Bool.false_ne_true h.2)]
  cases hb : s.blk_size major with
  | none =>
    rw [hb] at hsz
    cases hsz
  | some sz =>
    rw [hb] at hsz
    have hS : sz (MINOR (s.b bh).b_dev) = S := Option.some.inj hsz
    dsimp only
    rw [hS, if_pos (decide_eq_true hfar)]

/-- C29 (counterexample): the disk `0x301` of `small_disk` has a size table entry of 10
blocks of 1024 bytes, the sectors 0 to 19.  Head 53 is the 512-byte buffer of block 20,
so its sector range is `[20, 21)` and reaches sector 20 = 2*S.  `make_request` does not
drop it: `(20 + 1) >> 1 = 10` is not greater than 10, a request for sector 20 is queued
with the buffer in it, and the buffer is locked with its requested flag as it was. -/
theorem make_request_queues_past_end :
    Reachable small_disk_last ∧
      (small_disk_last.blk_size 3).map (fun sz => sz (MINOR 0x301)) = some 10 ∧
      (small_disk_last.b 53).b_dev = 0x301 ∧ (small_disk_last.b 53).b_blocknr = 20 ∧
      (small_disk_last.b 53).b_size >>> 9 = 1 ∧
      small_disk_last.current_request 3 = [] ∧
      (make_request (refile_buffer 10) 10 3 .READ 53 small_disk_last).isOk = true ∧
      (make_request (refile_buffer 10) 10 3 .READ 53 small_disk_last).state.current_request 3
        = [63] ∧
      ((make_request (refile_buffer 10) 10 3 .READ 53 small_disk_last).state.all_requests
        63).sector = 20 ∧
      ((make_request (refile_buffer 10) 10 3 .READ 53 small_disk_last).state.all_requests
        63).bh = 53 ∧
      ((make_request (refile_buffer 10) 10 3 .READ 53 small_disk_last).state.b 53).b_lock
        = true ∧
      (ll_rw_block (refile_buffer 10) 10 .READ [53] small_disk_last).state.current_request 3
        = [63] :=
  ⟨small_disk_last_reachable, by decide!, by decide!, by decide!, by decide!, by decide!,
    by decide!, by decide!, by decide!, by decide!, by decide!, by decide!⟩

/-- C29 (amended): for a device with a size table entry (`blk_size[major]` set, size `S`
in units of 1024 bytes) `make_request` drops a buffer on the test
`S < (sector + count) >> 1` in unsigned 32-bit arithmetic, with
`sector = b_blocknr * count` and `count = b_size >> 9` (for read-ahead: when the buffer is
not locked).  The dropped buffer has its dirty, uptodate and requested flags cleared and
nothing else changes: no request is made and no queue changes.  So a buffer is dropped
when its sector range ends at or beyond sector `2*S + 2` (and the products do not
overflow 32 bits); a buffer that ends at sector `2*S + 1` passes the test. -/
theorem make_request_drops_beyond_end (rb : Nat → K Unit) (fuel major : Nat) (rw : Rw)
    (bh : Nat) (s : State) (S : Int)
    (hsz : (s.blk_size major).map (fun sz => sz (MINOR (s.b bh).b_dev)) = some S)
    (hra : (rw = .READA ∨ rw = .WRITEA) → (s.b bh).b_lock = false) :
    (S % 4294967296 <
        ((((((s.b bh).b_blocknr * ((s.b bh).b_size >>> 9)) % 4294967296 +
          ((s.b bh).b_size >>> 9)) % 4294967296) >>> 1 : Nat) : Int) →
      make_request rb fuel major rw bh s = 
      setB bh (fun h => { h with b_dirt := false, b_uptodate := false, b_req := false }) s) ∧
    (0 ≤ S →
      (s.b bh).b_blocknr * ((s.b bh).b_size >>> 9) + ((s.b bh).b_size >>> 9) < 4294967296 →
      2 * S + 2 ≤
        (((s.b bh).b_blocknr * ((s.b bh).b_size >>> 9) + ((s.b bh).b_size >>> 9) : Nat) : Int) →
      make_request rb fuel major rw bh s = 
      setB bh (fun h => { h with b_dirt := false, b_uptodate := false, b_req := false }) s) := by
  refine ⟨make_request_too_far rb fuel major rw bh s S hsz hra, fun h0 hno hfar => ?_⟩
  refine make_request_too_far rb fuel major rw bh s S hsz hra ?_
  have h1 : (s.b bh).b_blocknr * ((s.b bh).b_size >>> 9) % 4294967296 =
      (s.b bh).b_blocknr * ((s.b bh).b_size >>> 9) := Nat.mod_eq_of_lt (by omega)
  rw [h1, Nat.mod_eq_of_lt hno, Nat.shiftRight_eq_div_pow, pow_one]
  omega

/-- Witness for C29: head 54 of `small_disk_beyond` is the 512-byte buffer of block 21 of
the disk of 20 sectors; it ends at sector 22 = 2*S + 2 and is dropped. -/
theorem make_request_drops_beyond_end_witness :
    (small_disk_beyond.blk_size 3).map (fun sz => sz (MINOR 0x301)) = some 10 ∧
      (small_disk_beyond.b 54).b_blocknr = 21 ∧ (small_disk_beyond.b 54).b_size = 512 ∧
      make_request (refile_buffer 10) 10 3 .READ 54 small_disk_beyond = 
        setB 54 (fun h => { h with b_dirt := false, b_uptodate := false, b_req := false })
          small_disk_beyond :=
  ⟨by decide!, by decide!, by decide!,
    (make_request_drops_beyond_end (refile_buffer 10) 10 3 .READ 54 small_disk_beyond
      10 (by decide!) (fun h => by rcases h with h | h <;> cases h)).2
        (by decide) (by decide!) (by decide!)⟩

theorem boot3_nfract0_reachable : Reachable boot3_nfract0 :=
  Reachable.sys_bdflush _ _ 10 true 0 false 3 0 _ boot3_init_reachable
    (Res.eq_ok _ (by decide!))

/-- The pass of the daemon over an empty DIRTY list returns at once. -/
theorem bdflush_list_empty (fuel0 fuel : Nat) (ndirty : Int) (s : State)
    (h : s.lru_list BUF_DIRTY = []) :
    bdflush_list fuel0 BUF_DIRTY (fuel + 1) ndirty s = .ok ndirty s := by
  unfold bdflush_list
  rw [bind_run, getS_run]
  dsimp only
  rw [h]
  rfl

/-- While the DIRTY list is empty and the threshold is not above its length, the daemon
never leaves its loop. -/
theorem bdflush_daemon_spins_on (fuel0 : Nat) (sigkill : Bool) (s : State)
    (h : s.lru_list BUF_DIRTY = [])
    (hx : ¬ s.nr_buffers_type BUF_DIRTY <
      cdiv ((s.nr_buffers - s.nr_buffers_type BUF_SHARED) * s.nfract) 100) :
    ∀ fuel, bdflush_daemon fuel0 sigkill fuel s = .hang := by
  intro fuel
  induction fuel with
  | zero => rfl
  | succ fuel ih =>
    unfold bdflush_daemon
    cases fuel0 with
    | zero => rfl
    | succ fuel0 =>
      rw [bind_run, bdflush_list_empty _ _ _ s h]
      dsimp only
      rw [bind_run, getS_run]
      dsimp only
      rw [if_neg hx]
      exact ih

/-- C23: the failing input.  In the reachable state `boot3_nfract0` (after `buffer_init`
and `sys_bdflush(3, 0)`, which sets `nfract` to 0) no buffer is on the DIRTY list and the
threshold `(nr_buffers - nr_buffers_type[BUF_SHARED]) * nfract / 100` is 0, so the number
of dirty buffers does not exceed the threshold and no dirty buffer is around.  The daemon
does not go to sleep: the test before the sleep is `<` and fails at equality.  With a
SIGKILL pending, for which the branch that sleeps returns 0, the call `sys_bdflush(0, 0)`
never returns, whatever the fuel; the daemon stays in its loop. -/
theorem bdflush_daemon_spins :
    Reachable boot3_nfract0 ∧ boot3_nfract0.lru_list BUF_DIRTY = [] ∧
      boot3_nfract0.nr_buffers_type BUF_DIRTY = 0 ∧
      cdiv ((boot3_nfract0.nr_buffers - boot3_nfract0.nr_buffers_type BUF_SHARED) *
        boot3_nfract0.nfract) 100 = 0 ∧
      ∀ fuel, sys_bdflush fuel true 0 true 0 0 boot3_nfract0 = .hang := by
  refine ⟨boot3_nfract0_reachable, by decide!, by decide!, by decide!, fun fuel => ?_⟩
  unfold sys_bdflush
  rw [if_neg (by decide), if_neg (by decide), if_neg (by decide), bind_run, getS_run]
  dsimp only
  rw [if_neg (by decide!), bind_run, modS_run]
  dsimp only
  exact bdflush_daemon_spins_on fuel true _ (by decide!) (by decide!) fuel

/-- The test at the end of a flush cycle: in the state `s1` the pass over the DIRTY
list has left, the daemon compares `nr_buffers_type[BUF_DIRTY]` with
`(nr_buffers - nr_buffers_type[BUF_SHARED]) * nfract / 100` (integer arithmetic).  When the
counter is less than the threshold it leaves the loop: with a SIGKILL pending it
decrements `bdflush_running` and returns 0, otherwise it sleeps.  When the counter is
equal to the threshold or above it, the daemon skips the sleep and starts the next cycle
from `s1`.  In a state reached from a reachable one the counter is the length of the
DIRTY list. -/
theorem bdflush_daemon_sleeps_below (fuel0 fuel : Nat) (sigkill : Bool) (s s1 : State)
    (n : Int) (e : bdflush_list fuel0 BUF_DIRTY fuel0 0 s = .ok n s1) :
    (s1.nr_buffers_type BUF_DIRTY <
        cdiv ((s1.nr_buffers - s1.nr_buffers_type BUF_SHARED) * s1.nfract) 100 →
      bdflush_daemon fuel0 sigkill (fuel + 1) s =
        if sigkill then .ok 0 { s1 with bdflush_running := s1.bdflush_running - 1 }
        else .hang) ∧
    (cdiv ((s1.nr_buffers - s1.nr_buffers_type BUF_SHARED) * s1.nfract) 100 ≤
        s1.nr_buffers_type BUF_DIRTY →
      bdflush_daemon fuel0 sigkill (fuel + 1) s = bdflush_daemon fuel0 sigkill fuel s1) ∧
    (Reachable s → s1.nr_buffers_type BUF_DIRTY = (s1.lru_list BUF_DIRTY).length) := by
  refine ⟨fun h => ?_, fun h => ?_, fun hr => ?_⟩
  · unfold bdflush_daemon
    rw [bind_run, e]
    dsimp only
    rw [bind_run, getS_run]
    dsimp only
    rw [if_pos h]
    cases sigkill <;> rfl
  · conv_lhs => unfold bdflush_daemon
    rw [bind_run, e]
    dsimp only
    rw [bind_run, getS_run]
    dsimp only
    rw [if_neg (not_lt.mpr h)]
  · exact ((moves_bdflush_list fuel0 BUF_DIRTY fuel0 0 s n s1 e
      (reachable_tally hr)).1).nr_buffers_type BUF_DIRTY

/-- In `boot3_init` no buffer is dirty and the threshold is 1 (four buffers, `nfract`
25); the daemon, with a SIGKILL pending, returns 0 after one cycle. -/
theorem bdflush_daemon_sleeps_below_witness :
    boot3_init.nr_buffers_type BUF_DIRTY = 0 ∧
      cdiv ((boot3_init.nr_buffers - boot3_init.nr_buffers_type BUF_SHARED) *
        boot3_init.nfract) 100 = 1 ∧
      bdflush_daemon 10 true 1 boot3_init =
        .ok 0 { boot3_init with bdflush_running := boot3_init.bdflush_running - 1 } :=
  ⟨by decide!, by decide!,
    (bdflush_daemon_sleeps_below 10 0 true boot3_init boot3_init 0
      (bdflush_list_empty 10 9 0 boot3_init (by decide!))).1 (by decide!)⟩

theorem SameSizes.pre_ss : Pre SameSizes :=
  ⟨fun _ => rfl, fun _ _ _ h h' => h'.trans h⟩

theorem sizes_get_free_page (pri : Gfp) : KeepsR SameSizes (__get_free_page pri) := by
  intro s a s' e
  unfold __get_free_page at e
  split at e <;> cases e <;> rfl

theorem sizes_free_page (addr : Nat) : KeepsR SameSizes (free_page addr) := by
  intro s a s' e
  unfold free_page at e
  split_ifs at e <;> cases e <;> rfl

theorem sizes_printk (m : Kmsg) : KeepsR SameSizes (printk m) :=
  KeepsR.modS_R _ fun _ => rfl

theorem sizes_put_unused_buffer_head (bh : Nat) :
    KeepsR SameSizes (put_unused_buffer_head bh) :=
  KeepsR.modS_R _ fun _ => rfl

theorem sizes_get_more_buffer_heads : KeepsR SameSizes get_more_buffer_heads := by
  unfold get_more_buffer_heads
  repeat' first
    | with_reducible exact KeepsR.pure_R SameSizes.pre_ss _
    | with_reducible exact KeepsR.kpanic_R _
    | with_reducible exact KeepsR.khang_R
    | with_reducible exact sizes_get_free_page _
    | ((with_reducible refine KeepsR.modS_R _ fun _ => ?_); exact rfl)
    | ((with_reducible refine KeepsR.setB_R _ _ fun _ => ?_); exact rfl)
    | ((with_reducible refine KeepsR.setR_R _ _ fun _ => ?_); exact rfl)
    | with_reducible refine KeepsR.getS_bind_R fun _ => ?_
    | with_reducible refine KeepsR.bind_R SameSizes.pre_ss ?_ fun _ => ?_
    | ((try dsimp only); rw [ite_bind_jp])
    | with_reducible refine KeepsR.ite_R (fun _ => ?_) fun _ => ?_
    | dsimp only
    | split

theorem sizes_get_unused_buffer_head : KeepsR SameSizes get_unused_buffer_head := by
  unfold get_unused_buffer_head
  repeat' first
    | with_reducible exact KeepsR.pure_R SameSizes.pre_ss _
    | with_reducible exact KeepsR.kpanic_R _
    | with_reducible exact KeepsR.khang_R
    | with_reducible exact sizes_get_more_buffer_heads
    | ((with_reducible refine KeepsR.modS_R _ fun _ => ?_); exact rfl)
    | ((with_reducible refine KeepsR.setB_R _ _ fun _ => ?_); exact rfl)
    | ((with_reducible refine KeepsR.setR_R _ _ fun _ => ?_); exact rfl)
    | with_reducible refine KeepsR.getS_bind_R fun _ => ?_
    | with_reducible refine KeepsR.bind_R SameSizes.pre_ss ?_ fun _ => ?_
    | ((try dsimp only); rw [ite_bind_jp])
    | with_reducible refine KeepsR.ite_R (fun _ => ?_) fun _ => ?_
    | dsimp only
    | split

theorem sizes_create_buffers_no_grow (fuel bh : Nat) :
    KeepsR SameSizes (create_buffers_no_grow fuel bh) := by
  induction fuel generalizing bh with
  | zero => exact KeepsR.khang_R
  | succ fuel ih =>
    unfold create_buffers_no_grow
    repeat' first
      | with_reducible exact KeepsR.pure_R SameSizes.pre_ss _
      | with_reducible exact KeepsR.kpanic_R _
      | with_reducible exact KeepsR.khang_R
      | with_reducible exact sizes_put_unused_buffer_head _
      | with_reducible exact ih _
      | ((with_reducible refine KeepsR.modS_R _ fun _ => ?_); exact rfl)
      | ((with_reducible refine KeepsR.setB_R _ _ fun _ => ?_); exact rfl)
      | ((with_reducible refine KeepsR.setR_R _ _ fun _ => ?_); exact rfl)
      | with_reducible refine KeepsR.getS_bind_R fun _ => ?_
      | with_reducible refine KeepsR.bind_R SameSizes.pre_ss ?_ fun _ => ?_
      | ((try dsimp only); rw [ite_bind_jp])
      | with_reducible refine KeepsR.ite_R (fun _ => ?_) fun _ => ?_
      | dsimp only
      | split

theorem sizes_create_buffers_loop (page size fuel offset head : Nat) :
    KeepsR SameSizes (create_buffers_loop page size fuel offset head) := by
  induction fuel generalizing offset head with
  | zero => exact KeepsR.khang_R
  | succ fuel ih =>
    unfold create_buffers_loop
    repeat' first
      | with_reducible exact KeepsR.pure_R SameSizes.pre_ss _
      | with_reducible exact KeepsR.kpanic_R _
      | with_reducible exact KeepsR.khang_R
      | with_reducible exact sizes_get_unused_buffer_head
      | with_reducible exact sizes_create_buffers_no_grow _ _
      | with_reducible exact ih _ _
      | ((with_reducible refine KeepsR.modS_R _ fun _ => ?_); exact rfl)
      | ((with_reducible refine KeepsR.setB_R _ _ fun _ => ?_); exact rfl)
      | ((with_reducible refine KeepsR.setR_R _ _ fun _ => ?_); exact rfl)
      | with_reducible refine KeepsR.getS_bind_R fun _ => ?_
      | with_reducible refine KeepsR.bind_R SameSizes.pre_ss ?_ fun _ => ?_
      | ((try dsimp only); rw [ite_bind_jp])
      | with_reducible refine KeepsR.ite_R (fun _ => ?_) fun _ => ?_
      | dsimp only
      | split

theorem sizes_grow_buffers_loop (isize : Int) (fuel tmp ip : Nat) :
    KeepsR SameSizes (grow_buffers_loop isize fuel tmp ip) := by
  induction fuel generalizing tmp ip with
  | zero => exact KeepsR.khang_R
  | succ fuel ih =>
    unfold grow_buffers_loop
    repeat' first
      | with_reducible exact KeepsR.pure_R SameSizes.pre_ss _
      | with_reducible exact KeepsR.kpanic_R _
      | with_reducible exact KeepsR.khang_R
      | with_reducible exact ih _ _
      | ((with_reducible refine KeepsR.modS_R _ fun _ => ?_); exact rfl)
      | ((with_reducible refine KeepsR.setB_R _ _ fun _ => ?_); exact rfl)
      | ((with_reducible refine KeepsR.setR_R _ _ fun _ => ?_); exact rfl)
      | with_reducible refine KeepsR.getS_bind_R fun _ => ?_
      | with_reducible refine KeepsR.bind_R SameSizes.pre_ss ?_ fun _ => ?_
      | ((try dsimp only); rw [ite_bind_jp])
      | with_reducible refine KeepsR.ite_R (fun _ => ?_) fun _ => ?_
      | dsimp only
      | split

/-- The function `grow_buffers` never touches `nr_buffers_size`. -/
theorem sizes_grow_buffers (fuel : Nat) (pri : Gfp) (size : Nat) :
    KeepsR SameSizes (grow_buffers fuel pri size) := by
  unfold grow_buffers create_buffers
  repeat' first
    | with_reducible exact KeepsR.pure_R SameSizes.pre_ss _
    | with_reducible exact KeepsR.kpanic_R _
    | with_reducible exact KeepsR.khang_R
    | with_reducible exact sizes_printk _
    | with_reducible exact sizes_get_free_page _
    | with_reducible exact sizes_free_page _
    | with_reducible exact sizes_create_buffers_loop _ _ _ _ _
    | with_reducible exact sizes_grow_buffers_loop _ _ _ _
    | ((with_reducible refine KeepsR.modS_R _ fun _ => ?_); exact rfl)
    | ((with_reducible refine KeepsR.setB_R _ _ fun _ => ?_); exact rfl)
    | ((with_reducible refine KeepsR.setR_R _ _ fun _ => ?_); exact rfl)
    | with_reducible refine KeepsR.getS_bind_R fun _ => ?_
    | with_reducible refine KeepsR.bind_R SameSizes.pre_ss ?_ fun _ => ?_
    | ((try dsimp only); rw [ite_bind_jp])
    | with_reducible refine KeepsR.ite_R (fun _ => ?_) fun _ => ?_
    | dsimp only
    | split

theorem boot3_freed_reachable : Reachable (try_to_free 10 61 boot3_init).state :=
  Reachable.try_to_free _ _ 10 61 _ boot3_init_reachable (Res.eq_ok _ (by decide!))

/-- C26 (failing input): after `buffer_init` the cache holds four descriptors of 1024 bytes
(size class 1), all free, and `nr_buffers_size[1]` is 0: `grow_buffers` has created them
and `grow_buffers` never changes `nr_buffers_size`.  Then `try_to_free` on head 61 frees
their page, decrementing the counter once for each: no descriptor of the class exists any
more and `nr_buffers_size[1]` is -4. -/
theorem nr_buffers_size_miscounts :
    Reachable boot3_init ∧ descriptors boot3_init 1 = 4 ∧ boot3_init.nr_buffers_size 1 = 0 ∧
      (try_to_free 10 61 boot3_init).isOk = true ∧
      Reachable (try_to_free 10 61 boot3_init).state ∧
      descriptors (try_to_free 10 61 boot3_init).state 1 = 0 ∧
      (try_to_free 10 61 boot3_init).state.nr_buffers_size 1 = -4 ∧
      ∀ fuel pri size s r s', grow_buffers fuel pri size s = .ok r s' →
        s'.nr_buffers_size = s.nr_buffers_size :=
  ⟨boot3_init_reachable, by decide!, by decide!, by decide!, boot3_freed_reachable,
    by decide!, by decide!, fun fuel pri size s r s' e => sizes_grow_buffers fuel pri size s r s' e⟩

/-- Second part of the search of `get_request`: after the wrap, from `req` down to
`prev_found`. -/
theorem get_request_loop_down (n prev : Nat) (hp : prev < n) (s : State) :
    ∀ fuel req, prev < req → req ≤ n → req - prev ≤ fuel →
      (∀ q, q < n → q < prev ∨ req ≤ q → 0 ≤ (s.all_requests q).dev) →
      ∃ r, get_request_loop n prev fuel req s = .ok r s ∧
        (r = none → ∀ q, q < n → 0 ≤ (s.all_requests q).dev) ∧
        ∀ q, r = some q → q < n ∧ (s.all_requests q).dev < 0 := by
  intro fuel
  induction fuel with
  | zero =>
    intro req h1 _ h3
    omega
  | succ fuel ih =>
    intro req h1 h2 h3 hu
    unfold get_request_loop
    simp only [bind_run, getS_run]
    rw [if_pos (by omega : req > 0)]
    by_cases hf : (s.all_requests (req - 1)).dev < 0
    · rw [if_pos hf]
      refine ⟨some (req - 1), rfl, fun h => Option.noConfusion h, fun q hq => ?_⟩
      cases hq
      exact ⟨by omega, hf⟩
    · rw [if_neg hf]
      by_cases he : req - 1 = prev
      · rw [if_pos he]
        refine ⟨none, rfl, fun _ q hq => ?_, fun q hq => Option.noConfusion hq⟩
        by_cases hq1 : q = req - 1
        · rw [hq1]
          omega
        · exact hu q hq (by omega)
      · rw [if_neg he]
        refine ih (req - 1) (by omega) (by omega) (by omega) fun q hq hq1 => ?_
        by_cases hq2 : q = req - 1
        · rw [hq2]
          omega
        · exact hu q hq (by omega)

/-- First part of the search of `get_request`: from `req`, at or below `prev_found`, down
to slot 0, then around. -/
theorem get_request_loop_up (n prev : Nat) (hp : prev < n) (s : State) :
    ∀ fuel req, req ≤ prev → req + (n - prev) ≤ fuel →
      (∀ q, req ≤ q → q < prev → 0 ≤ (s.all_requests q).dev) →
      ∃ r, get_request_loop n prev fuel req s = .ok r s ∧
        (r = none → ∀ q, q < n → 0 ≤ (s.all_requests q).dev) ∧
        ∀ q, r = some q → q < n ∧ (s.all_requests q).dev < 0 := by
  intro fuel
  induction fuel with
  | zero =>
    intro req h1 h3
    omega
  | succ fuel ih =>
    intro req h1 h3 hu
    by_cases h0 : req = 0
    · subst h0
      unfold get_request_loop
      simp only [bind_run, getS_run]
      rw [if_neg (by omega : ¬ 0 > 0)]
      by_cases hf : (s.all_requests (n - 1)).dev < 0
      · rw [if_pos hf]
        refine ⟨some (n - 1), rfl, fun h => Option.noConfusion h, fun q hq => ?_⟩
        cases hq
        exact ⟨by omega, hf⟩
      · rw [if_neg hf]
        by_cases he : n - 1 = prev
        · rw [if_pos he]
          refine ⟨none, rfl, fun _ q hq => ?_, fun q hq => Option.noConfusion hq⟩
          by_cases hq1 : q = n - 1
          · rw [hq1]
            omega
          · exact hu q (by omega) (by omega)
        · rw [if_neg he]
          refine get_request_loop_down n prev hp s fuel (n - 1) (by omega) (by omega) (by omega)
            fun q hq hq1 => ?_
          by_cases hq2 : q = n - 1
          · rw [hq2]
            omega
          · exact hu q (by omega) (by omega)
    · unfold get_request_loop
      simp only [bind_run, getS_run]
      rw [if_pos (by omega : req > 0)]
      by_cases hf : (s.all_requests (req - 1)).dev < 0
      · rw [if_pos hf]
        refine ⟨some (req - 1), rfl, fun h => Option.noConfusion h, fun q hq => ?_⟩
        cases hq
        exact ⟨by omega, hf⟩
      · rw [if_neg hf, if_neg (by omega : ¬ req - 1 = prev)]
        refine ih (req - 1) (by omega) (by omega) fun q hq hq1 => ?_
        by_cases hq2 : q = req - 1
        · rw [hq2]
          omega
        · exact hu q (by omega) hq1

/-- The function `get_request` returns, with a free slot below its limit when there is one. -/
theorem get_request_total (fuel n : Nat) (dev : Int) (s : State) (h1 : 1 ≤ n) (hf : n ≤ fuel)
    (hs : SearchOk s) :
    ∃ r s', get_request fuel n dev s = .ok r s' ∧ SearchOk s' ∧
      (r = none ↔ ∀ q, q < n → 0 ≤ (s.all_requests q).dev) ∧
      (r = none → s'.all_requests = s.all_requests) ∧
      (∀ req, r = some req → req < n ∧ (s.all_requests req).dev < 0 ∧
        s'.all_requests = upd s.all_requests req { (s.all_requests req) with dev := dev }) ∧
      s'.current_request = s.current_request ∧ s'.b = s.b := by
  unfold get_request
  rw [if_neg (by omega : ¬ n = 0)]
  rw [bind_run, getS_run]
  dsimp only
  rw [ite_bind_jp, bind_run]
  have key : ∃ s1, (if s.prev_limit ≠ some n then
        modS fun s => { s with prev_limit := some n, prev_found := 0 }
      else pure ()) s = .ok () s1 ∧ s1.prev_limit = some n ∧ s1.prev_found < n ∧
      s1.all_requests = s.all_requests ∧ s1.current_request = s.current_request ∧
      s1.b = s.b := by
    by_cases h : s.prev_limit ≠ some n
    · rw [if_pos h]
      exact ⟨_, rfl, rfl, by show 0 < n; omega, rfl, rfl, rfl⟩
    · rw [if_neg h]
      exact ⟨s, rfl, not_not.mp h, hs n (not_not.mp h), rfl, rfl, rfl⟩
  obtain ⟨s1, e1, hl1, hp1, hr1, hq1, hb1⟩ := key
  rw [e1]
  dsimp only
  rw [bind_run, getS_run]
  dsimp only
  obtain ⟨r, e, hnone, hsome⟩ := get_request_loop_up n s1.prev_found hp1 s1 fuel s1.prev_found
    (le_refl _) (by omega) (fun q h2 h3 => by omega)
  rw [bind_run, e]
  dsimp only
  rw [hr1] at hnone hsome
  cases r with
  | none =>
    refine ⟨none, s1, rfl, ?_, ?_, fun _ => hr1, fun req h => Option.noConfusion h, hq1, hb1⟩
    · intro m hm
      rw [hl1] at hm
      cases hm
      exact hp1
    · exact ⟨fun _ => hnone rfl, fun _ => rfl⟩
  | some req =>
    obtain ⟨hlt, hfree⟩ := hsome req rfl
    refine ⟨some req, _, rfl, ?_, ?_, fun h => Option.noConfusion h, fun q hq => ?_, hq1, hb1⟩
    · intro m hm
      have hm' : s1.prev_limit = some m := hm
      rw [hl1] at hm'
      cases hm'
      exact hlt
    · refine ⟨fun h => Option.noConfusion h, fun h => ?_⟩
      have := h req hlt
      omega
    · cases hq
      refine ⟨hlt, hfree, ?_⟩
      show upd s1.all_requests req _ = _
      rw [hr1]

theorem LastThird.pre_lt : Pre LastThird :=
  ⟨fun _ h => ⟨h, fun _ _ _ => rfl⟩, fun _ _ _ h h' hs =>
    ⟨(h' (h hs).1).1, fun r h1 h2 => ((h' (h hs).1).2 r h1 h2).trans ((h hs).2 r h1 h2)⟩⟩

theorem SameQueue.lastThird {s s' : State} (h : SameQueue s s') : LastThird s s' := fun hs =>
  ⟨fun n hn => by
    rw [h.prev_limit] at hn
    rw [h.prev_found]
    exact hs n hn, fun r _ _ => h.dev r⟩

theorem third_setR (req : Nat) (f : request → request) (hf : ∀ r, (f r).dev = r.dev) :
    KeepsR LastThird (setR req f) :=
  KeepsR.setR_R _ _ fun s => (sameQueue_setR s req f hf).lastThird

theorem third_setR_plug (f : request → request) : KeepsR LastThird (setR PLUG f) :=
  KeepsR.setR_R _ _ fun s hs => ⟨hs, fun r _ h2 => by
    show (upd s.all_requests PLUG _ r).dev = _
    rw [upd_other _ _ _ _ (by unfold PLUG; omega)]⟩

theorem third_end_buffer_io (bh : Nat) : KeepsR LastThird (end_buffer_io bh) := by
  intro s a s' e
  unfold end_buffer_io at e
  cases e
  exact fun h => ⟨h, fun _ _ _ => rfl⟩

theorem third_wait_on_buffer_loop (bh : Nat) : KeepsR LastThird (__wait_on_buffer bh) := by
  unfold __wait_on_buffer
  repeat' first
    | with_reducible exact KeepsR.pure_R LastThird.pre_lt _
    | with_reducible exact KeepsR.kpanic_R _
    | with_reducible exact KeepsR.khang_R
    | with_reducible exact third_end_buffer_io _
    | ((with_reducible refine KeepsR.modS_R _ fun _ => ?_); exact (fun h => ⟨h, fun _ _ _ => rfl⟩))
    | ((with_reducible refine KeepsR.setB_R _ _ fun _ => ?_); exact (fun h => ⟨h, fun _ _ _ => rfl⟩))
    | ((with_reducible refine KeepsR.setR_R _ _ fun _ => ?_); exact (fun h => ⟨h, fun _ _ _ => rfl⟩))
    | with_reducible refine KeepsR.getS_bind_R fun _ => ?_
    | with_reducible refine KeepsR.bind_R LastThird.pre_lt ?_ fun _ => ?_
    | ((try dsimp only); rw [ite_bind_jp])
    | with_reducible refine KeepsR.ite_R (fun _ => ?_) fun _ => ?_
    | dsimp only
    | split

theorem third_lock_buffer (bh : Nat) : KeepsR LastThird (lock_buffer bh) := by
  unfold lock_buffer
  repeat' first
    | with_reducible exact KeepsR.pure_R LastThird.pre_lt _
    | with_reducible exact KeepsR.kpanic_R _
    | with_reducible exact KeepsR.khang_R
    | with_reducible exact third_wait_on_buffer_loop _
    | ((with_reducible refine KeepsR.modS_R _ fun _ => ?_); exact (fun h => ⟨h, fun _ _ _ => rfl⟩))
    | ((with_reducible refine KeepsR.setB_R _ _ fun _ => ?_); exact (fun h => ⟨h, fun _ _ _ => rfl⟩))
    | ((with_reducible refine KeepsR.setR_R _ _ fun _ => ?_); exact (fun h => ⟨h, fun _ _ _ => rfl⟩))
    | with_reducible refine KeepsR.getS_bind_R fun _ => ?_
    | with_reducible refine KeepsR.bind_R LastThird.pre_lt ?_ fun _ => ?_
    | ((try dsimp only); rw [ite_bind_jp])
    | with_reducible refine KeepsR.ite_R (fun _ => ?_) fun _ => ?_
    | dsimp only
    | split

theorem third_unlock_buffer (bh : Nat) : KeepsR LastThird (unlock_buffer bh) := by
  unfold unlock_buffer
  repeat' first
    | with_reducible exact KeepsR.pure_R LastThird.pre_lt _
    | with_reducible exact KeepsR.kpanic_R _
    | with_reducible exact KeepsR.khang_R
    | ((with_reducible refine KeepsR.modS_R _ fun _ => ?_); exact (fun h => ⟨h, fun _ _ _ => rfl⟩))
    | ((with_reducible refine KeepsR.setB_R _ _ fun _ => ?_); exact (fun h => ⟨h, fun _ _ _ => rfl⟩))
    | ((with_reducible refine KeepsR.setR_R _ _ fun _ => ?_); exact (fun h => ⟨h, fun _ _ _ => rfl⟩))
    | with_reducible refine KeepsR.getS_bind_R fun _ => ?_
    | with_reducible refine KeepsR.bind_R LastThird.pre_lt ?_ fun _ => ?_
    | ((try dsimp only); rw [ite_bind_jp])
    | with_reducible refine KeepsR.ite_R (fun _ => ?_) fun _ => ?_
    | dsimp only
    | split

theorem third_printk (m : Kmsg) : KeepsR LastThird (printk m) :=
  KeepsR.modS_R _ fun _ h => ⟨h, fun _ _ _ => rfl⟩

theorem third_add_request_kstat (rdev : Nat) : KeepsR LastThird (add_request_kstat rdev) := by
  unfold add_request_kstat
  refine KeepsR.modS_R _ fun s h => ?_
  dsimp only
  split_ifs <;> exact ⟨h, fun _ _ _ => rfl⟩

theorem third_call_request_fn (major : Nat) : KeepsR LastThird (call_request_fn major) :=
  KeepsR.modS_R _ fun _ h => ⟨h, fun _ _ _ => rfl⟩

theorem third_mark_buffer_clean (f bh : Nat) :
    KeepsR LastThird (mark_buffer_clean (refile_buffer f) bh) :=
  (sameQueue_mark_buffer_clean f bh).mono_R fun _ _ h => h.lastThird

theorem third_add_request (f major req : Nat) :
    KeepsR LastThird (add_request (refile_buffer f) major req) := by
  unfold add_request
  repeat' first
    | with_reducible exact KeepsR.pure_R LastThird.pre_lt _
    | with_reducible exact KeepsR.kpanic_R _
    | with_reducible exact KeepsR.khang_R
    | with_reducible exact third_add_request_kstat _
    | with_reducible exact third_mark_buffer_clean _ _
    | with_reducible exact third_call_request_fn _
    | ((with_reducible refine KeepsR.modS_R _ fun _ => ?_); exact (fun h => ⟨h, fun _ _ _ => rfl⟩))
    | ((with_reducible refine KeepsR.setB_R _ _ fun _ => ?_); exact (fun h => ⟨h, fun _ _ _ => rfl⟩))
    | ((with_reducible refine KeepsR.setR_R _ _ fun _ => ?_); exact (fun h => ⟨h, fun _ _ _ => rfl⟩))
    | with_reducible refine KeepsR.getS_bind_R fun _ => ?_
    | with_reducible refine KeepsR.bind_R LastThird.pre_lt ?_ fun _ => ?_
    | ((try dsimp only); rw [ite_bind_jp])
    | with_reducible refine KeepsR.ite_R (fun _ => ?_) fun _ => ?_
    | dsimp only
    | split

/-- The search of `get_request` leaves the state alone and stays below its limit. -/
theorem get_request_loop_below (n prev : Nat) (h1 : 1 ≤ n) :
    ∀ fuel req s r s', req ≤ n → get_request_loop n prev fuel req s = .ok r s' →
      s' = s ∧ ∀ q, r = some q → q < n := by
  intro fuel
  induction fuel with
  | zero => intro req s r s' _ e; cases e
  | succ fuel ih =>
    intro req s r s' hr e
    unfold get_request_loop at e
    simp only [bind_run, getS_run] at e
    have hnxt : (if req > 0 then req else n) - 1 < n := by
      split_ifs <;> omega
    split_ifs at e with h2 h3 h4
    all_goals first
      | (cases e; exact ⟨rfl, fun q hq => by cases hq; omega⟩)
      | (cases e; exact ⟨rfl, fun q hq => Option.noConfusion hq⟩)
      | exact ih _ s r s' (by omega) e

theorem third_get_request (fuel n : Nat) (dev : Int) (hn : n ≤ NR_REQUEST * 2 / 3) :
    KeepsR LastThird (get_request fuel n dev) := by
  intro s r s' e hs
  unfold get_request at e
  split_ifs at e with h0
  · cases e
  rw [bind_run, getS_run] at e
  dsimp only at e
  rw [ite_bind_jp] at e
  obtain ⟨_, s1, e1, e⟩ := bind_inv e
  have key : s1.prev_limit = some n ∧ s1.prev_found < n ∧ s1.all_requests = s.all_requests := by
    split_ifs at e1 with h
    · cases e1
      exact ⟨rfl, by show 0 < n; omega, rfl⟩
    · cases e1
      exact ⟨not_not.mp h, hs n (not_not.mp h), rfl⟩
  obtain ⟨hl1, hp1, hr1⟩ := key
  rw [bind_run, getS_run] at e
  dsimp only at e
  obtain ⟨r1, s2, e2, e⟩ := bind_inv e
  obtain ⟨hs2, hq⟩ := get_request_loop_below n s1.prev_found (by omega) fuel s1.prev_found s1
    r1 s2 (by omega) e2
  subst hs2
  cases r1 with
  | none =>
    cases e
    refine ⟨fun m hm => ?_, fun r _ _ => by rw [hr1]⟩
    rw [hl1] at hm
    cases hm
    exact hp1
  | some req =>
    have hlt := hq req rfl
    dsimp only at e
    simp only [bind_run, modS_run, setR, pure_run] at e
    cases e
    refine ⟨fun m hm => ?_, fun r h2 _ => ?_⟩
    · have hm' : s2.prev_limit = some m := hm
      rw [hl1] at hm'
      cases hm'
      exact hlt
    · show (upd s2.all_requests req _ r).dev = _
      rw [upd_other _ _ _ _ (by omega), hr1]

theorem third_make_request_queue (f fuel major : Nat) (rw : Rw) (hrw : rw ≠ .READ) (ra : Bool)
    (bh sector count : Nat) :
    KeepsR LastThird (make_request_queue (refile_buffer f) fuel major rw ra bh sector count) := by
  unfold make_request_queue
  rw [if_neg hrw]
  repeat' first
    | with_reducible exact KeepsR.pure_R LastThird.pre_lt _
    | with_reducible exact KeepsR.kpanic_R _
    | with_reducible exact KeepsR.khang_R
    | with_reducible exact third_get_request _ _ _ (le_refl _)
    | ((with_reducible refine third_setR _ _ ?_); intro _; rfl)
    | with_reducible exact third_mark_buffer_clean _ _
    | with_reducible exact third_unlock_buffer _
    | with_reducible exact third_add_request _ _ _
    | ((with_reducible refine KeepsR.modS_R _ fun _ => ?_); exact (fun h => ⟨h, fun _ _ _ => rfl⟩))
    | ((with_reducible refine KeepsR.setB_R _ _ fun _ => ?_); exact (fun h => ⟨h, fun _ _ _ => rfl⟩))
    | ((with_reducible refine KeepsR.setR_R _ _ fun _ => ?_); exact (fun h => ⟨h, fun _ _ _ => rfl⟩))
    | with_reducible refine KeepsR.getS_bind_R fun _ => ?_
    | with_reducible refine KeepsR.bind_R LastThird.pre_lt ?_ fun _ => ?_
    | ((try dsimp only); rw [ite_bind_jp])
    | with_reducible refine KeepsR.ite_R (fun _ => ?_) fun _ => ?_
    | dsimp only
    | split

theorem third_make_request (f fuel major : Nat) (rw : Rw) (hrw : rw = .WRITE ∨ rw = .WRITEA)
    (bh : Nat) : KeepsR LastThird (make_request (refile_buffer f) fuel major rw bh) := by
  have hn : (if rw = .READA then Rw.READ else if rw = .WRITEA then .WRITE else rw) ≠ .READ := by
    rcases hrw with rfl | rfl <;> decide
  unfold make_request
  repeat' first
    | with_reducible exact KeepsR.pure_R LastThird.pre_lt _
    | with_reducible exact KeepsR.kpanic_R _
    | with_reducible exact KeepsR.khang_R
    | with_reducible exact third_lock_buffer _
    | with_reducible exact third_unlock_buffer _
    | with_reducible exact third_make_request_queue _ _ _ _ hn _ _ _ _
    | ((with_reducible refine KeepsR.modS_R _ fun _ => ?_); exact (fun h => ⟨h, fun _ _ _ => rfl⟩))
    | ((with_reducible refine KeepsR.setB_R _ _ fun _ => ?_); exact (fun h => ⟨h, fun _ _ _ => rfl⟩))
    | ((with_reducible refine KeepsR.setR_R _ _ fun _ => ?_); exact (fun h => ⟨h, fun _ _ _ => rfl⟩))
    | with_reducible refine KeepsR.getS_bind_R fun _ => ?_
    | with_reducible refine KeepsR.bind_R LastThird.pre_lt ?_ fun _ => ?_
    | ((try dsimp only); rw [ite_bind_jp])
    | with_reducible refine KeepsR.ite_R (fun _ => ?_) fun _ => ?_
    | dsimp only
    | split

theorem third_sorry_exit (bhs : List Nat) : KeepsR LastThird ( ll_rw_block_sorry bhs) := by
  induction bhs with
  | nil => exact KeepsR.pure_R LastThird.pre_lt _
  | cons bh rest ih =>
    unfold ll_rw_block_sorry
    repeat' first
      | with_reducible exact KeepsR.pure_R LastThird.pre_lt _
      | with_reducible exact KeepsR.kpanic_R _
      | with_reducible exact KeepsR.khang_R
      | with_reducible exact ih
      | ((with_reducible refine KeepsR.modS_R _ fun _ => ?_); exact (fun h => ⟨h, fun _ _ _ => rfl⟩))
      | ((with_reducible refine KeepsR.setB_R _ _ fun _ => ?_); exact (fun h => ⟨h, fun _ _ _ => rfl⟩))
      | ((with_reducible refine KeepsR.setR_R _ _ fun _ => ?_); exact (fun h => ⟨h, fun _ _ _ => rfl⟩))
      | with_reducible refine KeepsR.getS_bind_R fun _ => ?_
      | with_reducible refine KeepsR.bind_R LastThird.pre_lt ?_ fun _ => ?_
      | ((try dsimp only); rw [ite_bind_jp])
      | with_reducible refine KeepsR.ite_R (fun _ => ?_) fun _ => ?_
      | dsimp only
      | split

theorem third_ll_rw_block_loop (f fuel major : Nat) (rw : Rw) (hrw : rw = .WRITE ∨ rw = .WRITEA)
    (bhs : List Nat) : KeepsR LastThird (ll_rw_block_loop (refile_buffer f) fuel major rw bhs) := by
  induction bhs with
  | nil => exact KeepsR.pure_R LastThird.pre_lt _
  | cons bh rest ih =>
    unfold ll_rw_block_loop
    repeat' first
      | with_reducible exact KeepsR.pure_R LastThird.pre_lt _
      | with_reducible exact KeepsR.kpanic_R _
      | with_reducible exact KeepsR.khang_R
      | with_reducible exact ih
      | with_reducible exact third_make_request _ _ _ _ hrw _
      | ((with_reducible refine KeepsR.modS_R _ fun _ => ?_); exact (fun h => ⟨h, fun _ _ _ => rfl⟩))
      | ((with_reducible refine KeepsR.setB_R _ _ fun _ => ?_); exact (fun h => ⟨h, fun _ _ _ => rfl⟩))
      | ((with_reducible refine KeepsR.setR_R _ _ fun _ => ?_); exact (fun h => ⟨h, fun _ _ _ => rfl⟩))
      | with_reducible refine KeepsR.getS_bind_R fun _ => ?_
      | with_reducible refine KeepsR.bind_R LastThird.pre_lt ?_ fun _ => ?_
      | ((try dsimp only); rw [ite_bind_jp])
      | with_reducible refine KeepsR.ite_R (fun _ => ?_) fun _ => ?_
      | dsimp only
      | split

theorem third_ll_rw_block (f fuel : Nat) (rw : Rw) (hrw : rw = .WRITE ∨ rw = .WRITEA)
    (bhs : List Nat) : KeepsR LastThird (ll_rw_block (refile_buffer f) fuel rw bhs) := by
  unfold ll_rw_block
  repeat' first
    | with_reducible exact KeepsR.pure_R LastThird.pre_lt _
    | with_reducible exact KeepsR.kpanic_R _
    | with_reducible exact KeepsR.khang_R
    | with_reducible exact third_printk _
    | with_reducible exact third_sorry_exit _
    | with_reducible exact third_setR_plug _
    | with_reducible exact third_ll_rw_block_loop _ _ _ _ hrw _
    | with_reducible exact third_call_request_fn _
    | ((with_reducible refine KeepsR.modS_R _ fun _ => ?_); exact (fun h => ⟨h, fun _ _ _ => rfl⟩))
    | ((with_reducible refine KeepsR.setB_R _ _ fun _ => ?_); exact (fun h => ⟨h, fun _ _ _ => rfl⟩))
    | ((with_reducible refine KeepsR.setR_R _ _ fun _ => ?_); exact (fun h => ⟨h, fun _ _ _ => rfl⟩))
    | with_reducible refine KeepsR.getS_bind_R fun _ => ?_
    | with_reducible refine KeepsR.bind_R LastThird.pre_lt ?_ fun _ => ?_
    | ((try dsimp only); rw [ite_bind_jp])
    | with_reducible refine KeepsR.ite_R (fun _ => ?_) fun _ => ?_
    | dsimp only
    | split

/-- C25: for every limit `n` with `1 <= n`, every state of the request pool and every
position the earlier calls have left in `prev_found` (`SearchOk`: it lies below the limit
remembered with it, which holds at boot and after every call), `get_request(n, dev)`
returns, given fuel for `n` turns of its loop.  It returns no slot if and only if each of
the first `n` slots is in use (`dev >= 0`), and then no slot has changed; otherwise it
returns a slot below `n` that was free, and the pool afterwards is the pool before with
`dev` stored in that slot.  A WRITE or WRITEA, whose search is limited to the first
`(2*NR_REQUEST)/3` slots, changes the device of no slot of the last third of the pool, in
`make_request` and in `ll_rw_block`: it never occupies one. -/
theorem get_request_finds_free_slot (fuel n : Nat) (dev : Int) (s : State) (h1 : 1 ≤ n)
    (hf : n ≤ fuel) (hs : SearchOk s) :
    (∃ r s', get_request fuel n dev s = .ok r s' ∧ SearchOk s' ∧
      (r = none ↔ ∀ q, q < n → 0 ≤ (s.all_requests q).dev) ∧
      (r = none → s'.all_requests = s.all_requests) ∧
      (∀ req, r = some req → req < n ∧ (s.all_requests req).dev < 0 ∧
        s'.all_requests = upd s.all_requests req { (s.all_requests req) with dev := dev }) ∧
      s'.current_request = s.current_request ∧ s'.b = s.b) ∧
    (∀ pages drivers, SearchOk (boot pages drivers)) ∧
    (∀ f fuel major rw bh s s', rw = .WRITE ∨ rw = .WRITEA → SearchOk s →
      make_request (refile_buffer f) fuel major rw bh s = .ok () s' →
      SearchOk s' ∧ ∀ r, NR_REQUEST * 2 / 3 ≤ r → r < NR_REQUEST →
        (s'.all_requests r).dev = (s.all_requests r).dev) ∧
    (∀ f fuel rw bhs s s', rw = .WRITE ∨ rw = .WRITEA → SearchOk s →
      ll_rw_block (refile_buffer f) fuel rw bhs s = .ok () s' →
      SearchOk s' ∧ ∀ r, NR_REQUEST * 2 / 3 ≤ r → r < NR_REQUEST →
        (s'.all_requests r).dev = (s.all_requests r).dev) :=
  ⟨get_request_total fuel n dev s h1 hf hs, fun _ _ m hm => Option.noConfusion hm,
    fun f fuel major rw bh s s' hrw hs e => third_make_request f fuel major rw hrw bh s () s' e hs,
    fun f fuel rw bhs s s' hrw hs e => third_ll_rw_block f fuel rw hrw bhs s () s' e hs⟩

/-- Witness for C25: in `three_requests` the slots 0, 1 and 2 are in use and every other
slot is free; nothing has been searched for yet.  With the limit 64 a slot is found. -/
theorem get_request_finds_free_slot_witness :
    (∀ q, q < 3 → 0 ≤ (three_requests.all_requests q).dev) ∧
    ∃ r s', get_request 64 64 0x301 three_requests = .ok r s' ∧ SearchOk s' ∧
      (r = none ↔ ∀ q, q < 64 → 0 ≤ (three_requests.all_requests q).dev) ∧
      (r = none → s'.all_requests = three_requests.all_requests) ∧
      (∀ req, r = some req → req < 64 ∧ (three_requests.all_requests req).dev < 0 ∧
        s'.all_requests = upd three_requests.all_requests req
          { (three_requests.all_requests req) with dev := 0x301 }) ∧
      s'.current_request = three_requests.current_request ∧ s'.b = three_requests.b :=
  ⟨by decide, (get_request_finds_free_slot 64 64 0x301 three_requests (by decide) (by decide)
    fun _ hm => Option.noConfusion hm).1⟩

theorem breada_blocks_le (ra : Nat) (index : Int) (bufsize pos filesize : Nat) :
    breada_blocks ra index bufsize pos filesize ≤ NBUF := by
  unfold breada_blocks
  dsimp only
  split_ifs <;> omega

/-- What the read-ahead loop of `breada` does to the local variables: `j` grows by at most
the number of turns, and the elements `j`, `j+1`, ... of `bhlist` are assigned in turn. -/
theorem breada_loop_locals (fuel dev block bufsize : Nat) :
    ∀ (n i : Nat) (loc : BreadaLocals) (s : State) (loc' : BreadaLocals) (s' : State),
      breada_loop fuel dev block bufsize n i loc s = .ok loc' s' →
      loc.j ≤ loc'.j ∧ loc'.j ≤ loc.j + n ∧
        loc'.stored = loc.stored ++ List.range' loc.j (loc'.j - loc.j) ∧
        loc'.index = loc.index ∧ loc'.blocks = loc.blocks ∧ loc'.submitted = loc.submitted ∧
        ∀ k, k < loc.j → loc'.bhlist k = loc.bhlist k := by
  intro n
  induction n with
  | zero =>
    intro i loc s loc' s' e
    cases e
    exact ⟨le_refl _, le_refl _, by simp, rfl, rfl, rfl, fun _ _ => rfl⟩
  | succ n ih =>
    intro i loc s loc' s' e
    unfold breada_loop at e
    obtain ⟨bh, s1, _, e⟩ := bind_inv e
    rw [bind_run, getS_run] at e
    dsimp only at e
    split_ifs at e with hu
    · obtain ⟨_, s2, _, e⟩ := bind_inv e
      cases e
      exact ⟨le_refl _, by omega, by simp, rfl, rfl, rfl, fun _ _ => rfl⟩
    · obtain ⟨h1, h2, h3, h4, h5, h6, h7⟩ := ih _ _ _ _ _ e
      dsimp only at h1 h2 h3 h4 h5 h6 h7
      refine ⟨by omega, by omega, ?_, h4, h5, h6, fun k hk => ?_⟩
      · rw [h3, List.append_assoc]
        congr 1
        have : loc'.j - loc.j = (loc'.j - (loc.j + 1)) + 1 := by omega
        rw [this, List.range'_succ]
        rfl
      · rw [h7 k (by omega)]
        exact upd_other _ _ _ _ (by omega)

/-- The local variables of `breada` when it returns. -/
theorem breada_locals (fuel dev : Nat) (block : Int) (bufsize pos filesize : Nat) (s s' : State)
    (res : Option Nat × BreadaLocals)
    (e : breada fuel dev block bufsize pos filesize s = .ok res s') :
    (res.2.j = 0 ∧ res.2.stored = [] ∧ res.2.submitted = [] ∧ res.2.blocks = 0) ∨
    (1 ≤ res.2.j ∧ res.2.j ≤ 1 + (res.2.blocks - 1) ∧ res.2.blocks ≤ NBUF ∧
      res.2.stored = List.range res.2.j ∧
      res.2.submitted = [(List.range res.2.j).map res.2.bhlist] ∧
      ∃ bh s1, getblk fuel dev block.toNat bufsize s = .ok bh s1 ∧
        res.2.index = BUFSIZE_INDEX (s1.b bh).b_size ∧
        res.2.blocks =
          breada_blocks (s1.read_ahead (MAJOR dev)) res.2.index bufsize pos filesize) := by
  unfold breada at e
  split_ifs at e with h1 h2
  · cases e
    exact Or.inl ⟨rfl, rfl, rfl, rfl⟩
  · cases e
    exact Or.inl ⟨rfl, rfl, rfl, rfl⟩
  · obtain ⟨bh, s1, e1, e⟩ := bind_inv e
    split_ifs at e with h3
    · cases e
      exact Or.inl ⟨rfl, rfl, rfl, rfl⟩
    · rw [bind_run, getS_run] at e
      dsimp only at e
      split_ifs at e with h4
      · cases e
        exact Or.inl ⟨rfl, rfl, rfl, rfl⟩
      · obtain ⟨loc, s2, e2, e⟩ := bind_inv e
        obtain ⟨k1, k2, k3, k4, k5, k6, k7⟩ := breada_loop_locals _ _ _ _ _ _ _ _ _ _ e2
        dsimp only at k1 k2 k3 k4 k5 k6 k7
        have hst : loc.stored = List.range loc.j := by
          rw [k3, List.range_eq_range']
          have : loc.j = (loc.j - 1) + 1 := by omega
          conv_rhs => rw [this, List.range'_succ]
          rfl
        have hfin : ∀ (r : Option Nat),
            (1 ≤ loc.j ∧ loc.j ≤ 1 + (loc.blocks - 1) ∧ loc.blocks ≤ NBUF ∧
              loc.stored = List.range loc.j ∧
              [(List.range loc.j).map loc.bhlist] = [(List.range loc.j).map loc.bhlist] ∧
              ∃ bh s1, getblk fuel dev block.toNat bufsize s = .ok bh s1 ∧
                loc.index = BUFSIZE_INDEX (s1.b bh).b_size ∧
                loc.blocks =
                  breada_blocks (s1.read_ahead (MAJOR dev)) loc.index bufsize pos filesize) := by
          intro _
          refine ⟨k1, by rw [k5]; exact k2, by rw [k5]; exact breada_blocks_le _ _ _ _ _, hst,
            rfl, bh, s1, e1, k4, ?_⟩
          rw [k5, k4]
        obtain ⟨_, s3, _, e⟩ := bind_inv e
        obtain ⟨_, s4, _, e⟩ := bind_inv e
        obtain ⟨_, s5, _, e⟩ := bind_inv e
        rw [bind_run, getS_run] at e
        dsimp only at e
        split_ifs at e with h5
        · cases e
          exact Or.inr (hfin none)
        · obtain ⟨_, s6, _, e⟩ := bind_inv e
          cases e
          exact Or.inr (hfin none)

/-- C21: whatever the device, the block, the buffer size, `pos`, `filesize`, the setting of
`read_ahead` and the state of the cache are, a call of `breada` that returns has assigned
the elements `0 .. j-1` of its array `bhlist[NBUF]`, each once, with `j <= 16`, so never an
element of index 16 or more; and it has called `ll_rw_block` at most once, with the first
`j` elements of `bhlist`, at most 16 buffers.  The read-ahead loop alone, from any local
state, advances `j` by no more than the number of its turns. -/
theorem breada_stays_in_bhlist (fuel dev : Nat) (block : Int) (bufsize pos filesize : Nat)
    (s s' : State) (res : Option Nat × BreadaLocals)
    (e : breada fuel dev block bufsize pos filesize s = .ok res s') :
    res.2.j ≤ NBUF ∧ res.2.stored = List.range res.2.j ∧ (∀ k ∈ res.2.stored, k < NBUF) ∧
      res.2.submitted.length ≤ 1 ∧
      (∀ l ∈ res.2.submitted, l = (List.range res.2.j).map res.2.bhlist ∧ l.length ≤ NBUF) ∧
      ∀ (n i : Nat) (loc loc' : BreadaLocals) (t t' : State),
        breada_loop fuel dev block.toNat bufsize n i loc t = .ok loc' t' →
        loc'.j ≤ loc.j + n ∧ loc'.stored = loc.stored ++ List.range' loc.j (loc'.j - loc.j) := by
  have hl : ∀ (n i : Nat) (loc loc' : BreadaLocals) (t t' : State),
      breada_loop fuel dev block.toNat bufsize n i loc t = .ok loc' t' →
      loc'.j ≤ loc.j + n ∧ loc'.stored = loc.stored ++ List.range' loc.j (loc'.j - loc.j) :=
    fun n i loc loc' t t' e =>
      ⟨(breada_loop_locals _ _ _ _ n i loc t loc' t' e).2.1,
        (breada_loop_locals _ _ _ _ n i loc t loc' t' e).2.2.1⟩
  rcases breada_locals fuel dev block bufsize pos filesize s s' res e with
    ⟨h1, h2, h3, _⟩ | ⟨h1, h2, h3, h4, h5, _⟩
  · rw [h1, h2, h3]
    exact ⟨Nat.zero_le _, rfl, fun k hk => absurd hk (List.not_mem_nil k), Nat.zero_le _,
      fun l hl => absurd hl (List.not_mem_nil l), hl⟩
  · have hj : res.2.j ≤ NBUF := by
      have : NBUF = 16 := rfl
      omega
    refine ⟨hj, h4, fun k hk => ?_, by rw [h5]; exact le_refl _, fun l hl => ?_, hl⟩
    · rw [h4] at hk
      exact lt_of_lt_of_le (List.mem_range.mp hk) hj
    · rw [h5] at hl
      rw [List.mem_singleton.mp hl]
      refine ⟨rfl, ?_⟩
      rw [List.length_map, List.length_range]
      exact hj

/-- Witness for C21: on `ahead2_init` (four buffers, read-ahead of 8 sectors) the call
`breada(0x301, 1, 1024, 1023, 8192)` returns head 61 after handing the four buffers 61 to
64 to `ll_rw_block`. -/
theorem breada_stays_in_bhlist_witness :
    (breada 10 0x301 1 1024 1023 8192 ahead2_init).val.1 = some 61 ∧
      (breada 10 0x301 1 1024 1023 8192 ahead2_init).val.2.submitted = [[61, 62, 63, 64]] ∧
      (breada 10 0x301 1 1024 1023 8192 ahead2_init).val.2.j ≤ NBUF ∧
      ∀ k ∈ (breada 10 0x301 1 1024 1023 8192 ahead2_init).val.2.stored, k < NBUF :=
  have h := breada_stays_in_bhlist 10 0x301 1 1024 1023 8192 ahead2_init _ _
    (Res.eq_ok (breada 10 0x301 1 1024 1023 8192 ahead2_init) (by decide!))
  ⟨by decide!, by decide!, h.1, h.2.2.1⟩

theorem breada_blocks_value (ra pos filesize k : Nat) (index : Int) (bufsize : Nat)
    (hb : bufsize = 2 ^ (9 + k)) (hi : index = k) (hk : k ≤ 3) :
    (pos % bufsize ≤ filesize % bufsize →
      breada_blocks ra index bufsize pos filesize = 0) ∧
    (filesize % bufsize < pos % bufsize →
      breada_blocks ra index bufsize pos filesize = min (ra >>> k) NBUF) := by
  have hk3 : k = 0 ∨ k = 1 ∨ k = 2 ∨ k = 3 := by omega
  subst hi
  have e1 : (9 + (k : Int)).toNat = 9 + k := by omega
  have e2 : ((k : Int)).toNat = k := by omega
  have e3 : usub bufsize 1 = 2 ^ (9 + k) - 1 := by
    subst hb
    rcases hk3 with rfl | rfl | rfl | rfl <;> rfl
  unfold breada_blocks NBUF
  rw [e1, e2, e3, Nat.and_pow_two_sub_one_eq_mod, Nat.and_pow_two_sub_one_eq_mod, ← hb]
  unfold usub
  rw [Nat.shiftRight_eq_div_pow, ← hb]
  have hf := Nat.mod_lt filesize (by rw [hb]; positivity : bufsize > 0)
  have hp := Nat.mod_lt pos (by rw [hb]; positivity : bufsize > 0)
  generalize filesize % bufsize = a at hf ⊢
  generalize pos % bufsize = b at hp ⊢
  generalize ra >>> k = c
  rcases hk3 with rfl | rfl | rfl | rfl <;> subst hb <;> norm_num at hf hp ⊢ <;>
    constructor <;> intro h <;> (try dsimp only) <;> split_ifs <;> omega

theorem supported_index (size : Nat) (h : Supported size) :
    ∃ k : Nat, k ≤ 3 ∧ size = 2 ^ (9 + k) ∧ BUFSIZE_INDEX size = k := by
  rcases h with rfl | rfl | rfl | rfl
  · exact ⟨0, by omega, rfl, rfl⟩
  · exact ⟨1, by omega, rfl, rfl⟩
  · exact ⟨2, by omega, rfl, rfl⟩
  · exact ⟨3, by omega, rfl, rfl⟩

theorem put_last_lru_b (bh : Nat) (s s' : State) (a : Unit) (e : put_last_lru bh s = .ok a s') :
    s'.b = s.b := by
  simp only [put_last_lru, remove_from_lru_list, bind_run, getS_run, ite_run, modS_run, pure_run,
    kpanic_run] at e
  split_ifs at e <;> cases e <;> rfl

/-- A buffer that `get_hash_table` returns has the size asked for. -/
theorem get_hash_table_size (dev block size : Nat) : ∀ (fuel : Nat) (s : State) (r : Nat)
    (s' : State), get_hash_table fuel dev block size s = .ok r s' → r ≠ 0 →
      (s'.b r).b_size = size := by
  intro fuel
  induction fuel with
  | zero => intro s r s' e; cases e
  | succ fuel ih =>
    intro s r s' e hr
    unfold get_hash_table at e
    obtain ⟨bh, s1, _, e⟩ := bind_inv e
    split_ifs at e with h0
    · cases e
      exact absurd rfl hr
    · obtain ⟨_, s2, _, e⟩ := bind_inv e
      obtain ⟨_, s3, _, e⟩ := bind_inv e
      rw [bind_run, getS_run] at e
      dsimp only at e
      split_ifs at e with hc
      · cases e
        exact hc.2.2
      · obtain ⟨_, s4, _, e⟩ := bind_inv e
        exact ih s4 r s' e hr

/-- The buffer that `getblk` returns is of the size class asked for. -/
theorem getblk_repeat_index (fuel0 dev block size : Nat) (hdev : dev ≠ B_FREE) :
    ∀ (fuel : Nat) (s : State) (r : Nat) (s' : State), Inv s →
      getblk_repeat fuel0 dev block size fuel s = .ok r s' →
      BUFSIZE_INDEX (s'.b r).b_size = BUFSIZE_INDEX size := by
  intro fuel
  induction fuel with
  | zero => intro s r s' _ e; cases e
  | succ fuel ih =>
    intro s r s' hI e
    unfold getblk_repeat at e
    dsimp only at e
    obtain ⟨bh, s1, e1, e⟩ := bind_inv e
    have hI1 := ((get_hash_table_post _ _ _ _ s).ok hI e1).1
    split_ifs at e with h0
    · have hsz := get_hash_table_size dev block size fuel0 s bh s1 e1 h0
      rw [bind_run, getS_run] at e
      dsimp only at e
      rw [ite_bind_jp] at e
      obtain ⟨_, s2, e2, e⟩ := bind_inv e
      rw [ite_bind_jp] at e
      obtain ⟨_, s3, e3, e⟩ := bind_inv e
      have hb2 : s2.b = s1.b := by
        split_ifs at e2
        · exact put_last_lru_b bh s1 s2 _ e2
        · cases e2
          rfl
      have hb3 : (s3.b bh).b_size = (s2.b bh).b_size := by
        split_ifs at e3
        · cases e3
          show (upd s2.b bh _ bh).b_size = _
          rw [upd_same]
        · cases e3
          rfl
      obtain ⟨hrb, hss⟩ : bh = r ∧ s3 = s' := by
        cases e
        exact ⟨rfl, rfl⟩
      subst hrb hss
      rw [hb3, hb2, hsz]
    · obtain ⟨_, s2, e2, e⟩ := bind_inv e
      have hI2 := ((getblk_refill_post _ _ _ s1).ok hI1 e2).1
      obtain ⟨f, s3, e3, e⟩ := bind_inv e
      have hI3 := ((find_buffer_post dev block size s2).ok hI2 e3).1
      split_ifs at e with hf
      · exact ih s3 r s' hI3 e
      · rw [bind_run, getS_run] at e
        dsimp only at e
        obtain ⟨_, s4, e4, e⟩ := bind_inv e
        obtain ⟨hI4, hb4, _, _, _, _, hd4, i, hfree⟩ :=
          (remove_from_free_list_post s3 _).ok hI3 e4
        have hin : BUFSIZE_INDEX (s3.b ((s3.free_list (BUFSIZE_INDEX size)).headD 0)).b_size =
            BUFSIZE_INDEX size := by
          cases hfl : s3.free_list (BUFSIZE_INDEX size) with
          | nil =>
            rw [hfl] at hfree
            have := (hI3.carved_free _ _ hfree).1
            simp at this
          | cons x rest =>
            exact hI3.free_size _ _ (by rw [hfl]; exact List.mem_cons_self _ _)
        obtain ⟨_, s5, e5, e⟩ := bind_inv e
        obtain ⟨_, s6, e6, e⟩ := bind_inv e
        have hb5 : s5.b ((s3.free_list (BUFSIZE_INDEX size)).headD 0) =
            { (s4.b ((s3.free_list (BUFSIZE_INDEX size)).headD 0)) with
              b_count := 1, b_dirt := false, b_lock := false, b_uptodate := false,
              b_flushtime := 0, b_req := false, b_dev := dev, b_blocknr := block } := by
          cases e5
          show upd s4.b _ _ _ = _
          rw [upd_same]
        have h6 := refiled_insert_into_queues _ s5 _ s6 (by rw [hb5]; exact hdev) e6
        obtain ⟨hrb, hss⟩ : (s3.free_list (BUFSIZE_INDEX size)).headD 0 = r ∧ s6 = s' := by
          cases e
          exact ⟨rfl, rfl⟩
        rw [← hrb, ← hss, (h6.fields _).2.2.1, hb5]
        show BUFSIZE_INDEX (s4.b _).b_size = _
        rw [hb4]
        exact hin

theorem getblk_index (fuel dev block size : Nat) (hdev : dev ≠ B_FREE) (s : State) (r : Nat)
    (s' : State) (hI : Inv s) (e : getblk fuel dev block size s = .ok r s') :
    BUFSIZE_INDEX (s'.b r).b_size = BUFSIZE_INDEX size := by
  unfold getblk at e
  obtain ⟨_, s1, e1, e⟩ := bind_inv e
  have hc : SameCore s s1 := by
    cases e1
    exact sameCore_other s _ rfl rfl rfl rfl rfl rfl rfl rfl
  exact getblk_repeat_index fuel dev block size hdev fuel s1 r s' (hc.inv_sc hI) e

theorem ahead2_init_reachable : Reachable ahead2_init :=
  Reachable.buffer_init ahead2 _ 10
    ⟨⟨fun _ => rfl, fun _ => rfl, fun _ => rfl, rfl, rfl, fun _ => rfl⟩, fun _ => rfl,
      fun _ => rfl, fun _ _ => rfl, rfl⟩
    (Res.eq_ok_unit (buffer_init 10 ahead2) (by decide!))

/-- C30: in a call of `breada` on a buffer size `bufsize` of 512, 1024, 2048 or 4096 bytes
that returns, the local `blocks`, which bounds the loop that requests blocks beyond the
primary one (`for(i=1; i<blocks; i++)`), is 0 whenever
`filesize mod bufsize >= pos mod bufsize`, and then at most the primary block is handed to
`ll_rw_block`.  When `filesize mod bufsize < pos mod bufsize`, `blocks` is the smaller of
`read_ahead[MAJOR(dev)] >> index` and 16, with `index` the size class of `bufsize` and
`read_ahead` read after the `getblk` of the primary block: neither `pos` nor `filesize`
bounds it otherwise.  In both cases `j - 1 <= blocks - 1` buffers beyond the primary one
are requested. -/
theorem breada_blocks_ignore_file_length (fuel dev : Nat) (block : Int)
    (bufsize pos filesize : Nat) (s s' : State) (res : Option Nat × BreadaLocals)
    (hr : Reachable s) (hdev : dev ≠ B_FREE) (hsup : Supported bufsize)
    (e : breada fuel dev block bufsize pos filesize s = .ok res s') :
    res.2.j - 1 ≤ res.2.blocks - 1 ∧
    (∀ l ∈ res.2.submitted, l.length = res.2.j) ∧
    (pos % bufsize ≤ filesize % bufsize → res.2.blocks = 0 ∧ res.2.j ≤ 1) ∧
    (filesize % bufsize < pos % bufsize → res.2.submitted ≠ [] →
      ∃ bh s1, getblk fuel dev block.toNat bufsize s = .ok bh s1 ∧
        res.2.blocks =
          min (s1.read_ahead (MAJOR dev) >>> (BUFSIZE_INDEX bufsize).toNat) NBUF) := by
  obtain ⟨k, hk, hb, hi⟩ := supported_index bufsize hsup
  rcases breada_locals fuel dev block bufsize pos filesize s s' res e with
    ⟨h1, h2, h3, h4⟩ | ⟨h1, h2, h3, h4, h5, bh, s1, e1, h6, h7⟩
  · rw [h1, h3, h4]
    exact ⟨le_refl _, fun l hl => absurd hl (List.not_mem_nil l), fun _ => ⟨rfl, Nat.zero_le _⟩,
      fun _ h => absurd rfl h⟩
  · have hidx : res.2.index = k := by
      rw [h6, getblk_index fuel dev block.toNat bufsize hdev s bh s1 (reachable_inv hr) e1, hi]
    have hv := breada_blocks_value (s1.read_ahead (MAJOR dev)) pos filesize k res.2.index
      bufsize hb hidx hk
    refine ⟨by omega, fun l hl => ?_, fun h => ?_, fun h _ => ⟨bh, s1, e1, ?_⟩⟩
    · rw [h5] at hl
      rw [List.mem_singleton.mp hl, List.length_map, List.length_range]
    · have := hv.1 h
      rw [← h7] at this
      exact ⟨this, by omega⟩
    · rw [h7, hv.2 h, hi]
      rfl

/-- Witness for C30: on `ahead2_init` (read-ahead of 8 sectors, buffers of 1024 bytes) a
file of 8192 bytes is read.  At `pos = 0` no block beyond the primary one is requested,
although seven more blocks of the file follow; at `pos = 1023`, `blocks` is
`min (8 >> 1) 16 = 4`. -/
theorem breada_blocks_ignore_file_length_witness :
    (breada 10 0x301 1 1024 0 8192 ahead2_init).val.2.blocks = 0 ∧
      (breada 10 0x301 1 1024 0 8192 ahead2_init).val.2.j ≤ 1 ∧
      (breada 10 0x301 1 1024 0 8192 ahead2_init).val.2.submitted = [[61]] ∧
      (breada 10 0x301 1 1024 1023 8192 ahead2_init).val.2.blocks = 4 :=
  have h := (breada_blocks_ignore_file_length 10 0x301 1 1024 0 8192 ahead2_init _ _
    ahead2_init_reachable (by decide) (Or.inr (Or.inl rfl))
    (Res.eq_ok (breada 10 0x301 1 1024 0 8192 ahead2_init) (by decide!))).2.2.1 (by decide)
  ⟨h.1, h.2, by decide!, by decide!⟩

theorem lru6_ready_reachable : Reachable lru6_ready := by
  have h0 : Reachable (buffer_init 10 boot3).state := boot3_init_reachable
  have g : ∀ s block, Reachable s → (getblk 30 0x301 block 1024 s).isOk = true →
      Reachable (getblk 30 0x301 block 1024 s).state := fun s block h e =>
    Reachable.getblk _ _ 30 0x301 block 1024 _ h (by decide) (Res.eq_ok _ e)
  have r : ∀ s bh, Reachable s → (brelse 30 bh s).isOk = true →
      Reachable (brelse 30 bh s).state := fun s bh h e =>
    Reachable.brelse _ _ 30 bh h (Res.eq_ok_unit _ e)
  have h1 := g _ 1 h0 (by decide!)
  have h2 := g _ 2 h1 (by decide!)
  have h3 := g _ 3 h2 (by decide!)
  have h4 := g _ 4 h3 (by decide!)
  have h5 := g _ 5 h4 (by decide!)
  have h6 : Reachable lru6_held := g _ 6 h5 (by decide!)
  have h7 : Reachable lru6_first := r _ 58 (Reachable.tick _ 10 h6) (by decide!)
  have h8 := r _ 61 (Reachable.tick _ 90 h7) (by decide!)
  have h9 := r _ 62 h8 (by decide!)
  have h10 := r _ 63 h9 (by decide!)
  have h11 := r _ 64 h10 (by decide!)
  have h12 : Reachable lru6_released := r _ 57 h11 (by decide!)
  exact Reachable.sys_bdflush _ _ 30 true 0 false 7 5 _ h12 (Res.eq_ok _ (by decide!))

/-- C24 (counterexample): in the reachable state `lru6_ready` the heads 61 and 58 are both
on the CLEAN list, clean, unlocked, unreferenced, of 1024 bytes and on unshared pages;
head 61 has `b_lru_time` 100 and head 58 has 10.  `refill_freelist(1024)` moves head 61
(and 62, 63, 64, 57) to the free list and leaves head 58, the oldest, on the CLEAN list:
the candidate of a list is the first usable buffer in list order, and `b_lru_time` is only
compared between the candidates of different lists. -/
theorem refill_freelist_passes_oldest :
    Reachable lru6_ready ∧ lru6_ready.lru_list BUF_CLEAN = [61, 62, 63, 64, 57, 58] ∧
      lru6_ready.free_list 1 = [59, 60] ∧
      (∀ x ∈ [61, 58], (lru6_ready.b x).b_dirt = false ∧ (lru6_ready.b x).b_lock = false ∧
        (lru6_ready.b x).b_count = 0 ∧ (lru6_ready.b x).b_size = 1024 ∧
        lru6_ready.mem_map (MAP_NR (lru6_ready.b x).b_data) = 1) ∧
      (lru6_ready.b 61).b_lru_time = 100 ∧ (lru6_ready.b 58).b_lru_time = 10 ∧
      (refill_freelist 30 1024 lru6_ready).isOk = true ∧
      (refill_freelist 30 1024 lru6_ready).state.free_list 1 = [59, 60, 61, 62, 63, 64, 57] ∧
      (refill_freelist 30 1024 lru6_ready).state.lru_list BUF_CLEAN = [58] :=
  ⟨lru6_ready_reachable, by decide!, by decide!, by decide!, by decide!, by decide!, by decide!,
    by decide!, by decide!⟩

theorem all_lists_mem (j : BufList) : j ∈ ALL_LISTS := by
  cases j <;> decide

/-- The election of `refill_freelist` returns the first candidate of smallest
`b_lru_time` among those below `best_time`. -/
theorem refill_election_min (s : State) (candidate : BufList → Nat) :
    ∀ (l : List BufList) (best : Nat) (w : Option BufList) (i : BufList),
      (∀ k, w = some k → candidate k ≠ 0 ∧ (s.b (candidate k)).b_lru_time = best) →
      refill_election s candidate l best w = some i →
      candidate i ≠ 0 ∧ (s.b (candidate i)).b_lru_time ≤ best ∧
        ∀ j ∈ l, candidate j ≠ 0 →
          (s.b (candidate i)).b_lru_time ≤ (s.b (candidate j)).b_lru_time := by
  intro l
  induction l with
  | nil =>
    intro best w i hw e
    unfold refill_election at e
    have := hw i e
    exact ⟨this.1, le_of_eq this.2, fun j hj => absurd hj (List.not_mem_nil j)⟩
  | cons k rest ih =>
    intro best w i hw e
    unfold refill_election at e
    split_ifs at e with h0 h1
    · obtain ⟨a, b, c⟩ := ih best w i hw e
      refine ⟨a, b, fun j hj hc => ?_⟩
      rcases List.mem_cons.mp hj with rfl | hj
      · exact absurd h0 hc
      · exact c j hj hc
    · obtain ⟨a, b, c⟩ := ih _ (some k) i (fun m hm => by
        cases hm
        exact ⟨h0, rfl⟩) e
      refine ⟨a, by omega, fun j hj hc => ?_⟩
      rcases List.mem_cons.mp hj with rfl | hj
      · exact b
      · exact c j hj hc
    · obtain ⟨a, b, c⟩ := ih best w i hw e
      refine ⟨a, b, fun j hj hc => ?_⟩
      rcases List.mem_cons.mp hj with rfl | hj
      · omega
      · exact c j hj hc

theorem put_last_free_mem (bh : Nat) (s s' : State) (a : Unit) (h0 : bh ≠ 0)
    (e : put_last_free bh s = .ok a s') :
    bh ∈ s'.free_list (BUFSIZE_INDEX (s.b bh).b_size) ∧ (s'.b bh).b_dev = B_FREE := by
  simp only [put_last_free, bind_run, getS_run, setB, modS_run] at e
  rw [if_neg h0] at e
  simp only [bind_run, modS_run] at e
  cases e
  constructor
  · show bh ∈ upd s.free_list _ _ _
    rw [upd_same]
    exact List.mem_append_right _ (List.mem_singleton_self _)
  · show (upd s.b bh _ bh).b_dev = _
    rw [upd_same]

theorem Chained.cons2_cd (s : State) (x y : Nat) (rest : List Nat) :
    Chained s (x :: y :: rest) ↔
      (s.b x).b_reqnext = y ∧
        (bh_sector s x + (s.b x).b_size >>> 9) % 4294967296 = bh_sector s y ∧
        Chained s (y :: rest) := Iff.rfl

theorem bh_sector_congr {s s' : State} {x : Nat}
    (h : (s'.b x).b_blocknr = (s.b x).b_blocknr ∧ (s'.b x).b_size = (s.b x).b_size) :
    bh_sector s' x = bh_sector s x := by
  unfold bh_sector
  rw [h.1, h.2]

theorem Chained.congr_cd {s s' : State} : ∀ (L : List Nat),
    (∀ x, (s'.b x).b_blocknr = (s.b x).b_blocknr ∧ (s'.b x).b_size = (s.b x).b_size) →
    (∀ x ∈ L, (s'.b x).b_reqnext = (s.b x).b_reqnext) → Chained s L → Chained s' L := by
  intro L
  induction L with
  | nil => intro _ _ _; trivial
  | cons x rest ih =>
    intro hf hn hc
    cases rest with
    | nil => trivial
    | cons y rest =>
      rw [Chained.cons2_cd] at hc ⊢
      refine ⟨?_, ?_, ih hf (fun z hz => hn z (List.mem_cons_of_mem _ hz)) hc.2.2⟩
      · rw [hn x (List.mem_cons_self _ _)]
        exact hc.1
      · rw [bh_sector_congr (hf x), bh_sector_congr (hf y), (hf x).2]
        exact hc.2.1

/-- Along a chain the sectors add up: the chain ends, in 32-bit arithmetic, at its first
sector plus the sum of its sector counts. -/
theorem chained_end (s : State) : ∀ (L : List Nat) (a z : Nat), L.head? = some a →
    L.getLast? = some z → Chained s L →
    (bh_sector s a + (L.map fun x => (s.b x).b_size >>> 9).sum) % 4294967296 =
      (bh_sector s z + (s.b z).b_size >>> 9) % 4294967296 := by
  intro L
  induction L with
  | nil => intro a z h; cases h
  | cons x rest ih =>
    intro a z ha hz hc
    cases rest with
    | nil =>
      cases ha
      cases hz
      simp
    | cons y rest =>
      cases ha
      rw [Chained.cons2_cd] at hc
      have hz' : (y :: rest).getLast? = some z := by
        rw [← hz]
        simp [List.getLast?_cons_cons]
      have := ih y z rfl hz' hc.2.2
      rw [List.map_cons, List.sum_cons]
      have h1 := hc.2.1
      generalize ((y :: rest).map fun x => (s.b x).b_size >>> 9).sum = S at this ⊢
      omega

theorem getLast_mem {L : List Nat} {z : Nat} (h : L.getLast? = some z) : z ∈ L :=
  List.mem_of_getLast?_eq_some h

theorem chained_append {s s' : State} (bh : Nat) : ∀ (L : List Nat) (z : Nat),
    L.getLast? = some z → L.Nodup → Chained s L →
    (∀ x, (s'.b x).b_blocknr = (s.b x).b_blocknr ∧ (s'.b x).b_size = (s.b x).b_size) →
    (∀ x, x ≠ z → (s'.b x).b_reqnext = (s.b x).b_reqnext) → (s'.b z).b_reqnext = bh →
    (bh_sector s z + (s.b z).b_size >>> 9) % 4294967296 = bh_sector s bh →
    Chained s' (L ++ [bh]) := by
  intro L
  induction L with
  | nil => intro z h; cases h
  | cons x rest ih =>
    intro z hz hn hc hf hnx htl hsec
    cases rest with
    | nil =>
      cases hz
      show Chained s' [x, bh]
      rw [Chained.cons2_cd]
      refine ⟨htl, ?_, trivial⟩
      rw [bh_sector_congr (hf x), bh_sector_congr (hf bh), (hf x).2]
      exact hsec
    | cons y rest =>
      have hz' : (y :: rest).getLast? = some z := by
        rw [← hz]
        simp [List.getLast?_cons_cons]
      have hxz : x ≠ z := fun h => (List.nodup_cons.mp hn).1 (h ▸ getLast_mem hz')
      rw [Chained.cons2_cd] at hc
      show Chained s' (x :: y :: (rest ++ [bh]))
      rw [Chained.cons2_cd]
      refine ⟨?_, ?_, ih z hz' (List.nodup_cons.mp hn).2 hc.2.2 hf hnx htl hsec⟩
      · rw [hnx x hxz]
        exact hc.1
      · rw [bh_sector_congr (hf x), bh_sector_congr (hf y), (hf x).2]
        exact hc.2.1

/-- A buffer put behind the chain of a request that ends where the buffer begins. -/
theorem ChainOk.append {s s' : State} {r bh : Nat} {L : List Nat} (h : ChainOk s r L)
    (hb : bh ∉ L)
    (hf : ∀ x, (s'.b x).b_blocknr = (s.b x).b_blocknr ∧ (s'.b x).b_size = (s.b x).b_size)
    (hnx : ∀ x, x ≠ (s.all_requests r).bhtail → (s'.b x).b_reqnext = (s.b x).b_reqnext)
    (htl : (s'.b (s.all_requests r).bhtail).b_reqnext = bh)
    (h1 : (s'.all_requests r).bh = (s.all_requests r).bh)
    (h2 : (s'.all_requests r).bhtail = bh)
    (h3 : (s'.all_requests r).sector = (s.all_requests r).sector)
    (h4 : (s'.all_requests r).nr_sectors = (s.all_requests r).nr_sectors + (s.b bh).b_size >>> 9)
    (hm : ((s.all_requests r).sector + (s.all_requests r).nr_sectors) % 4294967296 =
      bh_sector s bh) : ChainOk s' r (L ++ [bh]) := by
  have hne : L ≠ [] := fun e => by
    have := h.first
    rw [e] at this
    cases this
  have hend := chained_end s L _ _ h.first h.last h.chained
  rw [h.start, ← h.total, hm] at hend
  refine ⟨?_, ?_, ?_, ?_, ?_, ?_⟩
  · rw [List.head?_append_of_ne_nil _ hne, h1]
    exact h.first
  · rw [h2]
    simp
  · exact List.nodup_append.mpr ⟨h.nodup, List.nodup_singleton _, fun x hx hx' => by
      rw [List.mem_singleton.mp hx'] at hx
      exact hb hx⟩
  · refine chained_append bh L _ h.last h.nodup h.chained hf hnx htl ?_
    exact hend.symm
  · rw [h1, h3, bh_sector_congr (hf _)]
    exact h.start
  · have : ∀ l : List Nat, (l.map fun x => (s'.b x).b_size >>> 9) =
        l.map fun x => (s.b x).b_size >>> 9 :=
      fun l => List.map_congr_left fun x _ => by rw [(hf x).2]
    rw [h4, h.total, this]
    simp only [List.map_append, List.sum_append, List.map_cons, List.map_nil, List.sum_cons,
      List.sum_nil, Nat.add_zero]

/-- A buffer put in front of the chain of a request that begins where the buffer ends. -/
theorem ChainOk.front {s s' : State} {r bh : Nat} {L : List Nat} (h : ChainOk s r L)
    (hb : bh ∉ L)
    (hf : ∀ x, (s'.b x).b_blocknr = (s.b x).b_blocknr ∧ (s'.b x).b_size = (s.b x).b_size)
    (hnx : ∀ x, x ≠ bh → (s'.b x).b_reqnext = (s.b x).b_reqnext)
    (hhd : (s'.b bh).b_reqnext = (s.all_requests r).bh)
    (h1 : (s'.all_requests r).bh = bh)
    (h2 : (s'.all_requests r).bhtail = (s.all_requests r).bhtail)
    (h3 : (s'.all_requests r).sector = bh_sector s bh)
    (h4 : (s'.all_requests r).nr_sectors = (s.all_requests r).nr_sectors + (s.b bh).b_size >>> 9)
    (hm : usub (s.all_requests r).sector ((s.b bh).b_size >>> 9) = bh_sector s bh) :
    ChainOk s' r (bh :: L) := by
  obtain ⟨a, rest, rfl⟩ : ∃ a rest, L = a :: rest := by
    cases L with
    | nil =>
      have := h.first
      cases this
    | cons a rest => exact ⟨a, rest, rfl⟩
  have ha : a = (s.all_requests r).bh := Option.some.inj h.first
  refine ⟨?_, ?_, ?_, ?_, ?_, ?_⟩
  · rw [h1]
    rfl
  · rw [h2, ← h.last]
    simp [List.getLast?_cons_cons]
  · exact List.nodup_cons.mpr ⟨hb, h.nodup⟩
  · rw [Chained.cons2_cd]
    refine ⟨by rw [hhd, ha], ?_, Chained.congr_cd _ hf (fun x hx => hnx x fun e => hb (e ▸ hx))
      h.chained⟩
    rw [bh_sector_congr (hf bh), bh_sector_congr (hf a), (hf bh).2, ha, h.start, ← hm]
    have hlt : (s.all_requests r).sector < 4294967296 := by
      rw [← h.start]
      exact Nat.mod_lt _ (by decide)
    unfold usub
    omega
  · rw [h1, h3]
    exact bh_sector_congr (hf bh)
  · have : ∀ l : List Nat, (l.map fun x => (s'.b x).b_size >>> 9) =
        l.map fun x => (s.b x).b_size >>> 9 :=
      fun l => List.map_congr_left fun x _ => by rw [(hf x).2]
    rw [h4, h.total, this]
    simp only [List.map_cons, List.sum_cons]
    omega

theorem Ascending.cons2_as (s : State) (x y : Nat) (rest : List Nat) :
    Ascending s (x :: y :: rest) ↔
      bh_sector s x + (s.b x).b_size >>> 9 = bh_sector s y ∧ Ascending s (y :: rest) :=
  Iff.rfl

theorem Ascending.congr_as {s s' : State} : ∀ (L : List Nat),
    (∀ x, (s'.b x).b_blocknr = (s.b x).b_blocknr ∧ (s'.b x).b_size = (s.b x).b_size) →
    Ascending s L → Ascending s' L := by
  intro L
  induction L with
  | nil => intro _ _; trivial
  | cons x rest ih =>
    intro hf hc
    cases rest with
    | nil => trivial
    | cons y rest =>
      rw [Ascending.cons2_as] at hc ⊢
      refine ⟨?_, ih hf hc.2⟩
      rw [bh_sector_congr (hf x), bh_sector_congr (hf y), (hf x).2]
      exact hc.1

theorem ascending_end (s : State) : ∀ (L : List Nat) (a z : Nat), L.head? = some a →
    L.getLast? = some z → Ascending s L →
    bh_sector s a + (L.map fun x => (s.b x).b_size >>> 9).sum =
      bh_sector s z + (s.b z).b_size >>> 9 := by
  intro L
  induction L with
  | nil => intro a z h; cases h
  | cons x rest ih =>
    intro a z ha hz hc
    cases rest with
    | nil =>
      cases ha
      cases hz
      simp
    | cons y rest =>
      cases ha
      rw [Ascending.cons2_as] at hc
      have hz' : (y :: rest).getLast? = some z := by
        rw [← hz]
        simp [List.getLast?_cons_cons]
      have := ih y z rfl hz' hc.2
      rw [List.map_cons, List.sum_cons]
      have h1 := hc.1
      generalize ((y :: rest).map fun x => (s.b x).b_size >>> 9).sum = S at this ⊢
      omega

theorem ascending_append {s s' : State} (bh : Nat) : ∀ (L : List Nat) (z : Nat),
    L.getLast? = some z → Ascending s L →
    (∀ x, (s'.b x).b_blocknr = (s.b x).b_blocknr ∧ (s'.b x).b_size = (s.b x).b_size) →
    bh_sector s z + (s.b z).b_size >>> 9 = bh_sector s bh →
    Ascending s' (L ++ [bh]) := by
  intro L
  induction L with
  | nil => intro z h; cases h
  | cons x rest ih =>
    intro z hz hc hf hsec
    cases rest with
    | nil =>
      cases hz
      show Ascending s' [x, bh]
      rw [Ascending.cons2_as]
      refine ⟨?_, trivial⟩
      rw [bh_sector_congr (hf x), bh_sector_congr (hf bh), (hf x).2]
      exact hsec
    | cons y rest =>
      have hz' : (y :: rest).getLast? = some z := by
        rw [← hz]
        simp [List.getLast?_cons_cons]
      rw [Ascending.cons2_as] at hc
      show Ascending s' (x :: y :: (rest ++ [bh]))
      rw [Ascending.cons2_as]
      refine ⟨?_, ih z hz' hc.2 hf hsec⟩
      rw [bh_sector_congr (hf x), bh_sector_congr (hf y), (hf x).2]
      exact hc.1

theorem ChainOk.congr_ck {s s' : State} {r : Nat} {L : List Nat} (h : ChainOk s r L)
    (hr : s'.all_requests r = s.all_requests r)
    (hf : ∀ x, (s'.b x).b_blocknr = (s.b x).b_blocknr ∧ (s'.b x).b_size = (s.b x).b_size)
    (hn : ∀ x, (s'.b x).b_reqnext = (s.b x).b_reqnext) : ChainOk s' r L := by
  refine ⟨by rw [hr]; exact h.first, by rw [hr]; exact h.last, h.nodup,
    Chained.congr_cd L hf (fun x _ => hn x) h.chained, ?_, ?_⟩
  · rw [hr, bh_sector_congr (hf _)]
    exact h.start
  · rw [hr, h.total]
    exact congrArg List.sum (List.map_congr_left fun x _ => by rw [(hf x).2])

/-- The ascending form of `ChainOk.append`, when the request does not end at sector 2^32. -/
theorem ChainOk.append_asc {s s' : State} {r bh : Nat} {L : List Nat} (h : ChainOk s r L)
    (ha : Ascending s L)
    (hf : ∀ x, (s'.b x).b_blocknr = (s.b x).b_blocknr ∧ (s'.b x).b_size = (s.b x).b_size)
    (hm : ((s.all_requests r).sector + (s.all_requests r).nr_sectors) % 4294967296 =
      bh_sector s bh)
    (hw : (s.all_requests r).sector + (s.all_requests r).nr_sectors < 4294967296) :
    Ascending s' (L ++ [bh]) := by
  have hend := ascending_end s L _ _ h.first h.last ha
  rw [h.start, ← h.total] at hend
  refine ascending_append bh L _ h.last ha hf ?_
  rw [← hend, ← hm]
  exact (Nat.mod_eq_of_lt hw).symm

/-- The ascending form of `ChainOk.front`, when the buffer does not begin below sector 0. -/
theorem ChainOk.front_asc {s s' : State} {r bh : Nat} {L : List Nat} (h : ChainOk s r L)
    (ha : Ascending s L)
    (hf : ∀ x, (s'.b x).b_blocknr = (s.b x).b_blocknr ∧ (s'.b x).b_size = (s.b x).b_size)
    (hm : usub (s.all_requests r).sector ((s.b bh).b_size >>> 9) = bh_sector s bh)
    (hw : (s.b bh).b_size >>> 9 ≤ (s.all_requests r).sector) :
    Ascending s' (bh :: L) := by
  obtain ⟨a, rest, rfl⟩ : ∃ a rest, L = a :: rest := by
    cases L with
    | nil =>
      have := h.first
      cases this
    | cons a rest => exact ⟨a, rest, rfl⟩
  have ha' : a = (s.all_requests r).bh := Option.some.inj h.first
  rw [Ascending.cons2_as]
  refine ⟨?_, Ascending.congr_as _ hf ha⟩
  rw [bh_sector_congr (hf bh), bh_sector_congr (hf a), (hf bh).2, ha', h.start, ← hm]
  have hlt : (s.all_requests r).sector < 4294967296 := by
    rw [← h.start]
    exact Nat.mod_lt _ (by decide)
  unfold usub
  omega

/-- What the merge walk of `make_request` has tested of the request it returns. -/
theorem make_request_merge_sound (s : State) (bh rw sector count : Nat) :
    ∀ (l : List Nat) (m : Merge), make_request_merge s bh rw sector count l = some m →
      (∀ req, m = .back req →
        ((s.all_requests req).sector + (s.all_requests req).nr_sectors) % 4294967296 = sector) ∧
      (∀ req, m = .front req → usub (s.all_requests req).sector count = sector) := by
  intro l
  induction l with
  | nil => intro m e; cases e
  | cons q rest ih =>
    intro m e
    unfold make_request_merge at e
    split_ifs at e with h1 h2
    · cases e
      exact ⟨fun req hq => by cases hq; exact h1.2.2.2.1, fun req hq => Merge.noConfusion hq⟩
    · cases e
      exact ⟨fun req hq => Merge.noConfusion hq, fun req hq => by cases hq; exact h2.2.2.2.1⟩
    · exact ih m e

theorem get_request_loop_same (n prev : Nat) : ∀ (fuel req : Nat) (s : State) (r : Option Nat)
    (s' : State), get_request_loop n prev fuel req s = .ok r s' → s' = s := by
  intro fuel
  induction fuel with
  | zero => intro req s r s' e; cases e
  | succ fuel ih =>
    intro req s r s' e
    unfold get_request_loop at e
    simp only [bind_run, getS_run] at e
    split_ifs at e
    all_goals first
      | (cases e; rfl)
      | exact ih _ s r s' e

/-- What `get_request` changes: the slot it returns gets the device. -/
theorem get_request_effect (fuel n : Nat) (dev : Int) (s : State) (r : Option Nat) (s' : State)
    (e : get_request fuel n dev s = .ok r s') :
    s'.b = s.b ∧ (r = none → s'.all_requests = s.all_requests) ∧
      ∀ q, r = some q → s'.all_requests =
        upd s.all_requests q { (s.all_requests q) with dev := dev } := by
  unfold get_request at e
  split_ifs at e with h0
  · cases e
  rw [bind_run, getS_run] at e
  dsimp only at e
  rw [ite_bind_jp] at e
  obtain ⟨_, s1, e1, e⟩ := bind_inv e
  have key : s1.all_requests = s.all_requests ∧ s1.b = s.b := by
    split_ifs at e1 with h
    · cases e1
      exact ⟨rfl, rfl⟩
    · cases e1
      exact ⟨rfl, rfl⟩
  rw [bind_run, getS_run] at e
  dsimp only at e
  obtain ⟨r1, s2, e2, e⟩ := bind_inv e
  have hs2 := get_request_loop_same _ _ _ _ _ _ _ e2
  subst hs2
  cases r1 with
  | none =>
    cases e
    exact ⟨key.2, fun _ => key.1, fun q hq => Option.noConfusion hq⟩
  | some req =>
    dsimp only at e
    simp only [bind_run, modS_run, setR, pure_run] at e
    cases e
    refine ⟨key.2, fun h => Option.noConfusion h, fun q hq => ?_⟩
    cases hq
    show upd s2.all_requests _ _ = _
    rw [key.1]

theorem upd_b_fixed (s : State) (y : Nat) (g : buffer_head → buffer_head)
    (hg : ∀ v, (g v).b_blocknr = v.b_blocknr ∧ (g v).b_size = v.b_size) (x : Nat) :
    (upd s.b y (g (s.b y)) x).b_blocknr = (s.b x).b_blocknr ∧
      (upd s.b y (g (s.b y)) x).b_size = (s.b x).b_size := by
  rw [upd_apply]
  split_ifs with h
  · rw [h]
    exact hg _
  · exact ⟨rfl, rfl⟩

/-- The part of `make_request` from the label `repeat`: a request whose record it changes
is the new request of the buffer, or a request whose chain it has extended by the buffer,
behind or in front. -/
theorem make_request_queue_chain (f fuel major : Nat) (rw : Rw) (ra : Bool)
    (bh sector count : Nat) (s s' : State) (hs : sector = bh_sector s bh)
    (hc : count = (s.b bh).b_size >>> 9)
    (e : make_request_queue (refile_buffer f) fuel major rw ra bh sector count s = .ok () s') :
    ∀ r, s'.all_requests r ≠ s.all_requests r →
      (ChainOk s' r [bh] ∧ (s'.all_requests r).sector = bh_sector s bh) ∨
      ∀ L, ChainOk s r L → bh ∉ L →
        (ChainOk s' r (L ++ [bh]) ∧ (Ascending s L →
          (s.all_requests r).sector + (s.all_requests r).nr_sectors < 4294967296 →
          Ascending s' (L ++ [bh]))) ∨
        (ChainOk s' r (bh :: L) ∧ (Ascending s L →
          (s.b bh).b_size >>> 9 ≤ (s.all_requests r).sector → Ascending s' (bh :: L))) := by
  unfold make_request_queue at e
  rw [bind_run, getS_run] at e
  dsimp only at e
  generalize heq : (if (major = IDE0_MAJOR ∨ major = IDE1_MAJOR ∨ major = FLOPPY_MAJOR ∨
        major = SCSI_DISK_MAJOR ∨ major = SCSI_CDROM_MAJOR) ∧ s.current_request major ≠ [] then
      make_request_merge s bh rw.val sector count
        (if (s.config_blk_dev_hd = true ∧ major = HD_MAJOR) ∨ major = FLOPPY_MAJOR then
          (s.current_request major).tail else s.current_request major)
      else none) = m at e
  rcases m with _ | ⟨req | req⟩
  rotate_left
  · dsimp only at e
    have hm : ((s.all_requests req).sector + (s.all_requests req).nr_sectors) % 4294967296 =
        sector := by
      split_ifs at heq <;> first
        | exact (make_request_merge_sound s bh rw.val sector count _ _ heq).1 req rfl
        | cases heq
    obtain ⟨_, s1, e1, e⟩ := bind_inv e
    obtain ⟨_, s2, e2, e⟩ := bind_inv e
    have h3 := mark_buffer_clean_refiled f bh s2 () s' e
    cases e1
    cases e2
    have hf : ∀ x, (s'.b x).b_blocknr = (s.b x).b_blocknr ∧ (s'.b x).b_size = (s.b x).b_size :=
      fun x => by
        rw [(h3.fields x).2.1, (h3.fields x).2.2.1]
        exact upd_b_fixed s _ (fun h => { h with b_reqnext := bh }) (fun _ => ⟨rfl, rfl⟩) x
    have hall : s'.all_requests = upd s.all_requests req
        { (s.all_requests req) with
          bhtail := bh, nr_sectors := (s.all_requests req).nr_sectors + count } :=
      h3.rest.all_requests
    intro r hr
    by_cases hrq : r = req
    · subst hrq
      right
      intro L hL hbL
      left
      have hreq : s'.all_requests r = { (s.all_requests r) with
          bhtail := bh, nr_sectors := (s.all_requests r).nr_sectors + count } := by
        rw [hall, upd_same]
      refine ⟨hL.append hbL hf (fun x hx => ?_) ?_ (by rw [hreq]) (by rw [hreq])
        (by rw [hreq]) (by rw [hreq, hc]) (by rw [hm, hs]), fun ha hw =>
          hL.append_asc ha hf (by rw [hm, hs]) hw⟩
      · rw [(h3.fields x).2.2.2.2.2.2.1]
        show (upd s.b _ _ x).b_reqnext = _
        rw [upd_other _ _ _ _ hx]
      · rw [(h3.fields _).2.2.2.2.2.2.1]
        show (upd s.b _ _ _).b_reqnext = _
        rw [upd_same]
    · exfalso
      refine hr ?_
      rw [hall, upd_other _ _ _ _ hrq]
  · dsimp only at e
    have hm : usub (s.all_requests req).sector count = sector := by
      split_ifs at heq <;> first
        | exact (make_request_merge_sound s bh rw.val sector count _ _ heq).2 req rfl
        | cases heq
    obtain ⟨_, s1, e1, ea⟩ := bind_inv e
    obtain ⟨_, s2, e2, eb⟩ := bind_inv ea
    obtain ⟨_, s3, e3, ec⟩ := bind_inv eb
    clear e ea eb
    have h3 := mark_buffer_clean_refiled f bh s2 () s3 e3
    cases e1
    cases e2
    obtain ⟨hsb, hsr⟩ : s'.b = s3.b ∧ s'.all_requests = upd s3.all_requests req
        { (s3.all_requests req) with bh := bh } := by
      cases ec
      exact ⟨rfl, rfl⟩
    clear ec
    have hf : ∀ x, (s'.b x).b_blocknr = (s.b x).b_blocknr ∧ (s'.b x).b_size = (s.b x).b_size :=
      fun x => by
        rw [hsb, (h3.fields x).2.1, (h3.fields x).2.2.1]
        exact upd_b_fixed s _ (fun h => { h with b_reqnext := (s.all_requests req).bh })
          (fun _ => ⟨rfl, rfl⟩) x
    intro r hr
    by_cases hrq : r = req
    · subst hrq
      right
      intro L hL hbL
      right
      have h3r : s3.all_requests r = { (s.all_requests r) with
          nr_sectors := (s.all_requests r).nr_sectors + count, buffer := (s.b bh).b_data,
          current_nr_sectors := count, sector := sector } := by
        rw [h3.rest.all_requests]
        show upd s.all_requests r _ r = _
        rw [upd_same]
      have hreq : s'.all_requests r = { (s3.all_requests r) with bh := bh } := by
        rw [hsr, upd_same]
      rw [h3r] at hreq
      refine ⟨hL.front hbL hf (fun x hx => ?_) ?_ (by rw [hreq]) (by rw [hreq])
        (by rw [hreq, hs]) (by rw [hreq, hc]) (by rw [← hc, hm, hs]), fun ha hw =>
          hL.front_asc ha hf (by rw [← hc, hm, hs]) hw⟩
      · rw [hsb, (h3.fields x).2.2.2.2.2.2.1]
        show (upd s.b _ _ x).b_reqnext = _
        rw [upd_other _ _ _ _ hx]
      · rw [hsb, (h3.fields _).2.2.2.2.2.2.1]
        show (upd s.b _ _ _).b_reqnext = _
        rw [upd_same]
    · exfalso
      refine hr ?_
      rw [hsr, upd_other _ _ _ _ hrq, h3.rest.all_requests]
      show upd s.all_requests req _ r = _
      rw [upd_other _ _ _ _ hrq]
  · dsimp only at e
    obtain ⟨r0, s1, e1, e⟩ := bind_inv e
    obtain ⟨hb1, hn1, hq1⟩ := get_request_effect _ _ _ _ _ _ e1
    cases r0 with
    | none =>
      dsimp only at e
      intro r hr
      exfalso
      refine hr ?_
      split_ifs at e
      · cases e
        show s1.all_requests r = _
        rw [hn1 rfl]
      · cases e
    | some q =>
      dsimp only at e
      obtain ⟨_, s2, e2, e⟩ := bind_inv e
      obtain ⟨ha, -, -, hh⟩ := add_request_queue f major q s2 s' e
      cases e2
      have hf : ∀ x, (s'.b x).b_blocknr = (s.b x).b_blocknr ∧
          (s'.b x).b_size = (s.b x).b_size := fun x => by
        obtain ⟨l, t, d, hx⟩ := hh x
        rw [hx]
        show (s1.b x).b_blocknr = _ ∧ (s1.b x).b_size = _
        rw [hb1]
        exact ⟨rfl, rfl⟩
      intro r hr
      by_cases hrq : r = q
      · subst hrq
        left
        have hreq : s'.all_requests r = { (s1.all_requests r) with
            cmd := rw.val, errors := 0, sector := sector, nr_sectors := count,
            current_nr_sectors := count, buffer := (s.b bh).b_data, sem := false,
            bh := bh, bhtail := bh } := by
          rw [ha]
          show upd s1.all_requests r _ r = _
          rw [upd_same]
        refine ⟨⟨by rw [hreq]; rfl, by rw [hreq]; rfl, List.nodup_singleton _, trivial, ?_, ?_⟩,
          by rw [hreq, hs]⟩
        · rw [hreq, bh_sector_congr (hf bh)]
          exact hs.symm
        · rw [hreq, hc]
          simp [(hf bh).2]
      · exfalso
        refine hr ?_
        rw [ha]
        show upd s1.all_requests q _ r = _
        rw [upd_other _ _ _ _ hrq, hq1 q rfl, upd_other _ _ _ _ hrq]

theorem ite_run_cases (c : Prop) [Decidable c] (a b : K Unit) (s s' : State)
    (e : (if c then a else b) s = .ok () s') :
    (c ∧ a s = .ok () s') ∨ (¬ c ∧ b s = .ok () s') := by
  by_cases h : c
  · rw [if_pos h] at e
    exact Or.inl ⟨h, e⟩
  · rw [if_neg h] at e
    exact Or.inr ⟨h, e⟩

/-- C28 (amended): every request whose record `make_request` changes is the request it
has created for the buffer, whose chain is the buffer alone and begins at the sector of
the buffer, or a request it has extended: the chain `L` the request had, with the buffer
appended at the tail or put in front of the head, is linked through `b_reqnext` from
`bh` to `bhtail`, is contiguous in 32-bit sector arithmetic, begins at the sector of the
request, and `nr_sectors` is the sum of the sector counts. The sector ranges are ascending
as well when the ranges of `L` were and the merge does not wrap: the request ended below
2^32 sectors (tail), or began at or above the sector count of the buffer (head). -/
theorem make_request_keeps_chain (f fuel major : Nat) (rw : Rw) (bh : Nat) (s s' : State)
    (e : make_request (refile_buffer f) fuel major rw bh s = .ok () s') :
    ∀ r, s'.all_requests r ≠ s.all_requests r →
      (ChainOk s' r [bh] ∧ (s'.all_requests r).sector = bh_sector s bh) ∨
      ∀ L, ChainOk s r L → bh ∉ L →
        (ChainOk s' r (L ++ [bh]) ∧ (Ascending s L →
          (s.all_requests r).sector + (s.all_requests r).nr_sectors < 4294967296 →
          Ascending s' (L ++ [bh]))) ∨
        (ChainOk s' r (bh :: L) ∧ (Ascending s L →
          (s.b bh).b_size >>> 9 ≤ (s.all_requests r).sector → Ascending s' (bh :: L))) := by
  unfold make_request at e
  rw [bind_run, getS_run] at e
  dsimp only at e
  by_cases c1 : decide (rw = .READA ∨ rw = .WRITEA) = true ∧ (s.b bh).b_lock = true
  · rw [if_pos c1] at e
    cases e
    exact fun r hr => absurd rfl hr
  rw [if_neg c1] at e
  clear c1
  rcases ite_run_cases _ _ _ s s' e with ⟨-, e2⟩ | ⟨-, e2⟩
  · cases e2
    exact fun r hr => absurd rfl hr
  clear e
  rename' e2 => e
  by_cases c3 : (s.b bh).b_lock = true
  · rw [if_pos c3] at e
    cases e
    exact fun r hr => absurd rfl hr
  rw [if_neg c3, bind_run, lock_buffer_unlocked bh s (by simpa using c3)] at e
  dsimp only at e
  rw [bind_run, getS_run] at e
  dsimp only at e
  generalize hs1 : (setB bh (fun v => { v with b_lock := true }) s).state = s1 at e
  have hb1 : ∀ x, (s1.b x).b_blocknr = (s.b x).b_blocknr ∧ (s1.b x).b_size = (s.b x).b_size ∧
      (s1.b x).b_reqnext = (s.b x).b_reqnext := fun x => by
    subst hs1
    show (upd s.b bh _ x).b_blocknr = _ ∧ (upd s.b bh _ x).b_size = _ ∧
      (upd s.b bh _ x).b_reqnext = _
    rw [upd_apply]
    split_ifs with hx
    · subst hx
      exact ⟨rfl, rfl, rfl⟩
    · exact ⟨rfl, rfl, rfl⟩
  have hr1 : s1.all_requests = s.all_requests := by
    subst hs1
    rfl
  have hf1 : ∀ x, (s1.b x).b_blocknr = (s.b x).b_blocknr ∧ (s1.b x).b_size = (s.b x).b_size :=
    fun x => ⟨(hb1 x).1, (hb1 x).2.1⟩
  have hf0 : ∀ x, (s.b x).b_blocknr = (s1.b x).b_blocknr ∧ (s.b x).b_size = (s1.b x).b_size :=
    fun x => ⟨(hb1 x).1.symm, (hb1 x).2.1.symm⟩
  clear hs1
  rcases ite_run_cases _ _ _ s1 s' e with ⟨-, e2⟩ | ⟨-, e2⟩
  · cases e2
    intro r hr
    exact absurd (congrFun hr1 r) hr
  · clear e
    rename' e2 => e
    have key := make_request_queue_chain f fuel major _ _ bh _ _ s1 s'
      (by rw [bh_sector, (hf1 bh).1, (hf1 bh).2]) (by rw [(hf1 bh).2]) e
    intro r hr
    rw [← hr1] at hr
    rcases key r hr with h | h
    · left
      rw [← bh_sector_congr (hf1 bh)]
      exact h
    · right
      intro L hL hbL
      have hL1 : ChainOk s1 r L := hL.congr_ck (congrFun hr1 r) hf1 fun x => (hb1 x).2.2
      rcases h L hL1 hbL with ⟨h1, h2⟩ | ⟨h1, h2⟩
      · left
        refine ⟨h1, fun ha hw => h2 (Ascending.congr_as L hf1 ha) ?_⟩
        rw [hr1]
        exact hw
      · right
        refine ⟨h1, fun ha hw => h2 (Ascending.congr_as L hf1 ha) ?_⟩
        rw [hr1, (hf1 bh).2]
        exact hw


theorem wrap_pending_reachable : Reachable wrap_pending := by
  have h0 : Reachable disk2_init :=
    Reachable.buffer_init disk2 _ 10
      ⟨⟨fun _ => rfl, fun _ => rfl, fun _ => rfl, rfl, rfl, fun _ => rfl⟩, fun _ => rfl,
        fun _ => rfl, fun _ _ => rfl, rfl⟩
      (Res.eq_ok_unit (buffer_init 10 disk2) (by decide!))
  have h1 : Reachable (getblk 10 0x301 2147483647 1024 disk2_init).state :=
    Reachable.getblk disk2_init _ 10 0x301 2147483647 1024 _ h0 (by decide)
      (Res.eq_ok (getblk 10 0x301 2147483647 1024 disk2_init) (by decide!))
  have h2 := Reachable.ll_rw_block _ _ 10 .READ [61] h1
    (Res.eq_ok_unit (ll_rw_block (refile_buffer 10) 10 .READ [61]
      (getblk 10 0x301 2147483647 1024 disk2_init).state) (by decide!))
  exact Reachable.getblk _ _ 10 0x301 0 1024 _ h2 (by decide) (Res.eq_ok _ (by decide!))

/-- C28 (witness): in `merge_ready` the request 0 holds the buffer 61, block 1 of the disk
`0x301`; `make_request` appends the buffer 62, block 2, and the chain 61, 62 of the
request is contiguous and ascending. -/
theorem make_request_keeps_chain_witness :
    ChainOk merge_ready 0 [61] ∧ Ascending merge_ready [61] ∧
      ChainOk (make_request (refile_buffer 2) 1 3 .READ 62 merge_ready).state 0 [61, 62] ∧
      Ascending (make_request (refile_buffer 2) 1 3 .READ 62 merge_ready).state [61, 62] := by
  have hL : ChainOk merge_ready 0 [61] :=
    ⟨by decide!, by decide!, by decide, trivial, by decide!, by decide!⟩
  have key := make_request_keeps_chain 2 1 3 .READ 62 merge_ready _
    (Res.eq_ok_unit (make_request (refile_buffer 2) 1 3 .READ 62 merge_ready) (by decide!)) 0
    (fun h => absurd (congrArg request.nr_sectors h) (by decide!))
  have k1 := (key.resolve_left fun h =>
    absurd h.1.first (by decide!)) [61] hL (by decide)
  have k2 := k1.resolve_right fun h => absurd h.1.first (by decide!)
  exact ⟨hL, trivial, k2.1, k2.2 trivial (by decide!)⟩

/-- C28 (counterexample): on the disk `0x301` the read of block 2147483647, of 1024
bytes, is request 63, for the sectors 4294967294 and 4294967295. `make_request` appends
the buffer 62 of block 0 to it, because the end of the request, computed in 32 bits, is
the sector 0: the chain 61, 62 of the request goes from the sector 4294967294 back to the
sector 0, and is not ascending. -/
theorem make_request_chain_wraps :
    Reachable wrap_pending ∧ ChainOk wrap_pending 63 [61] ∧ Ascending wrap_pending [61] ∧
      (wrap_pending.b 61).b_blocknr = 2147483647 ∧ (wrap_pending.b 62).b_blocknr = 0 ∧
      (wrap_pending.b 62).b_lock = false ∧
      (make_request (refile_buffer 10) 10 3 .READ 62 wrap_pending).isOk = true ∧
      ((make_request (refile_buffer 10) 10 3 .READ 62 wrap_pending).state.all_requests
        63).bh = 61 ∧
      ((make_request (refile_buffer 10) 10 3 .READ 62 wrap_pending).state.all_requests
        63).bhtail = 62 ∧
      ((make_request (refile_buffer 10) 10 3 .READ 62 wrap_pending).state.all_requests
        63).sector = 4294967294 ∧
      ((make_request (refile_buffer 10) 10 3 .READ 62 wrap_pending).state.all_requests
        63).nr_sectors = 4 ∧
      ((make_request (refile_buffer 10) 10 3 .READ 62 wrap_pending).state.b 61).b_reqnext
        = 62 ∧
      bh_sector (make_request (refile_buffer 10) 10 3 .READ 62 wrap_pending).state 61
        = 4294967294 ∧
      bh_sector (make_request (refile_buffer 10) 10 3 .READ 62 wrap_pending).state 62 = 0 ∧
      ¬ Ascending (make_request (refile_buffer 10) 10 3 .READ 62 wrap_pending).state
        [61, 62] :=
  ⟨wrap_pending_reachable, ⟨by decide!, by decide!, by decide, trivial, by decide!, by decide!⟩,
    trivial, by decide!, by decide!, by decide!, by decide!, by decide!, by decide!,
    by decide!, by decide!, by decide!, by decide!, by decide!,
    fun h => absurd h.1 (by decide!)⟩

theorem Ungrown.pre_ug : Pre Ungrown :=
  ⟨fun _ => ⟨rfl, rfl, rfl, rfl, rfl, rfl, rfl, rfl, rfl⟩, fun _ _ _ h h' =>
    ⟨h'.free_list.trans h.free_list, h'.lru_list.trans h.lru_list, h'.nr_free.trans h.nr_free,
      h'.nr_buffers.trans h.nr_buffers, h'.nr_buffers_type.trans h.nr_buffers_type,
      h'.nr_buffers_st.trans h.nr_buffers_st, h'.nr_buffers_size.trans h.nr_buffers_size,
      h'.buffermem.trans h.buffermem, h'.buffer_pages.trans h.buffer_pages⟩⟩

theorem ungrown_get_free_page (pri : Gfp) : KeepsR Ungrown (__get_free_page pri) := by
  intro s a s' e
  unfold __get_free_page at e
  split at e <;> cases e <;> exact ⟨rfl, rfl, rfl, rfl, rfl, rfl, rfl, rfl, rfl⟩

theorem ungrown_free_page (addr : Nat) : KeepsR Ungrown (free_page addr) := by
  intro s a s' e
  unfold free_page at e
  split_ifs at e <;> cases e <;> exact ⟨rfl, rfl, rfl, rfl, rfl, rfl, rfl, rfl, rfl⟩

theorem ungrown_printk (m : Kmsg) : KeepsR Ungrown (printk m) :=
  KeepsR.modS_R _ fun _ => ⟨rfl, rfl, rfl, rfl, rfl, rfl, rfl, rfl, rfl⟩

theorem ungrown_put_unused_buffer_head (bh : Nat) :
    KeepsR Ungrown (put_unused_buffer_head bh) :=
  KeepsR.modS_R _ fun _ => ⟨rfl, rfl, rfl, rfl, rfl, rfl, rfl, rfl, rfl⟩

theorem ungrown_get_more_buffer_heads : KeepsR Ungrown get_more_buffer_heads := by
  unfold get_more_buffer_heads
  repeat' first
    | with_reducible exact KeepsR.pure_R Ungrown.pre_ug _
    | with_reducible exact KeepsR.kpanic_R _
    | with_reducible exact KeepsR.khang_R
    | with_reducible exact ungrown_get_free_page _
    | ((with_reducible refine KeepsR.modS_R _ fun _ => ?_); exact ⟨rfl, rfl, rfl, rfl, rfl, rfl, rfl, rfl, rfl⟩)
    | ((with_reducible refine KeepsR.setB_R _ _ fun _ => ?_); exact ⟨rfl, rfl, rfl, rfl, rfl, rfl, rfl, rfl, rfl⟩)
    | ((with_reducible refine KeepsR.setR_R _ _ fun _ => ?_); exact ⟨rfl, rfl, rfl, rfl, rfl, rfl, rfl, rfl, rfl⟩)
    | with_reducible refine KeepsR.getS_bind_R fun _ => ?_
    | with_reducible refine KeepsR.bind_R Ungrown.pre_ug ?_ fun _ => ?_
    | ((try dsimp only); rw [ite_bind_jp])
    | with_reducible refine KeepsR.ite_R (fun _ => ?_) fun _ => ?_
    | dsimp only
    | split

theorem ungrown_get_unused_buffer_head : KeepsR Ungrown get_unused_buffer_head := by
  unfold get_unused_buffer_head
  repeat' first
    | with_reducible exact KeepsR.pure_R Ungrown.pre_ug _
    | with_reducible exact KeepsR.kpanic_R _
    | with_reducible exact KeepsR.khang_R
    | with_reducible exact ungrown_get_more_buffer_heads
    | ((with_reducible refine KeepsR.modS_R _ fun _ => ?_); exact ⟨rfl, rfl, rfl, rfl, rfl, rfl, rfl, rfl, rfl⟩)
    | ((with_reducible refine KeepsR.setB_R _ _ fun _ => ?_); exact ⟨rfl, rfl, rfl, rfl, rfl, rfl, rfl, rfl, rfl⟩)
    | ((with_reducible refine KeepsR.setR_R _ _ fun _ => ?_); exact ⟨rfl, rfl, rfl, rfl, rfl, rfl, rfl, rfl, rfl⟩)
    | with_reducible refine KeepsR.getS_bind_R fun _ => ?_
    | with_reducible refine KeepsR.bind_R Ungrown.pre_ug ?_ fun _ => ?_
    | ((try dsimp only); rw [ite_bind_jp])
    | with_reducible refine KeepsR.ite_R (fun _ => ?_) fun _ => ?_
    | dsimp only
    | split

theorem ungrown_create_buffers_no_grow (fuel bh : Nat) :
    KeepsR Ungrown (create_buffers_no_grow fuel bh) := by
  induction fuel generalizing bh with
  | zero => exact KeepsR.khang_R
  | succ fuel ih =>
    unfold create_buffers_no_grow
    repeat' first
      | with_reducible exact KeepsR.pure_R Ungrown.pre_ug _
      | with_reducible exact KeepsR.kpanic_R _
      | with_reducible exact KeepsR.khang_R
      | with_reducible exact ungrown_put_unused_buffer_head _
      | with_reducible exact ih _
      | ((with_reducible refine KeepsR.modS_R _ fun _ => ?_); exact ⟨rfl, rfl, rfl, rfl, rfl, rfl, rfl, rfl, rfl⟩)
      | ((with_reducible refine KeepsR.setB_R _ _ fun _ => ?_); exact ⟨rfl, rfl, rfl, rfl, rfl, rfl, rfl, rfl, rfl⟩)
      | ((with_reducible refine KeepsR.setR_R _ _ fun _ => ?_); exact ⟨rfl, rfl, rfl, rfl, rfl, rfl, rfl, rfl, rfl⟩)
      | with_reducible refine KeepsR.getS_bind_R fun _ => ?_
      | with_reducible refine KeepsR.bind_R Ungrown.pre_ug ?_ fun _ => ?_
      | ((try dsimp only); rw [ite_bind_jp])
      | with_reducible refine KeepsR.ite_R (fun _ => ?_) fun _ => ?_
      | dsimp only
      | split

theorem ungrown_create_buffers_loop (page size fuel offset head : Nat) :
    KeepsR Ungrown (create_buffers_loop page size fuel offset head) := by
  induction fuel generalizing offset head with
  | zero => exact KeepsR.khang_R
  | succ fuel ih =>
    unfold create_buffers_loop
    repeat' first
      | with_reducible exact KeepsR.pure_R Ungrown.pre_ug _
      | with_reducible exact KeepsR.kpanic_R _
      | with_reducible exact KeepsR.khang_R
      | with_reducible exact ungrown_get_unused_buffer_head
      | with_reducible exact ungrown_create_buffers_no_grow _ _
      | with_reducible exact ih _ _
      | ((with_reducible refine KeepsR.modS_R _ fun _ => ?_); exact ⟨rfl, rfl, rfl, rfl, rfl, rfl, rfl, rfl, rfl⟩)
      | ((with_reducible refine KeepsR.setB_R _ _ fun _ => ?_); exact ⟨rfl, rfl, rfl, rfl, rfl, rfl, rfl, rfl, rfl⟩)
      | ((with_reducible refine KeepsR.setR_R _ _ fun _ => ?_); exact ⟨rfl, rfl, rfl, rfl, rfl, rfl, rfl, rfl, rfl⟩)
      | with_reducible refine KeepsR.getS_bind_R fun _ => ?_
      | with_reducible refine KeepsR.bind_R Ungrown.pre_ug ?_ fun _ => ?_
      | ((try dsimp only); rw [ite_bind_jp])
      | with_reducible refine KeepsR.ite_R (fun _ => ?_) fun _ => ?_
      | dsimp only
      | split

theorem Cut.length_cut {s : State} {page size : Nat} : ∀ (L : List Nat) (off head : Nat),
    Cut s page size off head L → off + L.length * size = PAGE_SIZE
  | [], _, _, h => by
    rw [h.2]
    simp
  | x :: L, off, _, h => by
    have := Cut.length_cut L _ _ h.2.2.2.2
    rw [List.length_cons, Nat.add_mul]
    omega

theorem Cut.transfer_cut {s s' : State} {page size : Nat} : ∀ (L : List Nat) (off head : Nat),
    (∀ y ∈ L, s'.b y = s.b y) → Cut s page size off head L → Cut s' page size off head L
  | [], _, _, _, h => h
  | x :: L, _, _, hT, ⟨h1, h2, h3, h4, h5⟩ => by
    have hx := hT x (List.mem_cons_self _ _)
    refine ⟨h1, by rw [hx]; exact h2, by rw [hx]; exact h3, by rw [hx]; exact h4, ?_⟩
    rw [hx]
    exact Cut.transfer_cut L _ _ (fun y hy => hT y (List.mem_cons_of_mem _ hy)) h5

theorem usub_small (o size : Nat) (h1 : size ≤ o) (h2 : o ≤ PAGE_SIZE) :
    usub o size = o - size := by
  have : PAGE_SIZE = 4096 := rfl
  unfold usub
  rw [Nat.mod_eq_of_lt (by omega : size < 4294967296)]
  omega

theorem usub_zero (size : Nat) (h1 : 0 < size) (h2 : size ≤ PAGE_SIZE) :
    ¬ usub 0 size < PAGE_SIZE := by
  have : PAGE_SIZE = 4096 := rfl
  unfold usub
  rw [Nat.mod_eq_of_lt (by omega : size < 4294967296)]
  omega

/-- The loop of `create_buffers` from the offset `o`, a multiple of the size: when it
returns a head, the heads from it cut the whole page. -/
theorem create_buffers_loop_cut (page size : Nat) (h0 : 0 < size) (hle : size ≤ PAGE_SIZE) :
    ∀ (fuel o head : Nat) (L : List Nat) (s s' : State) (r : Nat),
      create_buffers_loop page size fuel o head s = .ok r s' →
      size ∣ o → o ≤ PAGE_SIZE → Tally s → Spare s head L → Cut s page size o head L →
      Tally s' ∧ (r ≠ 0 → ∃ L', Spare s' r L' ∧ Cut s' page size 0 r L') := by
  intro fuel
  induction fuel with
  | zero => intro o head L s s' r e; cases e
  | succ fuel ih =>
    intro o head L s s' r e hd ho t sp ct
    unfold create_buffers_loop at e
    by_cases hc : usub o size < PAGE_SIZE
    · rw [if_pos hc] at e
      have hso : size ≤ o := by
        by_contra hlt
        have : o = 0 := by
          obtain ⟨k, rfl⟩ := hd
          rcases Nat.eq_zero_or_pos k with rfl | hk
          · rfl
          · exfalso
            apply hlt
            exact Nat.le_mul_of_pos_right size hk
        subst this
        exact usub_zero size h0 hle hc
      have hu := usub_small o size hso ho
      obtain ⟨bh, s1, e1, e⟩ := bind_inv e
      obtain ⟨t1, d1, k1⟩ := get_unused_buffer_head_tally s s1 bh e1 t
      have sp1 : Spare s1 head L :=
        Spare.transfer L _ (fun y _ dy => ⟨(k1 y dy).1, (k1 y dy).2.1⟩) sp
      have ct1 : Cut s1 page size o head L :=
        Cut.transfer_cut L _ _ (fun y hy => (k1 y (sp.mem L head y hy)).2.1) ct
      by_cases hb : bh = 0
      · rw [if_pos hb] at e
        obtain ⟨a2, s2, e2, e⟩ := bind_inv e
        cases e
        exact ⟨create_buffers_no_grow_tally _ head L s1 s' a2 e2 t1 sp1, fun h => absurd rfl h⟩
      · rw [if_neg hb] at e
        obtain ⟨a2, s2, e2, e⟩ := bind_inv e
        have hd1 := d1 hb
        have hs2 : (setB bh (fun h =>
            { h with b_this_page := head, b_data := page + usub o size, b_size := size,
                     b_dev := B_FREE }) s1).state = s2 := congrArg Res.state e2
        have t2 : Tally s2 := hs2 ▸ tallies_setB s1 bh _ (Or.inr hd1.lru) t1
        have hne : ∀ y ∈ L, y ≠ bh := fun y hy => (k1 y (sp.mem L head y hy)).2.2
        have hsame : (s2.b bh).b_this_page = head ∧ (s2.b bh).b_data = page + usub o size ∧
            (s2.b bh).b_size = size ∧ (s2.b bh).b_dev = B_FREE := by
          rw [← hs2]
          show (upd s1.b bh _ bh).b_this_page = _ ∧ (upd s1.b bh _ bh).b_data = _ ∧
            (upd s1.b bh _ bh).b_size = _ ∧ (upd s1.b bh _ bh).b_dev = _
          rw [upd_same]
          exact ⟨rfl, rfl, rfl, rfl⟩
        have hoth : ∀ y ∈ L, s2.b y = s1.b y := fun y hy => by
          rw [← hs2]
          exact upd_other _ _ _ _ (hne y hy)
        refine ih (usub o size) bh (bh :: L) s2 s' r e ?_ ?_ t2 ?_ ?_
        · rw [hu]
          exact (Nat.dvd_sub' hd (dvd_refl size))
        · rw [hu]
          omega
        · refine ⟨rfl, ?_, fun h => hne bh h rfl, ?_⟩
          · rw [← hs2]
            exact setB_detached _ hd1
          · rw [hsame.1]
            refine Spare.transfer L _ (fun y hy dy => ⟨?_, hoth y hy⟩) sp1
            rw [← hs2]
            exact setB_detached _ dy
        · refine ⟨rfl, hsame.2.1, hsame.2.2.1, hsame.2.2.2, ?_⟩
          rw [hsame.1, hu, Nat.sub_add_cancel hso]
          exact Cut.transfer_cut L _ _ hoth ct1
    · rw [if_neg hc] at e
      cases e
      refine ⟨t, fun _ => ⟨L, sp, ?_⟩⟩
      have : o = 0 := by
        by_contra hne
        apply hc
        have hso : size ≤ o := by
          obtain ⟨k, rfl⟩ := hd
          rcases Nat.eq_zero_or_pos k with rfl | hk
          · exact absurd rfl hne
          · exact Nat.le_mul_of_pos_right size hk
        rw [usub_small o size hso ho]
        omega
      subst this
      exact ct

/-- The linking loop of `grow_buffers` on the heads of a page: they are added to the free
list, and the two counters go up by their number. -/
theorem grow_buffers_loop_grown (isize : Int) : ∀ (fuel tmp ip : Nat) (L : List Nat)
    (s s' : State) (r : Nat), grow_buffers_loop isize fuel tmp ip s = .ok r s' →
      Spare s tmp (tmp :: L) → (ip = 0 → s.free_list isize = []) →
      s'.b = s.b ∧ (tmp :: L).getLast? = some r ∧
        (s'.free_list isize).Perm ((tmp :: L) ++ s.free_list isize) ∧
        (∀ i, i ≠ isize → s'.free_list i = s.free_list i) ∧
        s'.nr_free isize = s.nr_free isize + ((tmp :: L).length : Int) ∧
        (∀ i, i ≠ isize → s'.nr_free i = s.nr_free i) ∧
        s'.nr_buffers = s.nr_buffers + ((tmp :: L).length : Int) ∧
        s'.buffermem = s.buffermem := by
  intro fuel
  induction fuel with
  | zero => intro tmp ip L s s' r e; cases e
  | succ fuel ih =>
    intro tmp ip L s s' r e sp hip
    unfold grow_buffers_loop at e
    obtain ⟨a1, s1, e1, e⟩ := bind_inv e
    have hperm : (if ip ≠ 0 then ring_insert_after (s.free_list isize) ip tmp else [tmp]).Perm
        (tmp :: s.free_list isize) := by
      split_ifs with h
      · exact ring_insert_after_perm _ _ _
      · rw [hip (not_not.mp h)]
    obtain ⟨hf, hl, hu, hn, hnf, hnb, hbm, hb⟩ :
        s1.free_list = upd s.free_list isize
          (if ip ≠ 0 then ring_insert_after (s.free_list isize) ip tmp else [tmp]) ∧
        s1.lru_list = s.lru_list ∧ s1.unused_list = s.unused_list ∧
        s1.nr_buffer_heads = s.nr_buffer_heads ∧
        s1.nr_free = upd s.nr_free isize (s.nr_free isize + 1) ∧
        s1.nr_buffers = s.nr_buffers + 1 ∧ s1.buffermem = s.buffermem ∧ s1.b = s.b := by
      cases e1
      exact ⟨rfl, rfl, rfl, rfl, rfl, rfl, rfl, rfl⟩
    have hfi : (s1.free_list isize).Perm (tmp :: s.free_list isize) := by
      rw [hf, upd_same]
      exact hperm
    have hfo : ∀ i, i ≠ isize → s1.free_list i = s.free_list i := fun i hi => by
      rw [hf, upd_other _ _ _ _ hi]
    have hni : s1.nr_free isize = s.nr_free isize + 1 := by rw [hnf, upd_same]
    have hno : ∀ i, i ≠ isize → s1.nr_free i = s.nr_free i := fun i hi => by
      rw [hnf, upd_other _ _ _ _ hi]
    rw [bind_run, getS_run] at e
    dsimp only at e
    by_cases hn0 : (s1.b tmp).b_this_page ≠ 0
    · rw [if_pos hn0] at e
      have sp1 : Spare s1 (s1.b tmp).b_this_page L := by
        rw [hb]
        refine Spare.transfer L _ (fun y hy dy => ⟨⟨fun i hi => ?_, ?_, ?_, dy.pos, ?_⟩, ?_⟩)
          sp.2.2.2
        · have hne : y ≠ tmp := fun h => sp.2.2.1 (h ▸ hy)
          by_cases hi' : i = isize
          · subst hi'
            rcases List.mem_cons.mp (hfi.mem_iff.mp hi) with h | h
            · exact hne h
            · exact dy.free _ h
          · rw [hfo i hi'] at hi
            exact dy.free _ hi
        · rw [hl]
          exact dy.lru
        · rw [hu]
          exact dy.unused
        · rw [hn]
          exact dy.carved
        · rw [hb]
      obtain ⟨L', rfl⟩ := sp1.cons_of_ne hn0
      obtain ⟨i1, i2, i3, i4, i5, i6, i7, i8⟩ := ih _ tmp L' s1 s' r e sp1 fun h => by
        have := sp.2.1.pos
        omega
      refine ⟨i1.trans hb, ?_, ?_, fun i hi => (i4 i hi).trans (hfo i hi), ?_,
        fun i hi => (i6 i hi).trans (hno i hi), ?_, i8.trans hbm⟩
      · rw [List.getLast?_cons_cons]
        exact i2
      · refine i3.trans ?_
        refine (List.Perm.append_left _ hfi).trans ?_
        exact List.perm_middle
      · rw [i5, hni]
        simp only [List.length_cons, Nat.cast_add, Nat.cast_one]
        ring
      · rw [i7, hnb]
        simp only [List.length_cons, Nat.cast_add, Nat.cast_one]
        ring
    · rw [if_neg hn0] at e
      cases e
      have hL : L = [] := by
        cases L with
        | nil => rfl
        | cons y L' =>
          exfalso
          have h1 : (s.b tmp).b_this_page = y := sp.2.2.2.1
          have h2 := sp.2.2.2.2.1.pos
          rw [hb] at hn0
          omega
      subst hL
      exact ⟨hb, rfl, hfi, hfo, by rw [hni]; simp, hno, by rw [hnb]; simp, hbm⟩

theorem Spare.nodup_sp {s : State} : ∀ (L : List Nat) (head : Nat), Spare s head L → L.Nodup
  | [], _, _ => List.nodup_nil
  | x :: L, _, ⟨_, _, h3, h4⟩ => List.nodup_cons.mpr ⟨h3, Spare.nodup_sp L _ h4⟩

/-- The heads of a cut page by their position: the `k`-th begins `k` sizes behind the
offset, and points to the next, the last to the null pointer. -/
theorem Cut.index_cut {s : State} {page size : Nat} : ∀ (L : List Nat) (off head k x : Nat),
    Cut s page size off head L → L[k]? = some x →
      (s.b x).b_dev = B_FREE ∧ (s.b x).b_size = size ∧
        (s.b x).b_data = page + off + k * size ∧ (s.b x).b_this_page = (L[k + 1]?).getD 0
  | [], _, _, _, _, _, hk => by simp at hk
  | y :: L, off, _, 0, x, ⟨_, h2, h3, h4, h5⟩, hk => by
    simp only [List.getElem?_cons_zero, Option.some.injEq] at hk
    subst hk
    refine ⟨h4, h3, by rw [h2]; simp, ?_⟩
    cases L with
    | nil => exact h5.1
    | cons z L' =>
      rw [h5.1]
      simp
  | y :: L, off, _, k + 1, x, ⟨_, _, _, _, h5⟩, hk => by
    rw [List.getElem?_cons_succ] at hk
    obtain ⟨a1, a2, a3, a4⟩ := Cut.index_cut L _ _ k x h5 hk
    refine ⟨a1, a2, ?_, ?_⟩
    · rw [a3]
      ring
    · rw [a4, List.getElem?_cons_succ]

theorem get_free_page_first (pri : Gfp) (s s' : State) (page : Nat)
    (e : __get_free_page pri s = .ok page s') (h : page ≠ 0) :
    s.page_pool.head? = some page := by
  unfold __get_free_page at e
  split at e
  · cases e
    exact absurd rfl h
  · next p rest hp =>
    cases e
    rw [hp]
    rfl

theorem supported_facts (size : Nat) (h : Supported size) :
    0 < size ∧ size ≤ PAGE_SIZE ∧ size ∣ PAGE_SIZE ∧ size &&& 511 = 0 := by
  rcases h with rfl | rfl | rfl | rfl <;> exact ⟨by decide, by decide, by decide, by decide⟩

/-- The effect of a call of `grow_buffers` that returns: it has returned 0 and changed
no free list and no counter of buffers, or it has returned 1 and grown the free list of
the size by the buffers of one page. -/
theorem grow_buffers_effect (fuel : Nat) (pri : Gfp) (size : Nat) (s s' : State) (r : Int)
    (t : Tally s) (hs : Supported size) (e : grow_buffers fuel pri size s = .ok r s') :
    (r = 0 ∧ Ungrown s s') ∨ (r = 1 ∧ ∃ page L, Grown s s' size page L) := by
  obtain ⟨h0, hle, hdv, h511⟩ := supported_facts size hs
  unfold grow_buffers at e
  rw [if_neg (by
    intro h
    rcases h with h | h
    · exact h h511
    · omega)] at e
  dsimp only at e
  obtain ⟨page, s1, e1, e⟩ := bind_inv e
  have u1 := ungrown_get_free_page pri s page s1 e1
  have t1 := (still_get_free_page _ s page s1 e1).tallies t
  by_cases hp : page = 0
  · rw [if_pos hp] at e
    cases e
    exact Or.inl ⟨rfl, u1⟩
  rw [if_neg hp] at e
  obtain ⟨bh, s2, e2, e⟩ := bind_inv e
  unfold create_buffers at e2
  have u2 := ungrown_create_buffers_loop page size fuel PAGE_SIZE 0 s1 bh s2 e2
  obtain ⟨t2, hcut⟩ := create_buffers_loop_cut page size h0 hle fuel PAGE_SIZE 0 [] s1 s2 bh e2
    hdv le_rfl t1 rfl ⟨rfl, rfl⟩
  have u12 := Ungrown.pre_ug.trans _ _ _ u1 u2
  by_cases hb : bh = 0
  · rw [if_pos hb] at e
    obtain ⟨a3, s3, e3, e⟩ := bind_inv e
    cases e
    exact Or.inl ⟨rfl, Ungrown.pre_ug.trans _ _ _ u12 (ungrown_free_page page s2 a3 s' e3)⟩
  rw [if_neg hb, bind_run, getS_run] at e
  dsimp only at e
  obtain ⟨tmp, s3, e3, e⟩ := bind_inv e
  obtain ⟨L, sp, ct⟩ := hcut hb
  obtain ⟨L', rfl⟩ := sp.cons_of_ne hb
  obtain ⟨g1, g2, g3, g4, g5, g6, g7, g8⟩ := grow_buffers_loop_grown _ fuel bh _ L' s2 s3 tmp e3
    sp (by
      intro h
      cases hl : s2.free_list (BUFSIZE_INDEX size) with
      | nil => rfl
      | cons x rest =>
        rw [hl] at h
        have := (t2.carved_free (BUFSIZE_INDEX size) x
          (by rw [hl]; exact List.mem_cons_self _ _)).1
        have hx : x = 0 := h
        omega)
  obtain ⟨hfl, hnf, hnb, hbm, hbb⟩ :
      s'.free_list = upd s3.free_list (BUFSIZE_INDEX size)
        (ring_set_head (s3.free_list (BUFSIZE_INDEX size)) bh) ∧
      s'.nr_free = s3.nr_free ∧ s'.nr_buffers = s3.nr_buffers ∧
      s'.buffermem = s3.buffermem + PAGE_SIZE ∧
      (∀ x, (s'.b x).b_dev = (s3.b x).b_dev ∧ (s'.b x).b_size = (s3.b x).b_size ∧
        (s'.b x).b_data = (s3.b x).b_data ∧
        (s'.b x).b_this_page = if x = tmp then bh else (s3.b x).b_this_page) ∧ r = 1 := by
    simp only [bind_run, modS_run, pure_run] at e
    cases e
    refine ⟨rfl, rfl, rfl, rfl, fun x => ?_, rfl⟩
    show (upd s3.b tmp _ x).b_dev = _ ∧ (upd s3.b tmp _ x).b_size = _ ∧
      (upd s3.b tmp _ x).b_data = _ ∧ (upd s3.b tmp _ x).b_this_page = _
    by_cases hx : x = tmp
    · subst hx
      rw [upd_same, if_pos rfl]
      exact ⟨rfl, rfl, rfl, rfl⟩
    · rw [upd_other _ _ _ _ hx, if_neg hx]
      exact ⟨rfl, rfl, rfl, rfl⟩
  obtain ⟨hbb, hr⟩ := hbb
  have hlen : (bh :: L').length * size = PAGE_SIZE := by
    have := Cut.length_cut _ _ _ ct
    omega
  have hcount : (bh :: L').length = PAGE_SIZE / size :=
    (Nat.div_eq_of_eq_mul_left h0 hlen.symm).symm
  have hnd : (bh :: L').Nodup := sp.nodup_sp
  have hlast : (bh :: L')[(bh :: L').length - 1]? = some tmp := by
    rw [← List.getLast?_eq_getElem?]
    exact g2
  have hdata : ∀ k x, (bh :: L')[k]? = some x →
      (s'.b x).b_dev = B_FREE ∧ (s'.b x).b_size = size ∧ (s'.b x).b_data = page + k * size := by
    intro k x hk
    obtain ⟨c1, c2, c3, -⟩ := Cut.index_cut _ _ _ k x ct hk
    rw [(hbb x).1, (hbb x).2.1, (hbb x).2.2.1, g1]
    exact ⟨c1, c2, by rw [c3]; omega⟩
  refine Or.inr ⟨hr, page, bh :: L', ?_⟩
  refine ⟨get_free_page_first pri s s1 page e1 hp, hcount, hnd, ?_, ?_, ?_, ?_, ?_, ?_, ?_, ?_,
    ?_, ?_⟩
  · intro x hx i
    rw [← u12.free_list]
    exact (sp.mem _ _ x hx).free i
  · rw [hfl, upd_same]
    refine (ring_set_head_perm _ _).trans (g3.trans ?_)
    rw [u12.free_list]
  · intro i hi
    rw [hfl, upd_other _ _ _ _ hi, g4 i hi, u12.free_list]
  · intro k x hk
    obtain ⟨d1, d2, d3⟩ := hdata k x hk
    refine ⟨d1, d2, d3, ?_⟩
    have hkl : k < (bh :: L').length := by
      by_contra hge
      rw [List.getElem?_eq_none (not_lt.mp hge)] at hk
      cases hk
    obtain ⟨-, -, -, c4⟩ := Cut.index_cut _ _ _ k x ct hk
    rw [(hbb x).2.2.2, g1]
    by_cases hlt : k + 1 < (bh :: L').length
    · rw [Nat.mod_eq_of_lt hlt]
      have hne : x ≠ tmp := by
        intro hx
        rw [hx, ← hlast] at hk
        have := List.getElem?_inj hkl hnd hk
        omega
      rw [if_neg hne, c4, List.getElem?_eq_getElem hlt]
      rfl
    · have hk1 : k = (bh :: L').length - 1 := by omega
      have hx : x = tmp := by
        rw [hk1, hlast] at hk
        exact (Option.some.inj hk).symm
      have hmod : (k + 1) % (bh :: L').length = 0 := by
        have : k + 1 = (bh :: L').length := by omega
        rw [this, Nat.mod_self]
      rw [if_pos hx, hmod]
      exact List.getElem?_cons_zero
  · intro j k x y hjk hj hk
    rw [(hdata j x hj).2.2, (hdata k y hk).2.2]
    have : (j + 1) * size ≤ k * size := Nat.mul_le_mul_right size hjk
    rw [Nat.add_mul] at this
    omega
  · intro a ha1 ha2
    have hq : (a - page) / size < (bh :: L').length := by
      rw [hcount]
      exact Nat.div_lt_div_of_lt_of_dvd hdv (by omega)
    refine ⟨(a - page) / size, (bh :: L')[(a - page) / size], List.getElem?_eq_getElem hq, ?_⟩
    rw [(hdata _ _ (List.getElem?_eq_getElem hq)).2.2]
    have h1 := Nat.div_mul_le_self (a - page) size
    have h2 := Nat.lt_div_mul_add h0 (a := a - page)
    omega
  · rw [hnf, g5, u12.nr_free, hcount]
  · intro i hi
    rw [hnf, g6 i hi, u12.nr_free]
  · rw [hnb, g7, u12.nr_buffers, hcount]
  · rw [hbm, g8, u12.buffermem]

theorem get_free_page_returns (pri : Gfp) (s : State) :
    ∃ p s', __get_free_page pri s = .ok p s' := by
  unfold __get_free_page
  split <;> exact ⟨_, _, rfl⟩

theorem free_page_returns (addr : Nat) (s : State) : ∃ s', free_page addr s = .ok () s' := by
  unfold free_page
  split_ifs <;> exact ⟨_, rfl⟩

theorem get_more_buffer_heads_returns (s : State) :
    ∃ s', get_more_buffer_heads s = .ok () s' := by
  unfold get_more_buffer_heads
  rw [bind_run, getS_run]
  dsimp only
  split_ifs
  · exact ⟨_, rfl⟩
  · obtain ⟨p, s1, e1⟩ := get_free_page_returns .GFP_BUFFER s
    rw [bind_run, e1]
    dsimp only
    split_ifs <;> exact ⟨_, rfl⟩

theorem get_unused_buffer_head_returns (s : State) :
    ∃ bh s', get_unused_buffer_head s = .ok bh s' := by
  unfold get_unused_buffer_head
  obtain ⟨s1, e1⟩ := get_more_buffer_heads_returns s
  rw [bind_run, e1]
  dsimp only
  rw [bind_run, getS_run]
  dsimp only
  cases s1.unused_list with
  | nil => exact ⟨_, _, rfl⟩
  | cons x rest => exact ⟨_, _, rfl⟩

theorem create_buffers_no_grow_returns : ∀ (L : List Nat) (fuel head : Nat) (s : State),
    Tally s → Spare s head L → L.length < fuel →
      ∃ s', create_buffers_no_grow fuel head s = .ok () s' := by
  intro L
  induction L with
  | nil =>
    intro fuel head s t sp hf
    obtain ⟨fuel, rfl⟩ : ∃ k, fuel = k + 1 := ⟨fuel - 1, by simp at hf; omega⟩
    have sp0 : head = 0 := sp
    unfold create_buffers_no_grow
    rw [if_pos sp0]
    exact ⟨_, rfl⟩
  | cons x L ih =>
    intro fuel head s t sp hf
    obtain ⟨fuel, rfl⟩ : ∃ k, fuel = k + 1 := ⟨fuel - 1, by simp at hf; omega⟩
    have hx : head = x := sp.1
    subst hx
    have hpos := sp.2.1.pos
    unfold create_buffers_no_grow
    rw [if_neg (by omega), bind_run, getS_run]
    dsimp only
    obtain ⟨s1, e1⟩ : ∃ s1, put_unused_buffer_head head s = .ok () s1 := ⟨_, rfl⟩
    obtain ⟨t1, k1⟩ := put_unused_buffer_head_tally head s s1 () e1 t sp.2.1
    rw [bind_run, e1]
    dsimp only
    refine ih fuel _ s1 t1 (Spare.transfer L _ (fun y hy dy => k1 y ?_ dy) sp.2.2.2) ?_
    · intro h
      exact sp.2.2.1 (h ▸ hy)
    · simp only [List.length_cons] at hf
      omega

/-- The loop of `create_buffers` returns when the fuel covers the buffers still to make,
twice, and the heads got so far. -/
theorem create_buffers_loop_returns (page size : Nat) (h0 : 0 < size) (hle : size ≤ PAGE_SIZE) :
    ∀ (n fuel head : Nat) (L : List Nat) (s : State),
      n * size ≤ PAGE_SIZE → Tally s → Spare s head L → 2 * n + L.length + 1 ≤ fuel →
      ∃ r s', create_buffers_loop page size fuel (n * size) head s = .ok r s' := by
  intro n
  induction n with
  | zero =>
    intro fuel head L s ho t sp hf
    obtain ⟨fuel, rfl⟩ : ∃ k, fuel = k + 1 := ⟨fuel - 1, by omega⟩
    unfold create_buffers_loop
    rw [Nat.zero_mul, if_neg (usub_zero size h0 hle)]
    exact ⟨_, _, rfl⟩
  | succ n ih =>
    intro fuel head L s ho t sp hf
    obtain ⟨fuel, rfl⟩ : ∃ k, fuel = k + 1 := ⟨fuel - 1, by omega⟩
    have hso : size ≤ (n + 1) * size := Nat.le_mul_of_pos_left size (Nat.succ_pos n)
    have hu : usub ((n + 1) * size) size = n * size := by
      rw [usub_small _ size hso ho, Nat.add_mul, Nat.one_mul, Nat.add_sub_cancel]
    have hPS : PAGE_SIZE = 4096 := rfl
    unfold create_buffers_loop
    rw [if_pos (by rw [hu]; rw [Nat.add_mul] at ho; omega)]
    obtain ⟨bh, s1, e1⟩ := get_unused_buffer_head_returns s
    obtain ⟨t1, d1, k1⟩ := get_unused_buffer_head_tally s s1 bh e1 t
    have sp1 : Spare s1 head L :=
      Spare.transfer L _ (fun y _ dy => ⟨(k1 y dy).1, (k1 y dy).2.1⟩) sp
    rw [bind_run, e1]
    dsimp only
    by_cases hb : bh = 0
    · rw [if_pos hb]
      obtain ⟨s2, e2⟩ := create_buffers_no_grow_returns L (fuel + 1) head s1 t1 sp1 (by omega)
      rw [bind_run, e2]
      exact ⟨_, _, rfl⟩
    · rw [if_neg hb, bind_run]
      have hd1 := d1 hb
      obtain ⟨s2, hs2⟩ : ∃ s2, (setB bh (fun h =>
          { h with b_this_page := head, b_data := page + usub ((n + 1) * size) size,
                   b_size := size, b_dev := B_FREE }) s1).state = s2 := ⟨_, rfl⟩
      have e2 : setB bh (fun h =>
          { h with b_this_page := head, b_data := page + usub ((n + 1) * size) size,
                   b_size := size, b_dev := B_FREE }) s1 = .ok () s2 := by
        rw [← hs2]
        rfl
      have t2 : Tally s2 := hs2 ▸ tallies_setB s1 bh _ (Or.inr hd1.lru) t1
      have hne : ∀ y ∈ L, y ≠ bh := fun y hy => (k1 y (sp.mem L head y hy)).2.2
      have hth : (s2.b bh).b_this_page = head := by
        rw [← hs2]
        show (upd s1.b bh _ bh).b_this_page = _
        rw [upd_same]
      have hoth : ∀ y ∈ L, s2.b y = s1.b y := fun y hy => by
        rw [← hs2]
        exact upd_other _ _ _ _ (hne y hy)
      rw [e2]
      dsimp only
      rw [hu]
      refine ih fuel bh (bh :: L) s2 (by rw [Nat.add_mul] at ho; omega) t2 ?_ (by
        simp only [List.length_cons]
        omega)
      refine ⟨rfl, ?_, fun h => hne bh h rfl, ?_⟩
      · rw [← hs2]
        exact setB_detached _ hd1
      · rw [hth]
        refine Spare.transfer L _ (fun y hy dy => ⟨?_, hoth y hy⟩) sp1
        rw [← hs2]
        exact setB_detached _ dy

theorem spare_after_link (isize : Int) (tmp : Nat) (L : List Nat) (s s1 : State)
    (sp : Spare s tmp (tmp :: L))
    (hfi : (s1.free_list isize).Perm (tmp :: s.free_list isize))
    (hfo : ∀ i, i ≠ isize → s1.free_list i = s.free_list i)
    (hl : s1.lru_list = s.lru_list) (hu : s1.unused_list = s.unused_list)
    (hn : s1.nr_buffer_heads = s.nr_buffer_heads) (hb : s1.b = s.b) :
    Spare s1 (s1.b tmp).b_this_page L := by
  rw [hb]
  refine Spare.transfer L _ (fun y hy dy => ⟨⟨fun i hi => ?_, ?_, ?_, dy.pos, ?_⟩, ?_⟩)
    sp.2.2.2
  · have hne : y ≠ tmp := fun h => sp.2.2.1 (h ▸ hy)
    by_cases hi' : i = isize
    · subst hi'
      rcases List.mem_cons.mp (hfi.mem_iff.mp hi) with h | h
      · exact hne h
      · exact dy.free _ h
    · rw [hfo i hi'] at hi
      exact dy.free _ hi
  · rw [hl]
    exact dy.lru
  · rw [hu]
    exact dy.unused
  · rw [hn]
    exact dy.carved
  · rw [hb]

theorem grow_buffers_loop_returns (isize : Int) : ∀ (L : List Nat) (fuel tmp ip : Nat)
    (s : State), Spare s tmp (tmp :: L) → (ip = 0 → s.free_list isize = []) →
      L.length < fuel → ∃ r s', grow_buffers_loop isize fuel tmp ip s = .ok r s' := by
  intro L
  induction L with
  | nil =>
    intro fuel tmp ip s sp hip hf
    obtain ⟨fuel, rfl⟩ : ∃ k, fuel = k + 1 := ⟨fuel - 1, by simp at hf; omega⟩
    have h0 : (s.b tmp).b_this_page = 0 := sp.2.2.2
    unfold grow_buffers_loop
    rw [bind_run, modS_run]
    dsimp only
    rw [bind_run, getS_run]
    dsimp only
    rw [if_neg (not_not.mpr h0)]
    exact ⟨_, _, rfl⟩
  | cons x L ih =>
    intro fuel tmp ip s sp hip hf
    obtain ⟨fuel, rfl⟩ : ∃ k, fuel = k + 1 := ⟨fuel - 1, by simp at hf; omega⟩
    have hx : (s.b tmp).b_this_page = x := sp.2.2.2.1
    have hxp := sp.2.2.2.2.1.pos
    have hperm : (if ip ≠ 0 then ring_insert_after (s.free_list isize) ip tmp else [tmp]).Perm
        (tmp :: s.free_list isize) := by
      split_ifs with h
      · exact ring_insert_after_perm _ _ _
      · rw [hip (not_not.mp h)]
    unfold grow_buffers_loop
    rw [bind_run, modS_run]
    dsimp only
    rw [bind_run, getS_run]
    dsimp only
    rw [if_pos (by rw [hx]; omega)]
    refine ih fuel _ tmp _ ?_ (fun h => ?_) (by
      simp only [List.length_cons] at hf
      omega)
    · have := spare_after_link isize tmp (x :: L) s
        { s with nr_free := upd s.nr_free isize (s.nr_free isize + 1),
                 free_list := upd s.free_list isize (if ip ≠ 0 then ring_insert_after (s.free_list isize) ip tmp else [tmp]),
                 nr_buffers := s.nr_buffers + 1 } sp (by
          show (upd s.free_list isize _ isize).Perm _
          rw [upd_same]
          exact hperm) (fun i hi => upd_other _ _ _ _ hi) rfl rfl rfl rfl
      rw [show (s.b tmp).b_this_page = x from hx]
      rw [show (s.b tmp).b_this_page = x from hx] at this
      exact this
    · have := sp.2.1.pos
      omega

/-- The function `grow_buffers` returns when its fuel is 17 or more. -/
theorem grow_buffers_returns (fuel : Nat) (pri : Gfp) (size : Nat) (s : State)
    (t : Tally s) (hs : Supported size) (hf : 17 ≤ fuel) :
    ∃ r s', grow_buffers fuel pri size s = .ok r s' := by
  obtain ⟨h0, hle, hdv, h511⟩ := supported_facts size hs
  have hn8 : PAGE_SIZE / size ≤ 8 := by
    rcases hs with rfl | rfl | rfl | rfl <;> decide
  unfold grow_buffers
  rw [if_neg (by
    intro h
    rcases h with h | h
    · exact h h511
    · omega)]
  dsimp only
  obtain ⟨page, s1, e1⟩ := get_free_page_returns pri s
  have t1 := (still_get_free_page _ s page s1 e1).tallies t
  rw [bind_run, e1]
  dsimp only
  by_cases hp : page = 0
  · rw [if_pos hp]
    exact ⟨_, _, rfl⟩
  rw [if_neg hp]
  obtain ⟨bh, s2, e2⟩ := create_buffers_loop_returns page size h0 hle (PAGE_SIZE / size) fuel 0
    [] s1 (Nat.div_mul_le_self _ _) t1 rfl (by
      simp only [List.length_nil]
      omega)
  rw [Nat.div_mul_cancel hdv] at e2
  obtain ⟨t2, hcut⟩ := create_buffers_loop_cut page size h0 hle fuel PAGE_SIZE 0 [] s1 s2 bh e2
    hdv le_rfl t1 rfl ⟨rfl, rfl⟩
  unfold create_buffers
  rw [bind_run, e2]
  dsimp only
  by_cases hb : bh = 0
  · rw [if_pos hb]
    obtain ⟨s3, e3⟩ := free_page_returns page s2
    rw [bind_run, e3]
    exact ⟨_, _, rfl⟩
  rw [if_neg hb, bind_run, getS_run]
  dsimp only
  obtain ⟨L, sp, ct⟩ := hcut hb
  obtain ⟨L', rfl⟩ := sp.cons_of_ne hb
  have hlen : (bh :: L').length = PAGE_SIZE / size := by
    have := Cut.length_cut _ _ _ ct
    exact (Nat.div_eq_of_eq_mul_left h0 (by omega)).symm
  obtain ⟨tmp, s3, e3⟩ := grow_buffers_loop_returns (BUFSIZE_INDEX size) L' fuel bh
    ((s2.free_list (BUFSIZE_INDEX size)).headD 0) s2 sp (by
      intro h
      cases hl : s2.free_list (BUFSIZE_INDEX size) with
      | nil => rfl
      | cons x rest =>
        rw [hl] at h
        have := (t2.carved_free (BUFSIZE_INDEX size) x
          (by rw [hl]; exact List.mem_cons_self _ _)).1
        have hx : x = 0 := h
        omega) (by
      simp only [List.length_cons] at hlen
      omega)
  rw [bind_run, e3]
  exact ⟨_, _, rfl⟩

/-- C22: in a reachable state and for a supported size (512, 1024, 2048, 4096),
`grow_buffers` returns whenever its fuel is 17 or more, and a call that returns has
returned 0 or 1. When it has returned 1 it has cut the first page of the pool into
`PAGE_SIZE/size` different heads that were on no free list and has added them to the free
list of the size and to no other: each is marked free (`b_dev = 0xffff`) and has the size
`size`, the `k`-th has the data area `page + k*size`, so that the data areas lie apart and
cover the page, and `b_this_page` leads from each to the next and from the last to the
first; `nr_free` of the size and `nr_buffers` have grown by `PAGE_SIZE/size` and
`buffermem` by `PAGE_SIZE`. When it has returned 0 the free lists, the disposition lists
and the counters of buffers are as before. -/
theorem grow_buffers_carves_one_page (fuel : Nat) (pri : Gfp) (size : Nat) (s : State)
    (h : Reachable s) (hs : Supported size) :
    (17 ≤ fuel → ∃ r s', grow_buffers fuel pri size s = .ok r s') ∧
      ∀ r s', grow_buffers fuel pri size s = .ok r s' →
        (r = 0 ∧ Ungrown s s') ∨ (r = 1 ∧ ∃ page L, Grown s s' size page L) :=
  ⟨grow_buffers_returns fuel pri size s (reachable_tally h) hs,
    fun r s' e => grow_buffers_effect fuel pri size s s' r (reachable_tally h) hs e⟩

/-- C22 (witness): in the cache `boot3_init`, as `buffer_init` leaves it, one page is
left in the pool; `grow_buffers` for the size 1024 returns 1 and has cut the page
`0x102000` into four buffers. -/
theorem grow_buffers_carves_one_page_witness :
    Reachable boot3_init ∧ Supported 1024 ∧
      (∃ r s', grow_buffers 17 .GFP_BUFFER 1024 boot3_init = .ok r s') ∧
      (grow_buffers 17 .GFP_BUFFER 1024 boot3_init).val = 1 ∧
      ∃ L, Grown boot3_init (grow_buffers 17 .GFP_BUFFER 1024 boot3_init).state 1024
        0x102000 L := by
  have T := grow_buffers_carves_one_page 17 .GFP_BUFFER 1024 boot3_init
    boot3_init_reachable (Or.inr (Or.inl rfl))
  have hv : (grow_buffers 17 .GFP_BUFFER 1024 boot3_init).val = 1 := by decide!
  have G := (T.2 _ _ (Res.eq_ok (grow_buffers 17 .GFP_BUFFER 1024 boot3_init)
    (by decide!))).resolve_left fun h0 => absurd (hv.symm.trans h0.1) (by decide)
  obtain ⟨page, L, g⟩ := G.2
  have hp : page = 0x102000 := by
    have h1 := g.first
    have h2 : boot3_init.page_pool.head? = some 0x102000 := by decide!
    rw [h2] at h1
    exact (Option.some.inj h1).symm
  subst hp
  exact ⟨boot3_init_reachable, Or.inr (Or.inl rfl), T.1 (by decide), hv, L, g⟩

/-- C4: the failing input.  In the reachable state `disk2_reclaimed` head 61 is alone on
the free list of 1024-byte buffers: `refill_freelist` has reclaimed it from the LOCKED1
list, where it was after its write had completed, and it still carries
`b_list = BUF_LOCKED1`.  No descriptor is bound to block 5 of the disk `0x301`.
`getblk(0x301, 5, 1024)` returns head 61, bound to the block, with `b_count = 1` and the
locked, dirty, uptodate and requested flags and the flush deadline cleared, and
`find_buffer` finds it; but `getblk` does not set `b_list`, so `insert_into_queues` has
linked the head, unlocked and clean, on the LOCKED1 list, and it is not a member of the
CLEAN list. -/
theorem getblk_reclaimed_keeps_list :
    Reachable disk2_reclaimed ∧ ¬ BoundTo disk2_reclaimed 0x301 5 ∧
      disk2_reclaimed.free_list (BUFSIZE_INDEX 1024) = [61] ∧
      (disk2_reclaimed.b 61).b_list = BUF_LOCKED1 ∧
      (getblk 10 0x301 5 1024 disk2_reclaimed).isOk = true ∧
      (getblk 10 0x301 5 1024 disk2_reclaimed).val = 61 ∧
      ((getblk 10 0x301 5 1024 disk2_reclaimed).state.b 61).b_dev = 0x301 ∧
      ((getblk 10 0x301 5 1024 disk2_reclaimed).state.b 61).b_blocknr = 5 ∧
      ((getblk 10 0x301 5 1024 disk2_reclaimed).state.b 61).b_count = 1 ∧
      ((getblk 10 0x301 5 1024 disk2_reclaimed).state.b 61).b_lock = false ∧
      ((getblk 10 0x301 5 1024 disk2_reclaimed).state.b 61).b_dirt = false ∧
      ((getblk 10 0x301 5 1024 disk2_reclaimed).state.b 61).b_uptodate = false ∧
      ((getblk 10 0x301 5 1024 disk2_reclaimed).state.b 61).b_req = false ∧
      ((getblk 10 0x301 5 1024 disk2_reclaimed).state.b 61).b_flushtime = 0 ∧
      (find_buffer 0x301 5 1024 (getblk 10 0x301 5 1024 disk2_reclaimed).state).val = 61 ∧
      ((getblk 10 0x301 5 1024 disk2_reclaimed).state.b 61).b_list = BUF_LOCKED1 ∧
      61 ∈ (getblk 10 0x301 5 1024 disk2_reclaimed).state.lru_list BUF_LOCKED1 ∧
      61 ∉ (getblk 10 0x301 5 1024 disk2_reclaimed).state.lru_list BUF_CLEAN :=
  ⟨disk2_reclaimed_reachable, by decide!, by decide!, by decide!, by decide!, by decide!,
    by decide!, by decide!, by decide!, by decide!, by decide!, by decide!, by decide!,
    by decide!, by decide!, by decide!, by decide!, by decide!⟩

theorem Filed.pre_fl : Pre Filed := by
  refine ⟨fun s => ⟨fun _ h => ⟨h, id⟩, fun _ h _ => h⟩, ?_⟩
  intro s s' s'' h h'
  refine ⟨fun x hx => ?_, fun x hx hd => ?_⟩
  · obtain ⟨h1, h2⟩ := h'.heads x hx
    obtain ⟨h3, h4⟩ := h.heads x h1
    exact ⟨h3, fun hl => h2 (h4 hl)⟩
  · exact h.carved x (h'.carved x hx hd) (h'.heads x hd).1

theorem Filed.all {s s' : State} (h : Filed s s') (a : AllFiled s) : AllFiled s' := by
  intro x h1 h2 hd
  obtain ⟨h3, h4⟩ := h.heads x hd
  exact h4 (a x h1 (h.carved x h2 hd) h3)

theorem Filed.upd_b (s s' : State) (bh : Nat) (v : buffer_head) (hb : s'.b = upd s.b bh v)
    (hn : s'.nr_buffer_heads = s.nr_buffer_heads)
    (hv : v.b_dirt = true →
      (s.b bh).b_dirt = true ∧ ((s.b bh).b_list = BUF_DIRTY → v.b_list = BUF_DIRTY)) :
    Filed s s' := by
  refine ⟨fun x hx => ?_, fun x h _ => hn ▸ h⟩
  rw [hb] at hx ⊢
  by_cases e : x = bh
  · subst e
    rw [upd_same] at hx ⊢
    exact hv hx
  · rw [upd_other _ _ _ _ e] at hx ⊢
    exact ⟨hx, id⟩

theorem filed_setB_R (bh : Nat) (f : buffer_head → buffer_head)
    (hf : ∀ v, (f v).b_dirt = true →
      v.b_dirt = true ∧ (v.b_list = BUF_DIRTY → (f v).b_list = BUF_DIRTY)) :
    KeepsR Filed (setB bh f) :=
  KeepsR.setB_R _ _ fun s => Filed.upd_b s _ bh _ rfl rfl (hf _)

theorem filed_printk (m : Kmsg) : KeepsR Filed (printk m) :=
  KeepsR.modS_R _ fun _ => ⟨fun _ h => ⟨h, id⟩, fun _ h _ => h⟩

theorem filed_get_free_page (pri : Gfp) : KeepsR Filed (__get_free_page pri) := by
  intro s a s' e
  unfold __get_free_page at e
  split at e <;> cases e <;> exact ⟨fun _ h => ⟨h, id⟩, fun _ h _ => h⟩

theorem filed_free_page (addr : Nat) : KeepsR Filed (free_page addr) := by
  intro s a s' e
  unfold free_page at e
  split_ifs at e
  · exact filed_printk _ s a s' e
  · cases e
    exact ⟨fun _ h => ⟨h, id⟩, fun _ h _ => h⟩
  · cases e
    exact ⟨fun _ h => ⟨h, id⟩, fun _ h _ => h⟩

theorem filed_end_buffer_io (bh : Nat) : KeepsR Filed (end_buffer_io bh) := by
  intro s a s' e
  unfold end_buffer_io at e
  revert e
  refine filed_setB_R bh _ ?_ s a s'
  intro _ h
  exact ⟨h, id⟩

theorem filed_add_request_kstat (rdev : Nat) : KeepsR Filed (add_request_kstat rdev) := by
  unfold add_request_kstat
  refine KeepsR.modS_R _ fun s => ?_
  dsimp only
  split_ifs <;> exact ⟨fun _ h => ⟨h, id⟩, fun _ h _ => h⟩

theorem filed_remove_from_hash_queue (bh : Nat) : KeepsR Filed (remove_from_hash_queue bh) := by
  unfold remove_from_hash_queue
  repeat' first
    | with_reducible exact KeepsR.pure_R Filed.pre_fl _
    | with_reducible exact KeepsR.kpanic_R _
    | with_reducible exact KeepsR.khang_R
    | ((with_reducible refine KeepsR.modS_R _ fun _ => ?_); exact ⟨fun _ h => ⟨h, id⟩, fun _ h _ => h⟩)
    | ((with_reducible refine KeepsR.setB_R _ _ fun _ => ?_); exact ⟨fun _ h => ⟨h, id⟩, fun _ h _ => h⟩)
    | ((with_reducible refine KeepsR.setR_R _ _ fun _ => ?_); exact ⟨fun _ h => ⟨h, id⟩, fun _ h _ => h⟩)
    | with_reducible refine KeepsR.getS_bind_R fun _ => ?_
    | with_reducible refine KeepsR.bind_R Filed.pre_fl ?_ fun _ => ?_
    | ((try dsimp only); rw [ite_bind_jp])
    | with_reducible refine KeepsR.ite_R (fun _ => ?_) fun _ => ?_
    | dsimp only
    | split

theorem filed_remove_from_lru_list (bh : Nat) : KeepsR Filed (remove_from_lru_list bh) := by
  unfold remove_from_lru_list
  repeat' first
    | with_reducible exact KeepsR.pure_R Filed.pre_fl _
    | with_reducible exact KeepsR.kpanic_R _
    | with_reducible exact KeepsR.khang_R
    | ((with_reducible refine KeepsR.modS_R _ fun _ => ?_); exact ⟨fun _ h => ⟨h, id⟩, fun _ h _ => h⟩)
    | ((with_reducible refine KeepsR.setB_R _ _ fun _ => ?_); exact ⟨fun _ h => ⟨h, id⟩, fun _ h _ => h⟩)
    | ((with_reducible refine KeepsR.setR_R _ _ fun _ => ?_); exact ⟨fun _ h => ⟨h, id⟩, fun _ h _ => h⟩)
    | with_reducible refine KeepsR.getS_bind_R fun _ => ?_
    | with_reducible refine KeepsR.bind_R Filed.pre_fl ?_ fun _ => ?_
    | ((try dsimp only); rw [ite_bind_jp])
    | with_reducible refine KeepsR.ite_R (fun _ => ?_) fun _ => ?_
    | dsimp only
    | split

theorem filed_remove_from_free_list (bh : Nat) : KeepsR Filed (remove_from_free_list bh) := by
  unfold remove_from_free_list
  repeat' first
    | with_reducible exact KeepsR.pure_R Filed.pre_fl _
    | with_reducible exact KeepsR.kpanic_R _
    | with_reducible exact KeepsR.khang_R
    | ((with_reducible refine KeepsR.modS_R _ fun _ => ?_); exact ⟨fun _ h => ⟨h, id⟩, fun _ h _ => h⟩)
    | ((with_reducible refine KeepsR.setB_R _ _ fun _ => ?_); exact ⟨fun _ h => ⟨h, id⟩, fun _ h _ => h⟩)
    | ((with_reducible refine KeepsR.setR_R _ _ fun _ => ?_); exact ⟨fun _ h => ⟨h, id⟩, fun _ h _ => h⟩)
    | with_reducible refine KeepsR.getS_bind_R fun _ => ?_
    | with_reducible refine KeepsR.bind_R Filed.pre_fl ?_ fun _ => ?_
    | ((try dsimp only); rw [ite_bind_jp])
    | with_reducible refine KeepsR.ite_R (fun _ => ?_) fun _ => ?_
    | dsimp only
    | split

theorem filed_remove_from_queues (bh : Nat) : KeepsR Filed (remove_from_queues bh) := by
  unfold remove_from_queues
  repeat' first
    | with_reducible exact KeepsR.pure_R Filed.pre_fl _
    | with_reducible exact KeepsR.kpanic_R _
    | with_reducible exact KeepsR.khang_R
    | with_reducible exact filed_remove_from_free_list _
    | with_reducible exact filed_remove_from_hash_queue _
    | with_reducible exact filed_remove_from_lru_list _
    | ((with_reducible refine KeepsR.modS_R _ fun _ => ?_); exact ⟨fun _ h => ⟨h, id⟩, fun _ h _ => h⟩)
    | ((with_reducible refine KeepsR.setB_R _ _ fun _ => ?_); exact ⟨fun _ h => ⟨h, id⟩, fun _ h _ => h⟩)
    | ((with_reducible refine KeepsR.setR_R _ _ fun _ => ?_); exact ⟨fun _ h => ⟨h, id⟩, fun _ h _ => h⟩)
    | with_reducible refine KeepsR.getS_bind_R fun _ => ?_
    | with_reducible refine KeepsR.bind_R Filed.pre_fl ?_ fun _ => ?_
    | ((try dsimp only); rw [ite_bind_jp])
    | with_reducible refine KeepsR.ite_R (fun _ => ?_) fun _ => ?_
    | dsimp only
    | split

theorem filed_put_last_free (bh : Nat) : KeepsR Filed (put_last_free bh) := by
  unfold put_last_free
  repeat' first
    | with_reducible exact KeepsR.pure_R Filed.pre_fl _
    | with_reducible exact KeepsR.kpanic_R _
    | with_reducible exact KeepsR.khang_R
    | ((with_reducible refine filed_setB_R _ _ ?_); intro v h; first | exact ⟨h, id⟩ | exact absurd h Bool.false_ne_true)
    | ((with_reducible refine KeepsR.modS_R _ fun _ => ?_); exact ⟨fun _ h => ⟨h, id⟩, fun _ h _ => h⟩)
    | ((with_reducible refine KeepsR.setB_R _ _ fun _ => ?_); exact ⟨fun _ h => ⟨h, id⟩, fun _ h _ => h⟩)
    | ((with_reducible refine KeepsR.setR_R _ _ fun _ => ?_); exact ⟨fun _ h => ⟨h, id⟩, fun _ h _ => h⟩)
    | with_reducible refine KeepsR.getS_bind_R fun _ => ?_
    | with_reducible refine KeepsR.bind_R Filed.pre_fl ?_ fun _ => ?_
    | ((try dsimp only); rw [ite_bind_jp])
    | with_reducible refine KeepsR.ite_R (fun _ => ?_) fun _ => ?_
    | dsimp only
    | split

theorem filed_insert_into_queues (bh : Nat) : KeepsR Filed (insert_into_queues bh) := by
  unfold insert_into_queues
  repeat' first
    | with_reducible exact KeepsR.pure_R Filed.pre_fl _
    | with_reducible exact KeepsR.kpanic_R _
    | with_reducible exact KeepsR.khang_R
    | with_reducible exact filed_put_last_free _
    | ((with_reducible refine KeepsR.modS_R _ fun _ => ?_); exact ⟨fun _ h => ⟨h, id⟩, fun _ h _ => h⟩)
    | ((with_reducible refine KeepsR.setB_R _ _ fun _ => ?_); exact ⟨fun _ h => ⟨h, id⟩, fun _ h _ => h⟩)
    | ((with_reducible refine KeepsR.setR_R _ _ fun _ => ?_); exact ⟨fun _ h => ⟨h, id⟩, fun _ h _ => h⟩)
    | with_reducible refine KeepsR.getS_bind_R fun _ => ?_
    | with_reducible refine KeepsR.bind_R Filed.pre_fl ?_ fun _ => ?_
    | ((try dsimp only); rw [ite_bind_jp])
    | with_reducible refine KeepsR.ite_R (fun _ => ?_) fun _ => ?_
    | dsimp only
    | split

theorem filed_put_last_lru (bh : Nat) : KeepsR Filed (put_last_lru bh) := by
  unfold put_last_lru
  repeat' first
    | with_reducible exact KeepsR.pure_R Filed.pre_fl _
    | with_reducible exact KeepsR.kpanic_R _
    | with_reducible exact KeepsR.khang_R
    | with_reducible exact filed_remove_from_lru_list _
    | ((with_reducible refine KeepsR.modS_R _ fun _ => ?_); exact ⟨fun _ h => ⟨h, id⟩, fun _ h _ => h⟩)
    | ((with_reducible refine KeepsR.setB_R _ _ fun _ => ?_); exact ⟨fun _ h => ⟨h, id⟩, fun _ h _ => h⟩)
    | ((with_reducible refine KeepsR.setR_R _ _ fun _ => ?_); exact ⟨fun _ h => ⟨h, id⟩, fun _ h _ => h⟩)
    | with_reducible refine KeepsR.getS_bind_R fun _ => ?_
    | with_reducible refine KeepsR.bind_R Filed.pre_fl ?_ fun _ => ?_
    | ((try dsimp only); rw [ite_bind_jp])
    | with_reducible refine KeepsR.ite_R (fun _ => ?_) fun _ => ?_
    | dsimp only
    | split

theorem filed_put_unused_buffer_head (bh : Nat) : KeepsR Filed (put_unused_buffer_head bh) :=
  KeepsR.modS_R _ fun s =>
    Filed.upd_b s _ bh _ rfl rfl fun h => absurd h Bool.false_ne_true

theorem filed_carve (s s' : State) (i : Nat)
    (hb : s'.b = fun k => if s.nr_buffer_heads < k ∧ k ≤ s.nr_buffer_heads + i then {} else s.b k)
    (hn : s'.nr_buffer_heads = s.nr_buffer_heads + i) : Filed s s' := by
  refine ⟨fun x hx => ?_, fun x hx hd => ?_⟩
  · rw [hb] at hx ⊢
    dsimp only at hx ⊢
    split_ifs at hx ⊢ with h <;> first | exact absurd hx Bool.false_ne_true | exact ⟨hx, id⟩
  · rw [hb] at hd
    dsimp only at hd
    rw [hn] at hx
    by_cases h : s.nr_buffer_heads < x ∧ x ≤ s.nr_buffer_heads + i
    · rw [if_pos h] at hd
      exact absurd hd Bool.false_ne_true
    · exact not_lt.mp fun h1 => h ⟨h1, hx⟩

theorem filed_get_more_buffer_heads : KeepsR Filed get_more_buffer_heads := by
  unfold get_more_buffer_heads
  repeat' first
    | with_reducible exact KeepsR.pure_R Filed.pre_fl _
    | with_reducible exact KeepsR.kpanic_R _
    | with_reducible exact KeepsR.khang_R
    | with_reducible exact filed_get_free_page _
    | ((with_reducible refine KeepsR.modS_R _ fun s => ?_); exact filed_carve s _ _ rfl rfl)
    | ((with_reducible refine KeepsR.modS_R _ fun _ => ?_); exact ⟨fun _ h => ⟨h, id⟩, fun _ h _ => h⟩)
    | ((with_reducible refine KeepsR.setB_R _ _ fun _ => ?_); exact ⟨fun _ h => ⟨h, id⟩, fun _ h _ => h⟩)
    | ((with_reducible refine KeepsR.setR_R _ _ fun _ => ?_); exact ⟨fun _ h => ⟨h, id⟩, fun _ h _ => h⟩)
    | with_reducible refine KeepsR.getS_bind_R fun _ => ?_
    | with_reducible refine KeepsR.bind_R Filed.pre_fl ?_ fun _ => ?_
    | ((try dsimp only); rw [ite_bind_jp])
    | with_reducible refine KeepsR.ite_R (fun _ => ?_) fun _ => ?_
    | dsimp only
    | split

theorem filed_get_unused_buffer_head : KeepsR Filed get_unused_buffer_head := by
  unfold get_unused_buffer_head
  repeat' first
    | with_reducible exact KeepsR.pure_R Filed.pre_fl _
    | with_reducible exact KeepsR.kpanic_R _
    | with_reducible exact KeepsR.khang_R
    | with_reducible exact filed_get_more_buffer_heads
    | ((with_reducible refine KeepsR.modS_R _ fun s => ?_); exact Filed.upd_b s _ _ _ rfl rfl fun h => ⟨h, id⟩)
    | ((with_reducible refine KeepsR.modS_R _ fun _ => ?_); exact ⟨fun _ h => ⟨h, id⟩, fun _ h _ => h⟩)
    | ((with_reducible refine KeepsR.setB_R _ _ fun _ => ?_); exact ⟨fun _ h => ⟨h, id⟩, fun _ h _ => h⟩)
    | ((with_reducible refine KeepsR.setR_R _ _ fun _ => ?_); exact ⟨fun _ h => ⟨h, id⟩, fun _ h _ => h⟩)
    | with_reducible refine KeepsR.getS_bind_R fun _ => ?_
    | with_reducible refine KeepsR.bind_R Filed.pre_fl ?_ fun _ => ?_
    | ((try dsimp only); rw [ite_bind_jp])
    | with_reducible refine KeepsR.ite_R (fun _ => ?_) fun _ => ?_
    | dsimp only
    | split

theorem filed_create_buffers_no_grow : ∀ fuel bh,
    KeepsR Filed (create_buffers_no_grow fuel bh) := by
  intro fuel
  induction fuel with
  | zero => intro bh; exact KeepsR.khang_R
  | succ fuel ih =>
    intro bh
    unfold create_buffers_no_grow
    repeat' first
      | with_reducible exact KeepsR.pure_R Filed.pre_fl _
      | with_reducible exact KeepsR.kpanic_R _
      | with_reducible exact KeepsR.khang_R
      | with_reducible exact ih _
      | with_reducible exact filed_put_unused_buffer_head _
      | ((with_reducible refine KeepsR.modS_R _ fun _ => ?_); exact ⟨fun _ h => ⟨h, id⟩, fun _ h _ => h⟩)
      | ((with_reducible refine KeepsR.setB_R _ _ fun _ => ?_); exact ⟨fun _ h => ⟨h, id⟩, fun _ h _ => h⟩)
      | ((with_reducible refine KeepsR.setR_R _ _ fun _ => ?_); exact ⟨fun _ h => ⟨h, id⟩, fun _ h _ => h⟩)
      | with_reducible refine KeepsR.getS_bind_R fun _ => ?_
      | with_reducible refine KeepsR.bind_R Filed.pre_fl ?_ fun _ => ?_
      | ((try dsimp only); rw [ite_bind_jp])
      | with_reducible refine KeepsR.ite_R (fun _ => ?_) fun _ => ?_
      | dsimp only
      | split

theorem filed_create_buffers_loop (page size : Nat) : ∀ fuel offset head,
    KeepsR Filed (create_buffers_loop page size fuel offset head) := by
  intro fuel
  induction fuel with
  | zero => intro offset head; exact KeepsR.khang_R
  | succ fuel ih =>
    intro offset head
    unfold create_buffers_loop
    repeat' first
      | with_reducible exact KeepsR.pure_R Filed.pre_fl _
      | with_reducible exact KeepsR.kpanic_R _
      | with_reducible exact KeepsR.khang_R
      | with_reducible exact ih _ _
      | with_reducible exact filed_get_unused_buffer_head
      | with_reducible exact filed_create_buffers_no_grow _ _
      | ((with_reducible refine filed_setB_R _ _ ?_); intro v h; first | exact ⟨h, id⟩ | exact absurd h Bool.false_ne_true)
      | ((with_reducible refine KeepsR.modS_R _ fun _ => ?_); exact ⟨fun _ h => ⟨h, id⟩, fun _ h _ => h⟩)
      | ((with_reducible refine KeepsR.setB_R _ _ fun _ => ?_); exact ⟨fun _ h => ⟨h, id⟩, fun _ h _ => h⟩)
      | ((with_reducible refine KeepsR.setR_R _ _ fun _ => ?_); exact ⟨fun _ h => ⟨h, id⟩, fun _ h _ => h⟩)
      | with_reducible refine KeepsR.getS_bind_R fun _ => ?_
      | with_reducible refine KeepsR.bind_R Filed.pre_fl ?_ fun _ => ?_
      | ((try dsimp only); rw [ite_bind_jp])
      | with_reducible refine KeepsR.ite_R (fun _ => ?_) fun _ => ?_
      | dsimp only
      | split

theorem filed_grow_buffers_loop (isize : Int) : ∀ fuel tmp insert_point,
    KeepsR Filed (grow_buffers_loop isize fuel tmp insert_point) := by
  intro fuel
  induction fuel with
  | zero => intro tmp insert_point; exact KeepsR.khang_R
  | succ fuel ih =>
    intro tmp insert_point
    unfold grow_buffers_loop
    repeat' first
      | with_reducible exact KeepsR.pure_R Filed.pre_fl _
      | with_reducible exact KeepsR.kpanic_R _
      | with_reducible exact KeepsR.khang_R
      | with_reducible exact ih _ _
      | ((with_reducible refine KeepsR.modS_R _ fun _ => ?_); exact ⟨fun _ h => ⟨h, id⟩, fun _ h _ => h⟩)
      | ((with_reducible refine KeepsR.setB_R _ _ fun _ => ?_); exact ⟨fun _ h => ⟨h, id⟩, fun _ h _ => h⟩)
      | ((with_reducible refine KeepsR.setR_R _ _ fun _ => ?_); exact ⟨fun _ h => ⟨h, id⟩, fun _ h _ => h⟩)
      | with_reducible refine KeepsR.getS_bind_R fun _ => ?_
      | with_reducible refine KeepsR.bind_R Filed.pre_fl ?_ fun _ => ?_
      | ((try dsimp only); rw [ite_bind_jp])
      | with_reducible refine KeepsR.ite_R (fun _ => ?_) fun _ => ?_
      | dsimp only
      | split

theorem filed_grow_buffers (fuel : Nat) (pri : Gfp) (size : Nat) :
    KeepsR Filed (grow_buffers fuel pri size) := by
  unfold grow_buffers create_buffers
  repeat' first
    | with_reducible exact KeepsR.pure_R Filed.pre_fl _
    | with_reducible exact KeepsR.kpanic_R _
    | with_reducible exact KeepsR.khang_R
    | with_reducible exact filed_printk _
    | with_reducible exact filed_get_free_page _
    | with_reducible exact filed_free_page _
    | with_reducible exact filed_create_buffers_loop _ _ _ _ _
    | with_reducible exact filed_grow_buffers_loop _ _ _ _
    | ((with_reducible refine KeepsR.modS_R _ fun s => ?_); exact Filed.upd_b s _ _ _ rfl rfl fun h => ⟨h, id⟩)
    | ((with_reducible refine KeepsR.modS_R _ fun _ => ?_); exact ⟨fun _ h => ⟨h, id⟩, fun _ h _ => h⟩)
    | ((with_reducible refine KeepsR.setB_R _ _ fun _ => ?_); exact ⟨fun _ h => ⟨h, id⟩, fun _ h _ => h⟩)
    | ((with_reducible refine KeepsR.setR_R _ _ fun _ => ?_); exact ⟨fun _ h => ⟨h, id⟩, fun _ h _ => h⟩)
    | with_reducible refine KeepsR.getS_bind_R fun _ => ?_
    | with_reducible refine KeepsR.bind_R Filed.pre_fl ?_ fun _ => ?_
    | ((try dsimp only); rw [ite_bind_jp])
    | with_reducible refine KeepsR.ite_R (fun _ => ?_) fun _ => ?_
    | dsimp only
    | split

theorem filed_try_to_free_loop (isize : Int) (bh : Nat) : ∀ fuel tmp bhp,
    KeepsR Filed (try_to_free_loop isize bh fuel tmp bhp) := by
  intro fuel
  induction fuel with
  | zero => intro tmp bhp; exact KeepsR.khang_R
  | succ fuel ih =>
    intro tmp bhp
    unfold try_to_free_loop
    repeat' first
      | with_reducible exact KeepsR.pure_R Filed.pre_fl _
      | with_reducible exact KeepsR.kpanic_R _
      | with_reducible exact KeepsR.khang_R
      | with_reducible exact ih _ _
      | with_reducible exact filed_remove_from_queues _
      | with_reducible exact filed_put_unused_buffer_head _
      | ((with_reducible refine KeepsR.modS_R _ fun _ => ?_); exact ⟨fun _ h => ⟨h, id⟩, fun _ h _ => h⟩)
      | ((with_reducible refine KeepsR.setB_R _ _ fun _ => ?_); exact ⟨fun _ h => ⟨h, id⟩, fun _ h _ => h⟩)
      | ((with_reducible refine KeepsR.setR_R _ _ fun _ => ?_); exact ⟨fun _ h => ⟨h, id⟩, fun _ h _ => h⟩)
      | with_reducible refine KeepsR.getS_bind_R fun _ => ?_
      | with_reducible refine KeepsR.bind_R Filed.pre_fl ?_ fun _ => ?_
      | ((try dsimp only); rw [ite_bind_jp])
      | with_reducible refine KeepsR.ite_R (fun _ => ?_) fun _ => ?_
      | dsimp only
      | split


theorem filed_wait_on_buffer_loop (bh : Nat) : KeepsR Filed (__wait_on_buffer bh) := by
  unfold __wait_on_buffer
  repeat' first
    | with_reducible exact KeepsR.pure_R Filed.pre_fl _
    | with_reducible exact KeepsR.kpanic_R _
    | with_reducible exact KeepsR.khang_R
    | with_reducible exact filed_end_buffer_io _
    | with_reducible exact filed_printk _
    | with_reducible exact filed_remove_from_queues _
    | with_reducible exact filed_insert_into_queues _
    | with_reducible exact filed_put_last_free _
    | with_reducible exact filed_remove_from_free_list _
    | ((with_reducible refine filed_setB_R _ _ ?_); intro v h; first | exact ⟨h, id⟩ | exact absurd h Bool.false_ne_true)
    | ((with_reducible refine KeepsR.modS_R _ fun _ => ?_); exact ⟨fun _ h => ⟨h, id⟩, fun _ h _ => h⟩)
    | ((with_reducible refine KeepsR.setB_R _ _ fun _ => ?_); exact ⟨fun _ h => ⟨h, id⟩, fun _ h _ => h⟩)
    | ((with_reducible refine KeepsR.setR_R _ _ fun _ => ?_); exact ⟨fun _ h => ⟨h, id⟩, fun _ h _ => h⟩)
    | with_reducible refine KeepsR.getS_bind_R fun _ => ?_
    | with_reducible refine KeepsR.bind_R Filed.pre_fl ?_ fun _ => ?_
    | ((try dsimp only); rw [ite_bind_jp])
    | with_reducible refine KeepsR.ite_R (fun _ => ?_) fun _ => ?_
    | dsimp only
    | split

theorem filed_wait_on_buffer (bh : Nat) : KeepsR Filed (wait_on_buffer bh) := by
  unfold wait_on_buffer
  repeat' first
    | with_reducible exact KeepsR.pure_R Filed.pre_fl _
    | with_reducible exact KeepsR.kpanic_R _
    | with_reducible exact KeepsR.khang_R
    | with_reducible exact filed_wait_on_buffer_loop _
    | with_reducible exact filed_printk _
    | with_reducible exact filed_remove_from_queues _
    | with_reducible exact filed_insert_into_queues _
    | with_reducible exact filed_put_last_free _
    | with_reducible exact filed_remove_from_free_list _
    | ((with_reducible refine filed_setB_R _ _ ?_); intro v h; first | exact ⟨h, id⟩ | exact absurd h Bool.false_ne_true)
    | ((with_reducible refine KeepsR.modS_R _ fun _ => ?_); exact ⟨fun _ h => ⟨h, id⟩, fun _ h _ => h⟩)
    | ((with_reducible refine KeepsR.setB_R _ _ fun _ => ?_); exact ⟨fun _ h => ⟨h, id⟩, fun _ h _ => h⟩)
    | ((with_reducible refine KeepsR.setR_R _ _ fun _ => ?_); exact ⟨fun _ h => ⟨h, id⟩, fun _ h _ => h⟩)
    | with_reducible refine KeepsR.getS_bind_R fun _ => ?_
    | with_reducible refine KeepsR.bind_R Filed.pre_fl ?_ fun _ => ?_
    | ((try dsimp only); rw [ite_bind_jp])
    | with_reducible refine KeepsR.ite_R (fun _ => ?_) fun _ => ?_
    | dsimp only
    | split

theorem filed_lock_buffer (bh : Nat) : KeepsR Filed (lock_buffer bh) := by
  unfold lock_buffer
  repeat' first
    | with_reducible exact KeepsR.pure_R Filed.pre_fl _
    | with_reducible exact KeepsR.kpanic_R _
    | with_reducible exact KeepsR.khang_R
    | with_reducible exact filed_wait_on_buffer_loop _
    | with_reducible exact filed_printk _
    | with_reducible exact filed_remove_from_queues _
    | with_reducible exact filed_insert_into_queues _
    | with_reducible exact filed_put_last_free _
    | with_reducible exact filed_remove_from_free_list _
    | ((with_reducible refine filed_setB_R _ _ ?_); intro v h; first | exact ⟨h, id⟩ | exact absurd h Bool.false_ne_true)
    | ((with_reducible refine KeepsR.modS_R _ fun _ => ?_); exact ⟨fun _ h => ⟨h, id⟩, fun _ h _ => h⟩)
    | ((with_reducible refine KeepsR.setB_R _ _ fun _ => ?_); exact ⟨fun _ h => ⟨h, id⟩, fun _ h _ => h⟩)
    | ((with_reducible refine KeepsR.setR_R _ _ fun _ => ?_); exact ⟨fun _ h => ⟨h, id⟩, fun _ h _ => h⟩)
    | with_reducible refine KeepsR.getS_bind_R fun _ => ?_
    | with_reducible refine KeepsR.bind_R Filed.pre_fl ?_ fun _ => ?_
    | ((try dsimp only); rw [ite_bind_jp])
    | with_reducible refine KeepsR.ite_R (fun _ => ?_) fun _ => ?_
    | dsimp only
    | split

theorem filed_unlock_buffer (bh : Nat) : KeepsR Filed (unlock_buffer bh) := by
  unfold unlock_buffer
  repeat' first
    | with_reducible exact KeepsR.pure_R Filed.pre_fl _
    | with_reducible exact KeepsR.kpanic_R _
    | with_reducible exact KeepsR.khang_R
    | with_reducible exact filed_printk _
    | with_reducible exact filed_remove_from_queues _
    | with_reducible exact filed_insert_into_queues _
    | with_reducible exact filed_put_last_free _
    | with_reducible exact filed_remove_from_free_list _
    | ((with_reducible refine filed_setB_R _ _ ?_); intro v h; first | exact ⟨h, id⟩ | exact absurd h Bool.false_ne_true)
    | ((with_reducible refine KeepsR.modS_R _ fun _ => ?_); exact ⟨fun _ h => ⟨h, id⟩, fun _ h _ => h⟩)
    | ((with_reducible refine KeepsR.setB_R _ _ fun _ => ?_); exact ⟨fun _ h => ⟨h, id⟩, fun _ h _ => h⟩)
    | ((with_reducible refine KeepsR.setR_R _ _ fun _ => ?_); exact ⟨fun _ h => ⟨h, id⟩, fun _ h _ => h⟩)
    | with_reducible refine KeepsR.getS_bind_R fun _ => ?_
    | with_reducible refine KeepsR.bind_R Filed.pre_fl ?_ fun _ => ?_
    | ((try dsimp only); rw [ite_bind_jp])
    | with_reducible refine KeepsR.ite_R (fun _ => ?_) fun _ => ?_
    | dsimp only
    | split

theorem filed_find_buffer_loop (dev block size : Nat) (l : List Nat) :
    KeepsR Filed (find_buffer_loop dev block size l) := by
  induction l with
  | nil => exact KeepsR.pure_R Filed.pre_fl _
  | cons tmp rest ih =>
    unfold find_buffer_loop
    repeat' first
      | with_reducible exact KeepsR.pure_R Filed.pre_fl _
      | with_reducible exact KeepsR.kpanic_R _
      | with_reducible exact KeepsR.khang_R
      | with_reducible exact filed_printk _
      | with_reducible exact ih
      | with_reducible exact filed_printk _
      | with_reducible exact filed_remove_from_queues _
      | with_reducible exact filed_insert_into_queues _
      | with_reducible exact filed_put_last_free _
      | with_reducible exact filed_remove_from_free_list _
      | ((with_reducible refine filed_setB_R _ _ ?_); intro v h; first | exact ⟨h, id⟩ | exact absurd h Bool.false_ne_true)
      | ((with_reducible refine KeepsR.modS_R _ fun _ => ?_); exact ⟨fun _ h => ⟨h, id⟩, fun _ h _ => h⟩)
      | ((with_reducible refine KeepsR.setB_R _ _ fun _ => ?_); exact ⟨fun _ h => ⟨h, id⟩, fun _ h _ => h⟩)
      | ((with_reducible refine KeepsR.setR_R _ _ fun _ => ?_); exact ⟨fun _ h => ⟨h, id⟩, fun _ h _ => h⟩)
      | with_reducible refine KeepsR.getS_bind_R fun _ => ?_
      | with_reducible refine KeepsR.bind_R Filed.pre_fl ?_ fun _ => ?_
      | ((try dsimp only); rw [ite_bind_jp])
      | with_reducible refine KeepsR.ite_R (fun _ => ?_) fun _ => ?_
      | dsimp only
      | split

theorem filed_find_buffer (dev block size : Nat) : KeepsR Filed (find_buffer dev block size) := by
  unfold find_buffer
  repeat' first
    | with_reducible exact KeepsR.pure_R Filed.pre_fl _
    | with_reducible exact KeepsR.kpanic_R _
    | with_reducible exact KeepsR.khang_R
    | with_reducible exact filed_find_buffer_loop _ _ _ _
    | with_reducible exact filed_printk _
    | with_reducible exact filed_remove_from_queues _
    | with_reducible exact filed_insert_into_queues _
    | with_reducible exact filed_put_last_free _
    | with_reducible exact filed_remove_from_free_list _
    | ((with_reducible refine filed_setB_R _ _ ?_); intro v h; first | exact ⟨h, id⟩ | exact absurd h Bool.false_ne_true)
    | ((with_reducible refine KeepsR.modS_R _ fun _ => ?_); exact ⟨fun _ h => ⟨h, id⟩, fun _ h _ => h⟩)
    | ((with_reducible refine KeepsR.setB_R _ _ fun _ => ?_); exact ⟨fun _ h => ⟨h, id⟩, fun _ h _ => h⟩)
    | ((with_reducible refine KeepsR.setR_R _ _ fun _ => ?_); exact ⟨fun _ h => ⟨h, id⟩, fun _ h _ => h⟩)
    | with_reducible refine KeepsR.getS_bind_R fun _ => ?_
    | with_reducible refine KeepsR.bind_R Filed.pre_fl ?_ fun _ => ?_
    | ((try dsimp only); rw [ite_bind_jp])
    | with_reducible refine KeepsR.ite_R (fun _ => ?_) fun _ => ?_
    | dsimp only
    | split

theorem filed_get_hash_table (fuel dev block size : Nat) :
    KeepsR Filed (get_hash_table fuel dev block size) := by
  induction fuel with
  | zero => exact KeepsR.khang_R
  | succ fuel ih =>
    unfold get_hash_table
    repeat' first
      | with_reducible exact KeepsR.pure_R Filed.pre_fl _
      | with_reducible exact KeepsR.kpanic_R _
      | with_reducible exact KeepsR.khang_R
      | with_reducible exact filed_find_buffer _ _ _
      | with_reducible exact filed_wait_on_buffer _
      | with_reducible exact ih
      | with_reducible exact filed_printk _
      | with_reducible exact filed_remove_from_queues _
      | with_reducible exact filed_insert_into_queues _
      | with_reducible exact filed_put_last_free _
      | with_reducible exact filed_remove_from_free_list _
      | ((with_reducible refine filed_setB_R _ _ ?_); intro v h; first | exact ⟨h, id⟩ | exact absurd h Bool.false_ne_true)
      | ((with_reducible refine KeepsR.modS_R _ fun _ => ?_); exact ⟨fun _ h => ⟨h, id⟩, fun _ h _ => h⟩)
      | ((with_reducible refine KeepsR.setB_R _ _ fun _ => ?_); exact ⟨fun _ h => ⟨h, id⟩, fun _ h _ => h⟩)
      | ((with_reducible refine KeepsR.setR_R _ _ fun _ => ?_); exact ⟨fun _ h => ⟨h, id⟩, fun _ h _ => h⟩)
      | with_reducible refine KeepsR.getS_bind_R fun _ => ?_
      | with_reducible refine KeepsR.bind_R Filed.pre_fl ?_ fun _ => ?_
      | ((try dsimp only); rw [ite_bind_jp])
      | with_reducible refine KeepsR.ite_R (fun _ => ?_) fun _ => ?_
      | dsimp only
      | split

theorem filed_set_writetime (buf : Nat) (flag : Int) : KeepsR Filed (set_writetime buf flag) := by
  unfold set_writetime
  repeat' first
    | with_reducible exact KeepsR.pure_R Filed.pre_fl _
    | with_reducible exact KeepsR.kpanic_R _
    | with_reducible exact KeepsR.khang_R
    | with_reducible exact filed_printk _
    | with_reducible exact filed_remove_from_queues _
    | with_reducible exact filed_insert_into_queues _
    | with_reducible exact filed_put_last_free _
    | with_reducible exact filed_remove_from_free_list _
    | ((with_reducible refine filed_setB_R _ _ ?_); intro v h; first | exact ⟨h, id⟩ | exact absurd h Bool.false_ne_true)
    | ((with_reducible refine KeepsR.modS_R _ fun _ => ?_); exact ⟨fun _ h => ⟨h, id⟩, fun _ h _ => h⟩)
    | ((with_reducible refine KeepsR.setB_R _ _ fun _ => ?_); exact ⟨fun _ h => ⟨h, id⟩, fun _ h _ => h⟩)
    | ((with_reducible refine KeepsR.setR_R _ _ fun _ => ?_); exact ⟨fun _ h => ⟨h, id⟩, fun _ h _ => h⟩)
    | with_reducible refine KeepsR.getS_bind_R fun _ => ?_
    | with_reducible refine KeepsR.bind_R Filed.pre_fl ?_ fun _ => ?_
    | ((try dsimp only); rw [ite_bind_jp])
    | with_reducible refine KeepsR.ite_R (fun _ => ?_) fun _ => ?_
    | dsimp only
    | split

theorem filed_get_request_loop (n prev_found fuel req : Nat) :
    KeepsR Filed (get_request_loop n prev_found fuel req) := by
  induction fuel generalizing req with
  | zero => exact KeepsR.khang_R
  | succ fuel ih =>
    unfold get_request_loop
    repeat' first
      | with_reducible exact KeepsR.pure_R Filed.pre_fl _
      | with_reducible exact KeepsR.kpanic_R _
      | with_reducible exact KeepsR.khang_R
      | with_reducible exact ih _
      | with_reducible exact filed_printk _
      | with_reducible exact filed_remove_from_queues _
      | with_reducible exact filed_insert_into_queues _
      | with_reducible exact filed_put_last_free _
      | with_reducible exact filed_remove_from_free_list _
      | ((with_reducible refine filed_setB_R _ _ ?_); intro v h; first | exact ⟨h, id⟩ | exact absurd h Bool.false_ne_true)
      | ((with_reducible refine KeepsR.modS_R _ fun _ => ?_); exact ⟨fun _ h => ⟨h, id⟩, fun _ h _ => h⟩)
      | ((with_reducible refine KeepsR.setB_R _ _ fun _ => ?_); exact ⟨fun _ h => ⟨h, id⟩, fun _ h _ => h⟩)
      | ((with_reducible refine KeepsR.setR_R _ _ fun _ => ?_); exact ⟨fun _ h => ⟨h, id⟩, fun _ h _ => h⟩)
      | with_reducible refine KeepsR.getS_bind_R fun _ => ?_
      | with_reducible refine KeepsR.bind_R Filed.pre_fl ?_ fun _ => ?_
      | ((try dsimp only); rw [ite_bind_jp])
      | with_reducible refine KeepsR.ite_R (fun _ => ?_) fun _ => ?_
      | dsimp only
      | split

theorem filed_get_request (fuel n : Nat) (dev : Int) : KeepsR Filed (get_request fuel n dev) := by
  unfold get_request
  repeat' first
    | with_reducible exact KeepsR.pure_R Filed.pre_fl _
    | with_reducible exact KeepsR.kpanic_R _
    | with_reducible exact KeepsR.khang_R
    | with_reducible exact filed_get_request_loop _ _ _ _
    | with_reducible exact filed_printk _
    | with_reducible exact filed_remove_from_queues _
    | with_reducible exact filed_insert_into_queues _
    | with_reducible exact filed_put_last_free _
    | with_reducible exact filed_remove_from_free_list _
    | ((with_reducible refine filed_setB_R _ _ ?_); intro v h; first | exact ⟨h, id⟩ | exact absurd h Bool.false_ne_true)
    | ((with_reducible refine KeepsR.modS_R _ fun _ => ?_); exact ⟨fun _ h => ⟨h, id⟩, fun _ h _ => h⟩)
    | ((with_reducible refine KeepsR.setB_R _ _ fun _ => ?_); exact ⟨fun _ h => ⟨h, id⟩, fun _ h _ => h⟩)
    | ((with_reducible refine KeepsR.setR_R _ _ fun _ => ?_); exact ⟨fun _ h => ⟨h, id⟩, fun _ h _ => h⟩)
    | with_reducible refine KeepsR.getS_bind_R fun _ => ?_
    | with_reducible refine KeepsR.bind_R Filed.pre_fl ?_ fun _ => ?_
    | ((try dsimp only); rw [ite_bind_jp])
    | with_reducible refine KeepsR.ite_R (fun _ => ?_) fun _ => ?_
    | dsimp only
    | split

theorem filed_call_request_fn (major : Nat) : KeepsR Filed (call_request_fn major) := by
  unfold call_request_fn
  repeat' first
    | with_reducible exact KeepsR.pure_R Filed.pre_fl _
    | with_reducible exact KeepsR.kpanic_R _
    | with_reducible exact KeepsR.khang_R
    | with_reducible exact filed_printk _
    | with_reducible exact filed_remove_from_queues _
    | with_reducible exact filed_insert_into_queues _
    | with_reducible exact filed_put_last_free _
    | with_reducible exact filed_remove_from_free_list _
    | ((with_reducible refine filed_setB_R _ _ ?_); intro v h; first | exact ⟨h, id⟩ | exact absurd h Bool.false_ne_true)
    | ((with_reducible refine KeepsR.modS_R _ fun _ => ?_); exact ⟨fun _ h => ⟨h, id⟩, fun _ h _ => h⟩)
    | ((with_reducible refine KeepsR.setB_R _ _ fun _ => ?_); exact ⟨fun _ h => ⟨h, id⟩, fun _ h _ => h⟩)
    | ((with_reducible refine KeepsR.setR_R _ _ fun _ => ?_); exact ⟨fun _ h => ⟨h, id⟩, fun _ h _ => h⟩)
    | with_reducible refine KeepsR.getS_bind_R fun _ => ?_
    | with_reducible refine KeepsR.bind_R Filed.pre_fl ?_ fun _ => ?_
    | ((try dsimp only); rw [ite_bind_jp])
    | with_reducible refine KeepsR.ite_R (fun _ => ?_) fun _ => ?_
    | dsimp only
    | split

theorem filed_sorry_exit (bhs : List Nat) : KeepsR Filed ( ll_rw_block_sorry bhs) := by
  induction bhs with
  | nil => exact KeepsR.pure_R Filed.pre_fl _
  | cons bh rest ih =>
    unfold ll_rw_block_sorry
    repeat' first
      | with_reducible exact KeepsR.pure_R Filed.pre_fl _
      | with_reducible exact KeepsR.kpanic_R _
      | with_reducible exact KeepsR.khang_R
      | with_reducible exact ih
      | with_reducible exact filed_printk _
      | with_reducible exact filed_remove_from_queues _
      | with_reducible exact filed_insert_into_queues _
      | with_reducible exact filed_put_last_free _
      | with_reducible exact filed_remove_from_free_list _
      | ((with_reducible refine filed_setB_R _ _ ?_); intro v h; first | exact ⟨h, id⟩ | exact absurd h Bool.false_ne_true)
      | ((with_reducible refine KeepsR.modS_R _ fun _ => ?_); exact ⟨fun _ h => ⟨h, id⟩, fun _ h _ => h⟩)
      | ((with_reducible refine KeepsR.setB_R _ _ fun _ => ?_); exact ⟨fun _ h => ⟨h, id⟩, fun _ h _ => h⟩)
      | ((with_reducible refine KeepsR.setR_R _ _ fun _ => ?_); exact ⟨fun _ h => ⟨h, id⟩, fun _ h _ => h⟩)
      | with_reducible refine KeepsR.getS_bind_R fun _ => ?_
      | with_reducible refine KeepsR.bind_R Filed.pre_fl ?_ fun _ => ?_
      | ((try dsimp only); rw [ite_bind_jp])
      | with_reducible refine KeepsR.ite_R (fun _ => ?_) fun _ => ?_
      | dsimp only
      | split

theorem filed_invalidate_buffers_scan (dev i bh : Nat) :
    KeepsR Filed (invalidate_buffers_scan dev i bh) := by
  induction i generalizing bh with
  | zero => exact KeepsR.pure_R Filed.pre_fl _
  | succ i ih =>
    unfold invalidate_buffers_scan
    repeat' first
      | with_reducible exact KeepsR.pure_R Filed.pre_fl _
      | with_reducible exact KeepsR.kpanic_R _
      | with_reducible exact KeepsR.khang_R
      | with_reducible exact filed_wait_on_buffer _
      | with_reducible exact ih _
      | with_reducible exact filed_printk _
      | with_reducible exact filed_remove_from_queues _
      | with_reducible exact filed_insert_into_queues _
      | with_reducible exact filed_put_last_free _
      | with_reducible exact filed_remove_from_free_list _
      | ((with_reducible refine filed_setB_R _ _ ?_); intro v h; first | exact ⟨h, id⟩ | exact absurd h Bool.false_ne_true)
      | ((with_reducible refine KeepsR.modS_R _ fun _ => ?_); exact ⟨fun _ h => ⟨h, id⟩, fun _ h _ => h⟩)
      | ((with_reducible refine KeepsR.setB_R _ _ fun _ => ?_); exact ⟨fun _ h => ⟨h, id⟩, fun _ h _ => h⟩)
      | ((with_reducible refine KeepsR.setR_R _ _ fun _ => ?_); exact ⟨fun _ h => ⟨h, id⟩, fun _ h _ => h⟩)
      | with_reducible refine KeepsR.getS_bind_R fun _ => ?_
      | with_reducible refine KeepsR.bind_R Filed.pre_fl ?_ fun _ => ?_
      | ((try dsimp only); rw [ite_bind_jp])
      | with_reducible refine KeepsR.ite_R (fun _ => ?_) fun _ => ?_
      | dsimp only
      | split

theorem filed_invalidate_buffers_lists (dev : Nat) (ls : List BufList) :
    KeepsR Filed (invalidate_buffers_lists dev ls) := by
  induction ls with
  | nil => exact KeepsR.pure_R Filed.pre_fl _
  | cons nlist rest ih =>
    unfold invalidate_buffers_lists
    repeat' first
      | with_reducible exact KeepsR.pure_R Filed.pre_fl _
      | with_reducible exact KeepsR.kpanic_R _
      | with_reducible exact KeepsR.khang_R
      | with_reducible exact filed_invalidate_buffers_scan _ _ _
      | with_reducible exact ih
      | with_reducible exact filed_printk _
      | with_reducible exact filed_remove_from_queues _
      | with_reducible exact filed_insert_into_queues _
      | with_reducible exact filed_put_last_free _
      | with_reducible exact filed_remove_from_free_list _
      | ((with_reducible refine filed_setB_R _ _ ?_); intro v h; first | exact ⟨h, id⟩ | exact absurd h Bool.false_ne_true)
      | ((with_reducible refine KeepsR.modS_R _ fun _ => ?_); exact ⟨fun _ h => ⟨h, id⟩, fun _ h _ => h⟩)
      | ((with_reducible refine KeepsR.setB_R _ _ fun _ => ?_); exact ⟨fun _ h => ⟨h, id⟩, fun _ h _ => h⟩)
      | ((with_reducible refine KeepsR.setR_R _ _ fun _ => ?_); exact ⟨fun _ h => ⟨h, id⟩, fun _ h _ => h⟩)
      | with_reducible refine KeepsR.getS_bind_R fun _ => ?_
      | with_reducible refine KeepsR.bind_R Filed.pre_fl ?_ fun _ => ?_
      | ((try dsimp only); rw [ite_bind_jp])
      | with_reducible refine KeepsR.ite_R (fun _ => ?_) fun _ => ?_
      | dsimp only
      | split

theorem filed_invalidate_buffers (dev : Nat) : KeepsR Filed (invalidate_buffers dev) :=
  filed_invalidate_buffers_lists dev _

theorem filed_try_to_free (fuel bh : Nat) : KeepsR Filed (try_to_free fuel bh) := by
  unfold try_to_free
  repeat' first
    | with_reducible exact KeepsR.pure_R Filed.pre_fl _
    | with_reducible exact KeepsR.kpanic_R _
    | with_reducible exact KeepsR.khang_R
    | with_reducible exact filed_try_to_free_loop _ _ _ _ _
    | with_reducible exact filed_free_page _
    | with_reducible exact filed_printk _
    | with_reducible exact filed_remove_from_queues _
    | with_reducible exact filed_insert_into_queues _
    | with_reducible exact filed_put_last_free _
    | with_reducible exact filed_remove_from_free_list _
    | ((with_reducible refine filed_setB_R _ _ ?_); intro v h; first | exact ⟨h, id⟩ | exact absurd h Bool.false_ne_true)
    | ((with_reducible refine KeepsR.modS_R _ fun _ => ?_); exact ⟨fun _ h => ⟨h, id⟩, fun _ h _ => h⟩)
    | ((with_reducible refine KeepsR.setB_R _ _ fun _ => ?_); exact ⟨fun _ h => ⟨h, id⟩, fun _ h _ => h⟩)
    | ((with_reducible refine KeepsR.setR_R _ _ fun _ => ?_); exact ⟨fun _ h => ⟨h, id⟩, fun _ h _ => h⟩)
    | with_reducible refine KeepsR.getS_bind_R fun _ => ?_
    | with_reducible refine KeepsR.bind_R Filed.pre_fl ?_ fun _ => ?_
    | ((try dsimp only); rw [ite_bind_jp])
    | with_reducible refine KeepsR.ite_R (fun _ => ?_) fun _ => ?_
    | dsimp only
    | split

theorem filed_mark_buffer_clean (rb : Nat → K Unit) (hrb : ∀ b, KeepsR Filed (rb b)) (bh : Nat) :
    KeepsR Filed (mark_buffer_clean rb bh) := by
  unfold mark_buffer_clean
  repeat' first
    | with_reducible exact KeepsR.pure_R Filed.pre_fl _
    | with_reducible exact KeepsR.kpanic_R _
    | with_reducible exact KeepsR.khang_R
    | with_reducible exact hrb _
    | with_reducible exact filed_printk _
    | with_reducible exact filed_remove_from_queues _
    | with_reducible exact filed_insert_into_queues _
    | with_reducible exact filed_put_last_free _
    | with_reducible exact filed_remove_from_free_list _
    | ((with_reducible refine filed_setB_R _ _ ?_); intro v h; first | exact ⟨h, id⟩ | exact absurd h Bool.false_ne_true)
    | ((with_reducible refine KeepsR.modS_R _ fun _ => ?_); exact ⟨fun _ h => ⟨h, id⟩, fun _ h _ => h⟩)
    | ((with_reducible refine KeepsR.setB_R _ _ fun _ => ?_); exact ⟨fun _ h => ⟨h, id⟩, fun _ h _ => h⟩)
    | ((with_reducible refine KeepsR.setR_R _ _ fun _ => ?_); exact ⟨fun _ h => ⟨h, id⟩, fun _ h _ => h⟩)
    | with_reducible refine KeepsR.getS_bind_R fun _ => ?_
    | with_reducible refine KeepsR.bind_R Filed.pre_fl ?_ fun _ => ?_
    | ((try dsimp only); rw [ite_bind_jp])
    | with_reducible refine KeepsR.ite_R (fun _ => ?_) fun _ => ?_
    | dsimp only
    | split

theorem filed_add_request (rb : Nat → K Unit) (hrb : ∀ b, KeepsR Filed (rb b))
    (major req : Nat) : KeepsR Filed (add_request rb major req) := by
  unfold add_request
  repeat' first
    | with_reducible exact KeepsR.pure_R Filed.pre_fl _
    | with_reducible exact KeepsR.kpanic_R _
    | with_reducible exact KeepsR.khang_R
    | with_reducible exact filed_add_request_kstat _
    | with_reducible exact filed_mark_buffer_clean rb hrb _
    | with_reducible exact filed_call_request_fn _
    | with_reducible exact filed_printk _
    | with_reducible exact filed_remove_from_queues _
    | with_reducible exact filed_insert_into_queues _
    | with_reducible exact filed_put_last_free _
    | with_reducible exact filed_remove_from_free_list _
    | ((with_reducible refine filed_setB_R _ _ ?_); intro v h; first | exact ⟨h, id⟩ | exact absurd h Bool.false_ne_true)
    | ((with_reducible refine KeepsR.modS_R _ fun _ => ?_); exact ⟨fun _ h => ⟨h, id⟩, fun _ h _ => h⟩)
    | ((with_reducible refine KeepsR.setB_R _ _ fun _ => ?_); exact ⟨fun _ h => ⟨h, id⟩, fun _ h _ => h⟩)
    | ((with_reducible refine KeepsR.setR_R _ _ fun _ => ?_); exact ⟨fun _ h => ⟨h, id⟩, fun _ h _ => h⟩)
    | with_reducible refine KeepsR.getS_bind_R fun _ => ?_
    | with_reducible refine KeepsR.bind_R Filed.pre_fl ?_ fun _ => ?_
    | ((try dsimp only); rw [ite_bind_jp])
    | with_reducible refine KeepsR.ite_R (fun _ => ?_) fun _ => ?_
    | dsimp only
    | split

theorem filed_make_request_queue (rb : Nat → K Unit) (hrb : ∀ b, KeepsR Filed (rb b))
    (fuel major : Nat) (rw : Rw) (ra : Bool) (bh sector count : Nat) :
    KeepsR Filed (make_request_queue rb fuel major rw ra bh sector count) := by
  unfold make_request_queue
  repeat' first
    | with_reducible exact KeepsR.pure_R Filed.pre_fl _
    | with_reducible exact KeepsR.kpanic_R _
    | with_reducible exact KeepsR.khang_R
    | with_reducible exact filed_get_request _ _ _
    | with_reducible exact filed_mark_buffer_clean rb hrb _
    | with_reducible exact filed_unlock_buffer _
    | with_reducible exact filed_add_request rb hrb _ _
    | with_reducible exact filed_printk _
    | with_reducible exact filed_remove_from_queues _
    | with_reducible exact filed_insert_into_queues _
    | with_reducible exact filed_put_last_free _
    | with_reducible exact filed_remove_from_free_list _
    | ((with_reducible refine filed_setB_R _ _ ?_); intro v h; first | exact ⟨h, id⟩ | exact absurd h Bool.false_ne_true)
    | ((with_reducible refine KeepsR.modS_R _ fun _ => ?_); exact ⟨fun _ h => ⟨h, id⟩, fun _ h _ => h⟩)
    | ((with_reducible refine KeepsR.setB_R _ _ fun _ => ?_); exact ⟨fun _ h => ⟨h, id⟩, fun _ h _ => h⟩)
    | ((with_reducible refine KeepsR.setR_R _ _ fun _ => ?_); exact ⟨fun _ h => ⟨h, id⟩, fun _ h _ => h⟩)
    | with_reducible refine KeepsR.getS_bind_R fun _ => ?_
    | with_reducible refine KeepsR.bind_R Filed.pre_fl ?_ fun _ => ?_
    | ((try dsimp only); rw [ite_bind_jp])
    | with_reducible refine KeepsR.ite_R (fun _ => ?_) fun _ => ?_
    | dsimp only
    | split

theorem filed_make_request (rb : Nat → K Unit) (hrb : ∀ b, KeepsR Filed (rb b))
    (fuel major : Nat) (rw : Rw) (bh : Nat) :
    KeepsR Filed (make_request rb fuel major rw bh) := by
  unfold make_request
  repeat' first
    | with_reducible exact KeepsR.pure_R Filed.pre_fl _
    | with_reducible exact KeepsR.kpanic_R _
    | with_reducible exact KeepsR.khang_R
    | with_reducible exact filed_lock_buffer _
    | with_reducible exact filed_unlock_buffer _
    | with_reducible exact filed_make_request_queue rb hrb _ _ _ _ _ _ _
    | with_reducible exact filed_printk _
    | with_reducible exact filed_remove_from_queues _
    | with_reducible exact filed_insert_into_queues _
    | with_reducible exact filed_put_last_free _
    | with_reducible exact filed_remove_from_free_list _
    | ((with_reducible refine filed_setB_R _ _ ?_); intro v h; first | exact ⟨h, id⟩ | exact absurd h Bool.false_ne_true)
    | ((with_reducible refine KeepsR.modS_R _ fun _ => ?_); exact ⟨fun _ h => ⟨h, id⟩, fun _ h _ => h⟩)
    | ((with_reducible refine KeepsR.setB_R _ _ fun _ => ?_); exact ⟨fun _ h => ⟨h, id⟩, fun _ h _ => h⟩)
    | ((with_reducible refine KeepsR.setR_R _ _ fun _ => ?_); exact ⟨fun _ h => ⟨h, id⟩, fun _ h _ => h⟩)
    | with_reducible refine KeepsR.getS_bind_R fun _ => ?_
    | with_reducible refine KeepsR.bind_R Filed.pre_fl ?_ fun _ => ?_
    | ((try dsimp only); rw [ite_bind_jp])
    | with_reducible refine KeepsR.ite_R (fun _ => ?_) fun _ => ?_
    | dsimp only
    | split

theorem filed_ll_rw_block_loop (rb : Nat → K Unit) (hrb : ∀ b, KeepsR Filed (rb b))
    (fuel major : Nat) (rw : Rw) (bhs : List Nat) :
    KeepsR Filed (ll_rw_block_loop rb fuel major rw bhs) := by
  induction bhs with
  | nil => exact KeepsR.pure_R Filed.pre_fl _
  | cons bh rest ih =>
    unfold ll_rw_block_loop
    repeat' first
      | with_reducible exact KeepsR.pure_R Filed.pre_fl _
      | with_reducible exact KeepsR.kpanic_R _
      | with_reducible exact KeepsR.khang_R
      | with_reducible exact ih
      | with_reducible exact filed_make_request rb hrb _ _ _ _
      | with_reducible exact filed_printk _
      | with_reducible exact filed_remove_from_queues _
      | with_reducible exact filed_insert_into_queues _
      | with_reducible exact filed_put_last_free _
      | with_reducible exact filed_remove_from_free_list _
      | ((with_reducible refine filed_setB_R _ _ ?_); intro v h; first | exact ⟨h, id⟩ | exact absurd h Bool.false_ne_true)
      | ((with_reducible refine KeepsR.modS_R _ fun _ => ?_); exact ⟨fun _ h => ⟨h, id⟩, fun _ h _ => h⟩)
      | ((with_reducible refine KeepsR.setB_R _ _ fun _ => ?_); exact ⟨fun _ h => ⟨h, id⟩, fun _ h _ => h⟩)
      | ((with_reducible refine KeepsR.setR_R _ _ fun _ => ?_); exact ⟨fun _ h => ⟨h, id⟩, fun _ h _ => h⟩)
      | with_reducible refine KeepsR.getS_bind_R fun _ => ?_
      | with_reducible refine KeepsR.bind_R Filed.pre_fl ?_ fun _ => ?_
      | ((try dsimp only); rw [ite_bind_jp])
      | with_reducible refine KeepsR.ite_R (fun _ => ?_) fun _ => ?_
      | dsimp only
      | split

theorem filed_ll_rw_block (rb : Nat → K Unit) (hrb : ∀ b, KeepsR Filed (rb b))
    (fuel : Nat) (rw : Rw) (bhs : List Nat) :
    KeepsR Filed (ll_rw_block rb fuel rw bhs) := by
  unfold ll_rw_block
  repeat' first
    | with_reducible exact KeepsR.pure_R Filed.pre_fl _
    | with_reducible exact KeepsR.kpanic_R _
    | with_reducible exact KeepsR.khang_R
    | with_reducible exact filed_printk _
    | with_reducible exact filed_sorry_exit _
    | with_reducible exact filed_ll_rw_block_loop rb hrb _ _ _ _
    | with_reducible exact filed_call_request_fn _
    | with_reducible exact filed_printk _
    | with_reducible exact filed_remove_from_queues _
    | with_reducible exact filed_insert_into_queues _
    | with_reducible exact filed_put_last_free _
    | with_reducible exact filed_remove_from_free_list _
    | ((with_reducible refine filed_setB_R _ _ ?_); intro v h; first | exact ⟨h, id⟩ | exact absurd h Bool.false_ne_true)
    | ((with_reducible refine KeepsR.modS_R _ fun _ => ?_); exact ⟨fun _ h => ⟨h, id⟩, fun _ h _ => h⟩)
    | ((with_reducible refine KeepsR.setB_R _ _ fun _ => ?_); exact ⟨fun _ h => ⟨h, id⟩, fun _ h _ => h⟩)
    | ((with_reducible refine KeepsR.setR_R _ _ fun _ => ?_); exact ⟨fun _ h => ⟨h, id⟩, fun _ h _ => h⟩)
    | with_reducible refine KeepsR.getS_bind_R fun _ => ?_
    | with_reducible refine KeepsR.bind_R Filed.pre_fl ?_ fun _ => ?_
    | ((try dsimp only); rw [ite_bind_jp])
    | with_reducible refine KeepsR.ite_R (fun _ => ?_) fun _ => ?_
    | dsimp only
    | split

theorem filed_sync_buffers_scan (rb : Nat → K Unit) (hrb : ∀ b, KeepsR Filed (rb b))
    (fuel dev : Nat) (wait : Int) (nlist : BufList) (i bh : Nat) (loc : SyncLocals) :
    KeepsR Filed (sync_buffers_scan rb fuel dev wait nlist i bh loc) := by
  induction i generalizing bh loc with
  | zero => exact KeepsR.pure_R Filed.pre_fl _
  | succ i ih =>
    unfold sync_buffers_scan
    repeat' first
      | with_reducible exact KeepsR.pure_R Filed.pre_fl _
      | with_reducible exact KeepsR.kpanic_R _
      | with_reducible exact KeepsR.khang_R
      | with_reducible exact ih _ _
      | with_reducible exact filed_wait_on_buffer _
      | with_reducible exact filed_printk _
      | with_reducible exact filed_ll_rw_block rb hrb _ _ _
      | with_reducible exact filed_printk _
      | with_reducible exact filed_remove_from_queues _
      | with_reducible exact filed_insert_into_queues _
      | with_reducible exact filed_put_last_free _
      | with_reducible exact filed_remove_from_free_list _
      | ((with_reducible refine filed_setB_R _ _ ?_); intro v h; first | exact ⟨h, id⟩ | exact absurd h Bool.false_ne_true)
      | ((with_reducible refine KeepsR.modS_R _ fun _ => ?_); exact ⟨fun _ h => ⟨h, id⟩, fun _ h _ => h⟩)
      | ((with_reducible refine KeepsR.setB_R _ _ fun _ => ?_); exact ⟨fun _ h => ⟨h, id⟩, fun _ h _ => h⟩)
      | ((with_reducible refine KeepsR.setR_R _ _ fun _ => ?_); exact ⟨fun _ h => ⟨h, id⟩, fun _ h _ => h⟩)
      | with_reducible refine KeepsR.getS_bind_R fun _ => ?_
      | with_reducible refine KeepsR.bind_R Filed.pre_fl ?_ fun _ => ?_
      | ((try dsimp only); rw [ite_bind_jp])
      | with_reducible refine KeepsR.ite_R (fun _ => ?_) fun _ => ?_
      | dsimp only
      | split

theorem filed_sync_buffers_list (rb : Nat → K Unit) (hrb : ∀ b, KeepsR Filed (rb b))
    (fuel0 dev : Nat) (wait : Int) (nlist : BufList) (fuel : Nat) (loc : SyncLocals) :
    KeepsR Filed (sync_buffers_list rb fuel0 dev wait nlist fuel loc) := by
  induction fuel generalizing loc with
  | zero => exact KeepsR.khang_R
  | succ fuel ih =>
    unfold sync_buffers_list
    repeat' first
      | with_reducible exact KeepsR.pure_R Filed.pre_fl _
      | with_reducible exact KeepsR.kpanic_R _
      | with_reducible exact KeepsR.khang_R
      | with_reducible exact ih _
      | with_reducible exact filed_sync_buffers_scan rb hrb _ _ _ _ _ _ _
      | with_reducible exact filed_printk _
      | with_reducible exact filed_remove_from_queues _
      | with_reducible exact filed_insert_into_queues _
      | with_reducible exact filed_put_last_free _
      | with_reducible exact filed_remove_from_free_list _
      | ((with_reducible refine filed_setB_R _ _ ?_); intro v h; first | exact ⟨h, id⟩ | exact absurd h Bool.false_ne_true)
      | ((with_reducible refine KeepsR.modS_R _ fun _ => ?_); exact ⟨fun _ h => ⟨h, id⟩, fun _ h _ => h⟩)
      | ((with_reducible refine KeepsR.setB_R _ _ fun _ => ?_); exact ⟨fun _ h => ⟨h, id⟩, fun _ h _ => h⟩)
      | ((with_reducible refine KeepsR.setR_R _ _ fun _ => ?_); exact ⟨fun _ h => ⟨h, id⟩, fun _ h _ => h⟩)
      | with_reducible refine KeepsR.getS_bind_R fun _ => ?_
      | with_reducible refine KeepsR.bind_R Filed.pre_fl ?_ fun _ => ?_
      | ((try dsimp only); rw [ite_bind_jp])
      | with_reducible refine KeepsR.ite_R (fun _ => ?_) fun _ => ?_
      | dsimp only
      | split

theorem filed_sync_buffers_lists (rb : Nat → K Unit) (hrb : ∀ b, KeepsR Filed (rb b))
    (fuel dev : Nat) (wait : Int) (ls : List BufList) (loc : SyncLocals) :
    KeepsR Filed (sync_buffers_lists rb fuel dev wait ls loc) := by
  induction ls generalizing loc with
  | nil => exact KeepsR.pure_R Filed.pre_fl _
  | cons nlist rest ih =>
    unfold sync_buffers_lists
    repeat' first
      | with_reducible exact KeepsR.pure_R Filed.pre_fl _
      | with_reducible exact KeepsR.kpanic_R _
      | with_reducible exact KeepsR.khang_R
      | with_reducible exact ih _
      | with_reducible exact filed_sync_buffers_list rb hrb _ _ _ _ _ _
      | with_reducible exact filed_printk _
      | with_reducible exact filed_remove_from_queues _
      | with_reducible exact filed_insert_into_queues _
      | with_reducible exact filed_put_last_free _
      | with_reducible exact filed_remove_from_free_list _
      | ((with_reducible refine filed_setB_R _ _ ?_); intro v h; first | exact ⟨h, id⟩ | exact absurd h Bool.false_ne_true)
      | ((with_reducible refine KeepsR.modS_R _ fun _ => ?_); exact ⟨fun _ h => ⟨h, id⟩, fun _ h _ => h⟩)
      | ((with_reducible refine KeepsR.setB_R _ _ fun _ => ?_); exact ⟨fun _ h => ⟨h, id⟩, fun _ h _ => h⟩)
      | ((with_reducible refine KeepsR.setR_R _ _ fun _ => ?_); exact ⟨fun _ h => ⟨h, id⟩, fun _ h _ => h⟩)
      | with_reducible refine KeepsR.getS_bind_R fun _ => ?_
      | with_reducible refine KeepsR.bind_R Filed.pre_fl ?_ fun _ => ?_
      | ((try dsimp only); rw [ite_bind_jp])
      | with_reducible refine KeepsR.ite_R (fun _ => ?_) fun _ => ?_
      | dsimp only
      | split

theorem filed_sync_buffers_pass (rb : Nat → K Unit) (hrb : ∀ b, KeepsR Filed (rb b))
    (fuel0 dev : Nat) (wait : Int) (fuel : Nat) (loc : SyncLocals) :
    KeepsR Filed (sync_buffers_pass rb fuel0 dev wait fuel loc) := by
  induction fuel generalizing loc with
  | zero => exact KeepsR.khang_R
  | succ fuel ih =>
    unfold sync_buffers_pass
    repeat' first
      | with_reducible exact KeepsR.pure_R Filed.pre_fl _
      | with_reducible exact KeepsR.kpanic_R _
      | with_reducible exact KeepsR.khang_R
      | with_reducible exact ih _
      | with_reducible exact filed_sync_buffers_lists rb hrb _ _ _ _ _
      | with_reducible exact filed_printk _
      | with_reducible exact filed_printk _
      | with_reducible exact filed_remove_from_queues _
      | with_reducible exact filed_insert_into_queues _
      | with_reducible exact filed_put_last_free _
      | with_reducible exact filed_remove_from_free_list _
      | ((with_reducible refine filed_setB_R _ _ ?_); intro v h; first | exact ⟨h, id⟩ | exact absurd h Bool.false_ne_true)
      | ((with_reducible refine KeepsR.modS_R _ fun _ => ?_); exact ⟨fun _ h => ⟨h, id⟩, fun _ h _ => h⟩)
      | ((with_reducible refine KeepsR.setB_R _ _ fun _ => ?_); exact ⟨fun _ h => ⟨h, id⟩, fun _ h _ => h⟩)
      | ((with_reducible refine KeepsR.setR_R _ _ fun _ => ?_); exact ⟨fun _ h => ⟨h, id⟩, fun _ h _ => h⟩)
      | with_reducible refine KeepsR.getS_bind_R fun _ => ?_
      | with_reducible refine KeepsR.bind_R Filed.pre_fl ?_ fun _ => ?_
      | ((try dsimp only); rw [ite_bind_jp])
      | with_reducible refine KeepsR.ite_R (fun _ => ?_) fun _ => ?_
      | dsimp only
      | split

theorem filed_sync_buffers (rb : Nat → K Unit) (hrb : ∀ b, KeepsR Filed (rb b))
    (fuel dev : Nat) (wait : Int) : KeepsR Filed (sync_buffers rb fuel dev wait) :=
  filed_sync_buffers_pass rb hrb _ _ _ _ _

theorem filed_wakeup_bdflush (rb : Nat → K Unit) (hrb : ∀ b, KeepsR Filed (rb b))
    (fuel : Nat) (wait : Int) : KeepsR Filed (wakeup_bdflush rb fuel wait) := by
  unfold wakeup_bdflush
  repeat' first
    | with_reducible exact KeepsR.pure_R Filed.pre_fl _
    | with_reducible exact KeepsR.kpanic_R _
    | with_reducible exact KeepsR.khang_R
    | with_reducible exact filed_printk _
    | with_reducible exact filed_sync_buffers rb hrb _ _ _
    | with_reducible exact filed_printk _
    | with_reducible exact filed_remove_from_queues _
    | with_reducible exact filed_insert_into_queues _
    | with_reducible exact filed_put_last_free _
    | with_reducible exact filed_remove_from_free_list _
    | ((with_reducible refine filed_setB_R _ _ ?_); intro v h; first | exact ⟨h, id⟩ | exact absurd h Bool.false_ne_true)
    | ((with_reducible refine KeepsR.modS_R _ fun _ => ?_); exact ⟨fun _ h => ⟨h, id⟩, fun _ h _ => h⟩)
    | ((with_reducible refine KeepsR.setB_R _ _ fun _ => ?_); exact ⟨fun _ h => ⟨h, id⟩, fun _ h _ => h⟩)
    | ((with_reducible refine KeepsR.setR_R _ _ fun _ => ?_); exact ⟨fun _ h => ⟨h, id⟩, fun _ h _ => h⟩)
    | with_reducible refine KeepsR.getS_bind_R fun _ => ?_
    | with_reducible refine KeepsR.bind_R Filed.pre_fl ?_ fun _ => ?_
    | ((try dsimp only); rw [ite_bind_jp])
    | with_reducible refine KeepsR.ite_R (fun _ => ?_) fun _ => ?_
    | dsimp only
    | split

theorem filed_refile_buffer_body (rb : Nat → K Unit) (hrb : ∀ b, KeepsR Filed (rb b))
    (fuel buf : Nat) (s : State) (a : Unit) (s' : State)
    (e : refile_buffer_body rb fuel buf s = .ok a s') :
    Filed s s' ∧ ((s'.b buf).b_dirt = true → (s'.b buf).b_list = BUF_DIRTY) := by
  have hp := Filed.pre_fl
  unfold refile_buffer_body at e
  rw [bind_run, getS_run] at e
  dsimp only at e
  by_cases hdev : (s.b buf).b_dev = B_FREE
  · rw [if_pos hdev] at e
    cases e
  rw [if_neg hdev] at e
  rw [ite_bind_jp] at e
  obtain ⟨a1, s1, e1, e⟩ := bind_inv e
  have f1 : Filed s s1 := by
    refine KeepsR.ite_R (fun _ => ?_) (fun _ => KeepsR.pure_R hp _) s a1 s1 e1
    exact filed_setB_R _ _ fun _ h => ⟨h, id⟩
  have b1 : (s1.b buf).b_list = (s.b buf).b_list ∧ (s1.b buf).b_dirt = (s.b buf).b_dirt := by
    split_ifs at e1 <;> cases e1
    · show (upd s.b buf _ buf).b_list = _ ∧ (upd s.b buf _ buf).b_dirt = _
      rw [upd_same]
      exact ⟨rfl, rfl⟩
    · exact ⟨rfl, rfl⟩
  by_cases hne : refile_dispose s buf ≠ (s.b buf).b_list
  swap
  · rw [if_neg hne] at e
    cases e
    refine ⟨f1, fun hd => ?_⟩
    rw [b1.1]
    rw [b1.2] at hd
    have := not_not.mp hne
    rw [← this]
    unfold refile_dispose
    rw [if_pos hd]
  rw [if_pos hne] at e
  rw [ite_bind_jp] at e
  obtain ⟨a2, s2, e2, e⟩ := bind_inv e
  have f2 : Filed s1 s2 := by
    refine KeepsR.ite_R (fun _ => ?_) (fun _ => KeepsR.pure_R hp _) s1 a2 s2 e2
    exact filed_setB_R _ _ fun _ h => ⟨h, id⟩
  rw [bind_run, getS_run] at e
  dsimp only at e
  obtain ⟨a3, s3, e3, e⟩ := bind_inv e
  have f3 := filed_remove_from_queues _ s2 a3 s3 e3
  obtain ⟨a4, s4, e4, e⟩ := bind_inv e
  obtain ⟨a5, s5, e5, e⟩ := bind_inv e
  have f5 := filed_insert_into_queues _ s4 a5 s5 e5
  rw [bind_run, getS_run] at e
  have f03 := hp.trans _ _ _ (hp.trans _ _ _ f1 f2) f3
  obtain ⟨d, hb4, hd4⟩ : ∃ d, s4.b = upd s3.b buf { (s3.b buf) with b_list := d } ∧
      (refile_dispose s buf = BUF_DIRTY → d = BUF_DIRTY) := by
    cases e4
    refine ⟨_, rfl, fun h => ?_⟩
    rw [h, if_neg (fun h => by cases h.1)]
  have hn4 : s4.nr_buffer_heads = s3.nr_buffer_heads := by
    cases e4
    rfl
  have f4 : Filed s3 s4 := by
    refine Filed.upd_b s3 s4 buf _ hb4 hn4 fun hd => ⟨hd, fun _ => ?_⟩
    have hd0 := (f03.heads buf hd).1
    apply hd4
    unfold refile_dispose
    rw [if_pos hd0]
  have f6 : Filed s5 s' :=
    KeepsR.ite_R (fun _ => filed_wakeup_bdflush rb hrb _ _) (fun _ => KeepsR.pure_R hp _) s5 a s' e
  have f45 := hp.trans _ _ _ f5 f6
  refine ⟨hp.trans _ _ _ (hp.trans _ _ _ f03 f4) f45, fun hd => ?_⟩
  obtain ⟨hd5, h4⟩ := f45.heads buf hd
  apply h4
  rw [hb4, upd_same] at hd5 ⊢
  have hd0 := (f03.heads buf hd5).1
  apply hd4
  unfold refile_dispose
  rw [if_pos hd0]

theorem filed_refile_buffer : ∀ fuel buf, KeepsR Filed (refile_buffer fuel buf) := by
  intro fuel
  induction fuel with
  | zero => intro buf; exact KeepsR.khang_R
  | succ fuel ih =>
    intro buf s a s' e
    exact (filed_refile_buffer_body _ ih fuel buf s a s' e).1

theorem refile_buffer_files (fuel buf : Nat) (s : State) (a : Unit) (s' : State)
    (e : refile_buffer fuel buf s = .ok a s') :
    (s'.b buf).b_dirt = true → (s'.b buf).b_list = BUF_DIRTY := by
  cases fuel with
  | zero => cases e
  | succ fuel => exact (filed_refile_buffer_body _ (filed_refile_buffer fuel) fuel buf s a s' e).2

theorem filed_ll_rw_block_refile (f fuel : Nat) (rw : Rw) (bhs : List Nat) :
    KeepsR Filed (ll_rw_block (refile_buffer f) fuel rw bhs) :=
  filed_ll_rw_block _ (filed_refile_buffer f) fuel rw bhs

theorem filed_wakeup_bdflush_refile (f fuel : Nat) (wait : Int) :
    KeepsR Filed (wakeup_bdflush (refile_buffer f) fuel wait) :=
  filed_wakeup_bdflush _ (filed_refile_buffer f) fuel wait


theorem filed_brelse (fuel buf : Nat) : KeepsR Filed (brelse fuel buf) := by
  unfold brelse
  repeat' first
    | with_reducible exact KeepsR.pure_R Filed.pre_fl _
    | with_reducible exact KeepsR.kpanic_R _
    | with_reducible exact KeepsR.khang_R
    | with_reducible exact filed_wait_on_buffer _
    | with_reducible exact filed_set_writetime _ _
    | with_reducible exact filed_refile_buffer _ _
    | with_reducible exact filed_printk _
    | with_reducible exact filed_printk _
    | with_reducible exact filed_remove_from_queues _
    | with_reducible exact filed_insert_into_queues _
    | with_reducible exact filed_put_last_free _
    | with_reducible exact filed_remove_from_free_list _
    | ((with_reducible refine filed_setB_R _ _ ?_); intro v h; first | exact ⟨h, id⟩ | exact absurd h Bool.false_ne_true)
    | ((with_reducible refine KeepsR.modS_R _ fun _ => ?_); exact ⟨fun _ h => ⟨h, id⟩, fun _ h _ => h⟩)
    | ((with_reducible refine KeepsR.setB_R _ _ fun _ => ?_); exact ⟨fun _ h => ⟨h, id⟩, fun _ h _ => h⟩)
    | ((with_reducible refine KeepsR.setR_R _ _ fun _ => ?_); exact ⟨fun _ h => ⟨h, id⟩, fun _ h _ => h⟩)
    | with_reducible refine KeepsR.getS_bind_R fun _ => ?_
    | with_reducible refine KeepsR.bind_R Filed.pre_fl ?_ fun _ => ?_
    | ((try dsimp only); rw [ite_bind_jp])
    | with_reducible refine KeepsR.ite_R (fun _ => ?_) fun _ => ?_
    | dsimp only
    | split

theorem filed_refill_scan (fuel size : Nat) (i : BufList) (n bh : Nat) :
    KeepsR Filed (refill_scan fuel size i n bh) := by
  induction n generalizing bh with
  | zero => exact KeepsR.pure_R Filed.pre_fl _
  | succ n ih =>
    unfold refill_scan
    repeat' first
      | with_reducible exact KeepsR.pure_R Filed.pre_fl _
      | with_reducible exact KeepsR.kpanic_R _
      | with_reducible exact KeepsR.khang_R
      | with_reducible exact ih _
      | with_reducible exact filed_refile_buffer _ _
      | with_reducible exact filed_printk _
      | with_reducible exact filed_remove_from_queues _
      | with_reducible exact filed_insert_into_queues _
      | with_reducible exact filed_put_last_free _
      | with_reducible exact filed_remove_from_free_list _
      | ((with_reducible refine filed_setB_R _ _ ?_); intro v h; first | exact ⟨h, id⟩ | exact absurd h Bool.false_ne_true)
      | ((with_reducible refine KeepsR.modS_R _ fun _ => ?_); exact ⟨fun _ h => ⟨h, id⟩, fun _ h _ => h⟩)
      | ((with_reducible refine KeepsR.setB_R _ _ fun _ => ?_); exact ⟨fun _ h => ⟨h, id⟩, fun _ h _ => h⟩)
      | ((with_reducible refine KeepsR.setR_R _ _ fun _ => ?_); exact ⟨fun _ h => ⟨h, id⟩, fun _ h _ => h⟩)
      | with_reducible refine KeepsR.getS_bind_R fun _ => ?_
      | with_reducible refine KeepsR.bind_R Filed.pre_fl ?_ fun _ => ?_
      | ((try dsimp only); rw [ite_bind_jp])
      | with_reducible refine KeepsR.ite_R (fun _ => ?_) fun _ => ?_
      | dsimp only
      | split

theorem filed_refill_candidate (fuel size : Nat) (i : BufList) (n bh : Nat)
    (loc : RefillLocals) : KeepsR Filed (refill_candidate fuel size i n bh loc) := by
  unfold refill_candidate
  repeat' first
    | with_reducible exact KeepsR.pure_R Filed.pre_fl _
    | with_reducible exact KeepsR.kpanic_R _
    | with_reducible exact KeepsR.khang_R
    | with_reducible exact filed_refill_scan _ _ _ _ _
    | with_reducible exact filed_printk _
    | with_reducible exact filed_remove_from_queues _
    | with_reducible exact filed_insert_into_queues _
    | with_reducible exact filed_put_last_free _
    | with_reducible exact filed_remove_from_free_list _
    | ((with_reducible refine filed_setB_R _ _ ?_); intro v h; first | exact ⟨h, id⟩ | exact absurd h Bool.false_ne_true)
    | ((with_reducible refine KeepsR.modS_R _ fun _ => ?_); exact ⟨fun _ h => ⟨h, id⟩, fun _ h _ => h⟩)
    | ((with_reducible refine KeepsR.setB_R _ _ fun _ => ?_); exact ⟨fun _ h => ⟨h, id⟩, fun _ h _ => h⟩)
    | ((with_reducible refine KeepsR.setR_R _ _ fun _ => ?_); exact ⟨fun _ h => ⟨h, id⟩, fun _ h _ => h⟩)
    | with_reducible refine KeepsR.getS_bind_R fun _ => ?_
    | with_reducible refine KeepsR.bind_R Filed.pre_fl ?_ fun _ => ?_
    | ((try dsimp only); rw [ite_bind_jp])
    | with_reducible refine KeepsR.ite_R (fun _ => ?_) fun _ => ?_
    | dsimp only
    | split

theorem filed_refill_init (fuel size : Nat) (ls : List BufList) (loc : RefillLocals) :
    KeepsR Filed (refill_init fuel size ls loc) := by
  induction ls generalizing loc with
  | nil => exact KeepsR.pure_R Filed.pre_fl _
  | cons i rest ih =>
    unfold refill_init
    repeat' first
      | with_reducible exact KeepsR.pure_R Filed.pre_fl _
      | with_reducible exact KeepsR.kpanic_R _
      | with_reducible exact KeepsR.khang_R
      | with_reducible exact ih _
      | with_reducible exact filed_refill_candidate _ _ _ _ _ _
      | with_reducible exact filed_printk _
      | with_reducible exact filed_remove_from_queues _
      | with_reducible exact filed_insert_into_queues _
      | with_reducible exact filed_put_last_free _
      | with_reducible exact filed_remove_from_free_list _
      | ((with_reducible refine filed_setB_R _ _ ?_); intro v h; first | exact ⟨h, id⟩ | exact absurd h Bool.false_ne_true)
      | ((with_reducible refine KeepsR.modS_R _ fun _ => ?_); exact ⟨fun _ h => ⟨h, id⟩, fun _ h _ => h⟩)
      | ((with_reducible refine KeepsR.setB_R _ _ fun _ => ?_); exact ⟨fun _ h => ⟨h, id⟩, fun _ h _ => h⟩)
      | ((with_reducible refine KeepsR.setR_R _ _ fun _ => ?_); exact ⟨fun _ h => ⟨h, id⟩, fun _ h _ => h⟩)
      | with_reducible refine KeepsR.getS_bind_R fun _ => ?_
      | with_reducible refine KeepsR.bind_R Filed.pre_fl ?_ fun _ => ?_
      | ((try dsimp only); rw [ite_bind_jp])
      | with_reducible refine KeepsR.ite_R (fun _ => ?_) fun _ => ?_
      | dsimp only
      | split

theorem filed_refill_reclaim (fuel0 size fuel : Nat) (loc : RefillLocals) :
    KeepsR Filed (refill_reclaim fuel0 size fuel loc) := by
  induction fuel generalizing loc with
  | zero => exact KeepsR.khang_R
  | succ fuel ih =>
    unfold refill_reclaim
    repeat' first
      | with_reducible exact KeepsR.pure_R Filed.pre_fl _
      | with_reducible exact KeepsR.kpanic_R _
      | with_reducible exact KeepsR.khang_R
      | with_reducible exact ih _
      | with_reducible exact filed_refill_candidate _ _ _ _ _ _
      | with_reducible exact filed_printk _
      | with_reducible exact filed_remove_from_queues _
      | with_reducible exact filed_insert_into_queues _
      | with_reducible exact filed_put_last_free _
      | with_reducible exact filed_remove_from_free_list _
      | ((with_reducible refine filed_setB_R _ _ ?_); intro v h; first | exact ⟨h, id⟩ | exact absurd h Bool.false_ne_true)
      | ((with_reducible refine KeepsR.modS_R _ fun _ => ?_); exact ⟨fun _ h => ⟨h, id⟩, fun _ h _ => h⟩)
      | ((with_reducible refine KeepsR.setB_R _ _ fun _ => ?_); exact ⟨fun _ h => ⟨h, id⟩, fun _ h _ => h⟩)
      | ((with_reducible refine KeepsR.setR_R _ _ fun _ => ?_); exact ⟨fun _ h => ⟨h, id⟩, fun _ h _ => h⟩)
      | with_reducible refine KeepsR.getS_bind_R fun _ => ?_
      | with_reducible refine KeepsR.bind_R Filed.pre_fl ?_ fun _ => ?_
      | ((try dsimp only); rw [ite_bind_jp])
      | with_reducible refine KeepsR.ite_R (fun _ => ?_) fun _ => ?_
      | dsimp only
      | split

theorem filed_shrink_free_scan (isize : Int) (fuel : Nat) (first : Bool) (bh : Nat) :
    KeepsR Filed (shrink_free_scan isize fuel first bh) := by
  induction fuel generalizing first bh with
  | zero => exact KeepsR.khang_R
  | succ fuel ih =>
    unfold shrink_free_scan
    repeat' first
      | with_reducible exact KeepsR.pure_R Filed.pre_fl _
      | with_reducible exact KeepsR.kpanic_R _
      | with_reducible exact KeepsR.khang_R
      | with_reducible exact ih _ _
      | with_reducible exact filed_try_to_free _ _
      | with_reducible exact filed_printk _
      | with_reducible exact filed_remove_from_queues _
      | with_reducible exact filed_insert_into_queues _
      | with_reducible exact filed_put_last_free _
      | with_reducible exact filed_remove_from_free_list _
      | ((with_reducible refine filed_setB_R _ _ ?_); intro v h; first | exact ⟨h, id⟩ | exact absurd h Bool.false_ne_true)
      | ((with_reducible refine KeepsR.modS_R _ fun _ => ?_); exact ⟨fun _ h => ⟨h, id⟩, fun _ h _ => h⟩)
      | ((with_reducible refine KeepsR.setB_R _ _ fun _ => ?_); exact ⟨fun _ h => ⟨h, id⟩, fun _ h _ => h⟩)
      | ((with_reducible refine KeepsR.setR_R _ _ fun _ => ?_); exact ⟨fun _ h => ⟨h, id⟩, fun _ h _ => h⟩)
      | with_reducible refine KeepsR.getS_bind_R fun _ => ?_
      | with_reducible refine KeepsR.bind_R Filed.pre_fl ?_ fun _ => ?_
      | ((try dsimp only); rw [ite_bind_jp])
      | with_reducible refine KeepsR.ite_R (fun _ => ?_) fun _ => ?_
      | dsimp only
      | split

theorem filed_shrink_free_lists (fuel : Nat) (isize1 : Int) (ls : List Int) :
    KeepsR Filed (shrink_free_lists fuel isize1 ls) := by
  induction ls with
  | nil => exact KeepsR.pure_R Filed.pre_fl _
  | cons isize rest ih =>
    unfold shrink_free_lists
    repeat' first
      | with_reducible exact KeepsR.pure_R Filed.pre_fl _
      | with_reducible exact KeepsR.kpanic_R _
      | with_reducible exact KeepsR.khang_R
      | with_reducible exact ih
      | with_reducible exact filed_shrink_free_scan _ _ _ _
      | with_reducible exact filed_printk _
      | with_reducible exact filed_remove_from_queues _
      | with_reducible exact filed_insert_into_queues _
      | with_reducible exact filed_put_last_free _
      | with_reducible exact filed_remove_from_free_list _
      | ((with_reducible refine filed_setB_R _ _ ?_); intro v h; first | exact ⟨h, id⟩ | exact absurd h Bool.false_ne_true)
      | ((with_reducible refine KeepsR.modS_R _ fun _ => ?_); exact ⟨fun _ h => ⟨h, id⟩, fun _ h _ => h⟩)
      | ((with_reducible refine KeepsR.setB_R _ _ fun _ => ?_); exact ⟨fun _ h => ⟨h, id⟩, fun _ h _ => h⟩)
      | ((with_reducible refine KeepsR.setR_R _ _ fun _ => ?_); exact ⟨fun _ h => ⟨h, id⟩, fun _ h _ => h⟩)
      | with_reducible refine KeepsR.getS_bind_R fun _ => ?_
      | with_reducible refine KeepsR.bind_R Filed.pre_fl ?_ fun _ => ?_
      | ((try dsimp only); rw [ite_bind_jp])
      | with_reducible refine KeepsR.ite_R (fun _ => ?_) fun _ => ?_
      | dsimp only
      | split

theorem filed_shrink_lru_scan (fuel priority size : Nat) (nlist : BufList) (i bh : Nat) :
    KeepsR Filed (shrink_lru_scan fuel priority size nlist i bh) := by
  induction i generalizing bh with
  | zero => exact KeepsR.pure_R Filed.pre_fl _
  | succ i ih =>
    unfold shrink_lru_scan
    repeat' first
      | with_reducible exact KeepsR.pure_R Filed.pre_fl _
      | with_reducible exact KeepsR.kpanic_R _
      | with_reducible exact KeepsR.khang_R
      | with_reducible exact ih _
      | with_reducible exact filed_try_to_free _ _
      | with_reducible exact filed_wait_on_buffer _
      | with_reducible exact filed_ll_rw_block_refile _ _ _ _
      | with_reducible exact filed_printk _
      | with_reducible exact filed_remove_from_queues _
      | with_reducible exact filed_insert_into_queues _
      | with_reducible exact filed_put_last_free _
      | with_reducible exact filed_remove_from_free_list _
      | ((with_reducible refine filed_setB_R _ _ ?_); intro v h; first | exact ⟨h, id⟩ | exact absurd h Bool.false_ne_true)
      | ((with_reducible refine KeepsR.modS_R _ fun _ => ?_); exact ⟨fun _ h => ⟨h, id⟩, fun _ h _ => h⟩)
      | ((with_reducible refine KeepsR.setB_R _ _ fun _ => ?_); exact ⟨fun _ h => ⟨h, id⟩, fun _ h _ => h⟩)
      | ((with_reducible refine KeepsR.setR_R _ _ fun _ => ?_); exact ⟨fun _ h => ⟨h, id⟩, fun _ h _ => h⟩)
      | with_reducible refine KeepsR.getS_bind_R fun _ => ?_
      | with_reducible refine KeepsR.bind_R Filed.pre_fl ?_ fun _ => ?_
      | ((try dsimp only); rw [ite_bind_jp])
      | with_reducible refine KeepsR.ite_R (fun _ => ?_) fun _ => ?_
      | dsimp only
      | split

theorem filed_shrink_lru_list (fuel0 priority size : Nat) (nlist : BufList) (fuel : Nat) :
    KeepsR Filed (shrink_lru_list fuel0 priority size nlist fuel) := by
  induction fuel with
  | zero => exact KeepsR.khang_R
  | succ fuel ih =>
    unfold shrink_lru_list
    repeat' first
      | with_reducible exact KeepsR.pure_R Filed.pre_fl _
      | with_reducible exact KeepsR.kpanic_R _
      | with_reducible exact KeepsR.khang_R
      | with_reducible exact ih
      | with_reducible exact filed_shrink_lru_scan _ _ _ _ _ _
      | with_reducible exact filed_printk _
      | with_reducible exact filed_remove_from_queues _
      | with_reducible exact filed_insert_into_queues _
      | with_reducible exact filed_put_last_free _
      | with_reducible exact filed_remove_from_free_list _
      | ((with_reducible refine filed_setB_R _ _ ?_); intro v h; first | exact ⟨h, id⟩ | exact absurd h Bool.false_ne_true)
      | ((with_reducible refine KeepsR.modS_R _ fun _ => ?_); exact ⟨fun _ h => ⟨h, id⟩, fun _ h _ => h⟩)
      | ((with_reducible refine KeepsR.setB_R _ _ fun _ => ?_); exact ⟨fun _ h => ⟨h, id⟩, fun _ h _ => h⟩)
      | ((with_reducible refine KeepsR.setR_R _ _ fun _ => ?_); exact ⟨fun _ h => ⟨h, id⟩, fun _ h _ => h⟩)
      | with_reducible refine KeepsR.getS_bind_R fun _ => ?_
      | with_reducible refine KeepsR.bind_R Filed.pre_fl ?_ fun _ => ?_
      | ((try dsimp only); rw [ite_bind_jp])
      | with_reducible refine KeepsR.ite_R (fun _ => ?_) fun _ => ?_
      | dsimp only
      | split

theorem filed_shrink_lru_lists (fuel priority size : Nat) (ls : List BufList) :
    KeepsR Filed (shrink_lru_lists fuel priority size ls) := by
  induction ls with
  | nil => exact KeepsR.pure_R Filed.pre_fl _
  | cons nlist rest ih =>
    unfold shrink_lru_lists
    repeat' first
      | with_reducible exact KeepsR.pure_R Filed.pre_fl _
      | with_reducible exact KeepsR.kpanic_R _
      | with_reducible exact KeepsR.khang_R
      | with_reducible exact ih
      | with_reducible exact filed_shrink_lru_list _ _ _ _ _
      | with_reducible exact filed_printk _
      | with_reducible exact filed_remove_from_queues _
      | with_reducible exact filed_insert_into_queues _
      | with_reducible exact filed_put_last_free _
      | with_reducible exact filed_remove_from_free_list _
      | ((with_reducible refine filed_setB_R _ _ ?_); intro v h; first | exact ⟨h, id⟩ | exact absurd h Bool.false_ne_true)
      | ((with_reducible refine KeepsR.modS_R _ fun _ => ?_); exact ⟨fun _ h => ⟨h, id⟩, fun _ h _ => h⟩)
      | ((with_reducible refine KeepsR.setB_R _ _ fun _ => ?_); exact ⟨fun _ h => ⟨h, id⟩, fun _ h _ => h⟩)
      | ((with_reducible refine KeepsR.setR_R _ _ fun _ => ?_); exact ⟨fun _ h => ⟨h, id⟩, fun _ h _ => h⟩)
      | with_reducible refine KeepsR.getS_bind_R fun _ => ?_
      | with_reducible refine KeepsR.bind_R Filed.pre_fl ?_ fun _ => ?_
      | ((try dsimp only); rw [ite_bind_jp])
      | with_reducible refine KeepsR.ite_R (fun _ => ?_) fun _ => ?_
      | dsimp only
      | split

theorem filed_shrink_specific_buffers (fuel priority size : Nat) :
    KeepsR Filed (shrink_specific_buffers fuel priority size) := by
  unfold shrink_specific_buffers
  repeat' first
    | with_reducible exact KeepsR.pure_R Filed.pre_fl _
    | with_reducible exact KeepsR.kpanic_R _
    | with_reducible exact KeepsR.khang_R
    | with_reducible exact filed_shrink_free_lists _ _ _
    | with_reducible exact filed_shrink_lru_lists _ _ _ _
    | with_reducible exact filed_printk _
    | with_reducible exact filed_remove_from_queues _
    | with_reducible exact filed_insert_into_queues _
    | with_reducible exact filed_put_last_free _
    | with_reducible exact filed_remove_from_free_list _
    | ((with_reducible refine filed_setB_R _ _ ?_); intro v h; first | exact ⟨h, id⟩ | exact absurd h Bool.false_ne_true)
    | ((with_reducible refine KeepsR.modS_R _ fun _ => ?_); exact ⟨fun _ h => ⟨h, id⟩, fun _ h _ => h⟩)
    | ((with_reducible refine KeepsR.setB_R _ _ fun _ => ?_); exact ⟨fun _ h => ⟨h, id⟩, fun _ h _ => h⟩)
    | ((with_reducible refine KeepsR.setR_R _ _ fun _ => ?_); exact ⟨fun _ h => ⟨h, id⟩, fun _ h _ => h⟩)
    | with_reducible refine KeepsR.getS_bind_R fun _ => ?_
    | with_reducible refine KeepsR.bind_R Filed.pre_fl ?_ fun _ => ?_
    | ((try dsimp only); rw [ite_bind_jp])
    | with_reducible refine KeepsR.ite_R (fun _ => ?_) fun _ => ?_
    | dsimp only
    | split

theorem filed_maybe_shrink_lav_loop (fuel : Nat) (isize total_lav total_n_buffers : Int)
    (ls : List Int) :
    KeepsR Filed (maybe_shrink_lav_loop fuel isize total_lav total_n_buffers ls) := by
  induction ls with
  | nil => exact KeepsR.pure_R Filed.pre_fl _
  | cons nlist rest ih =>
    unfold maybe_shrink_lav_loop
    repeat' first
      | with_reducible exact KeepsR.pure_R Filed.pre_fl _
      | with_reducible exact KeepsR.kpanic_R _
      | with_reducible exact KeepsR.khang_R
      | with_reducible exact ih
      | with_reducible exact filed_shrink_specific_buffers _ _ _
      | with_reducible exact filed_printk _
      | with_reducible exact filed_remove_from_queues _
      | with_reducible exact filed_insert_into_queues _
      | with_reducible exact filed_put_last_free _
      | with_reducible exact filed_remove_from_free_list _
      | ((with_reducible refine filed_setB_R _ _ ?_); intro v h; first | exact ⟨h, id⟩ | exact absurd h Bool.false_ne_true)
      | ((with_reducible refine KeepsR.modS_R _ fun _ => ?_); exact ⟨fun _ h => ⟨h, id⟩, fun _ h _ => h⟩)
      | ((with_reducible refine KeepsR.setB_R _ _ fun _ => ?_); exact ⟨fun _ h => ⟨h, id⟩, fun _ h _ => h⟩)
      | ((with_reducible refine KeepsR.setR_R _ _ fun _ => ?_); exact ⟨fun _ h => ⟨h, id⟩, fun _ h _ => h⟩)
      | with_reducible refine KeepsR.getS_bind_R fun _ => ?_
      | with_reducible refine KeepsR.bind_R Filed.pre_fl ?_ fun _ => ?_
      | ((try dsimp only); rw [ite_bind_jp])
      | with_reducible refine KeepsR.ite_R (fun _ => ?_) fun _ => ?_
      | dsimp only
      | split

theorem filed_maybe_shrink_lav_buffers (fuel size : Nat) :
    KeepsR Filed (maybe_shrink_lav_buffers fuel size) := by
  unfold maybe_shrink_lav_buffers
  repeat' first
    | with_reducible exact KeepsR.pure_R Filed.pre_fl _
    | with_reducible exact KeepsR.kpanic_R _
    | with_reducible exact KeepsR.khang_R
    | with_reducible exact filed_maybe_shrink_lav_loop _ _ _ _ _
    | with_reducible exact filed_printk _
    | with_reducible exact filed_remove_from_queues _
    | with_reducible exact filed_insert_into_queues _
    | with_reducible exact filed_put_last_free _
    | with_reducible exact filed_remove_from_free_list _
    | ((with_reducible refine filed_setB_R _ _ ?_); intro v h; first | exact ⟨h, id⟩ | exact absurd h Bool.false_ne_true)
    | ((with_reducible refine KeepsR.modS_R _ fun _ => ?_); exact ⟨fun _ h => ⟨h, id⟩, fun _ h _ => h⟩)
    | ((with_reducible refine KeepsR.setB_R _ _ fun _ => ?_); exact ⟨fun _ h => ⟨h, id⟩, fun _ h _ => h⟩)
    | ((with_reducible refine KeepsR.setR_R _ _ fun _ => ?_); exact ⟨fun _ h => ⟨h, id⟩, fun _ h _ => h⟩)
    | with_reducible refine KeepsR.getS_bind_R fun _ => ?_
    | with_reducible refine KeepsR.bind_R Filed.pre_fl ?_ fun _ => ?_
    | ((try dsimp only); rw [ite_bind_jp])
    | with_reducible refine KeepsR.ite_R (fun _ => ?_) fun _ => ?_
    | dsimp only
    | split

theorem filed_refill_repeat0 (fuel0 size fuel : Nat) (needed : Int) :
    KeepsR Filed (refill_repeat0 fuel0 size fuel needed) := by
  induction fuel generalizing needed with
  | zero => exact KeepsR.khang_R
  | succ fuel ih =>
    unfold refill_repeat0
    repeat' first
      | with_reducible exact KeepsR.pure_R Filed.pre_fl _
      | with_reducible exact KeepsR.kpanic_R _
      | with_reducible exact KeepsR.khang_R
      | with_reducible exact ih _
      | with_reducible exact filed_refill_init _ _ _ _
      | with_reducible exact filed_refill_reclaim _ _ _ _
      | with_reducible exact filed_grow_buffers _ _ _
      | with_reducible exact filed_wakeup_bdflush_refile _ _ _
      | with_reducible exact filed_printk _
      | with_reducible exact filed_remove_from_queues _
      | with_reducible exact filed_insert_into_queues _
      | with_reducible exact filed_put_last_free _
      | with_reducible exact filed_remove_from_free_list _
      | ((with_reducible refine filed_setB_R _ _ ?_); intro v h; first | exact ⟨h, id⟩ | exact absurd h Bool.false_ne_true)
      | ((with_reducible refine KeepsR.modS_R _ fun _ => ?_); exact ⟨fun _ h => ⟨h, id⟩, fun _ h _ => h⟩)
      | ((with_reducible refine KeepsR.setB_R _ _ fun _ => ?_); exact ⟨fun _ h => ⟨h, id⟩, fun _ h _ => h⟩)
      | ((with_reducible refine KeepsR.setR_R _ _ fun _ => ?_); exact ⟨fun _ h => ⟨h, id⟩, fun _ h _ => h⟩)
      | with_reducible refine KeepsR.getS_bind_R fun _ => ?_
      | with_reducible refine KeepsR.bind_R Filed.pre_fl ?_ fun _ => ?_
      | ((try dsimp only); rw [ite_bind_jp])
      | with_reducible refine KeepsR.ite_R (fun _ => ?_) fun _ => ?_
      | dsimp only
      | split

theorem filed_refill_grow (fuel0 size fuel : Nat) (needed : Int) :
    KeepsR Filed (refill_grow fuel0 size fuel needed) := by
  induction fuel generalizing needed with
  | zero => exact KeepsR.khang_R
  | succ fuel ih =>
    unfold refill_grow
    repeat' first
      | with_reducible exact KeepsR.pure_R Filed.pre_fl _
      | with_reducible exact KeepsR.kpanic_R _
      | with_reducible exact KeepsR.khang_R
      | with_reducible exact ih _
      | with_reducible exact filed_grow_buffers _ _ _
      | with_reducible exact filed_printk _
      | with_reducible exact filed_remove_from_queues _
      | with_reducible exact filed_insert_into_queues _
      | with_reducible exact filed_put_last_free _
      | with_reducible exact filed_remove_from_free_list _
      | ((with_reducible refine filed_setB_R _ _ ?_); intro v h; first | exact ⟨h, id⟩ | exact absurd h Bool.false_ne_true)
      | ((with_reducible refine KeepsR.modS_R _ fun _ => ?_); exact ⟨fun _ h => ⟨h, id⟩, fun _ h _ => h⟩)
      | ((with_reducible refine KeepsR.setB_R _ _ fun _ => ?_); exact ⟨fun _ h => ⟨h, id⟩, fun _ h _ => h⟩)
      | ((with_reducible refine KeepsR.setR_R _ _ fun _ => ?_); exact ⟨fun _ h => ⟨h, id⟩, fun _ h _ => h⟩)
      | with_reducible refine KeepsR.getS_bind_R fun _ => ?_
      | with_reducible refine KeepsR.bind_R Filed.pre_fl ?_ fun _ => ?_
      | ((try dsimp only); rw [ite_bind_jp])
      | with_reducible refine KeepsR.ite_R (fun _ => ?_) fun _ => ?_
      | dsimp only
      | split

theorem filed_refill_lav (fuel0 size fuel : Nat) (needed : Int) :
    KeepsR Filed (refill_lav fuel0 size fuel needed) := by
  induction fuel generalizing needed with
  | zero => exact KeepsR.khang_R
  | succ fuel ih =>
    unfold refill_lav
    repeat' first
      | with_reducible exact KeepsR.pure_R Filed.pre_fl _
      | with_reducible exact KeepsR.kpanic_R _
      | with_reducible exact KeepsR.khang_R
      | with_reducible exact ih _
      | with_reducible exact filed_grow_buffers _ _ _
      | with_reducible exact filed_maybe_shrink_lav_buffers _ _
      | with_reducible exact filed_printk _
      | with_reducible exact filed_remove_from_queues _
      | with_reducible exact filed_insert_into_queues _
      | with_reducible exact filed_put_last_free _
      | with_reducible exact filed_remove_from_free_list _
      | ((with_reducible refine filed_setB_R _ _ ?_); intro v h; first | exact ⟨h, id⟩ | exact absurd h Bool.false_ne_true)
      | ((with_reducible refine KeepsR.modS_R _ fun _ => ?_); exact ⟨fun _ h => ⟨h, id⟩, fun _ h _ => h⟩)
      | ((with_reducible refine KeepsR.setB_R _ _ fun _ => ?_); exact ⟨fun _ h => ⟨h, id⟩, fun _ h _ => h⟩)
      | ((with_reducible refine KeepsR.setR_R _ _ fun _ => ?_); exact ⟨fun _ h => ⟨h, id⟩, fun _ h _ => h⟩)
      | with_reducible refine KeepsR.getS_bind_R fun _ => ?_
      | with_reducible refine KeepsR.bind_R Filed.pre_fl ?_ fun _ => ?_
      | ((try dsimp only); rw [ite_bind_jp])
      | with_reducible refine KeepsR.ite_R (fun _ => ?_) fun _ => ?_
      | dsimp only
      | split

theorem filed_refill_freelist (fuel size : Nat) : KeepsR Filed (refill_freelist fuel size) := by
  unfold refill_freelist
  repeat' first
    | with_reducible exact KeepsR.pure_R Filed.pre_fl _
    | with_reducible exact KeepsR.kpanic_R _
    | with_reducible exact KeepsR.khang_R
    | with_reducible exact filed_refill_grow _ _ _ _
    | with_reducible exact filed_refill_lav _ _ _ _
    | with_reducible exact filed_refill_repeat0 _ _ _ _
    | with_reducible exact filed_printk _
    | with_reducible exact filed_remove_from_queues _
    | with_reducible exact filed_insert_into_queues _
    | with_reducible exact filed_put_last_free _
    | with_reducible exact filed_remove_from_free_list _
    | ((with_reducible refine filed_setB_R _ _ ?_); intro v h; first | exact ⟨h, id⟩ | exact absurd h Bool.false_ne_true)
    | ((with_reducible refine KeepsR.modS_R _ fun _ => ?_); exact ⟨fun _ h => ⟨h, id⟩, fun _ h _ => h⟩)
    | ((with_reducible refine KeepsR.setB_R _ _ fun _ => ?_); exact ⟨fun _ h => ⟨h, id⟩, fun _ h _ => h⟩)
    | ((with_reducible refine KeepsR.setR_R _ _ fun _ => ?_); exact ⟨fun _ h => ⟨h, id⟩, fun _ h _ => h⟩)
    | with_reducible refine KeepsR.getS_bind_R fun _ => ?_
    | with_reducible refine KeepsR.bind_R Filed.pre_fl ?_ fun _ => ?_
    | ((try dsimp only); rw [ite_bind_jp])
    | with_reducible refine KeepsR.ite_R (fun _ => ?_) fun _ => ?_
    | dsimp only
    | split

theorem filed_getblk_refill (fuel0 size fuel : Nat) :
    KeepsR Filed (getblk_refill fuel0 size fuel) := by
  induction fuel with
  | zero => exact KeepsR.khang_R
  | succ fuel ih =>
    unfold getblk_refill
    repeat' first
      | with_reducible exact KeepsR.pure_R Filed.pre_fl _
      | with_reducible exact KeepsR.kpanic_R _
      | with_reducible exact KeepsR.khang_R
      | with_reducible exact ih
      | with_reducible exact filed_refill_freelist _ _
      | with_reducible exact filed_printk _
      | with_reducible exact filed_remove_from_queues _
      | with_reducible exact filed_insert_into_queues _
      | with_reducible exact filed_put_last_free _
      | with_reducible exact filed_remove_from_free_list _
      | ((with_reducible refine filed_setB_R _ _ ?_); intro v h; first | exact ⟨h, id⟩ | exact absurd h Bool.false_ne_true)
      | ((with_reducible refine KeepsR.modS_R _ fun _ => ?_); exact ⟨fun _ h => ⟨h, id⟩, fun _ h _ => h⟩)
      | ((with_reducible refine KeepsR.setB_R _ _ fun _ => ?_); exact ⟨fun _ h => ⟨h, id⟩, fun _ h _ => h⟩)
      | ((with_reducible refine KeepsR.setR_R _ _ fun _ => ?_); exact ⟨fun _ h => ⟨h, id⟩, fun _ h _ => h⟩)
      | with_reducible refine KeepsR.getS_bind_R fun _ => ?_
      | with_reducible refine KeepsR.bind_R Filed.pre_fl ?_ fun _ => ?_
      | ((try dsimp only); rw [ite_bind_jp])
      | with_reducible refine KeepsR.ite_R (fun _ => ?_) fun _ => ?_
      | dsimp only
      | split

theorem filed_getblk_repeat (fuel0 dev block size fuel : Nat) :
    KeepsR Filed (getblk_repeat fuel0 dev block size fuel) := by
  induction fuel with
  | zero => exact KeepsR.khang_R
  | succ fuel ih =>
    unfold getblk_repeat
    repeat' first
      | with_reducible exact KeepsR.pure_R Filed.pre_fl _
      | with_reducible exact KeepsR.kpanic_R _
      | with_reducible exact KeepsR.khang_R
      | with_reducible exact ih
      | with_reducible exact filed_get_hash_table _ _ _ _
      | with_reducible exact filed_put_last_lru _
      | with_reducible exact filed_getblk_refill _ _ _
      | with_reducible exact filed_find_buffer _ _ _
      | with_reducible exact filed_printk _
      | with_reducible exact filed_remove_from_queues _
      | with_reducible exact filed_insert_into_queues _
      | with_reducible exact filed_put_last_free _
      | with_reducible exact filed_remove_from_free_list _
      | ((with_reducible refine filed_setB_R _ _ ?_); intro v h; first | exact ⟨h, id⟩ | exact absurd h Bool.false_ne_true)
      | ((with_reducible refine KeepsR.modS_R _ fun _ => ?_); exact ⟨fun _ h => ⟨h, id⟩, fun _ h _ => h⟩)
      | ((with_reducible refine KeepsR.setB_R _ _ fun _ => ?_); exact ⟨fun _ h => ⟨h, id⟩, fun _ h _ => h⟩)
      | ((with_reducible refine KeepsR.setR_R _ _ fun _ => ?_); exact ⟨fun _ h => ⟨h, id⟩, fun _ h _ => h⟩)
      | with_reducible refine KeepsR.getS_bind_R fun _ => ?_
      | with_reducible refine KeepsR.bind_R Filed.pre_fl ?_ fun _ => ?_
      | ((try dsimp only); rw [ite_bind_jp])
      | with_reducible refine KeepsR.ite_R (fun _ => ?_) fun _ => ?_
      | dsimp only
      | split

theorem filed_getblk (fuel dev block size : Nat) :
    KeepsR Filed (getblk fuel dev block size) := by
  unfold getblk
  repeat' first
    | with_reducible exact KeepsR.pure_R Filed.pre_fl _
    | with_reducible exact KeepsR.kpanic_R _
    | with_reducible exact KeepsR.khang_R
    | with_reducible exact filed_getblk_repeat _ _ _ _ _
    | with_reducible exact filed_printk _
    | with_reducible exact filed_remove_from_queues _
    | with_reducible exact filed_insert_into_queues _
    | with_reducible exact filed_put_last_free _
    | with_reducible exact filed_remove_from_free_list _
    | ((with_reducible refine filed_setB_R _ _ ?_); intro v h; first | exact ⟨h, id⟩ | exact absurd h Bool.false_ne_true)
    | ((with_reducible refine KeepsR.modS_R _ fun _ => ?_); exact ⟨fun _ h => ⟨h, id⟩, fun _ h _ => h⟩)
    | ((with_reducible refine KeepsR.setB_R _ _ fun _ => ?_); exact ⟨fun _ h => ⟨h, id⟩, fun _ h _ => h⟩)
    | ((with_reducible refine KeepsR.setR_R _ _ fun _ => ?_); exact ⟨fun _ h => ⟨h, id⟩, fun _ h _ => h⟩)
    | with_reducible refine KeepsR.getS_bind_R fun _ => ?_
    | with_reducible refine KeepsR.bind_R Filed.pre_fl ?_ fun _ => ?_
    | ((try dsimp only); rw [ite_bind_jp])
    | with_reducible refine KeepsR.ite_R (fun _ => ?_) fun _ => ?_
    | dsimp only
    | split

theorem filed_bread (fuel dev block size : Nat) :
    KeepsR Filed (bread fuel dev block size) := by
  unfold bread
  repeat' first
    | with_reducible exact KeepsR.pure_R Filed.pre_fl _
    | with_reducible exact KeepsR.kpanic_R _
    | with_reducible exact KeepsR.khang_R
    | with_reducible exact filed_getblk _ _ _ _
    | with_reducible exact filed_printk _
    | with_reducible exact filed_ll_rw_block_refile _ _ _ _
    | with_reducible exact filed_wait_on_buffer _
    | with_reducible exact filed_brelse _ _
    | with_reducible exact filed_printk _
    | with_reducible exact filed_remove_from_queues _
    | with_reducible exact filed_insert_into_queues _
    | with_reducible exact filed_put_last_free _
    | with_reducible exact filed_remove_from_free_list _
    | ((with_reducible refine filed_setB_R _ _ ?_); intro v h; first | exact ⟨h, id⟩ | exact absurd h Bool.false_ne_true)
    | ((with_reducible refine KeepsR.modS_R _ fun _ => ?_); exact ⟨fun _ h => ⟨h, id⟩, fun _ h _ => h⟩)
    | ((with_reducible refine KeepsR.setB_R _ _ fun _ => ?_); exact ⟨fun _ h => ⟨h, id⟩, fun _ h _ => h⟩)
    | ((with_reducible refine KeepsR.setR_R _ _ fun _ => ?_); exact ⟨fun _ h => ⟨h, id⟩, fun _ h _ => h⟩)
    | with_reducible refine KeepsR.getS_bind_R fun _ => ?_
    | with_reducible refine KeepsR.bind_R Filed.pre_fl ?_ fun _ => ?_
    | ((try dsimp only); rw [ite_bind_jp])
    | with_reducible refine KeepsR.ite_R (fun _ => ?_) fun _ => ?_
    | dsimp only
    | split

theorem filed_try_to_reassign_loop (dev bh fuel tmp block : Nat) :
    KeepsR Filed (try_to_reassign_loop dev bh fuel tmp block) := by
  induction fuel generalizing tmp block with
  | zero => exact KeepsR.khang_R
  | succ fuel ih =>
    unfold try_to_reassign_loop
    repeat' first
      | with_reducible exact KeepsR.pure_R Filed.pre_fl _
      | with_reducible exact KeepsR.kpanic_R _
      | with_reducible exact KeepsR.khang_R
      | with_reducible exact ih _ _
      | with_reducible exact filed_printk _
      | with_reducible exact filed_remove_from_queues _
      | with_reducible exact filed_insert_into_queues _
      | with_reducible exact filed_put_last_free _
      | with_reducible exact filed_remove_from_free_list _
      | ((with_reducible refine filed_setB_R _ _ ?_); intro v h; first | exact ⟨h, id⟩ | exact absurd h Bool.false_ne_true)
      | ((with_reducible refine KeepsR.modS_R _ fun _ => ?_); exact ⟨fun _ h => ⟨h, id⟩, fun _ h _ => h⟩)
      | ((with_reducible refine KeepsR.setB_R _ _ fun _ => ?_); exact ⟨fun _ h => ⟨h, id⟩, fun _ h _ => h⟩)
      | ((with_reducible refine KeepsR.setR_R _ _ fun _ => ?_); exact ⟨fun _ h => ⟨h, id⟩, fun _ h _ => h⟩)
      | with_reducible refine KeepsR.getS_bind_R fun _ => ?_
      | with_reducible refine KeepsR.bind_R Filed.pre_fl ?_ fun _ => ?_
      | ((try dsimp only); rw [ite_bind_jp])
      | with_reducible refine KeepsR.ite_R (fun _ => ?_) fun _ => ?_
      | dsimp only
      | split

theorem filed_try_to_reassign (fuel bh dev block : Nat) :
    KeepsR Filed (try_to_reassign fuel bh dev block) := by
  unfold try_to_reassign
  repeat' first
    | with_reducible exact KeepsR.pure_R Filed.pre_fl _
    | with_reducible exact KeepsR.kpanic_R _
    | with_reducible exact KeepsR.khang_R
    | with_reducible exact filed_try_to_reassign_loop _ _ _ _ _
    | with_reducible exact filed_printk _
    | with_reducible exact filed_remove_from_queues _
    | with_reducible exact filed_insert_into_queues _
    | with_reducible exact filed_put_last_free _
    | with_reducible exact filed_remove_from_free_list _
    | ((with_reducible refine filed_setB_R _ _ ?_); intro v h; first | exact ⟨h, id⟩ | exact absurd h Bool.false_ne_true)
    | ((with_reducible refine KeepsR.modS_R _ fun _ => ?_); exact ⟨fun _ h => ⟨h, id⟩, fun _ h _ => h⟩)
    | ((with_reducible refine KeepsR.setB_R _ _ fun _ => ?_); exact ⟨fun _ h => ⟨h, id⟩, fun _ h _ => h⟩)
    | ((with_reducible refine KeepsR.setR_R _ _ fun _ => ?_); exact ⟨fun _ h => ⟨h, id⟩, fun _ h _ => h⟩)
    | with_reducible refine KeepsR.getS_bind_R fun _ => ?_
    | with_reducible refine KeepsR.bind_R Filed.pre_fl ?_ fun _ => ?_
    | ((try dsimp only); rw [ite_bind_jp])
    | with_reducible refine KeepsR.ite_R (fun _ => ?_) fun _ => ?_
    | dsimp only
    | split

theorem filed_sync_old_buffers_scan (fuel : Nat) (nlist : BufList) (i bh : Nat)
    (loc : OldLocals) : KeepsR Filed (sync_old_buffers_scan fuel nlist i bh loc) := by
  induction i generalizing bh loc with
  | zero => exact KeepsR.pure_R Filed.pre_fl _
  | succ i ih =>
    unfold sync_old_buffers_scan
    repeat' first
      | with_reducible exact KeepsR.pure_R Filed.pre_fl _
      | with_reducible exact KeepsR.kpanic_R _
      | with_reducible exact KeepsR.khang_R
      | with_reducible exact ih _ _
      | with_reducible exact filed_printk _
      | with_reducible exact filed_refile_buffer _ _
      | with_reducible exact filed_ll_rw_block_refile _ _ _ _
      | with_reducible exact filed_printk _
      | with_reducible exact filed_remove_from_queues _
      | with_reducible exact filed_insert_into_queues _
      | with_reducible exact filed_put_last_free _
      | with_reducible exact filed_remove_from_free_list _
      | ((with_reducible refine filed_setB_R _ _ ?_); intro v h; first | exact ⟨h, id⟩ | exact absurd h Bool.false_ne_true)
      | ((with_reducible refine KeepsR.modS_R _ fun _ => ?_); exact ⟨fun _ h => ⟨h, id⟩, fun _ h _ => h⟩)
      | ((with_reducible refine KeepsR.setB_R _ _ fun _ => ?_); exact ⟨fun _ h => ⟨h, id⟩, fun _ h _ => h⟩)
      | ((with_reducible refine KeepsR.setR_R _ _ fun _ => ?_); exact ⟨fun _ h => ⟨h, id⟩, fun _ h _ => h⟩)
      | with_reducible refine KeepsR.getS_bind_R fun _ => ?_
      | with_reducible refine KeepsR.bind_R Filed.pre_fl ?_ fun _ => ?_
      | ((try dsimp only); rw [ite_bind_jp])
      | with_reducible refine KeepsR.ite_R (fun _ => ?_) fun _ => ?_
      | dsimp only
      | split

theorem filed_sync_old_buffers_list (fuel0 : Nat) (nlist : BufList) (fuel : Nat)
    (loc : OldLocals) : KeepsR Filed (sync_old_buffers_list fuel0 nlist fuel loc) := by
  induction fuel generalizing loc with
  | zero => exact KeepsR.khang_R
  | succ fuel ih =>
    unfold sync_old_buffers_list
    repeat' first
      | with_reducible exact KeepsR.pure_R Filed.pre_fl _
      | with_reducible exact KeepsR.kpanic_R _
      | with_reducible exact KeepsR.khang_R
      | with_reducible exact ih _
      | with_reducible exact filed_sync_old_buffers_scan _ _ _ _ _
      | with_reducible exact filed_printk _
      | with_reducible exact filed_remove_from_queues _
      | with_reducible exact filed_insert_into_queues _
      | with_reducible exact filed_put_last_free _
      | with_reducible exact filed_remove_from_free_list _
      | ((with_reducible refine filed_setB_R _ _ ?_); intro v h; first | exact ⟨h, id⟩ | exact absurd h Bool.false_ne_true)
      | ((with_reducible refine KeepsR.modS_R _ fun _ => ?_); exact ⟨fun _ h => ⟨h, id⟩, fun _ h _ => h⟩)
      | ((with_reducible refine KeepsR.setB_R _ _ fun _ => ?_); exact ⟨fun _ h => ⟨h, id⟩, fun _ h _ => h⟩)
      | ((with_reducible refine KeepsR.setR_R _ _ fun _ => ?_); exact ⟨fun _ h => ⟨h, id⟩, fun _ h _ => h⟩)
      | with_reducible refine KeepsR.getS_bind_R fun _ => ?_
      | with_reducible refine KeepsR.bind_R Filed.pre_fl ?_ fun _ => ?_
      | ((try dsimp only); rw [ite_bind_jp])
      | with_reducible refine KeepsR.ite_R (fun _ => ?_) fun _ => ?_
      | dsimp only
      | split

theorem filed_sync_old_buffers (fuel : Nat) : KeepsR Filed (sync_old_buffers fuel) := by
  unfold sync_old_buffers
  repeat' first
    | with_reducible exact KeepsR.pure_R Filed.pre_fl _
    | with_reducible exact KeepsR.kpanic_R _
    | with_reducible exact KeepsR.khang_R
    | with_reducible exact filed_sync_old_buffers_list _ _ _ _
    | with_reducible exact filed_printk _
    | with_reducible exact filed_remove_from_queues _
    | with_reducible exact filed_insert_into_queues _
    | with_reducible exact filed_put_last_free _
    | with_reducible exact filed_remove_from_free_list _
    | ((with_reducible refine filed_setB_R _ _ ?_); intro v h; first | exact ⟨h, id⟩ | exact absurd h Bool.false_ne_true)
    | ((with_reducible refine KeepsR.modS_R _ fun _ => ?_); exact ⟨fun _ h => ⟨h, id⟩, fun _ h _ => h⟩)
    | ((with_reducible refine KeepsR.setB_R _ _ fun _ => ?_); exact ⟨fun _ h => ⟨h, id⟩, fun _ h _ => h⟩)
    | ((with_reducible refine KeepsR.setR_R _ _ fun _ => ?_); exact ⟨fun _ h => ⟨h, id⟩, fun _ h _ => h⟩)
    | with_reducible refine KeepsR.getS_bind_R fun _ => ?_
    | with_reducible refine KeepsR.bind_R Filed.pre_fl ?_ fun _ => ?_
    | ((try dsimp only); rw [ite_bind_jp])
    | with_reducible refine KeepsR.ite_R (fun _ => ?_) fun _ => ?_
    | dsimp only
    | split

theorem filed_bdflush_scan (fuel : Nat) (nlist : BufList) (i bh : Nat) (ndirty : Int) :
    KeepsR Filed (bdflush_scan fuel nlist i bh ndirty) := by
  induction i generalizing bh ndirty with
  | zero => exact KeepsR.pure_R Filed.pre_fl _
  | succ i ih =>
    unfold bdflush_scan
    repeat' first
      | with_reducible exact KeepsR.pure_R Filed.pre_fl _
      | with_reducible exact KeepsR.kpanic_R _
      | with_reducible exact KeepsR.khang_R
      | with_reducible exact ih _ _
      | with_reducible exact filed_printk _
      | with_reducible exact filed_refile_buffer _ _
      | with_reducible exact filed_ll_rw_block_refile _ _ _ _
      | with_reducible exact filed_printk _
      | with_reducible exact filed_remove_from_queues _
      | with_reducible exact filed_insert_into_queues _
      | with_reducible exact filed_put_last_free _
      | with_reducible exact filed_remove_from_free_list _
      | ((with_reducible refine filed_setB_R _ _ ?_); intro v h; first | exact ⟨h, id⟩ | exact absurd h Bool.false_ne_true)
      | ((with_reducible refine KeepsR.modS_R _ fun _ => ?_); exact ⟨fun _ h => ⟨h, id⟩, fun _ h _ => h⟩)
      | ((with_reducible refine KeepsR.setB_R _ _ fun _ => ?_); exact ⟨fun _ h => ⟨h, id⟩, fun _ h _ => h⟩)
      | ((with_reducible refine KeepsR.setR_R _ _ fun _ => ?_); exact ⟨fun _ h => ⟨h, id⟩, fun _ h _ => h⟩)
      | with_reducible refine KeepsR.getS_bind_R fun _ => ?_
      | with_reducible refine KeepsR.bind_R Filed.pre_fl ?_ fun _ => ?_
      | ((try dsimp only); rw [ite_bind_jp])
      | with_reducible refine KeepsR.ite_R (fun _ => ?_) fun _ => ?_
      | dsimp only
      | split

theorem filed_bdflush_list (fuel0 : Nat) (nlist : BufList) (fuel : Nat) (ndirty : Int) :
    KeepsR Filed (bdflush_list fuel0 nlist fuel ndirty) := by
  induction fuel generalizing ndirty with
  | zero => exact KeepsR.khang_R
  | succ fuel ih =>
    unfold bdflush_list
    repeat' first
      | with_reducible exact KeepsR.pure_R Filed.pre_fl _
      | with_reducible exact KeepsR.kpanic_R _
      | with_reducible exact KeepsR.khang_R
      | with_reducible exact ih _
      | with_reducible exact filed_bdflush_scan _ _ _ _ _
      | with_reducible exact filed_printk _
      | with_reducible exact filed_remove_from_queues _
      | with_reducible exact filed_insert_into_queues _
      | with_reducible exact filed_put_last_free _
      | with_reducible exact filed_remove_from_free_list _
      | ((with_reducible refine filed_setB_R _ _ ?_); intro v h; first | exact ⟨h, id⟩ | exact absurd h Bool.false_ne_true)
      | ((with_reducible refine KeepsR.modS_R _ fun _ => ?_); exact ⟨fun _ h => ⟨h, id⟩, fun _ h _ => h⟩)
      | ((with_reducible refine KeepsR.setB_R _ _ fun _ => ?_); exact ⟨fun _ h => ⟨h, id⟩, fun _ h _ => h⟩)
      | ((with_reducible refine KeepsR.setR_R _ _ fun _ => ?_); exact ⟨fun _ h => ⟨h, id⟩, fun _ h _ => h⟩)
      | with_reducible refine KeepsR.getS_bind_R fun _ => ?_
      | with_reducible refine KeepsR.bind_R Filed.pre_fl ?_ fun _ => ?_
      | ((try dsimp only); rw [ite_bind_jp])
      | with_reducible refine KeepsR.ite_R (fun _ => ?_) fun _ => ?_
      | dsimp only
      | split

theorem filed_bdflush_daemon (fuel0 : Nat) (sigkill : Bool) (fuel : Nat) :
    KeepsR Filed (bdflush_daemon fuel0 sigkill fuel) := by
  induction fuel with
  | zero => exact KeepsR.khang_R
  | succ fuel ih =>
    unfold bdflush_daemon
    repeat' first
      | with_reducible exact KeepsR.pure_R Filed.pre_fl _
      | with_reducible exact KeepsR.kpanic_R _
      | with_reducible exact KeepsR.khang_R
      | with_reducible exact ih
      | with_reducible exact filed_bdflush_list _ _ _ _
      | with_reducible exact filed_printk _
      | with_reducible exact filed_remove_from_queues _
      | with_reducible exact filed_insert_into_queues _
      | with_reducible exact filed_put_last_free _
      | with_reducible exact filed_remove_from_free_list _
      | ((with_reducible refine filed_setB_R _ _ ?_); intro v h; first | exact ⟨h, id⟩ | exact absurd h Bool.false_ne_true)
      | ((with_reducible refine KeepsR.modS_R _ fun _ => ?_); exact ⟨fun _ h => ⟨h, id⟩, fun _ h _ => h⟩)
      | ((with_reducible refine KeepsR.setB_R _ _ fun _ => ?_); exact ⟨fun _ h => ⟨h, id⟩, fun _ h _ => h⟩)
      | ((with_reducible refine KeepsR.setR_R _ _ fun _ => ?_); exact ⟨fun _ h => ⟨h, id⟩, fun _ h _ => h⟩)
      | with_reducible refine KeepsR.getS_bind_R fun _ => ?_
      | with_reducible refine KeepsR.bind_R Filed.pre_fl ?_ fun _ => ?_
      | ((try dsimp only); rw [ite_bind_jp])
      | with_reducible refine KeepsR.ite_R (fun _ => ?_) fun _ => ?_
      | dsimp only
      | split

theorem filed_sys_bdflush (fuel : Nat) (suser : Bool) (verify_area : Int) (sigkill : Bool)
    (func data : Int) : KeepsR Filed (sys_bdflush fuel suser verify_area sigkill func data) := by
  unfold sys_bdflush
  repeat' first
    | with_reducible exact KeepsR.pure_R Filed.pre_fl _
    | with_reducible exact KeepsR.kpanic_R _
    | with_reducible exact KeepsR.khang_R
    | with_reducible exact filed_sync_old_buffers _
    | with_reducible exact filed_bdflush_daemon _ _ _
    | with_reducible exact filed_printk _
    | with_reducible exact filed_remove_from_queues _
    | with_reducible exact filed_insert_into_queues _
    | with_reducible exact filed_put_last_free _
    | with_reducible exact filed_remove_from_free_list _
    | ((with_reducible refine filed_setB_R _ _ ?_); intro v h; first | exact ⟨h, id⟩ | exact absurd h Bool.false_ne_true)
    | ((with_reducible refine KeepsR.modS_R _ fun _ => ?_); exact ⟨fun _ h => ⟨h, id⟩, fun _ h _ => h⟩)
    | ((with_reducible refine KeepsR.setB_R _ _ fun _ => ?_); exact ⟨fun _ h => ⟨h, id⟩, fun _ h _ => h⟩)
    | ((with_reducible refine KeepsR.setR_R _ _ fun _ => ?_); exact ⟨fun _ h => ⟨h, id⟩, fun _ h _ => h⟩)
    | with_reducible refine KeepsR.getS_bind_R fun _ => ?_
    | with_reducible refine KeepsR.bind_R Filed.pre_fl ?_ fun _ => ?_
    | ((try dsimp only); rw [ite_bind_jp])
    | with_reducible refine KeepsR.ite_R (fun _ => ?_) fun _ => ?_
    | dsimp only
    | split


theorem filed_buffer_init (fuel : Nat) : KeepsR Filed (buffer_init fuel) := by
  unfold buffer_init
  repeat' first
    | with_reducible exact KeepsR.pure_R Filed.pre_fl _
    | with_reducible exact KeepsR.kpanic_R _
    | with_reducible exact KeepsR.khang_R
    | with_reducible exact filed_grow_buffers _ _ _
    | ((with_reducible refine KeepsR.modS_R _ fun _ => ?_); exact ⟨fun _ h => ⟨h, id⟩, fun _ h _ => h⟩)
    | ((with_reducible refine KeepsR.setB_R _ _ fun _ => ?_); exact ⟨fun _ h => ⟨h, id⟩, fun _ h _ => h⟩)
    | ((with_reducible refine KeepsR.setR_R _ _ fun _ => ?_); exact ⟨fun _ h => ⟨h, id⟩, fun _ h _ => h⟩)
    | with_reducible refine KeepsR.getS_bind_R fun _ => ?_
    | with_reducible refine KeepsR.bind_R Filed.pre_fl ?_ fun _ => ?_
    | ((try dsimp only); rw [ite_bind_jp])
    | with_reducible refine KeepsR.ite_R (fun _ => ?_) fun _ => ?_
    | dsimp only
    | split

theorem mark_buffer_dirty_filed (fuel bh : Nat) (flag : Int) (s : State) (a : Unit) (s' : State)
    (e : mark_buffer_dirty fuel bh flag s = .ok a s') (h : AllFiled s) : AllFiled s' := by
  have hp := Filed.pre_fl
  unfold mark_buffer_dirty at e
  rw [bind_run, getS_run] at e
  dsimp only at e
  by_cases hd : (s.b bh).b_dirt = false
  swap
  · rw [if_neg hd] at e
    cases e
    exact h
  rw [if_pos hd] at e
  obtain ⟨a1, s1, e1, e⟩ := bind_inv e
  obtain ⟨a2, s2, e2, e⟩ := bind_inv e
  have hb1 : s1.b = upd s.b bh { (s.b bh) with b_dirt := true } := by
    cases e1
    rfl
  have hn1 : s1.nr_buffer_heads = s.nr_buffer_heads := by
    cases e1
    rfl
  have f2 := filed_set_writetime _ _ s1 a2 s2 e2
  have f3 : Filed s2 s' :=
    KeepsR.ite_R (fun _ => filed_refile_buffer _ _) (fun _ => KeepsR.pure_R hp _) s2 a s' e
  have f13 := hp.trans _ _ _ f2 f3
  intro x hx1 hx2 hxd
  obtain ⟨hd1, hl1⟩ := f13.heads x hxd
  have hc := f13.carved x hx2 hxd
  rw [hn1] at hc
  by_cases hxb : x = bh
  · subst hxb
    by_cases hl : (s.b x).b_list = BUF_DIRTY
    · apply hl1
      rw [hb1, upd_same]
      exact hl
    · rw [if_pos hl] at e
      exact refile_buffer_files _ _ _ _ _ e hxd
  · apply hl1
    rw [hb1, upd_other _ _ _ _ hxb] at hd1 ⊢
    exact h x hx1 hc hd1

theorem Initial.filed {s : State} (h : Initial s) : AllFiled s := by
  intro x h1 h2
  rw [h.toEmptyCache.nr_buffer_heads] at h2
  omega

/-- In every reachable state every carved head that is dirty is filed under DIRTY. -/
theorem reachable_filed {s : State} (h : Reachable s) : AllFiled s := by
  induction h with
  | empty s he => exact he.filed
  | buffer_init s s' fuel he e => exact (filed_buffer_init fuel s () s' e).all he.filed
  | getblk s s' fuel dev block size h _ _ e ih => exact (filed_getblk _ _ _ _ s h s' e).all ih
  | brelse s s' fuel buf _ e ih => exact (filed_brelse _ _ s () s' e).all ih
  | bread s s' fuel dev block size r _ _ e ih => exact (filed_bread _ _ _ _ s r s' e).all ih
  | refill_freelist s s' fuel size _ e ih => exact (filed_refill_freelist _ _ s () s' e).all ih
  | grow_buffers s s' fuel pri size r _ e ih => exact (filed_grow_buffers _ _ _ s r s' e).all ih
  | shrink_specific_buffers s s' fuel priority size r _ e ih =>
    exact (filed_shrink_specific_buffers _ _ _ s r s' e).all ih
  | try_to_free s s' fuel bh r _ e ih => exact (filed_try_to_free _ _ s r s' e).all ih
  | try_to_reassign s s' fuel bh dev block r _ _ e ih =>
    exact (filed_try_to_reassign _ _ _ _ s r s' e).all ih
  | mark_buffer_dirty s s' fuel bh flag _ e ih => exact mark_buffer_dirty_filed _ _ _ s () s' e ih
  | ll_rw_block s s' fuel rw bhs _ e ih => exact (filed_ll_rw_block_refile _ _ _ _ s () s' e).all ih
  | end_buffer_io s s' bh _ e ih => exact (filed_end_buffer_io _ s () s' e).all ih
  | invalidate_buffers s s' dev _ e ih => exact (filed_invalidate_buffers _ s () s' e).all ih
  | sys_bdflush s s' fuel suser va sk func data r _ e ih =>
    exact (filed_sys_bdflush _ _ _ _ _ _ s r s' e).all ih
  | tick s n _ ih => exact ih

theorem refile_filed_run (fuel buf : Nat) (s : State) (hdev : (s.b buf).b_dev ≠ B_FREE)
    (hd : (s.b buf).b_dirt = true) (hl : (s.b buf).b_list = BUF_DIRTY) :
    refile_buffer (fuel + 1) buf s = .ok () s := by
  show refile_buffer_body (refile_buffer fuel) fuel buf s = _
  unfold refile_buffer_body
  rw [bind_run, getS_run]
  dsimp only
  rw [if_neg hdev, refile_dispose_dirty hd, hl, if_neg (by decide), if_neg (fun h => h rfl)]
  rfl

theorem brelse_files (fuel buf : Nat) (s : State) (a : Unit) (s' : State)
    (e : brelse fuel buf s = .ok a s') (h0 : buf ≠ 0) :
    (s'.b buf).b_dirt = true → (s'.b buf).b_list = BUF_DIRTY := by
  unfold brelse at e
  rw [if_neg h0] at e
  obtain ⟨a1, s1, e1, e⟩ := bind_inv e
  obtain ⟨a2, s2, e2, e⟩ := bind_inv e
  obtain ⟨a3, s3, e3, e⟩ := bind_inv e
  have h3 := refile_buffer_files _ _ _ _ _ e3
  rw [bind_run, getS_run] at e
  have f : Filed s3 s' := by
    refine KeepsR.ite_R (fun _ => ?_) (fun _ => filed_printk _) s3 a s' e
    exact filed_setB_R _ _ fun _ h => ⟨h, id⟩
  intro hd
  obtain ⟨hd3, hl3⟩ := f.heads buf hd
  exact hl3 (h3 hd3)

theorem brelse_filed_runs (fuel buf : Nat) (s : State) (hI : Inv s) (hl : Linked s buf)
    (hd : (s.b buf).b_dirt = true) (hf : (s.b buf).b_list = BUF_DIRTY) :
    Runs (brelse (fuel + 1) buf) s fun _ s' => (s'.b buf).b_dirt = true := by
  have h0 : buf ≠ 0 := fun h => hI.zero_nowhere.2.1 _ (h ▸ hl)
  unfold brelse
  rw [if_neg h0]
  refine Runs.bind_r (wait_on_buffer_runs buf s) ?_
  intro _ s1 _ h1
  obtain ⟨hf1, hc1⟩ := h1
  refine Runs.bind_r (set_writetime_runs buf 0 s1) ?_
  intro _ s2 _ h2
  obtain ⟨hf2, hc2⟩ := h2
  have hd2 : (s2.b buf).b_dirt = true := by rw [hf2.dirt, hf1.dirt, hd]
  have hl2 : (s2.b buf).b_list = BUF_DIRTY := by rw [hc2.b_list, hc1.b_list, hf]
  have hdev2 : (s2.b buf).b_dev ≠ B_FREE := by
    rw [hc2.b_dev, hc1.b_dev]
    exact hI.lru_dev _ _ hl
  refine Runs.bind_r (R := fun _ s3 => s3 = s2) ⟨(), s2, refile_filed_run fuel buf s2 hdev2 hd2 hl2, rfl⟩ ?_
  intro _ s3 _ h3
  subst h3
  refine Runs.getS_bind_r ?_
  refine Runs.ite_r (fun _ => Runs.setB_r ?_) fun _ => ⟨(), _, rfl, hd2⟩
  show (upd s3.b buf _ buf).b_dirt = true
  rw [upd_same]
  exact hd2

/-- C10 (amended): in a state that satisfies the structural invariant, for a bound
descriptor whose dirty flag is set: when `refile_buffer` returns, and when `brelse`
returns, and the descriptor is still dirty, then it has `b_list = BUF_DIRTY`, is a member
of the DIRTY list and of no other disposition list.  With the flush daemon running, or
with the descriptor filed under DIRTY already, both calls return and the descriptor is
still dirty. -/
theorem dirty_refiled_on_dirty_list (fuel h : Nat) (s : State) (hI : Inv s)
    (hh : Hashed s h) (hd : (s.b h).b_dirt = true) :
    (∀ s', refile_buffer fuel h s = .ok () s' → (s'.b h).b_dirt = true →
        (s'.b h).b_list = BUF_DIRTY ∧ h ∈ s'.lru_list BUF_DIRTY ∧
        ∀ l, l ≠ BUF_DIRTY → h ∉ s'.lru_list l) ∧
      (∀ s', brelse fuel h s = .ok () s' → (s'.b h).b_dirt = true →
        (s'.b h).b_list = BUF_DIRTY ∧ h ∈ s'.lru_list BUF_DIRTY ∧
        ∀ l, l ≠ BUF_DIRTY → h ∉ s'.lru_list l) ∧
      (s.bdflush_running ≠ 0 ∨ (s.b h).b_list = BUF_DIRTY →
        (∃ s', refile_buffer (fuel + 1) h s = .ok () s' ∧ (s'.b h).b_dirt = true) ∧
        ∃ s', brelse (fuel + 1) h s = .ok () s' ∧ (s'.b h).b_dirt = true) := by
  have hl : Linked s h := (hI.hash_lru _ _ hh).1
  have h0 : h ≠ 0 := fun e => hI.zero_nowhere.2.1 _ (e ▸ hl)
  have key : ∀ s', Inv s' → Linked s' h → (s'.b h).b_list = BUF_DIRTY →
      (s'.b h).b_list = BUF_DIRTY ∧ h ∈ s'.lru_list BUF_DIRTY ∧
        ∀ l, l ≠ BUF_DIRTY → h ∉ s'.lru_list l := by
    intro s' hI' hl' hb
    refine ⟨hb, ?_, fun l hne hm => hne ?_⟩
    · unfold Linked at hl'
      rw [hb] at hl'
      exact hl'
    · rw [← hI'.lru_list l h hm, hb]
  refine ⟨fun s' e hd' => ?_, fun s' e hd' => ?_, fun hr => ⟨?_, ?_⟩⟩
  · obtain ⟨hI', hst⟩ := (refile_buffer_good fuel h s).ok hI e
    exact key s' hI' ((hst.linked h).mpr hl) (refile_buffer_files _ _ _ _ _ e hd')
  · obtain ⟨hI', hst⟩ := (brelse_post fuel h s).ok hI e
    rcases hst with hst | hst
    · exact absurd hst.1 h0
    · exact key s' hI' ((hst.2.1.linked h).mpr hl) (brelse_files _ _ _ _ _ e h0 hd')
  · rcases hr with hr | hr
    · obtain ⟨_, s', e, hq⟩ := refile_runs fuel h s hI hl (Or.inl hr)
      refine ⟨s', e, ?_⟩
      rw [hq.1.dirt, hd]
    · exact ⟨s, refile_filed_run fuel h s (hI.lru_dev _ _ hl) hd hr, hd⟩
  · rcases hr with hr | hr
    · obtain ⟨_, s', e, hq⟩ := brelse_runs fuel h s hI hl (Or.inl hr)
      refine ⟨s', e, ?_⟩
      rw [hq.1, hd]
    · obtain ⟨_, s', e, hq⟩ := brelse_filed_runs fuel h s hI hl hd hr
      exact ⟨s', e, hq⟩

/-- Witness for C10: no flush daemon is running, head 61 holds block 1 of the disk and is
dirty; `refile_buffer` and `brelse` on it return with the head on the DIRTY list. -/
theorem dirty_refiled_on_dirty_list_witness :
    Hashed disk2_dirty 61 ∧ (disk2_dirty.b 61).b_dirt = true ∧
      disk2_dirty.bdflush_running = 0 ∧
      (∃ s', refile_buffer 11 61 disk2_dirty = .ok () s' ∧ 61 ∈ s'.lru_list BUF_DIRTY) ∧
      ∃ s', brelse 11 61 disk2_dirty = .ok () s' ∧ 61 ∈ s'.lru_list BUF_DIRTY := by
  have h := dirty_refiled_on_dirty_list 11 61 disk2_dirty
    (reachable_inv disk2_dirty_reachable) (by decide!) (by decide!)
  have h10 := dirty_refiled_on_dirty_list 10 61 disk2_dirty
    (reachable_inv disk2_dirty_reachable) (by decide!) (by decide!)
  obtain ⟨⟨s1, e1, d1⟩, ⟨s2, e2, d2⟩⟩ := h10.2.2 (Or.inr (by decide!))
  exact ⟨by decide!, by decide!, by decide!, ⟨s1, e1, (h.1 s1 e1 d1).2.1⟩,
    ⟨s2, e2, (h.2.1 s2 e2 d2).2.1⟩⟩

theorem Filed.clean {s s' : State} (h : Filed s s') {x : Nat} (c : (s.b x).b_dirt = false) :
    (s'.b x).b_dirt = false := by
  cases hd : (s'.b x).b_dirt
  · rfl
  · have := (h.heads x hd).1
    rw [c] at this
    cases this

theorem mark_buffer_clean_cleans (rb : Nat → K Unit) (hrb : ∀ b, KeepsR Filed (rb b))
    (x : Nat) (s : State) (a : Unit) (s' : State) (e : mark_buffer_clean rb x s = .ok a s') :
    (s'.b x).b_dirt = false := by
  unfold mark_buffer_clean at e
  rw [bind_run, getS_run] at e
  dsimp only at e
  by_cases hd : (s.b x).b_dirt = true
  · rw [if_pos hd] at e
    obtain ⟨a1, s1, e1, e⟩ := bind_inv e
    have c1 : (s1.b x).b_dirt = false := by
      cases e1
      show (upd s.b x _ x).b_dirt = false
      rw [upd_same]
    have f : Filed s1 s' :=
      KeepsR.ite_R (fun _ => hrb _) (fun _ => KeepsR.pure_R Filed.pre_fl _) s1 a s' e
    exact f.clean c1
  · rw [if_neg hd] at e
    cases e
    simpa using hd

theorem add_request_cleans (rb : Nat → K Unit) (hrb : ∀ b, KeepsR Filed (rb b))
    (major req x : Nat) (s : State) (hb : (s.all_requests req).bh = x) (hx0 : x ≠ 0)
    (a : Unit) (s' : State) (e : add_request rb major req s = .ok a s') :
    (s'.b x).b_dirt = false := by
  unfold add_request at e
  rw [bind_run, getS_run] at e
  dsimp only at e
  rw [hb, if_pos hx0] at e
  obtain ⟨a1, s1, e1, e⟩ := bind_inv e
  obtain ⟨a2, s2, e2, e⟩ := bind_inv e
  have c2 := mark_buffer_clean_cleans rb hrb x s1 a2 s2 e2
  have f : Filed s2 s' := by
    refine (?_ : KeepsR Filed _) s2 a s' e
    repeat' first
      | with_reducible exact KeepsR.pure_R Filed.pre_fl _
      | with_reducible exact KeepsR.kpanic_R _
      | with_reducible exact KeepsR.khang_R
      | with_reducible exact filed_call_request_fn _
      | ((with_reducible refine KeepsR.modS_R _ fun _ => ?_); exact ⟨fun _ h => ⟨h, id⟩, fun _ h _ => h⟩)
      | ((with_reducible refine KeepsR.setB_R _ _ fun _ => ?_); exact ⟨fun _ h => ⟨h, id⟩, fun _ h _ => h⟩)
      | ((with_reducible refine KeepsR.setR_R _ _ fun _ => ?_); exact ⟨fun _ h => ⟨h, id⟩, fun _ h _ => h⟩)
      | with_reducible refine KeepsR.getS_bind_R fun _ => ?_
      | with_reducible refine KeepsR.bind_R Filed.pre_fl ?_ fun _ => ?_
      | ((try dsimp only); rw [ite_bind_jp])
      | with_reducible refine KeepsR.ite_R (fun _ => ?_) fun _ => ?_
      | dsimp only
      | split
  exact f.clean c2

theorem make_request_queue_cleans (rb : Nat → K Unit) (hrb : ∀ b, KeepsR Filed (rb b))
    (fuel major : Nat) (rw : Rw) (x sector count : Nat) (s : State) (hx0 : x ≠ 0)
    (a : Unit) (s' : State)
    (e : make_request_queue rb fuel major rw false x sector count s = .ok a s') :
    (s'.b x).b_dirt = false := by
  unfold make_request_queue at e
  rw [bind_run, getS_run] at e
  dsimp only at e
  generalize (if (major = IDE0_MAJOR ∨ major = IDE1_MAJOR ∨ major = FLOPPY_MAJOR ∨
        major = SCSI_DISK_MAJOR ∨ major = SCSI_CDROM_MAJOR) ∧ s.current_request major ≠ [] then
      make_request_merge s x rw.val sector count
        (if (s.config_blk_dev_hd = true ∧ major = HD_MAJOR) ∨ major = FLOPPY_MAJOR then
          (s.current_request major).tail else s.current_request major)
      else none) = m at e
  rcases m with _ | ⟨req | req⟩
  · dsimp only at e
    obtain ⟨r, s1, e1, e⟩ := bind_inv e
    cases r with
    | none =>
      dsimp only at e
      rw [if_neg (by decide)] at e
      cases e
    | some req =>
      dsimp only at e
      obtain ⟨a2, s2, e2, e⟩ := bind_inv e
      refine add_request_cleans rb hrb major req x s2 ?_ hx0 a s' e
      cases e2
      show (upd s1.all_requests req _ req).bh = x
      rw [upd_same]
  · dsimp only at e
    obtain ⟨_, s1, e1, e⟩ := bind_inv e
    obtain ⟨_, s2, e2, e⟩ := bind_inv e
    exact mark_buffer_clean_cleans rb hrb x s2 a s' e
  · dsimp only at e
    obtain ⟨_, s1, e1, e⟩ := bind_inv e
    obtain ⟨_, s2, e2, e⟩ := bind_inv e
    obtain ⟨a3, s3, e3, e⟩ := bind_inv e
    have c3 := mark_buffer_clean_cleans rb hrb x s2 a3 s3 e3
    cases e
    exact c3

theorem make_request_write_cleans (rb : Nat → K Unit) (hrb : ∀ b, KeepsR Filed (rb b))
    (fuel major x : Nat) (s : State) (hx0 : x ≠ 0) (hu : (s.b x).b_lock = false)
    (a : Unit) (s' : State) (e : make_request rb fuel major .WRITE x s = .ok a s') :
    (s'.b x).b_dirt = false := by
  unfold make_request at e
  rw [bind_run, getS_run] at e
  dsimp only at e
  rw [if_neg (by simp)] at e
  have hw : (if Rw.WRITE = Rw.READA then Rw.READ
      else if Rw.WRITE = Rw.WRITEA then Rw.WRITE else Rw.WRITE) = Rw.WRITE := rfl
  have hra : decide (Rw.WRITE = Rw.READA ∨ Rw.WRITE = Rw.WRITEA) = false := rfl
  rw [hw, hra] at e
  rcases ite_run_cases _ _ _ s s' e with ⟨_, e⟩ | ⟨_, e⟩
  · cases e
    show (upd s.b x _ x).b_dirt = false
    rw [upd_same]
  rw [if_neg (by rw [hu]; exact Bool.false_ne_true)] at e
  obtain ⟨a1, s1, e1, e⟩ := bind_inv e
  rw [bind_run, getS_run] at e
  dsimp only at e
  by_cases h2 : (s1.b x).b_dirt = false
  · rw [if_pos (Or.inl ⟨rfl, h2⟩)] at e
    exact (filed_unlock_buffer x s1 a s' e).clean h2
  · rw [if_neg (fun h => h.elim (fun h => h2 h.2) fun h => by cases h.1)] at e
    exact make_request_queue_cleans rb hrb fuel major .WRITE x _ _ s1 hx0 a s' e

theorem ll_rw_block_write_cleans (rb : Nat → K Unit) (hrb : ∀ b, KeepsR Filed (rb b))
    (fuel x : Nat) (s : State) (hx0 : x ≠ 0) (hu : (s.b x).b_lock = false)
    (a : Unit) (s' : State) (e : ll_rw_block rb fuel .WRITE [x] s = .ok a s') :
    (s'.b x).b_dirt = false := by
  have hsorry : ∀ s1 a s2, ( ll_rw_block_sorry [x]) s1 = .ok a s2 → (s2.b x).b_dirt = false := by
    intro s1 a s2 e
    unfold ll_rw_block_sorry at e
    rw [if_pos hx0] at e
    obtain ⟨a1, s3, e1, e⟩ := bind_inv e
    cases e
    cases e1
    show (upd s1.b x _ x).b_dirt = false
    rw [upd_same]
  unfold ll_rw_block at e
  have hdw : [x].dropWhile (fun x => x == 0) = [x] := by
    rw [List.dropWhile_cons_of_neg (by simpa using hx0)]
  rw [hdw] at e
  dsimp only at e
  rw [bind_run, getS_run] at e
  dsimp only at e
  by_cases h1 : ¬ (MAJOR (s.b x).b_dev < MAX_BLKDEV ∧ s.request_fn (MAJOR (s.b x).b_dev) = true)
  · rw [if_pos h1] at e
    obtain ⟨a1, s1, e1, e⟩ := bind_inv e
    exact hsorry s1 a s' e
  rw [if_neg h1] at e
  clear h1
  generalize List.find? _ [x] = fr at e
  cases fr with
  | some y =>
    dsimp only at e
    obtain ⟨a1, s1, e1, e⟩ := bind_inv e
    exact hsorry s1 a s' e
  | none =>
    dsimp only at e
    rcases ite_run_cases _ _ _ s s' e with ⟨_, e⟩ | ⟨_, e⟩
    · obtain ⟨a1, s1, e1, e⟩ := bind_inv e
      exact hsorry s1 a s' e
    rcases ite_run_cases _ _ _ s s' e with ⟨hp, e⟩ | ⟨hp, e⟩
    · simp at hp
    obtain ⟨a1, s1, e1, e⟩ := bind_inv e
    cases e1
    obtain ⟨a2, s2, e2, e⟩ := bind_inv e
    have c2 : (s2.b x).b_dirt = false := by
      unfold ll_rw_block_loop at e2
      rw [if_pos hx0] at e2
      obtain ⟨a4, s4, e4, e2⟩ := bind_inv e2
      obtain ⟨a5, s5, e5, e2⟩ := bind_inv e2
      have hu4 : (s4.b x).b_lock = false := by
        cases e4
        show (upd s.b x _ x).b_lock = false
        rw [upd_same]
        exact hu
      have c5 := make_request_write_cleans rb hrb fuel _ x s4 hx0 hu4 a5 s5 e5
      refine Filed.clean ((?_ : KeepsR Filed _) s5 a2 s2 e2) c5
      repeat' first
        | with_reducible exact KeepsR.pure_R Filed.pre_fl _
        | with_reducible exact KeepsR.kpanic_R _
        | with_reducible exact KeepsR.khang_R
        | with_reducible exact filed_ll_rw_block_loop rb hrb _ _ _ _
        | ((with_reducible refine KeepsR.modS_R _ fun _ => ?_); exact ⟨fun _ h => ⟨h, id⟩, fun _ h _ => h⟩)
        | ((with_reducible refine KeepsR.setB_R _ _ fun _ => ?_); exact ⟨fun _ h => ⟨h, id⟩, fun _ h _ => h⟩)
        | ((with_reducible refine KeepsR.setR_R _ _ fun _ => ?_); exact ⟨fun _ h => ⟨h, id⟩, fun _ h _ => h⟩)
        | with_reducible refine KeepsR.getS_bind_R fun _ => ?_
        | with_reducible refine KeepsR.bind_R Filed.pre_fl ?_ fun _ => ?_
        | ((try dsimp only); rw [ite_bind_jp])
        | with_reducible refine KeepsR.ite_R (fun _ => ?_) fun _ => ?_
        | dsimp only
        | split
    rcases ite_run_cases _ _ _ s2 s' e with ⟨hp, e⟩ | ⟨hp, e⟩
    · simp at hp
    cases e
    exact c2


theorem sync_old_visits_cons (fuel x : Nat) (l : List Nat) (s s1 s' : State)
    (h1 : sync_old_visit fuel x s = .ok () s1) (h2 : sync_old_visits fuel l s1 = .ok () s') :
    sync_old_visits fuel (x :: l) s = .ok () s' := by
  unfold sync_old_visits
  rw [bind_run, h1]
  exact h2

theorem sync_old_visit_clean (fuel x : Nat) (s : State)
    (c : (s.b x).b_dirt = false ∧ (s.b x).b_lock = false) :
    sync_old_visit fuel x s = refile_buffer fuel x s := by
  unfold sync_old_visit
  rw [bind_run, getS_run]
  dsimp only
  rw [if_pos c]

theorem sync_old_visit_skip (fuel x : Nat) (s : State)
    (c : ¬ ((s.b x).b_dirt = false ∧ (s.b x).b_lock = false)) (hd : due s x = false) :
    sync_old_visit fuel x s = .ok () s := by
  unfold sync_old_visit
  rw [bind_run, getS_run]
  dsimp only
  rw [if_neg c, hd, if_neg Bool.false_ne_true]
  rfl

theorem sync_old_visit_due (fuel x : Nat) (s : State) (hd : due s x = true) :
    sync_old_visit fuel x s =
      (setB x (fun h => { h with b_count := h.b_count + 1, b_flushtime := 0 }) >>=
        fun _ => ll_rw_block (refile_buffer fuel) fuel .WRITE [x] >>= fun _ =>
        setB x (fun h => { h with b_count := h.b_count - 1 }) >>= fun _ => (pure () : K Unit)) s := by
  have c : ¬ ((s.b x).b_dirt = false ∧ (s.b x).b_lock = false) := by
    intro h
    unfold due at hd
    rw [h.1] at hd
    simp at hd
  unfold sync_old_visit
  rw [bind_run, getS_run]
  dsimp only
  rw [if_neg c, hd, if_pos rfl]
  simp only [bind_run, pure_run]
  cases setB x (fun h => { h with b_count := h.b_count + 1, b_flushtime := 0 }) s <;> rfl

theorem sync_old_scan_written (fuel : Nat) : ∀ (i : Nat) (post pre : List Nat) (x : Nat)
    (loc : OldLocals) (s : State) (r : Bool × OldLocals) (s' : State),
    Inv s → Tally s → s.lru_list BUF_DIRTY = pre ++ x :: post → i ≤ post.length + 1 →
      sync_old_buffers_scan fuel BUF_DIRTY i x loc s = .ok r s' →
      r.1 = false ∧ r.2.written = loc.written ++ ((x :: post).take i).filter (due s) ∧
        sync_old_visits fuel ((x :: post).take i) s = .ok () s' := by
  intro i
  induction i with
  | zero =>
    intro post pre x loc s r s' _ _ _ _ e
    cases e
    exact ⟨rfl, by simp, rfl⟩
  | succ i ih =>
    intro post pre x loc s r s' hI t hl hi e
    have hx : x ∈ s.lru_list BUF_DIRTY := by
      rw [hl]
      exact List.mem_append_right _ (List.mem_cons_self _ _)
    have hlist := hI.lru_list _ _ hx
    have hlk : Linked s x := by
      unfold Linked
      rw [hlist]
      exact hx
    have hnd : (pre ++ x :: post).Nodup := hl ▸ t.lru_nodup BUF_DIRTY
    have hx0 : x ≠ 0 := fun h => by
      have := (t.carved_lru _ _ hx).1
      omega
    have hxpre : x ∉ pre := fun h => (List.nodup_append.mp hnd).2.2 h (List.mem_cons_self _ _)
    have hxpost : x ∉ post := (List.nodup_cons.mp (List.nodup_append.mp hnd).2.1).1
    have hne : s.lru_list BUF_DIRTY ≠ [] := fun h => by
      rw [h] at hx
      cases hx
    have hrec : ∀ (loc1 : OldLocals) (s1 : State) r s', Inv s1 → Tally s1 → Touched x s s1 →
        sync_old_buffers_scan fuel BUF_DIRTY i (b_next_free s x) loc1 s1 = .ok r s' →
        r.1 = false ∧ r.2.written = loc1.written ++ (post.take i).filter (due s) ∧
          sync_old_visits fuel (post.take i) s1 = .ok () s' := by
      intro loc1 s1 r s' hI1 t1 h1 e1
      cases i with
      | zero =>
        cases e1
        exact ⟨rfl, by simp, rfl⟩
      | succ i =>
        cases post with
        | nil => simp at hi
        | cons y post' =>
          have hnext : b_next_free s x = y := by
            unfold b_next_free ring_of
            rw [if_neg (hI.lru_dev _ _ hx), hlist, hl, ring_next_split pre _ x hxpre]
            rfl
          rw [hnext] at e1
          obtain ⟨pre', hl1⟩ := h1.behind hl hnd y post' rfl
          have := ih post' pre' y loc1 s1 r s' hI1 t1 hl1 (by simp at hi ⊢; omega) e1
          refine ⟨this.1, ?_, this.2.2⟩
          rw [this.2.1]
          congr 1
          refine List.filter_congr fun z hz => ?_
          have hz' : z ∈ y :: post' := List.mem_of_mem_take hz
          exact due_congr h1 fun hzx => hxpost (hzx ▸ hz')
    have htake : (x :: post).take (i + 1) = x :: post.take i := rfl
    unfold sync_old_buffers_scan at e
    rw [bind_run, getS_run] at e
    dsimp only at e
    rw [if_neg (not_not.mpr hlist), if_neg hne] at e
    by_cases c1 : BUF_DIRTY = BUF_DIRTY ∧ (s.b x).b_dirt = false ∧ (s.b x).b_lock = false
    · rw [if_pos c1] at e
      obtain ⟨a1, s1, e1, e⟩ := bind_inv e
      have hI1 := ((refile_buffer_good fuel x s).ok hI e1).1
      have t1 := (moves_refile_buffer fuel x s a1 s1 e1 t).1
      have h1 := refile_clean_touched fuel x s c1.2.1 a1 s1 e1
      have := hrec loc s1 r s' hI1 t1 h1 e
      refine ⟨this.1, ?_, sync_old_visits_cons fuel x _ s s1 s'
        ((sync_old_visit_clean fuel x s c1.2).trans e1) this.2.2⟩
      rw [this.2.1, htake, List.filter_cons_of_neg]
      unfold due
      rw [c1.2.1]
      simp
    rw [if_neg c1] at e
    by_cases c2 : (s.b x).b_lock = true ∨ (s.b x).b_dirt = false
    · rw [if_pos c2] at e
      have := hrec loc s r s' hI t (Touched.pre_tc.refl s) e
      have hnd2 : due s x = false := by
        unfold due
        rcases c2 with c2 | c2 <;> rw [c2] <;> simp
      refine ⟨this.1, ?_, sync_old_visits_cons fuel x _ s s s'
        (sync_old_visit_skip fuel x s (fun h => c1 ⟨rfl, h⟩) hnd2) this.2.2⟩
      rw [this.2.1, htake, List.filter_cons_of_neg]
      rw [hnd2]
      exact Bool.false_ne_true
    rw [if_neg c2] at e
    by_cases c3 : (s.b x).b_flushtime > s.jiffies
    · rw [if_pos c3] at e
      have := hrec _ s r s' hI t (Touched.pre_tc.refl s) e
      have hnd3 : due s x = false := by
        unfold due
        simp only [Bool.and_eq_false_imp, Bool.and_eq_true, decide_eq_false_iff_not, not_le]
        exact fun _ => c3
      refine ⟨this.1, ?_, sync_old_visits_cons fuel x _ s s s'
        (sync_old_visit_skip fuel x s (fun h => c1 ⟨rfl, h⟩) hnd3) this.2.2⟩
      rw [this.2.1, htake, List.filter_cons_of_neg]
      rw [hnd3]
      exact Bool.false_ne_true
    rw [if_neg c3] at e
    have hdue : due s x = true := by
      unfold due
      have hd : (s.b x).b_dirt = true := by
        cases h : (s.b x).b_dirt
        · exact absurd (Or.inr h) c2
        · rfl
      have hk : (s.b x).b_lock = false := by
        cases h : (s.b x).b_lock
        · rfl
        · exact absurd (Or.inl h) c2
      rw [hd, hk]
      simpa using c3
    obtain ⟨a1, s1, e1, e⟩ := bind_inv e
    obtain ⟨a2, s2, e2, e⟩ := bind_inv e
    obtain ⟨a3, s3, e3, e⟩ := bind_inv e
    have e123 : (setB x (fun h => { h with b_count := h.b_count + 1, b_flushtime := 0 }) >>=
        fun _ => ll_rw_block (refile_buffer fuel) fuel .WRITE [x] >>= fun _ =>
        setB x (fun h => { h with b_count := h.b_count - 1 }) >>= fun _ => (pure () : K Unit)) s
          = .ok () s3 := by
      rw [bind_run, e1]
      dsimp only
      rw [bind_run, e2]
      dsimp only
      rw [bind_run, e3]
      rfl
    have hI3 := ((pinned_write_post fuel x (fun _ => (pure () : K Unit)) s
      (Q := fun _ _ => True) (Or.inr hlk) fun s' _ _ => Post.pure_p trivial).ok hI e123).1
    have m1 := moves_setB_R x (fun h => { h with b_count := h.b_count + 1, b_flushtime := 0 })
      fun _ => rfl
    have t1 : Tally s1 := (m1 s a1 s1 e1 t).1
    have t2 := (moves_ll_rw_block_refile fuel fuel .WRITE [x] s1 a2 s2 e2 t1).1
    have m3 := moves_setB_R x (fun h => { h with b_count := h.b_count - 1 }) fun _ => rfl
    have t3 : Tally s3 := (m3 s2 a3 s3 e3 t2).1
    have h1 := touched_setB_R x _ s a1 s1 e1
    have h2 := touched_ll_rw_block fuel fuel .WRITE x hx0 s1 a2 s2 e2
    have h3 := touched_setB_R x _ s2 a3 _ e3
    have h13 := Touched.pre_tc.trans _ _ _ (Touched.pre_tc.trans _ _ _ h1 h2) h3
    have := hrec _ s3 r s' hI3 t3 h13 e
    refine ⟨this.1, ?_, sync_old_visits_cons fuel x _ s s3 s'
      ((sync_old_visit_due fuel x s hdue).trans e123) this.2.2⟩
    rw [this.2.1, htake, List.filter_cons_of_pos hdue]
    simp

theorem sync_old_list_written (fuel0 : Nat) : ∀ (fuel : Nat) (loc loc' : OldLocals)
    (s s' : State), Inv s → Tally s →
      sync_old_buffers_list fuel0 BUF_DIRTY fuel loc s = .ok loc' s' →
      loc'.written = loc.written ++ (s.lru_list BUF_DIRTY).filter (due s) ∧
        sync_old_visits fuel0 (s.lru_list BUF_DIRTY) s = .ok () s' := by
  intro fuel
  cases fuel with
  | zero => intro loc loc' s s' _ _ e; cases e
  | succ fuel =>
    intro loc loc' s s' hI t e
    unfold sync_old_buffers_list at e
    rw [bind_run, getS_run] at e
    dsimp only at e
    cases hl : s.lru_list BUF_DIRTY with
    | nil =>
      rw [hl] at e
      cases e
      exact ⟨by simp, rfl⟩
    | cons x post =>
      rw [hl] at e
      dsimp only at e
      obtain ⟨r, s1, e1, e⟩ := bind_inv e
      have hn : (s.nr_buffers_type BUF_DIRTY).toNat = post.length + 1 := by
        rw [t.nr_buffers_type, hl]
        simp
      rw [hn] at e1
      have := sync_old_scan_written fuel0 (post.length + 1) post [] x loc s r s1 hI t hl
        (le_refl _) e1
      rw [this.1] at e
      cases e
      have h3 := this.2.2
      rw [List.take_of_length_le (by simp)] at h3
      exact ⟨by rw [this.2.1, List.take_of_length_le (by simp)], h3⟩



theorem filed_sync_old_visit (fuel x : Nat) : KeepsR Filed (sync_old_visit fuel x) := by
  unfold sync_old_visit
  repeat' first
    | with_reducible exact KeepsR.pure_R Filed.pre_fl _
    | with_reducible exact KeepsR.kpanic_R _
    | with_reducible exact KeepsR.khang_R
    | with_reducible exact filed_refile_buffer _ _
    | with_reducible exact filed_ll_rw_block_refile _ _ _ _
    | ((with_reducible refine filed_setB_R _ _ ?_); intro v h; first | exact ⟨h, id⟩ | exact absurd h Bool.false_ne_true)
    | ((with_reducible refine KeepsR.modS_R _ fun _ => ?_); exact ⟨fun _ h => ⟨h, id⟩, fun _ h _ => h⟩)
    | ((with_reducible refine KeepsR.setB_R _ _ fun _ => ?_); exact ⟨fun _ h => ⟨h, id⟩, fun _ h _ => h⟩)
    | ((with_reducible refine KeepsR.setR_R _ _ fun _ => ?_); exact ⟨fun _ h => ⟨h, id⟩, fun _ h _ => h⟩)
    | with_reducible refine KeepsR.getS_bind_R fun _ => ?_
    | with_reducible refine KeepsR.bind_R Filed.pre_fl ?_ fun _ => ?_
    | ((try dsimp only); rw [ite_bind_jp])
    | with_reducible refine KeepsR.ite_R (fun _ => ?_) fun _ => ?_
    | dsimp only
    | split

theorem filed_sync_old_visits (fuel : Nat) (l : List Nat) :
    KeepsR Filed (sync_old_visits fuel l) := by
  induction l with
  | nil => exact KeepsR.pure_R Filed.pre_fl _
  | cons x rest ih =>
    unfold sync_old_visits
    repeat' first
      | with_reducible exact KeepsR.pure_R Filed.pre_fl _
      | with_reducible exact KeepsR.kpanic_R _
      | with_reducible exact KeepsR.khang_R
      | with_reducible exact ih
      | with_reducible exact filed_sync_old_visit _ _
      | ((with_reducible refine KeepsR.modS_R _ fun _ => ?_); exact ⟨fun _ h => ⟨h, id⟩, fun _ h _ => h⟩)
      | ((with_reducible refine KeepsR.setB_R _ _ fun _ => ?_); exact ⟨fun _ h => ⟨h, id⟩, fun _ h _ => h⟩)
      | ((with_reducible refine KeepsR.setR_R _ _ fun _ => ?_); exact ⟨fun _ h => ⟨h, id⟩, fun _ h _ => h⟩)
      | with_reducible refine KeepsR.getS_bind_R fun _ => ?_
      | with_reducible refine KeepsR.bind_R Filed.pre_fl ?_ fun _ => ?_
      | ((try dsimp only); rw [ite_bind_jp])
      | with_reducible refine KeepsR.ite_R (fun _ => ?_) fun _ => ?_
      | dsimp only
      | split

theorem touched_sync_old_visit (fuel x : Nat) (hx0 : x ≠ 0) :
    KeepsR (Touched x) (sync_old_visit fuel x) := by
  intro s a s' e
  by_cases c : (s.b x).b_dirt = false ∧ (s.b x).b_lock = false
  · rw [sync_old_visit_clean fuel x s c] at e
    exact refile_clean_touched fuel x s c.1 a s' e
  · by_cases hd : due s x = true
    · rw [sync_old_visit_due fuel x s hd] at e
      obtain ⟨a1, s1, e1, e⟩ := bind_inv e
      obtain ⟨a2, s2, e2, e⟩ := bind_inv e
      obtain ⟨a3, s3, e3, e⟩ := bind_inv e
      have hs : s' = s3 := by
        cases e
        rfl
      subst hs
      have h1 := touched_setB_R x _ s a1 s1 e1
      have h2 := touched_ll_rw_block fuel fuel .WRITE x hx0 s1 a2 s2 e2
      have h3 := touched_setB_R x _ s2 a3 _ e3
      exact Touched.pre_tc.trans _ _ _ (Touched.pre_tc.trans _ _ _ h1 h2) h3
    · rw [sync_old_visit_skip fuel x s c (by simpa using hd)] at e
      cases e
      exact Touched.pre_tc.refl s

theorem sync_old_visit_cleans (fuel x : Nat) (hx0 : x ≠ 0) (s : State) (a : Unit) (s' : State)
    (hd : due s x = true) (e : sync_old_visit fuel x s = .ok a s') :
    (s'.b x).b_dirt = false := by
  rw [sync_old_visit_due fuel x s hd] at e
  obtain ⟨a1, s1, e1, e⟩ := bind_inv e
  obtain ⟨a2, s2, e2, e⟩ := bind_inv e
  obtain ⟨a3, s3, e3, e⟩ := bind_inv e
  have hs : s' = s3 := by
    cases e
    rfl
  subst hs
  have hu : (s.b x).b_lock = false := by
    unfold due at hd
    cases h : (s.b x).b_lock
    · rfl
    · rw [h] at hd
      simp at hd
  have hu1 : (s1.b x).b_lock = false := by
    cases e1
    show (upd s.b x _ x).b_lock = false
    rw [upd_same]
    exact hu
  have c2 := ll_rw_block_write_cleans _ (filed_refile_buffer fuel) fuel x s1 hx0 hu1 a2 s2 e2
  cases e3
  show (upd s2.b x _ x).b_dirt = false
  rw [upd_same]
  exact c2

/-- Every descriptor of the list that was due at the start of the visits has been handed
to the request layer and is no longer dirty at their end. -/
theorem sync_old_visits_clean (fuel : Nat) : ∀ (l : List Nat) (s s' : State),
    (∀ y ∈ l, y ≠ 0) → l.Nodup → sync_old_visits fuel l s = .ok () s' →
      ∀ x ∈ l, due s x = true → (s'.b x).b_dirt = false := by
  intro l
  induction l with
  | nil => intro s s' _ _ _ x hx; cases hx
  | cons y rest ih =>
    intro s s' h0 hn e x hx hd
    unfold sync_old_visits at e
    obtain ⟨a1, s1, e1, e2⟩ := bind_inv e
    have hy0 := h0 y (List.mem_cons_self _ _)
    rcases List.mem_cons.mp hx with hxy | hx'
    · subst hxy
      exact (filed_sync_old_visits fuel rest s1 () s' e2).clean
        (sync_old_visit_cleans fuel x hy0 s a1 s1 hd e1)
    · have hxy : x ≠ y := fun h => (List.nodup_cons.mp hn).1 (h ▸ hx')
      have ht := touched_sync_old_visit fuel y hy0 s a1 s1 e1
      exact ih s1 s' (fun z hz => h0 z (List.mem_cons_of_mem _ hz)) (List.nodup_cons.mp hn).2 e2
        x hx' (by rw [due_congr ht hxy]; exact hd)

theorem sync_old_visits_outside (fuel : Nat) : ∀ (l : List Nat) (s s' : State),
    (∀ y ∈ l, y ≠ 0) → sync_old_visits fuel l s = .ok () s' →
      ∀ x, x ∉ l → ∃ r, s'.b x = { (s.b x) with b_reqnext := r } := by
  intro l
  induction l with
  | nil =>
    intro s s' _ e x _
    cases e
    exact ⟨_, rfl⟩
  | cons y rest ih =>
    intro s s' h0 e x hx
    unfold sync_old_visits at e
    obtain ⟨a1, s1, e1, e2⟩ := bind_inv e
    have hy0 := h0 y (List.mem_cons_self _ _)
    have hxy : x ≠ y := fun h => hx (h ▸ List.mem_cons_self _ _)
    obtain ⟨r1, h1⟩ := (touched_sync_old_visit fuel y hy0 s a1 s1 e1).heads x hxy
    obtain ⟨r, h2⟩ := ih s1 s' (fun z hz => h0 z (List.mem_cons_of_mem _ hz)) e2 x
      fun h => hx (List.mem_cons_of_mem _ h)
    exact ⟨r, by rw [h2, h1]⟩

/-- A dirty descriptor of the list that was not due at the start of the visits is at their
end as it was, but for its request link. -/
theorem sync_old_visits_skips (fuel : Nat) : ∀ (l : List Nat) (s s' : State),
    (∀ y ∈ l, y ≠ 0) → l.Nodup → sync_old_visits fuel l s = .ok () s' →
      ∀ x ∈ l, (s.b x).b_dirt = true → due s x = false →
        ∃ r, s'.b x = { (s.b x) with b_reqnext := r } := by
  intro l
  induction l with
  | nil => intro s s' _ _ _ x hx; cases hx
  | cons y rest ih =>
    intro s s' h0 hn e x hx hdirt hd
    unfold sync_old_visits at e
    obtain ⟨a1, s1, e1, e2⟩ := bind_inv e
    have hy0 := h0 y (List.mem_cons_self _ _)
    have h0' : ∀ z ∈ rest, z ≠ 0 := fun z hz => h0 z (List.mem_cons_of_mem _ hz)
    rcases List.mem_cons.mp hx with hxy | hx'
    · subst hxy
      rw [sync_old_visit_skip fuel x s (fun h => by rw [hdirt] at h; cases h.1) hd] at e1
      cases e1
      exact sync_old_visits_outside fuel rest s s' h0' e2 x (List.nodup_cons.mp hn).1
    · have hxy : x ≠ y := fun h => (List.nodup_cons.mp hn).1 (h ▸ hx')
      have ht := touched_sync_old_visit fuel y hy0 s a1 s1 e1
      obtain ⟨r1, h1⟩ := ht.heads x hxy
      obtain ⟨r, h2⟩ := ih s1 s' h0' (List.nodup_cons.mp hn).2 e2 x hx'
        (by rw [h1]; exact hdirt) (by rw [due_congr ht hxy]; exact hd)
      exact ⟨r, by rw [h2, h1]⟩

theorem ring_remove_eq_split (l' : List Nat) (x c : Nat) (pre post : List Nat)
    (h : ring_remove l' x = pre ++ c :: post) :
    ∃ pre' post', l' = pre' ++ c :: post' ∧ post.length ≤ post'.length ∧
      ∀ y ∈ pre', y = x ∨ y ∈ pre := by
  unfold ring_remove at h
  obtain ⟨l1, l2, e1, e2, e3⟩ := List.filter_eq_append_iff.mp h
  obtain ⟨l3, l4, e4, e6, _, e5⟩ := List.filter_eq_cons_iff.mp e3
  refine ⟨l1 ++ l3, l4, by rw [e1, e4, List.append_assoc], ?_, fun y hy => ?_⟩
  · rw [← e5]
    exact List.length_filter_le _ _
  · by_cases hyx : y = x
    · exact Or.inl hyx
    · right
      rcases List.mem_append.mp hy with h1 | h3
      · rw [← e2]
        exact List.mem_filter.mpr ⟨h1, by simpa using hyx⟩
      · have := e6 y h3
        simp at this
        exact absurd this hyx

theorem Around.pre_ar (x : Nat) : Pre (Around x) :=
  ⟨fun _ => ⟨fun _ => rfl, rfl, fun _ => ⟨rfl, rfl, rfl, rfl, rfl⟩⟩, fun _ _ _ h h' =>
    ⟨fun l => (h'.lists l).trans (h.lists l), h'.mem_map.trans h.mem_map,
      fun y => ⟨(h'.fields y).1.trans (h.fields y).1, (h'.fields y).2.1.trans (h.fields y).2.1,
        (h'.fields y).2.2.1.trans (h.fields y).2.2.1,
        (h'.fields y).2.2.2.1.trans (h.fields y).2.2.2.1,
        (h'.fields y).2.2.2.2.trans (h.fields y).2.2.2.2⟩⟩⟩

theorem Around.usable {x : Nat} {s s' : State} (h : Around x s s') (size y : Nat) :
    Usable size s' y ↔ Usable size s y := by
  obtain ⟨h1, h2, h3, h4, h5⟩ := h.fields y
  unfold Usable
  rw [h1, h2, h3, h4, h5, h.mem_map]

/-- A head other than `x`, with `x` not behind it on its list, keeps its place: as many
heads as before, or more, are behind it. -/
theorem Around.stay {x : Nat} {s s' : State} (h : Around x s s') {l : BufList} {c : Nat}
    {pre post : List Nat} (hc : c ≠ x) (hx : x ∉ post) (hl : s.lru_list l = pre ++ c :: post) :
    ∃ pre' post', s'.lru_list l = pre' ++ c :: post' ∧ post.length ≤ post'.length ∧
      ∀ y ∈ pre', y = x ∨ y ∈ pre := by
  have h1 := h.lists l
  rw [hl] at h1
  have h2 : ring_remove (pre ++ c :: post) x = ring_remove pre x ++ c :: post := by
    unfold ring_remove
    rw [List.filter_append, List.filter_cons_of_pos (by simpa using hc)]
    congr 2
    exact List.filter_eq_self.mpr fun a ha => by
      have : a ≠ x := fun h => hx (h ▸ ha)
      simpa using this
  rw [h2] at h1
  obtain ⟨pre', post', e, hlen, hpre⟩ := ring_remove_eq_split _ x c _ post h1
  refine ⟨pre', post', e, hlen, fun y hy => ?_⟩
  rcases hpre y hy with h | h
  · exact Or.inl h
  · exact Or.inr (List.mem_filter.mp h).1


theorem ring_remove_append_self (l : List Nat) (x : Nat) :
    ring_remove (l ++ [x]) x = ring_remove l x := by
  unfold ring_remove
  rw [List.filter_append]
  simp

theorem around_setB (x bh : Nat) (f : buffer_head → buffer_head)
    (hf : ∀ v, (f v).b_data = v.b_data ∧ (f v).b_count = v.b_count ∧ (f v).b_size = v.b_size ∧
      (f v).b_dirt = v.b_dirt ∧ (f v).b_lock = v.b_lock) : KeepsR (Around x) (setB bh f) := by
  refine KeepsR.setB_R _ _ fun s => ⟨fun _ => rfl, rfl, fun y => ?_⟩
  show (upd s.b bh (f (s.b bh)) y).b_data = _ ∧ (upd s.b bh (f (s.b bh)) y).b_count = _ ∧
    (upd s.b bh (f (s.b bh)) y).b_size = _ ∧ (upd s.b bh (f (s.b bh)) y).b_dirt = _ ∧
    (upd s.b bh (f (s.b bh)) y).b_lock = _
  by_cases e : y = bh
  · subst e
    rw [upd_same]
    exact hf _
  · rw [upd_other _ _ _ _ e]
    exact ⟨rfl, rfl, rfl, rfl, rfl⟩

theorem around_remove_from_queues (x : Nat) : KeepsR (Around x) (remove_from_queues x) := by
  intro s a s' e
  by_cases hd : (s.b x).b_dev = B_FREE
  · simp only [remove_from_queues, bind_run, getS_run, ite_run, if_pos hd, remove_from_free_list,
      modS_run, kpanic_run] at e
    split_ifs at e
    cases e
    exact ⟨fun _ => rfl, rfl, fun _ => ⟨rfl, rfl, rfl, rfl, rfl⟩⟩
  · simp only [remove_from_queues, bind_run, getS_run, ite_run, modS_run, if_neg hd,
      remove_from_hash_queue, remove_from_lru_list, kpanic_run] at e
    split_ifs at e with h1
    cases e
    refine ⟨fun l => ?_, rfl, fun _ => ⟨rfl, rfl, rfl, rfl, rfl⟩⟩
    show ring_remove (upd s.lru_list _ _ l) x = _
    by_cases hl : l = (s.b x).b_list
    · subst hl
      rw [upd_same, ring_remove_idem]
    · rw [upd_other _ _ _ _ hl]

theorem around_put_last_free (x : Nat) : KeepsR (Around x) (put_last_free x) := by
  intro s a s' e
  simp only [put_last_free, bind_run, getS_run, ite_run, modS_run, pure_run, setB_run] at e
  split_ifs at e
  · cases e
    exact (Around.pre_ar x).refl s
  · cases e
    refine ⟨fun _ => rfl, rfl, fun y => ?_⟩
    show (upd s.b x _ y).b_data = _ ∧ (upd s.b x _ y).b_count = _ ∧
      (upd s.b x _ y).b_size = _ ∧ (upd s.b x _ y).b_dirt = _ ∧ (upd s.b x _ y).b_lock = _
    by_cases e : y = x
    · subst e
      rw [upd_same]
      exact ⟨rfl, rfl, rfl, rfl, rfl⟩
    · rw [upd_other _ _ _ _ e]
      exact ⟨rfl, rfl, rfl, rfl, rfl⟩

theorem around_insert_into_queues (x : Nat) : KeepsR (Around x) (insert_into_queues x) := by
  intro s a s' e
  by_cases hd : (s.b x).b_dev = B_FREE
  · simp only [insert_into_queues, bind_run, getS_run, ite_run, if_pos hd] at e
    exact around_put_last_free x s a s' e
  · simp only [insert_into_queues, bind_run, getS_run, ite_run, modS_run, pure_run, kpanic_run,
      if_neg hd] at e
    split_ifs at e with h1 h2 <;> cases e <;>
      refine ⟨fun l => ?_, rfl, fun _ => ⟨rfl, rfl, rfl, rfl, rfl⟩⟩ <;>
      (show ring_remove (upd s.lru_list _ _ l) x = _) <;>
      by_cases hl : l = (s.b x).b_list
    · subst hl
      rw [upd_same, ring_remove_append_self]
    · rw [upd_other _ _ _ _ hl]
    · subst hl
      rw [upd_same, ring_remove_append_self]
    · rw [upd_other _ _ _ _ hl]

/-- On a clean buffer `refile_buffer` moves that buffer and no other, and does not wake
the flush daemon. -/
theorem refile_clean_around (fuel x : Nat) (s : State) (hd : (s.b x).b_dirt = false) :
    KeepsAt (Around x) (refile_buffer fuel x) s := by
  cases fuel with
  | zero => exact KeepsAt.khang_A s
  | succ fuel =>
    have hne := refile_dispose_clean hd
    have hp : Pre (Around x) := Around.pre_ar x
    show KeepsAt (Around x) (refile_buffer_body (refile_buffer fuel) fuel x) s
    unfold refile_buffer_body
    refine KeepsAt.getS_bind_A ?_
    refine KeepsAt.ite_A (fun _ => KeepsAt.kpanic_A _ _) fun hdev => ?_
    dsimp only
    rw [ite_bind_jp]
    refine KeepsAt.bind_A hp (KeepsAt.ite_A (fun _ => (around_setB x x _ (by intro _; exact ⟨rfl, rfl, rfl, rfl, rfl⟩)).at_R s)
      fun _ => KeepsAt.pure_A hp _ _) ?_
    intro _ s1 _ h1
    refine KeepsAt.ite_A (fun _ => ?_) fun _ => KeepsAt.pure_A hp _ _
    rw [ite_bind_jp]
    refine KeepsAt.bind_A hp (KeepsAt.ite_A (fun _ => (around_setB x x _ (by intro _; exact ⟨rfl, rfl, rfl, rfl, rfl⟩)).at_R s1)
      fun _ => KeepsAt.pure_A hp _ _) ?_
    intro _ s2 _ h2
    refine KeepsAt.getS_bind_A ?_
    refine KeepsAt.bind_A hp ((around_remove_from_queues x).at_R s2) ?_
    intro _ s3 _ h3
    refine KeepsAt.bind_A hp ((around_setB x x _ (by intro _; exact ⟨rfl, rfl, rfl, rfl, rfl⟩)).at_R s3) ?_
    intro _ s4 e4 h4
    refine KeepsAt.bind_A hp ((around_insert_into_queues x).at_R s4) ?_
    intro _ s5 _ h5
    refine KeepsAt.getS_bind_A ?_
    rw [if_neg fun hw => hne (locked1_dirty _ _ hw.1)]
    exact KeepsAt.pure_A hp _ _


theorem reachable_sound {s : State} (h : Reachable s) : Sound s :=
  ⟨reachable_inv h, reachable_tally h, reachable_filed h⟩


theorem Steady.refl_sd (i : BufList) (s : State) : Steady i s s :=
  ⟨fun _ _ _ _ _ h => h, fun _ _ => Iff.rfl⟩

theorem Steady.trans_sd {i : BufList} {s s' s'' : State} (h : Steady i s s')
    (h' : Steady i s' s'') : Steady i s s'' :=
  ⟨fun size l hl c n hp => h'.placed size l hl c n (h.placed size l hl c n hp),
    fun size y => (h'.usable size y).trans (h.usable size y)⟩

theorem Placed.mem_pl {size : Nat} {s : State} {i : BufList} {bh : Nat} {n : Int}
    (h : Placed size s i bh n) : bh ∈ s.lru_list i := by
  obtain ⟨pre, post, hl, _⟩ := h
  rw [hl]
  exact List.mem_append_right _ (List.mem_cons_self _ _)

/-- A move of `x`, a head of the list `i` that is not usable where it comes to be, leaves
the other lists steady. -/
theorem Around.steady {x : Nat} {s s' : State} (h : Around x s s') (t : Tally s)
    {i : BufList} (hx : x ∈ s.lru_list i)
    (hu : ∀ size l, x ∈ s'.lru_list l → ¬ Usable size s' x) : Steady i s s' := by
  refine ⟨fun size l hl c n hp => ?_, h.usable⟩
  obtain ⟨pre, post, e, hn, hpre⟩ := hp
  have hc : c ∈ s.lru_list l := by
    rw [e]
    exact List.mem_append_right _ (List.mem_cons_self _ _)
  have hxl : x ∉ s.lru_list l := fun hm => hl (t.lru_lru _ _ x hm hx)
  obtain ⟨pre', post', e', hlen, hsub⟩ := h.stay (fun hcx => hxl (hcx ▸ hc))
    (fun hm => hxl (by rw [e]; exact List.mem_append_right _ (List.mem_cons_of_mem _ hm))) e
  refine ⟨pre', post', e', by omega, fun y hy => ?_⟩
  rcases hsub y hy with hyx | hyp
  · rw [hyx]
    exact hu size l (by rw [e', ← hyx]; exact List.mem_append_left _ hy)
  · exact fun hU => hpre y hyp ((h.usable size y).mp hU)

/-- The successor of a placed head with heads behind it: the next head of the list, which
is placed when the head itself is moved, or stays and is not usable. -/
theorem Placed.next_pl {size : Nat} {s : State} (hs : Sound s) {i : BufList} {bh : Nat} {n : Nat}
    (h : Placed size s i bh ((n + 1 : Nat) : Int)) (hn : 0 < n) :
    b_next_free s bh ∈ s.lru_list i ∧ b_next_free s bh ≠ bh ∧
      ∀ s', Around bh s s' → (∀ l, bh ∈ s'.lru_list l → ¬ Usable size s' bh) →
        Placed size s' i (b_next_free s bh) n := by
  obtain ⟨pre, post, hl, hlen, hpre⟩ := h
  have hx : bh ∈ s.lru_list i := by
    rw [hl]
    exact List.mem_append_right _ (List.mem_cons_self _ _)
  have hnd : (pre ++ bh :: post).Nodup := hl ▸ hs.tally.lru_nodup i
  have hxpre : bh ∉ pre := fun h => (List.nodup_append.mp hnd).2.2 h (List.mem_cons_self _ _)
  have hnd2 := (List.nodup_append.mp hnd).2.1
  cases post with
  | nil =>
    simp at hlen
    omega
  | cons y post' =>
    have hnext : b_next_free s bh = y := by
      unfold b_next_free ring_of
      rw [if_neg (hs.inv.lru_dev _ _ hx), hs.inv.lru_list _ _ hx, hl, ring_next_split pre _ bh hxpre]
      rfl
    have hyb : y ≠ bh := fun h => (List.nodup_cons.mp hnd2).1 (h ▸ List.mem_cons_self _ _)
    have hbp : bh ∉ post' := fun h => (List.nodup_cons.mp hnd2).1 (List.mem_cons_of_mem _ h)
    have hl2 : s.lru_list i = (pre ++ [bh]) ++ y :: post' := by
      rw [hl]
      simp
    have hlen2 : (n : Int) ≤ (post'.length : Int) + 1 := by
      simp at hlen
      omega
    rw [hnext]
    refine ⟨by rw [hl2]; exact List.mem_append_right _ (List.mem_cons_self _ _), hyb,
      fun s' ha hu => ?_⟩
    obtain ⟨pre', post1, e', hle, hsub⟩ := ha.stay hyb hbp hl2
    refine ⟨pre', post1, e', by omega, fun z hz => ?_⟩
    have hzl : z ∈ s'.lru_list i := by
      rw [e']
      exact List.mem_append_left _ hz
    rcases hsub z hz with hzx | hzp
    · rw [hzx]
      exact hu i (hzx ▸ hzl)
    · rcases List.mem_append.mp hzp with h1 | h1
      · exact fun hU => hpre z h1 ((ha.usable size z).mp hU)
      · rw [List.mem_singleton.mp h1]
        exact hu i (List.mem_singleton.mp h1 ▸ hzl)

/-- The candidate search on a list other than DIRTY, from a placed head: it keeps the
invariants and the free lists, it leaves the other lists steady, and the head it stops at
with a count left is placed and usable. -/
theorem refill_scan_placed (fuel size : Nat) (i : BufList) (hi : i ≠ BUF_DIRTY) :
    ∀ (n bh : Nat) (s : State) (r : Nat × Nat) (s' : State), Sound s →
      (0 < n → Placed size s i bh n) → refill_scan fuel size i n bh s = .ok r s' →
      Sound s' ∧ Steady i s s' ∧ s'.free_list = s.free_list ∧
        (r.1 ≠ 0 → Placed size s' i r.2 r.1 ∧ Usable size s' r.2) := by
  intro n
  induction n with
  | zero =>
    intro bh s r s' hs _ e
    cases e
    exact ⟨hs, Steady.refl_sd i s, rfl, fun h => absurd rfl h⟩
  | succ n ih =>
    intro bh s r s' hs hp e
    have hp1 := hp (Nat.succ_pos n)
    have hx := hp1.mem_pl
    have hb0 : bh ≠ 0 := fun h => by
      have := (hs.tally.carved_lru _ _ hx).1
      omega
    have hclean : (s.b bh).b_dirt = false := by
      cases hd : (s.b bh).b_dirt
      · rfl
      · have hc := hs.tally.carved_lru _ _ hx
        have := hs.filed bh hc.1 hc.2 hd
        rw [hs.inv.lru_list _ _ hx] at this
        exact absurd this hi
    unfold refill_scan at e
    rw [bind_run, getS_run] at e
    dsimp only at e
    rw [if_neg hb0] at e
    have hsame : ¬ Usable size s bh → ∀ r s',
        refill_scan fuel size i n (b_next_free s bh) s = .ok r s' →
        Sound s' ∧ Steady i s s' ∧ s'.free_list = s.free_list ∧
          (r.1 ≠ 0 → Placed size s' i r.2 r.1 ∧ Usable size s' r.2) :=
      fun hu r s' e => ih _ s r s' hs
        (fun hn => (hp1.next_pl hs hn).2.2 s ((Around.pre_ar bh).refl s) fun _ _ => hu) e
    by_cases cA : s.mem_map (MAP_NR (s.b bh).b_data) ≠ 1 ∨ (s.b bh).b_dirt = true
    · rw [if_pos cA] at e
      obtain ⟨a1, s1, e1, e2⟩ := bind_inv e
      obtain ⟨hI1, hst⟩ := (refile_buffer_good fuel bh s).ok hs.inv e1
      have hs1 : Sound s1 := ⟨hI1, (moves_refile_buffer fuel bh s a1 s1 e1 hs.tally).1,
        (filed_refile_buffer fuel bh s a1 s1 e1).all hs.filed⟩
      have ha := refile_clean_around fuel bh s hclean a1 s1 e1
      have hu : ∀ sz, ¬ Usable sz s1 bh := by
        intro sz hU
        have hU0 := (ha.usable sz bh).mp hU
        rcases cA with c | c
        · exact c hU0.2.2.1
        · rw [hclean] at c
          exact Bool.false_ne_true c
      obtain ⟨h1, h2, h3, h4⟩ := ih _ s1 r s' hs1
        (fun hn => (hp1.next_pl hs hn).2.2 s1 ha fun _ _ => hu size) e2
      exact ⟨h1, (ha.steady hs.tally hx fun sz _ _ => hu sz).trans_sd h2,
        by rw [h3, hst.free_list], h4⟩
    rw [if_neg cA] at e
    by_cases cB : (s.b bh).b_count ≠ 0 ∨ (s.b bh).b_size ≠ size
    · rw [if_pos cB] at e
      exact hsame (fun hU => cB.elim (fun c => c hU.1) fun c => c hU.2.1) r s' e
    rw [if_neg cB] at e
    by_cases cC : (s.b bh).b_lock = true ∧ (i = BUF_LOCKED ∨ i = BUF_LOCKED1)
    · rw [if_pos cC] at e
      cases e
      exact ⟨hs, Steady.refl_sd i s, rfl, fun h => absurd rfl h⟩
    rw [if_neg cC] at e
    have hbad : BADNESS (s.b bh) = 0 ↔
        (s.b bh).b_dirt = false ∧ (s.b bh).b_lock = false := by
      unfold BADNESS
      cases (s.b bh).b_dirt <;> cases (s.b bh).b_lock <;> simp
    by_cases cD : BADNESS (s.b bh) ≠ 0
    · rw [if_pos cD] at e
      exact hsame (fun hU => cD (hbad.mpr hU.2.2.2)) r s' e
    rw [if_neg cD] at e
    cases e
    simp only [not_or, not_not] at cA cB cD
    exact ⟨hs, Steady.refl_sd i s, rfl, fun _ => ⟨hp1, cB.1, cB.2, cA.1, hbad.mp cD⟩⟩

/-- The candidate search with the assignment of `candidate[i]`: the new candidate of the
list `i` is sound, and so are the candidates of the other lists that were. -/
theorem refill_candidate_placed (fuel size : Nat) (i : BufList) (hd : i ≠ BUF_DIRTY)
    (hsh : i ≠ BUF_SHARED) (n bh : Nat) (loc loc' : RefillLocals) (s s' : State)
    (hs : Sound s) (hp : 0 < n → Placed size s i bh n)
    (e : refill_candidate fuel size i n bh loc s = .ok loc' s') :
    Sound s' ∧ s'.free_list = s.free_list ∧ Candidate size loc' s' i ∧
      ∀ j, j ≠ i → Candidate size loc s j → Candidate size loc' s' j := by
  unfold refill_candidate at e
  obtain ⟨r, s1, e1, e2⟩ := bind_inv e
  obtain ⟨h1, h2, h3, h4⟩ := refill_scan_placed fuel size i hd n bh s r s1 hs hp e1
  rw [bind_run, getS_run] at e2
  dsimp only at e2
  generalize hcd : (if r.1 = 0 then 0 else r.2) = cand at e2
  by_cases c : cand ≠ 0 ∧ (s1.b cand).b_count ≠ 0
  · rw [if_pos c] at e2
    cases e2
  rw [if_neg c] at e2
  obtain ⟨hlc, hlb, hss⟩ : loc'.candidate = upd loc.candidate i cand ∧
      loc'.buffers = upd loc.buffers i r.1 ∧ s' = s1 := by
    cases e2
    exact ⟨rfl, rfl, rfl⟩
  subst hss
  refine ⟨h1, h3, ?_, fun j hj hc => ?_⟩
  · intro hc
    rw [hlc, upd_same] at hc
    have hr : r.1 ≠ 0 := fun h => hc (by rw [← hcd, if_pos h])
    refine ⟨hd, hsh, ?_⟩
    rw [hlc, hlb, upd_same, upd_same, ← hcd, if_neg hr]
    exact h4 hr
  · intro hc'
    rw [hlc, upd_other _ _ _ _ hj] at hc'
    obtain ⟨a1, a2, a3, a4⟩ := hc hc'
    refine ⟨a1, a2, ?_⟩
    rw [hlc, hlb, upd_other _ _ _ _ hj, upd_other _ _ _ _ hj]
    exact ⟨h2.placed size j hj _ _ a3, (h2.usable size _).mpr a4⟩

/-- The loop at `repeat0` of `refill_freelist` sets sound candidates. -/
theorem refill_init_placed (fuel size : Nat) : ∀ (ls : List BufList) (loc loc' : RefillLocals)
    (s s' : State), Sound s → (∀ j, j ∉ ls → Candidate size loc s j) →
      refill_init fuel size ls loc s = .ok loc' s' →
      Sound s' ∧ s'.free_list = s.free_list ∧ Candidates size loc' s' := by
  intro ls
  induction ls with
  | nil =>
    intro loc loc' s s' hs hc e
    cases e
    exact ⟨hs, rfl, fun j => hc j (List.not_mem_nil j)⟩
  | cons i rest ih =>
    intro loc loc' s s' hs hc e
    unfold refill_init at e
    rw [bind_run, getS_run] at e
    dsimp only at e
    by_cases c1 : i = BUF_DIRTY ∨ i = BUF_SHARED ∨ s.nr_buffers_type i = 0
    · rw [if_pos c1] at e
      refine ih _ _ _ _ hs (fun j hj => ?_) e
      by_cases hji : j = i
      · intro h
        exfalso
        apply h
        show upd loc.candidate i 0 j = 0
        rw [hji, upd_same]
      · intro h
        have e3 : upd loc.candidate i 0 j = loc.candidate j := upd_other _ _ _ _ hji
        obtain ⟨a1, a2, a3⟩ := hc j (fun hm => (List.mem_cons.mp hm).elim hji hj)
          (fun h0 => h (e3.trans h0))
        refine ⟨a1, a2, ?_⟩
        show Placed size s j (upd loc.candidate i _ j) (upd loc.buffers i _ j) ∧
          Usable size s (upd loc.candidate i _ j)
        rw [upd_other _ _ _ _ hji, upd_other _ _ _ _ hji]
        exact a3
    rw [if_neg c1] at e
    have hlen := hs.tally.nr_buffers_type i
    rw [if_neg (by rw [hlen]; omega)] at e
    obtain ⟨loc1, s1, e1, e2⟩ := bind_inv e
    simp only [not_or] at c1
    have hpl : 0 < (s.nr_buffers_type i).toNat →
        Placed size s i ((s.lru_list i).headD 0) ((s.nr_buffers_type i).toNat : Nat) := by
      intro _
      cases hl : s.lru_list i with
      | nil =>
        rw [hl] at hlen
        exact absurd hlen c1.2.2
      | cons x post =>
        refine ⟨[], post, hl, ?_, fun y hy => absurd hy (List.not_mem_nil y)⟩
        rw [hlen, hl]
        simp
    obtain ⟨hs1, hf1, hi1, ho1⟩ := refill_candidate_placed fuel size i c1.1 c1.2.1 _ _ loc loc1
      s s1 hs hpl e1
    obtain ⟨h1, h2, h3⟩ := ih _ _ _ _ hs1 (fun j hj => by
      by_cases hji : j = i
      · rw [hji]
        exact hi1
      · exact ho1 j hji (hc j fun hm => (List.mem_cons.mp hm).elim hji hj)) e2
    exact ⟨h1, by rw [h2, hf1], h3⟩


/-- The unlinking of the victim by `refill_freelist`: the invariants are kept, the victim is
on the free list of its size and on no disposition list, and every other head keeps its
place. -/
theorem reclaim_sound (bh : Nat) (s s1 s2 s3 : State) (a1 a2 a3 : Unit) (hs : Sound s)
    (h0 : bh ≠ 0) (hc : (s.b bh).b_count = 0)
    (e1 : remove_from_queues bh s = .ok a1 s1)
    (e2 : setB bh (fun h => { h with b_dev := B_FREE }) s1 = .ok a2 s2)
    (e3 : put_last_free bh s2 = .ok a3 s3) :
    Sound s3 ∧ Around bh s s3 ∧ bh ∈ s3.free_list (BUFSIZE_INDEX (s.b bh).b_size) ∧
      ∀ l, bh ∉ s3.lru_list l := by
  have e123 : (remove_from_queues bh >>= fun _ =>
      setB bh (fun h => { h with b_dev := B_FREE }) >>= fun _ => put_last_free bh) s
        = .ok () s3 := by
    rw [bind_run, e1]
    dsimp only
    rw [bind_run, e2]
    dsimp only
    rw [e3]
  have e1234 : (remove_from_queues bh >>= fun _ =>
      setB bh (fun h => { h with b_dev := B_FREE }) >>= fun _ => put_last_free bh >>= fun _ =>
        (pure () : K Unit)) s = .ok () s3 := by
    rw [bind_run, e1]
    dsimp only
    rw [bind_run, e2]
    dsimp only
    rw [bind_run, e3]
    rfl
  have hI3 := ((reclaim_post bh (fun _ => (pure () : K Unit)) s hc (fun _ _ => True)
    fun s' _ _ => Post.pure_p trivial).ok hs.inv e1234).1
  have t3 := (reclaim_link_moves bh _ (by intro _; rfl) s () s3 e123 hs.tally).1
  have f3 : Filed s s3 := Filed.pre_fl.trans _ _ _ (Filed.pre_fl.trans _ _ _
    (filed_remove_from_queues bh s a1 s1 e1)
    (filed_setB_R bh _ (by intro _ h; exact ⟨h, id⟩) s1 a2 s2 e2)) (filed_put_last_free bh s2 a3 s3 e3)
  have ha : Around bh s s3 := (Around.pre_ar bh).trans _ _ _ ((Around.pre_ar bh).trans _ _ _
    (around_remove_from_queues bh s a1 s1 e1)
    (around_setB bh bh _ (by intro _; exact ⟨rfl, rfl, rfl, rfl, rfl⟩) s1 a2 s2 e2)) (around_put_last_free bh s2 a3 s3 e3)
  have h1 := refiled_remove_from_queues bh s a1 s1 e1
  have hsz2 : (s2.b bh).b_size = (s.b bh).b_size := by
    cases e2
    show (upd s1.b _ _ _).b_size = _
    rw [upd_same]
    show (s1.b _).b_size = _
    rw [(h1.fields _).2.2.1]
  have hm := put_last_free_mem _ s2 s3 a3 h0 e3
  rw [hsz2] at hm
  exact ⟨⟨hI3, t3, f3.all hs.filed⟩, ha, hm.1, fun l hl => t3.free_lru _ l bh hm.1 hl⟩



/-- The election of `refill_freelist` keeps the winner it was given, when no candidate of the
lists is below `best_time`, or returns the first of the lists whose candidate has the
smallest `b_lru_time`: the candidates of the lists before it are strictly younger. -/
theorem refill_election_first (s : State) (candidate : BufList → Nat) :
    ∀ (l : List BufList) (best : Nat) (w : Option BufList) (i : BufList),
      refill_election s candidate l best w = some i →
      (w = some i ∧ ∀ j ∈ l, candidate j ≠ 0 → best ≤ (s.b (candidate j)).b_lru_time) ∨
      ∃ pre post, l = pre ++ i :: post ∧ candidate i ≠ 0 ∧
        (s.b (candidate i)).b_lru_time < best ∧
        (∀ j ∈ pre, candidate j ≠ 0 →
          (s.b (candidate i)).b_lru_time < (s.b (candidate j)).b_lru_time) ∧
        ∀ j ∈ post, candidate j ≠ 0 →
          (s.b (candidate i)).b_lru_time ≤ (s.b (candidate j)).b_lru_time := by
  intro l
  induction l with
  | nil =>
    intro best w i e
    unfold refill_election at e
    exact Or.inl ⟨e, fun j hj => absurd hj (List.not_mem_nil j)⟩
  | cons k rest ih =>
    intro best w i e
    unfold refill_election at e
    by_cases h0 : candidate k = 0
    · rw [if_pos h0] at e
      rcases ih best w i e with ⟨a, b⟩ | ⟨pre, post, a, b, c, d, f⟩
      · refine Or.inl ⟨a, fun j hj hc => ?_⟩
        rcases List.mem_cons.mp hj with rfl | hj
        · exact absurd h0 hc
        · exact b j hj hc
      · refine Or.inr ⟨k :: pre, post, by rw [a]; rfl, b, c, fun j hj hc => ?_, f⟩
        rcases List.mem_cons.mp hj with rfl | hj
        · exact absurd h0 hc
        · exact d j hj hc
    rw [if_neg h0] at e
    by_cases h1 : (s.b (candidate k)).b_lru_time < best
    · rw [if_pos h1] at e
      rcases ih _ (some k) i e with ⟨a, b⟩ | ⟨pre, post, a, b, c, d, f⟩
      · have hki : k = i := Option.some.inj a
        subst hki
        exact Or.inr ⟨[], rest, rfl, h0, h1, fun j hj => absurd hj (List.not_mem_nil j), b⟩
      · refine Or.inr ⟨k :: pre, post, by rw [a]; rfl, b, lt_trans c h1, fun j hj hc => ?_, f⟩
        rcases List.mem_cons.mp hj with rfl | hj
        · exact c
        · exact d j hj hc
    · rw [if_neg h1] at e
      rcases ih best w i e with ⟨a, b⟩ | ⟨pre, post, a, b, c, d, f⟩
      · refine Or.inl ⟨a, fun j hj hc => ?_⟩
        rcases List.mem_cons.mp hj with rfl | hj
        · exact not_lt.mp h1
        · exact b j hj hc
      · refine Or.inr ⟨k :: pre, post, by rw [a]; rfl, b, c, fun j hj hc => ?_, f⟩
        rcases List.mem_cons.mp hj with rfl | hj
        · exact lt_of_lt_of_le c (not_lt.mp h1)
        · exact d j hj hc

/-- One turn of the loop at `repeat` of `refill_freelist` that elects the list `i`. -/
theorem refill_reclaim_turn (fuel0 size fuel : Nat) (loc : RefillLocals) (s : State)
    (i : BufList) (hs : Sound s) (hc : Candidates size loc s) (hn : 0 < loc.needed)
    (hw : refill_election s loc.candidate ALL_LISTS UINT_MAX none = some i) :
    (loc.candidate i ≠ 0 ∧ i ≠ BUF_DIRTY ∧ i ≠ BUF_SHARED ∧
      Usable size s (loc.candidate i) ∧ (s.b (loc.candidate i)).b_dev ≠ B_FREE ∧
      (∃ pre post, s.lru_list i = pre ++ loc.candidate i :: post ∧
        ∀ y ∈ pre, ¬ Usable size s y) ∧
      loc.candidate i ∉ s.lru_list BUF_DIRTY ∧ loc.candidate i ∉ s.lru_list BUF_SHARED ∧
      (∀ j, loc.candidate j ≠ 0 →
        (s.b (loc.candidate i)).b_lru_time ≤ (s.b (loc.candidate j)).b_lru_time) ∧
      ∃ pre post, ALL_LISTS = pre ++ i :: post ∧ ∀ j ∈ pre, loc.candidate j ≠ 0 →
        (s.b (loc.candidate i)).b_lru_time < (s.b (loc.candidate j)).b_lru_time) ∧
    ∀ r s', refill_reclaim fuel0 size (fuel + 1) loc s = .ok r s' →
      ∃ loc1 s1, Sound s1 ∧ Candidates size loc1 s1 ∧
        loc.candidate i ∈ s1.free_list (BUFSIZE_INDEX size) ∧
        (∀ l, loc.candidate i ∉ s1.lru_list l) ∧
        refill_reclaim fuel0 size fuel loc1 s1 = .ok r s' := by
  obtain ⟨hc0, _, hmin⟩ := refill_election_min s loc.candidate ALL_LISTS UINT_MAX none i
    (fun k hk => Option.noConfusion hk) hw
  obtain ⟨hid, hish, hpl, hus⟩ := hc i hc0
  have hx := hpl.mem_pl
  have hfirst : ∃ pre post, ALL_LISTS = pre ++ i :: post ∧ ∀ j ∈ pre, loc.candidate j ≠ 0 →
      (s.b (loc.candidate i)).b_lru_time < (s.b (loc.candidate j)).b_lru_time := by
    rcases refill_election_first s loc.candidate ALL_LISTS UINT_MAX none i hw with
      ⟨a, _⟩ | ⟨pre, post, a, _, _, d, _⟩
    · exact Option.noConfusion a
    · exact ⟨pre, post, a, d⟩
  refine ⟨⟨hc0, hid, hish, hus, hs.inv.lru_dev _ _ hx,
    by obtain ⟨pre, post, a, _, b⟩ := hpl; exact ⟨pre, post, a, b⟩,
    fun h => hid (hs.tally.lru_lru _ _ _ hx h),
    fun h => hish (hs.tally.lru_lru _ _ _ hx h), fun j hj => hmin j (all_lists_mem j) hj,
    hfirst⟩, ?_⟩
  intro r s' e
  unfold refill_reclaim at e
  rw [if_neg (not_le.mpr hn), bind_run, getS_run] at e
  dsimp only at e
  rw [hw] at e
  dsimp only at e
  by_cases c1 : (s.b (loc.candidate i)).b_count ≠ 0 ∨ (s.b (loc.candidate i)).b_size ≠ size
  · rw [if_pos c1] at e
    cases e
  rw [if_neg c1] at e
  by_cases c2 : s.mem_map (MAP_NR (s.b (loc.candidate i)).b_data) ≠ 1
  · rw [if_pos c2] at e
    cases e
  rw [if_neg c2] at e
  by_cases c3 : BADNESS (s.b (loc.candidate i)) ≠ 0
  · rw [if_pos c3] at e
    cases e
  rw [if_neg c3] at e
  by_cases c4 : (s.b (loc.candidate i)).b_dev = B_FREE
  · rw [if_pos c4] at e
    cases e
  rw [if_neg c4] at e
  simp only [not_or, not_not] at c1 c2 c3
  have hbad : (s.b (loc.candidate i)).b_dirt = false ∧ (s.b (loc.candidate i)).b_lock = false := by
    unfold BADNESS at c3
    cases hd : (s.b (loc.candidate i)).b_dirt <;> cases hl : (s.b (loc.candidate i)).b_lock <;>
      rw [hd, hl] at c3 <;> simp at c3 ⊢
  obtain ⟨a1, s1, e1, ea⟩ := bind_inv e
  obtain ⟨a2, s2, e2, eb⟩ := bind_inv ea
  obtain ⟨a3, s3, e3, ec⟩ := bind_inv eb
  clear e ea eb
  obtain ⟨hs3, ha, hfree, hnol⟩ := reclaim_sound _ s s1 s2 s3 a1 a2 a3 hs hc0 c1.1 e1 e2 e3
  rw [c1.2] at hfree
  have hst := ha.steady hs.tally hx fun _ l hl => absurd hl (hnol l)
  have hoth : ∀ (loc2 : RefillLocals) (cand : Nat) (b : Int),
      loc2.candidate = upd loc.candidate i cand → loc2.buffers = upd loc.buffers i b →
      ∀ j, j ≠ i → Candidate size loc2 s3 j := by
    intro loc2 cand b h1 h2 j hj hcj
    rw [h1, upd_other _ _ _ _ hj] at hcj
    obtain ⟨b1, b2, b3, b4⟩ := hc j hcj
    refine ⟨b1, b2, ?_⟩
    rw [h1, h2, upd_other _ _ _ _ hj, upd_other _ _ _ _ hj]
    exact ⟨hst.placed size j hj _ _ b3, (hst.usable size _).mpr b4⟩
  have hzero : ∀ (loc2 : RefillLocals) (b : Int), loc2.candidate = upd loc.candidate i 0 →
      loc2.buffers = upd loc.buffers i b → Candidates size loc2 s3 := by
    intro loc2 b h1 h2 j
    by_cases hj : j = i
    · intro h
      exfalso
      apply h
      rw [h1, hj, upd_same]
    · exact hoth loc2 0 b h1 h2 j hj
  by_cases c5 : loc.buffers i - 1 < 0
  · rw [if_pos c5] at ec
    cases ec
  rw [if_neg c5] at ec
  by_cases c6 : loc.buffers i - 1 = 0
  · rw [if_pos c6, if_neg (fun h => h.1 rfl)] at ec
    exact ⟨_, s3, hs3, hzero _ _ rfl rfl, hfree, hnol, ec⟩
  rw [if_neg c6] at ec
  by_cases c7 : b_next_free s (loc.candidate i) = loc.candidate i
  · rw [if_pos c7, if_neg (fun h => h.1 rfl)] at ec
    exact ⟨_, s3, hs3, hzero _ _ rfl rfl, hfree, hnol, ec⟩
  rw [if_neg c7] at ec
  have hpos : loc.buffers i - 1 > 0 := by omega
  have hnat : ((((loc.buffers i - 1).toNat + 1 : Nat)) : Int) = loc.buffers i := by
    have := Int.toNat_of_nonneg (le_of_lt hpos)
    push_cast
    omega
  have hpl' : Placed size s i (loc.candidate i)
      ((((loc.buffers i - 1).toNat + 1 : Nat)) : Int) := by
    rw [hnat]
    exact hpl
  have hnx := hpl'.next_pl hs (by
    have := Int.toNat_of_nonneg (le_of_lt hpos)
    omega)
  by_cases c8 : b_next_free s (loc.candidate i) ≠ 0 ∧ loc.buffers i - 1 > 0
  · rw [if_pos c8] at ec
    obtain ⟨loc3, s4, e4, e5⟩ := bind_inv ec
    obtain ⟨hs4, hf4, hi4, ho4⟩ := refill_candidate_placed fuel0 size i hid hish _ _ _ loc3 s3 s4
      hs3 (fun _ => hnx.2.2 s3 ha fun l hl => absurd hl (hnol l)) e4
    refine ⟨loc3, s4, hs4, fun j => ?_, by rw [hf4]; exact hfree,
      fun l hl => hs4.tally.free_lru _ l _ (by rw [hf4]; exact hfree) hl, e5⟩
    by_cases hj : j = i
    · rw [hj]
      exact hi4
    · exact ho4 j hj (hoth _ _ _ rfl rfl j hj)
  · exact absurd ⟨fun h => by
      have := (hs.tally.carved_lru _ _ hnx.1).1
      omega, hpos⟩ c8


theorem Sound.step {α : Type} {m : K α} {s s' : State} {a : α} {Q : α → State → Prop}
    (hs : Sound s) (hp : Post m False s Q) (ht : KeepsR Tallies m) (hf : KeepsR Filed m)
    (e : m s = .ok a s') : Sound s' :=
  ⟨(hp.ok hs.inv e).1, ht s a s' e hs.tally, (hf s a s' e).all hs.filed⟩

theorem refill_reclaim_sound (fuel0 size fuel : Nat) (loc loc' : RefillLocals) (s s' : State)
    (hs : Sound s) (e : refill_reclaim fuel0 size fuel loc s = .ok loc' s') : Sound s' :=
  hs.step (refill_reclaim_post fuel0 size fuel loc s)
    (KeepsR.mono_R (moves_refill_reclaim _ _ _ _) fun _ _ => Moves.tallies_mv)
    (filed_refill_reclaim _ _ _ _) e

/-- A pass of `refill_freelist` from the label `repeat0`, started in a sound state: the
loop at `repeat0` sets sound candidates, the loop at `repeat` starts with them and ends in
a sound state, and a further pass, if any, starts in a sound state again. -/
theorem refill_repeat0_sound (fuel0 size fuel : Nat) (needed : Int) (s s' : State)
    (hs : Sound s) (e : refill_repeat0 fuel0 size (fuel + 1) needed s = .ok () s') :
    ∃ loc s1 loc2 s2,
      refill_init fuel0 size ALL_LISTS { needed := needed } s = .ok loc s1 ∧
      Sound s1 ∧ Candidates size loc s1 ∧
      refill_reclaim fuel0 size fuel0 loc s1 = .ok loc2 s2 ∧ Sound s2 ∧
      ((loc2.needed ≤ 0 ∧ s' = s2) ∨
        (0 < loc2.needed ∧ ∃ s3, Sound s3 ∧
          refill_repeat0 fuel0 size fuel (loc2.needed - PAGE_SIZE) s3 = .ok () s')) := by
  unfold refill_repeat0 at e
  obtain ⟨loc, s1, e1, ea⟩ := bind_inv e
  obtain ⟨loc2, s2, e2, eb⟩ := bind_inv ea
  clear e ea
  obtain ⟨hs1, _, hc1⟩ := refill_init_placed fuel0 size ALL_LISTS _ loc s s1 hs
    (fun j hj => absurd (all_lists_mem j) hj) e1
  have hs2 := refill_reclaim_sound fuel0 size fuel0 loc loc2 s1 s2 hs1 e2
  refine ⟨loc, s1, loc2, s2, e1, hs1, hc1, e2, hs2, ?_⟩
  by_cases c : loc2.needed ≤ 0
  · rw [if_pos c] at eb
    cases eb
    exact Or.inl ⟨c, rfl⟩
  rw [if_neg c, bind_run, getS_run] at eb
  dsimp only at eb
  obtain ⟨r, s3, e3, ec⟩ := bind_inv eb
  have hs3 : Sound s3 := by
    by_cases c3 : s2.nr_free_pages > 5
    · rw [if_pos c3] at e3
      exact hs2.step (grow_buffers_post _ _ _ s2) (tallies_grow_buffers _ _ _)
        (filed_grow_buffers _ _ _) e3
    · rw [if_neg c3] at e3
      cases e3
      exact hs2
  refine Or.inr ⟨not_le.mp c, ?_⟩
  by_cases c4 : r ≠ 0
  · rw [if_pos c4] at ec
    exact ⟨s3, hs3, ec⟩
  rw [if_neg c4] at ec
  obtain ⟨r4, s4, e4, ed⟩ := bind_inv ec
  have hs4 : Sound s4 := hs3.step (grow_buffers_post _ _ _ s3) (tallies_grow_buffers _ _ _)
    (filed_grow_buffers _ _ _) e4
  by_cases c5 : r4 = 0
  · rw [if_pos c5] at ed
    obtain ⟨a5, s5, e5, ee⟩ := bind_inv ed
    exact ⟨s5, hs4.step (wakeup_bdflush_post _ _ s4)
      (KeepsR.mono_R (moves_wakeup_bdflush_refile _ _ _) fun _ _ => Moves.tallies_mv)
      (filed_wakeup_bdflush_refile _ _ _) e5, ee⟩
  · rw [if_neg c5] at ed
    exact ⟨s4, hs4, ed⟩

/-- From a reachable state `refill_freelist` returns at once or after growing the cache, or
it comes to the label `repeat0` in a sound state. -/
theorem refill_freelist_sound (fuel size : Nat) (s s' : State) (h : Reachable s)
    (e : refill_freelist fuel size s = .ok () s') :
    Sound s' ∧ (s.nr_free (BUFSIZE_INDEX size) > 100 ∨
      (∃ needed s1, refill_grow fuel size fuel (s.nrefill * size) s = .ok needed s1 ∧
        ((needed ≤ 0 ∧ s' = s1) ∨
          ∃ r s2, refill_lav fuel size fuel needed s1 = .ok r s2 ∧
            ((r.2 = true ∧ s' = s2) ∨
              (Sound s2 ∧ refill_repeat0 fuel size fuel r.1 s2 = .ok () s'))))) := by
  have hs := reachable_sound h
  refine ⟨hs.step (refill_freelist_post fuel size s) (tallies_refill_freelist _ _)
    (filed_refill_freelist _ _) e, ?_⟩
  unfold refill_freelist at e
  rw [bind_run, getS_run] at e
  dsimp only at e
  by_cases c : s.nr_free (BUFSIZE_INDEX size) > 100
  · exact Or.inl c
  rw [if_neg c] at e
  obtain ⟨needed, s1, e1, ea⟩ := bind_inv e
  refine Or.inr ⟨needed, s1, e1, ?_⟩
  have hs1 : Sound s1 := hs.step (refill_grow_post _ _ _ _ s) (tallies_refill_grow _ _ _ _)
    (filed_refill_grow _ _ _ _) e1
  by_cases c1 : needed ≤ 0
  · rw [if_pos c1] at ea
    cases ea
    exact Or.inl ⟨c1, rfl⟩
  rw [if_neg c1] at ea
  obtain ⟨r, s2, e2, eb⟩ := bind_inv ea
  refine Or.inr ⟨r, s2, e2, ?_⟩
  have hs2 : Sound s2 := hs1.step (refill_lav_post _ _ _ _ s1) (tallies_refill_lav _ _ _ _)
    (filed_refill_lav _ _ _ _) e2
  by_cases c2 : r.2 = true
  · rw [if_pos c2] at eb
    cases eb
    exact Or.inl ⟨c2, rfl⟩
  rw [if_neg c2] at eb
  exact Or.inr ⟨hs2, eb⟩

theorem lru6_first_reachable : Reachable lru6_first := by
  have h0 : Reachable (buffer_init 10 boot3).state := boot3_init_reachable
  have g : ∀ s block, Reachable s → (getblk 30 0x301 block 1024 s).isOk = true →
      Reachable (getblk 30 0x301 block 1024 s).state := fun s block h e =>
    Reachable.getblk _ _ 30 0x301 block 1024 _ h (by decide) (Res.eq_ok _ e)
  have h1 := g _ 1 h0 (by decide!)
  have h2 := g _ 2 h1 (by decide!)
  have h3 := g _ 3 h2 (by decide!)
  have h4 := g _ 4 h3 (by decide!)
  have h5 := g _ 5 h4 (by decide!)
  have h6 : Reachable lru6_held := g _ 6 h5 (by decide!)
  exact Reachable.brelse _ _ 30 58 (Reachable.tick _ 10 h6) (Res.eq_ok_unit _ (by decide!))

/-- C24 (amended): the descriptors that `refill_freelist(size)` moves from a disposition
list to the free list.  Called in a reachable state, the function comes to the label
`repeat0` only in a sound state (the structural invariant, the tallies of the lists, every
dirty head on the DIRTY list).  A pass from `repeat0` started in a sound state sets sound
candidates in the loop over the lists, runs the loop at `repeat` with them, and a further
pass starts in a sound state again.  A turn of the loop at `repeat` that elects the list
`i`, in a sound state with sound candidates, has for victim `candidate[i]`, a head that is
unreferenced, of the size asked for, alone on its page, clean and unlocked, and not free;
`i` is neither DIRTY nor SHARED, the victim is on the list `i` and no head before it on
that list is usable, and it is on neither the DIRTY nor the SHARED list; its `b_lru_time`
is the smallest among the candidates of the lists, and strictly smaller than that of the
candidates of the lists before `i`; when the run returns, the victim has come to the free
list of its size and is on no disposition list, and the loop goes on in a sound state with
sound candidates.  With nothing needed or no list elected the loop moves nothing. -/
theorem refill_freelist_victim (fuel0 size : Nat) :
    (∀ s s', Reachable s → refill_freelist fuel0 size s = .ok () s' →
      Sound s' ∧ (s.nr_free (BUFSIZE_INDEX size) > 100 ∨
        ∃ needed s1, refill_grow fuel0 size fuel0 (s.nrefill * size) s = .ok needed s1 ∧
          ((needed ≤ 0 ∧ s' = s1) ∨
            ∃ r s2, refill_lav fuel0 size fuel0 needed s1 = .ok r s2 ∧
              ((r.2 = true ∧ s' = s2) ∨
                (Sound s2 ∧ refill_repeat0 fuel0 size fuel0 r.1 s2 = .ok () s'))))) ∧
    (∀ fuel needed s s', Sound s → refill_repeat0 fuel0 size (fuel + 1) needed s = .ok () s' →
      ∃ loc s1 loc2 s2,
        refill_init fuel0 size ALL_LISTS { needed := needed } s = .ok loc s1 ∧
        Sound s1 ∧ Candidates size loc s1 ∧
        refill_reclaim fuel0 size fuel0 loc s1 = .ok loc2 s2 ∧ Sound s2 ∧
        ((loc2.needed ≤ 0 ∧ s' = s2) ∨
          (0 < loc2.needed ∧ ∃ s3, Sound s3 ∧
            refill_repeat0 fuel0 size fuel (loc2.needed - PAGE_SIZE) s3 = .ok () s'))) ∧
    (∀ fuel loc s i, Sound s → Candidates size loc s → 0 < loc.needed →
      refill_election s loc.candidate ALL_LISTS UINT_MAX none = some i →
      (loc.candidate i ≠ 0 ∧ i ≠ BUF_DIRTY ∧ i ≠ BUF_SHARED ∧
        Usable size s (loc.candidate i) ∧ (s.b (loc.candidate i)).b_dev ≠ B_FREE ∧
        (∃ pre post, s.lru_list i = pre ++ loc.candidate i :: post ∧
          ∀ y ∈ pre, ¬ Usable size s y) ∧
        loc.candidate i ∉ s.lru_list BUF_DIRTY ∧ loc.candidate i ∉ s.lru_list BUF_SHARED ∧
        (∀ j, loc.candidate j ≠ 0 →
          (s.b (loc.candidate i)).b_lru_time ≤ (s.b (loc.candidate j)).b_lru_time) ∧
        ∃ pre post, ALL_LISTS = pre ++ i :: post ∧ ∀ j ∈ pre, loc.candidate j ≠ 0 →
          (s.b (loc.candidate i)).b_lru_time < (s.b (loc.candidate j)).b_lru_time) ∧
      ∀ r s', refill_reclaim fuel0 size (fuel + 1) loc s = .ok r s' →
        ∃ loc1 s1, Sound s1 ∧ Candidates size loc1 s1 ∧
          loc.candidate i ∈ s1.free_list (BUFSIZE_INDEX size) ∧
          (∀ l, loc.candidate i ∉ s1.lru_list l) ∧
          refill_reclaim fuel0 size fuel loc1 s1 = .ok r s') ∧
    ∀ fuel loc s, loc.needed ≤ 0 ∨
        refill_election s loc.candidate ALL_LISTS UINT_MAX none = none →
      refill_reclaim fuel0 size (fuel + 1) loc s = .ok loc s := by
  refine ⟨fun s s' h e => refill_freelist_sound fuel0 size s s' h e,
    fun fuel needed s s' hs e => refill_repeat0_sound fuel0 size fuel needed s s' hs e,
    fun fuel loc s i hs hc hn hw => refill_reclaim_turn fuel0 size fuel loc s i hs hc hn hw,
    fun fuel loc s h => ?_⟩
  unfold refill_reclaim
  by_cases c : loc.needed ≤ 0
  · rw [if_pos c]
    rfl
  · rw [if_neg c, bind_run, getS_run]
    dsimp only
    rw [h.resolve_left c]
    rfl

/-- Witness for C24: in the reachable state `lru6_first` the heads 61, 62, 63, 64 and 57,
the first five of the CLEAN list, are referenced and head 58 behind them is released.  The
loop at `repeat0` makes head 58 the candidate of the CLEAN list, which is elected, and the
victim is usable and the first usable head of its list. -/
theorem refill_freelist_victim_witness :
    Reachable lru6_first ∧ lru6_first_init.isOk = true ∧
      lru6_first_init.state.lru_list BUF_CLEAN = [61, 62, 63, 64, 57, 58] ∧
      (∀ x ∈ [61, 62, 63, 64, 57], (lru6_first_init.state.b x).b_count = 1) ∧
      lru6_first_init.val.candidate BUF_CLEAN = 58 ∧
      0 < lru6_first_init.val.needed ∧
      refill_election lru6_first_init.state lru6_first_init.val.candidate ALL_LISTS UINT_MAX
        none = some BUF_CLEAN ∧
      Usable 1024 lru6_first_init.state (lru6_first_init.val.candidate BUF_CLEAN) ∧
      ∃ pre post, lru6_first_init.state.lru_list BUF_CLEAN =
          pre ++ lru6_first_init.val.candidate BUF_CLEAN :: post ∧
        ∀ y ∈ pre, ¬ Usable 1024 lru6_first_init.state y :=
  have h := refill_init_placed 30 1024 ALL_LISTS { needed := 1024 } lru6_first_init.val
    lru6_first lru6_first_init.state (reachable_sound lru6_first_reachable)
    (fun j hj => absurd (all_lists_mem j) hj) (Res.eq_ok lru6_first_init (by decide!))
  have t := ((refill_freelist_victim 30 1024).2.2.1 0 lru6_first_init.val
    lru6_first_init.state BUF_CLEAN h.1 h.2.2 (by decide!) (by decide!)).1
  ⟨lru6_first_reachable, by decide!, by decide!, by decide!, by decide!, by decide!,
    by decide!, t.2.2.2.1, t.2.2.2.2.2.1⟩

theorem Slots.same_sl {s s' : State} {k : Nat} (h : Slots s k) (q : SameQueue s s') :
    Slots s' k := by
  refine ⟨fun n hn => ?_, h.2.same_fs q.dev⟩
  rw [q.prev_found]
  exact h.1 n (by rw [← q.prev_limit]; exact hn)

theorem Slots.less_sl {s : State} {k : Nat} (h : Slots s (k + 1)) : Slots s k :=
  ⟨h.1, h.2.less_fs⟩

theorem make_request_queue_slots (f fuel major : Nat) (rw : Rw) (ra : Bool)
    (bh sector count : Nat) (k : Nat) (s : State) (hI : Inv s)
    (hl : Linked s bh) (hb : Slots s (k + 1)) (hf : NR_REQUEST ≤ fuel) :
    Runs (make_request_queue (refile_buffer (f + 1)) fuel major rw ra bh sector count) s
      fun _ s' => Slots s' k := by
  unfold make_request_queue
  refine Runs.getS_bind_r ?_
  dsimp only
  split
  · rename_i req _
    refine Runs.setB_head_r fun s1 e1 => ?_
    have hc1 : SameCore s s1 := by
      rw [e1]
      exact sameCore_setB s _ _ rfl rfl rfl rfl rfl rfl rfl
    have hq1 : SameQueue s s1 := by
      rw [e1]
      exact sameQueue_setB s _ _
    refine Runs.bind_r (R := fun _ s2 => s2 = (setR req (fun r =>
      { r with bhtail := bh, nr_sectors := r.nr_sectors + count }) s1).state)
      ⟨(), _, rfl, rfl⟩ ?_
    intro _ s2 _ e2
    have hc2 : SameCore s1 s2 := by
      have := quiet_setR req (fun r =>
        { r with bhtail := bh, nr_sectors := r.nr_sectors + count }) s1
      rw [e2]
      exact this
    have hq2 : SameQueue s1 s2 := by
      rw [e2]
      exact sameQueue_setR s1 _ _ fun _ => rfl
    refine (mark_buffer_clean_runs f bh s2 (hc2.inv_sc (hc1.inv_sc hI))
      ((hc2.linked bh).mpr ((hc1.linked bh).mpr hl))).mono_r fun a s' e _ => ?_
    exact ((hb.less_sl.same_sl hq1).same_sl hq2).same_sl (sameQueue_mark_buffer_clean _ bh s2 a s' e)
  · rename_i req _
    refine Runs.setB_head_r fun s1 e1 => ?_
    have hc1 : SameCore s s1 := by
      rw [e1]
      exact sameCore_setB s _ _ rfl rfl rfl rfl rfl rfl rfl
    have hq1 : SameQueue s s1 := by
      rw [e1]
      exact sameQueue_setB s _ _
    refine Runs.bind_r (R := fun _ s2 => s2 = (setR req (fun r =>
      { r with nr_sectors := r.nr_sectors + count, buffer := (s.b bh).b_data,
               current_nr_sectors := count, sector := sector }) s1).state)
      ⟨(), _, rfl, rfl⟩ ?_
    intro _ s2 _ e2
    have hc2 : SameCore s1 s2 := by
      have := quiet_setR req (fun r =>
        { r with nr_sectors := r.nr_sectors + count, buffer := (s.b bh).b_data,
                 current_nr_sectors := count, sector := sector }) s1
      rw [e2]
      exact this
    have hq2 : SameQueue s1 s2 := by
      rw [e2]
      exact sameQueue_setR s1 _ _ fun _ => rfl
    refine Runs.bind_r (mark_buffer_clean_runs f bh s2 (hc2.inv_sc (hc1.inv_sc hI))
      ((hc2.linked bh).mpr ((hc1.linked bh).mpr hl))) ?_
    intro a s3 e3 _
    have hq3 := sameQueue_mark_buffer_clean _ bh s2 a s3 e3
    have hq4 : SameQueue s3 (setR req (fun r => { r with bh := bh }) s3).state :=
      sameQueue_setR s3 _ _ fun _ => rfl
    exact ⟨(), _, rfl, (((hb.less_sl.same_sl hq1).same_sl hq2).same_sl hq3).same_sl hq4⟩
  · have hmax : (if rw = Rw.READ then NR_REQUEST else NR_REQUEST * 2 / 3) = 64 ∨
        (if rw = Rw.READ then NR_REQUEST else NR_REQUEST * 2 / 3) = 42 := by
      split_ifs
      · exact Or.inl rfl
      · exact Or.inr rfl
    have hmle : (if rw = Rw.READ then NR_REQUEST else NR_REQUEST * 2 / 3) ≤ fuel := by
      refine Nat.le_trans ?_ hf
      split_ifs <;> decide
    have hm42 : NR_REQUEST * 2 / 3 ≤ (if rw = Rw.READ then NR_REQUEST else NR_REQUEST * 2 / 3) := by
      split_ifs <;> decide
    have hm64 : (if rw = Rw.READ then NR_REQUEST else NR_REQUEST * 2 / 3) ≤ NR_REQUEST := by
      split_ifs <;> decide
    have hfree : ∃ q, q < (if rw = Rw.READ then NR_REQUEST else NR_REQUEST * 2 / 3) ∧
        (s.all_requests q).dev < 0 := by
      obtain ⟨l, -, h2, h3⟩ := hb.2
      cases l with
      | nil => exact absurd h2 (by simp)
      | cons q l =>
        exact ⟨q, Nat.lt_of_lt_of_le (h3 q (List.mem_cons_self _ _)).1 hm42,
          (h3 q (List.mem_cons_self _ _)).2⟩
    have hn0 : (if rw = Rw.READ then NR_REQUEST else NR_REQUEST * 2 / 3) ≠ 0 := by
      split_ifs <;> decide
    refine Runs.bind_r (get_request_runs fuel _ ((s.b bh).b_dev : Int) s hmax hmle hb.1
      hfree) ?_
    intro r s1 e1 ⟨req, hr, hlt, hfr, hpl, hpf, har, hcr, hfc, hb1⟩
    subst hr
    dsimp only
    have hc1 : SameCore s s1 := by
      have := quiet_get_request fuel _ ((s.b bh).b_dev : Int) hn0 s
      rw [e1] at this
      exact this
    refine Runs.bind_r (R := fun _ s2 => s2 = (setR req (fun r =>
      { r with cmd := rw.val, errors := 0, sector := sector, nr_sectors := count,
               current_nr_sectors := count, buffer := (s.b bh).b_data, sem := false,
               bh := bh, bhtail := bh }) s1).state) ⟨(), _, rfl, rfl⟩ ?_
    intro _ s2 _ e2
    have hc2 : SameCore s1 s2 := by
      have := quiet_setR req (fun r =>
        { r with cmd := rw.val, errors := 0, sector := sector, nr_sectors := count,
                 current_nr_sectors := count, buffer := (s.b bh).b_data, sem := false,
                 bh := bh, bhtail := bh }) s1
      rw [e2]
      exact this
    have hI2 : Inv s2 := hc2.inv_sc (hc1.inv_sc hI)
    have hl2 : Linked s2 bh := (hc2.linked bh).mpr ((hc1.linked bh).mpr hl)
    have hr2 : s2.all_requests req = { (s1.all_requests req) with
        cmd := rw.val, errors := 0, sector := sector, nr_sectors := count,
        current_nr_sectors := count, buffer := (s.b bh).b_data, sem := false,
        bh := bh, bhtail := bh } := by
      rw [e2]
      show upd s1.all_requests req _ req = _
      rw [upd_same]
    have hq12 : SameQueue s1 s2 := by
      rw [e2]
      exact sameQueue_setR s1 _ _ fun _ => rfl
    have hd2 := hq12.dev
    have hq2 : s2.current_request = s.current_request := by rw [e2]; exact hcr
    have hf2 : s2.request_fn_calls = s.request_fn_calls := by rw [e2]; exact hfc
    have hp2 : s2.prev_limit = s1.prev_limit ∧ s2.prev_found = s1.prev_found := by
      rw [e2]
      exact ⟨rfl, rfl⟩
    obtain ⟨s', e⟩ := add_request_runs f major req s2 hI2 (Or.inr (by rw [hr2]; exact hl2))
    obtain ⟨hr', hq', hc', -⟩ := add_request_queue (f + 1) major req s2 s' e
    have hs' := add_request_search (f + 1) major req s2 () s' e
    refine ⟨(), s', e, ?_, ?_⟩
    · intro n hn
      rw [hs'.1, hp2.1, hpl] at hn
      rw [hs'.2, hp2.2, hpf]
      cases hn
      exact hlt
    · refine hb.2.take req fun r hr => ?_
      rw [hr', hd2, har, upd_other _ _ _ _ hr]

/-- The function `make_request` returns for a linked buffer as long as a request slot for
writes is free and the slot search is within its limit; it takes one slot at most. -/
theorem make_request_slots (f fuel major : Nat) (rw : Rw) (bh : Nat)
    (k : Nat) (s : State) (hI : Inv s) (hl : Linked s bh)
    (hb : Slots s (k + 1)) (hf : NR_REQUEST ≤ fuel) :
    Runs (make_request (refile_buffer (f + 1)) fuel major rw bh) s
      fun _ s' => Slots s' k := by
  unfold make_request
  refine Runs.getS_bind_r ?_
  dsimp only
  refine Runs.ite_r (fun _ => Runs.pure_r hb.less_sl) fun _ => ?_
  refine Runs.ite_r (fun _ => Runs.setB_r (hb.less_sl.same_sl (sameQueue_setB s _ _))) fun _ => ?_
  refine Runs.ite_r (fun _ => Runs.pure_r hb.less_sl) fun hlk => ?_
  have hlock : (s.b bh).b_lock = false := by simpa using hlk
  refine Runs.bind_r (R := fun _ s1 => s1 = (setB bh (fun v => { v with b_lock := true }) s).state)
    ⟨(), _, lock_buffer_unlocked bh s hlock, rfl⟩ ?_
  intro _ s1 _ e1
  have hc1 : SameCore s s1 := by
    rw [e1]
    exact sameCore_setB s bh _ rfl rfl rfl rfl rfl rfl rfl
  have hq1 : SameQueue s s1 := by
    rw [e1]
    exact sameQueue_setB s _ _
  refine Runs.getS_bind_r ?_
  refine Runs.ite_r (fun _ => ?_) fun _ => ?_
  · unfold unlock_buffer
    exact Runs.setB_r ((hb.less_sl.same_sl hq1).same_sl (sameQueue_setB s1 _ _))
  · exact make_request_queue_slots f fuel major _ _ bh _ _ k s1 (hc1.inv_sc hI)
      ((hc1.linked bh).mpr hl) (hb.same_sl hq1) hf

theorem sameQueue_sorry_exit : ∀ (bhs : List Nat), KeepsR SameQueue ( ll_rw_block_sorry bhs)
  | [] => KeepsR.pure_R SameQueue.pre_sq _
  | bh :: rest => by
    unfold ll_rw_block_sorry
    dsimp only
    rw [ite_bind_jp]
    exact KeepsR.bind_R SameQueue.pre_sq (KeepsR.ite_R
      (fun _ => KeepsR.setB_R _ _ fun s => sameQueue_setB s _ _)
      fun _ => KeepsR.pure_R SameQueue.pre_sq _) fun _ => sameQueue_sorry_exit rest

theorem printk_sorry_slots (m : Kmsg) (bhs : List Nat) (s : State) (k : Nat) (hb : Slots s k) :
    Runs (printk m >>= fun _ => ll_rw_block_sorry bhs) s fun _ s' => Slots s' k := by
  refine (printk_sorry_runs m bhs s).mono_r fun a s' e _ => ?_
  refine hb.same_sl ?_
  revert e
  refine KeepsR.bind_R SameQueue.pre_sq ?_ (fun _ => sameQueue_sorry_exit bhs) s a s'
  unfold printk
  exact KeepsR.modS_R _ fun _ => ⟨rfl, rfl, rfl, rfl, fun _ => rfl⟩

/-- The function `ll_rw_block` on one linked buffer returns as long as a request slot for
writes is free and the slot search is within its limit; it takes one slot at most. -/
theorem ll_rw_block_one_slots (f fuel : Nat) (rw : Rw) (x k : Nat) (s : State) (hI : Inv s)
    (hl : Linked s x) (h0 : x ≠ 0) (hb : Slots s (k + 1)) (hf : NR_REQUEST ≤ fuel) :
    Runs (ll_rw_block (refile_buffer (f + 1)) fuel rw [x]) s fun _ s' => Slots s' k := by
  have hdw : [x].dropWhile (fun y => y == 0) = [x] := by
    rw [List.dropWhile_cons_of_neg (by simp [h0])]
  unfold ll_rw_block
  rw [hdw]
  dsimp only
  refine Runs.getS_bind_r ?_
  dsimp only
  refine Runs.ite_r (fun _ => printk_sorry_slots _ _ s k hb.less_sl) fun _ => ?_
  split
  · exact printk_sorry_slots _ _ s k hb.less_sl
  refine Runs.ite_r (fun _ => printk_sorry_slots _ _ s k hb.less_sl) fun _ => ?_
  have hnp : decide (s.current_request (MAJOR (s.b x).b_dev) = [] ∧ [x].length > 1) = false := by
    simp
  rw [hnp, if_neg Bool.false_ne_true, if_neg Bool.false_ne_true]
  refine Runs.bind_r (R := fun _ s1 => s1 = s) (Runs.pure_r rfl) ?_
  intro _ s1 _ e1
  subst e1
  refine Runs.bind_r (R := fun _ s' => Slots s' k) ?_ (fun _ s' _ h => Runs.pure_r h)
  unfold ll_rw_block_loop
  rw [if_pos h0]
  refine Runs.setB_head_r fun s2 e2 => ?_
  have hc2 : SameCore s1 s2 := by
    rw [e2]
    exact sameCore_setB s1 x _ rfl rfl rfl rfl rfl rfl rfl
  have hq2 : SameQueue s1 s2 := by
    rw [e2]
    exact sameQueue_setB s1 _ _
  refine Runs.bind_r (make_request_slots f fuel _ rw x k s2 (hc2.inv_sc hI)
    ((hc2.linked x).mpr hl) (hb.same_sl hq2) hf) ?_
  intro _ s3 _ h3
  refine Runs.ite_r (fun _ => Runs.modS_head_r fun s4 e4 => ?_)
    fun _ => Runs.modS_head_r fun s4 e4 => ?_
  · exact Runs.pure_r (h3.same_sl (by rw [e4]; exact ⟨rfl, rfl, rfl, rfl, fun _ => rfl⟩))
  · exact Runs.pure_r (h3.same_sl (by rw [e4]; exact ⟨rfl, rfl, rfl, rfl, fun _ => rfl⟩))

/-- The inner loop of `sync_old_buffers` over the DIRTY list returns when a request slot
for writes is free for each buffer that is due. -/
theorem sync_old_scan_runs (f : Nat) (hf : NR_REQUEST ≤ f + 1) : ∀ (i : Nat)
    (post pre : List Nat) (x : Nat) (loc : OldLocals) (s : State) (k : Nat),
    Inv s → Tally s → s.lru_list BUF_DIRTY = pre ++ x :: post → i ≤ post.length + 1 →
      Slots s k → (((x :: post).take i).filter (due s)).length ≤ k →
      Runs (sync_old_buffers_scan (f + 1) BUF_DIRTY i x loc) s fun _ _ => True := by
  intro i
  induction i with
  | zero =>
    intro post pre x loc s k _ _ _ _ _ _
    exact Runs.pure_r trivial
  | succ i ih =>
    intro post pre x loc s k hI t hl hi hb hk
    have hx : x ∈ s.lru_list BUF_DIRTY := by
      rw [hl]
      exact List.mem_append_right _ (List.mem_cons_self _ _)
    have hlist := hI.lru_list _ _ hx
    have hlk : Linked s x := by
      unfold Linked
      rw [hlist]
      exact hx
    have hnd : (pre ++ x :: post).Nodup := hl ▸ t.lru_nodup BUF_DIRTY
    have hx0 : x ≠ 0 := fun h => by
      have := (t.carved_lru _ _ hx).1
      omega
    have hxpre : x ∉ pre := fun h => (List.nodup_append.mp hnd).2.2 h (List.mem_cons_self _ _)
    have hxpost : x ∉ post := (List.nodup_cons.mp (List.nodup_append.mp hnd).2.1).1
    have hne : s.lru_list BUF_DIRTY ≠ [] := fun h => by
      rw [h] at hx
      cases hx
    have hrec : ∀ (loc1 : OldLocals) (s1 : State) (k1 : Nat), Inv s1 → Tally s1 →
        Touched x s s1 → Slots s1 k1 → ((post.take i).filter (due s)).length ≤ k1 →
        Runs (sync_old_buffers_scan (f + 1) BUF_DIRTY i (b_next_free s x) loc1) s1
          fun _ _ => True := by
      intro loc1 s1 k1 hI1 t1 h1 hb1 hk1
      cases i with
      | zero => exact Runs.pure_r trivial
      | succ i =>
        cases post with
        | nil => simp at hi
        | cons y post' =>
          have hnext : b_next_free s x = y := by
            unfold b_next_free ring_of
            rw [if_neg (hI.lru_dev _ _ hx), hlist, hl, ring_next_split pre _ x hxpre]
            rfl
          rw [hnext]
          obtain ⟨pre', hl1⟩ := h1.behind hl hnd y post' rfl
          refine ih post' pre' y loc1 s1 k1 hI1 t1 hl1 (by simp at hi ⊢; omega) hb1 ?_
          have : ((y :: post').take (i + 1)).filter (due s1) =
              ((y :: post').take (i + 1)).filter (due s) := by
            refine List.filter_congr fun z hz => ?_
            have hz' : z ∈ y :: post' := List.mem_of_mem_take hz
            exact due_congr h1 fun hzx => hxpost (hzx ▸ hz')
          rw [this]
          exact hk1
    have htake : (x :: post).take (i + 1) = x :: post.take i := rfl
    rw [htake] at hk
    unfold sync_old_buffers_scan
    refine Runs.getS_bind_r ?_
    dsimp only
    rw [if_neg (not_not.mpr hlist), if_neg hne]
    by_cases c1 : BUF_DIRTY = BUF_DIRTY ∧ (s.b x).b_dirt = false ∧ (s.b x).b_lock = false
    · rw [if_pos c1]
      have hnd1 : due s x = false := by
        unfold due
        rw [c1.2.1]
        rfl
      rw [List.filter_cons_of_neg (by rw [hnd1]; exact Bool.false_ne_true)] at hk
      refine Runs.bind_r (refile_runs f x s hI hlk (Or.inr c1.2.1)) ?_
      intro a1 s1 e1 _
      exact hrec loc s1 k ((refile_buffer_good (f + 1) x s).ok hI e1).1
        (moves_refile_buffer (f + 1) x s a1 s1 e1 t).1
        (refile_clean_touched (f + 1) x s c1.2.1 a1 s1 e1)
        (hb.same_sl (refile_clean_queue (f + 1) x s c1.2.1 a1 s1 e1)) hk
    rw [if_neg c1]
    by_cases c2 : (s.b x).b_lock = true ∨ (s.b x).b_dirt = false
    · rw [if_pos c2]
      have hnd2 : due s x = false := by
        unfold due
        rcases c2 with c2 | c2 <;> rw [c2] <;> simp
      rw [List.filter_cons_of_neg (by rw [hnd2]; exact Bool.false_ne_true)] at hk
      exact hrec loc s k hI t (Touched.pre_tc.refl s) hb hk
    rw [if_neg c2]
    by_cases c3 : (s.b x).b_flushtime > s.jiffies
    · rw [if_pos c3]
      have hnd3 : due s x = false := by
        unfold due
        simp only [Bool.and_eq_false_imp, Bool.and_eq_true, decide_eq_false_iff_not, not_le]
        exact fun _ => c3
      rw [List.filter_cons_of_neg (by rw [hnd3]; exact Bool.false_ne_true)] at hk
      exact hrec _ s k hI t (Touched.pre_tc.refl s) hb hk
    rw [if_neg c3]
    have hdue : due s x = true := by
      unfold due
      have hd : (s.b x).b_dirt = true := by
        cases h : (s.b x).b_dirt
        · exact absurd (Or.inr h) c2
        · rfl
      have hk : (s.b x).b_lock = false := by
        cases h : (s.b x).b_lock
        · rfl
        · exact absurd (Or.inl h) c2
      rw [hd, hk]
      simpa using c3
    rw [List.filter_cons_of_pos hdue, List.length_cons] at hk
    obtain ⟨k', rfl⟩ : ∃ k', k = k' + 1 := ⟨k - 1, by omega⟩
    refine Runs.bind_r (R := fun _ _ => True) (Runs.setB_r trivial) ?_
    intro a1 s1 e1 _
    have p1 := pin_inv hI (Or.inr hlk)
      (setHead_setB s x fun h => { h with b_count := h.b_count + 1, b_flushtime := 0 })
      ⟨rfl, rfl, rfl, rfl, rfl, rfl⟩
    have hs1 : s1 = (setB x (fun h => { h with b_count := h.b_count + 1, b_flushtime := 0 })
        s).state := by
      cases e1
      rfl
    have hI1 : Inv s1 := by
      rw [hs1]
      exact p1.1
    have hl1 : Linked s1 x := by
      rw [hs1]
      exact (p1.2 x).mpr hlk
    have hb1 : Slots s1 (k' + 1) := by
      rw [hs1]
      exact hb.same_sl (sameQueue_setB s _ _)
    refine Runs.bind_r (ll_rw_block_one_slots f (f + 1) .WRITE x k' s1 hI1 hl1 hx0 hb1 hf) ?_
    intro a2 s2 e2 hb2
    refine Runs.bind_r (R := fun _ _ => True) (Runs.setB_r trivial) ?_
    intro a3 s3 e3 _
    have e123 : (setB x (fun h => { h with b_count := h.b_count + 1, b_flushtime := 0 }) >>=
        fun _ => ll_rw_block (refile_buffer (f + 1)) (f + 1) .WRITE [x] >>= fun _ =>
        setB x (fun h => { h with b_count := h.b_count - 1 }) >>= fun _ => (pure () : K Unit)) s
          = .ok () s3 := by
      rw [bind_run, e1]
      dsimp only
      rw [bind_run, e2]
      dsimp only
      rw [bind_run, e3]
      rfl
    have hI3 := ((pinned_write_post (f + 1) x (fun _ => (pure () : K Unit)) s
      (Q := fun _ _ => True) (Or.inr hlk) fun s' _ _ => Post.pure_p trivial).ok hI e123).1
    have m1 := moves_setB_R x (fun h => { h with b_count := h.b_count + 1, b_flushtime := 0 })
      fun _ => rfl
    have t1 : Tally s1 := (m1 s a1 s1 e1 t).1
    have t2 := (moves_ll_rw_block_refile (f + 1) (f + 1) .WRITE [x] s1 a2 s2 e2 t1).1
    have m3 := moves_setB_R x (fun h => { h with b_count := h.b_count - 1 }) fun _ => rfl
    have t3 : Tally s3 := (m3 s2 a3 s3 e3 t2).1
    have h1 := touched_setB_R x _ s a1 s1 e1
    have h2 := touched_ll_rw_block (f + 1) (f + 1) .WRITE x hx0 s1 a2 s2 e2
    have h3 := touched_setB_R x _ s2 a3 _ e3
    have h13 := Touched.pre_tc.trans _ _ _ (Touched.pre_tc.trans _ _ _ h1 h2) h3
    have hb3 : Slots s3 k' := by
      have hs3 : s3 = (setB x (fun h => { h with b_count := h.b_count - 1 }) s2).state := by
        cases e3
        rfl
      rw [hs3]
      exact hb2.same_sl (sameQueue_setB s2 _ _)
    exact hrec _ s3 k' hI3 t3 h13 hb3 (by omega)

/-- One pass of `sync_old_buffers` over the DIRTY list returns when a request slot for
writes is free for each buffer that is due. -/
theorem sync_old_list_runs (f fuel k : Nat) (loc : OldLocals) (s : State)
    (hf : NR_REQUEST ≤ f + 1) (hI : Inv s) (t : Tally s) (hb : Slots s k)
    (hk : ((s.lru_list BUF_DIRTY).filter (due s)).length ≤ k) :
    ∃ loc' s', sync_old_buffers_list (f + 1) BUF_DIRTY (fuel + 1) loc s = .ok loc' s' := by
  unfold sync_old_buffers_list
  rw [bind_run, getS_run]
  dsimp only
  cases hl : s.lru_list BUF_DIRTY with
  | nil => exact ⟨loc, s, rfl⟩
  | cons x post =>
    dsimp only
    have hn : (s.nr_buffers_type BUF_DIRTY).toNat = post.length + 1 := by
      rw [t.nr_buffers_type, hl]
      simp
    rw [hn]
    rw [hl] at hk
    obtain ⟨r, s1, e1, -⟩ := sync_old_scan_runs f hf (post.length + 1) post [] x loc s k hI t hl
      (le_refl _) hb (by rw [List.take_of_length_le (by simp)]; exact hk)
    have hr := (sync_old_scan_written (f + 1) (post.length + 1) post [] x loc s r s1 hI t hl
      (le_refl _) e1).1
    rw [bind_run, e1]
    dsimp only
    rw [hr]
    exact ⟨r.2, s1, rfl⟩

/-- C19: one pass of `sync_old_buffers` over the DIRTY list, started in a reachable
state, hands to `ll_rw_block(WRITE, ...)` exactly the descriptors of the DIRTY list that
are dirty, unlocked and whose flush deadline `b_flushtime` is not later than the current
time, each once and in list order.  So every such descriptor is written, whatever the
parameters of the daemon (`nfract` among them) and the counters of dirty buffers are, and
no descriptor whose `b_flushtime` is later than the current time is written; `nwritten`
counts the writes.  The state in which the pass ends is the state in which the visits of
the descriptors of the list, one after the other, end; in it every descriptor that was
written is no longer dirty, and a dirty descriptor whose `b_flushtime` is later than the
current time is as it was, but for its request link.  The pass returns when the slot
search of `get_request` is within its limit and a request slot for writes is free for each
descriptor that is due. -/
theorem sync_old_buffers_writes_due (fuel0 fuel : Nat) (s : State) (h : Reachable s) :
    (∀ loc' s', sync_old_buffers_list fuel0 BUF_DIRTY fuel {} s = .ok loc' s' →
      loc'.written = (s.lru_list BUF_DIRTY).filter (due s) ∧
      (∀ x ∈ s.lru_list BUF_DIRTY, (s.b x).b_dirt = true → (s.b x).b_lock = false →
        (s.b x).b_flushtime ≤ s.jiffies → x ∈ loc'.written) ∧
      (∀ x, s.jiffies < (s.b x).b_flushtime → x ∉ loc'.written) ∧
      loc'.written.Nodup ∧
      sync_old_visits fuel0 (s.lru_list BUF_DIRTY) s = .ok () s' ∧
      (∀ x ∈ loc'.written, (s'.b x).b_dirt = false) ∧
      (∀ x ∈ s.lru_list BUF_DIRTY, (s.b x).b_dirt = true → s.jiffies < (s.b x).b_flushtime →
        ∃ r, s'.b x = { (s.b x) with b_reqnext := r })) ∧
    ∀ k, NR_REQUEST ≤ fuel0 → Slots s k →
      ((s.lru_list BUF_DIRTY).filter (due s)).length ≤ k →
      ∃ loc' s', sync_old_buffers_list fuel0 BUF_DIRTY (fuel + 1) {} s = .ok loc' s' := by
  have t := reachable_tally h
  refine ⟨fun loc' s' e => ?_, fun k hf hb hk => ?_⟩
  swap
  · have hm : fuel0 = (fuel0 - 1) + 1 := by
      have h64 : NR_REQUEST = 64 := rfl
      omega
    rw [hm]
    exact sync_old_list_runs _ fuel k {} s (by rw [← hm]; exact hf)
      (reachable_inv h) t hb hk
  have hw := sync_old_list_written fuel0 fuel {} loc' s s' (reachable_inv h) t e
  have hw' : loc'.written = (s.lru_list BUF_DIRTY).filter (due s) := by
    rw [hw.1]
    rfl
  have h0 : ∀ y ∈ s.lru_list BUF_DIRTY, y ≠ 0 := fun y hy h => by
    have := (t.carved_lru _ _ hy).1
    omega
  have hlate : ∀ x, s.jiffies < (s.b x).b_flushtime → due s x = false := by
    intro x hf
    unfold due
    simp only [Bool.and_eq_false_imp, Bool.and_eq_true, decide_eq_false_iff_not, not_le]
    exact fun _ => hf
  refine ⟨hw', ?_, ?_, ?_, hw.2, ?_, ?_⟩
  · intro x hx hd hl hf
    rw [hw']
    refine List.mem_filter.mpr ⟨hx, ?_⟩
    unfold due
    rw [hd, hl]
    simpa using hf
  · intro x hf hx
    rw [hw'] at hx
    have := (List.mem_filter.mp hx).2
    rw [hlate x hf] at this
    cases this
  · rw [hw']
    exact (t.lru_nodup BUF_DIRTY).filter _
  · intro x hx
    rw [hw'] at hx
    obtain ⟨hx1, hx2⟩ := List.mem_filter.mp hx
    exact sync_old_visits_clean fuel0 _ s s' h0 (t.lru_nodup BUF_DIRTY) hw.2 x hx1 hx2
  · intro x hx hd hf
    exact sync_old_visits_skips fuel0 _ s s' h0 (t.lru_nodup BUF_DIRTY) hw.2 x hx hd (hlate x hf)

/-- Witness for C19: on the disk with the daemon registered, heads 61 and 62 are dirty
on the DIRTY list at time 3000, head 61 with deadline 3000 and head 62 with deadline 5000.
The pass returns; head 61 has been written: it is clean, locked, on the LOCKED1 list, and
request slot 41, a write of the two sectors from sector 2 with buffer 61, is the queue of
the disk, whose driver has been called once.  Head 62 is still dirty and unlocked on the
DIRTY list.  One request slot is free, which is enough for the pass to return. -/
theorem sync_old_buffers_writes_due_witness :
    Reachable daemon2_aged ∧ daemon2_aged.lru_list BUF_DIRTY = [61, 62] ∧
      daemon2_aged.jiffies = 3000 ∧
      (daemon2_aged.b 61).b_flushtime = 3000 ∧ (daemon2_aged.b 62).b_flushtime = 5000 ∧
      daemon2_aged.current_request 3 = [] ∧ daemon2_aged.request_fn_calls = [] ∧
      (sync_old_buffers_list 10 BUF_DIRTY 10 {} daemon2_aged).isOk = true ∧
      (sync_old_buffers_list 10 BUF_DIRTY 10 {} daemon2_aged).val.written = [61] ∧
      (61 ∈ (sync_old_buffers_list 10 BUF_DIRTY 10 {} daemon2_aged).val.written ∧
        62 ∉ (sync_old_buffers_list 10 BUF_DIRTY 10 {} daemon2_aged).val.written) ∧
      ((sync_old_buffers_list 10 BUF_DIRTY 10 {} daemon2_aged).state.b 61).b_dirt = false ∧
      ((sync_old_buffers_list 10 BUF_DIRTY 10 {} daemon2_aged).state.b 61).b_lock = true ∧
      (sync_old_buffers_list 10 BUF_DIRTY 10 {} daemon2_aged).state.lru_list BUF_LOCKED1 = [61] ∧
      (sync_old_buffers_list 10 BUF_DIRTY 10 {} daemon2_aged).state.current_request 3 = [41] ∧
      ((sync_old_buffers_list 10 BUF_DIRTY 10 {} daemon2_aged).state.all_requests 41).cmd = 1 ∧
      ((sync_old_buffers_list 10 BUF_DIRTY 10 {} daemon2_aged).state.all_requests 41).bh = 61 ∧
      ((sync_old_buffers_list 10 BUF_DIRTY 10 {} daemon2_aged).state.all_requests 41).sector = 2 ∧
      ((sync_old_buffers_list 10 BUF_DIRTY 10 {} daemon2_aged).state.all_requests 41).nr_sectors
        = 2 ∧
      (sync_old_buffers_list 10 BUF_DIRTY 10 {} daemon2_aged).state.request_fn_calls = [3] ∧
      (sync_old_buffers_list 10 BUF_DIRTY 10 {} daemon2_aged).state.lru_list BUF_DIRTY = [62] ∧
      ((sync_old_buffers_list 10 BUF_DIRTY 10 {} daemon2_aged).state.b 62).b_dirt = true ∧
      ((sync_old_buffers_list 10 BUF_DIRTY 10 {} daemon2_aged).state.b 62).b_lock = false ∧
      Slots daemon2_aged 1 ∧
      ∃ loc' s', sync_old_buffers_list 64 BUF_DIRTY 1 {} daemon2_aged = .ok loc' s' :=
  have e := Res.eq_ok (sync_old_buffers_list 10 BUF_DIRTY 10 {} daemon2_aged) (by decide!)
  have h := (sync_old_buffers_writes_due 10 10 daemon2_aged daemon2_aged_reachable).1 _ _ e
  have hs : Slots daemon2_aged 1 := by
    refine ⟨fun n hn => ?_, [0], List.nodup_singleton 0, le_refl _, fun q hq => ?_⟩
    · have hnone : daemon2_aged.prev_limit = none := by decide!
      rw [hnone] at hn
      cases hn
    · rw [List.mem_singleton.mp hq]
      exact ⟨by decide, by decide!⟩
  ⟨daemon2_aged_reachable, by decide!, by decide!, by decide!, by decide!, by decide!,
    by decide!, by decide!, by decide!,
    ⟨h.2.1 61 (by decide!) (by decide!) (by decide!) (by decide!), h.2.2.1 62 (by decide!)⟩,
    h.2.2.2.2.2.1 61 (h.2.1 61 (by decide!) (by decide!) (by decide!) (by decide!)),
    by decide!, by decide!, by decide!, by decide!, by decide!, by decide!, by decide!,
    by decide!, by decide!, by decide!, by decide!, hs,
    (sync_old_buffers_writes_due 64 0 daemon2_aged daemon2_aged_reachable).2 1 (by decide)
      hs (by decide!)⟩

end Linux12
